import Mathlib

/-!
# MTP initiator (`MTPDevice.cpp`): shallow embedding

The driver state is embedded as a record `MTPDevice`; every C++ member
function becomes a function on that record.  Pointers to `storage_list_t`
are addresses into an explicit heap, so that unlinking, re-linking and
freeing of nodes are modelled as the source performs them.  A step that the
C++ code would execute with undefined behaviour (null dereference, access to
a freed node, double free) or that would never return (walking a cyclic
list) yields a `Fault` instead of a state.
-/

namespace MTP

/-! ## Constants of `utility/MTPDefines.h` -/

def MTP_CONTAINER_TYPE_UNDEFINED : Nat := 0
def MTP_CONTAINER_TYPE_COMMAND : Nat := 1
def MTP_CONTAINER_TYPE_DATA : Nat := 2
def MTP_CONTAINER_TYPE_RESPONSE : Nat := 3
def MTP_CONTAINER_TYPE_EVENT : Nat := 4

def MTP_OPERATION_GET_DEVICE_INFO : Nat := 0x1001
def MTP_OPERATION_OPEN_SESSION : Nat := 0x1002
def MTP_OPERATION_CLOSE_SESSION : Nat := 0x1003
def MTP_OPERATION_GET_STORAGE_IDS : Nat := 0x1004
def MTP_OPERATION_GET_STORAGE_INFO : Nat := 0x1005
def MTP_OPERATION_GET_OBJECT_HANDLES : Nat := 0x1007
def MTP_OPERATION_DELETE_OBJECT : Nat := 0x100B
def MTP_OPERATION_SEND_OBJECT_INFO : Nat := 0x100C
def MTP_OPERATION_SEND_OBJECT : Nat := 0x100D
def MTP_OPERATION_GET_DEVICE_PROP_DESC : Nat := 0x1014
def MTP_OPERATION_GET_OBJECT_PROPS_SUPPORTED : Nat := 0x9801
def MTP_OPERATION_GET_OBJECT_PROP_DESC : Nat := 0x9802
def MTP_OPERATION_GET_OBJECT_PROP_VALUE : Nat := 0x9803

def MTP_RESPONSE_OK : Nat := 0x2001

def MTP_EVENT_OBJECT_ADDED : Nat := 0x4002
def MTP_EVENT_OBJECT_REMOVED : Nat := 0x4003
def MTP_EVENT_STORE_ADDED : Nat := 0x4004
def MTP_EVENT_STORE_FULL : Nat := 0x400A
def MTP_EVENT_STORAGE_INFO_CHANGED : Nat := 0x400C
def MTP_EVENT_OBJECT_PROP_CHANGED : Nat := 0xC801

def MTP_PROPERTY_STORAGE_ID : Nat := 0xDC01
def MTP_PROPERTY_OBJECT_FORMAT : Nat := 0xDC02
def MTP_PROPERTY_PROTECTION_STATUS : Nat := 0xDC03
def MTP_PROPERTY_OBJECT_SIZE : Nat := 0xDC04
def MTP_PROPERTY_OBJECT_FILE_NAME : Nat := 0xDC07
def MTP_PROPERTY_DATE_CREATED : Nat := 0xDC08
def MTP_PROPERTY_DATE_MODIFIED : Nat := 0xDC09
def MTP_PROPERTY_PARENT_OBJECT : Nat := 0xDC0B
def MTP_PROPERTY_PERSISTENT_UID : Nat := 0xDC41
def MTP_PROPERTY_NAME : Nat := 0xDC44

def MTP_DEVICE_PROPERTY_DEVICE_FRIENDLY_NAME : Nat := 0xD402

/-- Compile-time limits that `MTPDevice.cpp` takes from the class declaration
in `MTPDevice.h`; the header is not among the sources, so they are
parameters of the embedding. -/
structure Limits where
  MAX_STORAGES : Nat
  MAX_OBJECT_FORMATS : Nat
  MAX_PENDING_EVENTS : Nat
deriving DecidableEq, Repr

/-! ## Codec

A read cursor `const uint8_t *pdata` is the list of bytes found at and after
the cursor; bytes past the end of the list read as `0`.  The target is
little-endian, so the casts `*(uint16_t*)p` and `*(uint32_t*)p` assemble the
bytes least significant first. -/

/-- Byte `i` after the cursor. -/
def byteAt (p : List Nat) (i : Nat) : Nat := p.getD i 0 % 256

def read8 (pdata : List Nat) : Nat × List Nat :=
  (byteAt pdata 0, pdata.drop 1)

def read16 (pdata : List Nat) : Nat × List Nat :=
  (byteAt pdata 0 + 256 * byteAt pdata 1, pdata.drop 2)

def read32 (pdata : List Nat) : Nat × List Nat :=
  (byteAt pdata 0 + 256 * byteAt pdata 1 + 65536 * byteAt pdata 2
    + 16777216 * byteAt pdata 3, pdata.drop 4)

/-- The loop `for (i = 0; i < 8; i++) u64v.b[i] = *p++` of `read64`,
assembling `n` bytes least significant first. -/
def readBytesLE : Nat → List Nat → Nat
  | 0, _ => 0
  | n + 1, p => byteAt p 0 + 256 * readBytesLE n (p.drop 1)

def read64 (pdata : List Nat) : Nat × List Nat :=
  (readBytesLE 8 pdata, pdata.drop 8)

/-- The loop `while (str_len--) { *str++ = *p; p += 2; }` shared by `readStr`
and `readAndAllocStr`: returns the bytes stored and the advanced cursor. -/
def readStrLoop : Nat → List Nat → List Nat × List Nat
  | 0, p => ([], p)
  | n + 1, p =>
    let r := readStrLoop n (p.drop 2)
    (byteAt p 0 :: r.1, r.2)

/-- `readStr`: the bytes written to `str` (the terminating NUL included) and
the advanced cursor. -/
def readStr (pdata : List Nat) : List Nat × List Nat :=
  let str_len := byteAt pdata 0
  let r := readStrLoop str_len (pdata.drop 1)
  (r.1 ++ [0], r.2)

/-- `strlen`: number of bytes before the first NUL of the memory at `str`. -/
def strlen : List Nat → Nat
  | [] => 0
  | c :: cs => if c % 256 = 0 then 0 else strlen cs + 1

/-- The loop `while (str_len--) { *p++ = *str++; *p++ = 0; }` of `writeStr`. -/
def writeStrLoop : Nat → List Nat → List Nat
  | 0, _ => []
  | n + 1, str => byteAt str 0 :: 0 :: writeStrLoop n (str.drop 1)

/-- `writeStr`: the bytes stored at the write cursor.  `str` is the memory at
the source pointer; `str_len` is a `uint8_t`, so `strlen` is truncated to
eight bits and the pre-increment wraps. -/
def writeStr (str : List Nat) : List Nat :=
  let str_len := strlen str % 256
  if str_len ≠ 0 then
    let str_len1 := (str_len + 1) % 256
    str_len1 :: writeStrLoop str_len1 str
  else [0]

/-- The C string held in a buffer: the bytes before the first NUL. -/
def cstr : List Nat → List Nat
  | [] => []
  | c :: cs => if c % 256 = 0 then [] else c :: cstr cs

/-- `write8`: the body is `uint8_t *p = *pdata; *pdata = p;`, so no byte is
stored and the cursor stays where it is. -/
def write8 (_val : Nat) : List Nat := []

def write16 (val : Nat) : List Nat := [val % 256, val / 256 % 256]

def write32 (val : Nat) : List Nat :=
  [val % 256, val / 256 % 256, val / 65536 % 256, val / 16777216 % 256]

/-- The loop `for (i = 0; i < 8; i++) *p++ = u64v.b[i]` of `write64`: `n`
bytes of `val`, least significant first. -/
def writeBytesLE : Nat → Nat → List Nat
  | 0, _ => []
  | n + 1, val => val % 256 :: writeBytesLE n (val / 256)

def write64 (val : Nat) : List Nat := writeBytesLE 8 val

/-- A write cursor `uint8_t *pdata`: the buffer it points into and its
offset.  The write functions above give the bytes they store; `emit` puts
them at the cursor and moves the cursor past them. -/
structure WriteCursor where
  buf : List Nat
  pos : Nat
deriving DecidableEq, Repr

def WriteCursor.emit (w : WriteCursor) (bytes : List Nat) : WriteCursor :=
  { buf := w.buf.take w.pos ++ bytes ++ w.buf.drop (w.pos + bytes.length),
    pos := w.pos + bytes.length }

/-! ## Heap of `storage_list_t` nodes -/

/-- What the C++ code would do outside defined behaviour. -/
inductive Fault where
  | nullDeref
  | deadPointer
  | doubleFree
  | outOfBounds
  | outOfFuel
deriving DecidableEq, Repr

/-- A `storage_list_t *`: `none` is `nullptr`, `some a` the node at address `a`. -/
abbrev Ptr := Option Nat

/-- Fields of `storage_list_t` that `MTPDevice.cpp` uses. -/
structure storage_list_t where
  id : Nat
  storage_id : Nat
  parent : Ptr
  child : Ptr
  next : Ptr
  format : Nat
  name : Option (List Nat)
  size : Nat
  modify_date : List Nat
deriving DecidableEq, Repr

/-- A node after `memset(node, 0, sizeof(storage_list_t))`. -/
def zeroNode : storage_list_t :=
  { id := 0, storage_id := 0, parent := none, child := none, next := none,
    format := 0, name := none, size := 0, modify_date := [] }

/-- Node memory.  Cell `a` is `some n` while the block at address `a` is
live and `none` once it has been freed.  Addresses below `MAX_STORAGES` are
the members `storage_info_[i].storage`; `extmem_malloc` hands out the next
unused address. -/
abbrev Heap := List (Option storage_list_t)

/-- Read through a node address. -/
def load (m : Heap) (a : Nat) : Except Fault storage_list_t :=
  match m.get? a with
  | some (some n) => .ok n
  | _ => .error .deadPointer

/-- Read through a pointer (`p->...`). -/
def deref (m : Heap) (p : Ptr) : Except Fault storage_list_t :=
  match p with
  | none => .error .nullDeref
  | some a => load m a

/-- Overwrite the node at a live address. -/
def store (m : Heap) (a : Nat) (n : storage_list_t) : Heap := m.set a (some n)

/-- Update the node behind a pointer (`p->field = ...`). -/
def modify (m : Heap) (p : Ptr) (f : storage_list_t → storage_list_t) :
    Except Fault Heap :=
  match p with
  | none => .error .nullDeref
  | some a =>
    match load m a with
    | .ok n => .ok (store m a (f n))
    | .error e => .error e

/-- `extmem_free(item)` for a node. -/
def freeNode (m : Heap) (a : Nat) : Except Fault Heap :=
  match load m a with
  | .ok _ => .ok (m.set a none)
  | .error _ => .error .doubleFree

/-- `freeStorageListTree`: the `while (item)` loop with its recursion into
`item->child`.  Every iteration and every recursive call uses one unit of
`fuel`. -/
def freeStorageListTreeAux : Nat → Heap → Ptr → Except Fault Heap
  | 0, _, _ => .error .outOfFuel
  | _ + 1, m, none => .ok m
  | fuel + 1, m, some a =>
    match load m a with
    | .error e => .error e
    | .ok item =>
      match (if item.child.isSome then freeStorageListTreeAux fuel m item.child else .ok m) with
      | .error e => .error e
      | .ok m1 =>
        match freeNode m1 a with
        | .error e => .error e
        | .ok m2 => freeStorageListTreeAux fuel m2 item.next

/-- `freeStorageListTree(item)`.  A walk that visits more nodes in a row than
the heap has cells is in a cycle. -/
def freeStorageListTree (m : Heap) (item : Ptr) : Except Fault Heap :=
  freeStorageListTreeAux (m.length + 1) m item

/-- `findStorageItem(item, id)`. -/
def findStorageItemAux : Nat → Heap → Ptr → Nat → Except Fault Ptr
  | 0, _, _, _ => .error .outOfFuel
  | _ + 1, _, none, _ => .ok none
  | fuel + 1, m, some a, id =>
    match load m a with
    | .error e => .error e
    | .ok item =>
      if item.id = id then .ok (some a)
      else
        match (if item.child.isSome then findStorageItemAux fuel m item.child id else .ok none) with
        | .error e => .error e
        | .ok (some r) => .ok (some r)
        | .ok none => findStorageItemAux fuel m item.next id

def findStorageItem (m : Heap) (item : Ptr) (id : Nat) : Except Fault Ptr :=
  findStorageItemAux (m.length + 1) m item id

/-- The loop of `findStorageItemByID` from storage index `i`, with `n`
storages left to visit. -/
def findStorageItemByIDLoop (m : Heap) (id : Nat) : Nat → Nat → Except Fault Ptr
  | 0, _ => .ok none
  | n + 1, i =>
    match load m i with
    | .error e => .error e
    | .ok root =>
      if root.id = id then .ok (some i)
      else
        match findStorageItem m root.child id with
        | .error e => .error e
        | .ok (some r) => .ok (some r)
        | .ok none => findStorageItemByIDLoop m id n (i + 1)

/-! ## Driver state -/

/-- One slot of `pending_events_`. -/
structure event_data_t where
  event : Nat
  id : Nat
  prop_code : Nat
  item_node : Ptr
  delete_node : Bool
deriving DecidableEq, Repr

/-- The members of `storage_info_[i]` besides the embedded node `storage`. -/
structure storage_info_t where
  storage_type : Nat
  filesystem_type : Nat
  access : Nat
  max_capacity : Nat
  free_space : Nat
  free_space_objects : Nat
  volume_id : Option (List Nat)
deriving DecidableEq, Repr

/-- The driver object.  C arrays are functions of the index.  Three fields
are not members of the class but record its surroundings: `malloc_outcomes`
(whether the coming calls of `extmem_malloc` succeed; an exhausted list means
success), `bulk_out` (the byte strings handed to
`queue_Data_Transfer(txpipe_, ...)`, oldest first), `commands` (those of them
that `sendMsg` queued: the Command containers, oldest first), `increments`
(how often `transaction_id_` has been incremented, counted without the 32-bit
wrap), `accepted` (the slots as `add_event_to_list` stored them in the ring,
oldest first) and `delivered` (the slots the callback `peventCompeteCB_` was
invoked with, oldest first).  `peventCompeteCB_` records whether a callback
is installed. -/
structure MTPDevice where
  heap : Heap
  malloc_outcomes : List Bool
  storage_info_ : Nat → storage_info_t
  cnt_storages_ : Nat
  get_store_info_index_ : Nat
  object_formats_ : Nat → Nat
  cnt_object_formats_ : Nat
  object_property_ids_ : Nat → Nat
  cnt_object_property_ids_ : Nat
  device_friendly_name_ : Option (List Nat)
  setup_complete_ : Bool
  enum_node_ : Ptr
  prop_node_ : Ptr
  prop_index_ : Nat
  pending_events_ : Nat → event_data_t
  pending_events_head_ : Nat
  pending_events_tail_ : Nat
  pending_events_active_ : Bool
  peventCompeteCB_ : Bool
  accepted : List event_data_t
  delivered : List event_data_t
  session_id_ : Nat
  transaction_id_ : Nat
  last_mtp_op_ : Nat
  last_response_ : Nat
  send_file_buffer_ : Option (List Nat)
  send_file_buffer_ptr_ : Option Nat
  send_file_count_left_ : Nat
  send_file_object_id_ : Nat
  rx_size_ : Nat
  tx_size_ : Nat
  event_size_ : Nat
  bulk_out : List (List Nat)
  commands : List (List Nat)
  increments : Nat

/-- Array store `a[i] = v`. -/
def setAt {α : Type} (a : Nat → α) (i : Nat) (v : α) : Nat → α :=
  fun j => if j = i then v else a j

/-- One call of `extmem_malloc` for a byte buffer: whether it succeeds, and
the outcomes left for later calls. -/
def extmem_malloc_bytes (outcomes : List Bool) : Bool × List Bool :=
  match outcomes with
  | [] => (true, [])
  | b :: rest => (b, rest)

/-- The call `extmem_malloc(sizeof(storage_list_t))`: on success the block is
the next unused heap address.  Both callers clear the block with `memset`
right after the null check, which is part of this step. -/
def extmem_malloc (m : Heap) (outcomes : List Bool) : Ptr × Heap × List Bool :=
  match outcomes with
  | false :: rest => (none, m, rest)
  | true :: rest => (some m.length, m ++ [some zeroNode], rest)
  | [] => (some m.length, m ++ [some zeroNode], [])

/-! ## Container framing -/

def MTPContainer.len (c : List Nat) : Nat := (read32 c).1
def MTPContainer.type (c : List Nat) : Nat := (read16 (c.drop 4)).1
def MTPContainer.op (c : List Nat) : Nat := (read16 (c.drop 6)).1
def MTPContainer.transaction_id (c : List Nat) : Nat := (read32 (c.drop 8)).1
def MTPContainer.params (c : List Nat) (i : Nat) : Nat := (read32 (c.drop (12 + 4 * i))).1

/-- The bytes of a container header followed by `body`. -/
def containerBytes (len type op transaction_id : Nat) (body : List Nat) : List Nat :=
  write32 len ++ write16 type ++ write16 op ++ write32 transaction_id ++ body

/-- The four overloads `sendMsg(operation)`, `sendMsg(operation, p1)`,
`sendMsg(operation, p1, p2)` and `sendMsg(operation, p1, p2, p3)`, with the
parameters as a list. -/
def sendMsg (s : MTPDevice) (operation : Nat) (params : List Nat) : MTPDevice :=
  let len := 12 + 4 * params.length
  let c := containerBytes len MTP_CONTAINER_TYPE_COMMAND operation s.transaction_id_
    (params.flatMap write32)
  { s with bulk_out := s.bulk_out ++ [c.take len], commands := s.commands ++ [c.take len],
           last_mtp_op_ := operation % 65536 }

/-- `transaction_id_++` on the 32-bit counter. -/
def nextTransaction (s : MTPDevice) : MTPDevice :=
  { s with transaction_id_ := (s.transaction_id_ + 1) % 4294967296,
           increments := s.increments + 1 }

/-- `findStorageItemByID(id)`. -/
def findStorageItemByID (s : MTPDevice) (id : Nat) : Except Fault Ptr :=
  findStorageItemByIDLoop s.heap id s.cnt_storages_ 0

/-! ## Event queue -/

/-- `process_object_added_event`: the new state and the returned flag. -/
def process_object_added_event (s : MTPDevice) (event_index : Nat) :
    Except Fault (MTPDevice × Bool) :=
  let r := extmem_malloc s.heap s.malloc_outcomes
  let s1 := { s with heap := r.2.1, malloc_outcomes := r.2.2, prop_node_ := r.1 }
  match r.1 with
  | none => .ok (s1, true)
  | some a =>
    let ev := s1.pending_events_ event_index
    let s2 := { s1 with
      pending_events_ := setAt s1.pending_events_ event_index { ev with item_node := some a } }
    let s3 := { s2 with heap := store s2.heap a { zeroNode with id := ev.id } }
    let s4 := nextTransaction { s3 with prop_index_ := 0, pending_events_active_ := true }
    .ok (sendMsg s4 MTP_OPERATION_GET_OBJECT_PROP_VALUE [ev.id, s4.object_property_ids_ 0], false)

/-- The loop `while (pnode && pnode->next != node) pnode = pnode->next`. -/
def findPrevSibling : Nat → Heap → Ptr → Nat → Except Fault Ptr
  | 0, _, _, _ => .error .outOfFuel
  | _ + 1, _, none, _ => .ok none
  | fuel + 1, m, some a, node =>
    match load m a with
    | .error e => .error e
    | .ok pn => if pn.next ≠ some node then findPrevSibling fuel m pn.next node else .ok (some a)

/-- The unlinking in `process_object_removed_event` of the node at `a` (cell
`n`) from the child list of its parent `pnode = node->parent` (cell `pn`):
through the parent's `child` link if the node is the first child, and else
through the `next` link of the sibling the search loop stops at. -/
def unlinkFromParent (m : Heap) (parent : Ptr) (pn : storage_list_t) (a : Nat)
    (n : storage_list_t) : Except Fault Heap :=
  if pn.child = some a then modify m parent (fun x => { x with child := n.next })
  else
    match findPrevSibling (m.length + 1) m pn.child a with
    | .error e => .error e
    | .ok none => .ok m
    | .ok (some b) => modify m (some b) (fun x => { x with next := n.next })

/-- `process_object_removed_event`. -/
def process_object_removed_event (s : MTPDevice) (event_index : Nat) :
    Except Fault (MTPDevice × Bool) :=
  match findStorageItemByID s (s.pending_events_ event_index).id with
  | .error e => .error e
  | .ok node =>
    let ev := s.pending_events_ event_index
    let s1 := { s with
      pending_events_ := setAt s.pending_events_ event_index
        { ev with item_node := node, delete_node := true } }
    match node with
    | none => .ok (s1, true)
    | some a =>
      match load s1.heap a with
      | .error e => .error e
      | .ok n =>
        match deref s1.heap n.parent with
        | .error e => .error e
        | .ok pn =>
          match unlinkFromParent s1.heap n.parent pn a n with
          | .error e => .error e
          | .ok m1 =>
            match modify m1 (some a) (fun x => { x with next := none }) with
            | .error e => .error e
            | .ok m2 => .ok ({ s1 with heap := m2 }, true)

/-- The body of `complete_processing_event` up to and including the advance
of the tail, for a state in which `pending_events_active_` holds. -/
def completeActiveEvent (K : Limits) (s : MTPDevice) : Except Fault MTPDevice :=
  let s1 := { s with pending_events_active_ := false }
  let ev := s1.pending_events_ s1.pending_events_tail_
  let s2 := if s1.peventCompeteCB_ then { s1 with delivered := s1.delivered ++ [ev] } else s1
  let freed : Except Fault Heap :=
    if ev.delete_node ∧ ev.item_node.isSome then freeStorageListTree s2.heap ev.item_node
    else .ok s2.heap
  match freed with
  | .error e => .error e
  | .ok m =>
    let t := s2.pending_events_tail_ + 1
    .ok { s2 with heap := m, pending_events_tail_ := if t = K.MAX_PENDING_EVENTS then 0 else t }

/-- `start_process_next_event`: the loop `while (event_completed)`.  Each
round uses one unit of `fuel`. -/
def start_process_next_eventAux (K : Limits) : Nat → MTPDevice → Except Fault MTPDevice
  | 0, _ => .error .outOfFuel
  | fuel + 1, s =>
    if s.pending_events_head_ = s.pending_events_tail_ then .ok s
    else
      let ev := (s.pending_events_ s.pending_events_tail_).event
      let handled : Except Fault (MTPDevice × Bool) :=
        if ev = MTP_EVENT_OBJECT_ADDED then process_object_added_event s s.pending_events_tail_
        else if ev = MTP_EVENT_OBJECT_REMOVED then
          process_object_removed_event s s.pending_events_tail_
        else .ok (s, true)
      match handled with
      | .error e => .error e
      | .ok (s1, event_completed) =>
        if event_completed then
          match completeActiveEvent K { s1 with pending_events_active_ := true } with
          | .error e => .error e
          | .ok s2 => start_process_next_eventAux K fuel s2
        else .ok s1

/-- `start_process_next_event()`.  Every round but the last advances the
tail, so more than `MAX_PENDING_EVENTS` rounds cannot occur while the ring
indices are in range. -/
def start_process_next_event (K : Limits) (s : MTPDevice) : Except Fault MTPDevice :=
  start_process_next_eventAux K (K.MAX_PENDING_EVENTS + 1) s

/-- `complete_processing_event(start_next_event)`. -/
def complete_processing_event (K : Limits) (s : MTPDevice) (start_next_event : Bool) :
    Except Fault MTPDevice :=
  if s.pending_events_active_ then
    match completeActiveEvent K s with
    | .error e => .error e
    | .ok s1 => if start_next_event then start_process_next_event K s1 else .ok s1
  else .ok s

/-- `add_event_to_list(op, id, prop_code)`. -/
def add_event_to_list (K : Limits) (s : MTPDevice) (op id prop_code : Nat) :
    Except Fault MTPDevice :=
  let head := s.pending_events_head_
  let next_pending_event_head := if head + 1 = K.MAX_PENDING_EVENTS then 0 else head + 1
  if next_pending_event_head ≠ s.pending_events_tail_ then
    let ev : event_data_t :=
      { event := op % 65536, id := id, prop_code := prop_code, item_node := none,
        delete_node := false }
    let s1 := { s with
      pending_events_ := setAt s.pending_events_ head ev,
      pending_events_head_ := next_pending_event_head,
      accepted := s.accepted ++ [ev] }
    if head = s1.pending_events_tail_ then start_process_next_event K s1 else .ok s1
  else .ok s

/-- `event_data`: `len` is the number of bytes received and `c` the receive
buffer `rxevent`.  Re-queuing the buffer on the event pipe leaves the driver
state as it is. -/
def event_data (K : Limits) (s : MTPDevice) (len : Nat) (c : List Nat) :
    Except Fault MTPDevice :=
  if 0 < len then
    let op := MTPContainer.op c
    let id : Nat :=
      if op = MTP_EVENT_OBJECT_ADDED ∨ op = MTP_EVENT_OBJECT_REMOVED ∨ op = MTP_EVENT_STORE_FULL
          ∨ op = MTP_EVENT_STORAGE_INFO_CHANGED ∨ op = MTP_EVENT_OBJECT_PROP_CHANGED
      then MTPContainer.params c 0 else 0
    let prop_code : Nat :=
      if op = MTP_EVENT_OBJECT_PROP_CHANGED then MTPContainer.params c 1 else 0
    if id ≠ 0 then add_event_to_list K s op id prop_code else .ok s
  else .ok s

/-! ## Data phase handlers -/

/-- `readAndAllocStr`: the allocated string (`none` when `extmem_malloc`
returns null, in which case the cursor is not advanced), the cursor, and the
allocation outcomes left. -/
def readAndAllocStr (pdata : List Nat) (outcomes : List Bool) :
    Option (List Nat) × List Nat × List Bool :=
  let str_len := byteAt pdata 0
  let r := extmem_malloc_bytes outcomes
  if r.1 then
    let l := readStrLoop str_len (pdata.drop 1)
    (some (l.1 ++ [0]), l.2, r.2)
  else (none, pdata, r.2)

/-- The loop over the playback formats in `processDescriptorData`: the
array, its fill count and the cursor. -/
def readPlaybackFormats (K : Limits) :
    Nat → (Nat → Nat) → Nat → List Nat → (Nat → Nat) × Nat × List Nat
  | 0, fmts, cnt, pdata => (fmts, cnt, pdata)
  | count + 1, fmts, cnt, pdata =>
    let v := read16 pdata
    if cnt < K.MAX_OBJECT_FORMATS - 1 then
      readPlaybackFormats K count (setAt fmts cnt v.1) (cnt + 1) v.2
    else readPlaybackFormats K count fmts cnt v.2

/-- Skip a `uint32_t` count and that many 16-bit codes (the lists that
`processDescriptorData` only prints). -/
def skipCodes (pdata : List Nat) : List Nat :=
  let c := read32 pdata
  c.2.drop (2 * c.1)

/-- `processDescriptorData`: besides printing, it stores the playback
formats. -/
def processDescriptorData (K : Limits) (s : MTPDevice) (c : List Nat) : MTPDevice :=
  let p0 := c.drop 12
  let p1 := (read16 (read32 (read16 p0).2).2).2
  let p2 := (readStr p1).2
  let p3 := (read16 p2).2
  let p4 := skipCodes (skipCodes (skipCodes (skipCodes p3)))
  let count := read32 p4
  let r := readPlaybackFormats K count.1 s.object_formats_ 0 count.2
  { s with object_formats_ := r.1, cnt_object_formats_ := r.2.1 }

/-- `processDevicePropDesc`. -/
def processDevicePropDesc (s : MTPDevice) (c : List Nat) : MTPDevice :=
  let p0 := c.drop 12
  let device_property_code := read16 p0
  let device_property_type := read16 device_property_code.2
  let read_write := read8 device_property_type.2
  if device_property_code.1 = MTP_DEVICE_PROPERTY_DEVICE_FRIENDLY_NAME then
    let r := readAndAllocStr read_write.2 s.malloc_outcomes
    { s with device_friendly_name_ := r.1, malloc_outcomes := r.2.2 }
  else s

/-- The loop of `processGetStorageIDs` over the storages `i, i+1, ...` with
`n` of them left. -/
def processGetStorageIDsLoop : Nat → Nat → Heap → List Nat → Except Fault Heap
  | 0, _, m, _ => .ok m
  | n + 1, i, m, pdata =>
    let v := read32 pdata
    match modify m (some i)
        (fun x => { x with id := v.1, storage_id := v.1, format := 0x3001 }) with
    | .error e => .error e
    | .ok m1 => processGetStorageIDsLoop n (i + 1) m1 v.2

/-- `processGetStorageIDs`. -/
def processGetStorageIDs (K : Limits) (s : MTPDevice) (c : List Nat) :
    Except Fault MTPDevice :=
  let count := read32 (c.drop 12)
  let cnt := if count.1 > K.MAX_STORAGES then K.MAX_STORAGES else count.1
  match processGetStorageIDsLoop cnt 0 s.heap count.2 with
  | .error e => .error e
  | .ok m => .ok { s with cnt_storages_ := cnt, heap := m }

/-- `processGetStoreInfo`.  An index outside the array `storage_info_` is a
fault. -/
def processGetStoreInfo (K : Limits) (s : MTPDevice) (c : List Nat) :
    Except Fault MTPDevice :=
  let index := s.get_store_info_index_
  if K.MAX_STORAGES ≤ index then .error .outOfBounds
  else
    let storage_type := read16 (c.drop 12)
    let filesystem_type := read16 storage_type.2
    let access := read16 filesystem_type.2
    let max_capacity := read64 access.2
    let free_space := read64 max_capacity.2
    let free_space_objects := read32 free_space.2
    let name := readAndAllocStr free_space_objects.2 s.malloc_outcomes
    let volume_id := readAndAllocStr name.2.1 name.2.2
    match modify s.heap (some index)
        (fun x => { x with parent := none, child := none, name := name.1 }) with
    | .error e => .error e
    | .ok m =>
      .ok { s with
        heap := m,
        malloc_outcomes := volume_id.2.2,
        storage_info_ := setAt s.storage_info_ index
          { storage_type := storage_type.1, filesystem_type := filesystem_type.1,
            access := access.1, max_capacity := max_capacity.1,
            free_space := free_space.1, free_space_objects := free_space_objects.1,
            volume_id := volume_id.1 } }

/-- The search `for (i = 0; i < cnt_object_property_ids_; i++) if (prop_id ==
object_property_ids_[i]) break;` — whether the loop stopped at a match. -/
def propIdKnown (ids : Nat → Nat) (prop_id : Nat) : Nat → Bool
  | 0 => false
  | n + 1 => propIdKnown ids prop_id n || decide (ids n = prop_id)

/-- The loop `while (cnt_props--)` of `processObjectPropsSupported`. -/
def processObjectPropsSupportedLoop :
    Nat → (Nat → Nat) → Nat → List Nat → (Nat → Nat) × Nat
  | 0, ids, cnt, _ => (ids, cnt)
  | n + 1, ids, cnt, pdata =>
    let prop_id := read16 pdata
    if propIdKnown ids prop_id.1 cnt then processObjectPropsSupportedLoop n ids cnt prop_id.2
    else processObjectPropsSupportedLoop n (setAt ids cnt prop_id.1) (cnt + 1) prop_id.2

/-- `processObjectPropsSupported`. -/
def processObjectPropsSupported (s : MTPDevice) (c : List Nat) : MTPDevice :=
  let cnt_props := read32 (c.drop 12)
  let r := processObjectPropsSupportedLoop cnt_props.1 s.object_property_ids_
    s.cnt_object_property_ids_ cnt_props.2
  { s with object_property_ids_ := r.1, cnt_object_property_ids_ := r.2 }

/-- The search of `processGetObjectHandles` through the old child list,
`while (child && child->id != child_id) { prev_child = child; child =
child->next; }`: the final `(prev_child, child)`. -/
def findOldChild : Nat → Heap → Nat → Ptr → Ptr → Except Fault (Ptr × Ptr)
  | 0, _, _, _, _ => .error .outOfFuel
  | _ + 1, _, _, prev_child, none => .ok (prev_child, none)
  | fuel + 1, m, child_id, prev_child, some a =>
    match load m a with
    | .error e => .error e
    | .ok n =>
      if n.id ≠ child_id then findOldChild fuel m child_id (some a) n.next
      else .ok (prev_child, some a)

/-- The local variables of `processGetObjectHandles` that live across the
iterations of its loop, with the two pieces of driver state the loop
touches. -/
structure HandlesLoop where
  heap : Heap
  malloc_outcomes : List Bool
  old_child_list : Ptr
  last_added_child : Ptr
  prev_child : Ptr
deriving DecidableEq, Repr

/-- The statement `if (last_added_child) last_added_child->next = child; else
enum_node_->child = child;`. -/
def linkAtEnd (enum_node : Nat) (m : Heap) (last_added_child : Ptr) (child : Nat) :
    Except Fault Heap :=
  match last_added_child with
  | some l => modify m (some l) (fun x => { x with next := some child })
  | none => modify m (some enum_node) (fun x => { x with child := some child })

/-- The tail of one iteration ("add to end of current list"). -/
def appendChild (enum_node : Nat) (L : HandlesLoop) (child : Nat) :
    Except Fault HandlesLoop :=
  match modify L.heap (some child) (fun x => { x with next := none }) with
  | .error e => .error e
  | .ok m1 =>
    match linkAtEnd enum_node m1 L.last_added_child child with
    | .error e => .error e
    | .ok m2 => .ok { L with heap := m2, last_added_child := some child }

/-- The search at the head of an iteration: `child = old_child_list; if
(old_child_list) { prev_child = nullptr; while (...) ... }`, giving the final
`(prev_child, child)`. -/
def searchOldChild (L : HandlesLoop) (child_id : Nat) : Except Fault (Ptr × Ptr) :=
  if L.old_child_list.isSome then
    findOldChild (L.heap.length + 1) L.heap child_id none L.old_child_list
  else .ok (L.prev_child, none)

/-- The branch "Found a match unlink from old list" followed by the append:
`child` is the node found and `prev_child` its predecessor in the old list. -/
def reuseChild (enum_node : Nat) (L : HandlesLoop) (prev_child : Ptr) (child : Nat) :
    Except Fault HandlesLoop :=
  match load L.heap child with
  | .error e => .error e
  | .ok cn =>
    match prev_child with
    | some p =>
      match modify L.heap (some p) (fun x => { x with next := cn.next }) with
      | .error e => .error e
      | .ok m => appendChild enum_node { L with heap := m, prev_child := prev_child } child
    | none =>
      appendChild enum_node { L with old_child_list := cn.next, prev_child := prev_child } child

/-- The branch "need to create a new one" followed by the append; `none`
stands for the `break` taken when `extmem_malloc` fails, with the locals as
they are then. -/
def createChild (enum_node : Nat) (L : HandlesLoop) (prev_child : Ptr) (child_id : Nat) :
    Except Fault (HandlesLoop × Bool) :=
  match extmem_malloc L.heap L.malloc_outcomes with
  | (none, m, rest) =>
    .ok ({ L with heap := m, malloc_outcomes := rest, prev_child := prev_child }, false)
  | (some child, m, rest) =>
    match load m enum_node with
    | .error e => .error e
    | .ok en =>
      match appendChild enum_node
          { L with
            heap := store m child
              { zeroNode with id := child_id, parent := some enum_node, name := none,
                              size := 0, storage_id := en.storage_id }
            malloc_outcomes := rest
            prev_child := prev_child } child with
      | .error e => .error e
      | .ok L1 => .ok (L1, true)

/-- The loop `while (count--)` of `processGetObjectHandles` for the node at
address `enum_node`. -/
def processGetObjectHandlesLoop (enum_node : Nat) :
    Nat → HandlesLoop → List Nat → Except Fault HandlesLoop
  | 0, L, _ => .ok L
  | count + 1, L, pdata =>
    match searchOldChild L (read32 pdata).1 with
    | .error e => .error e
    | .ok (prev_child, some child) =>
      match reuseChild enum_node L prev_child child with
      | .error e => .error e
      | .ok L1 => processGetObjectHandlesLoop enum_node count L1 (read32 pdata).2
    | .ok (prev_child, none) =>
      match createChild enum_node L prev_child (read32 pdata).1 with
      | .error e => .error e
      | .ok (L1, false) => .ok L1
      | .ok (L1, true) => processGetObjectHandlesLoop enum_node count L1 (read32 pdata).2

/-- `processGetObjectHandles`. -/
def processGetObjectHandles (s : MTPDevice) (c : List Nat) : Except Fault MTPDevice :=
  let count := read32 (c.drop 12)
  match s.enum_node_ with
  | none => .ok s
  | some e =>
    match load s.heap e with
    | .error err => .error err
    | .ok en =>
      let L0 : HandlesLoop :=
        { heap := store s.heap e { en with child := none },
          malloc_outcomes := s.malloc_outcomes,
          old_child_list := en.child, last_added_child := none, prev_child := none }
      match processGetObjectHandlesLoop e count.1 L0 count.2 with
      | .error err => .error err
      | .ok L =>
        match freeStorageListTree L.heap L.old_child_list with
        | .error err => .error err
        | .ok m => .ok { s with heap := m, malloc_outcomes := L.malloc_outcomes }

/-- The loop `while (parent_item->next) parent_item = parent_item->next`:
the address of the last node of the list starting at `a`. -/
def lastSibling : Nat → Heap → Nat → Except Fault Nat
  | 0, _, _ => .error .outOfFuel
  | fuel + 1, m, a =>
    match load m a with
    | .error e => .error e
    | .ok n =>
      match n.next with
      | some b => lastSibling fuel m b
      | none => .ok a

/-- The search for the parent in the `MTP_PROPERTY_PARENT_OBJECT` case: the
loop over the storages when the node's `storage_id` is set (it stops at the
first storage with that id and searches below that storage). -/
def findParentInStorage (m : Heap) (storage_id parent_id : Nat) :
    Nat → Nat → Except Fault Ptr
  | 0, _ => .ok none
  | n + 1, i =>
    match load m i with
    | .error e => .error e
    | .ok root =>
      if root.id = storage_id then findStorageItem m root.child parent_id
      else findParentInStorage m storage_id parent_id n (i + 1)

/-- The `MTP_PROPERTY_PARENT_OBJECT` case of `processGetObjectPropValue` for
the cursor node at address `a`. -/
def setParentObject (s : MTPDevice) (a : Nat) (pdata : List Nat) : Except Fault Heap :=
  let parent_id := (read32 pdata).1
  match load s.heap a with
  | .error e => .error e
  | .ok n =>
    match n.parent with
    | some p =>
      match load s.heap p with
      | .error e => .error e
      | .ok _ => .ok s.heap
    | none =>
      let parent_item : Except Fault Ptr :=
        if n.storage_id ≠ 0 then
          findParentInStorage s.heap n.storage_id parent_id s.cnt_storages_ 0
        else findStorageItemByID s parent_id
      match parent_item with
      | .error e => .error e
      | .ok none => .ok s.heap
      | .ok (some p) =>
        match load s.heap p with
        | .error e => .error e
        | .ok pn =>
          let m1 := store s.heap a
            { n with parent := some p, storage_id := pn.storage_id, next := none }
          match load m1 p with
          | .error e => .error e
          | .ok pn1 =>
            match pn1.child with
            | some ch =>
              match lastSibling (m1.length + 1) m1 ch with
              | .error e => .error e
              | .ok l => modify m1 (some l) (fun x => { x with next := some a })
            | none => modify m1 (some p) (fun x => { x with child := some a })

/-- `processGetObjectPropValue`. -/
def processGetObjectPropValue (s : MTPDevice) (c : List Nat) : Except Fault MTPDevice :=
  let pdata := c.drop 12
  match s.prop_node_ with
  | none => .ok s
  | some a =>
    let prop := s.object_property_ids_ s.prop_index_
    if prop = MTP_PROPERTY_STORAGE_ID then
      match modify s.heap (some a) (fun x => { x with storage_id := (read32 pdata).1 }) with
      | .error e => .error e
      | .ok m => .ok { s with heap := m }
    else if prop = MTP_PROPERTY_OBJECT_FORMAT then
      match modify s.heap (some a) (fun x => { x with format := (read16 pdata).1 }) with
      | .error e => .error e
      | .ok m => .ok { s with heap := m }
    else if prop = MTP_PROPERTY_OBJECT_SIZE then
      match modify s.heap (some a) (fun x => { x with size := (read64 pdata).1 }) with
      | .error e => .error e
      | .ok m => .ok { s with heap := m }
    else if prop = MTP_PROPERTY_OBJECT_FILE_NAME ∨ prop = MTP_PROPERTY_NAME then
      let r := readAndAllocStr pdata s.malloc_outcomes
      match modify s.heap (some a) (fun x => { x with name := r.1 }) with
      | .error e => .error e
      | .ok m => .ok { s with heap := m, malloc_outcomes := r.2.2 }
    else if prop = MTP_PROPERTY_DATE_MODIFIED then
      match modify s.heap (some a) (fun x => { x with modify_date := (readStr pdata).1 }) with
      | .error e => .error e
      | .ok m => .ok { s with heap := m }
    else if prop = MTP_PROPERTY_PARENT_OBJECT then
      match setParentObject s a pdata with
      | .error e => .error e
      | .ok m => .ok { s with heap := m }
    else .ok s

/-- `processMTPData`: dispatch on the operation code of a data container. -/
def processMTPData (K : Limits) (s : MTPDevice) (c : List Nat) : Except Fault MTPDevice :=
  let op := MTPContainer.op c
  if op = MTP_OPERATION_GET_DEVICE_INFO then .ok (processDescriptorData K s c)
  else if op = MTP_OPERATION_GET_DEVICE_PROP_DESC then .ok (processDevicePropDesc s c)
  else if op = MTP_OPERATION_GET_STORAGE_IDS then processGetStorageIDs K s c
  else if op = MTP_OPERATION_GET_STORAGE_INFO then processGetStoreInfo K s c
  else if op = MTP_OPERATION_GET_OBJECT_PROPS_SUPPORTED then
    .ok (processObjectPropsSupported s c)
  else if op = MTP_OPERATION_GET_OBJECT_PROP_DESC then .ok s
  else if op = MTP_OPERATION_GET_OBJECT_HANDLES then processGetObjectHandles s c
  else if op = MTP_OPERATION_GET_OBJECT_PROP_VALUE then processGetObjectPropValue s c
  else .ok s

/-! ## Upload -/

/-- `sendFileObject(storage, parent, name, file)`: `name` is the memory at the
C string, `file` the contents of the file (`file.size()` is its length and
`file.read` delivers all of it). -/
def sendFileObject (s : MTPDevice) (storage parent : Nat) (name file : List Nat) :
    MTPDevice :=
  let r := extmem_malloc_bytes s.malloc_outcomes
  let s1 := { s with
    send_file_count_left_ := file.length, send_file_buffer_ptr_ := none,
    send_file_buffer_ := if r.1 then some file else none, malloc_outcomes := r.2 }
  if r.1 then
    let s2 := sendMsg (nextTransaction s1) MTP_OPERATION_SEND_OBJECT_INFO [storage, parent]
    let body := write32 storage ++ write16 0x3000 ++ write16 0 ++ write32 file.length
      ++ write16 0 ++ write32 0 ++ write32 0 ++ write32 0 ++ write32 0 ++ write32 0
      ++ write32 0 ++ write32 parent ++ write16 0 ++ write32 0 ++ write32 0
      ++ writeStr name ++ writeStr [] ++ writeStr [] ++ writeStr []
    let c := containerBytes (12 + body.length) MTP_CONTAINER_TYPE_DATA
      MTP_OPERATION_SEND_OBJECT_INFO s2.transaction_id_ body
    { s2 with bulk_out := s2.bulk_out ++ [c] }
  else s1

/-- The bytes `memcpy` takes from the upload buffer at the cursor. -/
def uploadChunk (s : MTPDevice) (off cb_read : Nat) : Except Fault (List Nat) :=
  match s.send_file_buffer_ with
  | none => .error .deadPointer
  | some buf => .ok ((buf.drop off).take cb_read)

/-- `sendObjectMsg(storage, parent, object_id)`.  `cb_read` is a `uint16_t`
and `tx_size_ - sizeof(MTPHeader)` an unsigned 32-bit difference. -/
def sendObjectMsg (s : MTPDevice) (object_id : Nat) : Except Fault MTPDevice :=
  match s.send_file_buffer_ with
  | none => .ok s
  | some _ =>
    let s1 := nextTransaction s
    let len := s1.send_file_count_left_ + 12
    let cb_read :=
      min s1.send_file_count_left_ ((s1.tx_size_ + 4294967296 - 12) % 4294967296) % 65536
    let s2 := { s1 with send_file_object_id_ := object_id }
    match uploadChunk s2 0 cb_read with
    | .error e => .error e
    | .ok chunk =>
      let left := s2.send_file_count_left_ - cb_read
      let s3 := { s2 with send_file_buffer_ptr_ := some cb_read, send_file_count_left_ := left }
      let s4 := if left = 0 then
          { s3 with send_file_buffer_ := none, send_file_buffer_ptr_ := none }
        else s3
      let s5 := sendMsg s4 MTP_OPERATION_SEND_OBJECT []
      let c := containerBytes len MTP_CONTAINER_TYPE_DATA MTP_OPERATION_SEND_OBJECT
        s5.transaction_id_ chunk
      .ok { s5 with bulk_out := s5.bulk_out ++ [c] }

/-- `tx_data`: completion of a transfer on the bulk-out pipe. -/
def tx_data (s : MTPDevice) : Except Fault MTPDevice :=
  match s.send_file_buffer_ptr_ with
  | none => .ok s
  | some off =>
    if s.send_file_count_left_ ≠ 0 then
      let cb_read := min s.send_file_count_left_ s.tx_size_ % 65536
      match uploadChunk s off cb_read with
      | .error e => .error e
      | .ok chunk =>
        let left := s.send_file_count_left_ - cb_read
        let s1 := { s with send_file_buffer_ptr_ := some (off + cb_read),
                           send_file_count_left_ := left }
        let s2 := if left = 0 then
            { s1 with send_file_buffer_ := none, send_file_buffer_ptr_ := none }
          else s1
        .ok { s2 with bulk_out := s2.bulk_out ++ [chunk] }
    else .ok s

/-! ## Responses -/

/-- `++get_store_info_index_` on the 8-bit index. -/
def nextStoreInfoIndex (s : MTPDevice) : MTPDevice :=
  { s with get_store_info_index_ := (s.get_store_info_index_ + 1) % 256 }

/-- The `MTP_OPERATION_GET_OBJECT_PROP_VALUE` case of `processMTPResponse`. -/
def responseGetObjectPropValue (K : Limits) (s : MTPDevice) : Except Fault MTPDevice :=
  let advanced : Except Fault MTPDevice :=
    match s.prop_node_ with
    | none => .ok s
    | some a =>
      if s.prop_index_ + 1 ≥ s.cnt_object_property_ids_ then
        match load s.heap a with
        | .error e => .error e
        | .ok n => .ok { s with prop_node_ := n.next, prop_index_ := 0 }
      else .ok { s with prop_index_ := s.prop_index_ + 1 }
  match advanced with
  | .error e => .error e
  | .ok s1 =>
    let s2 := nextTransaction s1
    match s2.prop_node_ with
    | some a =>
      match load s2.heap a with
      | .error e => .error e
      | .ok n =>
        .ok (sendMsg s2 MTP_OPERATION_GET_OBJECT_PROP_VALUE
          [n.id, s2.object_property_ids_ s2.prop_index_])
    | none =>
      let s3 := { s2 with enum_node_ := none }
      if s3.pending_events_active_ then complete_processing_event K s3 true else .ok s3

/-- The `MTP_OPERATION_GET_STORAGE_IDS` case of `processMTPResponse`. -/
def responseGetStorageIDs (s : MTPDevice) : Except Fault MTPDevice :=
  if s.cnt_storages_ ≠ 0 then
    match load s.heap 0 with
    | .error e => .error e
    | .ok root =>
      .ok (sendMsg { nextTransaction s with get_store_info_index_ := 0 }
        MTP_OPERATION_GET_STORAGE_INFO [root.id])
  else .ok s

/-- The `MTP_OPERATION_GET_STORAGE_INFO` case of `processMTPResponse`. -/
def responseGetStorageInfo (s : MTPDevice) : Except Fault MTPDevice :=
  if (nextStoreInfoIndex s).get_store_info_index_ < s.cnt_storages_ then
    match load s.heap (nextStoreInfoIndex s).get_store_info_index_ with
    | .error e => .error e
    | .ok root =>
      .ok (sendMsg (nextTransaction (nextStoreInfoIndex s)) MTP_OPERATION_GET_STORAGE_INFO
        [root.id])
  else if s.cnt_object_formats_ ≠ 0 then
    .ok (sendMsg { nextTransaction (nextStoreInfoIndex s) with get_store_info_index_ := 0 }
      MTP_OPERATION_GET_OBJECT_PROPS_SUPPORTED [s.object_formats_ 0])
  else .ok (nextStoreInfoIndex s)

/-- The `MTP_OPERATION_GET_OBJECT_PROPS_SUPPORTED` case of
`processMTPResponse`. -/
def responseGetObjectPropsSupported (s : MTPDevice) : MTPDevice :=
  if (nextStoreInfoIndex s).get_store_info_index_ < s.cnt_object_formats_ then
    sendMsg (nextTransaction (nextStoreInfoIndex s)) MTP_OPERATION_GET_OBJECT_PROPS_SUPPORTED
      [s.object_formats_ (nextStoreInfoIndex s).get_store_info_index_]
  else if s.cnt_object_property_ids_ ≠ 0 then
    sendMsg { nextTransaction (nextStoreInfoIndex s) with get_store_info_index_ := 0 }
      MTP_OPERATION_GET_OBJECT_PROP_DESC [s.object_property_ids_ 0]
  else nextStoreInfoIndex s

/-- The `MTP_OPERATION_GET_OBJECT_PROP_DESC` case of `processMTPResponse`. -/
def responseGetObjectPropDesc (s : MTPDevice) : MTPDevice :=
  if (nextStoreInfoIndex s).get_store_info_index_ < s.cnt_object_property_ids_ then
    sendMsg (nextTransaction (nextStoreInfoIndex s)) MTP_OPERATION_GET_OBJECT_PROP_DESC
      [s.object_property_ids_ (nextStoreInfoIndex s).get_store_info_index_]
  else { nextStoreInfoIndex s with setup_complete_ := true }

/-- The `MTP_OPERATION_GET_OBJECT_HANDLES` case of `processMTPResponse`. -/
def responseGetObjectHandles (s : MTPDevice) : Except Fault MTPDevice :=
  match s.enum_node_ with
  | none => .ok { s with enum_node_ := none }
  | some e =>
    match load s.heap e with
    | .error err => .error err
    | .ok en =>
      match en.child with
      | none => .ok { s with enum_node_ := none }
      | some ch =>
        match load s.heap ch with
        | .error err => .error err
        | .ok cn =>
          .ok (sendMsg (nextTransaction { s with prop_node_ := some ch, prop_index_ := 0 })
            MTP_OPERATION_GET_OBJECT_PROP_VALUE [cn.id, s.object_property_ids_ 0])

/-- The `switch (last_mtp_op_)` of `processMTPResponse`, taken when the
response code is `MTP_RESPONSE_OK`. -/
def responseOK (K : Limits) (s : MTPDevice) (c : List Nat) : Except Fault MTPDevice :=
  if s.last_mtp_op_ = MTP_OPERATION_GET_DEVICE_INFO then
    .ok (sendMsg { s with session_id_ := 42 } MTP_OPERATION_OPEN_SESSION [42])
  else if s.last_mtp_op_ = MTP_OPERATION_OPEN_SESSION then
    .ok (sendMsg (nextTransaction s) MTP_OPERATION_GET_DEVICE_PROP_DESC
      [MTP_DEVICE_PROPERTY_DEVICE_FRIENDLY_NAME])
  else if s.last_mtp_op_ = MTP_OPERATION_GET_DEVICE_PROP_DESC then
    .ok (sendMsg (nextTransaction s) MTP_OPERATION_GET_STORAGE_IDS [])
  else if s.last_mtp_op_ = MTP_OPERATION_GET_STORAGE_IDS then responseGetStorageIDs s
  else if s.last_mtp_op_ = MTP_OPERATION_GET_STORAGE_INFO then responseGetStorageInfo s
  else if s.last_mtp_op_ = MTP_OPERATION_GET_OBJECT_PROPS_SUPPORTED then
    .ok (responseGetObjectPropsSupported s)
  else if s.last_mtp_op_ = MTP_OPERATION_GET_OBJECT_PROP_DESC then
    .ok (responseGetObjectPropDesc s)
  else if s.last_mtp_op_ = MTP_OPERATION_GET_OBJECT_HANDLES then responseGetObjectHandles s
  else if s.last_mtp_op_ = MTP_OPERATION_GET_OBJECT_PROP_VALUE then
    responseGetObjectPropValue K s
  else if s.last_mtp_op_ = MTP_OPERATION_SEND_OBJECT_INFO then
    sendObjectMsg s (MTPContainer.params c 2)
  else if s.last_mtp_op_ = MTP_OPERATION_SEND_OBJECT then
    add_event_to_list K s MTP_EVENT_OBJECT_ADDED s.send_file_object_id_ 0
  else .ok s

/-- `processMTPResponse`. -/
def processMTPResponse (K : Limits) (s : MTPDevice) (c : List Nat) :
    Except Fault MTPDevice :=
  if MTPContainer.op c = MTP_RESPONSE_OK then
    responseOK K { s with last_response_ := MTPContainer.op c } c
  else .ok { s with last_response_ := MTPContainer.op c }

/-- `rx_data`: `len` is the number of bytes received and `c` the receive
buffer.  Re-queuing the buffer on the bulk-in pipe leaves the driver state as
it is; `processMTPCommand` is empty. -/
def rx_data (K : Limits) (s : MTPDevice) (len : Nat) (c : List Nat) :
    Except Fault MTPDevice :=
  if 0 < len then
    let type := MTPContainer.type c
    if type = MTP_CONTAINER_TYPE_DATA then processMTPData K s c
    else if type = MTP_CONTAINER_TYPE_RESPONSE then processMTPResponse K s c
    else .ok s
  else .ok s

/-! ## Facade -/

/-- The success path of `claim`: the walk over the interface descriptors is
represented by its results, the three endpoint sizes. -/
def claim (s : MTPDevice) (rx_size tx_size event_size : Nat) : MTPDevice :=
  let s1 := { s with rx_size_ := rx_size, tx_size_ := tx_size, event_size_ := event_size }
  { sendMsg s1 MTP_OPERATION_GET_DEVICE_INFO [] with setup_complete_ := false }

/-- The loop of `disconnect` over the storages `i, i+1, ...` with `n` left. -/
def disconnectLoop : Nat → Nat → Heap → (Nat → storage_info_t) →
    Except Fault (Heap × (Nat → storage_info_t))
  | 0, _, m, info => .ok (m, info)
  | n + 1, i, m, info =>
    match modify m (some i) (fun x => { x with name := none }) with
    | .error e => .error e
    | .ok m1 =>
      match load m1 i with
      | .error e => .error e
      | .ok root =>
        match freeStorageListTree m1 root.child with
        | .error e => .error e
        | .ok m2 =>
          match modify m2 (some i) (fun x => { x with child := none }) with
          | .error e => .error e
          | .ok m3 =>
            disconnectLoop n (i + 1) m3 (setAt info i { info i with volume_id := none })

/-- `disconnect`. -/
def disconnect (s : MTPDevice) : Except Fault MTPDevice :=
  match disconnectLoop s.cnt_storages_ 0 s.heap s.storage_info_ with
  | .error e => .error e
  | .ok (m, info) =>
    .ok { s with
      heap := m, storage_info_ := info, device_friendly_name_ := none,
      cnt_storages_ := 0, get_store_info_index_ := 0xff, cnt_object_formats_ := 0,
      cnt_object_property_ids_ := 0, setup_complete_ := false, enum_node_ := none,
      prop_node_ := none, prop_index_ := 0 }

/-- `startEnumStorageIndex(index)`: the new state and the returned flag. -/
def startEnumStorageIndex (s : MTPDevice) (index : Nat) : Except Fault (MTPDevice × Bool) :=
  if index ≥ s.cnt_storages_ then .ok (s, false)
  else
    match load s.heap index with
    | .error e => .error e
    | .ok root =>
      .ok (sendMsg { s with enum_node_ := some index } MTP_OPERATION_GET_OBJECT_HANDLES
        [root.id, 0, 0xffffffff], true)

/-- `startEnumStorageNode(node)`. -/
def startEnumStorageNode (s : MTPDevice) (node : Ptr) : Except Fault MTPDevice :=
  match node with
  | none => .ok s
  | some a =>
    match load s.heap a with
    | .error e => .error e
    | .ok n =>
      let s1 := sendMsg s MTP_OPERATION_GET_OBJECT_HANDLES
        [n.storage_id, 0, if n.id = n.storage_id then 0xffffffff else n.id]
      .ok { s1 with enum_node_ := some a }

/-- A transfer completion dispatched by `USBHost::Task()` to one of the three
pipe callbacks. -/
inductive Callback where
  | rx_data (len : Nat) (c : List Nat)
  | tx_data
  | event_data (len : Nat) (c : List Nat)
deriving DecidableEq, Repr

def runCallback (K : Limits) (s : MTPDevice) : Callback → Except Fault MTPDevice
  | .rx_data len c => rx_data K s len c
  | .tx_data => tx_data s
  | .event_data len c => event_data K s len c

/-- The callbacks dispatched by one call of `USBHost::Task()`. -/
def runTask (K : Limits) : MTPDevice → List Callback → Except Fault MTPDevice
  | s, [] => .ok s
  | s, cb :: rest =>
    match runCallback K s cb with
    | .error e => .error e
    | .ok s1 => runTask K s1 rest

/-- The wait loop of `deleteObject`: `tasks` lists what each call of
`USBHost::Task()` dispatches until the deadline passes. -/
def deleteObjectWait (K : Limits) : MTPDevice → List (List Callback) → Except Fault MTPDevice
  | s, [] => .ok s
  | s, t :: rest =>
    if s.last_response_ = 0xffffffff then
      match runTask K s t with
      | .error e => .error e
      | .ok s1 => deleteObjectWait K s1 rest
    else .ok s

/-- `deleteObject(id, format, timeoutMS)`: the new state and the value
returned. -/
def deleteObject (K : Limits) (s : MTPDevice) (id format : Nat)
    (tasks : List (List Callback)) : Except Fault (MTPDevice × Nat) :=
  let s1 := { nextTransaction s with last_response_ := 0xffffffff }
  let s2 := sendMsg s1 MTP_OPERATION_DELETE_OBJECT [id, format]
  match deleteObjectWait K s2 tasks with
  | .error e => .error e
  | .ok s3 => .ok (s3, s3.last_response_)

/-! ## Runs of the driver -/

/-- What can happen to the driver: a pipe callback or a call from the
application. -/
inductive Action where
  | callback (cb : Callback)
  | claim (rx_size tx_size event_size : Nat)
  | disconnect
  | startEnumStorageIndex (index : Nat)
  | startEnumStorageNode (node : Ptr)
  | deleteObject (id format : Nat) (tasks : List (List Callback))
  | sendFileObject (storage parent : Nat) (name file : List Nat)
deriving DecidableEq, Repr

def step (K : Limits) (s : MTPDevice) : Action → Except Fault MTPDevice
  | .callback cb => runCallback K s cb
  | .claim rx tx ev => .ok (claim s rx tx ev)
  | .disconnect => disconnect s
  | .startEnumStorageIndex index =>
    match startEnumStorageIndex s index with
    | .error e => .error e
    | .ok r => .ok r.1
  | .startEnumStorageNode node => startEnumStorageNode s node
  | .deleteObject id format tasks =>
    match deleteObject K s id format tasks with
    | .error e => .error e
    | .ok r => .ok r.1
  | .sendFileObject storage parent name file => .ok (sendFileObject s storage parent name file)

def run (K : Limits) : MTPDevice → List Action → Except Fault MTPDevice
  | s, [] => .ok s
  | s, a :: rest =>
    match step K s a with
    | .error e => .error e
    | .ok s1 => run K s1 rest

/-- Modelled from the spec: the driver object before `claim`.  The member
initialisers are in `MTPDevice.h`, which is not among the sources; following
the spec (session 0, no storages, empty tables and ring, no pending upload)
every member starts at zero or null.  `outcomes` and `cb` fix the
surroundings: the results of the coming allocations and whether the
application has installed an event callback. -/
def MTPDevice.initial (K : Limits) (outcomes : List Bool) (cb : Bool) : MTPDevice :=
  { heap := List.replicate K.MAX_STORAGES (some zeroNode),
    malloc_outcomes := outcomes,
    storage_info_ := fun _ =>
      { storage_type := 0, filesystem_type := 0, access := 0, max_capacity := 0,
        free_space := 0, free_space_objects := 0, volume_id := none },
    cnt_storages_ := 0, get_store_info_index_ := 0,
    object_formats_ := fun _ => 0, cnt_object_formats_ := 0,
    object_property_ids_ := fun _ => 0, cnt_object_property_ids_ := 0,
    device_friendly_name_ := none, setup_complete_ := false,
    enum_node_ := none, prop_node_ := none, prop_index_ := 0,
    pending_events_ := fun _ =>
      { event := 0, id := 0, prop_code := 0, item_node := none, delete_node := false },
    pending_events_head_ := 0, pending_events_tail_ := 0, pending_events_active_ := false,
    peventCompeteCB_ := cb, accepted := [], delivered := [],
    session_id_ := 0, transaction_id_ := 0, last_mtp_op_ := 0, last_response_ := 0,
    send_file_buffer_ := none, send_file_buffer_ptr_ := none, send_file_count_left_ := 0,
    send_file_object_id_ := 0, rx_size_ := 0, tx_size_ := 0, event_size_ := 0,
    bulk_out := [], commands := [], increments := 0 }

/-- The states the driver can be in: those a run from the initial state ends
in. -/
def Reachable (K : Limits) (s : MTPDevice) : Prop :=
  ∃ outcomes cb actions, run K (MTPDevice.initial K outcomes cb) actions = .ok s

/-! ## Notions used by the statements -/

/-- The bytes `writeStr` emits for the characters `s`: each followed by a
zero high byte. -/
def wide (s : List Nat) : List Nat := s.flatMap (fun c => [c % 256, 0])


/-- What identifies an event in the ring: code, handle and property code. -/
def slotKey (e : event_data_t) : Nat × Nat × Nat := (e.event, e.id, e.prop_code)

/-- Ring index `k` places after `t`. -/
def ringIdx (K : Limits) (t k : Nat) : Nat := (t + k) % K.MAX_PENDING_EVENTS

/-- Number of events between tail and head. -/
def pendingCount (K : Limits) (s : MTPDevice) : Nat :=
  (s.pending_events_head_ + K.MAX_PENDING_EVENTS - s.pending_events_tail_) % K.MAX_PENDING_EVENTS

/-- The keys of the `n` slots from the tail on. -/
def pendingKeys (K : Limits) (s : MTPDevice) (n : Nat) : List (Nat × Nat × Nat) :=
  (List.range n).map fun k => slotKey (s.pending_events_ (ringIdx K s.pending_events_tail_ k))

/-- The ring holds `n` pending events and the log of accepted events is
`done`, the events completed so far, followed by the pending ones; the
callback has seen `done` if it is installed and nothing otherwise. -/
def RingCore (K : Limits) (s : MTPDevice) (n : Nat) (done : List (Nat × Nat × Nat)) : Prop :=
  s.pending_events_tail_ < K.MAX_PENDING_EVENTS ∧ n < K.MAX_PENDING_EVENTS ∧
  s.pending_events_head_ = ringIdx K s.pending_events_tail_ n ∧
  s.accepted.map slotKey = done ++ pendingKeys K s n ∧
  s.delivered.map slotKey = if s.peventCompeteCB_ then done else []

/-- Ring invariant: `RingCore` for some `n` and `done`, and an active event
is a pending one. -/
def RingInv (K : Limits) (s : MTPDevice) : Prop :=
  ∃ n done, RingCore K s n done ∧ (s.pending_events_active_ = true → 0 < n)

/-- The head index after one more event. -/
def nextHead (K : Limits) (s : MTPDevice) : Nat :=
  if s.pending_events_head_ + 1 = K.MAX_PENDING_EVENTS then 0 else s.pending_events_head_ + 1

/-- The slot `add_event_to_list` writes. -/
def newSlot (op id prop_code : Nat) : event_data_t :=
  { event := op % 65536, id := id, prop_code := prop_code, item_node := none,
    delete_node := false }

/-- The state right after `add_event_to_list` has stored an event and
advanced the head, before it looks at starting the event. -/
def enqueued (K : Limits) (s : MTPDevice) (op id prop_code : Nat) : MTPDevice :=
  { s with
    pending_events_ := setAt s.pending_events_ s.pending_events_head_ (newSlot op id prop_code),
    pending_events_head_ := nextHead K s,
    accepted := s.accepted ++ [newSlot op id prop_code] }

def RingFrame (s s' : MTPDevice) : Prop :=
  s'.pending_events_head_ = s.pending_events_head_ ∧
  s'.pending_events_tail_ = s.pending_events_tail_ ∧
  s'.accepted = s.accepted ∧ s'.delivered = s.delivered ∧
  s'.peventCompeteCB_ = s.peventCompeteCB_ ∧
  ∀ j, slotKey (s'.pending_events_ j) = slotKey (s.pending_events_ j)

/-- The event ring, its flags and its logs are the same in both states. -/
def SameRing (s s' : MTPDevice) : Prop :=
  s'.pending_events_head_ = s.pending_events_head_ ∧
  s'.pending_events_tail_ = s.pending_events_tail_ ∧
  s'.pending_events_active_ = s.pending_events_active_ ∧
  s'.pending_events_ = s.pending_events_ ∧
  s'.accepted = s.accepted ∧ s'.delivered = s.delivered ∧
  s'.peventCompeteCB_ = s.peventCompeteCB_


/-- Limits for the concrete scenarios below. -/
def demoLimits : Limits := { MAX_STORAGES := 2, MAX_OBJECT_FORMATS := 4, MAX_PENDING_EVENTS := 4 }

/-- The state a run ends in (the start state if the run faults). -/
def stateAfter (K : Limits) (s : MTPDevice) (actions : List Action) : MTPDevice :=
  match run K s actions with
  | .ok s' => s'
  | .error _ => s

/-- An event container as it arrives on the interrupt pipe: code and one
parameter. -/
def eventContainer (code p0 : Nat) : List Nat :=
  containerBytes 16 MTP_CONTAINER_TYPE_EVENT code 0 (write32 p0)

/-- A data container as it arrives on the bulk-in pipe. -/
def dataContainer (op : Nat) (payload : List Nat) : List Nat :=
  containerBytes (12 + payload.length) MTP_CONTAINER_TYPE_DATA op 0 payload

/-- A response container with no parameters. -/
def responseContainer (code : Nat) : List Nat :=
  containerBytes 12 MTP_CONTAINER_TYPE_RESPONSE code 0 []

/-- The payload of a `GetObjectHandles` or `GetStorageIDs` data phase: a
count followed by that many 32-bit values. -/
def handlesPayload (hs : List Nat) : List Nat :=
  write32 hs.length ++ hs.flatMap write32

/-- The head index, the log of accepted events and the keys of all slots are
the same in both states. -/
def QueueFrame (s s' : MTPDevice) : Prop :=
  s'.pending_events_head_ = s.pending_events_head_ ∧
  s'.accepted = s.accepted ∧
  ∀ j, slotKey (s'.pending_events_ j) = slotKey (s.pending_events_ j)

/-- The initial state of the scenarios: no allocation fails, a callback is
installed. -/
def demoInitial : MTPDevice := MTPDevice.initial demoLimits [] true

/-- Three `ObjectAdded` events for the handles 1, 2, 3 arriving on the
interrupt pipe. -/
def threeObjectAdded : List Action :=
  [.callback (.event_data 16 (eventContainer MTP_EVENT_OBJECT_ADDED 1)),
   .callback (.event_data 16 (eventContainer MTP_EVENT_OBJECT_ADDED 2)),
   .callback (.event_data 16 (eventContainer MTP_EVENT_OBJECT_ADDED 3))]

/-- The `GetObjectPropValue` command for handle `id` and property `prop`
under transaction id `tid`. -/
def getObjectPropValueCommand (tid id prop : Nat) : List Nat :=
  containerBytes 20 MTP_CONTAINER_TYPE_COMMAND MTP_OPERATION_GET_OBJECT_PROP_VALUE tid
    (write32 id ++ write32 prop)

/-- A run that leaves an enumeration in progress: the storage list (one
storage, id 7) arrives and `startEnumStorageIndex(0)` queues
`GetObjectHandles`. -/
def enumerationStarted : List Action :=
  [.callback (.rx_data 20 (dataContainer MTP_OPERATION_GET_STORAGE_IDS (handlesPayload [7]))),
   .startEnumStorageIndex 0]

/-- A `StoreFull` event for storage 7 arrives on the interrupt pipe. -/
def storeFullArrives : List Action :=
  [.callback (.event_data 16 (eventContainer MTP_EVENT_STORE_FULL 7))]


/-! ## Shapes of the heap -/

/-- The shape of the nodes reachable from a pointer through `child` and
`next`: the address of each node with the shapes below it and after it. -/
inductive Shape where
  | nil : Shape
  | node (a : Nat) (child next : Shape) : Shape
deriving DecidableEq, Repr

/-- The addresses of a shape, each node before its children, the children
before the following siblings. -/
def Shape.addrs : Shape → List Nat
  | .nil => []
  | .node a c n => a :: (c.addrs ++ n.addrs)

/-- Length of the longest path through `child` and `next` links. -/
def Shape.height : Shape → Nat
  | .nil => 0
  | .node _ c n => max c.height n.height + 1

/-- The heap holds, from pointer `p` on, live nodes linked in the given
shape. -/
def Rep (m : Heap) : Ptr → Shape → Prop
  | p, .nil => p = none
  | p, .node a c n =>
    p = some a ∧ ∃ cell, load m a = .ok cell ∧ Rep m cell.child c ∧ Rep m cell.next n

/-- A shape from a list of siblings, each given by its address and the shape
of its children. -/
def spine : List (Nat × Shape) → Shape
  | [] => .nil
  | k :: ks => .node k.1 k.2 (spine ks)

/-- Heap `m'` is heap `m` with exactly the blocks at the addresses `l`
freed. -/
def Freed (m : Heap) (l : List Nat) (m' : Heap) : Prop :=
  m'.length = m.length ∧
  ∀ b, (b ∈ l → m'.get? b = some none) ∧ (b ∉ l → m'.get? b = m.get? b)

/-- Children of one node: address and shape of the subtree below each. -/
abbrev Kids := List (Nat × Shape)

/-- The addresses of the children themselves. -/
def tops (ks : Kids) : List Nat := ks.map (·.1)

/-- The `next` links lead from `p` through exactly the addresses `l` to
null. -/
def Chain (m : Heap) : Ptr → List Nat → Prop
  | p, [] => p = none
  | p, a :: l => p = some a ∧ ∃ cell, load m a = .ok cell ∧ Chain m cell.next l

/-- Every child is live and the heap holds its subtree. -/
def Subtrees (m : Heap) (ks : Kids) : Prop :=
  ∀ k ∈ ks, ∃ cell, load m k.1 = .ok cell ∧ Rep m cell.child k.2

/-- The `id` field of the node at an address (0 for a dead address). -/
def idOf (m : Heap) (a : Nat) : Nat :=
  match load m a with
  | .ok cell => cell.id
  | .error _ => 0

/-- The pointer the search leaves in `prev_child` after passing the nodes
`l1`. -/
def lastOr (prev : Ptr) (l1 : List Nat) : Ptr :=
  match l1.getLast? with
  | some b => some b
  | none => prev

/-- Heap `m'` continues heap `m`: every node live in `m` is live in `m'`,
identical if its address is not in `S`, and otherwise changed at most in its
`next` link (in its `child` link for the node at `e`); a block of `m` that is
not live stays so. -/
def Kept (e : Nat) (S : List Nat) (m m' : Heap) : Prop :=
  m.length ≤ m'.length ∧
  (∀ b cell, load m b = .ok cell → ∃ cell', load m' b = .ok cell' ∧
    (b ∉ S → cell' = cell) ∧
    (b ≠ e → { cell' with next := none } = { cell with next := none }) ∧
    (b = e → { cell' with child := none } = { cell with child := none })) ∧
  ∀ b cell', b < m.length → load m' b = .ok cell' → ∃ cell, load m b = .ok cell

/-- A heap change that leaves every cell outside `S` alone. -/
def Outside (S : List Nat) (m m' : Heap) : Prop :=
  ∀ b, b ∉ S → b < m.length → load m' b = load m b

/-- Invariant of the loop of `processGetObjectHandles` for the node at `e`:
`old` are the children still in the old list, `new` the children appended so
far. -/
structure LoopInv (e : Nat) (L : HandlesLoop) (old new : Kids) : Prop where
  enum : ∃ en, load L.heap e = .ok en ∧ Chain L.heap en.child (tops new)
  oldc : Chain L.heap L.old_child_list (tops old)
  last : L.last_added_child = (tops new).getLast?
  subo : Subtrees L.heap old
  subn : Subtrees L.heap new
  nodup : (e :: ((spine old).addrs ++ (spine new).addrs)).Nodup

/-- The first child carrying the id `h` (ids given by `id`), and the list
without it. -/
def takeKid (id : Nat → Nat) (h : Nat) : Kids → Option ((Nat × Shape) × Kids)
  | [] => none
  | k :: ks =>
    if id k.1 = h then some (k, ks)
    else
      match takeKid id h ks with
      | some r => some (r.1, k :: r.2)
      | none => none

/-- What the loop of `processGetObjectHandles` builds for the handles `hs`
from the old children `old` when allocation starts at address `fresh`: the
children appended (a reused child, or a new node with no subtree), the old
children left over, and the next unused address. -/
def rebuild (id : Nat → Nat) : List Nat → Kids → Nat → Kids × Kids × Nat
  | [], old, fresh => ([], old, fresh)
  | h :: hs, old, fresh =>
    match takeKid id h old with
    | some r =>
      ((r.1 :: (rebuild id hs r.2 fresh).1), (rebuild id hs r.2 fresh).2)
    | none =>
      (((fresh, Shape.nil) :: (rebuild id hs old (fresh + 1)).1),
        (rebuild id hs old (fresh + 1)).2)

/-- The walk along the `next` links from `p`: the addresses met. -/
def childrenAux : Nat → Heap → Ptr → Except Fault (List Nat)
  | 0, _, _ => .error .outOfFuel
  | _ + 1, _, none => .ok []
  | fuel + 1, m, some a =>
    match load m a with
    | .error e => .error e
    | .ok cell =>
      match childrenAux fuel m cell.next with
      | .error e => .error e
      | .ok l => .ok (a :: l)

/-- The child sequence of the node at `e`, as addresses in list order. -/
def children (m : Heap) (e : Nat) : Except Fault (List Nat) :=
  match load m e with
  | .error err => .error err
  | .ok en => childrenAux (m.length + 1) m en.child

/-- The state `processGetObjectHandles` starts its loop in. -/
def handlesStart (s : MTPDevice) (e : Nat) (en : storage_list_t) : HandlesLoop :=
  { heap := store s.heap e { en with child := none },
    malloc_outcomes := s.malloc_outcomes,
    old_child_list := en.child, last_added_child := none, prev_child := none }


/-- A run after which the enumeration target (storage 7, address 0) has two
children with the handles 5 and 6, at the addresses 2 and 3. -/
def twoHandlesArrive : List Action :=
  enumerationStarted ++
    [.callback (.rx_data 24
      (dataContainer MTP_OPERATION_GET_OBJECT_HANDLES (handlesPayload [5, 6])))]

/-- The state with the target's children 5 and 6. -/
def twoChildren : MTPDevice := stateAfter demoLimits demoInitial twoHandlesArrive


/-- The pair `(storage_id, id)` of the node at an address (zeros for a dead
address). -/
def keyOf (m : Heap) (a : Nat) : Nat × Nat :=
  match load m a with
  | .ok cell => (cell.storage_id, cell.id)
  | .error _ => (0, 0)

/-- A run in which the device answers `GetObjectHandles` for storage 7 with
the handle 5 twice. -/
def duplicateHandlesArrive : List Action :=
  enumerationStarted ++
    [.callback (.rx_data 24
      (dataContainer MTP_OPERATION_GET_OBJECT_HANDLES (handlesPayload [5, 5])))]

/-- The state that run ends in. -/
def duplicateChildren : MTPDevice := stateAfter demoLimits demoInitial duplicateHandlesArrive


/-- The addresses along the `next` links of a shape: the siblings at its top
level. -/
def Shape.tops : Shape → List Nat
  | .nil => []
  | .node a _ n => a :: n.tops

/-- The shape without the node at `a` and what is below it; the siblings
after it move up. -/
def Shape.remove (a : Nat) : Shape → Shape
  | .nil => .nil
  | .node b c n => if b = a then n else .node b (c.remove a) (n.remove a)

/-- The shape below the node at `a`. -/
def Shape.sub (a : Nat) : Shape → Shape
  | .nil => .nil
  | .node b c n => if b = a then c else if a ∈ c.addrs then c.sub a else n.sub a

/-- Parent pointers are consistent below `par`: every sibling of the list
names `par` as its parent, and so on below each of them. -/
def ParentsOk (m : Heap) : Nat → Shape → Prop
  | _, .nil => True
  | par, .node a c n =>
    (∃ cell, load m a = .ok cell ∧ cell.parent = some par) ∧ ParentsOk m a c ∧ ParentsOk m par n

/-- Node `a` is in the child list of node `P`. -/
def ChildOf (m : Heap) (P a : Nat) : Prop :=
  ∃ cP l1 l2, load m P = .ok cP ∧ Chain m cP.child (l1 ++ a :: l2)

/-- The storage forest: each of the `cnt` storage roots (addresses below
`cnt`) holds a well-formed tree of allocated nodes with consistent parent
pointers, and no node belongs to two trees. -/
structure Forest (m : Heap) (cnt : Nat) (sh : Nat → Shape) : Prop where
  roots : ∀ i, i < cnt → ∃ root, load m i = .ok root ∧ Rep m root.child (sh i)
  parents : ∀ i, i < cnt → ParentsOk m i (sh i)
  nodup : ∀ i, i < cnt → (sh i).addrs.Nodup
  above : ∀ i, i < cnt → ∀ b ∈ (sh i).addrs, cnt ≤ b
  apart : ∀ i j, i < cnt → j < cnt → i ≠ j → ∀ b ∈ (sh i).addrs, b ∉ (sh j).addrs

/-- The trees of the state `twoChildren`: storage 0 holds the nodes at the
addresses 2 and 3 as siblings. -/
def twoChildrenShape (i : Nat) : Shape :=
  if i = 0 then .node 2 .nil (.node 3 .nil .nil) else .nil

/-- The state `twoChildren` with an `ObjectRemoved(5)` event stored in the
ring and not yet started. -/
def removalPending : MTPDevice := enqueued demoLimits twoChildren MTP_EVENT_OBJECT_REMOVED 5 0

/-- The run with the duplicated handle 5, followed by an `ObjectRemoved(5)`
event on the interrupt pipe. -/
def duplicateRemoved : List Action :=
  duplicateHandlesArrive ++
    [.callback (.event_data 16 (eventContainer MTP_EVENT_OBJECT_REMOVED 5))]

/-- The run that produces the children 5 and 6 of storage 7, followed by an
`ObjectRemoved(7)` event: the handle of the storage root itself. -/
def rootRemoved : List Action :=
  twoHandlesArrive ++ [.callback (.event_data 16 (eventContainer MTP_EVENT_OBJECT_REMOVED 7))]

/-- The state right after `claim` with endpoint sizes 512, 512 and 32: the
`GetDeviceInfo` command is queued. -/
def demoClaimed : MTPDevice := claim demoInitial 512 512 32


/-- An OK response arriving on bulk-in. -/
def okResponse : Action := .callback (.rx_data 12 (responseContainer MTP_RESPONSE_OK))

/-- Attach, two steps of the bootstrap cascade, then detach. -/
def detachInCascade : List Action := [.claim 512 512 32, okResponse, okResponse, .disconnect]

/-- Attach, two steps of the cascade, an `ObjectAdded(9)` event whose
property fetch is started, then detach. -/
def detachWithEvent : List Action :=
  [.claim 512 512 32, okResponse, okResponse,
   .callback (.event_data 16 (eventContainer MTP_EVENT_OBJECT_ADDED 9)), .disconnect]


/-- The operations whose command `sendMsg` queues without a `transaction_id_++`
right before: `GetDeviceInfo` (in `claim`), `OpenSession` (after
`GetDeviceInfo`) and `GetObjectHandles` (in `startEnumStorageIndex` and
`startEnumStorageNode`). -/
def reusesTransaction (op : Nat) : Bool :=
  decide (op = MTP_OPERATION_GET_DEVICE_INFO) || decide (op = MTP_OPERATION_OPEN_SESSION)
    || decide (op = MTP_OPERATION_GET_OBJECT_HANDLES)

/-- How the transaction id of a command container relates to that of the
command queued before it: never smaller, and larger unless the operation is
one of those sent without an increment. -/
def TidStep (c1 c2 : List Nat) : Prop :=
  MTPContainer.transaction_id c1 ≤ MTPContainer.transaction_id c2 ∧
  (reusesTransaction (MTPContainer.op c2) = false →
    MTPContainer.transaction_id c1 < MTPContainer.transaction_id c2)

/-- The counter is the number of increments modulo 2^32 and, while it has
not wrapped, the commands queued so far are in order and carry ids up to
the counter. -/
def TidInv (s : MTPDevice) : Prop :=
  s.transaction_id_ = s.increments % 4294967296 ∧
  (s.increments < 4294967296 → List.Chain' TidStep s.commands ∧
    ∀ c ∈ s.commands, MTPContainer.transaction_id c ≤ s.increments)

/-- As `TidInv`, right after an increment: every command queued so far
carries an id below the counter. -/
def TidFresh (s : MTPDevice) : Prop :=
  s.transaction_id_ = s.increments % 4294967296 ∧
  (s.increments < 4294967296 → List.Chain' TidStep s.commands ∧
    ∀ c ∈ s.commands, MTPContainer.transaction_id c < s.increments)

/-- The transaction counter and the log of commands are the same in both
states. -/
def SameTid (s s' : MTPDevice) : Prop :=
  s'.transaction_id_ = s.transaction_id_ ∧ s'.increments = s.increments ∧
  s'.commands = s.commands

/-- Attach followed by three OK responses: the cascade up to
`GetStorageIDs`. -/
def cascadeStart : List Action := [.claim 512 512 32, okResponse, okResponse, okResponse]


/-- The Command container `sendMsg` builds for an operation and its
parameters under a transaction id. -/
def commandContainer (op tid : Nat) (params : List Nat) : List Nat :=
  containerBytes (12 + 4 * params.length) MTP_CONTAINER_TYPE_COMMAND op tid
    (params.flatMap write32)

/-- The first four commands of the cascade. -/
def cascadeHead (s : MTPDevice) : List (List Nat) :=
  [commandContainer MTP_OPERATION_GET_DEVICE_INFO s.transaction_id_ [],
   commandContainer MTP_OPERATION_OPEN_SESSION s.transaction_id_ [42],
   commandContainer MTP_OPERATION_GET_DEVICE_PROP_DESC (s.transaction_id_ + 1)
     [MTP_DEVICE_PROPERTY_DEVICE_FRIENDLY_NAME],
   commandContainer MTP_OPERATION_GET_STORAGE_IDS (s.transaction_id_ + 2) []]

/-- GetStorageInfo for the storage at index `i`. -/
def storageInfoCommand (s : MTPDevice) (i : Nat) : List Nat :=
  commandContainer MTP_OPERATION_GET_STORAGE_INFO (s.transaction_id_ + 3 + i) [idOf s.heap i]

/-- GetObjectPropsSupported for the format at index `k`. -/
def propsSupportedCommand (s : MTPDevice) (k : Nat) : List Nat :=
  commandContainer MTP_OPERATION_GET_OBJECT_PROPS_SUPPORTED
    (s.transaction_id_ + 3 + s.cnt_storages_ + k) [s.object_formats_ k]

/-- GetObjectPropDesc for the property id at index `j`. -/
def propDescCommand (s : MTPDevice) (j : Nat) : List Nat :=
  commandContainer MTP_OPERATION_GET_OBJECT_PROP_DESC
    (s.transaction_id_ + 3 + s.cnt_storages_ + s.cnt_object_formats_ + j)
    [s.object_property_ids_ j]

/-- The commands of the bootstrap cascade for the tables of `s`, the first
of them under the transaction id of `s`. -/
def cascadeCommands (s : MTPDevice) : List (List Nat) :=
  cascadeHead s
  ++ (List.range s.cnt_storages_).map (storageInfoCommand s)
  ++ (List.range s.cnt_object_formats_).map (propsSupportedCommand s)
  ++ (List.range s.cnt_object_property_ids_).map (propDescCommand s)

/-- Where the cascade stands: the operation awaited, the table index, the
number of increments since `s0`, the commands queued since `s0`; the tables
and the storage roots are those of `s0`. -/
def CascadeAt (s0 s : MTPDevice) (op idx k : Nat) (cmds : List (List Nat)) : Prop :=
  s.last_mtp_op_ = op ∧ s.get_store_info_index_ = idx ∧
  s.transaction_id_ = s0.transaction_id_ + k ∧ s.bulk_out = s0.bulk_out ++ cmds ∧
  s.heap = s0.heap ∧ s.cnt_storages_ = s0.cnt_storages_ ∧
  s.cnt_object_formats_ = s0.cnt_object_formats_ ∧ s.object_formats_ = s0.object_formats_ ∧
  s.cnt_object_property_ids_ = s0.cnt_object_property_ids_ ∧
  s.object_property_ids_ = s0.object_property_ids_

/-- The dataset of a `GetDeviceInfo` data phase with empty strings and code
arrays up to the playback formats. -/
def deviceInfoPayload (formats : List Nat) : List Nat :=
  write16 100 ++ write32 6 ++ write16 100 ++ [0] ++ write16 0
    ++ write32 0 ++ write32 0 ++ write32 0 ++ write32 0
    ++ write32 formats.length ++ formats.flatMap write16

/-- The dataset of a `GetObjectPropsSupported` data phase. -/
def propsPayload (props : List Nat) : List Nat :=
  write32 props.length ++ props.flatMap write16

/-- A data container arriving on bulk-in. -/
def rxData (op : Nat) (payload : List Nat) : Action :=
  .callback (.rx_data (12 + payload.length) (dataContainer op payload))

/-- A first session with its data phases: one playback format (0x3009), one
storage (id 7), one property id (0xDC07). -/
def firstSession : List Action :=
  [.claim 512 512 32, rxData MTP_OPERATION_GET_DEVICE_INFO (deviceInfoPayload [0x3009]),
   okResponse, okResponse, okResponse,
   rxData MTP_OPERATION_GET_STORAGE_IDS (handlesPayload [7]),
   okResponse, okResponse,
   rxData MTP_OPERATION_GET_OBJECT_PROPS_SUPPORTED (propsPayload [0xDC07]),
   okResponse, okResponse]

/-- The state after the first session: one storage, one format, one property
id. -/
def tablesLearned : MTPDevice := stateAfter demoLimits demoInitial firstSession


/-- The state `s'` holds the response code of `s`. -/
def RespSame (s s' : MTPDevice) : Prop := s'.last_response_ = s.last_response_

/-- The recorded response code is `v`. -/
def RespIs (v : Nat) (s : MTPDevice) : Prop := s.last_response_ = v

/-- The code a callback records in `last_response_`: the operation field of
a Response container received on bulk-in. -/
def responseCode : Callback → Option Nat
  | .rx_data len c =>
    if 0 < len ∧ MTPContainer.type c = MTP_CONTAINER_TYPE_RESPONSE then some (MTPContainer.op c)
    else none
  | .tx_data => none
  | .event_data _ _ => none

/-- A callback that brings neither a Response, nor a Data container, nor an
event. -/
def isIdle : Callback → Bool
  | .rx_data len c =>
    !(decide (0 < len) && (decide (MTPContainer.type c = MTP_CONTAINER_TYPE_DATA)
      || decide (MTPContainer.type c = MTP_CONTAINER_TYPE_RESPONSE)))
  | .tx_data => true
  | .event_data _ _ => false

/-- The state in which `deleteObject` starts to wait: the counter
incremented, the sentinel stored, the command queued. -/
def deleteObjectSent (s : MTPDevice) (id format : Nat) : MTPDevice :=
  sendMsg { nextTransaction s with last_response_ := 0xffffffff }
    MTP_OPERATION_DELETE_OBJECT [id, format]

/-- The `DeleteObject` command for the handle `id` and the format code
`format` under the transaction id `tid`. -/
def deleteObjectCommand (tid id format : Nat) : List Nat :=
  commandContainer MTP_OPERATION_DELETE_OBJECT tid [id, format]

/-- The wait of `deleteObject` on `twoChildren` in which an
`ObjectRemoved(5)` event arrives and no Response. -/
def removalDuringWait : List (List Callback) :=
  [[.event_data 16 (eventContainer MTP_EVENT_OBJECT_REMOVED 5)]]

/-- The wait in which the device answers with the Response OK at the second
call of `USBHost::Task()`. -/
def answeredWait : List (List Callback) :=
  [[], [.rx_data 12 (responseContainer MTP_RESPONSE_OK)]]


/-- Parent back-links at the level of pointers: the `child` link of every
live node starts a list that ends in null, and every node of that list names
the node as its parent. -/
def PtrInv (m : Heap) : Prop :=
  ∀ Q cQ, load m Q = .ok cQ →
    ∃ l, Chain m cQ.child l ∧ ∀ a ∈ l, ∃ ca, load m a = .ok ca ∧ ca.parent = some Q

/-- No `child` or `next` link of a live node leads to one of the storage
roots (the addresses below `MAX_STORAGES`). -/
def LinksAbove (K : Limits) (m : Heap) : Prop :=
  ∀ a ca, load m a = .ok ca →
    (∀ b, ca.child = some b → K.MAX_STORAGES ≤ b) ∧ (∀ b, ca.next = some b → K.MAX_STORAGES ≤ b)

/-- The three link fields of two nodes agree. -/
def SameLinks (c c' : storage_list_t) : Prop :=
  c'.parent = c.parent ∧ c'.child = c.child ∧ c'.next = c.next


/-- The node heap is sound: parent back-links are consistent, no link leads
to a storage root, and the roots are there. -/
def HeapOk (K : Limits) (m : Heap) : Prop :=
  PtrInv m ∧ LinksAbove K m ∧ K.MAX_STORAGES ≤ m.length

/-- The property cursor is not at a storage root. -/
def CursorOk (K : Limits) (s : MTPDevice) : Prop :=
  ∀ a, s.prop_node_ = some a → K.MAX_STORAGES ≤ a

/-- None of the `n` pending slots is marked for deletion. -/
def SlotsClean (K : Limits) (s : MTPDevice) (n : Nat) : Prop :=
  ∀ k, k < n → (s.pending_events_ (ringIdx K s.pending_events_tail_ k)).delete_node = false

/-- The ring invariant together with `SlotsClean` for the pending slots. -/
def RingClean (K : Limits) (s : MTPDevice) : Prop :=
  ∃ n done, RingCore K s n done ∧ (s.pending_events_active_ = true → 0 < n) ∧ SlotsClean K s n

/-- The invariant behind the back-link consistency of every reachable
state. -/
def Sound (K : Limits) (s : MTPDevice) : Prop :=
  HeapOk K s.heap ∧ CursorOk K s ∧ RingClean K s


/-- How the heap `m` inside the loop of `processGetObjectHandles` relates to
the heap `m0` the loop started with: the nodes of `m0` are live and keep
their parent, their `child` link (but for the enumerated node `e`) and their
`next` link (but for the old children `old0`); the nodes allocated since have
no children. -/
structure FrameP (K : Limits) (e : Nat) (m0 : Heap) (old0 : List Nat) (m : Heap) : Prop where
  len : m0.length ≤ m.length
  keep : ∀ b cb, load m0 b = .ok cb → ∃ cb', load m b = .ok cb' ∧
    cb'.parent = cb.parent ∧ (b ≠ e → cb'.child = cb.child) ∧ (b ∉ old0 → cb'.next = cb.next)
  dead : ∀ b cb', b < m0.length → load m b = .ok cb' → ∃ cb, load m0 b = .ok cb
  fresh : ∀ b cb', m0.length ≤ b → load m b = .ok cb' → cb'.child = none
  links : LinksAbove K m

/-- The invariant of the loop of `processGetObjectHandles` at the level of
lists: `m0` is the heap and `old0` the old child list when the loop starts,
`old` the old children still waiting and `new` the children appended so
far. -/
structure LoopP (K : Limits) (e : Nat) (m0 : Heap) (old0 : List Nat) (L : HandlesLoop)
    (old new : List Nat) : Prop where
  enum : ∃ en, load L.heap e = .ok en ∧ Chain L.heap en.child new
  oldc : Chain L.heap L.old_child_list old
  last : L.last_added_child = new.getLast?
  nodup : (old ++ new).Nodup
  oldsub : ∀ x ∈ old, x ∈ old0
  newsub : ∀ x ∈ new, x ∈ old0 ∨ m0.length ≤ x
  par : ∀ x ∈ old ++ new, ∃ cx, load L.heap x = .ok cx ∧ cx.parent = some e
  above : ∀ x ∈ old ++ new, K.MAX_STORAGES ≤ x
  frame : FrameP K e m0 old0 L.heap

/-- The nodes below the node at address `i`: the node its `child` link
points to, and every node a `child` or `next` link of a node below `i` points
to.  For a storage root `i` these are the nodes of its tree. -/
inductive Below (m : Heap) (i : Nat) : Nat → Prop
  | first {r : storage_list_t} {a : Nat} :
      load m i = .ok r → r.child = some a → Below m i a
  | child {b a : Nat} {c : storage_list_t} :
      Below m i b → load m b = .ok c → c.child = some a → Below m i a
  | next {b a : Nat} {c : storage_list_t} :
      Below m i b → load m b = .ok c → c.next = some a → Below m i a


/-- Attach and the first OK response: `OpenSession` has been queued and its
Response has not arrived. -/
def openSessionSent : MTPDevice :=
  stateAfter demoLimits demoInitial [.claim 512 512 32, okResponse]


/-- The upload members at the read position `off` of the buffer `file`, with
`out` as the queue of bulk-out transfers: while bytes are left the buffer is
held, the cursor is at `off` and `send_file_count_left_` counts the rest;
once none is left the buffer is released and both pointers are null. -/
def uploadState (s : MTPDevice) (file : List Nat) (off : Nat) (out : List (List Nat)) :
    MTPDevice :=
  if off < file.length then
    { s with send_file_buffer_ := some file, send_file_buffer_ptr_ := some off,
             send_file_count_left_ := file.length - off, bulk_out := out }
  else
    { s with send_file_buffer_ := none, send_file_buffer_ptr_ := none,
             send_file_count_left_ := 0, bulk_out := out }

/-- The chunks of `file` that `n` bulk-out completions queue from the read
position `off` on, for the packet size `M`: each the next `min(remaining, M)`
bytes, as long as bytes remain. -/
def laterChunks (file : List Nat) (M : Nat) : Nat → Nat → List (List Nat)
  | 0, _ => []
  | n + 1, off =>
    if off < file.length then (file.drop off).take M :: laterChunks file M n (off + M)
    else []

/-- The state `sendObjectMsg(…, object_id)` builds on: the counter
incremented, the handle recorded, the `SendObject` command sent. -/
def sendObjectBase (s : MTPDevice) (object_id : Nat) : MTPDevice :=
  { nextTransaction s with
    send_file_object_id_ := object_id,
    last_mtp_op_ := MTP_OPERATION_SEND_OBJECT,
    commands := s.commands ++
      [commandContainer MTP_OPERATION_SEND_OBJECT ((s.transaction_id_ + 1) % 4294967296) []] }

/-- The Data container `sendObjectMsg` queues for a file of `S` bytes. -/
def sendObjectData (tid S : Nat) (chunk : List Nat) : List Nat :=
  containerBytes (S + 12) MTP_CONTAINER_TYPE_DATA MTP_OPERATION_SEND_OBJECT tid chunk

/-- `n` completions of transfers on the bulk-out pipe. -/
def txCompletions (n : Nat) : List Action := List.replicate n (.callback .tx_data)

/-- The state `s'` differs from `s` at most in the upload buffer, its cursor,
the count of bytes left and the queue of bulk-out transfers. -/
def UploadFrame (s s' : MTPDevice) : Prop :=
  s' = { s with send_file_buffer_ := s'.send_file_buffer_,
                send_file_buffer_ptr_ := s'.send_file_buffer_ptr_,
                send_file_count_left_ := s'.send_file_count_left_,
                bulk_out := s'.bulk_out }

/-- The upload cursor is only set while the buffer is held. -/
def UploadSafe (s : MTPDevice) : Prop :=
  s.send_file_buffer_ptr_ ≠ none → s.send_file_buffer_ ≠ none

/-- A Response container with parameters, as it arrives on bulk-in. -/
def responseWith (code : Nat) (params : List Nat) : List Nat :=
  containerBytes (12 + 4 * params.length) MTP_CONTAINER_TYPE_RESPONSE code 0
    (params.flatMap write32)

/-- One `send_file`: the call of `sendFileObject`, `m` bulk-out completions,
the Response to `SendObjectInfo` (`len` bytes received in the buffer `c`) and
`n` more bulk-out completions. -/
def uploadRun (storage parent : Nat) (name file : List Nat) (m len : Nat) (c : List Nat)
    (n : Nat) : List Action :=
  .sendFileObject storage parent name file ::
    (txCompletions m ++ .callback (.rx_data len c) :: txCompletions n)

/-- The file name `"T.TXT"` as a C string. -/
def fileName : List Nat := [84, 46, 84, 88, 84, 0]

/-- The state after attach with a bulk-out packet size of 14 bytes. -/
def attached14 : MTPDevice := stateAfter demoLimits demoInitial [.claim 64 14 32]

/-- The state after `sendFileObject(7, 0, "T.TXT", file)` for a file of the 20
bytes `0, 1, ..., 19`, with a bulk-out packet size of 14 bytes. -/
def uploadReady : MTPDevice :=
  stateAfter demoLimits attached14 [.sendFileObject 7 0 fileName (List.range 20)]


/-- The bytes of a sequence of 16-bit units as they lie in a payload, low
byte first. -/
def units16 (us : List Nat) : List Nat := us.flatMap write16


/-- What `processGetStorageIDs` stores in a root for the id `v`. -/
def asStorage (r : storage_list_t) (v : Nat) : storage_list_t :=
  { r with id := v, storage_id := v, format := 0x3001 }

/-- The slot of the event at the tail once the handler of `ObjectRemoved` has
recorded the node `X` in it. -/
def removedSlot (s : MTPDevice) (X : Nat) : event_data_t :=
  { s.pending_events_ s.pending_events_tail_ with item_node := some X, delete_node := true }


/-- A run in which the device reports the handles 5 and 6 below storage 7,
completes `GetObjectHandles` (the cursor `prop_node_` moves to the node of
handle 5 and its first property is requested) and then signals
`ObjectRemoved(5)` on the interrupt pipe. -/
def removedUnderCursor : List Action :=
  twoHandlesArrive ++
    [okResponse, .callback (.event_data 16 (eventContainer MTP_EVENT_OBJECT_REMOVED 5))]

/-- Storage-id consistency at the level of cells: the heap holds the storage
roots, a root carries its own id as `storage_id` and has no parent, every
`parent` pointer lies inside the heap, and a node whose parent is live carries the `storage_id` of
that parent. -/
structure SidInv (K : Limits) (m : Heap) : Prop where
  len : K.MAX_STORAGES ≤ m.length
  roots : ∀ i r, i < K.MAX_STORAGES → load m i = .ok r → r.storage_id = r.id ∧ r.parent = none
  range : ∀ a ca p, load m a = .ok ca → ca.parent = some p → p < m.length
  pairs : ∀ a ca p cp, load m a = .ok ca → ca.parent = some p → load m p = .ok cp →
    ca.storage_id = cp.storage_id

/-- Every node live in `m'` was live in `m` with the same `storage_id` and
`id` and with the same `parent` unless that is null now, and the heap has not
shrunk. -/
def SidKeep (m m' : Heap) : Prop :=
  m.length ≤ m'.length ∧
  ∀ b cb', load m' b = .ok cb' →
    ∃ cb, load m b = .ok cb ∧ cb'.storage_id = cb.storage_id ∧
      (cb'.parent = cb.parent ∨ cb'.parent = none) ∧ cb'.id = cb.id

/-- The fields storage-id consistency reads are the same in both cells, but
for a `parent` that has become null. -/
def SameSid (c c' : storage_list_t) : Prop :=
  c'.storage_id = c.storage_id ∧ (c'.parent = c.parent ∨ c'.parent = none) ∧ c'.id = c.id

/-- No live node names the node at `a` as its parent. -/
def childless (m : Heap) (a : Nat) : Bool :=
  (List.range m.length).all (fun x =>
    match load m x with
    | .ok cx => decide (cx.parent ≠ some a)
    | .error _ => true)

/-- The ids of a `GetStorageIDs` data phase fit the nodes already there: the
storage at each of the `n` indices from `i` has no node attached to it, or
keeps the `storage_id` it carries. -/
def storageIdsFit (m : Heap) : Nat → Nat → List Nat → Bool
  | 0, _, _ => true
  | n + 1, i, pdata =>
    (childless m i ||
      (match load m i with
       | .ok r => decide (r.storage_id = (read32 pdata).1)
       | .error _ => true)) &&
    storageIdsFit m n (i + 1) (read32 pdata).2

/-- The value of a `GetObjectPropValue` data phase fits the cursor node: a
`STORAGE_ID` value is the `storage_id` the node carries unless the node has
neither parent nor children, and a `PARENT_OBJECT` value arrives for a node
that has a parent already or has no children. -/
def propValueFits (s : MTPDevice) (c : List Nat) : Bool :=
  match s.prop_node_ with
  | none => true
  | some a =>
    match load s.heap a with
    | .error _ => true
    | .ok n =>
      if s.object_property_ids_ s.prop_index_ = MTP_PROPERTY_STORAGE_ID then
        decide ((read32 (c.drop 12)).1 = n.storage_id) ||
          (n.parent.isNone && childless s.heap a)
      else if s.object_property_ids_ s.prop_index_ = MTP_PROPERTY_PARENT_OBJECT then
        n.parent.isSome || childless s.heap a
      else true

/-- The data container fits the nodes already there, as far as storage ids
go. -/
def dataFits (K : Limits) (s : MTPDevice) (c : List Nat) : Bool :=
  if MTPContainer.op c = MTP_OPERATION_GET_STORAGE_IDS then
    storageIdsFit s.heap
      (if (read32 (c.drop 12)).1 > K.MAX_STORAGES then K.MAX_STORAGES else (read32 (c.drop 12)).1)
      0 (read32 (c.drop 12)).2
  else if MTPContainer.op c = MTP_OPERATION_GET_OBJECT_PROP_VALUE then propValueFits s c
  else true

/-- The callback brings no storage id that contradicts the nodes already
there. -/
def callbackFits (K : Limits) (s : MTPDevice) : Callback → Bool
  | .rx_data len c =>
    if 0 < len ∧ MTPContainer.type c = MTP_CONTAINER_TYPE_DATA then dataFits K s c else true
  | .tx_data => true
  | .event_data _ _ => true

/-- Every callback of one call of `USBHost::Task()` fits the state it meets. -/
def taskFits (K : Limits) : MTPDevice → List Callback → Bool
  | _, [] => true
  | s, cb :: rest =>
    callbackFits K s cb &&
      (match runCallback K s cb with
       | .ok s1 => taskFits K s1 rest
       | .error _ => true)

/-- Every callback dispatched inside the wait loop of `deleteObject` fits the
state it meets. -/
def waitFits (K : Limits) : MTPDevice → List (List Callback) → Bool
  | _, [] => true
  | s, t :: rest =>
    if s.last_response_ = 0xffffffff then
      taskFits K s t &&
        (match runTask K s t with
         | .ok s1 => waitFits K s1 rest
         | .error _ => true)
    else true

/-- The action brings no storage id that contradicts the nodes already
there. -/
def stepFits (K : Limits) (s : MTPDevice) : Action → Bool
  | .callback cb => callbackFits K s cb
  | .deleteObject id format tasks =>
    waitFits K
      (sendMsg { nextTransaction s with last_response_ := 0xffffffff }
        MTP_OPERATION_DELETE_OBJECT [id, format]) tasks
  | _ => true

/-- Every action of the run fits the state it meets. -/
def runFits (K : Limits) : MTPDevice → List Action → Bool
  | _, [] => true
  | s, a :: rest =>
    stepFits K s a &&
      (match step K s a with
       | .ok s1 => runFits K s1 rest
       | .error _ => true)

/-- A session in which the device reports the format 0x3009, the storage 7
and the one object property `STORAGE_ID`, the application enumerates storage
7, the device reports the handles 5 and 6, and the value `v` arrives as the
`STORAGE_ID` of the object 5. -/
def storageIdSession (v : Nat) : List Action :=
  [.claim 512 512 32, rxData MTP_OPERATION_GET_DEVICE_INFO (deviceInfoPayload [0x3009]),
   okResponse, okResponse, okResponse,
   rxData MTP_OPERATION_GET_STORAGE_IDS (handlesPayload [7]),
   okResponse, okResponse,
   rxData MTP_OPERATION_GET_OBJECT_PROPS_SUPPORTED (propsPayload [MTP_PROPERTY_STORAGE_ID]),
   okResponse, okResponse,
   .startEnumStorageIndex 0,
   rxData MTP_OPERATION_GET_OBJECT_HANDLES (handlesPayload [5, 6]),
   okResponse,
   rxData MTP_OPERATION_GET_OBJECT_PROP_VALUE (write32 v)]


/-- Byte `j` of the little-endian layout of `v`. -/
def leByte (v j : Nat) : Nat := v / 256 ^ j % 256


/-- The order in which `findStorageItemByID` visits the nodes of `n` storages
from index `i` on: each root before the nodes below it, and these in depth-first
pre-order (a node, then what is below it, then its later siblings). -/
def visitOrder (sh : Nat → Shape) : Nat → Nat → List Nat
  | 0, _ => []
  | n + 1, i => i :: ((sh i).addrs ++ visitOrder sh n (i + 1))


/-- The property ids the driver holds, in the order of the array. -/
def propTable (s : MTPDevice) : List Nat :=
  (List.range s.cnt_object_property_ids_).map s.object_property_ids_

/-- The codes of a payload that are not yet in the table `t`, each once, in the
order of their first occurrence. -/
def unseenCodes : List Nat → List Nat → List Nat
  | _, [] => []
  | t, c :: cs => if c ∈ t then unseenCodes t cs else c :: unseenCodes (t ++ [c]) cs


/-- The state of `storageIdSession` when the value of the `STORAGE_ID` of the
object 5 is awaited: the cursor is at the node of that object. -/
def storageIdAwaited : MTPDevice :=
  stateAfter demoLimits demoInitial ((storageIdSession 0).take 14)


/-- The MTP string of a byte string: the empty string is the single byte 0;
otherwise the count of 16-bit units (the characters and a NUL), each
character as a 16-bit unit, and the 16-bit NUL. -/
def mtpString (s : List Nat) : List Nat :=
  if s = [] then [0] else (s.length + 1) :: (s.flatMap (fun c => [c, 0]) ++ [0, 0])

/-- The ObjectInfo dataset of the spec: storage (u32), format 0x3000 (u16),
protection 0 (u16), compressed size (u32), thumb format 0 (u16), six u32
fields 0 (thumb size, width and height, pixel width and height, bit depth),
parent (u32), association type 0 (u16), association description 0 and
sequence number 0 (u32 each), the file name as a string field, and three
empty strings of one byte each. -/
def objectInfoDataset (storage parent size : Nat) (filename : List Nat) : List Nat :=
  write32 storage ++ write16 0x3000 ++ write16 0 ++ write32 size ++ write16 0
    ++ (List.replicate 6 0).flatMap write32 ++ write32 parent ++ write16 0
    ++ write32 0 ++ write32 0 ++ filename ++ [0, 0, 0]


/-- A data container of `GetObjectPropValue` arriving on bulk-in. -/
def propValueData (payload : List Nat) : Action :=
  rxData MTP_OPERATION_GET_OBJECT_PROP_VALUE payload

/-- A session in which the device reports storage 7 and the object properties
`props`, the setup runs to completion, and `ObjectAdded(9)` arrives. -/
def objectAddedSession (props : List Nat) : List Action :=
  [.claim 512 512 32, rxData MTP_OPERATION_GET_DEVICE_INFO (deviceInfoPayload [0x3009]),
   okResponse, okResponse, okResponse,
   rxData MTP_OPERATION_GET_STORAGE_IDS (handlesPayload [7]),
   okResponse, okResponse,
   rxData MTP_OPERATION_GET_OBJECT_PROPS_SUPPORTED (propsPayload props),
   okResponse, okResponse, okResponse,
   .callback (.event_data 16 (eventContainer MTP_EVENT_OBJECT_ADDED 9))]

/-- The state in which the new object 9 has received the storage id 7 and its
`PARENT_OBJECT` value is awaited. -/
def parentAwaited : MTPDevice :=
  stateAfter demoLimits demoInitial
    (objectAddedSession [MTP_PROPERTY_STORAGE_ID, MTP_PROPERTY_PARENT_OBJECT]
      ++ [propValueData (write32 7), okResponse])

/-- The state in which `PARENT_OBJECT` is the first property fetched for the
new object 9, so that its storage id is not yet known. -/
def parentAwaitedFirst : MTPDevice :=
  stateAfter demoLimits demoInitial
    (objectAddedSession [MTP_PROPERTY_PARENT_OBJECT, MTP_PROPERTY_STORAGE_ID])


/-- What the device sends in answer to one command: the data phase, then
Response OK. -/
def reply (op : Nat) (d : List Nat) : List Action := [rxData op d, okResponse]

/-- An attach in which the device answers every command of the cascade: the
data phase of the command with the given payload, then Response OK
(`OpenSession` has no data phase).  `dStore`, `dProps` and `dPropDesc` list
the payloads for the commands sent once per storage, per format and per
property id. -/
def attachRun (rx tx ev : Nat) (dInfo dDesc dIds : List Nat)
    (dStore dProps dPropDesc : List (List Nat)) : List Action :=
  [.claim rx tx ev] ++ reply MTP_OPERATION_GET_DEVICE_INFO dInfo ++ [okResponse]
    ++ reply MTP_OPERATION_GET_DEVICE_PROP_DESC dDesc
    ++ reply MTP_OPERATION_GET_STORAGE_IDS dIds
    ++ dStore.flatMap (reply MTP_OPERATION_GET_STORAGE_INFO)
    ++ dProps.flatMap (reply MTP_OPERATION_GET_OBJECT_PROPS_SUPPORTED)
    ++ dPropDesc.flatMap (reply MTP_OPERATION_GET_OBJECT_PROP_DESC)

/-- The number of storages `processGetStorageIDs` records for a payload. -/
def storageCount (K : Limits) (dIds : List Nat) : Nat :=
  if (read32 dIds).1 > K.MAX_STORAGES then K.MAX_STORAGES else (read32 dIds).1

/-- The state with the format table `processDescriptorData` learns from a
`GetDeviceInfo` payload. -/
def learnFormats (K : Limits) (s : MTPDevice) (dInfo : List Nat) : MTPDevice :=
  processDescriptorData K s (dataContainer MTP_OPERATION_GET_DEVICE_INFO dInfo)

/-- The state with the property table accumulated by
`processObjectPropsSupported` over the payloads of the
`GetObjectPropsSupported` data phases. -/
def learnProps (s : MTPDevice) (dProps : List (List Nat)) : MTPDevice :=
  dProps.foldl (fun t d => processObjectPropsSupported t
    (dataContainer MTP_OPERATION_GET_OBJECT_PROPS_SUPPORTED d)) s

/-- The reference state of the cascade lemmas for a state `s` of a run that
started from `s0`: the tables and the heap of `s`, the transaction counter
and the bulk-out queue of `s0`. -/
def rebase (s0 s : MTPDevice) : MTPDevice :=
  { s with transaction_id_ := s0.transaction_id_, bulk_out := s0.bulk_out }

/-- Where an attach stands: as `CascadeAt`, with the tables as learnt so far
given by value. -/
structure AttachAt (K : Limits) (s0 s : MTPDevice) (op idx k : Nat) (cmds : List (List Nat))
    (N : Nat) (ids : Nat → Nat) (F : Nat) (fs : Nat → Nat) (P : Nat) (ps : Nat → Nat) :
    Prop where
  hop : s.last_mtp_op_ = op
  hidx : s.get_store_info_index_ = idx
  htid : s.transaction_id_ = s0.transaction_id_ + k
  hout : s.bulk_out = s0.bulk_out ++ cmds
  hN : s.cnt_storages_ = N
  hids : ∀ j, idOf s.heap j = ids j
  hroots : ∀ j, j < K.MAX_STORAGES → ∃ r, load s.heap j = .ok r
  hF : s.cnt_object_formats_ = F
  hfs : s.object_formats_ = fs
  hP : s.cnt_object_property_ids_ = P
  hps : s.object_property_ids_ = ps

/-- GetStorageInfo for the storage at index `j`, in a cascade whose first
command has the transaction id `t0`. -/
def storageInfoCmd (t0 : Nat) (ids : Nat → Nat) (j : Nat) : List Nat :=
  commandContainer MTP_OPERATION_GET_STORAGE_INFO (t0 + 3 + j) [ids j]

/-- GetObjectPropsSupported for the format at index `j`, after `N`
storages. -/
def propsSupportedCmd (t0 N : Nat) (fs : Nat → Nat) (j : Nat) : List Nat :=
  commandContainer MTP_OPERATION_GET_OBJECT_PROPS_SUPPORTED (t0 + 3 + N + j) [fs j]

/-- GetObjectPropDesc for the property id at index `j`, after `N` storages
and `F` formats. -/
def propDescCmd (t0 N F : Nat) (ps : Nat → Nat) (j : Nat) : List Nat :=
  commandContainer MTP_OPERATION_GET_OBJECT_PROP_DESC (t0 + 3 + N + F + j) [ps j]

/-! # Theorems -/

/-! ## Strings -/

theorem byteAt_cons_zero (c : Nat) (l : List Nat) : byteAt (c :: l) 0 = c % 256 := by
  simp [byteAt]

theorem strlen_append_nul (s junk : List Nat) (hs : ∀ c ∈ s, c % 256 ≠ 0) :
    strlen (s ++ 0 :: junk) = s.length := by
  induction s with
  | nil => simp [strlen]
  | cons c cs ih =>
    have hc : c % 256 ≠ 0 := hs c (by simp)
    have ih' := ih (fun x hx => hs x (by simp [hx]))
    simp [strlen, hc, ih']

theorem writeStrLoop_append (s t : List Nat) (k : Nat) :
    writeStrLoop (s.length + k) (s ++ t) = wide s ++ writeStrLoop k t := by
  induction s with
  | nil => simp [wide]
  | cons c cs ih =>
    have : (c :: cs).length + k = (cs.length + k) + 1 := by simp; omega
    rw [this]
    simp only [List.cons_append, writeStrLoop, byteAt_cons_zero, List.drop_succ_cons,
      List.drop_zero, ih]
    simp [wide]

theorem readStrLoop_wide (s rest : List Nat) :
    readStrLoop s.length (wide s ++ rest) = (s.map (· % 256), rest) := by
  induction s with
  | nil => simp [wide, readStrLoop]
  | cons c cs ih =>
    simp only [List.length_cons, readStrLoop, wide, List.flatMap_cons, List.cons_append,
      List.nil_append, byteAt_cons_zero, List.drop_succ_cons, List.drop_zero, List.map_cons]
    have ih' := ih
    simp only [wide] at ih'
    rw [ih']
    simp

theorem cstr_append_nul (s t : List Nat) (hs : ∀ c ∈ s, c % 256 ≠ 0) :
    cstr (s ++ 0 :: t) = s := by
  induction s with
  | nil => simp [cstr]
  | cons c cs ih =>
    have hc : c % 256 ≠ 0 := hs c (by simp)
    simp [cstr, hc, ih (fun x hx => hs x (by simp [hx]))]

theorem map_mod_of_lt (s : List Nat) (hs : ∀ c ∈ s, c < 256) : s.map (· % 256) = s := by
  induction s with
  | nil => rfl
  | cons c cs ih =>
    simp [Nat.mod_eq_of_lt (hs c (by simp)), ih (fun x hx => hs x (by simp [hx]))]

theorem writeStr_of_short (s junk : List Nat) (hs : ∀ c ∈ s, c % 256 ≠ 0)
    (hne : s ≠ []) (hlen : s.length ≤ 254) :
    writeStr (s ++ 0 :: junk) = (s.length + 1) :: (wide (s ++ [0])) := by
  have hpos : 0 < s.length := List.length_pos.mpr hne
  have h1 : strlen (s ++ 0 :: junk) % 256 = s.length := by
    rw [strlen_append_nul s junk hs]; exact Nat.mod_eq_of_lt (by omega)
  have h2 : (s.length + 1) % 256 = s.length + 1 := Nat.mod_eq_of_lt (by omega)
  unfold writeStr
  simp only [h1, h2]
  rw [if_pos (by omega)]
  have := writeStrLoop_append s (0 :: junk) 1
  rw [this]
  simp [writeStrLoop, wide, byteAt]

theorem writeStr_empty (junk : List Nat) : writeStr (0 :: junk) = [0] := by
  simp [writeStr, strlen]

/-- Decoding what `writeStr` wrote, as far as `readStrLoop` is concerned: the
characters of `s`, the NUL that the encoder counts, and the cursor behind the
string. -/
theorem readStrLoop_writeStr (s junk rest : List Nat) (hs : ∀ c ∈ s, 0 < c ∧ c < 256)
    (hlen : s.length ≤ 254) :
    ∃ body, readStrLoop (byteAt (writeStr (s ++ 0 :: junk) ++ rest) 0)
        ((writeStr (s ++ 0 :: junk) ++ rest).drop 1) = (body, rest) ∧
      cstr (body ++ [0]) = s := by
  have hs' : ∀ c ∈ s, c % 256 ≠ 0 := fun c hc => by
    have := hs c hc; rw [Nat.mod_eq_of_lt this.2]; omega
  by_cases hne : s = []
  · subst hne
    exact ⟨[], by simp [writeStr_empty, byteAt, readStrLoop], by simp [cstr]⟩
  · rw [writeStr_of_short s junk hs' hne hlen]
    have hb : byteAt ((s.length + 1) :: (wide (s ++ [0]) ++ rest)) 0 = (s ++ [0]).length := by
      simp [byteAt]; omega
    simp only [List.cons_append, List.drop_succ_cons, List.drop_zero]
    rw [hb, readStrLoop_wide]
    refine ⟨_, rfl, ?_⟩
    simp only [List.map_append, List.map_cons, List.map_nil, Nat.zero_mod, List.append_assoc,
      List.singleton_append]
    rw [map_mod_of_lt s (fun c hc => (hs c hc).2)]
    exact cstr_append_nul s [0] hs'

/-- C10 (as amended): for every NUL-free byte string `s` of at most 254
characters, stored in memory as `s`, a NUL and anything after it, what
`writeStr` emits decodes back to `s`, both with `readStr` and (when its
allocation succeeds) with `readAndAllocStr`, whatever follows the encoded
string in the buffer. -/
theorem writeStr_decode_roundtrip (s junk rest : List Nat) (outcomes : List Bool)
    (hs : ∀ c ∈ s, 0 < c ∧ c < 256) (hlen : s.length ≤ 254) :
    cstr (readStr (writeStr (s ++ 0 :: junk) ++ rest)).1 = s ∧
    ((extmem_malloc_bytes outcomes).1 = true →
      ∃ str, (readAndAllocStr (writeStr (s ++ 0 :: junk) ++ rest) outcomes).1 = some str ∧
        cstr str = s) := by
  obtain ⟨body, hbody, hc⟩ := readStrLoop_writeStr s junk rest hs hlen
  constructor
  · simp only [readStr, hbody, hc]
  · intro hm
    refine ⟨body ++ [0], ?_, hc⟩
    simp only [readAndAllocStr, hm, if_true, hbody]

/-- Witness for C10: the file name `"T.TXT"` of the upload scenario. -/
theorem writeStr_decode_roundtrip_witness :
    cstr (readStr (writeStr ([84, 46, 84, 88, 84] ++ 0 :: []) ++ [])).1 = [84, 46, 84, 88, 84] ∧
    ((extmem_malloc_bytes []).1 = true →
      ∃ str, (readAndAllocStr (writeStr ([84, 46, 84, 88, 84] ++ 0 :: []) ++ []) []).1
          = some str ∧ cstr str = [84, 46, 84, 88, 84]) :=
  writeStr_decode_roundtrip [84, 46, 84, 88, 84] [] [] [] (by decide) (by decide)

set_option maxRecDepth 100000 in
/-- C10 fails as stated: a string of 255 characters `'A'` is encoded as the
single byte `0` (the 8-bit count wraps) and decodes to the empty string. -/
theorem writeStr_decode_roundtrip_counterexample :
    writeStr (List.replicate 255 65 ++ [0]) = [0] ∧
    cstr (readStr (writeStr (List.replicate 255 65 ++ [0]))).1 ≠ List.replicate 255 65 := by
  decide

/-! ## Event ring -/

theorem ringIdx_eq (K : Limits) (t k : Nat) (ht : t < K.MAX_PENDING_EVENTS)
    (hk : k < K.MAX_PENDING_EVENTS) :
    ringIdx K t k = if t + k < K.MAX_PENDING_EVENTS then t + k else t + k - K.MAX_PENDING_EVENTS := by
  unfold ringIdx
  split
  · exact Nat.mod_eq_of_lt ‹_›
  · rw [Nat.mod_eq_sub_mod (by omega)]
    exact Nat.mod_eq_of_lt (by omega)

theorem ringIdx_lt (K : Limits) (t k : Nat) (ht : t < K.MAX_PENDING_EVENTS) :
    ringIdx K t k < K.MAX_PENDING_EVENTS := Nat.mod_lt _ (by omega)

theorem ringIdx_zero (K : Limits) (t : Nat) (ht : t < K.MAX_PENDING_EVENTS) :
    ringIdx K t 0 = t := by
  simp [ringIdx, Nat.mod_eq_of_lt ht]

theorem ringIdx_inj (K : Limits) (t j k : Nat) (ht : t < K.MAX_PENDING_EVENTS)
    (hj : j < K.MAX_PENDING_EVENTS) (hk : k < K.MAX_PENDING_EVENTS)
    (h : ringIdx K t j = ringIdx K t k) : j = k := by
  rw [ringIdx_eq K t j ht hj, ringIdx_eq K t k ht hk] at h
  split at h <;> split at h <;> omega

theorem ringIdx_succ (K : Limits) (t k : Nat) (ht : t < K.MAX_PENDING_EVENTS)
    (hk : k + 1 < K.MAX_PENDING_EVENTS) :
    ringIdx K (if t + 1 = K.MAX_PENDING_EVENTS then 0 else t + 1) k = ringIdx K t (k + 1) := by
  rw [ringIdx_eq K t (k + 1) ht hk]
  split
  · rw [ringIdx_eq K 0 k (by omega) (by omega)]
    split <;> split <;> omega
  · rw [ringIdx_eq K (t + 1) k (by omega) (by omega)]
    split <;> split <;> omega

theorem RingFrame.same (s : MTPDevice) : RingFrame s s :=
  ⟨rfl, rfl, rfl, rfl, rfl, fun _ => rfl⟩

theorem slotKey_setAt_same (f : Nat → event_data_t) (i : Nat) (e : event_data_t) (j : Nat)
    (h : slotKey e = slotKey (f i)) :
    slotKey (setAt f i e j) = slotKey (f j) := by
  unfold setAt
  split
  · subst_vars; exact h
  · rfl

theorem process_object_added_event_frame (s s' : MTPDevice) (i : Nat) (b : Bool)
    (h : process_object_added_event s i = .ok (s', b)) :
    RingFrame s s' ∧ (b = false → s'.pending_events_active_ = true) ∧
      (b = true → s'.pending_events_active_ = s.pending_events_active_) := by
  unfold process_object_added_event at h
  simp only at h
  split at h
  · simp only [Except.ok.injEq, Prod.mk.injEq] at h
    obtain ⟨rfl, rfl⟩ := h
    exact ⟨⟨rfl, rfl, rfl, rfl, rfl, fun _ => rfl⟩, by simp, fun _ => rfl⟩
  · simp only [Except.ok.injEq, Prod.mk.injEq] at h
    obtain ⟨rfl, rfl⟩ := h
    refine ⟨⟨rfl, rfl, rfl, rfl, rfl, fun j => ?_⟩, fun _ => rfl, by simp⟩
    simp only [sendMsg, nextTransaction]
    apply slotKey_setAt_same
    rfl

theorem process_object_removed_event_frame (s s' : MTPDevice) (i : Nat) (b : Bool)
    (h : process_object_removed_event s i = .ok (s', b)) :
    RingFrame s s' ∧ b = true ∧ s'.pending_events_active_ = s.pending_events_active_ := by
  unfold process_object_removed_event at h
  have key : ∀ (node : Ptr) (j : Nat), slotKey (setAt s.pending_events_ i
      { s.pending_events_ i with item_node := node, delete_node := true } j)
        = slotKey (s.pending_events_ j) := fun node j => by
    apply slotKey_setAt_same
    rfl
  split at h
  · cases h
  · simp only at h
    split at h
    · simp only [Except.ok.injEq, Prod.mk.injEq] at h
      obtain ⟨rfl, rfl⟩ := h
      exact ⟨⟨rfl, rfl, rfl, rfl, rfl, key _⟩, rfl, rfl⟩
    · split at h
      · cases h
      · split at h
        · cases h
        · split at h
          · cases h
          · split at h
            · cases h
            · simp only [Except.ok.injEq, Prod.mk.injEq] at h
              obtain ⟨rfl, rfl⟩ := h
              exact ⟨⟨rfl, rfl, rfl, rfl, rfl, key _⟩, rfl, rfl⟩

theorem RingCore.of_frame {K : Limits} {s s' : MTPDevice} {n : Nat}
    {done : List (Nat × Nat × Nat)} (hf : RingFrame s s') (h : RingCore K s n done) :
    RingCore K s' n done := by
  obtain ⟨f1, f2, f3, f4, f5, f6⟩ := hf
  obtain ⟨h1, h2, h3, h4, h5⟩ := h
  refine ⟨by rw [f2]; exact h1, h2, by rw [f1, f2]; exact h3, ?_, by rw [f4, f5]; exact h5⟩
  rw [f3, h4]
  simp only [pendingKeys, f2, f6]

theorem RingCore.head_ne_tail {K : Limits} {s : MTPDevice} {n : Nat}
    {done : List (Nat × Nat × Nat)} (h : RingCore K s n done)
    (hne : s.pending_events_head_ ≠ s.pending_events_tail_) : 0 < n := by
  obtain ⟨h1, h2, h3, _, _⟩ := h
  rcases Nat.eq_zero_or_pos n with h0 | h0
  · subst h0
    rw [ringIdx_zero K _ h1] at h3
    exact absurd h3 hne
  · exact h0

theorem completeActiveEvent_spec (K : Limits) (s s' : MTPDevice)
    (h : completeActiveEvent K s = .ok s') :
    s'.pending_events_head_ = s.pending_events_head_ ∧
    s'.pending_events_tail_ = (if s.pending_events_tail_ + 1 = K.MAX_PENDING_EVENTS then 0
      else s.pending_events_tail_ + 1) ∧
    s'.accepted = s.accepted ∧
    s'.delivered = (if s.peventCompeteCB_ then
      s.delivered ++ [s.pending_events_ s.pending_events_tail_] else s.delivered) ∧
    s'.peventCompeteCB_ = s.peventCompeteCB_ ∧
    s'.pending_events_ = s.pending_events_ ∧
    s'.pending_events_active_ = false := by
  unfold completeActiveEvent at h
  simp only at h
  split at h
  · cases h
  · simp only [Except.ok.injEq] at h
    subst h
    refine ⟨?_, ?_, ?_, ?_, ?_, ?_, ?_⟩ <;> (try split) <;> simp_all

theorem RingCore.complete {K : Limits} {s s' : MTPDevice} {n : Nat}
    {done : List (Nat × Nat × Nat)} (h : RingCore K s n done) (hn : 0 < n)
    (hc : completeActiveEvent K s = .ok s') :
    RingCore K s' (n - 1) (done ++ [slotKey (s.pending_events_ s.pending_events_tail_)]) ∧
    s'.pending_events_active_ = false := by
  obtain ⟨c1, c2, c3, c4, c5, c6, c7⟩ := completeActiveEvent_spec K s s' hc
  obtain ⟨h1, h2, h3, h4, h5⟩ := h
  obtain ⟨m, rfl⟩ : ∃ m, n = m + 1 := ⟨n - 1, by omega⟩
  refine ⟨⟨?_, by omega, ?_, ?_, ?_⟩, c7⟩
  · rw [c2]; split <;> omega
  · rw [c1, c2, h3]
    simp only [Nat.add_sub_cancel]
    rw [ringIdx_succ K _ m h1 h2]
  · rw [c3, h4]
    simp only [Nat.add_sub_cancel, pendingKeys, List.range_succ_eq_map, List.map_cons,
      List.map_map, c6, c2, List.append_assoc, List.singleton_append]
    congr 1
    rw [ringIdx_zero K _ h1]
    congr 1
    apply List.map_congr_left
    intro k hk
    simp only [List.mem_range] at hk
    simp only [Function.comp, Nat.succ_eq_add_one]
    rw [ringIdx_succ K _ k h1 (by omega)]
  · rw [c4, c5]
    split
    · simp [h5, *]
    · simp_all

theorem add_event_to_list_eq (K : Limits) (s : MTPDevice) (op id prop_code : Nat) :
    add_event_to_list K s op id prop_code =
      if nextHead K s ≠ s.pending_events_tail_ then
        if s.pending_events_head_ = s.pending_events_tail_ then
          start_process_next_event K (enqueued K s op id prop_code)
        else .ok (enqueued K s op id prop_code)
      else .ok s := rfl

theorem RingInv_start_aux (K : Limits) (fuel : Nat) :
    ∀ (s s' : MTPDevice), RingInv K s → start_process_next_eventAux K fuel s = .ok s' →
      RingInv K s' := by
  induction fuel with
  | zero => intro s s' _ h; simp [start_process_next_eventAux] at h
  | succ fuel ih =>
    intro s s' hinv h
    unfold start_process_next_eventAux at h
    split at h
    · simp only [Except.ok.injEq] at h; subst h; exact hinv
    · rename_i hne
      obtain ⟨n, done, hcore, _⟩ := hinv
      have hn : 0 < n := hcore.head_ne_tail hne
      simp only at h
      split at h
      · cases h
      · rename_i s1 event_completed hh
        have hframe : RingFrame s s1 ∧ (event_completed = false →
            s1.pending_events_active_ = true) := by
          split at hh
          · have := process_object_added_event_frame _ _ _ _ hh
            exact ⟨this.1, this.2.1⟩
          · split at hh
            · have := process_object_removed_event_frame _ _ _ _ hh
              exact ⟨this.1, fun hb => by simp [this.2.1] at hb⟩
            · simp only [Except.ok.injEq, Prod.mk.injEq] at hh
              obtain ⟨rfl, rfl⟩ := hh
              exact ⟨RingFrame.same _, fun hb => by simp at hb⟩
        have hcore1 : RingCore K s1 n done := hcore.of_frame hframe.1
        split at h
        · split at h
          · cases h
          · rename_i s2 hc
            have hcore1' : RingCore K { s1 with pending_events_active_ := true } n done :=
              hcore1.of_frame ⟨rfl, rfl, rfl, rfl, rfl, fun _ => rfl⟩
            have := hcore1'.complete hn hc
            exact ih s2 s' ⟨_, _, this.1, fun ha => by simp [this.2] at ha⟩ h
        · rename_i hb
          simp only [Except.ok.injEq] at h
          subst h
          exact ⟨n, done, hcore1, fun _ => hn⟩

theorem RingInv_start (K : Limits) (s s' : MTPDevice) (hinv : RingInv K s)
    (h : start_process_next_event K s = .ok s') : RingInv K s' :=
  RingInv_start_aux K _ s s' hinv h

theorem RingInv_complete_processing_event (K : Limits) (s s' : MTPDevice) (b : Bool)
    (hinv : RingInv K s) (h : complete_processing_event K s b = .ok s') : RingInv K s' := by
  unfold complete_processing_event at h
  split at h
  · rename_i hact
    obtain ⟨n, done, hcore, hn⟩ := hinv
    split at h
    · cases h
    · rename_i s1 hc
      have := hcore.complete (hn hact) hc
      have hinv1 : RingInv K s1 := ⟨_, _, this.1, fun ha => by simp [this.2] at ha⟩
      split at h
      · exact RingInv_start K s1 s' hinv1 h
      · simp only [Except.ok.injEq] at h; subst h; exact hinv1
  · simp only [Except.ok.injEq] at h; subst h; exact hinv

theorem RingCore.room {K : Limits} {s : MTPDevice} {n : Nat} {done : List (Nat × Nat × Nat)}
    (h : RingCore K s n done) (hroom : nextHead K s ≠ s.pending_events_tail_) :
    n + 1 < K.MAX_PENDING_EVENTS := by
  obtain ⟨h1, h2, h3, _, _⟩ := h
  by_contra hcon
  apply hroom
  unfold nextHead
  rw [h3, ringIdx_eq K _ n h1 h2]
  split <;> split <;> omega

theorem RingCore.enqueued {K : Limits} {s : MTPDevice} {n : Nat}
    {done : List (Nat × Nat × Nat)} (h : RingCore K s n done)
    (hroom : nextHead K s ≠ s.pending_events_tail_) (op id prop_code : Nat) :
    RingCore K (enqueued K s op id prop_code) (n + 1) done := by
  have hn1 := h.room hroom
  obtain ⟨h1, h2, h3, h4, h5⟩ := h
  refine ⟨h1, hn1, ?_, ?_, h5⟩
  · show nextHead K s = ringIdx K s.pending_events_tail_ (n + 1)
    unfold nextHead
    rw [h3, ringIdx_eq K _ n h1 h2, ringIdx_eq K _ (n + 1) h1 hn1]
    split <;> split <;> split <;> omega
  · show List.map slotKey (s.accepted ++ [newSlot op id prop_code]) =
      done ++ pendingKeys K (MTP.enqueued K s op id prop_code) (n + 1)
    simp only [List.map_append, h4, pendingKeys, List.range_succ, List.map_cons,
      List.map_nil, List.append_assoc, MTP.enqueued]
    congr 1
    congr 1
    · apply List.map_congr_left
      intro k hk
      simp only [List.mem_range] at hk
      have : ringIdx K s.pending_events_tail_ k ≠ s.pending_events_head_ := by
        rw [h3]
        intro hcon
        have := ringIdx_inj K _ k n h1 (by omega) h2 hcon
        omega
      simp [setAt, this]
    · simp [setAt, h3]

theorem RingInv_add_event_to_list (K : Limits) (s s' : MTPDevice) (op id prop_code : Nat)
    (hinv : RingInv K s) (h : add_event_to_list K s op id prop_code = .ok s') :
    RingInv K s' := by
  rw [add_event_to_list_eq] at h
  by_cases hroom : nextHead K s ≠ s.pending_events_tail_
  · rw [if_pos hroom] at h
    obtain ⟨n, done, hcore, _⟩ := hinv
    have hinv1 : RingInv K (enqueued K s op id prop_code) :=
      ⟨n + 1, done, hcore.enqueued hroom op id prop_code, fun _ => Nat.succ_pos n⟩
    by_cases hempty : s.pending_events_head_ = s.pending_events_tail_
    · rw [if_pos hempty] at h
      exact RingInv_start K _ s' hinv1 h
    · rw [if_neg hempty] at h
      simp only [Except.ok.injEq] at h; subst h; exact hinv1
  · rw [if_neg hroom] at h
    simp only [Except.ok.injEq] at h; subst h; exact hinv

theorem SameRing.self (s : MTPDevice) : SameRing s s := ⟨rfl, rfl, rfl, rfl, rfl, rfl, rfl⟩

theorem RingInv.of_sameRing {K : Limits} {s s' : MTPDevice} (hs : SameRing s s')
    (h : RingInv K s) : RingInv K s' := by
  obtain ⟨a1, a2, a3, a4, a5, a6, a7⟩ := hs
  obtain ⟨n, done, hcore, hact⟩ := h
  exact ⟨n, done, hcore.of_frame ⟨a1, a2, a5, a6, a7, fun j => by rw [a4]⟩,
    fun ha => hact (by rw [← a3]; exact ha)⟩

theorem sendMsg_sameRing (s : MTPDevice) (op : Nat) (params : List Nat) :
    SameRing s (sendMsg s op params) := ⟨rfl, rfl, rfl, rfl, rfl, rfl, rfl⟩

theorem processGetObjectPropValue_sameRing (s s' : MTPDevice) (c : List Nat)
    (h : processGetObjectPropValue s c = .ok s') : SameRing s s' := by
  unfold processGetObjectPropValue at h
  simp only at h
  repeat' split at h
  all_goals (cases h <;> exact ⟨rfl, rfl, rfl, rfl, rfl, rfl, rfl⟩)

theorem processGetObjectHandles_sameRing (s s' : MTPDevice) (c : List Nat)
    (h : processGetObjectHandles s c = .ok s') : SameRing s s' := by
  unfold processGetObjectHandles at h
  simp only at h
  repeat' split at h
  all_goals (cases h <;> exact ⟨rfl, rfl, rfl, rfl, rfl, rfl, rfl⟩)

theorem processGetStorageIDs_sameRing (K : Limits) (s s' : MTPDevice) (c : List Nat)
    (h : processGetStorageIDs K s c = .ok s') : SameRing s s' := by
  unfold processGetStorageIDs at h
  simp only at h
  repeat' split at h
  all_goals (cases h <;> exact ⟨rfl, rfl, rfl, rfl, rfl, rfl, rfl⟩)

theorem processGetStoreInfo_sameRing (K : Limits) (s s' : MTPDevice) (c : List Nat)
    (h : processGetStoreInfo K s c = .ok s') : SameRing s s' := by
  unfold processGetStoreInfo at h
  simp only at h
  repeat' split at h
  all_goals (cases h <;> exact ⟨rfl, rfl, rfl, rfl, rfl, rfl, rfl⟩)

theorem processDevicePropDesc_sameRing (s : MTPDevice) (c : List Nat) :
    SameRing s (processDevicePropDesc s c) := by
  unfold processDevicePropDesc
  simp only
  split
  · exact ⟨rfl, rfl, rfl, rfl, rfl, rfl, rfl⟩
  · exact SameRing.self s

theorem processDescriptorData_sameRing (K : Limits) (s : MTPDevice) (c : List Nat) :
    SameRing s (processDescriptorData K s c) := by
  unfold processDescriptorData
  exact ⟨rfl, rfl, rfl, rfl, rfl, rfl, rfl⟩

theorem processObjectPropsSupported_sameRing (s : MTPDevice) (c : List Nat) :
    SameRing s (processObjectPropsSupported s c) := by
  unfold processObjectPropsSupported
  exact ⟨rfl, rfl, rfl, rfl, rfl, rfl, rfl⟩

theorem processMTPData_sameRing (K : Limits) (s s' : MTPDevice) (c : List Nat)
    (h : processMTPData K s c = .ok s') : SameRing s s' := by
  unfold processMTPData at h
  simp only at h
  split at h
  · simp only [Except.ok.injEq] at h; subst h; exact processDescriptorData_sameRing K s c
  split at h
  · simp only [Except.ok.injEq] at h; subst h; exact processDevicePropDesc_sameRing s c
  split at h
  · exact processGetStorageIDs_sameRing K s s' c h
  split at h
  · exact processGetStoreInfo_sameRing K s s' c h
  split at h
  · simp only [Except.ok.injEq] at h; subst h; exact processObjectPropsSupported_sameRing s c
  split at h
  · simp only [Except.ok.injEq] at h; subst h; exact SameRing.self s
  split at h
  · exact processGetObjectHandles_sameRing s s' c h
  split at h
  · exact processGetObjectPropValue_sameRing s s' c h
  · simp only [Except.ok.injEq] at h; subst h; exact SameRing.self s

theorem sendObjectMsg_sameRing (s s' : MTPDevice) (object_id : Nat)
    (h : sendObjectMsg s object_id = .ok s') : SameRing s s' := by
  unfold sendObjectMsg at h
  simp only at h
  repeat' split at h
  all_goals (cases h <;> exact ⟨rfl, rfl, rfl, rfl, rfl, rfl, rfl⟩)

theorem tx_data_sameRing (s s' : MTPDevice) (h : tx_data s = .ok s') : SameRing s s' := by
  unfold tx_data at h
  simp only at h
  repeat' split at h
  all_goals (cases h <;> exact ⟨rfl, rfl, rfl, rfl, rfl, rfl, rfl⟩)

theorem sendFileObject_sameRing (s : MTPDevice) (storage parent : Nat) (name file : List Nat) :
    SameRing s (sendFileObject s storage parent name file) := by
  unfold sendFileObject
  simp only
  split <;> exact ⟨rfl, rfl, rfl, rfl, rfl, rfl, rfl⟩

theorem disconnect_sameRing (s s' : MTPDevice) (h : disconnect s = .ok s') :
    SameRing s s' := by
  unfold disconnect at h
  split at h
  · cases h
  · simp only [Except.ok.injEq] at h; subst h; exact ⟨rfl, rfl, rfl, rfl, rfl, rfl, rfl⟩

theorem startEnumStorageIndex_sameRing (s : MTPDevice) (index : Nat) (r : MTPDevice × Bool)
    (h : startEnumStorageIndex s index = .ok r) : SameRing s r.1 := by
  unfold startEnumStorageIndex at h
  repeat' split at h
  all_goals (cases h <;> exact ⟨rfl, rfl, rfl, rfl, rfl, rfl, rfl⟩)

theorem startEnumStorageNode_sameRing (s s' : MTPDevice) (node : Ptr)
    (h : startEnumStorageNode s node = .ok s') : SameRing s s' := by
  unfold startEnumStorageNode at h
  repeat' split at h
  all_goals (cases h <;> exact ⟨rfl, rfl, rfl, rfl, rfl, rfl, rfl⟩)

theorem RingInv_responseGetObjectPropValue (K : Limits) (s s' : MTPDevice)
    (hinv : RingInv K s) (h : responseGetObjectPropValue K s = .ok s') : RingInv K s' := by
  unfold responseGetObjectPropValue at h
  simp only at h
  split at h
  · cases h
  · rename_i s1 hadv
    have h1 : SameRing s s1 := by
      repeat' split at hadv
      all_goals (cases hadv <;> exact ⟨rfl, rfl, rfl, rfl, rfl, rfl, rfl⟩)
    have hinv1 : RingInv K s1 := hinv.of_sameRing h1
    split at h
    · split at h
      · cases h
      · cases h
        exact hinv1.of_sameRing ⟨rfl, rfl, rfl, rfl, rfl, rfl, rfl⟩
    · have hinv3 : RingInv K { nextTransaction s1 with enum_node_ := none } :=
        hinv1.of_sameRing ⟨rfl, rfl, rfl, rfl, rfl, rfl, rfl⟩
      split at h
      · exact RingInv_complete_processing_event K _ s' true hinv3 h
      · cases h; exact hinv3

theorem responseGetStorageIDs_sameRing (s s' : MTPDevice)
    (h : responseGetStorageIDs s = .ok s') : SameRing s s' := by
  unfold responseGetStorageIDs at h
  repeat' split at h
  all_goals (cases h <;> exact ⟨rfl, rfl, rfl, rfl, rfl, rfl, rfl⟩)

theorem responseGetStorageInfo_sameRing (s s' : MTPDevice)
    (h : responseGetStorageInfo s = .ok s') : SameRing s s' := by
  unfold responseGetStorageInfo at h
  repeat' split at h
  all_goals (cases h <;> exact ⟨rfl, rfl, rfl, rfl, rfl, rfl, rfl⟩)

theorem responseGetObjectPropsSupported_sameRing (s : MTPDevice) :
    SameRing s (responseGetObjectPropsSupported s) := by
  unfold responseGetObjectPropsSupported
  repeat' split
  all_goals exact ⟨rfl, rfl, rfl, rfl, rfl, rfl, rfl⟩

theorem responseGetObjectPropDesc_sameRing (s : MTPDevice) :
    SameRing s (responseGetObjectPropDesc s) := by
  unfold responseGetObjectPropDesc
  repeat' split
  all_goals exact ⟨rfl, rfl, rfl, rfl, rfl, rfl, rfl⟩

theorem responseGetObjectHandles_sameRing (s s' : MTPDevice)
    (h : responseGetObjectHandles s = .ok s') : SameRing s s' := by
  unfold responseGetObjectHandles at h
  repeat' split at h
  all_goals (cases h <;> exact ⟨rfl, rfl, rfl, rfl, rfl, rfl, rfl⟩)

theorem RingInv_sendMsg {K : Limits} {s : MTPDevice} (h : RingInv K s) (op : Nat)
    (params : List Nat) : RingInv K (sendMsg s op params) :=
  h.of_sameRing (sendMsg_sameRing s op params)

theorem RingInv_nextTransaction {K : Limits} {s : MTPDevice} (h : RingInv K s) :
    RingInv K (nextTransaction s) :=
  h.of_sameRing ⟨rfl, rfl, rfl, rfl, rfl, rfl, rfl⟩

set_option maxHeartbeats 2000000 in
theorem RingInv_responseOK (K : Limits) (s s' : MTPDevice) (c : List Nat)
    (hinv : RingInv K s) (h : responseOK K s c = .ok s') : RingInv K s' := by
  unfold responseOK at h
  split at h
  · obtain rfl := Except.ok.inj h
    have h0 : RingInv K { s with session_id_ := 42 } :=
      hinv.of_sameRing ⟨rfl, rfl, rfl, rfl, rfl, rfl, rfl⟩
    exact RingInv_sendMsg h0 _ _
  split at h
  · obtain rfl := Except.ok.inj h
    exact RingInv_sendMsg (RingInv_nextTransaction hinv) _ _
  split at h
  · obtain rfl := Except.ok.inj h
    exact RingInv_sendMsg (RingInv_nextTransaction hinv) _ _
  split at h
  · exact hinv.of_sameRing (responseGetStorageIDs_sameRing s s' h)
  split at h
  · exact hinv.of_sameRing (responseGetStorageInfo_sameRing s s' h)
  split at h
  · obtain rfl := Except.ok.inj h
    exact hinv.of_sameRing (responseGetObjectPropsSupported_sameRing s)
  split at h
  · obtain rfl := Except.ok.inj h
    exact hinv.of_sameRing (responseGetObjectPropDesc_sameRing s)
  split at h
  · exact hinv.of_sameRing (responseGetObjectHandles_sameRing s s' h)
  split at h
  · exact RingInv_responseGetObjectPropValue K s s' hinv h
  split at h
  · exact hinv.of_sameRing (sendObjectMsg_sameRing s s' _ h)
  split at h
  · exact RingInv_add_event_to_list K s s' _ _ _ hinv h
  · obtain rfl := Except.ok.inj h
    exact hinv

theorem RingInv_processMTPResponse (K : Limits) (s s' : MTPDevice) (c : List Nat)
    (hinv : RingInv K s) (h : processMTPResponse K s c = .ok s') : RingInv K s' := by
  unfold processMTPResponse at h
  have hinv0 : RingInv K { s with last_response_ := MTPContainer.op c } :=
    hinv.of_sameRing ⟨rfl, rfl, rfl, rfl, rfl, rfl, rfl⟩
  split at h
  · exact RingInv_responseOK K _ s' c hinv0 h
  · cases h; exact hinv0

theorem RingInv_rx_data (K : Limits) (s s' : MTPDevice) (len : Nat) (c : List Nat)
    (hinv : RingInv K s) (h : rx_data K s len c = .ok s') : RingInv K s' := by
  unfold rx_data at h
  simp only at h
  split at h
  · split at h
    · exact hinv.of_sameRing (processMTPData_sameRing K s s' c h)
    · split at h
      · exact RingInv_processMTPResponse K s s' c hinv h
      · cases h; exact hinv
  · cases h; exact hinv

theorem RingInv_event_data (K : Limits) (s s' : MTPDevice) (len : Nat) (c : List Nat)
    (hinv : RingInv K s) (h : event_data K s len c = .ok s') : RingInv K s' := by
  unfold event_data at h
  simp only at h
  repeat' split at h
  all_goals first
    | exact RingInv_add_event_to_list K s s' _ _ _ hinv h
    | (cases h; exact hinv)

theorem RingInv_runCallback (K : Limits) (s s' : MTPDevice) (cb : Callback)
    (hinv : RingInv K s) (h : runCallback K s cb = .ok s') : RingInv K s' := by
  cases cb with
  | rx_data len c => exact RingInv_rx_data K s s' len c hinv h
  | tx_data => exact hinv.of_sameRing (tx_data_sameRing s s' h)
  | event_data len c => exact RingInv_event_data K s s' len c hinv h

theorem RingInv_runTask (K : Limits) (t : List Callback) :
    ∀ (s s' : MTPDevice), RingInv K s → runTask K s t = .ok s' → RingInv K s' := by
  induction t with
  | nil => intro s s' hinv h; cases h; exact hinv
  | cons cb rest ih =>
    intro s s' hinv h
    unfold runTask at h
    split at h
    · cases h
    · rename_i s1 h1
      exact ih s1 s' (RingInv_runCallback K s s1 cb hinv h1) h

theorem RingInv_deleteObjectWait (K : Limits) (tasks : List (List Callback)) :
    ∀ (s s' : MTPDevice), RingInv K s → deleteObjectWait K s tasks = .ok s' →
      RingInv K s' := by
  induction tasks with
  | nil => intro s s' hinv h; cases h; exact hinv
  | cons t rest ih =>
    intro s s' hinv h
    unfold deleteObjectWait at h
    split at h
    · split at h
      · cases h
      · rename_i s1 h1
        exact ih s1 s' (RingInv_runTask K t s s1 hinv h1) h
    · cases h; exact hinv

theorem RingInv_step (K : Limits) (s s' : MTPDevice) (a : Action)
    (hinv : RingInv K s) (h : step K s a = .ok s') : RingInv K s' := by
  cases a with
  | callback cb => exact RingInv_runCallback K s s' cb hinv h
  | claim rx tx ev =>
    cases h; exact hinv.of_sameRing ⟨rfl, rfl, rfl, rfl, rfl, rfl, rfl⟩
  | disconnect => exact hinv.of_sameRing (disconnect_sameRing s s' h)
  | startEnumStorageIndex index =>
    simp only [step] at h
    split at h
    · cases h
    · rename_i r hr
      cases h
      exact hinv.of_sameRing (startEnumStorageIndex_sameRing s index r hr)
  | startEnumStorageNode node =>
    exact hinv.of_sameRing (startEnumStorageNode_sameRing s s' node h)
  | deleteObject id format tasks =>
    simp only [step, deleteObject] at h
    split at h
    · cases h
    · rename_i r hr
      split at hr
      · cases hr
      · rename_i s3 h3
        cases hr
        cases h
        have hinv2 : RingInv K (sendMsg { nextTransaction s with last_response_ := 0xffffffff }
            MTP_OPERATION_DELETE_OBJECT [id, format]) :=
          hinv.of_sameRing ⟨rfl, rfl, rfl, rfl, rfl, rfl, rfl⟩
        exact RingInv_deleteObjectWait K tasks _ s3 hinv2 h3
  | sendFileObject storage parent name file =>
    cases h
    exact hinv.of_sameRing (sendFileObject_sameRing s storage parent name file)

theorem RingInv_run (K : Limits) (actions : List Action) :
    ∀ (s s' : MTPDevice), RingInv K s → run K s actions = .ok s' → RingInv K s' := by
  induction actions with
  | nil => intro s s' hinv h; cases h; exact hinv
  | cons a rest ih =>
    intro s s' hinv h
    unfold run at h
    split at h
    · cases h
    · rename_i s1 h1
      exact ih s1 s' (RingInv_step K s s1 a hinv h1) h

theorem RingInv_initial (K : Limits) (hK : 0 < K.MAX_PENDING_EVENTS) (outcomes : List Bool)
    (cb : Bool) : RingInv K (MTPDevice.initial K outcomes cb) := by
  refine ⟨0, [], ⟨hK, hK, ?_, ?_, ?_⟩, fun h => by simp [MTPDevice.initial] at h⟩
  · simp [MTPDevice.initial, ringIdx]
  · simp [MTPDevice.initial, pendingKeys]
  · simp [MTPDevice.initial]

/-- C6: the events the callback has been invoked with are, in order, the
first of the events accepted into the ring: none skipped, repeated or
reordered. -/
theorem delivered_prefix_of_accepted (K : Limits) (hK : 0 < K.MAX_PENDING_EVENTS)
    (s : MTPDevice) (hs : Reachable K s) :
    s.delivered.map slotKey <+: s.accepted.map slotKey := by
  obtain ⟨outcomes, cb, actions, hrun⟩ := hs
  obtain ⟨n, done, ⟨_, _, _, h4, h5⟩, _⟩ :=
    RingInv_run K actions _ s (RingInv_initial K hK outcomes cb) hrun
  rw [h4, h5]
  split
  · exact List.prefix_append _ _
  · exact List.nil_prefix

theorem nextHead_eq_mod (K : Limits) (s : MTPDevice)
    (hh : s.pending_events_head_ < K.MAX_PENDING_EVENTS) :
    nextHead K s = (s.pending_events_head_ + 1) % K.MAX_PENDING_EVENTS := by
  unfold nextHead
  split
  · rename_i h; rw [h, Nat.mod_self]
  · rw [Nat.mod_eq_of_lt (by omega)]

theorem pendingCount_eq (K : Limits) (s : MTPDevice)
    (hh : s.pending_events_head_ < K.MAX_PENDING_EVENTS)
    (ht : s.pending_events_tail_ < K.MAX_PENDING_EVENTS) :
    pendingCount K s = if s.pending_events_tail_ ≤ s.pending_events_head_ then
      s.pending_events_head_ - s.pending_events_tail_
      else s.pending_events_head_ + K.MAX_PENDING_EVENTS - s.pending_events_tail_ := by
  unfold pendingCount
  split
  · rw [Nat.mod_eq_sub_mod (by omega)]
    rw [Nat.mod_eq_of_lt (by omega)]
    omega
  · rw [Nat.mod_eq_of_lt (by omega)]

theorem QueueFrame.of_ringFrame {s s' : MTPDevice} (h : RingFrame s s') : QueueFrame s s' :=
  ⟨h.1, h.2.2.1, h.2.2.2.2.2⟩

theorem QueueFrame.comp {a b c : MTPDevice} (h1 : QueueFrame a b) (h2 : QueueFrame b c) :
    QueueFrame a c :=
  ⟨h2.1.trans h1.1, h2.2.1.trans h1.2.1, fun j => (h2.2.2 j).trans (h1.2.2 j)⟩

theorem start_process_next_eventAux_queueFrame (K : Limits) (fuel : Nat) :
    ∀ (s s' : MTPDevice), start_process_next_eventAux K fuel s = .ok s' → QueueFrame s s' := by
  induction fuel with
  | zero => intro s s' h; simp [start_process_next_eventAux] at h
  | succ fuel ih =>
    intro s s' h
    unfold start_process_next_eventAux at h
    split at h
    · obtain rfl := Except.ok.inj h; exact ⟨rfl, rfl, fun _ => rfl⟩
    · simp only at h
      split at h
      · cases h
      · rename_i s1 event_completed hh
        have hframe : RingFrame s s1 := by
          split at hh
          · exact (process_object_added_event_frame _ _ _ _ hh).1
          · split at hh
            · exact (process_object_removed_event_frame _ _ _ _ hh).1
            · simp only [Except.ok.injEq, Prod.mk.injEq] at hh
              obtain ⟨rfl, rfl⟩ := hh
              exact RingFrame.same _
        split at h
        · split at h
          · cases h
          · rename_i s2 hc
            obtain ⟨c1, _, c3, _, _, c6, _⟩ := completeActiveEvent_spec K _ s2 hc
            have h12 : QueueFrame s1 s2 := ⟨c1, c3, fun j => by rw [c6]⟩
            exact (QueueFrame.of_ringFrame hframe).comp (h12.comp (ih s2 s' h))
        · obtain rfl := Except.ok.inj h
          exact QueueFrame.of_ringFrame hframe

/-- C7: `add_event_to_list` on a full ring (the head, advanced by one modulo
`MAX_PENDING_EVENTS`, would meet the tail) returns the state unchanged.
Otherwise it stores the event at the old head with `item_node = nullptr` and
`delete_node = false`, advances the head by one modulo `MAX_PENDING_EVENTS`
(the state `enqueued`), and starts event processing from there exactly when
the ring was empty; whatever that processing does, the head and the code,
handle and property code of the stored slot stay. -/
theorem add_event_to_list_full_or_stored (K : Limits) (s : MTPDevice) (op id prop_code : Nat)
    (hh : s.pending_events_head_ < K.MAX_PENDING_EVENTS) :
    ((s.pending_events_head_ + 1) % K.MAX_PENDING_EVENTS = s.pending_events_tail_ →
      add_event_to_list K s op id prop_code = .ok s) ∧
    ((s.pending_events_head_ + 1) % K.MAX_PENDING_EVENTS ≠ s.pending_events_tail_ →
      (enqueued K s op id prop_code).pending_events_ s.pending_events_head_ =
        { event := op % 65536, id := id, prop_code := prop_code, item_node := none,
          delete_node := false } ∧
      (enqueued K s op id prop_code).pending_events_head_ =
        (s.pending_events_head_ + 1) % K.MAX_PENDING_EVENTS ∧
      add_event_to_list K s op id prop_code =
        (if s.pending_events_head_ = s.pending_events_tail_ then
          start_process_next_event K (enqueued K s op id prop_code)
        else .ok (enqueued K s op id prop_code)) ∧
      ∀ s', add_event_to_list K s op id prop_code = .ok s' →
        s'.pending_events_head_ = (s.pending_events_head_ + 1) % K.MAX_PENDING_EVENTS ∧
        slotKey (s'.pending_events_ s.pending_events_head_) = (op % 65536, id, prop_code)) := by
  have hnext := nextHead_eq_mod K s hh
  have hslot : (enqueued K s op id prop_code).pending_events_ s.pending_events_head_ =
      newSlot op id prop_code := by simp [enqueued, setAt]
  constructor
  · intro hfull
    rw [add_event_to_list_eq, if_neg (by rw [hnext]; exact not_not.mpr hfull)]
  · intro hroom
    have hroom' : nextHead K s ≠ s.pending_events_tail_ := by rw [hnext]; exact hroom
    have heq : add_event_to_list K s op id prop_code =
        (if s.pending_events_head_ = s.pending_events_tail_ then
          start_process_next_event K (enqueued K s op id prop_code)
        else .ok (enqueued K s op id prop_code)) := by
      rw [add_event_to_list_eq, if_pos hroom']
    refine ⟨hslot, hnext, heq, ?_⟩
    intro s' hs'
    rw [heq] at hs'
    have hq : QueueFrame (enqueued K s op id prop_code) s' := by
      split at hs'
      · exact start_process_next_eventAux_queueFrame K _ _ _ hs'
      · obtain rfl := Except.ok.inj hs'; exact ⟨rfl, rfl, fun _ => rfl⟩
    refine ⟨by rw [hq.1]; exact hnext, ?_⟩
    rw [hq.2.2, hslot]
    rfl

/-- Witness for C7: on the ring of the initial state (empty) an
`ObjectRemoved` event for an unknown handle is stored and the head moves from
0 to 1. -/
theorem add_event_to_list_full_or_stored_witness :
    demoInitial.pending_events_head_ < demoLimits.MAX_PENDING_EVENTS ∧
    (enqueued demoLimits demoInitial MTP_EVENT_OBJECT_REMOVED 9 0).pending_events_head_ =
      (demoInitial.pending_events_head_ + 1) % demoLimits.MAX_PENDING_EVENTS :=
  ⟨by decide,
   ((add_event_to_list_full_or_stored demoLimits demoInitial MTP_EVENT_OBJECT_REMOVED 9 0
      (by decide)).2 (by decide)).2.1⟩

/-- C8 (as amended): the ring holds at most `MAX_PENDING_EVENTS - 1` events.
With the indices in range, `add_event_to_list` drops the event exactly when
`MAX_PENDING_EVENTS - 1` events are pending; with fewer pending the event is
accepted, and if the ring was not empty it is only stored, making one more
event pending. -/
theorem ring_capacity (K : Limits) (s : MTPDevice) (op id prop_code : Nat)
    (hh : s.pending_events_head_ < K.MAX_PENDING_EVENTS)
    (ht : s.pending_events_tail_ < K.MAX_PENDING_EVENTS) :
    pendingCount K s ≤ K.MAX_PENDING_EVENTS - 1 ∧
    (pendingCount K s = K.MAX_PENDING_EVENTS - 1 →
      add_event_to_list K s op id prop_code = .ok s) ∧
    (pendingCount K s < K.MAX_PENDING_EVENTS - 1 →
      (∀ s', add_event_to_list K s op id prop_code = .ok s' →
        s'.accepted = s.accepted ++ [newSlot op id prop_code]) ∧
      (s.pending_events_head_ ≠ s.pending_events_tail_ →
        add_event_to_list K s op id prop_code = .ok (enqueued K s op id prop_code) ∧
        pendingCount K (enqueued K s op id prop_code) = pendingCount K s + 1)) := by
  have hcount := pendingCount_eq K s hh ht
  have hfull : nextHead K s = s.pending_events_tail_ ↔
      pendingCount K s = K.MAX_PENDING_EVENTS - 1 := by
    rw [hcount]; unfold nextHead
    split <;> split <;> omega
  refine ⟨?_, ?_, ?_⟩
  · rw [hcount]; split <;> omega
  · intro h
    rw [add_event_to_list_eq, if_neg (not_not.mpr (hfull.mpr h))]
  · intro h
    have hroom : nextHead K s ≠ s.pending_events_tail_ := fun hc => by
      have := hfull.mp hc; omega
    constructor
    · intro s' hs'
      rw [add_event_to_list_eq, if_pos hroom] at hs'
      have hq : QueueFrame (enqueued K s op id prop_code) s' := by
        split at hs'
        · exact start_process_next_eventAux_queueFrame K _ _ _ hs'
        · obtain rfl := Except.ok.inj hs'; exact ⟨rfl, rfl, fun _ => rfl⟩
      rw [hq.2.1]; rfl
    · intro hne
      refine ⟨by rw [add_event_to_list_eq, if_pos hroom, if_neg hne], ?_⟩
      have hh' : (enqueued K s op id prop_code).pending_events_head_ < K.MAX_PENDING_EVENTS := by
        show nextHead K s < _
        unfold nextHead; split <;> omega
      rw [pendingCount_eq K _ hh' ht, hcount]
      simp only [enqueued, nextHead] at hroom ⊢
      split_ifs at hroom ⊢ <;> omega

/-- Witness for C8: with `MAX_PENDING_EVENTS = 4` and three `ObjectAdded`
events pending, a fourth event is dropped. -/
theorem ring_capacity_witness :
    (stateAfter demoLimits demoInitial threeObjectAdded).pending_events_head_ < 4 ∧
    (stateAfter demoLimits demoInitial threeObjectAdded).pending_events_tail_ < 4 ∧
    pendingCount demoLimits (stateAfter demoLimits demoInitial threeObjectAdded) = 3 ∧
    add_event_to_list demoLimits (stateAfter demoLimits demoInitial threeObjectAdded)
        MTP_EVENT_OBJECT_ADDED 4 0
      = .ok (stateAfter demoLimits demoInitial threeObjectAdded) :=
  ⟨by decide, by decide, by decide,
   (ring_capacity demoLimits (stateAfter demoLimits demoInitial threeObjectAdded)
      MTP_EVENT_OBJECT_ADDED 4 0 (by decide) (by decide)).2.1 (by decide)⟩

/-- C8 fails as stated: with `MAX_PENDING_EVENTS = 4`, after three
`ObjectAdded` events (none of which completes: no event has been delivered)
only three events are pending, yet a fourth event is dropped: the log of
accepted events stays at three entries. -/
theorem ring_capacity_counterexample :
    demoLimits.MAX_PENDING_EVENTS = 4 ∧
    run demoLimits demoInitial threeObjectAdded
      = .ok (stateAfter demoLimits demoInitial threeObjectAdded) ∧
    (stateAfter demoLimits demoInitial threeObjectAdded).delivered = [] ∧
    pendingCount demoLimits (stateAfter demoLimits demoInitial threeObjectAdded) = 3 ∧
    (stateAfter demoLimits
      (stateAfter demoLimits demoInitial threeObjectAdded)
      [.callback (.event_data 16 (eventContainer MTP_EVENT_OBJECT_ADDED 4))]).accepted.length
      = 3 := by
  refine ⟨rfl, rfl, by decide, by decide, by decide⟩

/-- C9 (as amended): an event container whose code is none of `ObjectAdded`,
`ObjectRemoved`, `StoreFull`, `StorageInfoChanged`, `ObjectPropChanged` is
discarded by `event_data`: the driver state, and with it the ring, the
callback log and the forest, stays as it is. -/
theorem event_data_other_code (K : Limits) (s : MTPDevice) (len : Nat) (c : List Nat)
    (h1 : MTPContainer.op c ≠ MTP_EVENT_OBJECT_ADDED)
    (h2 : MTPContainer.op c ≠ MTP_EVENT_OBJECT_REMOVED)
    (h3 : MTPContainer.op c ≠ MTP_EVENT_STORE_FULL)
    (h4 : MTPContainer.op c ≠ MTP_EVENT_STORAGE_INFO_CHANGED)
    (h5 : MTPContainer.op c ≠ MTP_EVENT_OBJECT_PROP_CHANGED) :
    event_data K s len c = .ok s := by
  unfold event_data
  simp [h1, h2, h3, h4, h5]

/-- Witness for C9: a `StoreAdded` event for storage 7. -/
theorem event_data_other_code_witness :
    MTPContainer.op (eventContainer MTP_EVENT_STORE_ADDED 7) = MTP_EVENT_STORE_ADDED ∧
    MTPContainer.params (eventContainer MTP_EVENT_STORE_ADDED 7) 0 = 7 ∧
    event_data demoLimits demoInitial 16 (eventContainer MTP_EVENT_STORE_ADDED 7)
      = .ok demoInitial :=
  ⟨by decide, by decide,
   event_data_other_code demoLimits demoInitial 16 (eventContainer MTP_EVENT_STORE_ADDED 7)
     (by decide) (by decide) (by decide) (by decide) (by decide)⟩

/-- C9 fails as stated: a `StoreAdded` event for storage 7 arriving in the
initial state (callback installed) is neither enqueued nor delivered. -/
theorem event_data_other_code_counterexample :
    MTPContainer.op (eventContainer MTP_EVENT_STORE_ADDED 7) = MTP_EVENT_STORE_ADDED ∧
    MTPContainer.params (eventContainer MTP_EVENT_STORE_ADDED 7) 0 = 7 ∧
    demoInitial.peventCompeteCB_ = true ∧
    (stateAfter demoLimits demoInitial
      [.callback (.event_data 16 (eventContainer MTP_EVENT_STORE_ADDED 7))]).accepted = [] ∧
    (stateAfter demoLimits demoInitial
      [.callback (.event_data 16 (eventContainer MTP_EVENT_STORE_ADDED 7))]).delivered = [] := by
  decide

theorem event_data_objectAdded_eq (K : Limits) (s : MTPDevice) (len : Nat) (c : List Nat)
    (hlen : 0 < len) (hop : MTPContainer.op c = MTP_EVENT_OBJECT_ADDED)
    (hid : MTPContainer.params c 0 ≠ 0) :
    event_data K s len c =
      add_event_to_list K s MTP_EVENT_OBJECT_ADDED (MTPContainer.params c 0) 0 := by
  unfold event_data
  simp [hlen, hop, hid, MTP_EVENT_OBJECT_ADDED, MTP_EVENT_OBJECT_PROP_CHANGED]

/-- C5 (as amended): an `ObjectAdded` event arriving on interrupt-in only
sits in the ring (cursor, `last_mtp_op_`, forest and bulk-out queue
unchanged) when another event is already pending.  When the ring is empty the
event is started at once, whether or not an enumeration is in progress
(`enum_node_` is not consulted): a node is allocated, the cursor becomes
(that node, 0), `last_mtp_op_` becomes `GetObjectPropValue` and the command is
queued. -/
theorem objectAdded_event_arrival (K : Limits) (s : MTPDevice) (len : Nat) (c : List Nat)
    (hlen : 0 < len) (hop : MTPContainer.op c = MTP_EVENT_OBJECT_ADDED)
    (hid : MTPContainer.params c 0 ≠ 0)
    (hroom : nextHead K s ≠ s.pending_events_tail_) :
    (s.pending_events_head_ ≠ s.pending_events_tail_ →
      event_data K s len c =
        .ok (enqueued K s MTP_EVENT_OBJECT_ADDED (MTPContainer.params c 0) 0)) ∧
    (s.pending_events_head_ = s.pending_events_tail_ →
      s.malloc_outcomes.head? ≠ some false →
      ∃ s', event_data K s len c = .ok s' ∧
        s'.prop_node_ = some s.heap.length ∧ s'.prop_index_ = 0 ∧
        s'.enum_node_ = s.enum_node_ ∧
        s'.last_mtp_op_ = MTP_OPERATION_GET_OBJECT_PROP_VALUE ∧
        s'.pending_events_active_ = true ∧
        s'.transaction_id_ = (s.transaction_id_ + 1) % 4294967296 ∧
        s'.bulk_out = s.bulk_out ++
          [getObjectPropValueCommand s'.transaction_id_ (MTPContainer.params c 0)
            (s.object_property_ids_ 0)]) := by
  rw [event_data_objectAdded_eq K s len c hlen hop hid, add_event_to_list_eq, if_pos hroom]
  constructor
  · intro hne
    rw [if_neg hne]
  · intro hempty halloc
    rw [if_pos hempty]
    have hne : (enqueued K s MTP_EVENT_OBJECT_ADDED (MTPContainer.params c 0) 0).pending_events_head_
        ≠ (enqueued K s MTP_EVENT_OBJECT_ADDED (MTPContainer.params c 0) 0).pending_events_tail_ :=
      hroom
    have hev : ((enqueued K s MTP_EVENT_OBJECT_ADDED (MTPContainer.params c 0) 0).pending_events_
        (enqueued K s MTP_EVENT_OBJECT_ADDED (MTPContainer.params c 0) 0).pending_events_tail_)
        = newSlot MTP_EVENT_OBJECT_ADDED (MTPContainer.params c 0) 0 := by
      simp [enqueued, setAt, hempty]
    have hmalloc : extmem_malloc s.heap s.malloc_outcomes =
        (some s.heap.length, s.heap ++ [some zeroNode], s.malloc_outcomes.tail) := by
      cases hm : s.malloc_outcomes with
      | nil => rfl
      | cons b rest =>
        cases b with
        | false => rw [hm] at halloc; simp at halloc
        | true => rfl
    unfold start_process_next_event start_process_next_eventAux
    rw [if_neg hne]
    simp only [hev]
    have hcode : (newSlot MTP_EVENT_OBJECT_ADDED (MTPContainer.params c 0) 0).event
        = MTP_EVENT_OBJECT_ADDED := rfl
    rw [if_pos hcode]
    unfold process_object_added_event
    simp only [enqueued, hmalloc, hev]
    refine ⟨_, rfl, rfl, rfl, rfl, rfl, rfl, rfl, ?_⟩
    simp [sendMsg, nextTransaction, getObjectPropValueCommand, newSlot, containerBytes, write32,
      write16, setAt, hempty]

/-- Witness for C5: the event arrives with the ring empty and an enumeration
in progress. -/
theorem objectAdded_event_arrival_witness :
    (stateAfter demoLimits demoInitial enumerationStarted).enum_node_ = some 0 ∧
    ∃ s', event_data demoLimits (stateAfter demoLimits demoInitial enumerationStarted) 16
        (eventContainer MTP_EVENT_OBJECT_ADDED 9) = .ok s' ∧
      s'.prop_node_ = some 2 ∧ s'.last_mtp_op_ = MTP_OPERATION_GET_OBJECT_PROP_VALUE :=
  ⟨by decide,
   match (objectAdded_event_arrival demoLimits
      (stateAfter demoLimits demoInitial enumerationStarted) 16
      (eventContainer MTP_EVENT_OBJECT_ADDED 9) (by decide) (by decide) (by decide)
      (by decide)).2 (by decide) (by decide) with
   | ⟨s', h1, h2, _, _, h5, _⟩ => ⟨s', h1, h2, h5⟩⟩

/-- C5 fails as stated: with `GetObjectHandles` outstanding for storage 7
(`enum_node_` set, cursor null), an `ObjectAdded(9)` event is started at
once: the cursor moves to a new node, `last_mtp_op_` changes from
`GetObjectHandles` to `GetObjectPropValue` and a second command is queued. -/
theorem objectAdded_event_arrival_counterexample :
    run demoLimits demoInitial enumerationStarted
      = .ok (stateAfter demoLimits demoInitial enumerationStarted) ∧
    (stateAfter demoLimits demoInitial enumerationStarted).enum_node_ = some 0 ∧
    (stateAfter demoLimits demoInitial enumerationStarted).prop_node_ = none ∧
    (stateAfter demoLimits demoInitial enumerationStarted).last_mtp_op_
      = MTP_OPERATION_GET_OBJECT_HANDLES ∧
    (stateAfter demoLimits demoInitial enumerationStarted).bulk_out.length = 1 ∧
    run demoLimits demoInitial
        (enumerationStarted ++
          [.callback (.event_data 16 (eventContainer MTP_EVENT_OBJECT_ADDED 9))])
      = .ok (stateAfter demoLimits demoInitial
        (enumerationStarted ++
          [.callback (.event_data 16 (eventContainer MTP_EVENT_OBJECT_ADDED 9))])) ∧
    (stateAfter demoLimits demoInitial
        (enumerationStarted ++
          [.callback (.event_data 16 (eventContainer MTP_EVENT_OBJECT_ADDED 9))])).prop_node_
      = some 2 ∧
    (stateAfter demoLimits demoInitial
        (enumerationStarted ++
          [.callback (.event_data 16 (eventContainer MTP_EVENT_OBJECT_ADDED 9))])).last_mtp_op_
      = MTP_OPERATION_GET_OBJECT_PROP_VALUE ∧
    (stateAfter demoLimits demoInitial
        (enumerationStarted ++
          [.callback (.event_data 16 (eventContainer MTP_EVENT_OBJECT_ADDED 9))])).bulk_out.length
      = 2 := by
  refine ⟨rfl, by decide, by decide, by decide, by decide, rfl, by decide, by decide,
    by decide⟩

/-- Witness for C6: after a `StoreFull` event for storage 7, which completes
at once, the callback has seen the one accepted event. -/
theorem delivered_prefix_of_accepted_witness :
    0 < demoLimits.MAX_PENDING_EVENTS ∧
    Reachable demoLimits (stateAfter demoLimits demoInitial storeFullArrives) ∧
    (stateAfter demoLimits demoInitial storeFullArrives).delivered.length = 1 ∧
    (stateAfter demoLimits demoInitial storeFullArrives).delivered.map slotKey
      <+: (stateAfter demoLimits demoInitial storeFullArrives).accepted.map slotKey :=
  ⟨by decide, ⟨[], true, storeFullArrives, rfl⟩, by decide,
   delivered_prefix_of_accepted demoLimits (by decide) _ ⟨[], true, storeFullArrives, rfl⟩⟩

/-! ## Heap and shapes -/

theorem load_eq_ok {m : Heap} {a : Nat} {n : storage_list_t} :
    load m a = .ok n ↔ m.get? a = some (some n) := by
  unfold load
  constructor
  · intro h
    split at h
    · rename_i h'; cases h; exact h'
    · cases h
  · intro h; rw [h]

theorem load_lt {m : Heap} {a : Nat} {n : storage_list_t} (h : load m a = .ok n) :
    a < m.length := by
  rw [load_eq_ok] at h
  by_contra hc
  rw [List.get?_eq_none.mpr (by omega)] at h
  cases h

theorem load_congr {m m' : Heap} {a : Nat} (h : m'.get? a = m.get? a) :
    load m' a = load m a := by
  unfold load; rw [h]

theorem load_store_same {m : Heap} {a : Nat} (n : storage_list_t) (h : a < m.length) :
    load (store m a n) a = .ok n := by
  rw [load_eq_ok]
  simp [store, List.getElem?_set, h]

theorem load_store_ne {m : Heap} {a b : Nat} (n : storage_list_t) (h : a ≠ b) :
    load (store m a n) b = load m b := by
  apply load_congr
  simp [store, List.getElem?_set, h]

theorem store_length (m : Heap) (a : Nat) (n : storage_list_t) :
    (store m a n).length = m.length := by
  simp [store]

theorem load_append_left {m : Heap} (l : Heap) {a : Nat} (h : a < m.length) :
    load (m ++ l) a = load m a := by
  apply load_congr
  simp [List.getElem?_append_left h]

theorem load_append_new (m : Heap) (n : storage_list_t) :
    load (m ++ [some n]) m.length = .ok n := by
  rw [load_eq_ok]
  simp

theorem store_self {m : Heap} {a : Nat} {n : storage_list_t} (h : load m a = .ok n) :
    store m a n = m := by
  have hlt := load_lt h
  rw [load_eq_ok] at h
  unfold store
  apply List.ext_get?
  intro i
  by_cases hi : a = i
  · subst hi
    rw [h]
    simp [List.getElem?_set, hlt]
  · simp [List.getElem?_set, hi]

theorem modify_some {m : Heap} {a : Nat} {n : storage_list_t}
    (f : storage_list_t → storage_list_t) (h : load m a = .ok n) :
    modify m (some a) f = .ok (store m a (f n)) := by
  simp [modify, h]

theorem Rep_nil {m : Heap} {p : Ptr} : Rep m p .nil ↔ p = none := Iff.rfl

theorem Rep_node {m : Heap} {p : Ptr} {a : Nat} {c n : Shape} :
    Rep m p (.node a c n) ↔
      p = some a ∧ ∃ cell, load m a = .ok cell ∧ Rep m cell.child c ∧ Rep m cell.next n :=
  Iff.rfl

/-- `Rep` only depends on the cells at the addresses of the shape. -/
theorem Rep_frame {m m' : Heap} : ∀ {sh : Shape} {p : Ptr},
    (∀ a ∈ sh.addrs, load m' a = load m a) → Rep m p sh → Rep m' p sh := by
  intro sh
  induction sh with
  | nil => intro p _ h; exact h
  | node a c n ihc ihn =>
    intro p hframe h
    obtain ⟨hp, cell, hl, hc, hn⟩ := h
    refine ⟨hp, cell, ?_, ihc ?_ hc, ihn ?_ hn⟩
    · rw [hframe a (by simp [Shape.addrs])]; exact hl
    · intro b hb; exact hframe b (by simp [Shape.addrs, hb])
    · intro b hb; exact hframe b (by simp [Shape.addrs, hb])

theorem Rep_live {m : Heap} : ∀ {sh : Shape} {p : Ptr}, Rep m p sh →
    ∀ a ∈ sh.addrs, ∃ cell, load m a = .ok cell := by
  intro sh
  induction sh with
  | nil => intro p _ a ha; simp [Shape.addrs] at ha
  | node a c n ihc ihn =>
    intro p h b hb
    obtain ⟨_, cell, hl, hc, hn⟩ := h
    simp only [Shape.addrs, List.mem_cons, List.mem_append] at hb
    rcases hb with rfl | hb | hb
    · exact ⟨cell, hl⟩
    · exact ihc hc b hb
    · exact ihn hn b hb

theorem Rep_addrs_lt {m : Heap} {sh : Shape} {p : Ptr} (h : Rep m p sh) :
    ∀ a ∈ sh.addrs, a < m.length := fun a ha => by
  obtain ⟨cell, hl⟩ := Rep_live h a ha
  exact load_lt hl

theorem nodup_length_le {l : List Nat} {n : Nat} (hnd : l.Nodup) (hlt : ∀ a ∈ l, a < n) :
    l.length ≤ n := by
  have h1 : l.toFinset ⊆ Finset.range n := by
    intro a ha
    simp only [List.mem_toFinset] at ha
    simp [hlt a ha]
  have h2 := Finset.card_le_card h1
  rw [List.toFinset_card_of_nodup hnd, Finset.card_range] at h2
  exact h2

theorem Shape.height_le_length : ∀ sh : Shape, sh.height ≤ sh.addrs.length := by
  intro sh
  induction sh with
  | nil => simp [Shape.height]
  | node a c n ihc ihn =>
    simp only [Shape.height, Shape.addrs, List.length_cons, List.length_append]
    omega

theorem Rep_height_lt {m : Heap} {sh : Shape} {p : Ptr} (h : Rep m p sh)
    (hnd : sh.addrs.Nodup) : sh.height < m.length + 1 := by
  have := nodup_length_le hnd (Rep_addrs_lt h)
  have := sh.height_le_length
  omega

theorem Rep_none {m : Heap} {sh : Shape} (h : Rep m none sh) : sh = .nil := by
  cases sh with
  | nil => rfl
  | node a c n => cases h.1

theorem Freed_nil (m : Heap) : Freed m [] m :=
  ⟨rfl, fun b => ⟨fun h => by simp at h, fun _ => rfl⟩⟩

theorem Freed.load_of_not_mem {m m' : Heap} {l : List Nat} (h : Freed m l m') {b : Nat}
    (hb : b ∉ l) : load m' b = load m b :=
  load_congr ((h.2 b).2 hb)

theorem freeStorageListTreeAux_spec : ∀ (sh : Shape) (fuel : Nat) (m : Heap) (p : Ptr),
    Rep m p sh → sh.addrs.Nodup → sh.height < fuel →
    ∃ m', freeStorageListTreeAux fuel m p = .ok m' ∧ Freed m sh.addrs m' := by
  intro sh
  induction sh with
  | nil =>
    intro fuel m p h _ hf
    rw [Rep_nil] at h
    subst h
    obtain ⟨f, rfl⟩ : ∃ f, fuel = f + 1 := ⟨fuel - 1, by omega⟩
    exact ⟨m, rfl, Freed_nil m⟩
  | node a c n ihc ihn =>
    intro fuel m p h hnd hf
    obtain ⟨rfl, cell, hl, hc, hn⟩ := h
    obtain ⟨f, rfl⟩ : ∃ f, fuel = f + 1 := ⟨fuel - 1, by omega⟩
    simp only [Shape.height] at hf
    simp only [Shape.addrs, List.nodup_cons, List.mem_append, not_or, List.nodup_append] at hnd
    obtain ⟨⟨hac, han⟩, hcnd, hnnd, hdisj⟩ := hnd
    have hchild : ∃ m1, (if cell.child.isSome then freeStorageListTreeAux f m cell.child
        else .ok m) = .ok m1 ∧ Freed m c.addrs m1 := by
      split
      · exact ihc f m cell.child hc hcnd (by omega)
      · rename_i hnone
        have : cell.child = none := by
          cases hcc : cell.child with
          | none => rfl
          | some x => rw [hcc] at hnone; simp at hnone
        rw [this] at hc
        rw [Rep_none hc]
        exact ⟨m, rfl, Freed_nil m⟩
    obtain ⟨m1, hm1, hfreed1⟩ := hchild
    have hl1 : load m1 a = .ok cell := by rw [hfreed1.load_of_not_mem hac]; exact hl
    have hlen1 : a < m1.length := load_lt hl1
    have hn2 : Rep (m1.set a none) cell.next n := by
      apply Rep_frame _ hn
      intro b hb
      have hba : b ≠ a := fun hc => han (hc ▸ hb)
      have hbc : b ∉ c.addrs := fun hc => hdisj hc hb
      rw [← hfreed1.load_of_not_mem hbc]
      apply load_congr
      simp [List.getElem?_set, Ne.symm hba]
    obtain ⟨m3, hm3, hfreed3⟩ := ihn f (m1.set a none) cell.next hn2 hnnd (by omega)
    refine ⟨m3, ?_, ?_⟩
    · simp only [freeStorageListTreeAux, hl, hm1, freeNode, hl1, hm3]
    · refine ⟨by rw [hfreed3.1, List.length_set, hfreed1.1], fun b => ⟨?_, ?_⟩⟩
      · intro hb
        simp only [Shape.addrs, List.mem_cons, List.mem_append] at hb
        by_cases hbn : b ∈ n.addrs
        · exact (hfreed3.2 b).1 hbn
        · rw [(hfreed3.2 b).2 hbn]
          rcases hb with rfl | hb | hb
          · simp [List.getElem?_set, hlen1]
          · have hba : b ≠ a := fun hc => hac (hc ▸ hb)
            simp only [List.get?_eq_getElem?, List.getElem?_set, Ne.symm hba, if_false]
            simpa using (hfreed1.2 b).1 hb
          · exact absurd hb hbn
      · intro hb
        simp only [Shape.addrs, List.mem_cons, List.mem_append, not_or] at hb
        obtain ⟨hba, hbc, hbn⟩ := hb
        rw [(hfreed3.2 b).2 hbn]
        simp only [List.get?_eq_getElem?, List.getElem?_set, Ne.symm hba, if_false]
        simpa using (hfreed1.2 b).2 hbc

theorem freeStorageListTree_spec {m : Heap} {p : Ptr} {sh : Shape} (h : Rep m p sh)
    (hnd : sh.addrs.Nodup) :
    ∃ m', freeStorageListTree m p = .ok m' ∧ Freed m sh.addrs m' :=
  freeStorageListTreeAux_spec sh _ m p h hnd (Rep_height_lt h hnd)

theorem idOf_of_load {m : Heap} {a : Nat} {cell : storage_list_t} (h : load m a = .ok cell) :
    idOf m a = cell.id := by
  simp [idOf, h]

theorem Rep_spine {m : Heap} : ∀ {ks : Kids} {p : Ptr},
    Rep m p (spine ks) ↔ Chain m p (tops ks) ∧ Subtrees m ks := by
  intro ks
  induction ks with
  | nil => intro p; simp [spine, Rep, Chain, tops, Subtrees]
  | cons k ks ih =>
    intro p
    simp only [spine, Rep_node, tops, List.map_cons, Chain, Subtrees, List.mem_cons,
      forall_eq_or_imp]
    constructor
    · rintro ⟨hp, cell, hl, hc, hn⟩
      have := ih.mp hn
      exact ⟨⟨hp, cell, hl, this.1⟩, ⟨cell, hl, hc⟩, this.2⟩
    · rintro ⟨⟨hp, cell, hl, hch⟩, ⟨cell', hl', hc⟩, hs⟩
      rw [hl] at hl'
      cases hl'
      exact ⟨hp, cell, hl, hc, ih.mpr ⟨hch, hs⟩⟩

theorem spine_addrs_cons (k : Nat × Shape) (ks : Kids) :
    (spine (k :: ks)).addrs = k.1 :: (k.2.addrs ++ (spine ks).addrs) := rfl

theorem tops_subset_addrs : ∀ (ks : Kids), ∀ a ∈ tops ks, a ∈ (spine ks).addrs := by
  intro ks
  induction ks with
  | nil => intro a ha; simp [tops] at ha
  | cons k ks ih =>
    intro a ha
    simp only [tops, List.map_cons, List.mem_cons] at ha
    rw [spine_addrs_cons]
    rcases ha with rfl | ha
    · simp
    · simp [ih a (by simpa [tops] using ha)]

theorem sub_subset_addrs : ∀ (ks : Kids), ∀ k ∈ ks, ∀ a ∈ k.2.addrs, a ∈ (spine ks).addrs := by
  intro ks
  induction ks with
  | nil => intro k hk; simp at hk
  | cons k0 ks ih =>
    intro k hk a ha
    rw [spine_addrs_cons]
    simp only [List.mem_cons] at hk
    rcases hk with rfl | hk
    · simp [ha]
    · simp [ih k hk a ha]

theorem spine_addrs_append (ks1 ks2 : Kids) :
    ∀ a, a ∈ (spine (ks1 ++ ks2)).addrs ↔ a ∈ (spine ks1).addrs ∨ a ∈ (spine ks2).addrs := by
  induction ks1 with
  | nil => intro a; simp [spine, Shape.addrs]
  | cons k ks ih =>
    intro a
    simp only [List.cons_append, spine_addrs_cons, List.mem_cons, List.mem_append, ih a]
    tauto

theorem spine_addrs_perm_append (ks1 ks2 : Kids) :
    (spine (ks1 ++ ks2)).addrs = (spine ks1).addrs ++ (spine ks2).addrs := by
  induction ks1 with
  | nil => simp [spine, Shape.addrs]
  | cons k ks ih =>
    simp only [List.cons_append, spine_addrs_cons, ih, List.append_assoc]

theorem Chain_frame {m m' : Heap} : ∀ {l : List Nat} {p : Ptr},
    (∀ a ∈ l, ∀ cell, load m a = .ok cell → ∃ cell', load m' a = .ok cell' ∧
      cell'.next = cell.next) →
    Chain m p l → Chain m' p l := by
  intro l
  induction l with
  | nil => intro p _ h; exact h
  | cons a l ih =>
    intro p hf h
    obtain ⟨hp, cell, hl, hc⟩ := h
    obtain ⟨cell', hl', hn⟩ := hf a (by simp) cell hl
    exact ⟨hp, cell', hl', by rw [hn]; exact ih (fun b hb => hf b (by simp [hb])) hc⟩

theorem Chain_live {m : Heap} : ∀ {l : List Nat} {p : Ptr}, Chain m p l →
    ∀ a ∈ l, ∃ cell, load m a = .ok cell := by
  intro l
  induction l with
  | nil => intro p _ a ha; simp at ha
  | cons a l ih =>
    intro p h b hb
    obtain ⟨_, cell, hl, hc⟩ := h
    simp only [List.mem_cons] at hb
    rcases hb with rfl | hb
    · exact ⟨cell, hl⟩
    · exact ih hc b hb

theorem Chain_append_last {m : Heap} : ∀ {l : List Nat} {p : Ptr} {a : Nat},
    Chain m p (l ++ [a]) → ∃ cell, load m a = .ok cell ∧ cell.next = none := by
  intro l
  induction l with
  | nil =>
    intro p a h
    obtain ⟨_, cell, hl, hc⟩ := h
    exact ⟨cell, hl, hc⟩
  | cons b l ih =>
    intro p a h
    obtain ⟨_, cell, hl, hc⟩ := h
    exact ih hc

/-- Searching the chain `l` for the id `h` when no node carries it. -/
theorem findOldChild_none {m : Heap} {h : Nat} : ∀ (l : List Nat) (fuel : Nat) (prev p : Ptr),
    Chain m p l → l.length < fuel → (∀ a ∈ l, idOf m a ≠ h) →
    ∃ prev', findOldChild fuel m h prev p = .ok (prev', none) := by
  intro l
  induction l with
  | nil =>
    intro fuel prev p hc hf _
    obtain ⟨f, rfl⟩ : ∃ f, fuel = f + 1 := ⟨fuel - 1, by simp at hf; omega⟩
    rw [show p = none from hc]
    exact ⟨prev, rfl⟩
  | cons a l ih =>
    intro fuel prev p hc hf hid
    obtain ⟨f, rfl⟩ : ∃ f, fuel = f + 1 := ⟨fuel - 1, by simp at hf; omega⟩
    obtain ⟨rfl, cell, hl, hch⟩ := hc
    have hne : cell.id ≠ h := by
      have := hid a (by simp)
      rwa [idOf_of_load hl] at this
    obtain ⟨prev', hp⟩ := ih f (some a) cell.next hch (by simp at hf; omega)
      (fun b hb => hid b (by simp [hb]))
    refine ⟨prev', ?_⟩
    simp only [findOldChild, hl, hne, ne_eq, not_false_eq_true, if_true, hp]

theorem lastOr_cons (prev : Ptr) (a : Nat) (l : List Nat) :
    lastOr prev (a :: l) = lastOr (some a) l := by
  cases l with
  | nil => rfl
  | cons b l =>
    simp only [lastOr, List.getLast?_cons_cons]
    rw [List.getLast?_eq_getLast _ (List.cons_ne_nil b l)]

/-- Searching the chain for the id `h` when `a` is the first node that
carries it. -/
theorem findOldChild_found {m : Heap} {h a : Nat} {l2 : List Nat} :
    ∀ (l1 : List Nat) (fuel : Nat) (prev p : Ptr),
    Chain m p (l1 ++ a :: l2) → l1.length < fuel → (∀ b ∈ l1, idOf m b ≠ h) → idOf m a = h →
    findOldChild fuel m h prev p = .ok (lastOr prev l1, some a) := by
  intro l1
  induction l1 with
  | nil =>
    intro fuel prev p hc hf _ ha
    obtain ⟨f, rfl⟩ : ∃ f, fuel = f + 1 := ⟨fuel - 1, by omega⟩
    obtain ⟨rfl, cell, hl, hch⟩ := hc
    rw [idOf_of_load hl] at ha
    simp [findOldChild, hl, ha, lastOr]
  | cons b l1 ih =>
    intro fuel prev p hc hf hid ha
    obtain ⟨f, rfl⟩ : ∃ f, fuel = f + 1 := ⟨fuel - 1, by omega⟩
    obtain ⟨rfl, cell, hl, hch⟩ := hc
    have hne : cell.id ≠ h := by
      have := hid b (by simp)
      rwa [idOf_of_load hl] at this
    have := ih f (some b) cell.next hch (by simp at hf; omega)
      (fun x hx => hid x (by simp [hx])) ha
    simp only [findOldChild, hl, hne, ne_eq, not_false_eq_true, if_true, this, lastOr_cons]

theorem Chain_relink {m : Heap} {b : Nat} {bn : storage_list_t} {q : Ptr} {l2 rest : List Nat}
    (hb : load m b = .ok bn) (hq : Chain m q l2) (hb2 : b ∉ l2) :
    ∀ (l : List Nat) (p : Ptr), Chain m p (l ++ b :: rest) → b ∉ l →
    Chain (store m b { bn with next := q }) p (l ++ b :: l2) := by
  have hlt := load_lt hb
  have hq' : Chain (store m b { bn with next := q }) q l2 := by
    apply Chain_frame _ hq
    intro a ha cell hl
    have : b ≠ a := fun h => hb2 (h ▸ ha)
    exact ⟨cell, by rw [load_store_ne _ this]; exact hl, rfl⟩
  intro l
  induction l with
  | nil =>
    intro p hc _
    obtain ⟨hp, _, _, _⟩ := hc
    exact ⟨hp, _, load_store_same _ hlt, hq'⟩
  | cons x l ih =>
    intro p hc hbl
    obtain ⟨hp, cell, hl, hch⟩ := hc
    simp only [List.mem_cons, not_or] at hbl
    exact ⟨hp, cell, by rw [load_store_ne _ hbl.1]; exact hl, ih cell.next hch hbl.2⟩

theorem Chain_split {m : Heap} {a : Nat} {l2 : List Nat} :
    ∀ (l1 : List Nat) (p : Ptr), Chain m p (l1 ++ a :: l2) →
    ∃ cell, load m a = .ok cell ∧ Chain m cell.next l2 := by
  intro l1
  induction l1 with
  | nil => intro p h; obtain ⟨_, cell, hl, hc⟩ := h; exact ⟨cell, hl, hc⟩
  | cons x l ih => intro p h; obtain ⟨_, cell, hl, hc⟩ := h; exact ih cell.next hc

/-- Storing a cell that differs from the old one only in its `next` link
keeps the subtrees of children whose subtrees do not contain that address. -/
theorem Subtrees_store_next {m : Heap} {x : Nat} {xn : storage_list_t} {q : Ptr} {ks : Kids}
    (hx : load m x = .ok xn) (hsub : Subtrees m ks) (hnot : ∀ k ∈ ks, x ∉ k.2.addrs) :
    Subtrees (store m x { xn with next := q }) ks := by
  intro k hk
  obtain ⟨cell, hl, hrep⟩ := hsub k hk
  have hframe : Rep (store m x { xn with next := q }) cell.child k.2 := by
    apply Rep_frame _ hrep
    intro a ha
    have : x ≠ a := fun h => hnot k hk (h ▸ ha)
    exact load_store_ne _ this
  by_cases hxk : x = k.1
  · subst hxk
    rw [hx] at hl
    cases hl
    exact ⟨_, load_store_same _ (load_lt hx), hframe⟩
  · exact ⟨cell, by rw [load_store_ne _ hxk]; exact hl, hframe⟩

/-- Storing at an address that is neither a child nor inside a subtree keeps
the subtrees. -/
theorem Subtrees_store_other {m : Heap} {x : Nat} (c : storage_list_t) {ks : Kids}
    (hsub : Subtrees m ks) (hnot : ∀ a ∈ (spine ks).addrs, x ≠ a) :
    Subtrees (store m x c) ks := by
  intro k hk
  obtain ⟨cell, hl, hrep⟩ := hsub k hk
  refine ⟨cell, ?_, ?_⟩
  · rw [load_store_ne _ (hnot k.1 (tops_subset_addrs ks k.1 (by simp [tops]; exact ⟨k.2, hk⟩)))]
    exact hl
  · apply Rep_frame _ hrep
    intro a ha
    exact load_store_ne _ (hnot a (sub_subset_addrs ks k hk a ha))

theorem Chain_store_other {m : Heap} {x : Nat} (c : storage_list_t) {l : List Nat} {p : Ptr}
    (hc : Chain m p l) (hnot : x ∉ l) : Chain (store m x c) p l := by
  apply Chain_frame _ hc
  intro a ha cell hl
  have : x ≠ a := fun h => hnot (h ▸ ha)
  exact ⟨cell, by rw [load_store_ne _ this]; exact hl, rfl⟩

theorem Subtrees_append {m : Heap} {ks1 ks2 : Kids} :
    Subtrees m (ks1 ++ ks2) ↔ Subtrees m ks1 ∧ Subtrees m ks2 := by
  simp only [Subtrees, List.mem_append]
  constructor
  · intro h; exact ⟨fun k hk => h k (Or.inl hk), fun k hk => h k (Or.inr hk)⟩
  · rintro ⟨h1, h2⟩ k (hk | hk)
    · exact h1 k hk
    · exact h2 k hk

/-! ## The loop of `processGetObjectHandles` -/

theorem read32_write32 (v : Nat) (rest : List Nat) (hv : v < 4294967296) :
    read32 (write32 v ++ rest) = (v, rest) := by
  simp only [read32, write32, byteAt, List.cons_append, List.nil_append, List.getD_cons_zero,
    List.getD_cons_succ, List.drop_succ_cons, List.drop_zero, Nat.mod_mod, Prod.mk.injEq,
    and_true]
  omega

theorem Kept.unchanged (e : Nat) (S : List Nat) (m : Heap) : Kept e S m m :=
  ⟨Nat.le_refl _, fun _ cell h => ⟨cell, h, fun _ => rfl, fun _ => rfl, fun _ => rfl⟩,
    fun _ cell' _ h => ⟨cell', h⟩⟩

theorem Kept.mono {e : Nat} {S S' : List Nat} {m m' : Heap} (h : Kept e S m m')
    (hss : ∀ b ∈ S, b < m.length → b ∈ S') : Kept e S' m m' := by
  refine ⟨h.1, fun b cell hl => ?_, h.2.2⟩
  obtain ⟨cell', hl', h1, h2, h3⟩ := h.2.1 b cell hl
  exact ⟨cell', hl', fun hb => h1 (fun hc => hb (hss b hc (load_lt hl))), h2, h3⟩

theorem Kept.andThen {e : Nat} {S : List Nat} {m1 m2 m3 : Heap} (h12 : Kept e S m1 m2)
    (h23 : Kept e S m2 m3) : Kept e S m1 m3 := by
  refine ⟨Nat.le_trans h12.1 h23.1, fun b cell hl => ?_, fun b cell' hb hl => ?_⟩
  · obtain ⟨c2, hl2, a1, a2, a3⟩ := h12.2.1 b cell hl
    obtain ⟨c3, hl3, b1, b2, b3⟩ := h23.2.1 b c2 hl2
    exact ⟨c3, hl3, fun hb => (b1 hb).trans (a1 hb), fun hb => (b2 hb).trans (a2 hb),
      fun hb => (b3 hb).trans (a3 hb)⟩
  · obtain ⟨c2, hl2⟩ := h23.2.2 b cell' (Nat.lt_of_lt_of_le hb h12.1) hl
    exact h12.2.2 b c2 hb hl2

theorem Kept.idOf_eq {e : Nat} {S : List Nat} {m m' : Heap} (h : Kept e S m m') {b : Nat}
    {cell : storage_list_t} (hl : load m b = .ok cell) : idOf m' b = cell.id := by
  obtain ⟨cell', hl', _, h2, h3⟩ := h.2.1 b cell hl
  rw [idOf_of_load hl']
  by_cases hb : b = e
  · have := h3 hb
    simp only [storage_list_t.mk.injEq] at this
    exact this.1
  · have := h2 hb
    simp only [storage_list_t.mk.injEq] at this
    exact this.1

theorem Kept_store_next {e x : Nat} {m : Heap} {xn : storage_list_t} (q : Ptr)
    (hx : load m x = .ok xn) (hxe : x ≠ e) :
    Kept e [x] m (store m x { xn with next := q }) := by
  refine ⟨by rw [store_length], fun b cell hl => ?_, fun b cell' _ hl => ?_⟩
  · by_cases hb : x = b
    · subst hb
      rw [hx] at hl
      cases hl
      exact ⟨_, load_store_same _ (load_lt hx), fun h => absurd (List.mem_singleton.mpr rfl) h,
        fun _ => rfl, fun h => absurd h hxe⟩
    · exact ⟨cell, by rw [load_store_ne _ hb]; exact hl, fun _ => rfl, fun _ => rfl,
        fun _ => rfl⟩
  · by_cases hb : x = b
    · subst hb; exact ⟨xn, hx⟩
    · rw [load_store_ne _ hb] at hl; exact ⟨cell', hl⟩

theorem Kept_store_child {e : Nat} {m : Heap} {en : storage_list_t} (q : Ptr)
    (he : load m e = .ok en) :
    Kept e [e] m (store m e { en with child := q }) := by
  refine ⟨by rw [store_length], fun b cell hl => ?_, fun b cell' _ hl => ?_⟩
  · by_cases hb : e = b
    · subst hb
      rw [he] at hl
      cases hl
      exact ⟨_, load_store_same _ (load_lt he), fun h => absurd (List.mem_singleton.mpr rfl) h,
        fun h => absurd rfl h, fun _ => rfl⟩
    · exact ⟨cell, by rw [load_store_ne _ hb]; exact hl, fun _ => rfl, fun _ => rfl,
        fun _ => rfl⟩
  · by_cases hb : e = b
    · subst hb; exact ⟨en, he⟩
    · rw [load_store_ne _ hb] at hl; exact ⟨cell', hl⟩

theorem Outside.chain {S : List Nat} {m m' : Heap} (h : Outside S m m') {l : List Nat}
    {p : Ptr} (hc : Chain m p l) (hdis : ∀ a ∈ l, a ∉ S) : Chain m' p l := by
  apply Chain_frame _ hc
  intro a ha cell hl
  exact ⟨cell, by rw [h a (hdis a ha) (load_lt hl)]; exact hl, rfl⟩

theorem Outside.subtrees {S : List Nat} {m m' : Heap} (h : Outside S m m') {ks : Kids}
    (hs : Subtrees m ks) (hdis : ∀ a ∈ (spine ks).addrs, a ∉ S) : Subtrees m' ks := by
  intro k hk
  obtain ⟨cell, hl, hrep⟩ := hs k hk
  have hk1 : k.1 ∈ (spine ks).addrs :=
    tops_subset_addrs ks k.1 (by simp only [tops, List.mem_map]; exact ⟨k, hk, rfl⟩)
  refine ⟨cell, by rw [h k.1 (hdis _ hk1) (load_lt hl)]; exact hl, ?_⟩
  apply Rep_frame _ hrep
  intro a ha
  exact h a (hdis a (sub_subset_addrs ks k hk a ha)) (Rep_addrs_lt hrep a ha)

theorem Outside_store (m : Heap) (x : Nat) (c : storage_list_t) :
    Outside [x] m (store m x c) := by
  intro b hb _
  have : x ≠ b := fun h => hb (by simp [h])
  exact load_store_ne _ this

theorem tops_append (ks1 ks2 : Kids) : tops (ks1 ++ ks2) = tops ks1 ++ tops ks2 := by
  simp [tops]

theorem nodup_tops_of_nodup_addrs : ∀ (ks : Kids), (spine ks).addrs.Nodup → (tops ks).Nodup := by
  intro ks
  induction ks with
  | nil => intro _; simp [tops]
  | cons k ks ih =>
    intro h
    rw [spine_addrs_cons] at h
    simp only [List.nodup_cons, List.mem_append, not_or, List.nodup_append] at h
    obtain ⟨⟨_, h2⟩, _, h4, _⟩ := h
    simp only [tops, List.map_cons, List.nodup_cons]
    exact ⟨fun hc => h2 (tops_subset_addrs ks k.1 hc), ih h4⟩

theorem appendChild_spec {e a : Nat} {L : HandlesLoop} {old new : Kids} {an : storage_list_t}
    {sh : Shape} (hinv : LoopInv e L old new) (ha : load L.heap a = .ok an)
    (hrep : Rep L.heap an.child sh) (hae : a ≠ e) (ha_old : a ∉ (spine old).addrs)
    (ha_new : a ∉ (spine new).addrs) (ha_sh : a ∉ sh.addrs) (he_sh : e ∉ sh.addrs)
    (hsh_old : ∀ x ∈ sh.addrs, x ∉ (spine old).addrs)
    (hsh_new : ∀ x ∈ sh.addrs, x ∉ (spine new).addrs) (hsh_nd : sh.addrs.Nodup) :
    ∃ L', appendChild e L a = .ok L' ∧ LoopInv e L' old (new ++ [(a, sh)]) ∧
      Kept e (e :: a :: tops new) L.heap L'.heap ∧ L'.heap.length = L.heap.length ∧
      L'.malloc_outcomes = L.malloc_outcomes ∧ L'.old_child_list = L.old_child_list ∧
      Outside (e :: a :: tops new) L.heap L'.heap := by
  obtain ⟨⟨en, hen, hchain⟩, holdc, hlast, hsubo, hsubn, hnd⟩ := hinv
  simp only [List.nodup_cons, List.mem_append, not_or, List.nodup_append] at hnd
  obtain ⟨⟨he_old, he_new⟩, hnd_old, hnd_new, hdisj⟩ := hnd
  have ha_tops : a ∉ tops new := fun h => ha_new (tops_subset_addrs new a h)
  have he_tops : e ∉ tops new := fun h => he_new (tops_subset_addrs new e h)
  have halt := load_lt ha
  -- first store: child->next = nullptr
  have hm1 : modify L.heap (some a) (fun x => { x with next := none })
      = .ok (store L.heap a { an with next := none }) := modify_some _ ha
  have hk1 : Kept e [a] L.heap (store L.heap a { an with next := none }) :=
    Kept_store_next none ha hae
  have ho1 : Outside [a] L.heap (store L.heap a { an with next := none }) := Outside_store _ _ _
  have ha1 : load (store L.heap a { an with next := none }) a = .ok { an with next := none } :=
    load_store_same _ halt
  have hen1 : load (store L.heap a { an with next := none }) e = .ok en := by
    rw [load_store_ne _ hae]; exact hen
  have hchain1 : Chain (store L.heap a { an with next := none }) en.child (tops new) :=
    Chain_store_other _ hchain ha_tops
  have hsing : Chain (store L.heap a { an with next := none }) (some a) [a] :=
    ⟨rfl, _, ha1, rfl⟩
  -- the second store and what it leaves
  have key : ∃ x c, linkAtEnd e (store L.heap a { an with next := none })
          L.last_added_child a
        = .ok (store (store L.heap a { an with next := none }) x c) ∧
      (x = e ∨ x ∈ tops new) ∧ x ≠ a ∧
      Kept e [x] (store L.heap a { an with next := none })
        (store (store L.heap a { an with next := none }) x c) ∧
      (∃ en', load (store (store L.heap a { an with next := none }) x c) e = .ok en' ∧
        Chain (store (store L.heap a { an with next := none }) x c) en'.child
          (tops new ++ [a])) ∧
      Subtrees (store (store L.heap a { an with next := none }) x c) new := by
    rcases List.eq_nil_or_concat new with hnew | ⟨new', kl, hnew⟩
    · subst hnew
      rw [hlast]
      refine ⟨e, { en with child := some a }, ?_, Or.inl rfl, Ne.symm hae,
        Kept_store_child _ hen1, ?_, ?_⟩
      · simp only [tops, List.map_nil, List.getLast?_nil, linkAtEnd]
        exact modify_some _ hen1
      · refine ⟨_, load_store_same _ (load_lt hen1), ?_⟩
        exact Chain_store_other _ hsing (by simp [tops, Ne.symm hae])
      · intro k hk; simp at hk
    · rw [List.concat_eq_append] at hnew
      subst hnew
      have hl_mem : kl.1 ∈ tops (new' ++ [kl]) := by simp [tops]
      have hla : kl.1 ≠ a := fun h => ha_tops (h ▸ hl_mem)
      have hle : kl.1 ≠ e := fun h => he_tops (h ▸ hl_mem)
      obtain ⟨ln, hln⟩ := Chain_live hchain1 kl.1 hl_mem
      rw [hlast]
      have htn : tops (new' ++ [kl]) = tops new' ++ [kl.1] := by simp [tops]
      have hndt : (tops new' ++ [kl.1]).Nodup := by
        rw [← htn]; exact nodup_tops_of_nodup_addrs _ hnd_new
      have hl_notin : kl.1 ∉ tops new' := by
        intro h
        have := List.nodup_append.mp hndt
        exact this.2.2 h (by simp)
      refine ⟨kl.1, { ln with next := some a }, ?_, Or.inr hl_mem, hla,
        Kept_store_next _ hln hle, ?_, ?_⟩
      · rw [htn, List.getLast?_concat]
        simp only [linkAtEnd]
        exact modify_some _ hln
      · refine ⟨en, by rw [load_store_ne _ hle]; exact hen1, ?_⟩
        rw [htn] at hchain1 ⊢
        have := Chain_relink hln hsing (by simp [hla]) (tops new') en.child hchain1 hl_notin
        simpa using this
      · apply Subtrees_store_next hln
        · exact Subtrees_store_other _ hsubn (fun x hx h => ha_new (h ▸ hx))
        · intro k hk hmem
          -- kl.1 is a top, so it is not inside any subtree
          have hk_in : kl.1 ∈ (spine (new' ++ [kl])).addrs := tops_subset_addrs _ _ hl_mem
          have hsub_in := sub_subset_addrs _ k hk _ hmem
          rcases List.mem_append.mp hk with hk' | hk'
          · -- k among new'
            have h1 : kl.1 ∈ (spine new').addrs := sub_subset_addrs _ k hk' _ hmem
            rw [spine_addrs_perm_append] at hnd_new
            have := (List.nodup_append.mp hnd_new).2.2 h1
            exact this (by simp [spine, Shape.addrs])
          · simp only [List.mem_singleton] at hk'
            subst hk'
            rw [spine_addrs_perm_append] at hnd_new
            have := (List.nodup_append.mp hnd_new).2.1
            simp only [spine, Shape.addrs, List.append_nil, List.nodup_cons] at this
            exact this.1 hmem
  obtain ⟨x, c, hmod, hxmem, hxa, hk2, henum2, hsubn2⟩ := key
  have hx_set : ∀ b, b ∉ (e :: a :: tops new) → b ≠ x := by
    intro b hb h
    subst h
    simp only [List.mem_cons, not_or] at hb
    rcases hxmem with h | h
    · exact hb.1 h
    · exact hb.2.2 h
  have ho2 : Outside (e :: a :: tops new) L.heap
      (store (store L.heap a { an with next := none }) x c) := by
    intro b hb hlt
    have hbx := hx_set b hb
    simp only [List.mem_cons, not_or] at hb
    rw [load_store_ne _ (Ne.symm hbx), load_store_ne _ (Ne.symm hb.2.1)]
  refine ⟨{ L with heap := store (store L.heap a { an with next := none }) x c
                   last_added_child := some a }, ?_, ?_, ?_, ?_, rfl, rfl, ho2⟩
  · unfold appendChild
    simp only [hm1]
    rw [hmod]
  · refine ⟨?_, ?_, ?_, ?_, ?_, ?_⟩
    · rw [tops_append]; simpa [tops] using henum2
    · exact ho2.chain holdc (fun b hb hc => by
        have hb_old := tops_subset_addrs old b hb
        simp only [List.mem_cons] at hc
        rcases hc with rfl | rfl | hc
        · exact he_old hb_old
        · exact ha_old hb_old
        · exact hdisj hb_old (tops_subset_addrs new b hc))
    · simp [tops]
    · exact ho2.subtrees hsubo (fun b hb hc => by
        simp only [List.mem_cons] at hc
        rcases hc with rfl | rfl | hc
        · exact he_old hb
        · exact ha_old hb
        · exact hdisj hb (tops_subset_addrs new b hc))
    · rw [Subtrees_append]
      refine ⟨hsubn2, ?_⟩
      intro k hk
      simp only [List.mem_singleton] at hk
      subst hk
      refine ⟨{ an with next := none }, ?_, ?_⟩
      · show load (store (store L.heap a { an with next := none }) x c) a = _
        rw [load_store_ne _ hxa]; exact ha1
      · apply Rep_frame _ hrep
        intro b hb
        show load (store (store L.heap a { an with next := none }) x c) b = _
        have hbx : x ≠ b := by
          rcases hxmem with h | h
          · rw [h]; exact fun hc => he_sh (hc ▸ hb)
          · exact fun hc => hsh_new b hb (tops_subset_addrs new b (hc ▸ h))
        have hba : a ≠ b := fun hc => ha_sh (hc ▸ hb)
        rw [load_store_ne _ hbx, load_store_ne _ hba]
    · rw [spine_addrs_perm_append]
      have hone : (spine [(a, sh)]).addrs = a :: sh.addrs := by simp [spine, Shape.addrs]
      rw [hone, List.nodup_cons]
      refine ⟨?_, List.nodup_append.mpr ⟨hnd_old, List.nodup_append.mpr ⟨hnd_new, ?_, ?_⟩, ?_⟩⟩
      · simp only [List.mem_append, List.mem_cons, not_or]
        exact ⟨he_old, he_new, Ne.symm hae, he_sh⟩
      · exact List.nodup_cons.mpr ⟨ha_sh, hsh_nd⟩
      · intro b hb hc
        rcases List.mem_cons.mp hc with rfl | hc
        · exact ha_new hb
        · exact hsh_new b hc hb
      · intro b hb hc
        rcases List.mem_append.mp hc with hc | hc
        · exact hdisj hb hc
        · rcases List.mem_cons.mp hc with rfl | hc
          · exact ha_old hb
          · exact hsh_old b hc hb
  · have h12 : Kept e (e :: a :: tops new) L.heap (store L.heap a { an with next := none }) :=
      hk1.mono (fun b hb _ => by simp at hb; simp [hb])
    have h23 : Kept e (e :: a :: tops new) (store L.heap a { an with next := none })
        (store (store L.heap a { an with next := none }) x c) :=
      hk2.mono (fun b hb _ => by
        simp only [List.mem_singleton] at hb
        subst hb
        rcases hxmem with h | h
        · simp [h]
        · simp [h])
    exact h12.andThen h23
  · simp [store_length]

theorem top_not_in_sub : ∀ (ks : Kids), (spine ks).addrs.Nodup →
    ∀ t ∈ tops ks, ∀ k ∈ ks, t ∉ k.2.addrs := by
  intro ks
  induction ks with
  | nil => intro _ t ht; simp [tops] at ht
  | cons k0 ks ih =>
    intro hnd t ht k hk hmem
    rw [spine_addrs_cons] at hnd
    simp only [List.nodup_cons, List.mem_append, not_or, List.nodup_append] at hnd
    obtain ⟨⟨h1, h2⟩, h3, h4, h5⟩ := hnd
    simp only [tops, List.map_cons, List.mem_cons] at ht
    simp only [List.mem_cons] at hk
    rcases ht with rfl | ht <;> rcases hk with rfl | hk
    · exact h1 hmem
    · exact h2 (sub_subset_addrs ks k hk _ hmem)
    · exact h5 hmem (tops_subset_addrs ks t ht)
    · exact ih h4 t ht k hk hmem

theorem spine_addrs_perm_middle (o1 : Kids) (k : Nat × Shape) (o2 : Kids) :
    List.Perm (spine (o1 ++ k :: o2)).addrs (k.1 :: (k.2.addrs ++ (spine (o1 ++ o2)).addrs)) := by
  rw [spine_addrs_perm_append, spine_addrs_perm_append, spine_addrs_cons]
  have h1 : List.Perm ((spine o1).addrs ++ (k.1 :: (k.2.addrs ++ (spine o2).addrs)))
      ((k.1 :: (k.2.addrs ++ (spine o2).addrs)) ++ (spine o1).addrs) := List.perm_append_comm
  refine h1.trans ?_
  simp only [List.cons_append, List.append_assoc]
  refine List.Perm.cons _ (List.Perm.append_left _ List.perm_append_comm)

theorem Subtrees_of_subset {m : Heap} {ks ks' : Kids} (h : Subtrees m ks)
    (hsub : ∀ k ∈ ks', k ∈ ks) : Subtrees m ks' := fun k hk => h k (hsub k hk)

theorem reuseChild_spec {e : Nat} {L : HandlesLoop} {o1 o2 new : Kids} {k : Nat × Shape}
    (hinv : LoopInv e L (o1 ++ k :: o2) new) :
    ∃ L1, reuseChild e L (lastOr none (tops o1)) k.1 = .ok L1 ∧
      LoopInv e L1 (o1 ++ o2) (new ++ [k]) ∧
      Kept e (e :: (tops (o1 ++ k :: o2) ++ tops new)) L.heap L1.heap ∧
      L1.heap.length = L.heap.length ∧ L1.malloc_outcomes = L.malloc_outcomes := by
  obtain ⟨⟨en, hen, hchain⟩, holdc, hlast, hsubo, hsubn, hnd⟩ := hinv
  -- distinctness facts
  have hperm : List.Perm (e :: ((spine (o1 ++ k :: o2)).addrs ++ (spine new).addrs))
      (e :: ((k.1 :: (k.2.addrs ++ (spine (o1 ++ o2)).addrs)) ++ (spine new).addrs)) :=
    List.Perm.cons _ (List.Perm.append_right _ (spine_addrs_perm_middle o1 k o2))
  have hnd' := hperm.nodup_iff.mp hnd
  simp only [List.cons_append, List.nodup_cons, List.mem_cons, List.mem_append, not_or,
    List.nodup_append] at hnd'
  obtain ⟨⟨hek, ⟨hek2, he_rest⟩, he_new⟩, ⟨⟨hk_k2, hk_rest⟩, hk_new⟩,
    ⟨hk2_nd, hrest_nd, hk2_rest⟩, hnew_nd, hdisj⟩ := hnd'
  have hold_nd : (spine (o1 ++ k :: o2)).addrs.Nodup := by
    simp only [List.nodup_cons, List.mem_append, not_or, List.nodup_append] at hnd
    exact hnd.2.1
  have hdisj_k2 : ∀ x ∈ k.2.addrs, x ∉ (spine new).addrs :=
    fun x hx hc => hdisj (List.mem_append.mpr (Or.inl hx)) hc
  have hdisj_rest : ∀ x ∈ (spine (o1 ++ o2)).addrs, x ∉ (spine new).addrs :=
    fun x hx hc => hdisj (List.mem_append.mpr (Or.inr hx)) hc
  have hnd_rest : (e :: ((spine (o1 ++ o2)).addrs ++ (spine new).addrs)).Nodup := by
    rw [List.nodup_cons]
    refine ⟨by simp only [List.mem_append, not_or]; exact ⟨he_rest, he_new⟩,
      List.nodup_append.mpr ⟨hrest_nd, hnew_nd, fun x hx hc => hdisj_rest x hx hc⟩⟩
  -- the node found
  rw [tops_append] at holdc
  have htk : tops (k :: o2) = k.1 :: tops o2 := rfl
  rw [htk] at holdc
  obtain ⟨cn, hcn, hcn_next⟩ := Chain_split (tops o1) _ holdc
  have hk_old : k ∈ o1 ++ k :: o2 := by simp
  obtain ⟨cell, hcell, hrepk⟩ := hsubo k hk_old
  rw [hcn] at hcell
  cases hcell
  have hsub_rest : Subtrees L.heap (o1 ++ o2) :=
    Subtrees_of_subset hsubo (fun x hx => by
      rcases List.mem_append.mp hx with h | h
      · exact List.mem_append.mpr (Or.inl h)
      · exact List.mem_append.mpr (Or.inr (List.mem_cons_of_mem _ h)))
  rcases List.eq_nil_or_concat o1 with ho1 | ⟨o1', kb, ho1⟩
  · -- the node is the head of the old list
    subst ho1
    have hinv' : LoopInv e { L with old_child_list := cn.next, prev_child := none } o2 new :=
      ⟨⟨en, hen, hchain⟩, hcn_next, hlast, hsub_rest, hsubn, hnd_rest⟩
    obtain ⟨L1, hL1, hinv1, hkept, hlen, hout, _, _⟩ :=
      appendChild_spec hinv' hcn hrepk (Ne.symm hek) hk_rest hk_new hk_k2 hek2
        (fun x hx hc => hk2_rest hx hc) hdisj_k2 hk2_nd
    refine ⟨L1, ?_, hinv1, ?_, hlen, hout⟩
    · simp only [reuseChild, hcn, lastOr, tops, List.map_nil, List.getLast?_nil]
      exact hL1
    · exact hkept.mono (fun b hb _ => by
        simp only [List.mem_cons] at hb ⊢
        rcases hb with h | h | h
        · exact Or.inl h
        · exact Or.inr (List.mem_append.mpr (Or.inl (by simp [tops, h])))
        · exact Or.inr (List.mem_append.mpr (Or.inr h)))
  · -- the node has a predecessor `kb`
    rw [List.concat_eq_append] at ho1
    subst ho1
    have hb_top : kb.1 ∈ tops ((o1' ++ [kb]) ++ o2) := by simp [tops]
    have hb_rest : kb.1 ∈ (spine ((o1' ++ [kb]) ++ o2)).addrs := tops_subset_addrs _ _ hb_top
    have hbe : kb.1 ≠ e := fun h => he_rest (h ▸ hb_rest)
    have hbk : kb.1 ≠ k.1 := fun h => hk_rest (h ▸ hb_rest)
    have hb_new : kb.1 ∉ (spine new).addrs := hdisj_rest _ hb_rest
    have hb_k2 : kb.1 ∉ k.2.addrs := fun h => hk2_rest h hb_rest
    have hto : tops (o1' ++ [kb]) = tops o1' ++ [kb.1] := by simp [tops]
    rw [hto, List.append_assoc] at holdc
    simp only [List.singleton_append] at holdc
    obtain ⟨bn, hbn, _⟩ := Chain_split (tops o1') _ holdc
    have hnd_tops : (tops o1' ++ kb.1 :: k.1 :: tops o2).Nodup := by
      have := nodup_tops_of_nodup_addrs _ hold_nd
      rw [tops_append, hto, htk, List.append_assoc] at this
      simpa using this
    have hb_o1' : kb.1 ∉ tops o1' := by
      have := (List.nodup_append.mp hnd_tops).2.2
      exact fun h => this h (by simp)
    have hb_o2 : kb.1 ∉ tops o2 := by
      have := (List.nodup_append.mp hnd_tops).2.1
      simp only [List.nodup_cons, List.mem_cons, not_or] at this
      exact this.1.2
    have holdc' : Chain (store L.heap kb.1 { bn with next := cn.next }) L.old_child_list
        (tops ((o1' ++ [kb]) ++ o2)) := by
      have := Chain_relink hbn hcn_next hb_o2 (tops o1') L.old_child_list holdc hb_o1'
      rw [tops_append, hto, List.append_assoc]
      simpa using this
    have hinv' : LoopInv e
        { L with heap := store L.heap kb.1 { bn with next := cn.next }
                 prev_child := some kb.1 } ((o1' ++ [kb]) ++ o2) new := by
      refine ⟨⟨en, by show load (store _ _ _) e = _; rw [load_store_ne _ hbe]; exact hen,
        Chain_store_other _ hchain (fun h => hb_new (tops_subset_addrs new _ h))⟩,
        holdc', hlast, ?_, ?_, hnd_rest⟩
      · exact Subtrees_store_next hbn hsub_rest
          (fun x hx => top_not_in_sub _ hrest_nd kb.1 hb_top x hx)
      · exact Subtrees_store_other _ hsubn (fun x hx h => hb_new (h ▸ hx))
    have hcn' : load (store L.heap kb.1 { bn with next := cn.next }) k.1 = .ok cn := by
      rw [load_store_ne _ hbk]; exact hcn
    have hrepk' : Rep (store L.heap kb.1 { bn with next := cn.next }) cn.child k.2 := by
      apply Rep_frame _ hrepk
      intro x hx
      exact load_store_ne _ (fun h => hb_k2 (h ▸ hx))
    obtain ⟨L1, hL1, hinv1, hkept, hlen, hout, _, _⟩ :=
      appendChild_spec hinv' hcn' hrepk' (Ne.symm hek) hk_rest hk_new hk_k2 hek2
        (fun x hx hc => hk2_rest hx hc) hdisj_k2 hk2_nd
    refine ⟨L1, ?_, hinv1, ?_, by rw [hlen]; exact store_length _ _ _, hout⟩
    · have hlo : lastOr none (tops (o1' ++ [kb])) = some kb.1 := by
        rw [hto]; simp [lastOr]
      simp only [reuseChild, hcn, hlo, modify_some _ hbn]
      exact hL1
    · have h1 : Kept e (e :: (tops ((o1' ++ [kb]) ++ k :: o2) ++ tops new)) L.heap
          (store L.heap kb.1 { bn with next := cn.next }) :=
        (Kept_store_next cn.next hbn hbe).mono (fun b hb _ => by
          simp only [List.mem_singleton] at hb
          subst hb
          simp [tops])
      have h2 : Kept e (e :: (tops ((o1' ++ [kb]) ++ k :: o2) ++ tops new))
          (store L.heap kb.1 { bn with next := cn.next }) L1.heap :=
        hkept.mono (fun b hb _ => by
          simp only [List.mem_cons] at hb ⊢
          rcases hb with h | h | h
          · exact Or.inl h
          · exact Or.inr (List.mem_append.mpr (Or.inl (by simp [tops, h])))
          · exact Or.inr (List.mem_append.mpr (Or.inr h)))
      exact h1.andThen h2

theorem extmem_malloc_ok (m : Heap) (outcomes : List Bool)
    (h : outcomes.head? ≠ some false) :
    extmem_malloc m outcomes = (some m.length, m ++ [some zeroNode], outcomes.tail) := by
  cases outcomes with
  | nil => rfl
  | cons b rest =>
    cases b with
    | false => simp at h
    | true => rfl

theorem LoopInv.addrs_lt {e : Nat} {L : HandlesLoop} {old new : Kids}
    (hinv : LoopInv e L old new) :
    e < L.heap.length ∧ (∀ a ∈ (spine old).addrs, a < L.heap.length) ∧
      (∀ a ∈ (spine new).addrs, a < L.heap.length) := by
  obtain ⟨⟨en, hen, hchain⟩, holdc, _, hsubo, hsubn, _⟩ := hinv
  refine ⟨load_lt hen, ?_, ?_⟩
  · exact Rep_addrs_lt (Rep_spine.mpr ⟨holdc, hsubo⟩)
  · exact Rep_addrs_lt (Rep_spine.mpr ⟨hchain, hsubn⟩)

theorem createChild_spec {e : Nat} {L : HandlesLoop} {old new : Kids} (prev : Ptr) (h : Nat)
    (hinv : LoopInv e L old new) (halloc : L.malloc_outcomes.head? ≠ some false) :
    ∃ L1, createChild e L prev h = .ok (L1, true) ∧
      LoopInv e L1 old (new ++ [(L.heap.length, Shape.nil)]) ∧
      Kept e (e :: (tops old ++ tops new)) L.heap L1.heap ∧
      L1.heap.length = L.heap.length + 1 ∧
      L1.malloc_outcomes = L.malloc_outcomes.tail ∧
      idOf L1.heap L.heap.length = h := by
  obtain ⟨he_lt, hold_lt, hnew_lt⟩ := hinv.addrs_lt
  obtain ⟨⟨en, hen, hchain⟩, holdc, hlast, hsubo, hsubn, hnd⟩ := hinv
  have hmal := extmem_malloc_ok L.heap L.malloc_outcomes halloc
  have hen1 : load (L.heap ++ [some zeroNode]) e = .ok en := by
    rw [load_append_left _ he_lt]; exact hen
  have hlt1 : L.heap.length < (L.heap ++ [some zeroNode]).length := by simp
  -- the initialised block
  have hout : Outside [] L.heap (store (L.heap ++ [some zeroNode]) L.heap.length
      { zeroNode with id := h, parent := some e, name := none, size := 0,
                      storage_id := en.storage_id }) := by
    intro b _ hb
    rw [load_store_ne _ (by omega), load_append_left _ hb]
  have ha2 : load (store (L.heap ++ [some zeroNode]) L.heap.length
      { zeroNode with id := h, parent := some e, name := none, size := 0,
                      storage_id := en.storage_id }) L.heap.length
      = .ok { zeroNode with id := h, parent := some e, name := none, size := 0,
                            storage_id := en.storage_id } := load_store_same _ hlt1
  have hinv2 : LoopInv e
      { L with
        heap := store (L.heap ++ [some zeroNode]) L.heap.length
          { zeroNode with id := h, parent := some e, name := none, size := 0,
                          storage_id := en.storage_id }
        malloc_outcomes := L.malloc_outcomes.tail
        prev_child := prev } old new := by
    refine ⟨⟨en, by show load _ e = _; rw [hout e (by simp) he_lt]; exact hen,
      hout.chain hchain (by simp)⟩, hout.chain holdc (by simp), hlast,
      hout.subtrees hsubo (by simp), hout.subtrees hsubn (by simp), hnd⟩
  have hne : L.heap.length ≠ e := by omega
  have h_old : L.heap.length ∉ (spine old).addrs := fun hc => by
    have := hold_lt _ hc; omega
  have h_new : L.heap.length ∉ (spine new).addrs := fun hc => by
    have := hnew_lt _ hc; omega
  have hrep0 : Rep (store (L.heap ++ [some zeroNode]) L.heap.length
      { zeroNode with id := h, parent := some e, name := none, size := 0,
                      storage_id := en.storage_id })
      ({ zeroNode with id := h, parent := some e, name := none, size := 0,
                       storage_id := en.storage_id } : storage_list_t).child Shape.nil := rfl
  obtain ⟨L1, hL1, hinv1, hkept, hlen, hmo, _, _⟩ :=
    appendChild_spec hinv2 ha2 hrep0 hne h_old h_new (by simp [Shape.addrs])
      (by simp [Shape.addrs]) (by simp [Shape.addrs]) (by simp [Shape.addrs])
      (by simp [Shape.addrs])
  refine ⟨L1, ?_, hinv1, ?_, ?_, hmo, ?_⟩
  · simp only [createChild, hmal, hen1]
    rw [hL1]
  · have h1 : Kept e (e :: L.heap.length :: tops new) L.heap
        (store (L.heap ++ [some zeroNode]) L.heap.length
          { zeroNode with id := h, parent := some e, name := none, size := 0,
                          storage_id := en.storage_id }) := by
      refine ⟨by simp [store_length], fun b cell hl => ⟨cell, ?_, fun _ => rfl, fun _ => rfl,
        fun _ => rfl⟩, fun b cell' hb hl => ⟨cell', ?_⟩⟩
      · rw [hout b (by simp) (load_lt hl)]; exact hl
      · rw [hout b (by simp) hb] at hl; exact hl
    exact (h1.andThen hkept).mono (fun b hb hblt => by
      simp only [List.mem_cons] at hb ⊢
      rcases hb with hb | hb | hb
      · exact Or.inl hb
      · omega
      · exact Or.inr (List.mem_append.mpr (Or.inr hb)))
  · rw [hlen]; simp [store_length]
  · have := hkept.idOf_eq ha2
    simpa using this

theorem searchOldChild_found {e h : Nat} {L : HandlesLoop} {o1 o2 new : Kids}
    {k : Nat × Shape} (hinv : LoopInv e L (o1 ++ k :: o2) new)
    (hno : ∀ x ∈ o1, idOf L.heap x.1 ≠ h) (hk : idOf L.heap k.1 = h) :
    searchOldChild L h = .ok (lastOr none (tops o1), some k.1) := by
  obtain ⟨_, hold_lt, _⟩ := hinv.addrs_lt
  have holdc := hinv.oldc
  have hnd := hinv.nodup
  rw [tops_append] at holdc
  have htk : tops (k :: o2) = k.1 :: tops o2 := rfl
  rw [htk] at holdc
  have hsome : L.old_child_list.isSome = true := by
    cases o1 with
    | nil => rw [holdc.1]; rfl
    | cons x o1 => rw [holdc.1]; rfl
  have hold_nd : (spine (o1 ++ k :: o2)).addrs.Nodup := by
    simp only [List.nodup_cons, List.mem_append, not_or, List.nodup_append] at hnd
    exact hnd.2.1
  have hlen : (tops o1).length < L.heap.length + 1 := by
    have h1 := nodup_tops_of_nodup_addrs _ hold_nd
    have h2 := nodup_length_le h1 (fun a ha => hold_lt a (tops_subset_addrs _ a ha))
    rw [tops_append] at h2
    simp only [List.length_append] at h2
    omega
  unfold searchOldChild
  rw [if_pos hsome]
  exact findOldChild_found (tops o1) _ none _ holdc hlen
    (fun b hb => by
      simp only [tops, List.mem_map] at hb
      obtain ⟨x, hx, rfl⟩ := hb
      exact hno x hx) hk

theorem searchOldChild_none {e h : Nat} {L : HandlesLoop} {old new : Kids}
    (hinv : LoopInv e L old new) (hno : ∀ x ∈ old, idOf L.heap x.1 ≠ h) :
    ∃ prev, searchOldChild L h = .ok (prev, none) := by
  obtain ⟨_, hold_lt, _⟩ := hinv.addrs_lt
  have holdc := hinv.oldc
  have hnd := hinv.nodup
  have hold_nd : (spine old).addrs.Nodup := by
    simp only [List.nodup_cons, List.mem_append, not_or, List.nodup_append] at hnd
    exact hnd.2.1
  have hlen : (tops old).length < L.heap.length + 1 := by
    have h1 := nodup_tops_of_nodup_addrs _ hold_nd
    have h2 := nodup_length_le h1 (fun a ha => hold_lt a (tops_subset_addrs _ a ha))
    omega
  unfold searchOldChild
  split
  · exact findOldChild_none (tops old) _ none _ holdc hlen
      (fun b hb => by
        simp only [tops, List.mem_map] at hb
        obtain ⟨x, hx, rfl⟩ := hb
        exact hno x hx)
  · exact ⟨_, rfl⟩

theorem takeKid_some {id : Nat → Nat} {h : Nat} : ∀ {ks : Kids} {r : (Nat × Shape) × Kids},
    takeKid id h ks = some r →
    ∃ o1 o2, ks = o1 ++ r.1 :: o2 ∧ r.2 = o1 ++ o2 ∧ (∀ x ∈ o1, id x.1 ≠ h) ∧ id r.1.1 = h := by
  intro ks
  induction ks with
  | nil => intro r hr; simp [takeKid] at hr
  | cons k ks ih =>
    intro r hr
    unfold takeKid at hr
    split at hr
    · rename_i hk
      cases hr
      exact ⟨[], ks, rfl, rfl, fun x hx => by simp at hx, hk⟩
    · rename_i hk
      split at hr
      · rename_i r' hr'
        cases hr
        obtain ⟨o1, o2, h1, h2, h3, h4⟩ := ih hr'
        refine ⟨k :: o1, o2, by simp [h1], by simp [h2], ?_, h4⟩
        intro x hx
        rcases List.mem_cons.mp hx with rfl | hx
        · exact hk
        · exact h3 x hx
      · cases hr

theorem takeKid_none {id : Nat → Nat} {h : Nat} : ∀ {ks : Kids},
    takeKid id h ks = none → ∀ x ∈ ks, id x.1 ≠ h := by
  intro ks
  induction ks with
  | nil => intro _ x hx; simp at hx
  | cons k ks ih =>
    intro hr x hx
    unfold takeKid at hr
    split at hr
    · cases hr
    · rename_i hk
      split at hr
      · cases hr
      · rename_i hn
        rcases List.mem_cons.mp hx with rfl | hx
        · exact hk
        · exact ih hn x hx

theorem takeKid_congr {id id' : Nat → Nat} {h : Nat} : ∀ {ks : Kids},
    (∀ x ∈ ks, id x.1 = id' x.1) → takeKid id h ks = takeKid id' h ks := by
  intro ks
  induction ks with
  | nil => intro _; rfl
  | cons k ks ih =>
    intro hid
    unfold takeKid
    rw [hid k (by simp), ih (fun x hx => hid x (by simp [hx]))]

theorem rebuild_congr {id id' : Nat → Nat} : ∀ (hs : List Nat) (old : Kids) (fresh : Nat),
    (∀ x ∈ old, id x.1 = id' x.1) → rebuild id hs old fresh = rebuild id' hs old fresh := by
  intro hs
  induction hs with
  | nil => intro old fresh _; rfl
  | cons h hs ih =>
    intro old fresh hid
    unfold rebuild
    rw [takeKid_congr hid]
    cases htk : takeKid id' h old with
    | none => simp only; rw [ih old (fresh + 1) hid]
    | some r =>
      simp only
      obtain ⟨o1, o2, h1, h2, _, _⟩ := takeKid_some htk
      have : ∀ x ∈ r.2, id x.1 = id' x.1 := fun x hx => hid x (by
        rw [h2] at hx; rw [h1]
        rcases List.mem_append.mp hx with hx | hx
        · exact List.mem_append.mpr (Or.inl hx)
        · exact List.mem_append.mpr (Or.inr (List.mem_cons_of_mem _ hx)))
      rw [ih r.2 fresh this]

theorem LoopInv.live_old {e : Nat} {L : HandlesLoop} {old new : Kids}
    (hinv : LoopInv e L old new) : ∀ x ∈ old, ∃ cell, load L.heap x.1 = .ok cell :=
  fun x hx => by
    obtain ⟨cell, hl, _⟩ := hinv.subo x hx
    exact ⟨cell, hl⟩

/-- The loop of `processGetObjectHandles`, run on a well-formed state with
enough successful allocations, returns, and returns what `rebuild` says. -/
theorem processGetObjectHandlesLoop_spec (e : Nat) :
    ∀ (hs : List Nat) (L : HandlesLoop) (old new : Kids) (rest : List Nat),
    LoopInv e L old new → (∀ b ∈ L.malloc_outcomes, b = true) →
    (∀ h ∈ hs, h < 4294967296) →
    ∃ L', processGetObjectHandlesLoop e hs.length L (hs.flatMap write32 ++ rest) = .ok L' ∧
      LoopInv e L' (rebuild (idOf L.heap) hs old L.heap.length).2.1
        (new ++ (rebuild (idOf L.heap) hs old L.heap.length).1) ∧
      Kept e (e :: (tops old ++ tops new)) L.heap L'.heap ∧
      (tops (rebuild (idOf L.heap) hs old L.heap.length).1).map (idOf L'.heap) = hs ∧
      L'.heap.length = (rebuild (idOf L.heap) hs old L.heap.length).2.2 ∧
      L'.malloc_outcomes = L.malloc_outcomes.drop (L'.heap.length - L.heap.length) ∧
      L.heap.length ≤ L'.heap.length := by
  intro hs
  induction hs with
  | nil =>
    intro L old new rest hinv _ _
    refine ⟨L, rfl, ?_, Kept.unchanged _ _ _, rfl, rfl, by simp, Nat.le_refl _⟩
    simpa [rebuild] using hinv
  | cons h hs ih =>
    intro L old new rest hinv halloc hhs
    have hh : h < 4294967296 := hhs h (by simp)
    have hhs' : ∀ x ∈ hs, x < 4294967296 := fun x hx => hhs x (by simp [hx])
    have hread : read32 ((h :: hs).flatMap write32 ++ rest)
        = (h, hs.flatMap write32 ++ rest) := by
      simp only [List.flatMap_cons, List.append_assoc]
      exact read32_write32 h _ hh
    cases htk : takeKid (idOf L.heap) h old with
    | some r =>
      obtain ⟨o1, o2, h1, h2, h3, h4⟩ := takeKid_some htk
      subst h1
      have hsearch := searchOldChild_found hinv h3 h4
      obtain ⟨L1, hL1, hinv1, hkept1, hlen1, hmo1⟩ := reuseChild_spec hinv
      rw [← h2] at hinv1
      have hid : ∀ x ∈ r.2, idOf L1.heap x.1 = idOf L.heap x.1 := fun x hx => by
        have hx' : x ∈ o1 ++ r.1 :: o2 := by
          rw [h2] at hx
          rcases List.mem_append.mp hx with hx | hx
          · exact List.mem_append.mpr (Or.inl hx)
          · exact List.mem_append.mpr (Or.inr (List.mem_cons_of_mem _ hx))
        obtain ⟨cell, hl⟩ := hinv.live_old x hx'
        rw [hkept1.idOf_eq hl, idOf_of_load hl]
      obtain ⟨L', hL', hinv', hkept', hids', hlen', hmo', hle'⟩ :=
        ih L1 r.2 (new ++ [r.1]) rest hinv1 (by rw [hmo1]; exact halloc) hhs'
      rw [rebuild_congr hs r.2 _ hid, hlen1] at hinv' hids' hlen'
      have hkept : Kept e (e :: (tops (o1 ++ r.1 :: o2) ++ tops new)) L.heap L'.heap := by
        refine hkept1.andThen (hkept'.mono (fun b hb _ => ?_))
        simp only [List.mem_cons, List.mem_append, tops_append] at hb ⊢
        rcases hb with hb | hb | hb | hb
        · exact Or.inl hb
        · refine Or.inr (Or.inl ?_)
          rw [h2, tops_append] at hb
          rcases List.mem_append.mp hb with hb | hb
          · exact Or.inl hb
          · exact Or.inr (by simp [tops] at hb ⊢; exact Or.inr hb)
        · exact Or.inr (Or.inr hb)
        · refine Or.inr (Or.inl (Or.inr ?_))
          simp only [tops, List.map_cons, List.map_nil, List.mem_singleton] at hb
          simp [tops, hb]
      obtain ⟨rcell, hrl⟩ := hinv.live_old r.1 (by simp)
      have hidr : idOf L'.heap r.1.1 = h := by
        rw [hkept.idOf_eq hrl, ← idOf_of_load hrl]; exact h4
      refine ⟨L', ?_, ?_, hkept, ?_, ?_, ?_, Nat.le_trans (Nat.le_of_eq hlen1.symm) hle'⟩
      · simp only [List.length_cons, processGetObjectHandlesLoop, hread, hsearch, hL1]
        exact hL'
      · simp only [rebuild, htk]
        simpa [List.append_assoc] using hinv'
      · simp only [rebuild, htk, tops, List.map_cons]
        simp only [tops] at hids'
        rw [hids', hidr]
      · simp only [rebuild, htk]
        exact hlen'
      · rw [hmo', hmo1, hlen1]
    | none =>
      have hno := takeKid_none htk
      obtain ⟨prev, hsearch⟩ := searchOldChild_none hinv hno
      have hhead : L.malloc_outcomes.head? ≠ some false := by
        cases hmo : L.malloc_outcomes with
        | nil => simp
        | cons b t =>
          have := halloc b (by rw [hmo]; simp)
          simp [this]
      obtain ⟨L1, hL1, hinv1, hkept1, hlen1, hmo1, hid1⟩ := createChild_spec prev h hinv hhead
      have hid : ∀ x ∈ old, idOf L1.heap x.1 = idOf L.heap x.1 := fun x hx => by
        obtain ⟨cell, hl⟩ := hinv.live_old x hx
        rw [hkept1.idOf_eq hl, idOf_of_load hl]
      obtain ⟨L', hL', hinv', hkept', hids', hlen', hmo', hle'⟩ :=
        ih L1 old (new ++ [(L.heap.length, Shape.nil)]) rest hinv1
          (by rw [hmo1]; exact fun b hb => halloc b (List.mem_of_mem_tail hb)) hhs'
      rw [rebuild_congr hs old _ hid, hlen1] at hinv' hids' hlen'
      have hfresh_live : ∃ c, load L1.heap L.heap.length = .ok c := by
        obtain ⟨c, hc, _⟩ := hinv1.subn (L.heap.length, Shape.nil) (by simp)
        exact ⟨c, hc⟩
      obtain ⟨fc, hfc⟩ := hfresh_live
      have hidf : idOf L'.heap L.heap.length = h := by
        rw [hkept'.idOf_eq hfc, ← idOf_of_load hfc]; exact hid1
      have hkept : Kept e (e :: (tops old ++ tops new)) L.heap L'.heap := by
        have h1 : Kept e (e :: (tops old ++ tops (new ++ [(L.heap.length, Shape.nil)])))
            L.heap L1.heap :=
          hkept1.mono (fun b hb _ => by
            simp only [List.mem_cons, List.mem_append, tops_append] at hb ⊢
            rcases hb with hb | hb | hb
            · exact Or.inl hb
            · exact Or.inr (Or.inl hb)
            · exact Or.inr (Or.inr (Or.inl hb)))
        refine (h1.andThen hkept').mono (fun b hb hblt => ?_)
        simp only [List.mem_cons, List.mem_append, tops_append] at hb ⊢
        rcases hb with hb | hb | hb | hb
        · exact Or.inl hb
        · exact Or.inr (Or.inl hb)
        · exact Or.inr (Or.inr hb)
        · simp only [tops, List.map_cons, List.map_nil, List.mem_singleton] at hb
          omega
      refine ⟨L', ?_, ?_, hkept, ?_, ?_, ?_, by omega⟩
      · simp only [List.length_cons, processGetObjectHandlesLoop, hread, hsearch, hL1]
        exact hL'
      · simp only [rebuild, htk]
        simpa [List.append_assoc] using hinv'
      · simp only [rebuild, htk, tops, List.map_cons]
        simp only [tops] at hids'
        rw [hids', hidf]
      · simp only [rebuild, htk]
        exact hlen'
      · rw [hmo', hmo1, hlen1, List.drop_tail]
        congr 1
        omega

theorem childrenAux_of_chain {m : Heap} : ∀ (l : List Nat) (fuel : Nat) (p : Ptr),
    Chain m p l → l.length < fuel → childrenAux fuel m p = .ok l := by
  intro l
  induction l with
  | nil =>
    intro fuel p hc hf
    obtain ⟨f, rfl⟩ : ∃ f, fuel = f + 1 := ⟨fuel - 1, by simp at hf; omega⟩
    rw [show p = none from hc]; rfl
  | cons a l ih =>
    intro fuel p hc hf
    obtain ⟨f, rfl⟩ : ∃ f, fuel = f + 1 := ⟨fuel - 1, by simp at hf; omega⟩
    obtain ⟨rfl, cell, hl, hch⟩ := hc
    simp only [childrenAux, hl, ih f cell.next hch (by simp at hf; omega)]

theorem children_of_chain {m : Heap} {e : Nat} {en : storage_list_t} {l : List Nat}
    (hen : load m e = .ok en) (hc : Chain m en.child l) (hnd : l.Nodup) :
    children m e = .ok l := by
  have hlen : l.length ≤ m.length :=
    nodup_length_le hnd (fun a ha => by
      obtain ⟨c, hl⟩ := Chain_live hc a ha
      exact load_lt hl)
  simp only [children, hen]
  exact childrenAux_of_chain l _ _ hc (by omega)

theorem Chain_head {m : Heap} {p : Ptr} {l : List Nat} (h : Chain m p l) : p = l.head? := by
  cases l with
  | nil => exact h
  | cons a l => exact h.1

theorem Chain_next_eq {m m' : Heap} : ∀ (l : List Nat) (p p' : Ptr),
    Chain m p l → Chain m' p' l →
    ∀ a ∈ l, ∀ c c', load m a = .ok c → load m' a = .ok c' → c.next = c'.next := by
  intro l
  induction l with
  | nil => intro p p' _ _ a ha; simp at ha
  | cons x l ih =>
    intro p p' h h' a ha c c' hl hl'
    obtain ⟨_, c0, hc0, hch⟩ := h
    obtain ⟨_, c0', hc0', hch'⟩ := h'
    rcases List.mem_cons.mp ha with rfl | ha
    · rw [hc0] at hl; rw [hc0'] at hl'
      cases hl; cases hl'
      rw [Chain_head hch, Chain_head hch']
    · exact ih _ _ hch hch' a ha c c' hl hl'

theorem get?_of_not_live {m : Heap} {b : Nat} (hb : b < m.length)
    (h : ∀ c, load m b ≠ .ok c) : m.get? b = some none := by
  cases hg : m.get? b with
  | none => rw [List.get?_eq_none] at hg; omega
  | some v =>
    cases v with
    | none => rfl
    | some c => exact absurd (load_eq_ok.mpr hg) (h c)

theorem Freed_nil_eq {m m' : Heap} (h : Freed m [] m') : m' = m := by
  apply List.ext_get?
  intro b
  exact (h.2 b).2 (by simp)

theorem handlesStart_inv {s : MTPDevice} {e : Nat} {en : storage_list_t} {kids : Kids}
    (hen : load s.heap e = .ok en) (hrep : Rep s.heap en.child (spine kids))
    (hnd : (e :: (spine kids).addrs).Nodup) :
    LoopInv e (handlesStart s e en) kids [] := by
  have he : e ∉ (spine kids).addrs := (List.nodup_cons.mp hnd).1
  obtain ⟨hchain, hsub⟩ := Rep_spine.mp hrep
  refine ⟨⟨_, load_store_same _ (load_lt hen), rfl⟩, ?_, rfl, ?_, fun k hk => by simp at hk, ?_⟩
  · exact Chain_store_other _ hchain (fun h => he (tops_subset_addrs kids e h))
  · exact Subtrees_store_other _ hsub (fun a ha h => he (h ▸ ha))
  · simpa [spine, Shape.addrs] using hnd

/-- What `processGetObjectHandles` does to a well-formed target: it returns,
the target's children are the list `rebuild` computes, and the heap is
related to the old one as `Kept` and `Freed` say. -/
theorem processGetObjectHandles_spec (s : MTPDevice) (e : Nat) (en : storage_list_t)
    (kids : Kids) (hs header rest : List Nat)
    (henum : s.enum_node_ = some e) (hen : load s.heap e = .ok en)
    (hrep : Rep s.heap en.child (spine kids)) (hnd : (e :: (spine kids).addrs).Nodup)
    (hheader : header.length = 12) (hcount : hs.length < 4294967296)
    (hhs : ∀ h ∈ hs, h < 4294967296) (halloc : ∀ b ∈ s.malloc_outcomes, b = true) :
    ∃ m1 m2 en' outcomes,
      processGetObjectHandles s (header ++ handlesPayload hs ++ rest)
        = .ok { s with heap := m2, malloc_outcomes := outcomes } ∧
      Kept e (e :: tops kids) s.heap m1 ∧
      Freed m1 (spine (rebuild (idOf s.heap) hs kids s.heap.length).2.1).addrs m2 ∧
      load m2 e = .ok en' ∧
      Chain m2 en'.child (tops (rebuild (idOf s.heap) hs kids s.heap.length).1) ∧
      Subtrees m2 (rebuild (idOf s.heap) hs kids s.heap.length).1 ∧
      (e :: ((spine (rebuild (idOf s.heap) hs kids s.heap.length).2.1).addrs ++
        (spine (rebuild (idOf s.heap) hs kids s.heap.length).1).addrs)).Nodup ∧
      (tops (rebuild (idOf s.heap) hs kids s.heap.length).1).map (idOf m2) = hs ∧
      m1.length = (rebuild (idOf s.heap) hs kids s.heap.length).2.2 ∧
      outcomes = s.malloc_outcomes.drop (m1.length - s.heap.length) := by
  have hinv0 := handlesStart_inv hen hrep hnd
  have he : e ∉ (spine kids).addrs := (List.nodup_cons.mp hnd).1
  have hid0 : ∀ x ∈ kids, idOf (handlesStart s e en).heap x.1 = idOf s.heap x.1 := fun x hx => by
    have hne : e ≠ x.1 := fun h => he (h ▸ tops_subset_addrs kids x.1 (by
      simp only [tops, List.mem_map]; exact ⟨x, hx, rfl⟩))
    simp only [idOf, handlesStart, load_store_ne _ hne]
  obtain ⟨L', hL', hinv', hkept', hids', hlen', hmo', hle'⟩ :=
    processGetObjectHandlesLoop_spec e hs (handlesStart s e en) kids [] rest hinv0 halloc hhs
  have hlen0 : (handlesStart s e en).heap.length = s.heap.length := store_length _ _ _
  rw [rebuild_congr hs kids _ hid0, hlen0] at hinv' hids' hlen'
  rw [hlen0] at hmo' hle'
  simp only [List.nil_append] at hinv'
  obtain ⟨⟨en', hen', hchain'⟩, holdc', _, hsubo', hsubn', hnd'⟩ := hinv'
  have hrep_left := Rep_spine.mpr ⟨holdc', hsubo'⟩
  have hnd_parts := hnd'
  simp only [List.nodup_cons, List.mem_append, not_or, List.nodup_append] at hnd_parts
  obtain ⟨⟨he_left, he_new⟩, hleft_nd, hnew_nd, hdisj⟩ := hnd_parts
  obtain ⟨m2, hfree, hfreed⟩ := freeStorageListTree_spec hrep_left hleft_nd
  have hkeep : ∀ b, b ∈ (spine (rebuild (idOf s.heap) hs kids s.heap.length).1).addrs →
      load m2 b = load L'.heap b := fun b hb =>
    hfreed.load_of_not_mem (fun hc => hdisj hc hb)
  have hpdata : (header ++ handlesPayload hs ++ rest).drop 12
      = write32 hs.length ++ (hs.flatMap write32 ++ rest) := by
    rw [List.append_assoc, List.drop_left' hheader]
    simp [handlesPayload]
  have hread : read32 ((header ++ handlesPayload hs ++ rest).drop 12)
      = (hs.length, hs.flatMap write32 ++ rest) := by
    rw [hpdata]; exact read32_write32 _ _ hcount
  refine ⟨L'.heap, m2, en', L'.malloc_outcomes, ?_, ?_, hfreed, ?_, ?_, ?_, hnd', ?_, hlen',
    hmo'⟩
  · simp only [processGetObjectHandles, henum, hen, hread]
    have : processGetObjectHandlesLoop e hs.length (handlesStart s e en)
        (hs.flatMap write32 ++ rest) = .ok L' := hL'
    simp only [handlesStart] at this
    rw [this]
    simp only [hfree]
  · have h0 : Kept e (e :: tops kids) s.heap (handlesStart s e en).heap :=
      (Kept_store_child none hen).mono (fun b hb _ => by
        simp only [List.mem_singleton] at hb; simp [hb])
    refine h0.andThen (hkept'.mono (fun b hb _ => ?_))
    simpa [tops] using hb
  · rw [hfreed.load_of_not_mem he_left]; exact hen'
  · apply Chain_frame _ hchain'
    intro a ha cell hl
    exact ⟨cell, by rw [hkeep a (tops_subset_addrs _ a ha)]; exact hl, rfl⟩
  · intro k hk
    obtain ⟨cell, hl, hr⟩ := hsubn' k hk
    refine ⟨cell, by rw [hkeep _ (tops_subset_addrs _ _ (by
      simp only [tops, List.mem_map]; exact ⟨k, hk, rfl⟩))]; exact hl, ?_⟩
    apply Rep_frame _ hr
    intro a ha
    exact hkeep a (sub_subset_addrs _ k hk a ha)
  · refine Eq.trans ?_ hids'
    apply List.map_congr_left
    intro a ha
    simp only [idOf, hkeep a (tops_subset_addrs _ a ha)]

/-- C1: for a target node `e` whose children form a well-formed list of
subtrees (whatever they are) and a `GetObjectHandles` data payload made of the
count and the 32-bit handles `hs`, when no allocation fails
`processGetObjectHandles` returns, and afterwards the children of `e` are
exactly `hs.length` live nodes whose ids are `hs` in arrival order; an old
child whose id is not in the payload is no longer a child. -/
theorem processGetObjectHandles_children (s : MTPDevice) (e : Nat) (en : storage_list_t)
    (kids : Kids) (hs header rest : List Nat)
    (henum : s.enum_node_ = some e) (hen : load s.heap e = .ok en)
    (hrep : Rep s.heap en.child (spine kids)) (hnd : (e :: (spine kids).addrs).Nodup)
    (hheader : header.length = 12) (hcount : hs.length < 4294967296)
    (hhs : ∀ h ∈ hs, h < 4294967296) (halloc : ∀ b ∈ s.malloc_outcomes, b = true) :
    ∃ s' l, processGetObjectHandles s (header ++ handlesPayload hs ++ rest) = .ok s' ∧
      children s'.heap e = .ok l ∧ l.length = hs.length ∧
      (∀ a ∈ l, ∃ cell, load s'.heap a = .ok cell) ∧
      l.map (idOf s'.heap) = hs ∧
      (∀ a ∈ tops kids, idOf s.heap a ∉ hs → a ∉ l) := by
  obtain ⟨m1, m2, en', outcomes, hrun, hkept, hfreed, hen', hchain, _, hnd', hids, _, _⟩ :=
    processGetObjectHandles_spec s e en kids hs header rest henum hen hrep hnd hheader hcount
      hhs halloc
  have hparts := hnd'
  simp only [List.nodup_cons, List.mem_append, not_or, List.nodup_append] at hparts
  obtain ⟨_, _, hnew_nd, hdisj⟩ := hparts
  refine ⟨_, _, hrun, children_of_chain hen' hchain (nodup_tops_of_nodup_addrs _ hnew_nd), ?_,
    Chain_live hchain, hids, ?_⟩
  · have := congrArg List.length hids
    simpa using this
  · intro a ha hnot hmem
    apply hnot
    obtain ⟨cell, hcell⟩ := Rep_live hrep a (tops_subset_addrs kids a ha)
    have h1 : idOf m1 a = cell.id := hkept.idOf_eq hcell
    have h2 : idOf m2 a = idOf m1 a := by
      simp only [idOf, hfreed.load_of_not_mem
        (fun hc => hdisj hc (tops_subset_addrs _ a hmem))]
    rw [idOf_of_load hcell, ← h1, ← h2, ← hids]
    exact List.mem_map_of_mem _ hmem

/-- Witness for C1: the target has the children 5 and 6 and the payload
carries the handles 6 and 9. -/
theorem processGetObjectHandles_children_witness :
    twoChildren.enum_node_ = some 0 ∧
    children twoChildren.heap 0 = .ok [2, 3] ∧
    [2, 3].map (idOf twoChildren.heap) = [5, 6] ∧
    ∃ s' l, processGetObjectHandles twoChildren
        (dataContainer MTP_OPERATION_GET_OBJECT_HANDLES [] ++ handlesPayload [6, 9] ++ []) = .ok s' ∧
      children s'.heap 0 = .ok l ∧ l.length = 2 ∧
      (∀ a ∈ l, ∃ cell, load s'.heap a = .ok cell) ∧
      l.map (idOf s'.heap) = [6, 9] ∧
      (∀ a ∈ tops [(2, Shape.nil), (3, Shape.nil)], idOf twoChildren.heap a ∉ [6, 9] → a ∉ l) :=
  ⟨by decide, rfl, by decide,
   processGetObjectHandles_children twoChildren 0 _ [(2, Shape.nil), (3, Shape.nil)] [6, 9]
     (dataContainer MTP_OPERATION_GET_OBJECT_HANDLES []) [] (by decide) rfl
     ⟨rfl, _, rfl, rfl, rfl, _, rfl, rfl, rfl⟩ (by decide) (by decide) (by decide) (by decide)
     (by decide)⟩


theorem tops_cons (k : Nat × Shape) (ks : Kids) : tops (k :: ks) = k.1 :: tops ks := rfl

theorem takeKid_of_nodup {id : Nat → Nat} {h : Nat} {ks : Kids} {k : Nat × Shape}
    (hnd : ((tops ks).map id).Nodup) (hk : k ∈ ks) (hid : id k.1 = h) :
    ∃ o1 o2, ks = o1 ++ k :: o2 ∧ takeKid id h ks = some (k, o1 ++ o2) := by
  cases ht : takeKid id h ks with
  | none => exact absurd hid (takeKid_none ht k hk)
  | some r =>
    obtain ⟨o1, o2, hks, hr2, _, hr1⟩ := takeKid_some ht
    have hrk : r.1 = k := by
      rw [hks, tops_append, tops_cons, List.map_append, List.map_cons] at hnd
      rw [hks] at hk
      have hnd' := hnd
      simp only [List.nodup_append, List.nodup_cons, List.mem_map, List.mem_cons,
        not_exists, not_and] at hnd'
      obtain ⟨_, ⟨hno2, _⟩, hdisj⟩ := hnd'
      rcases List.mem_append.mp hk with h1 | h1
      · exfalso
        have hm : id k.1 ∈ (tops o1).map id :=
          List.mem_map_of_mem _ (List.mem_map_of_mem _ h1)
        have hm2 : id k.1 ∈ id r.1.1 :: (tops o2).map id := by
          rw [hid, hr1]; exact List.mem_cons_self _ _
        exact (List.nodup_append.mp hnd).2.2 hm hm2
      · rcases List.mem_cons.mp h1 with h2 | h2
        · exact h2.symm
        · exfalso
          have hm : id k.1 ∈ (tops o2).map id :=
            List.mem_map_of_mem _ (List.mem_map_of_mem _ h2)
          have hnd2 := (List.nodup_append.mp hnd).2.1
          rw [List.nodup_cons] at hnd2
          apply hnd2.1
          rw [hr1, ← hid]; exact hm
    refine ⟨o1, o2, by rw [hks, hrk], ?_⟩
    rw [← hrk, ← hr2]

theorem nodup_ids_remove {id : Nat → Nat} {o1 o2 : Kids} {k : Nat × Shape}
    (hnd : ((tops (o1 ++ k :: o2)).map id).Nodup) : ((tops (o1 ++ o2)).map id).Nodup := by
  rw [tops_append, tops_cons, List.map_append, List.map_cons] at hnd
  rw [tops_append, List.map_append]
  exact hnd.sublist (List.Sublist.append_left (List.sublist_cons_self _ _) _)

/-- A handle that carries the id of an old child and has not occurred before
is served by that child. -/
theorem rebuild_reuse {id : Nat → Nat} : ∀ (hs : List Nat) (old : Kids) (fresh i : Nat)
    (k : Nat × Shape), ((tops old).map id).Nodup → k ∈ old → hs.get? i = some (id k.1) →
    id k.1 ∉ hs.take i → (rebuild id hs old fresh).1.get? i = some k := by
  intro hs
  induction hs with
  | nil => intro old fresh i k _ _ hi; simp at hi
  | cons h hs ih =>
    intro old fresh i k hnd hk hi hnot
    cases i with
    | zero =>
      simp only [List.get?_cons_zero, Option.some.injEq] at hi
      obtain ⟨o1, o2, _, ht⟩ := takeKid_of_nodup hnd hk hi.symm
      simp only [rebuild, ht, List.get?_cons_zero]
    | succ i =>
      simp only [List.get?_cons_succ] at hi
      simp only [List.take_succ_cons, List.mem_cons, not_or] at hnot
      cases ht : takeKid id h old with
      | none =>
        simp only [rebuild, ht, List.get?_cons_succ]
        exact ih old (fresh + 1) i k hnd hk hi hnot.2
      | some r =>
        simp only [rebuild, ht, List.get?_cons_succ]
        obtain ⟨o1, o2, hks, hr2, _, hr1⟩ := takeKid_some ht
        have hk2 : k ∈ r.2 := by
          rw [hr2]
          rw [hks] at hk
          rcases List.mem_append.mp hk with h1 | h1
          · exact List.mem_append_left _ h1
          · rcases List.mem_cons.mp h1 with h2 | h2
            · exact absurd (by rw [h2, hr1]) hnot.1
            · exact List.mem_append_right _ h2
        refine ih r.2 fresh i k ?_ hk2 hi hnot.2
        rw [hr2]
        rw [hks] at hnd
        exact nodup_ids_remove hnd

/-- With pairwise distinct handles, one address is used up for each handle
that is no old child's id. -/
theorem rebuild_fresh_count {id : Nat → Nat} : ∀ (hs : List Nat) (old : Kids) (fresh : Nat),
    hs.Nodup →
    (rebuild id hs old fresh).2.2
      = fresh + (hs.filter (fun h => decide (h ∉ (tops old).map id))).length := by
  intro hs
  induction hs with
  | nil => intro old fresh _; simp [rebuild]
  | cons h hs ih =>
    intro old fresh hnd
    obtain ⟨hh, hnd'⟩ := List.nodup_cons.mp hnd
    cases ht : takeKid id h old with
    | none =>
      have hn : h ∉ (tops old).map id := by
        intro hm
        simp only [tops, List.map_map, List.mem_map, Function.comp] at hm
        obtain ⟨x, hx, hxe⟩ := hm
        exact takeKid_none ht x hx hxe
      simp only [rebuild, ht]
      rw [ih old (fresh + 1) hnd', List.filter_cons_of_pos (by simpa using hn)]
      simp only [List.length_cons]; omega
    | some r =>
      obtain ⟨o1, o2, hks, hr2, _, hr1⟩ := takeKid_some ht
      have hy : h ∈ (tops old).map id := by
        rw [hks, tops_append, tops_cons, List.map_append, List.map_cons, hr1]
        simp
      simp only [rebuild, ht]
      rw [ih r.2 fresh hnd', List.filter_cons_of_neg (by simpa using hy)]
      congr 2
      apply List.filter_congr
      intro x hx
      have hxh : x ≠ h := fun hc => hh (hc ▸ hx)
      rw [hr2, hks]
      simp only [tops_append, tops_cons, List.map_append, List.map_cons, List.mem_append,
        List.mem_cons, hr1, hxh, false_or]

/-- The handle list of the old children rebuilds exactly the old children. -/
theorem rebuild_same {id : Nat → Nat} : ∀ (old : Kids) (fresh : Nat),
    rebuild id ((tops old).map id) old fresh = (old, [], fresh) := by
  intro old
  induction old with
  | nil => intro fresh; rfl
  | cons k ks ih =>
    intro fresh
    simp only [tops_cons, List.map_cons, rebuild, takeKid, if_true]
    rw [show rebuild id (List.map id (List.map (fun x => x.1) ks)) ks fresh = (ks, [], fresh)
      from ih fresh]


theorem cell_eq_of_next {c c' : storage_list_t}
    (h : { c' with next := none } = { c with next := none }) (hn : c'.next = c.next) :
    c' = c := by
  cases c; cases c'
  simp only [storage_list_t.mk.injEq] at h hn ⊢
  obtain ⟨h1, h2, h3, h4, _, h6, h7, h8, h9⟩ := h
  exact ⟨h1, h2, h3, h4, hn, h6, h7, h8, h9⟩

theorem cell_eq_of_child {c c' : storage_list_t}
    (h : { c' with child := none } = { c with child := none }) (hn : c'.child = c.child) :
    c' = c := by
  cases c; cases c'
  simp only [storage_list_t.mk.injEq] at h hn ⊢
  obtain ⟨h1, h2, h3, _, h5, h6, h7, h8, h9⟩ := h
  exact ⟨h1, h2, h3, hn, h5, h6, h7, h8, h9⟩

/-- A heap that continues `m` without growing, with the same child list under
`e`, is `m`. -/
theorem Kept.heap_eq {e : Nat} {kids : List Nat} {m m' : Heap} {en en' : storage_list_t}
    (hk : Kept e (e :: kids) m m') (hlen : m'.length = m.length)
    (hen : load m e = .ok en) (hen' : load m' e = .ok en')
    (hc : Chain m en.child kids) (hc' : Chain m' en'.child kids) : m' = m := by
  apply List.ext_get?
  intro b
  by_cases hb : b < m.length
  · by_cases hlive : ∃ cell, load m b = .ok cell
    · obtain ⟨cell, hcell⟩ := hlive
      obtain ⟨cell', hcell', hout, hnext, hchild⟩ := hk.2.1 b cell hcell
      have heq : cell' = cell := by
        by_cases hbe : b = e
        · subst hbe
          rw [hen] at hcell; rw [hen'] at hcell'
          cases hcell; cases hcell'
          exact cell_eq_of_child (hchild rfl) (by rw [Chain_head hc, Chain_head hc'])
        · by_cases hbk : b ∈ kids
          · exact cell_eq_of_next (hnext hbe)
              (Chain_next_eq kids _ _ hc' hc b hbk cell' cell hcell' hcell)
          · exact hout (by simp [hbe, hbk])
      rw [load_eq_ok.mp hcell, load_eq_ok.mp (heq ▸ hcell')]
    · have h1 : ∀ c, load m b ≠ .ok c := fun c hc0 => hlive ⟨c, hc0⟩
      have h2 : ∀ c, load m' b ≠ .ok c := fun c hc0 => hlive (hk.2.2 b c hb hc0)
      rw [get?_of_not_live hb h1, get?_of_not_live (hlen ▸ hb) h2]
  · rw [List.get?_eq_none.mpr (by omega), List.get?_eq_none.mpr (by omega)]

/-- C2 (as amended): re-enumeration is handle-stable.  For a well-formed
target `e` whose current children have distinct ids, each incoming handle
that carries the id of a current child `k` and has not occurred earlier in
the payload is served by the node `k` itself, at the handle's place in the
new child list: its cell is unchanged apart from the `next` link (so name,
size, format, modify_date, storage_id, parent, id and child link stay) and
every cell of its subtree is unchanged.  With pairwise distinct handles the
heap grows by one block per handle that is no current child's id, and
re-running with the current child ids as the handle list allocates nothing
and gives back the very same state. -/
theorem processGetObjectHandles_reuse (s : MTPDevice) (e : Nat) (en : storage_list_t)
    (kids : Kids) (hs header rest : List Nat)
    (henum : s.enum_node_ = some e) (hen : load s.heap e = .ok en)
    (hrep : Rep s.heap en.child (spine kids)) (hnd : (e :: (spine kids).addrs).Nodup)
    (hheader : header.length = 12) (hcount : hs.length < 4294967296)
    (hhs : ∀ h ∈ hs, h < 4294967296) (halloc : ∀ b ∈ s.malloc_outcomes, b = true)
    (hids : ((tops kids).map (idOf s.heap)).Nodup) :
    ∃ s' l, processGetObjectHandles s (header ++ handlesPayload hs ++ rest) = .ok s' ∧
      children s'.heap e = .ok l ∧
      (∀ i k, k ∈ kids → hs.get? i = some (idOf s.heap k.1) → idOf s.heap k.1 ∉ hs.take i →
        l.get? i = some k.1 ∧
        (∃ c c', load s.heap k.1 = .ok c ∧ load s'.heap k.1 = .ok c' ∧
          { c' with next := none } = { c with next := none }) ∧
        (∀ b ∈ k.2.addrs, load s'.heap b = load s.heap b)) ∧
      (hs.Nodup →
        s'.heap.length = s.heap.length +
          (hs.filter (fun h => decide (h ∉ (tops kids).map (idOf s.heap)))).length) ∧
      (hs = (tops kids).map (idOf s.heap) → s' = s) := by
  obtain ⟨m1, m2, en', outcomes, hrun, hkept, hfreed, hen', hchain, _, hnd', _, hlen,
      hout⟩ :=
    processGetObjectHandles_spec s e en kids hs header rest henum hen hrep hnd hheader hcount
      hhs halloc
  have hparts := hnd'
  simp only [List.nodup_cons, List.mem_append, not_or, List.nodup_append] at hparts
  obtain ⟨_, _, hnew_nd, hdisj⟩ := hparts
  have he : e ∉ (spine kids).addrs := (List.nodup_cons.mp hnd).1
  have hkids_nd : (spine kids).addrs.Nodup := (List.nodup_cons.mp hnd).2
  have hkeep : ∀ b, b ∈ (spine (rebuild (idOf s.heap) hs kids s.heap.length).1).addrs →
      load m2 b = load m1 b := fun b hb =>
    hfreed.load_of_not_mem (fun hc => hdisj hc hb)
  refine ⟨_, _, hrun, children_of_chain hen' hchain (nodup_tops_of_nodup_addrs _ hnew_nd), ?_,
    ?_, ?_⟩
  · intro i k hk hi hfirst
    have hget := rebuild_reuse hs kids s.heap.length i k hids hk hi hfirst
    have hkR : k ∈ (rebuild (idOf s.heap) hs kids s.heap.length).1 := List.get?_mem hget
    have htop : k.1 ∈ tops kids := List.mem_map_of_mem _ hk
    have htopR : k.1 ∈ tops (rebuild (idOf s.heap) hs kids s.heap.length).1 :=
      List.mem_map_of_mem _ hkR
    refine ⟨?_, ?_, ?_⟩
    · rw [tops, List.get?_eq_getElem?, List.getElem?_map, ← List.get?_eq_getElem?, hget]
      rfl
    · obtain ⟨c, hc⟩ := Rep_live hrep k.1 (tops_subset_addrs kids k.1 htop)
      obtain ⟨c', hc', _, hnext, _⟩ := hkept.2.1 k.1 c hc
      have hne : k.1 ≠ e := fun h => he (h ▸ tops_subset_addrs kids k.1 htop)
      exact ⟨c, c', hc, by
        show load m2 k.1 = .ok c'
        rw [hkeep k.1 (tops_subset_addrs _ k.1 htopR)]; exact hc', hnext hne⟩
    · intro b hb
      show load m2 b = load s.heap b
      rw [hkeep b (sub_subset_addrs _ k hkR b hb)]
      obtain ⟨c, hc⟩ := Rep_live hrep b (sub_subset_addrs kids k hk b hb)
      obtain ⟨c', hc', hsame, _, _⟩ := hkept.2.1 b c hc
      have hbS : b ∉ e :: tops kids := by
        intro hmem
        rcases List.mem_cons.mp hmem with h1 | h1
        · exact he (h1 ▸ sub_subset_addrs kids k hk b hb)
        · exact top_not_in_sub kids hkids_nd b h1 k hk hb
      rw [hc', hc, hsame hbS]
  · intro hdist
    show m2.length = _
    rw [hfreed.1, hlen, rebuild_fresh_count hs kids s.heap.length hdist]
  · intro hsame
    subst hsame
    rw [rebuild_same] at hfreed hchain hlen
    simp only [spine, Shape.addrs] at hfreed
    have hm2 : m2 = m1 := Freed_nil_eq hfreed
    subst hm2
    have hlen' : m2.length = s.heap.length := hlen
    have hm : m2 = s.heap :=
      hkept.heap_eq hlen' hen hen' (Rep_spine.mp hrep).1 hchain
    have ho : outcomes = s.malloc_outcomes := by
      rw [hout, hlen']; simp
    rw [hm, ho]

/-- Witness for C2: the target has the children 5 and 6 (addresses 2 and 3)
and the payload carries the handles 6 and 9: the node at address 3 becomes the
first child and one block is allocated. -/
theorem processGetObjectHandles_reuse_witness :
    ((tops [(2, Shape.nil), (3, Shape.nil)]).map (idOf twoChildren.heap)).Nodup ∧
    ∃ s' l, processGetObjectHandles twoChildren
        (dataContainer MTP_OPERATION_GET_OBJECT_HANDLES [] ++ handlesPayload [6, 9] ++ [])
          = .ok s' ∧
      children s'.heap 0 = .ok l ∧ l.get? 0 = some 3 ∧
      s'.heap.length = twoChildren.heap.length + 1 :=
  ⟨by decide,
   match processGetObjectHandles_reuse twoChildren 0 _ [(2, Shape.nil), (3, Shape.nil)] [6, 9]
     (dataContainer MTP_OPERATION_GET_OBJECT_HANDLES []) [] (by decide) rfl
     ⟨rfl, _, rfl, rfl, rfl, _, rfl, rfl, rfl⟩ (by decide) (by decide) (by decide) (by decide)
     (by decide) (by decide) with
   | ⟨s', l, h1, h2, h3, h4, _⟩ =>
     ⟨s', l, h1, h2, (h3 0 (3, Shape.nil) (by decide) (by decide) (by decide)).1,
       h4 (by decide)⟩⟩

/-- C2 fails as stated: the target's children have the distinct ids 5 and 6
and the payload is the handle 5 twice.  The second handle 5 matches the
current child at address 2, yet it is served by a newly allocated node at
address 4: the heap grows by one block and the children are the nodes 2
and 4, both with id 5. -/
theorem processGetObjectHandles_reuse_counterexample :
    twoChildren.enum_node_ = some 0 ∧
    children twoChildren.heap 0 = .ok [2, 3] ∧
    [2, 3].map (idOf twoChildren.heap) = [5, 6] ∧
    ∃ s', processGetObjectHandles twoChildren
        (dataContainer MTP_OPERATION_GET_OBJECT_HANDLES (handlesPayload [5, 5])) = .ok s' ∧
      children s'.heap 0 = .ok [2, 4] ∧
      [2, 4].map (idOf s'.heap) = [5, 5] ∧
      s'.heap.length = twoChildren.heap.length + 1 :=
  ⟨by decide, rfl, by decide, _, rfl, rfl, by decide, by decide⟩

theorem keyOf_snd (m : Heap) (a : Nat) : (keyOf m a).2 = idOf m a := by
  unfold keyOf idOf
  cases load m a <;> rfl

/-- C3 (as amended): the driver does not keep `(storage_id, id)` pairs
unique by itself; it takes the handles as the device sends them.  What holds
after `processGetObjectHandles` for a well-formed target, when no allocation
fails: the ids of the target's children are pairwise distinct exactly when the
handles of the payload are, and then so are their `(storage_id, id)` pairs. -/
theorem children_keys_distinct (s : MTPDevice) (e : Nat) (en : storage_list_t)
    (kids : Kids) (hs header rest : List Nat)
    (henum : s.enum_node_ = some e) (hen : load s.heap e = .ok en)
    (hrep : Rep s.heap en.child (spine kids)) (hnd : (e :: (spine kids).addrs).Nodup)
    (hheader : header.length = 12) (hcount : hs.length < 4294967296)
    (hhs : ∀ h ∈ hs, h < 4294967296) (halloc : ∀ b ∈ s.malloc_outcomes, b = true) :
    ∃ s' l, processGetObjectHandles s (header ++ handlesPayload hs ++ rest) = .ok s' ∧
      children s'.heap e = .ok l ∧
      ((l.map (idOf s'.heap)).Nodup ↔ hs.Nodup) ∧
      (hs.Nodup → (l.map (keyOf s'.heap)).Nodup) := by
  obtain ⟨m1, m2, en', outcomes, hrun, _, _, hen', hchain, _, hnd', hids, _, _⟩ :=
    processGetObjectHandles_spec s e en kids hs header rest henum hen hrep hnd hheader hcount
      hhs halloc
  have hparts := hnd'
  simp only [List.nodup_cons, List.mem_append, not_or, List.nodup_append] at hparts
  obtain ⟨_, _, hnew_nd, _⟩ := hparts
  have hids' : (tops (rebuild (idOf s.heap) hs kids s.heap.length).1).map
      (idOf ({ s with heap := m2, malloc_outcomes := outcomes } : MTPDevice).heap) = hs := hids
  refine ⟨_, _, hrun, children_of_chain hen' hchain (nodup_tops_of_nodup_addrs _ hnew_nd), ?_,
    ?_⟩
  · rw [hids']
  · intro hdist
    apply List.Nodup.of_map Prod.snd
    rw [List.map_map]
    have : (Prod.snd ∘ keyOf m2) = idOf m2 := funext (fun a => keyOf_snd m2 a)
    rw [this]
    exact hids.symm ▸ hdist

/-- Witness for C3: the children 5 and 6 are replaced by the handles 6
and 9. -/
theorem children_keys_distinct_witness :
    ∃ s' l, processGetObjectHandles twoChildren
        (dataContainer MTP_OPERATION_GET_OBJECT_HANDLES [] ++ handlesPayload [6, 9] ++ [])
          = .ok s' ∧
      children s'.heap 0 = .ok l ∧ (l.map (keyOf s'.heap)).Nodup :=
  match children_keys_distinct twoChildren 0 _ [(2, Shape.nil), (3, Shape.nil)] [6, 9]
     (dataContainer MTP_OPERATION_GET_OBJECT_HANDLES []) [] (by decide) rfl
     ⟨rfl, _, rfl, rfl, rfl, _, rfl, rfl, rfl⟩ (by decide) (by decide) (by decide) (by decide)
     (by decide) with
  | ⟨s', l, h1, h2, _, h4⟩ => ⟨s', l, h1, h2, h4 (by decide)⟩

/-- C3 fails as stated: the run in which storage 7 is enumerated and the
device answers with the handle 5 twice ends in a reachable state whose
storage root (address 0) has two distinct children, at the addresses 2 and 3,
both carrying the pair (storage_id 7, id 5). -/
theorem children_keys_distinct_counterexample :
    Reachable demoLimits duplicateChildren ∧
    children duplicateChildren.heap 0 = .ok [2, 3] ∧
    keyOf duplicateChildren.heap 2 = (7, 5) ∧
    keyOf duplicateChildren.heap 3 = (7, 5) ∧
    findStorageItemByID duplicateChildren 5 = .ok (some 2) :=
  ⟨⟨[], true, duplicateHandlesArrive, rfl⟩, rfl, by decide, by decide, rfl⟩

/-! ## Removal of an object -/

theorem Rep_functional {m : Heap} : ∀ {s1 s2 : Shape} {p : Ptr},
    Rep m p s1 → Rep m p s2 → s1 = s2 := by
  intro s1
  induction s1 with
  | nil =>
    intro s2 p h1 h2
    have hp : p = none := h1
    subst hp
    exact (Rep_none h2).symm
  | node a c n ihc ihn =>
    intro s2 p h1 h2
    obtain ⟨hp, cell, hl, hc, hn⟩ := h1
    subst hp
    cases s2 with
    | nil => cases (h2 : some a = none)
    | node a2 c2 n2 =>
      obtain ⟨hp2, cell2, hl2, hc2, hn2⟩ := h2
      cases hp2
      rw [hl] at hl2
      cases hl2
      rw [ihc hc hc2, ihn hn hn2]

theorem Rep_top {m : Heap} {y : Nat} {sh : Shape} (h : Rep m (some y) sh) :
    ∃ c n, sh = .node y c n := by
  cases sh with
  | nil => cases (h : some y = none)
  | node a c n =>
    obtain ⟨hp, _⟩ := h
    cases hp
    exact ⟨c, n, rfl⟩

theorem Rep_top_mem {m : Heap} {y : Nat} {sh : Shape} (h : Rep m (some y) sh) :
    y ∈ sh.addrs := by
  obtain ⟨c, n, rfl⟩ := Rep_top h
  simp [Shape.addrs]

theorem Rep_tops {m : Heap} : ∀ {sh : Shape} {p : Ptr}, Rep m p sh → Chain m p sh.tops := by
  intro sh
  induction sh with
  | nil => intro p h; exact h
  | node a c n _ ihn =>
    intro p h
    obtain ⟨hp, cell, hl, _, hn⟩ := h
    exact ⟨hp, cell, hl, ihn hn⟩

theorem Shape.tops_subset : ∀ (sh : Shape), ∀ a ∈ sh.tops, a ∈ sh.addrs := by
  intro sh
  induction sh with
  | nil => intro a ha; simp [Shape.tops] at ha
  | node b c n _ ihn =>
    intro a ha
    simp only [Shape.tops, List.mem_cons] at ha
    simp only [Shape.addrs, List.mem_cons, List.mem_append]
    rcases ha with h | h
    · exact Or.inl h
    · exact Or.inr (Or.inr (ihn a h))

/-- The links of a node of a shape lead to nodes of the shape. -/
theorem Rep_closed {m : Heap} : ∀ {sh : Shape} {p : Ptr}, Rep m p sh →
    ∀ x ∈ sh.addrs, ∀ cx, load m x = .ok cx → ∀ y, (cx.child = some y ∨ cx.next = some y) →
    y ∈ sh.addrs := by
  intro sh
  induction sh with
  | nil => intro p _ x hx; simp [Shape.addrs] at hx
  | node b c n ihc ihn =>
    intro p h x hx cx hcx y hy
    obtain ⟨_, cell, hl, hc, hn⟩ := h
    simp only [Shape.addrs, List.mem_cons, List.mem_append] at hx ⊢
    rcases hx with rfl | hx | hx
    · rw [hl] at hcx
      cases hcx
      rcases hy with hy | hy
      · rw [hy] at hc
        exact Or.inr (Or.inl (Rep_top_mem hc))
      · rw [hy] at hn
        exact Or.inr (Or.inr (Rep_top_mem hn))
    · exact Or.inr (Or.inl (ihc hc x hx cx hcx y hy))
    · exact Or.inr (Or.inr (ihn hn x hx cx hcx y hy))

/-- In a shape without repeated addresses no node links to the top node. -/
theorem Rep_no_link_to_top {m : Heap} {b : Nat} {c n : Shape} {p : Ptr}
    (h : Rep m p (.node b c n)) (hnd : (Shape.node b c n).addrs.Nodup)
    {x : Nat} (hx : x ∈ (Shape.node b c n).addrs) {cx : storage_list_t}
    (hcx : load m x = .ok cx) (hy : cx.child = some b ∨ cx.next = some b) : False := by
  obtain ⟨_, cell, hl, hc, hn⟩ := h
  simp only [Shape.addrs, List.nodup_cons, List.mem_append, not_or] at hnd
  simp only [Shape.addrs, List.mem_cons, List.mem_append] at hx
  rcases hx with rfl | hx | hx
  · rw [hl] at hcx
    cases hcx
    rcases hy with hy | hy
    · rw [hy] at hc
      exact hnd.1.1 (Rep_top_mem hc)
    · rw [hy] at hn
      exact hnd.1.2 (Rep_top_mem hn)
  · exact hnd.1.1 (Rep_closed hc x hx cx hcx b hy)
  · exact hnd.1.2 (Rep_closed hn x hx cx hcx b hy)

theorem Shape.remove_of_not_mem (a : Nat) : ∀ (sh : Shape), a ∉ sh.addrs → sh.remove a = sh := by
  intro sh
  induction sh with
  | nil => intro _; rfl
  | node b c n ihc ihn =>
    intro h
    simp only [Shape.addrs, List.mem_cons, List.mem_append, not_or] at h
    have hb : b ≠ a := fun hc => h.1 hc.symm
    simp only [Shape.remove, if_neg hb, ihc h.2.1, ihn h.2.2]

/-- The addresses of a shape are the node `a`, what is below it, and what
remains without it. -/
theorem Shape.addrs_perm (a : Nat) : ∀ (sh : Shape), a ∈ sh.addrs → sh.addrs.Nodup →
    List.Perm sh.addrs (a :: ((sh.sub a).addrs ++ (sh.remove a).addrs)) := by
  intro sh
  induction sh with
  | nil => intro h; simp [Shape.addrs] at h
  | node b c n ihc ihn =>
    intro h hnd
    by_cases hb : b = a
    · subst hb
      simp only [Shape.sub, Shape.remove, if_true, Shape.addrs]
      exact List.Perm.refl _
    · simp only [Shape.addrs, List.mem_cons, List.mem_append] at h
      simp only [Shape.addrs, List.nodup_cons, List.nodup_append] at hnd
      obtain ⟨_, hcnd, hnnd, hdisj⟩ := hnd
      rcases h with h | h | h
      · exact absurd h.symm hb
      · have han : a ∉ n.addrs := fun hc => hdisj h hc
        have ih := ihc h hcnd
        simp only [Shape.sub, Shape.remove, if_neg hb, if_pos h, Shape.addrs,
          Shape.remove_of_not_mem a n han]
        have h1 : List.Perm (b :: (c.addrs ++ n.addrs))
            (b :: ((a :: ((c.sub a).addrs ++ (c.remove a).addrs)) ++ n.addrs)) :=
          List.Perm.cons b (List.Perm.append_right _ ih)
        refine h1.trans ?_
        simp only [List.cons_append, List.append_assoc]
        refine (List.Perm.swap a b _).trans (List.Perm.cons a ?_)
        exact (@List.perm_middle _ b (c.sub a).addrs ((c.remove a).addrs ++ n.addrs)).symm
      · have hac : a ∉ c.addrs := fun hc => hdisj hc h
        have ih := ihn h hnnd
        simp only [Shape.sub, Shape.remove, if_neg hb, if_neg hac, Shape.addrs,
          Shape.remove_of_not_mem a c hac]
        have h1 : List.Perm (b :: (c.addrs ++ n.addrs))
            (b :: (c.addrs ++ (a :: ((n.sub a).addrs ++ (n.remove a).addrs)))) :=
          List.Perm.cons b (List.Perm.append_left _ ih)
        refine h1.trans ?_
        have h2 : List.Perm (c.addrs ++ a :: ((n.sub a).addrs ++ (n.remove a).addrs))
            (a :: ((n.sub a).addrs ++ (c.addrs ++ (n.remove a).addrs))) := by
          refine List.perm_middle.trans (List.Perm.cons a ?_)
          rw [← List.append_assoc, ← List.append_assoc]
          exact List.Perm.append_right _ List.perm_append_comm
        refine (List.Perm.cons b h2).trans ((List.Perm.swap a b _).trans (List.Perm.cons a ?_))
        exact (@List.perm_middle _ b (n.sub a).addrs (c.addrs ++ (n.remove a).addrs)).symm

theorem Rep_sub {m : Heap} {a : Nat} : ∀ {sh : Shape} {p : Ptr}, Rep m p sh → a ∈ sh.addrs →
    ∃ ca, load m a = .ok ca ∧ Rep m ca.child (sh.sub a) := by
  intro sh
  induction sh with
  | nil => intro p _ h; simp [Shape.addrs] at h
  | node b c n ihc ihn =>
    intro p h ha
    obtain ⟨_, cell, hl, hc, hn⟩ := h
    by_cases hb : b = a
    · subst hb
      exact ⟨cell, hl, by simpa [Shape.sub] using hc⟩
    · by_cases hac : a ∈ c.addrs
      · simp only [Shape.sub, if_neg hb, if_pos hac]
        exact ihc hc hac
      · simp only [Shape.sub, if_neg hb, if_neg hac]
        simp only [Shape.addrs, List.mem_cons, List.mem_append] at ha
        rcases ha with h1 | h1 | h1
        · exact absurd h1.symm hb
        · exact absurd h1 hac
        · exact ihn hn h1

/-- Redirecting the one link that leads to the node `a` to `a`'s successor
takes `a` and what is below it out of the shape. -/
theorem Rep_unlink {m : Heap} {a x : Nat} {ca cx : storage_list_t} (m1 : Heap)
    (hca : load m a = .ok ca) (hcx : load m x = .ok cx)
    (hlink : (cx.child = some a ∧ m1 = store m x { cx with child := ca.next }) ∨
      (cx.next = some a ∧ m1 = store m x { cx with next := ca.next })) :
    ∀ (sh : Shape) (p : Ptr), Rep m p sh → sh.addrs.Nodup → x ∈ sh.addrs →
      Rep m1 p (sh.remove a) := by
  have hy : cx.child = some a ∨ cx.next = some a := by
    rcases hlink with h | h
    · exact Or.inl h.1
    · exact Or.inr h.1
  have hother : ∀ y, y ≠ x → load m1 y = load m y := by
    intro y hyx
    rcases hlink with h | h <;> rw [h.2] <;> exact load_store_ne _ (Ne.symm hyx)
  intro sh
  induction sh with
  | nil => intro p _ _ hx; simp [Shape.addrs] at hx
  | node b c n ihc ihn =>
    intro p h hnd hx
    have hba : b ≠ a := by
      intro hba
      subst hba
      exact Rep_no_link_to_top h hnd hx hcx hy
    obtain ⟨hp, cell, hl, hc, hn⟩ := h
    have hnd' := hnd
    simp only [Shape.addrs, List.nodup_cons, List.mem_append, not_or, List.nodup_append] at hnd'
    obtain ⟨⟨hbc, hbn⟩, hcnd, hnnd, hdisj⟩ := hnd'
    simp only [Shape.remove, if_neg hba]
    simp only [Shape.addrs, List.mem_cons, List.mem_append] at hx
    by_cases hxb : x = b
    · subst hxb
      rw [hl] at hcx
      cases hcx
      have hframe_c : ∀ y ∈ c.addrs, load m1 y = load m y := fun y hyc =>
        hother y (fun h => hbc (h ▸ hyc))
      have hframe_n : ∀ y ∈ n.addrs, load m1 y = load m y := fun y hyn =>
        hother y (fun h => hbn (h ▸ hyn))
      rcases hlink with ⟨hch, hm1⟩ | ⟨hnx, hm1⟩
      · rw [hch] at hc
        obtain ⟨sc, nc, rfl⟩ := Rep_top hc
        obtain ⟨_, ca', hca', _, hnc⟩ := hc
        rw [hca] at hca'
        cases hca'
        have han : a ∉ n.addrs := fun h => hdisj (by simp [Shape.addrs]) h
        rw [Shape.remove_of_not_mem a n han]
        refine ⟨hp, { cx with child := ca.next }, ?_, ?_, ?_⟩
        · rw [hm1]; exact load_store_same _ (load_lt hl)
        · simp only [Shape.remove, if_true]
          exact Rep_frame (fun y hyn => hframe_c y (by simp [Shape.addrs, hyn])) hnc
        · exact Rep_frame hframe_n hn
      · rw [hnx] at hn
        obtain ⟨sc, nc, rfl⟩ := Rep_top hn
        obtain ⟨_, ca', hca', _, hnc⟩ := hn
        rw [hca] at hca'
        cases hca'
        have hac : a ∉ c.addrs := fun h => hdisj h (by simp [Shape.addrs])
        rw [Shape.remove_of_not_mem a c hac]
        refine ⟨hp, { cx with next := ca.next }, ?_, ?_, ?_⟩
        · rw [hm1]; exact load_store_same _ (load_lt hl)
        · exact Rep_frame hframe_c hc
        · simp only [Shape.remove, if_true]
          exact Rep_frame (fun y hyn => hframe_n y (by simp [Shape.addrs, hyn])) hnc
    · have hlb : load m1 b = .ok cell := by rw [hother b (Ne.symm hxb)]; exact hl
      rcases hx with h1 | h1 | h1
      · exact absurd h1 hxb
      · have hac : a ∈ c.addrs := Rep_closed hc x h1 cx hcx a hy
        have han : a ∉ n.addrs := fun h => hdisj hac h
        rw [Shape.remove_of_not_mem a n han]
        refine ⟨hp, cell, hlb, ihc _ hc hcnd h1, ?_⟩
        exact Rep_frame (fun y hyn => hother y (fun h => hdisj h1 (h ▸ hyn))) hn
      · have han : a ∈ n.addrs := Rep_closed hn x h1 cx hcx a hy
        have hac : a ∉ c.addrs := fun h => hdisj h han
        rw [Shape.remove_of_not_mem a c hac]
        refine ⟨hp, cell, hlb, ?_, ihn _ hn hnnd h1⟩
        exact Rep_frame (fun y hyc => hother y (fun h => hdisj (h ▸ hyc) h1)) hc

theorem Chain_functional {m : Heap} : ∀ {l l' : List Nat} {p : Ptr},
    Chain m p l → Chain m p l' → l = l' := by
  intro l
  induction l with
  | nil =>
    intro l' p h h'
    have hp : p = none := h
    subst hp
    cases l' with
    | nil => rfl
    | cons a l' => cases h'.1
  | cons a l ih =>
    intro l' p h h'
    obtain ⟨hp, cell, hl, hc⟩ := h
    subst hp
    cases l' with
    | nil => cases (h' : some a = none)
    | cons a' l' =>
      obtain ⟨hp', cell', hl', hc'⟩ := h'
      cases hp'
      rw [hl] at hl'
      cases hl'
      rw [ih hc hc']

/-- A list of siblings that ends in null visits no node twice. -/
theorem Chain_nodup {m : Heap} : ∀ {l : List Nat} {p : Ptr}, Chain m p l → l.Nodup := by
  intro l
  induction l with
  | nil => intro _ _; exact List.nodup_nil
  | cons a l ih =>
    intro p h
    obtain ⟨_, cell, hl, hc⟩ := h
    refine List.nodup_cons.mpr ⟨?_, ih hc⟩
    intro hmem
    obtain ⟨l1, l2, rfl⟩ := List.append_of_mem hmem
    obtain ⟨cell', hl', hc'⟩ := Chain_split l1 _ hc
    rw [hl] at hl'
    cases hl'
    have := congrArg List.length (Chain_functional hc hc')
    simp at this
    omega

/-- The search loop of the unlinking stops at the sibling right before
`a`. -/
theorem findPrevSibling_spec {m : Heap} {a : Nat} {l2 : List Nat} :
    ∀ (l1 : List Nat) (x : Nat) (fuel : Nat) (q : Ptr),
    Chain m q (x :: l1 ++ a :: l2) → l1.length + 1 < fuel →
    ∃ b cb, findPrevSibling fuel m q a = .ok (some b) ∧ b ∈ x :: l1 ∧
      load m b = .ok cb ∧ cb.next = some a := by
  intro l1
  induction l1 with
  | nil =>
    intro x fuel q h hf
    obtain ⟨f, rfl⟩ : ∃ f, fuel = f + 1 := ⟨fuel - 1, by omega⟩
    obtain ⟨hq, cx, hcx, hc⟩ := h
    subst hq
    have hnext : cx.next = some a := hc.1
    refine ⟨x, cx, ?_, by simp, hcx, hnext⟩
    simp only [findPrevSibling, hcx, hnext, ne_eq, not_true_eq_false, if_false]
  | cons y l1 ih =>
    intro x fuel q h hf
    obtain ⟨f, rfl⟩ : ∃ f, fuel = f + 1 := ⟨fuel - 1, by omega⟩
    have hnd := Chain_nodup h
    obtain ⟨hq, cx, hcx, hc⟩ := h
    subst hq
    have hnext : cx.next = some y := hc.1
    have hya : y ≠ a := by
      intro hya
      subst hya
      simp at hnd
    obtain ⟨b, cb, hfind, hb, hcb, hbn⟩ := ih y f cx.next hc (by simp at hf; omega)
    refine ⟨b, cb, ?_, List.mem_cons_of_mem _ hb, hcb, hbn⟩
    have hne : cx.next ≠ some a := by
      rw [hnext]
      intro h
      exact hya (Option.some.inj h)
    simp only [findPrevSibling, hcx, ne_eq, hne, not_false_eq_true, if_true]
    exact hfind

theorem ParentsOk_frame {m m' : Heap} : ∀ {sh : Shape} {par : Nat},
    (∀ a ∈ sh.addrs, load m' a = load m a) → ParentsOk m par sh → ParentsOk m' par sh := by
  intro sh
  induction sh with
  | nil => intro _ _ _; trivial
  | node a c n ihc ihn =>
    intro par hf h
    obtain ⟨⟨cell, hl, hpar⟩, hc, hn⟩ := h
    refine ⟨⟨cell, by rw [hf a (by simp [Shape.addrs])]; exact hl, hpar⟩, ?_, ?_⟩
    · exact ihc (fun b hb => hf b (by simp [Shape.addrs, hb])) hc
    · exact ihn (fun b hb => hf b (by simp [Shape.addrs, hb])) hn

/-- With consistent parent pointers, the `parent` field of a node leads to
the node whose child list holds it. -/
theorem parent_of_mem {m : Heap} {a : Nat} : ∀ {sh : Shape} {p : Ptr} {par : Nat},
    Rep m p sh → ParentsOk m par sh → (∀ t ∈ sh.tops, ChildOf m par t) → a ∈ sh.addrs →
    ∃ ca P, load m a = .ok ca ∧ ca.parent = some P ∧ ChildOf m P a ∧
      (P = par ∨ P ∈ sh.addrs) := by
  intro sh
  induction sh with
  | nil => intro p par _ _ _ h; simp [Shape.addrs] at h
  | node b c n ihc ihn =>
    intro p par h hpar htops ha
    obtain ⟨_, cell, hl, hc, hn⟩ := h
    obtain ⟨⟨cell', hl', hparent⟩, hpc, hpn⟩ := hpar
    rw [hl] at hl'
    cases hl'
    simp only [Shape.addrs, List.mem_cons, List.mem_append] at ha
    rcases ha with rfl | ha | ha
    · exact ⟨cell, par, hl, hparent, htops a (by simp [Shape.tops]), Or.inl rfl⟩
    · have hch : ∀ t ∈ c.tops, ChildOf m b t := by
        intro t ht
        obtain ⟨l1, l2, hsplit⟩ := List.append_of_mem ht
        exact ⟨cell, l1, l2, hl, hsplit ▸ Rep_tops hc⟩
      obtain ⟨ca, P, h1, h2, h3, h4⟩ := ihc hc hpc hch ha
      refine ⟨ca, P, h1, h2, h3, Or.inr ?_⟩
      simp only [Shape.addrs, List.mem_cons, List.mem_append]
      rcases h4 with h4 | h4
      · exact Or.inl h4
      · exact Or.inr (Or.inl h4)
    · obtain ⟨ca, P, h1, h2, h3, h4⟩ :=
        ihn hn hpn (fun t ht => htops t (by simp [Shape.tops, ht])) ha
      refine ⟨ca, P, h1, h2, h3, ?_⟩
      rcases h4 with h4 | h4
      · exact Or.inl h4
      · exact Or.inr (by simp [Shape.addrs, h4])

/-- The search `findStorageItem` over a well-formed shape returns, and it
finds a node of the shape carrying the id or reports that there is none. -/
theorem findStorageItemAux_spec {m : Heap} {h : Nat} : ∀ (sh : Shape) (fuel : Nat) (p : Ptr),
    Rep m p sh → sh.height < fuel →
    (∃ a, findStorageItemAux fuel m p h = .ok (some a) ∧ a ∈ sh.addrs ∧ idOf m a = h) ∨
    (findStorageItemAux fuel m p h = .ok none ∧ ∀ b ∈ sh.addrs, idOf m b ≠ h) := by
  intro sh
  induction sh with
  | nil =>
    intro fuel p hrep hf
    obtain ⟨f, rfl⟩ : ∃ f, fuel = f + 1 := ⟨fuel - 1, by omega⟩
    have hp : p = none := hrep
    subst hp
    exact Or.inr ⟨rfl, fun b hb => by simp [Shape.addrs] at hb⟩
  | node b c n ihc ihn =>
    intro fuel p hrep hf
    obtain ⟨f, rfl⟩ : ∃ f, fuel = f + 1 := ⟨fuel - 1, by omega⟩
    obtain ⟨hp, cell, hl, hc, hn⟩ := hrep
    subst hp
    simp only [Shape.height] at hf
    have hfc : c.height < f := by omega
    have hfn : n.height < f := by omega
    by_cases hid : cell.id = h
    · refine Or.inl ⟨b, ?_, by simp [Shape.addrs], by rw [idOf_of_load hl]; exact hid⟩
      simp only [findStorageItemAux, hl, hid, if_true]
    · have hidb : idOf m b ≠ h := by rw [idOf_of_load hl]; exact hid
      have hchild : (∃ a, (if cell.child.isSome then findStorageItemAux f m cell.child h
            else .ok none) = .ok (some a) ∧ a ∈ c.addrs ∧ idOf m a = h) ∨
          ((if cell.child.isSome then findStorageItemAux f m cell.child h
            else .ok none) = .ok none ∧ ∀ x ∈ c.addrs, idOf m x ≠ h) := by
        by_cases hsome : cell.child.isSome
        · simp only [hsome, if_true]
          exact ihc f cell.child hc hfc
        · simp only [hsome]
          have hnone : cell.child = none := by
            cases hcc : cell.child with
            | none => rfl
            | some v => rw [hcc] at hsome; simp at hsome
          rw [hnone] at hc
          rw [Rep_none hc]
          exact Or.inr ⟨rfl, fun x hx => by simp [Shape.addrs] at hx⟩
      rcases hchild with ⟨a, hfa, hac, hida⟩ | ⟨hfn', hcn⟩
      · refine Or.inl ⟨a, ?_, by simp [Shape.addrs, hac], hida⟩
        simp only [findStorageItemAux, hl, hid, if_false, hfa]
      · rcases ihn f cell.next hn hfn with ⟨a, hfa, han, hida⟩ | ⟨hfa, hnn⟩
        · refine Or.inl ⟨a, ?_, by simp [Shape.addrs, han], hida⟩
          simp only [findStorageItemAux, hl, hid, if_false, hfn', hfa]
        · refine Or.inr ⟨?_, ?_⟩
          · simp only [findStorageItemAux, hl, hid, if_false, hfn', hfa]
          · intro x hx
            simp only [Shape.addrs, List.mem_cons, List.mem_append] at hx
            rcases hx with rfl | hx | hx
            · exact hidb
            · exact hcn x hx
            · exact hnn x hx

/-- The loop of `findStorageItemByID` over well-formed trees returns; it
finds a node below a root or reports that no node below the roots visited
carries the id. -/
theorem findStorageItemByIDLoop_spec {m : Heap} {h cnt : Nat} {sh : Nat → Shape}
    (hroots : ∀ i, i < cnt → ∃ root, load m i = .ok root ∧ Rep m root.child (sh i))
    (hnd : ∀ i, i < cnt → (sh i).addrs.Nodup)
    (hrootid : ∀ i, i < cnt → idOf m i ≠ h) :
    ∀ (n i : Nat), i + n ≤ cnt →
    (∃ a j, findStorageItemByIDLoop m h n i = .ok (some a) ∧ j < cnt ∧ a ∈ (sh j).addrs ∧
      idOf m a = h) ∨
    (findStorageItemByIDLoop m h n i = .ok none ∧
      ∀ j, i ≤ j → j < i + n → ∀ b ∈ (sh j).addrs, idOf m b ≠ h) := by
  intro n
  induction n with
  | zero =>
    intro i _
    exact Or.inr ⟨rfl, fun j h1 h2 => by omega⟩
  | succ n ih =>
    intro i hi
    obtain ⟨root, hroot, hrep⟩ := hroots i (by omega)
    have hid : root.id ≠ h := by
      have := hrootid i (by omega)
      rwa [idOf_of_load hroot] at this
    rcases findStorageItemAux_spec (h := h) (sh i) (m.length + 1) root.child hrep
        (Rep_height_lt hrep (hnd i (by omega))) with ⟨a, hfa, ha, hida⟩ | ⟨hfn, hnone⟩
    · refine Or.inl ⟨a, i, ?_, by omega, ha, hida⟩
      simp only [findStorageItemByIDLoop, hroot, hid, if_false, findStorageItem, hfa]
    · rcases ih (i + 1) (by omega) with ⟨a, j, hfa, hj, ha, hida⟩ | ⟨hfa, hrest⟩
      · refine Or.inl ⟨a, j, ?_, hj, ha, hida⟩
        simp only [findStorageItemByIDLoop, hroot, hid, if_false, findStorageItem, hfn, hfa]
      · refine Or.inr ⟨?_, ?_⟩
        · simp only [findStorageItemByIDLoop, hroot, hid, if_false, findStorageItem, hfn, hfa]
        · intro j h1 h2 b hb
          by_cases hji : j = i
          · subst hji; exact hnone b hb
          · exact hrest j (by omega) (by omega) b hb

theorem Chain_closed {m : Heap} {sh : Shape} {p : Ptr} (hrep : Rep m p sh) :
    ∀ (l : List Nat) (q : Ptr), Chain m q l → (∀ y, q = some y → y ∈ sh.addrs) →
    ∀ y ∈ l, y ∈ sh.addrs := by
  intro l
  induction l with
  | nil => intro q _ _ y hy; simp at hy
  | cons z l ih =>
    intro q hc hq y hy
    obtain ⟨hqz, cz, hcz, hrest⟩ := hc
    have hz : z ∈ sh.addrs := hq z hqz
    rcases List.mem_cons.mp hy with rfl | hy
    · exact hz
    · exact ih cz.next hrest (fun w hw => Rep_closed hrep z hz cz hcz w (Or.inr hw)) y hy

/-- What the unlinking does when the node is in its parent's child list: one
link that led to the node now leads to the node's successor, the parent's
`child` link or the `next` link of a sibling. -/
theorem unlinkFromParent_spec {m : Heap} {P a : Nat} {cP ca : storage_list_t}
    (hP : load m P = .ok cP) (hchild : ∃ l1 l2, Chain m cP.child (l1 ++ a :: l2)) :
    ∃ x cx m1, unlinkFromParent m (some P) cP a ca = .ok m1 ∧ load m x = .ok cx ∧
      ((x = P ∧ cx.child = some a ∧ m1 = store m x { cx with child := ca.next }) ∨
        ((∃ l, Chain m cP.child l ∧ x ∈ l) ∧ cx.next = some a ∧
          m1 = store m x { cx with next := ca.next })) := by
  obtain ⟨l1, l2, hchain⟩ := hchild
  cases l1 with
  | nil =>
    have hhead : cP.child = some a := hchain.1
    refine ⟨P, cP, store m P { cP with child := ca.next }, ?_, hP, Or.inl ⟨rfl, hhead, rfl⟩⟩
    simp only [unlinkFromParent, hhead, if_true]
    exact modify_some _ hP
  | cons y l1 =>
    have hnd := Chain_nodup hchain
    have hhead : cP.child = some y := hchain.1
    have hya : y ≠ a := by
      intro hya
      subst hya
      simp at hnd
    have hne : cP.child ≠ some a := by
      rw [hhead]
      intro h
      exact hya (Option.some.inj h)
    have hlen : (y :: l1 ++ a :: l2).length ≤ m.length :=
      nodup_length_le hnd (fun b hb => by
        obtain ⟨c, hc⟩ := Chain_live hchain b hb
        exact load_lt hc)
    obtain ⟨b, cb, hfind, hb, hcb, hbn⟩ :=
      findPrevSibling_spec l1 y (m.length + 1) cP.child hchain (by
        simp at hlen; omega)
    refine ⟨b, cb, store m b { cb with next := ca.next }, ?_, hcb,
      Or.inr ⟨⟨_, hchain, ?_⟩, hbn, rfl⟩⟩
    · simp only [unlinkFromParent, if_neg hne, hfind]
      exact modify_some _ hcb
    · simp only [List.cons_append, List.mem_cons, List.mem_append] at hb ⊢
      rcases hb with hb | hb
      · exact Or.inl hb
      · exact Or.inr (Or.inl hb)

theorem Rep_no_self_link {m : Heap} : ∀ {sh : Shape} {p : Ptr}, Rep m p sh → sh.addrs.Nodup →
    ∀ x ∈ sh.addrs, ∀ cx, load m x = .ok cx → (cx.child = some x ∨ cx.next = some x) →
    False := by
  intro sh
  induction sh with
  | nil => intro p _ _ x hx; simp [Shape.addrs] at hx
  | node b c n ihc ihn =>
    intro p h hnd x hx cx hcx hy
    by_cases hxb : x = b
    · subst hxb
      exact Rep_no_link_to_top h hnd hx hcx hy
    · obtain ⟨_, cell, hl, hc, hn⟩ := h
      simp only [Shape.addrs, List.nodup_cons, List.nodup_append] at hnd
      simp only [Shape.addrs, List.mem_cons, List.mem_append] at hx
      rcases hx with h1 | h1 | h1
      · exact hxb h1
      · exact ihc hc hnd.2.1 x h1 cx hcx hy
      · exact ihn hn hnd.2.2.1 x h1 cx hcx hy


theorem idOf_store_link {m : Heap} {x : Nat} {cx : storage_list_t} (hcx : load m x = .ok cx)
    (c' : storage_list_t) (hid : c'.id = cx.id) (y : Nat) :
    idOf (store m x c') y = idOf m y := by
  by_cases hyx : y = x
  · subst hyx
    rw [idOf_of_load (load_store_same c' (load_lt hcx)), idOf_of_load hcx, hid]
  · simp only [idOf, load_store_ne c' (Ne.symm hyx)]

/-- Unlinking a node of the forest from its parent, clearing its `next`
link and freeing it with what is below it, as `process_object_removed_event`
and `complete_processing_event` do, leaves the forest without that node:
every step returns, and the roots then hold the old trees with the node and
its subtree taken out, every remaining node with its old id. -/
theorem forest_after_removal {m : Heap} {cnt : Nat} {sh : Nat → Shape} {i a : Nat}
    (hf : Forest m cnt sh) (hi : i < cnt) (ha : a ∈ (sh i).addrs) :
    ∃ ca pn m1 m2 m3,
      load m a = .ok ca ∧ deref m ca.parent = .ok pn ∧
      unlinkFromParent m ca.parent pn a ca = .ok m1 ∧
      modify m1 (some a) (fun x => { x with next := none }) = .ok m2 ∧
      freeStorageListTree m2 (some a) = .ok m3 ∧
      (∀ j, j < cnt → ∃ root, load m3 j = .ok root ∧ Rep m3 root.child ((sh j).remove a)) ∧
      (∀ j, j < cnt → ((sh j).remove a).addrs.Nodup) ∧
      (∀ j, j < cnt → ∀ b ∈ ((sh j).remove a).addrs,
        b ∈ (sh j).addrs ∧ b ≠ a ∧ idOf m3 b = idOf m b) ∧
      (∀ j, j < cnt → idOf m3 j = idOf m j) := by
  obtain ⟨rooti, hrooti, hrepi⟩ := hf.roots i hi
  have hndi := hf.nodup i hi
  have htops : ∀ t ∈ (sh i).tops, ChildOf m i t := by
    intro t ht
    obtain ⟨l1, l2, hsplit⟩ := List.append_of_mem ht
    exact ⟨rooti, l1, l2, hrooti, hsplit ▸ Rep_tops hrepi⟩
  obtain ⟨ca, P, hca, hpar, ⟨cP, l1, l2, hP, hchain⟩, hPmem⟩ :=
    parent_of_mem hrepi (hf.parents i hi) htops ha
  obtain ⟨x, cx, m1, hun, hcx, hlink⟩ :=
    @unlinkFromParent_spec m P a cP ca hP ⟨l1, l2, hchain⟩
  -- the parts of the tree
  have hperm := Shape.addrs_perm a (sh i) ha hndi
  have hnd' : (a :: (((sh i).sub a).addrs ++ ((sh i).remove a).addrs)).Nodup :=
    hperm.nodup_iff.mp hndi
  simp only [List.nodup_cons, List.mem_append, not_or, List.nodup_append] at hnd'
  obtain ⟨⟨ha_sub, ha_rem⟩, hsub_nd, hrem_nd, hdisj⟩ := hnd'
  have hsub_mem : ∀ y ∈ ((sh i).sub a).addrs, y ∈ (sh i).addrs := fun y hy =>
    hperm.mem_iff.mpr (by simp [hy])
  have hrem_mem : ∀ y ∈ ((sh i).remove a).addrs, y ∈ (sh i).addrs := fun y hy =>
    hperm.mem_iff.mpr (by simp [hy])
  obtain ⟨ca', hca', hrep_sub⟩ := Rep_sub hrepi ha
  rw [hca] at hca'
  cases hca'
  have ha_ge : cnt ≤ a := hf.above i hi a ha
  -- the changed cell
  have hy : cx.child = some a ∨ cx.next = some a := by
    rcases hlink with ⟨_, h, _⟩ | ⟨_, h, _⟩
    · exact Or.inl h
    · exact Or.inr h
  have hchild_in : ∀ y, cP.child = some y → y ∈ (sh i).addrs := by
    intro y hy'
    rcases hPmem with hPi | hPi
    · subst hPi
      rw [hrooti] at hP
      cases hP
      rw [hy'] at hrepi
      exact Rep_top_mem hrepi
    · exact Rep_closed hrepi P hPi cP hP y (Or.inl hy')
  have hxwhere : (x = i ∧ cx.child = some a ∧ m1 = store m x { cx with child := ca.next }) ∨
      x ∈ (sh i).addrs := by
    rcases hlink with ⟨hxP, h1, h2⟩ | ⟨⟨l, hl, hxl⟩, _, _⟩
    · rcases hPmem with hPi | hPi
      · exact Or.inl ⟨hxP.trans hPi, h1, h2⟩
      · exact Or.inr (hxP ▸ hPi)
    · exact Or.inr (Chain_closed hrepi l cP.child hl hchild_in x hxl)
  have hxa : x ≠ a := by
    intro hxa
    rw [hxa] at hcx
    exact Rep_no_self_link hrepi hndi a ha cx hcx hy
  have hx_sub : x ∉ ((sh i).sub a).addrs := fun hx =>
    ha_sub (Rep_closed hrep_sub x hx cx (hcx) a hy)
  have hm1 : m1 = store m x { cx with child := ca.next } ∨
      m1 = store m x { cx with next := ca.next } := by
    rcases hlink with ⟨_, _, h⟩ | ⟨_, _, h⟩
    · exact Or.inl h
    · exact Or.inr h
  have hother1 : ∀ y, y ≠ x → load m1 y = load m y := by
    intro y hyx
    rcases hm1 with h | h <;> rw [h] <;> exact load_store_ne _ (Ne.symm hyx)
  have hid1 : ∀ y, idOf m1 y = idOf m y := by
    intro y
    rcases hm1 with h | h
    · rw [h]; exact idOf_store_link hcx { cx with child := ca.next } rfl y
    · rw [h]; exact idOf_store_link hcx { cx with next := ca.next } rfl y
  have hca1 : load m1 a = .ok ca := by rw [hother1 a (Ne.symm hxa)]; exact hca
  -- what remains of every tree
  have hrem : ∀ j, j < cnt → ∀ y ∈ ((sh j).remove a).addrs,
      y ∈ (sh j).addrs ∧ y ≠ a ∧ y ∉ ((sh i).sub a).addrs := by
    intro j hj y hyj
    by_cases hji : j = i
    · subst hji
      exact ⟨hrem_mem y hyj, fun h => ha_rem (h ▸ hyj), fun h => hdisj h hyj⟩
    · have haj : a ∉ (sh j).addrs := hf.apart i j hi hj (Ne.symm hji) a ha
      rw [Shape.remove_of_not_mem a _ haj] at hyj
      refine ⟨hyj, fun h => haj (h ▸ hyj), fun h => ?_⟩
      exact hf.apart i j hi hj (Ne.symm hji) y (hsub_mem y h) hyj
  have hrem_nodup : ∀ j, j < cnt → ((sh j).remove a).addrs.Nodup := by
    intro j hj
    by_cases hji : j = i
    · subst hji; exact hrem_nd
    · rw [Shape.remove_of_not_mem a _ (hf.apart i j hi hj (Ne.symm hji) a ha)]
      exact hf.nodup j hj
  -- the trees after the unlinking
  have hroots1 : ∀ j, j < cnt → ∃ root, load m1 j = .ok root ∧
      Rep m1 root.child ((sh j).remove a) := by
    intro j hj
    obtain ⟨rootj, hrootj, hrepj⟩ := hf.roots j hj
    rcases hxwhere with ⟨hxi, hch, hm⟩ | hx
    · subst hxi
      by_cases hji : j = x
      · subst hji
        rw [hrooti] at hcx
        cases hcx
        rw [hch] at hrepi
        obtain ⟨sc, nc, hshape⟩ := Rep_top hrepi
        rw [hshape] at hrepi
        obtain ⟨_, ca', hca', _, hnc⟩ := hrepi
        rw [hca] at hca'
        cases hca'
        refine ⟨{ rooti with child := ca.next },
          by rw [hm]; exact load_store_same _ (load_lt hrooti), ?_⟩
        rw [hshape]
        simp only [Shape.remove, if_true]
        apply Rep_frame _ hnc
        intro y hy'
        apply hother1
        intro hyj
        have : cnt ≤ y := hf.above j hj y (by rw [hshape]; simp [Shape.addrs, hy'])
        omega
      · have haj : a ∉ (sh j).addrs := hf.apart x j hi hj (Ne.symm hji) a ha
        rw [Shape.remove_of_not_mem a _ haj]
        refine ⟨rootj, by rw [hother1 j hji]; exact hrootj, ?_⟩
        apply Rep_frame _ hrepj
        intro y hy'
        apply hother1
        intro hyx
        have : cnt ≤ y := hf.above j hj y hy'
        omega
    · have hx_ge : cnt ≤ x := hf.above i hi x hx
      have hjx : j ≠ x := by omega
      refine ⟨rootj, by rw [hother1 j hjx]; exact hrootj, ?_⟩
      by_cases hji : j = i
      · subst hji
        have hlink' : (cx.child = some a ∧ m1 = store m x { cx with child := ca.next }) ∨
            (cx.next = some a ∧ m1 = store m x { cx with next := ca.next }) := by
          rcases hlink with ⟨_, h1, h2⟩ | ⟨_, h1, h2⟩
          · exact Or.inl ⟨h1, h2⟩
          · exact Or.inr ⟨h1, h2⟩
        exact Rep_unlink m1 hca hcx hlink' (sh j) rootj.child hrepj hndi hx
      · have haj : a ∉ (sh j).addrs := hf.apart i j hi hj (Ne.symm hji) a ha
        rw [Shape.remove_of_not_mem a _ haj]
        apply Rep_frame _ hrepj
        intro y hy'
        apply hother1
        intro hyx
        exact hf.apart i j hi hj (Ne.symm hji) x hx (hyx ▸ hy')
  -- the node is cut off and freed
  have ha_lt : a < m1.length := load_lt hca1
  have hother2 : ∀ y, y ≠ a →
      load (store m1 a { ca with next := none }) y = load m1 y := fun y hya =>
    load_store_ne _ (Ne.symm hya)
  have hrep2 : Rep (store m1 a { ca with next := none }) (some a)
      (.node a ((sh i).sub a) .nil) := by
    refine ⟨rfl, { ca with next := none }, load_store_same _ ha_lt, ?_, rfl⟩
    apply Rep_frame _ hrep_sub
    intro y hy'
    rw [hother2 y (fun h => ha_sub (h ▸ hy')), hother1 y (fun h => hx_sub (h ▸ hy'))]
  have hnd2 : (Shape.node a ((sh i).sub a) .nil).addrs.Nodup := by
    simp only [Shape.addrs, List.append_nil, List.nodup_cons]
    exact ⟨ha_sub, hsub_nd⟩
  obtain ⟨m3, hfree, hfreed⟩ := freeStorageListTree_spec hrep2 hnd2
  have hkeep3 : ∀ y, y ≠ a → y ∉ ((sh i).sub a).addrs → load m3 y = load m1 y := by
    intro y hya hys
    rw [hfreed.load_of_not_mem (by simp [Shape.addrs, hya, hys]), hother2 y hya]
  have hroot_keep : ∀ j, j < cnt → load m3 j = load m1 j := by
    intro j hj
    apply hkeep3
    · omega
    · intro hjs
      have := hf.above i hi j (hsub_mem j hjs)
      omega
  refine ⟨ca, cP, m1, _, m3, hca, by rw [hpar]; exact hP, by rw [hpar]; exact hun,
    modify_some _ hca1, hfree, ?_, hrem_nodup, ?_, ?_⟩
  · intro j hj
    obtain ⟨root, hroot, hrep⟩ := hroots1 j hj
    refine ⟨root, by rw [hroot_keep j hj]; exact hroot, ?_⟩
    apply Rep_frame _ hrep
    intro y hy'
    obtain ⟨_, h2, h3⟩ := hrem j hj y hy'
    exact hkeep3 y h2 h3
  · intro j hj y hy'
    obtain ⟨h1, h2, h3⟩ := hrem j hj y hy'
    refine ⟨h1, h2, ?_⟩
    rw [← hid1 y]
    simp only [idOf, hkeep3 y h2 h3]
  · intro j hj
    rw [← hid1 j]
    simp only [idOf, hroot_keep j hj]

theorem completeActiveEvent_of_free (K : Limits) (s : MTPDevice) (a : Nat) (m : Heap)
    (hdel : (s.pending_events_ s.pending_events_tail_).delete_node = true)
    (hnode : (s.pending_events_ s.pending_events_tail_).item_node = some a)
    (hfree : freeStorageListTree s.heap (some a) = .ok m) :
    ∃ s', completeActiveEvent K s = .ok s' ∧ s'.heap = m ∧
      s'.cnt_storages_ = s.cnt_storages_ := by
  by_cases hcb : s.peventCompeteCB_ = true
  · simp only [completeActiveEvent, hcb, if_true, hdel, hnode, Option.isSome_some, and_self,
      hfree]
    exact ⟨_, rfl, rfl, rfl⟩
  · have hcb' : s.peventCompeteCB_ = false := by simpa using hcb
    simp only [completeActiveEvent, hcb', Bool.false_eq_true, if_false, hdel, hnode,
      Option.isSome_some, and_self, if_true, hfree]
    exact ⟨_, rfl, rfl, rfl⟩

theorem completeActiveEvent_of_null (K : Limits) (s : MTPDevice)
    (hnode : (s.pending_events_ s.pending_events_tail_).item_node = none) :
    ∃ s', completeActiveEvent K s = .ok s' ∧ s'.heap = s.heap ∧
      s'.cnt_storages_ = s.cnt_storages_ := by
  by_cases hcb : s.peventCompeteCB_ = true
  · simp only [completeActiveEvent, hcb, if_true, hnode, Option.isSome_none, and_false,
      if_false, Bool.false_eq_true]
    exact ⟨_, rfl, rfl, rfl⟩
  · have hcb' : s.peventCompeteCB_ = false := by simpa using hcb
    simp only [completeActiveEvent, hcb', hnode, Option.isSome_none, and_false, if_false,
      Bool.false_eq_true]
    exact ⟨_, rfl, rfl, rfl⟩

/-- The handler of `ObjectRemoved` followed by the completion of the event:
both return, and afterwards the search for the handle finds nothing. -/
theorem removed_then_completed (K : Limits) (s : MTPDevice) (sh : Nat → Shape) (h : Nat)
    (hforest : Forest s.heap s.cnt_storages_ sh)
    (hev : (s.pending_events_ s.pending_events_tail_).id = h)
    (hroot : ∀ i, i < s.cnt_storages_ → idOf s.heap i ≠ h)
    (huniq : ∀ i j, i < s.cnt_storages_ → j < s.cnt_storages_ →
      ∀ a ∈ (sh i).addrs, ∀ b ∈ (sh j).addrs, idOf s.heap a = h → idOf s.heap b = h → a = b) :
    ∃ s1 s2, process_object_removed_event s s.pending_events_tail_ = .ok (s1, true) ∧
      completeActiveEvent K { s1 with pending_events_active_ := true } = .ok s2 ∧
      findStorageItemByID s2 h = .ok none := by
  rcases findStorageItemByIDLoop_spec (h := h) hforest.roots hforest.nodup hroot
      s.cnt_storages_ 0 (by omega) with ⟨a, i, hfind, hi, ha, hida⟩ | ⟨hfind, _⟩
  · obtain ⟨ca, pn, m1, m2, m3, hca, hderef, hun, hmod, hfree, hroots3, hnd3, hrem3, hrootid3⟩ :=
      forest_after_removal hforest hi ha
    have hproc : process_object_removed_event s s.pending_events_tail_
        = .ok ({ s with
            pending_events_ := setAt s.pending_events_ s.pending_events_tail_
              { s.pending_events_ s.pending_events_tail_ with
                item_node := some a, delete_node := true },
            heap := m2 }, true) := by
      simp only [process_object_removed_event, findStorageItemByID, hev, hfind, hca, hderef,
        hun, hmod]
    obtain ⟨s2, hcomp, hheap2, hcnt2⟩ := completeActiveEvent_of_free K
      { ({ s with
          pending_events_ := setAt s.pending_events_ s.pending_events_tail_
            { s.pending_events_ s.pending_events_tail_ with
              item_node := some a, delete_node := true },
          heap := m2 } : MTPDevice) with pending_events_active_ := true } a m3
      (by simp [setAt]) (by simp [setAt]) hfree
    refine ⟨_, s2, hproc, hcomp, ?_⟩
    have hcnt : s2.cnt_storages_ = s.cnt_storages_ := hcnt2
    have hroots' : ∀ j, j < s.cnt_storages_ → ∃ root, load s2.heap j = .ok root ∧
        Rep s2.heap root.child ((sh j).remove a) := by
      rw [hheap2]; exact hroots3
    have hrootid' : ∀ j, j < s.cnt_storages_ → idOf s2.heap j ≠ h := by
      intro j hj
      rw [hheap2, hrootid3 j hj]
      exact hroot j hj
    rcases findStorageItemByIDLoop_spec (h := h) hroots' hnd3 hrootid'
        s.cnt_storages_ 0 (by omega) with ⟨b, j, _, hj, hb, hidb⟩ | ⟨hnone, _⟩
    · exfalso
      rw [hheap2] at hidb
      obtain ⟨hb1, hb2, hb3⟩ := hrem3 j hj b hb
      rw [hb3] at hidb
      exact hb2 (huniq j i hj hi b hb1 a ha hidb hida)
    · simp only [findStorageItemByID, hcnt]
      exact hnone
  · have hproc : process_object_removed_event s s.pending_events_tail_
        = .ok ({ s with
            pending_events_ := setAt s.pending_events_ s.pending_events_tail_
              { s.pending_events_ s.pending_events_tail_ with
                item_node := none, delete_node := true } }, true) := by
      simp only [process_object_removed_event, findStorageItemByID, hev, hfind]
    obtain ⟨s2, hcomp, hheap2, hcnt2⟩ := completeActiveEvent_of_null K
      { ({ s with
          pending_events_ := setAt s.pending_events_ s.pending_events_tail_
            { s.pending_events_ s.pending_events_tail_ with
              item_node := none, delete_node := true } } : MTPDevice) with
        pending_events_active_ := true } (by simp [setAt])
    refine ⟨_, s2, hproc, hcomp, ?_⟩
    have hcnt : s2.cnt_storages_ = s.cnt_storages_ := hcnt2
    have hheap : s2.heap = s.heap := hheap2
    simp only [findStorageItemByID, hcnt, hheap]
    exact hfind

/-- C4 (as amended): for a well-formed storage forest (trees of distinct
nodes with consistent parent pointers) in which the handle `h` is the id of
at most one node and of no storage root, an `ObjectRemoved(h)` event that is
the one pending event of the ring is processed to the end by
`start_process_next_event`: the handler runs, the callback is called with
the event (when one is installed), the tail is advanced to the head, and
afterwards `findStorageItemByID(h)` returns and finds nothing. -/
theorem objectRemoved_then_not_found (K : Limits) (s : MTPDevice) (sh : Nat → Shape) (h : Nat)
    (hK : 0 < K.MAX_PENDING_EVENTS)
    (hforest : Forest s.heap s.cnt_storages_ sh)
    (hcode : (s.pending_events_ s.pending_events_tail_).event = MTP_EVENT_OBJECT_REMOVED)
    (hev : (s.pending_events_ s.pending_events_tail_).id = h)
    (hne : s.pending_events_head_ ≠ s.pending_events_tail_)
    (hone : s.pending_events_head_ =
      if s.pending_events_tail_ + 1 = K.MAX_PENDING_EVENTS then 0
      else s.pending_events_tail_ + 1)
    (hroot : ∀ i, i < s.cnt_storages_ → idOf s.heap i ≠ h)
    (huniq : ∀ i j, i < s.cnt_storages_ → j < s.cnt_storages_ →
      ∀ a ∈ (sh i).addrs, ∀ b ∈ (sh j).addrs, idOf s.heap a = h → idOf s.heap b = h → a = b) :
    ∃ s', start_process_next_event K s = .ok s' ∧
      findStorageItemByID s' h = .ok none ∧
      s'.pending_events_tail_ = s.pending_events_head_ ∧
      (s.peventCompeteCB_ = true →
        s'.delivered.map slotKey = s.delivered.map slotKey ++
          [(MTP_EVENT_OBJECT_REMOVED, h, (s.pending_events_ s.pending_events_tail_).prop_code)]) := by
  obtain ⟨s1, s2, hproc, hcomp, hfind⟩ := removed_then_completed K s sh h hforest hev hroot huniq
  obtain ⟨⟨f1, f2, _, f4, f5, f6⟩, _, _⟩ := process_object_removed_event_frame s s1 _ true hproc
  obtain ⟨c1, c2, _, c4, _, _, _⟩ := completeActiveEvent_spec K _ s2 hcomp
  have htail : s2.pending_events_tail_ = s.pending_events_head_ := by
    rw [c2, hone]
    show (if s1.pending_events_tail_ + 1 = K.MAX_PENDING_EVENTS then 0
      else s1.pending_events_tail_ + 1) = _
    rw [f2]
  have hhead : s2.pending_events_head_ = s.pending_events_head_ := by
    rw [c1]; exact f1
  refine ⟨s2, ?_, hfind, htail, ?_⟩
  · obtain ⟨n, hn⟩ : ∃ n, K.MAX_PENDING_EVENTS = n + 1 := ⟨K.MAX_PENDING_EVENTS - 1, by omega⟩
    have hna : (s.pending_events_ s.pending_events_tail_).event ≠ MTP_EVENT_OBJECT_ADDED := by
      rw [hcode]; decide
    have hdone : start_process_next_eventAux K (n + 1) s2 = .ok s2 := by
      simp only [start_process_next_eventAux, hhead, htail, if_true]
    simp only [start_process_next_event, hn, start_process_next_eventAux, if_neg hne, if_neg hna,
      if_pos hcode, hproc, if_true, hcomp]
    exact hdone
  · intro hcb
    have hcb1 : ({ s1 with pending_events_active_ := true } : MTPDevice).peventCompeteCB_
        = true := by
      show s1.peventCompeteCB_ = true
      rw [f5]; exact hcb
    rw [c4, if_pos hcb1]
    show (s1.delivered ++ [s1.pending_events_ s1.pending_events_tail_]).map slotKey = _
    rw [List.map_append, f4, f2, List.map_singleton, f6, slotKey, hcode, hev]

/-- Witness for C4: the storage root has the children 5 and 6 and the ring
holds the one event `ObjectRemoved(5)`. -/
theorem objectRemoved_then_not_found_witness :
    findStorageItemByID removalPending 5 = .ok (some 2) ∧
    ∃ s', start_process_next_event demoLimits removalPending = .ok s' ∧
      findStorageItemByID s' 5 = .ok none ∧
      s'.pending_events_tail_ = removalPending.pending_events_head_ :=
  ⟨rfl,
   match objectRemoved_then_not_found demoLimits removalPending twoChildrenShape 5 (by decide)
     { roots := fun i hi => by
         have h0 : i = 0 := Nat.lt_one_iff.mp hi
         subst h0
         exact ⟨_, rfl, rfl, _, rfl, rfl, rfl, _, rfl, rfl, rfl⟩
       parents := fun i hi => by
         have h0 : i = 0 := Nat.lt_one_iff.mp hi
         subst h0
         exact ⟨⟨_, rfl, rfl⟩, trivial, ⟨_, rfl, rfl⟩, trivial, trivial⟩
       nodup := fun i hi => by
         have h0 : i = 0 := Nat.lt_one_iff.mp hi
         subst h0
         decide
       above := fun i hi => by
         have h0 : i = 0 := Nat.lt_one_iff.mp hi
         subst h0
         decide
       apart := fun i j hi hj hij => by
         have h0 : i = 0 := Nat.lt_one_iff.mp hi
         have h1 : j = 0 := Nat.lt_one_iff.mp hj
         exact absurd (h0.trans h1.symm) hij }
     (by decide) (by decide) (by decide) (by decide)
     (fun i hi => by
       have h0 : i = 0 := Nat.lt_one_iff.mp hi
       subst h0
       decide)
     (fun i j hi hj => by
       have h0 : i = 0 := Nat.lt_one_iff.mp hi
       have h1 : j = 0 := Nat.lt_one_iff.mp hj
       subst h0
       subst h1
       decide) with
   | ⟨s', h1, h2, h3, _⟩ => ⟨s', h1, h2, h3⟩⟩

/-- C4 fails as stated.  In the reachable forest where the storage root has
two children with the handle 5 (addresses 2 and 3), an `ObjectRemoved(5)`
event is processed to the end (callback called, tail advanced to the head)
and removes the node at address 2 only: `findStorageItemByID(5)` then finds
the node at address 3.  And for the handle of a storage root the handler
reads `node->parent`, which is null: the run faults. -/
theorem objectRemoved_then_not_found_counterexample :
    run demoLimits demoInitial duplicateRemoved
      = .ok (stateAfter demoLimits demoInitial duplicateRemoved) ∧
    (stateAfter demoLimits demoInitial duplicateRemoved).pending_events_tail_
      = (stateAfter demoLimits demoInitial duplicateRemoved).pending_events_head_ ∧
    (stateAfter demoLimits demoInitial duplicateRemoved).delivered.map slotKey
      = [(MTP_EVENT_OBJECT_REMOVED, 5, 0)] ∧
    findStorageItemByID (stateAfter demoLimits demoInitial duplicateRemoved) 5
      = .ok (some 3) ∧
    run demoLimits demoInitial rootRemoved = .error .nullDeref :=
  ⟨rfl, by decide, by decide, rfl, rfl⟩


theorem read16_write16 (v : Nat) (rest : List Nat) (hv : v < 65536) :
    read16 (write16 v ++ rest) = (v, rest) := by
  simp only [read16, write16, byteAt, List.cons_append, List.nil_append, List.getD_cons_zero,
    List.getD_cons_succ, List.drop_succ_cons, List.drop_zero, Nat.mod_mod, Prod.mk.injEq,
    and_true]
  omega

theorem writeBytesLE_length : ∀ (n v : Nat), (writeBytesLE n v).length = n := by
  intro n
  induction n with
  | zero => intro v; rfl
  | succ n ih => intro v; simp [writeBytesLE, ih]

theorem readBytesLE_writeBytesLE : ∀ (n v : Nat) (rest : List Nat),
    readBytesLE n (writeBytesLE n v ++ rest) = v % 256 ^ n := by
  intro n
  induction n with
  | zero => intro v rest; simp [readBytesLE, Nat.mod_one]
  | succ n ih =>
    intro v rest
    simp only [readBytesLE, writeBytesLE, List.cons_append, byteAt, List.getD_cons_zero,
      Nat.mod_mod, List.drop_succ_cons, List.drop_zero, ih]
    rw [Nat.pow_succ, Nat.mul_comm (256 ^ n) 256, Nat.mod_mul]

theorem read64_write64 (v : Nat) (rest : List Nat) (hv : v < 18446744073709551616) :
    read64 (write64 v ++ rest) = (v, rest) := by
  simp only [read64, write64, readBytesLE_writeBytesLE]
  refine Prod.ext ?_ ?_
  · exact Nat.mod_eq_of_lt (by simpa using hv)
  · simp only
    rw [List.drop_left' (writeBytesLE_length 8 v)]

theorem WriteCursor.emit_drop (w : WriteCursor) (bytes : List Nat) (hpos : w.pos ≤ w.buf.length) :
    (w.emit bytes).buf.drop w.pos = bytes ++ w.buf.drop (w.pos + bytes.length) := by
  simp only [WriteCursor.emit, List.append_assoc]
  rw [List.drop_left' (by simp [hpos])]

/-- C11: the scalar codec at a write cursor inside its buffer.  `write16`,
`write32` and `write64` store the value at the cursor and advance it by 2, 4
and 8 bytes, and the read of the same width at that position returns the
value and the position 2, 4 and 8 bytes on; `read8` returns the byte at the
cursor and advances by 1.  `write8` stores nothing and leaves the cursor
where it is. -/
theorem scalar_codec (w : WriteCursor) (v : Nat) (hpos : w.pos ≤ w.buf.length) :
    w.emit (write8 v) = w ∧
    (∀ rest, v < 256 → read8 (v :: rest) = (v, rest)) ∧
    (v < 65536 → (w.emit (write16 v)).pos = w.pos + 2 ∧
      read16 ((w.emit (write16 v)).buf.drop w.pos)
        = (v, (w.emit (write16 v)).buf.drop (w.pos + 2))) ∧
    (v < 4294967296 → (w.emit (write32 v)).pos = w.pos + 4 ∧
      read32 ((w.emit (write32 v)).buf.drop w.pos)
        = (v, (w.emit (write32 v)).buf.drop (w.pos + 4))) ∧
    (v < 18446744073709551616 → (w.emit (write64 v)).pos = w.pos + 8 ∧
      read64 ((w.emit (write64 v)).buf.drop w.pos)
        = (v, (w.emit (write64 v)).buf.drop (w.pos + 8))) := by
  have hafter : ∀ bytes : List Nat, (w.emit bytes).buf.drop (w.pos + bytes.length)
      = w.buf.drop (w.pos + bytes.length) := by
    intro bytes
    simp only [WriteCursor.emit]
    rw [List.drop_left' (by simp [hpos])]
  refine ⟨?_, ?_, ?_, ?_, ?_⟩
  · cases w with
    | mk buf pos =>
      simp only [WriteCursor.emit, write8, List.append_nil, List.length_nil, Nat.add_zero,
        List.take_append_drop]
  · intro rest hv
    simp [read8, byteAt, Nat.mod_eq_of_lt hv]
  · intro hv
    refine ⟨rfl, ?_⟩
    rw [w.emit_drop _ hpos, read16_write16 v _ hv]
    exact congrArg _ (hafter (write16 v)).symm
  · intro hv
    refine ⟨rfl, ?_⟩
    rw [w.emit_drop _ hpos, read32_write32 v _ hv]
    exact congrArg _ (hafter (write32 v)).symm
  · intro hv
    have hlen : (write64 v).length = 8 := writeBytesLE_length 8 v
    refine ⟨by simp only [WriteCursor.emit, hlen], ?_⟩
    rw [w.emit_drop _ hpos, read64_write64 v _ hv]
    have := hafter (write64 v)
    rw [hlen] at this
    rw [hlen, this]

/-- Witness for C11: the value 0x41 at offset 1 of a ten-byte buffer. -/
theorem scalar_codec_witness :
    (WriteCursor.mk [9, 9, 9, 9, 9, 9, 9, 9, 9, 9] 1).emit (write8 65)
      = WriteCursor.mk [9, 9, 9, 9, 9, 9, 9, 9, 9, 9] 1 ∧
    (read8 (((WriteCursor.mk [9, 9, 9, 9, 9, 9, 9, 9, 9, 9] 1).emit (write8 65)).buf.drop 1)).1
      = 9 ∧
    ((WriteCursor.mk [9, 9, 9, 9, 9, 9, 9, 9, 9, 9] 1).emit (write16 65)).buf
      = [9, 65, 0, 9, 9, 9, 9, 9, 9, 9] :=
  ⟨(scalar_codec (WriteCursor.mk [9, 9, 9, 9, 9, 9, 9, 9, 9, 9] 1) 65 (by decide)).1,
    by decide, by decide⟩


theorem containerBytes_drop (len type op tid : Nat) (body : List Nat) :
    (containerBytes len type op tid body).drop 12 = body := by
  simp [containerBytes, write32, write16]

theorem containerBytes_len (len type op tid : Nat) (body : List Nat) (h : len < 4294967296) :
    MTPContainer.len (containerBytes len type op tid body) = len := by
  simp only [MTPContainer.len, containerBytes, List.append_assoc]
  rw [read32_write32 _ _ h]

theorem containerBytes_type (len type op tid : Nat) (body : List Nat) (h : type < 65536) :
    MTPContainer.type (containerBytes len type op tid body) = type := by
  have : (containerBytes len type op tid body).drop 4
      = write16 type ++ (write16 op ++ write32 tid ++ body) := by
    simp [containerBytes, write32, write16]
  simp only [MTPContainer.type, this]
  rw [read16_write16 _ _ h]

theorem containerBytes_op (len type op tid : Nat) (body : List Nat) (h : op < 65536) :
    MTPContainer.op (containerBytes len type op tid body) = op := by
  have : (containerBytes len type op tid body).drop 6
      = write16 op ++ (write32 tid ++ body) := by
    simp [containerBytes, write32, write16]
  simp only [MTPContainer.op, this]
  rw [read16_write16 _ _ h]

theorem containerBytes_transaction_id (len type op tid : Nat) (body : List Nat)
    (h : tid < 4294967296) :
    MTPContainer.transaction_id (containerBytes len type op tid body) = tid := by
  have : (containerBytes len type op tid body).drop 8 = write32 tid ++ body := by
    simp [containerBytes, write32, write16]
  simp only [MTPContainer.transaction_id, this]
  rw [read32_write32 _ _ h]

theorem containerBytes_length (len type op tid : Nat) (body : List Nat) :
    (containerBytes len type op tid body).length = 12 + body.length := by
  simp [containerBytes, write32, write16]
  omega

theorem processGetObjectHandles_ids (s : MTPDevice) (e : Nat) (en : storage_list_t)
    (kids : Kids) (hs header rest : List Nat)
    (henum : s.enum_node_ = some e) (hen : load s.heap e = .ok en)
    (hrep : Rep s.heap en.child (spine kids)) (hnd : (e :: (spine kids).addrs).Nodup)
    (hheader : header.length = 12) (hcount : hs.length < 4294967296)
    (hhs : ∀ h ∈ hs, h < 4294967296) (halloc : ∀ b ∈ s.malloc_outcomes, b = true) :
    ∃ s' l, processGetObjectHandles s (header ++ handlesPayload hs ++ rest) = .ok s' ∧
      children s'.heap e = .ok l ∧ l.map (idOf s'.heap) = hs := by
  obtain ⟨m1, m2, en', outcomes, hrun, _, _, hen', hchain, _, hnd', hids, _, _⟩ :=
    processGetObjectHandles_spec s e en kids hs header rest henum hen hrep hnd hheader hcount
      hhs halloc
  have hparts := hnd'
  simp only [List.nodup_cons, List.mem_append, not_or, List.nodup_append] at hparts
  exact ⟨_, _, hrun, children_of_chain hen' hchain (nodup_tops_of_nodup_addrs _ hparts.2.2.1),
    hids⟩

theorem rx_data_getObjectHandles (K : Limits) (s : MTPDevice) (len : Nat) (c : List Nat)
    (hlen : 0 < len) (htype : MTPContainer.type c = MTP_CONTAINER_TYPE_DATA)
    (hop : MTPContainer.op c = MTP_OPERATION_GET_OBJECT_HANDLES) :
    rx_data K s len c = processGetObjectHandles s c := by
  simp [rx_data, hlen, htype, processMTPData, hop, MTP_OPERATION_GET_OBJECT_HANDLES,
    MTP_OPERATION_GET_DEVICE_INFO, MTP_OPERATION_GET_DEVICE_PROP_DESC,
    MTP_OPERATION_GET_STORAGE_IDS, MTP_OPERATION_GET_STORAGE_INFO,
    MTP_OPERATION_GET_OBJECT_PROPS_SUPPORTED, MTP_OPERATION_GET_OBJECT_PROP_DESC]

/-- C12 (as amended): no codec read is checked against the end of the
container's data region.  A `GetObjectHandles` data container for a
well-formed target whose length field and received byte count end after the
handles `present`, while its count field announces the handles `present ++
beyond`, is not rejected: the handles `beyond` are read from the bytes that
follow the container in the receive buffer, and the target's children are
rebuilt with the ids `present ++ beyond`. -/
theorem reads_past_container_end (K : Limits) (s : MTPDevice) (e : Nat) (en : storage_list_t)
    (kids : Kids) (present beyond rest : List Nat) (tid : Nat)
    (henum : s.enum_node_ = some e) (hen : load s.heap e = .ok en)
    (hrep : Rep s.heap en.child (spine kids)) (hnd : (e :: (spine kids).addrs).Nodup)
    (hcount : (present ++ beyond).length < 1073741820)
    (hhs : ∀ h ∈ present ++ beyond, h < 4294967296)
    (halloc : ∀ b ∈ s.malloc_outcomes, b = true) :
    MTPContainer.len (containerBytes (16 + 4 * present.length) MTP_CONTAINER_TYPE_DATA
        MTP_OPERATION_GET_OBJECT_HANDLES tid
        (handlesPayload (present ++ beyond) ++ rest)) = 16 + 4 * present.length ∧
    ∃ s' l, rx_data K s (16 + 4 * present.length)
        (containerBytes (16 + 4 * present.length) MTP_CONTAINER_TYPE_DATA
          MTP_OPERATION_GET_OBJECT_HANDLES tid
          (handlesPayload (present ++ beyond) ++ rest)) = .ok s' ∧
      children s'.heap e = .ok l ∧ l.map (idOf s'.heap) = present ++ beyond := by
  have hplen : 16 + 4 * present.length < 4294967296 := by
    simp only [List.length_append] at hcount
    omega
  refine ⟨containerBytes_len _ _ _ _ _ hplen, ?_⟩
  rw [rx_data_getObjectHandles K s _ _ (by omega)
    (containerBytes_type _ _ _ _ _ (by decide)) (containerBytes_op _ _ _ _ _ (by decide))]
  have hshape : containerBytes (16 + 4 * present.length) MTP_CONTAINER_TYPE_DATA
      MTP_OPERATION_GET_OBJECT_HANDLES tid (handlesPayload (present ++ beyond) ++ rest)
      = (write32 (16 + 4 * present.length) ++ write16 MTP_CONTAINER_TYPE_DATA
          ++ write16 MTP_OPERATION_GET_OBJECT_HANDLES ++ write32 tid)
        ++ handlesPayload (present ++ beyond) ++ rest := by
    simp only [containerBytes, List.append_assoc]
  rw [hshape]
  exact processGetObjectHandles_ids s e en kids (present ++ beyond) _ rest henum hen hrep hnd
    (by simp [write32, write16]) (by omega) hhs halloc

/-- Witness for C12: the target has the children 5 and 6; the container holds
the count 2 and the handle 5, and the handle 9 follows it in the buffer. -/
theorem reads_past_container_end_witness :
    ∃ s' l, rx_data demoLimits twoChildren 20
        (containerBytes 20 MTP_CONTAINER_TYPE_DATA MTP_OPERATION_GET_OBJECT_HANDLES 0
          (handlesPayload ([5] ++ [9]) ++ [])) = .ok s' ∧
      children s'.heap 0 = .ok l ∧ l.map (idOf s'.heap) = [5] ++ [9] :=
  (reads_past_container_end demoLimits twoChildren 0 _ [(2, Shape.nil), (3, Shape.nil)]
    [5] [9] [] 0 (by decide) rfl ⟨rfl, _, rfl, rfl, rfl, _, rfl, rfl, rfl⟩ (by decide)
    (by decide) (by decide) (by decide)).2

/-- C12 fails as stated: a `GetObjectHandles` data container of 20 bytes
whose count field is 2 but which holds the single handle 5 is processed and
changes the tree: the child 6 is freed and a child with the id 0, read past
the end of the container, is created. -/
theorem reads_past_container_end_counterexample :
    children twoChildren.heap 0 = .ok [2, 3] ∧
    [2, 3].map (idOf twoChildren.heap) = [5, 6] ∧
    MTPContainer.len (dataContainer MTP_OPERATION_GET_OBJECT_HANDLES (write32 2 ++ write32 5))
      = 20 ∧
    (dataContainer MTP_OPERATION_GET_OBJECT_HANDLES (write32 2 ++ write32 5)).length = 20 ∧
    ∃ s', rx_data demoLimits twoChildren 20
        (dataContainer MTP_OPERATION_GET_OBJECT_HANDLES (write32 2 ++ write32 5)) = .ok s' ∧
      children s'.heap 0 = .ok [2, 4] ∧
      [2, 4].map (idOf s'.heap) = [5, 0] ∧
      load s'.heap 3 = .error .deadPointer :=
  ⟨rfl, by decide, by decide, by decide, _, rfl, rfl, by decide, rfl⟩


theorem drop_of_drop_four {c c' : List Nat} (h : c.drop 4 = c'.drop 4) (k : Nat) :
    c.drop (4 + k) = c'.drop (4 + k) := by
  rw [← List.drop_drop, ← List.drop_drop, h]

theorem processMTPData_congr (K : Limits) (s : MTPDevice) {c c' : List Nat}
    (h6 : c.drop 6 = c'.drop 6) (h12 : c.drop 12 = c'.drop 12) :
    processMTPData K s c = processMTPData K s c' := by
  simp only [processMTPData, MTPContainer.op, h6, processDescriptorData, processDevicePropDesc,
    processGetStorageIDs, processGetStoreInfo, processObjectPropsSupported,
    processGetObjectHandles, processGetObjectPropValue, h12]

theorem processMTPResponse_congr (K : Limits) (s : MTPDevice) {c c' : List Nat}
    (h6 : c.drop 6 = c'.drop 6) (h20 : c.drop (12 + 4 * 2) = c'.drop (12 + 4 * 2)) :
    processMTPResponse K s c = processMTPResponse K s c' := by
  simp only [processMTPResponse, responseOK, MTPContainer.op, MTPContainer.params, h6, h20]

/-- C13 (as amended): `rx_data` does not validate the length field.  Whenever
at least one byte was received, the container is dispatched by its type field
and processed from its bytes after the length field: neither the length field
(the first four bytes) nor the number of bytes received has any influence on
the outcome. -/
theorem rx_data_ignores_length (K : Limits) (s : MTPDevice) (len len' : Nat) (c c' : List Nat)
    (hlen : 0 < len) (hlen' : 0 < len') (hrest : c.drop 4 = c'.drop 4) :
    rx_data K s len c = rx_data K s len' c' := by
  have h6 := drop_of_drop_four hrest 2
  have h12 := drop_of_drop_four hrest 8
  have h20 := drop_of_drop_four hrest 16
  simp only [rx_data, hlen, hlen', if_true, MTPContainer.type, hrest]
  rw [processMTPData_congr K s h6 h12, processMTPResponse_congr K s h6 h20]

/-- Witness for C13: an OK response with the length field 0 and one with the
length field 12 have the same effect. -/
theorem rx_data_ignores_length_witness :
    rx_data demoLimits demoClaimed 12 (containerBytes 0 MTP_CONTAINER_TYPE_RESPONSE
        MTP_RESPONSE_OK 0 [])
      = rx_data demoLimits demoClaimed 12 (containerBytes 12 MTP_CONTAINER_TYPE_RESPONSE
        MTP_RESPONSE_OK 0 []) :=
  rx_data_ignores_length demoLimits demoClaimed 12 12 _ _ (by decide) (by decide) (by decide)

/-- C13 fails as stated: after `claim`, a Response container whose length
field is 0 (smaller than 12), and one whose length field is 4096 while 12
bytes were received, are dispatched to `processMTPResponse` and change the
state: `last_response_` and `session_id_` are set and the `OpenSession`
command is queued. -/
theorem rx_data_ignores_length_counterexample :
    MTPContainer.len (containerBytes 0 MTP_CONTAINER_TYPE_RESPONSE MTP_RESPONSE_OK 0 []) = 0 ∧
    demoClaimed.bulk_out.length = 1 ∧ demoClaimed.session_id_ = 0 ∧
    (∃ s', rx_data demoLimits demoClaimed 12
        (containerBytes 0 MTP_CONTAINER_TYPE_RESPONSE MTP_RESPONSE_OK 0 []) = .ok s' ∧
      s'.bulk_out.length = 2 ∧ s'.session_id_ = 42 ∧ s'.last_response_ = MTP_RESPONSE_OK) ∧
    MTPContainer.len (containerBytes 4096 MTP_CONTAINER_TYPE_RESPONSE MTP_RESPONSE_OK 0 [])
      = 4096 ∧
    (∃ s', rx_data demoLimits demoClaimed 12
        (containerBytes 4096 MTP_CONTAINER_TYPE_RESPONSE MTP_RESPONSE_OK 0 []) = .ok s' ∧
      s'.bulk_out.length = 2 ∧ s'.session_id_ = 42) :=
  ⟨by decide, by decide, by decide, ⟨_, rfl, by decide, by decide, by decide⟩, by decide,
    ⟨_, rfl, by decide, by decide⟩⟩


theorem sendMsg_command (s : MTPDevice) (op : Nat) (params : List Nat) :
    (sendMsg s op params).bulk_out = s.bulk_out ++
      [containerBytes (12 + 4 * params.length) MTP_CONTAINER_TYPE_COMMAND op s.transaction_id_
        (params.flatMap write32)] := by
  have hlen : (params.flatMap write32).length = 4 * params.length := by
    induction params with
    | nil => rfl
    | cons p ps ih => simp [List.flatMap_cons, write32, ih]; omega
  simp only [sendMsg]
  rw [List.take_of_length_le (by rw [containerBytes_length, hlen])]

theorem containerBytes_params_zero (len type op tid p : Nat) (rest : List Nat)
    (h : p < 4294967296) :
    MTPContainer.params (containerBytes len type op tid (write32 p ++ rest)) 0 = p := by
  simp only [MTPContainer.params, Nat.mul_zero, Nat.add_zero, containerBytes_drop,
    read32_write32 _ _ h]

/-- C15: when a response with the code OK is processed while `last_mtp_op_`
is `GetDeviceInfo`, `session_id_` becomes 42 and exactly one container is
queued on bulk-out: a command of 16 bytes with length field 16, type 1
(Command), code 0x1002 (`OpenSession`) and first parameter 42. -/
theorem getDeviceInfo_ok_opens_session (K : Limits) (s : MTPDevice) (c : List Nat)
    (hop : MTPContainer.op c = MTP_RESPONSE_OK)
    (hlast : s.last_mtp_op_ = MTP_OPERATION_GET_DEVICE_INFO) :
    ∃ s' cmd, processMTPResponse K s c = .ok s' ∧ s'.session_id_ = 42 ∧
      s'.bulk_out = s.bulk_out ++ [cmd] ∧ cmd.length = 16 ∧
      MTPContainer.len cmd = 16 ∧ MTPContainer.type cmd = 1 ∧
      MTPContainer.op cmd = 0x1002 ∧ MTPContainer.params cmd 0 = 42 := by
  refine ⟨sendMsg { s with last_response_ := MTPContainer.op c, session_id_ := 42 }
    MTP_OPERATION_OPEN_SESSION [42], _, ?_, rfl, sendMsg_command _ _ _, ?_, ?_, ?_, ?_, ?_⟩
  · simp only [processMTPResponse, hop, if_true, responseOK, hlast]
  · rw [containerBytes_length]; rfl
  · exact containerBytes_len _ _ _ _ _ (by decide)
  · exact containerBytes_type _ _ _ _ _ (by decide)
  · exact containerBytes_op _ _ _ _ _ (by decide)
  · exact containerBytes_params_zero _ _ _ _ 42 [] (by decide)

/-- Witness for C15: the OK response to the `GetDeviceInfo` command queued by
`claim`. -/
theorem getDeviceInfo_ok_opens_session_witness :
    demoClaimed.last_mtp_op_ = MTP_OPERATION_GET_DEVICE_INFO ∧
    ∃ s' cmd, processMTPResponse demoLimits demoClaimed (responseContainer MTP_RESPONSE_OK)
        = .ok s' ∧ s'.session_id_ = 42 ∧
      s'.bulk_out = demoClaimed.bulk_out ++ [cmd] ∧ cmd.length = 16 ∧
      MTPContainer.len cmd = 16 ∧ MTPContainer.type cmd = 1 ∧
      MTPContainer.op cmd = 0x1002 ∧ MTPContainer.params cmd 0 = 42 :=
  ⟨by decide, getDeviceInfo_ok_opens_session demoLimits demoClaimed
    (responseContainer MTP_RESPONSE_OK) (by decide) (by decide)⟩

/-- C17: a response whose code is not OK only sets `last_response_` to that
code: the state is otherwise the same, so no command is queued and the
forest, the session tables, the enumeration cursor, `transaction_id_` and the
event ring are as before. -/
theorem non_ok_response_recorded (K : Limits) (s : MTPDevice) (c : List Nat)
    (hop : MTPContainer.op c ≠ MTP_RESPONSE_OK) :
    processMTPResponse K s c = .ok { s with last_response_ := MTPContainer.op c } := by
  simp only [processMTPResponse, hop, if_false]

/-- Witness for C17: the response `0x2002` (general error) to the
`GetDeviceInfo` command. -/
theorem non_ok_response_recorded_witness :
    processMTPResponse demoLimits demoClaimed (responseContainer 0x2002)
      = .ok { demoClaimed with last_response_ := 0x2002 } :=
  non_ok_response_recorded demoLimits demoClaimed (responseContainer 0x2002) (by decide)

/-- C19 at concrete runs: `disconnect` leaves `transaction_id_`,
`last_mtp_op_` and the event ring as they are.  After a detach in the middle
of the cascade `transaction_id_` is 1 and `last_mtp_op_` is
`GetDevicePropDesc`, and a later OK response queues a `GetStorageIDs`
command; after a detach with an event in progress the ring still holds the
event (head 1, tail 0) and `pending_events_active_` is set. -/
theorem disconnect_keeps_transaction_state :
    (stateAfter demoLimits demoInitial detachInCascade).transaction_id_ = 1 ∧
    (stateAfter demoLimits demoInitial detachInCascade).last_mtp_op_
      = MTP_OPERATION_GET_DEVICE_PROP_DESC ∧
    (stateAfter demoLimits demoInitial detachInCascade).bulk_out.length = 3 ∧
    (stateAfter demoLimits demoInitial (detachInCascade ++ [okResponse])).bulk_out.length = 4 ∧
    (stateAfter demoLimits demoInitial (detachInCascade ++ [okResponse])).bulk_out.getLast?.map
      MTPContainer.op = some MTP_OPERATION_GET_STORAGE_IDS ∧
    (stateAfter demoLimits demoInitial detachWithEvent).pending_events_head_ = 1 ∧
    (stateAfter demoLimits demoInitial detachWithEvent).pending_events_tail_ = 0 ∧
    (stateAfter demoLimits demoInitial detachWithEvent).pending_events_active_ = true ∧
    (stateAfter demoLimits demoInitial detachWithEvent).transaction_id_ = 2 := by
  refine ⟨by decide, by decide, by decide, by decide, by decide, by decide, by decide,
    by decide, by decide⟩

theorem SameTid.id (s : MTPDevice) : SameTid s s := ⟨rfl, rfl, rfl⟩

theorem TidInv.transfer {s s' : MTPDevice} (h : TidInv s) (hs : SameTid s s') : TidInv s' := by
  obtain ⟨h1, h2, h3⟩ := hs
  unfold TidInv
  rw [h1, h2, h3]
  exact h

theorem TidFresh.carry {s s' : MTPDevice} (h : TidFresh s) (hs : SameTid s s') :
    TidFresh s' := by
  obtain ⟨h1, h2, h3⟩ := hs
  unfold TidFresh
  rw [h1, h2, h3]
  exact h

theorem TidInv.next {s : MTPDevice} (h : TidInv s) : TidFresh (nextTransaction s) := by
  obtain ⟨h1, h2⟩ := h
  refine ⟨?_, fun hlt => ?_⟩
  · show (s.transaction_id_ + 1) % 4294967296 = (s.increments + 1) % 4294967296
    rw [h1]
    omega
  · have hlt' : s.increments + 1 < 4294967296 := hlt
    obtain ⟨hc, hle⟩ := h2 (by omega)
    refine ⟨hc, fun c hc' => ?_⟩
    have := hle c hc'
    show _ < s.increments + 1
    omega

theorem TidFresh.weaken {s : MTPDevice} (h : TidFresh s) : TidInv s :=
  ⟨h.1, fun hlt => ⟨(h.2 hlt).1, fun c hc => Nat.le_of_lt ((h.2 hlt).2 c hc)⟩⟩

theorem sendMsg_commands (s : MTPDevice) (op : Nat) (params : List Nat) :
    (sendMsg s op params).commands = s.commands ++
      [containerBytes (12 + 4 * params.length) MTP_CONTAINER_TYPE_COMMAND op s.transaction_id_
        (params.flatMap write32)] := by
  have hlen : (params.flatMap write32).length = 4 * params.length := by
    induction params with
    | nil => rfl
    | cons p ps ih => simp [List.flatMap_cons, write32, ih]; omega
  simp only [sendMsg]
  rw [List.take_of_length_le (by rw [containerBytes_length, hlen])]

theorem chain_append_one {R : List Nat → List Nat → Prop} {l : List (List Nat)}
    {c : List Nat} (hl : List.Chain' R l) (h : ∀ x ∈ l, R x c) : List.Chain' R (l ++ [c]) := by
  apply List.Chain'.append hl (List.chain'_singleton c)
  intro x hx y hy
  simp only [List.head?_cons, Option.mem_def, Option.some.injEq] at hy
  subst hy
  exact h x (List.mem_of_mem_getLast? hx)

theorem TidFresh.send {s : MTPDevice} (h : TidFresh s) (op : Nat) (params : List Nat) :
    TidInv (sendMsg s op params) := by
  obtain ⟨h1, h2⟩ := h
  refine ⟨h1, fun hlt => ?_⟩
  have hlt' : s.increments < 4294967296 := hlt
  obtain ⟨hc, hless⟩ := h2 hlt'
  have htid : s.transaction_id_ = s.increments := by rw [h1]; exact Nat.mod_eq_of_lt hlt'
  have hnew : MTPContainer.transaction_id (containerBytes (12 + 4 * params.length)
      MTP_CONTAINER_TYPE_COMMAND op s.transaction_id_ (params.flatMap write32))
      = s.increments := by
    rw [containerBytes_transaction_id _ _ _ _ _ (by rw [htid]; exact hlt'), htid]
  rw [sendMsg_commands]
  refine ⟨chain_append_one hc (fun x hx => ?_), fun c hc' => ?_⟩
  · have := hless x hx
    exact ⟨by rw [hnew]; omega, fun _ => by rw [hnew]; exact this⟩
  · rcases List.mem_append.mp hc' with h3 | h3
    · exact Nat.le_of_lt (hless c h3)
    · simp only [List.mem_singleton] at h3
      subst h3
      rw [hnew]
      exact Nat.le_refl _

theorem TidInv.send_reuse {s : MTPDevice} (h : TidInv s) (op : Nat) (params : List Nat)
    (hop : op < 65536) (hre : reusesTransaction op = true) :
    TidInv (sendMsg s op params) := by
  obtain ⟨h1, h2⟩ := h
  refine ⟨h1, fun hlt => ?_⟩
  have hlt' : s.increments < 4294967296 := hlt
  obtain ⟨hc, hle⟩ := h2 hlt'
  have htid : s.transaction_id_ = s.increments := by rw [h1]; exact Nat.mod_eq_of_lt hlt'
  have hnew : MTPContainer.transaction_id (containerBytes (12 + 4 * params.length)
      MTP_CONTAINER_TYPE_COMMAND op s.transaction_id_ (params.flatMap write32))
      = s.increments := by
    rw [containerBytes_transaction_id _ _ _ _ _ (by rw [htid]; exact hlt'), htid]
  have hnewop : MTPContainer.op (containerBytes (12 + 4 * params.length)
      MTP_CONTAINER_TYPE_COMMAND op s.transaction_id_ (params.flatMap write32)) = op :=
    containerBytes_op _ _ _ _ _ hop
  rw [sendMsg_commands]
  refine ⟨chain_append_one hc (fun x hx => ?_), fun c hc' => ?_⟩
  · refine ⟨by rw [hnew]; exact hle x hx, fun hfalse => ?_⟩
    rw [hnewop, hre] at hfalse
    cases hfalse
  · rcases List.mem_append.mp hc' with h3 | h3
    · exact hle c h3
    · simp only [List.mem_singleton] at h3
      subst h3
      rw [hnew]
      exact Nat.le_refl _

theorem processDescriptorData_sameTid (K : Limits) (s : MTPDevice) (c : List Nat) :
    SameTid s (processDescriptorData K s c) := by
  unfold processDescriptorData
  exact ⟨rfl, rfl, rfl⟩

theorem processDevicePropDesc_sameTid (s : MTPDevice) (c : List Nat) :
    SameTid s (processDevicePropDesc s c) := by
  unfold processDevicePropDesc
  simp only
  split <;> exact ⟨rfl, rfl, rfl⟩

theorem processObjectPropsSupported_sameTid (s : MTPDevice) (c : List Nat) :
    SameTid s (processObjectPropsSupported s c) := by
  unfold processObjectPropsSupported
  exact ⟨rfl, rfl, rfl⟩

theorem processGetStorageIDs_sameTid (K : Limits) (s s' : MTPDevice) (c : List Nat)
    (h : processGetStorageIDs K s c = .ok s') : SameTid s s' := by
  unfold processGetStorageIDs at h
  simp only at h
  repeat' split at h
  all_goals (cases h <;> exact ⟨rfl, rfl, rfl⟩)

theorem processGetStoreInfo_sameTid (K : Limits) (s s' : MTPDevice) (c : List Nat)
    (h : processGetStoreInfo K s c = .ok s') : SameTid s s' := by
  unfold processGetStoreInfo at h
  simp only at h
  repeat' split at h
  all_goals (cases h <;> exact ⟨rfl, rfl, rfl⟩)

theorem processGetObjectHandles_sameTid (s s' : MTPDevice) (c : List Nat)
    (h : processGetObjectHandles s c = .ok s') : SameTid s s' := by
  unfold processGetObjectHandles at h
  simp only at h
  repeat' split at h
  all_goals (cases h <;> exact ⟨rfl, rfl, rfl⟩)

theorem processGetObjectPropValue_sameTid (s s' : MTPDevice) (c : List Nat)
    (h : processGetObjectPropValue s c = .ok s') : SameTid s s' := by
  unfold processGetObjectPropValue at h
  simp only at h
  repeat' split at h
  all_goals (cases h <;> exact ⟨rfl, rfl, rfl⟩)

theorem processMTPData_sameTid (K : Limits) (s s' : MTPDevice) (c : List Nat)
    (h : processMTPData K s c = .ok s') : SameTid s s' := by
  unfold processMTPData at h
  simp only at h
  split at h
  · simp only [Except.ok.injEq] at h; subst h; exact processDescriptorData_sameTid K s c
  split at h
  · simp only [Except.ok.injEq] at h; subst h; exact processDevicePropDesc_sameTid s c
  split at h
  · exact processGetStorageIDs_sameTid K s s' c h
  split at h
  · exact processGetStoreInfo_sameTid K s s' c h
  split at h
  · simp only [Except.ok.injEq] at h; subst h; exact processObjectPropsSupported_sameTid s c
  split at h
  · simp only [Except.ok.injEq] at h; subst h; exact SameTid.id s
  split at h
  · exact processGetObjectHandles_sameTid s s' c h
  split at h
  · exact processGetObjectPropValue_sameTid s s' c h
  · simp only [Except.ok.injEq] at h; subst h; exact SameTid.id s

theorem tx_data_sameTid (s s' : MTPDevice) (h : tx_data s = .ok s') : SameTid s s' := by
  unfold tx_data at h
  simp only at h
  repeat' split at h
  all_goals (cases h <;> exact ⟨rfl, rfl, rfl⟩)

theorem disconnect_sameTid (s s' : MTPDevice) (h : disconnect s = .ok s') : SameTid s s' := by
  unfold disconnect at h
  split at h
  · cases h
  · cases h; exact ⟨rfl, rfl, rfl⟩

theorem process_object_removed_event_sameTid (s s' : MTPDevice) (i : Nat) (b : Bool)
    (h : process_object_removed_event s i = .ok (s', b)) : SameTid s s' := by
  unfold process_object_removed_event at h
  split at h
  · cases h
  · simp only at h
    split at h
    · simp only [Except.ok.injEq, Prod.mk.injEq] at h
      obtain ⟨rfl, rfl⟩ := h
      exact ⟨rfl, rfl, rfl⟩
    · split at h
      · cases h
      · split at h
        · cases h
        · split at h
          · cases h
          · split at h
            · cases h
            · simp only [Except.ok.injEq, Prod.mk.injEq] at h
              obtain ⟨rfl, rfl⟩ := h
              exact ⟨rfl, rfl, rfl⟩

theorem completeActiveEvent_sameTid (K : Limits) (s s' : MTPDevice)
    (h : completeActiveEvent K s = .ok s') : SameTid s s' := by
  unfold completeActiveEvent at h
  simp only at h
  split at h
  · cases h
  · cases h
    refine ⟨?_, ?_, ?_⟩ <;> (simp only; split <;> rfl)

theorem TidInv_process_object_added_event (s s' : MTPDevice) (i : Nat) (b : Bool)
    (hinv : TidInv s) (h : process_object_added_event s i = .ok (s', b)) : TidInv s' := by
  unfold process_object_added_event at h
  simp only at h
  split at h
  · cases h
    exact hinv.transfer ⟨rfl, rfl, rfl⟩
  · cases h
    apply TidFresh.send
    exact (hinv.next).carry ⟨rfl, rfl, rfl⟩

theorem TidInv_start_aux (K : Limits) (fuel : Nat) :
    ∀ (s s' : MTPDevice), TidInv s → start_process_next_eventAux K fuel s = .ok s' →
      TidInv s' := by
  induction fuel with
  | zero => intro s s' _ h; simp [start_process_next_eventAux] at h
  | succ fuel ih =>
    intro s s' hinv h
    unfold start_process_next_eventAux at h
    split at h
    · cases h; exact hinv
    · simp only at h
      split at h
      · cases h
      · rename_i s1 event_completed hh
        have hinv1 : TidInv s1 := by
          split at hh
          · exact TidInv_process_object_added_event _ _ _ _ hinv hh
          · split at hh
            · exact hinv.transfer (process_object_removed_event_sameTid _ _ _ _ hh)
            · cases hh; exact hinv
        split at h
        · split at h
          · cases h
          · rename_i s2 hc
            have h2 : TidInv s2 :=
              (hinv1.transfer ⟨rfl, rfl, rfl⟩).transfer (completeActiveEvent_sameTid K _ s2 hc)
            exact ih s2 s' h2 h
        · cases h; exact hinv1

theorem TidInv_complete_processing_event (K : Limits) (s s' : MTPDevice) (b : Bool)
    (hinv : TidInv s) (h : complete_processing_event K s b = .ok s') : TidInv s' := by
  unfold complete_processing_event at h
  split at h
  · split at h
    · cases h
    · rename_i s1 hc
      have hinv1 : TidInv s1 := hinv.transfer (completeActiveEvent_sameTid K s s1 hc)
      split at h
      · exact TidInv_start_aux K _ s1 s' hinv1 h
      · cases h; exact hinv1
  · cases h; exact hinv

theorem TidInv_add_event_to_list (K : Limits) (s s' : MTPDevice) (op id prop_code : Nat)
    (hinv : TidInv s) (h : add_event_to_list K s op id prop_code = .ok s') : TidInv s' := by
  rw [add_event_to_list_eq] at h
  have hinv1 : TidInv (enqueued K s op id prop_code) := hinv.transfer ⟨rfl, rfl, rfl⟩
  split at h
  · split at h
    · exact TidInv_start_aux K _ _ s' hinv1 h
    · cases h; exact hinv1
  · cases h; exact hinv

theorem TidInv_event_data (K : Limits) (s s' : MTPDevice) (len : Nat) (c : List Nat)
    (hinv : TidInv s) (h : event_data K s len c = .ok s') : TidInv s' := by
  unfold event_data at h
  simp only at h
  repeat' split at h
  all_goals first
    | exact TidInv_add_event_to_list K s s' _ _ _ hinv h
    | (cases h; exact hinv)

theorem TidInv_sendObjectMsg (s s' : MTPDevice) (object_id : Nat)
    (hinv : TidInv s) (h : sendObjectMsg s object_id = .ok s') : TidInv s' := by
  unfold sendObjectMsg at h
  simp only at h
  split at h
  · cases h; exact hinv
  · split at h
    · cases h
    · cases h
      have hfresh := hinv.next
      split
      · exact ((hfresh.carry ⟨rfl, rfl, rfl⟩).send _ _).transfer ⟨rfl, rfl, rfl⟩
      · exact ((hfresh.carry ⟨rfl, rfl, rfl⟩).send _ _).transfer ⟨rfl, rfl, rfl⟩

theorem TidInv_responseGetStorageIDs (s s' : MTPDevice) (hinv : TidInv s)
    (h : responseGetStorageIDs s = .ok s') : TidInv s' := by
  unfold responseGetStorageIDs at h
  split at h
  · split at h
    · cases h
    · cases h
      exact ((hinv.next).carry ⟨rfl, rfl, rfl⟩).send _ _
  · cases h; exact hinv

theorem TidInv_responseGetStorageInfo (s s' : MTPDevice) (hinv : TidInv s)
    (h : responseGetStorageInfo s = .ok s') : TidInv s' := by
  have h0 : TidInv (nextStoreInfoIndex s) := hinv.transfer ⟨rfl, rfl, rfl⟩
  unfold responseGetStorageInfo at h
  split at h
  · split at h
    · cases h
    · cases h
      exact (h0.next).send _ _
  · split at h
    · cases h
      exact ((h0.next).carry ⟨rfl, rfl, rfl⟩).send _ _
    · cases h; exact h0

theorem TidInv_responseGetObjectPropsSupported (s : MTPDevice) (hinv : TidInv s) :
    TidInv (responseGetObjectPropsSupported s) := by
  have h0 : TidInv (nextStoreInfoIndex s) := hinv.transfer ⟨rfl, rfl, rfl⟩
  unfold responseGetObjectPropsSupported
  split
  · exact (h0.next).send _ _
  · split
    · exact ((h0.next).carry ⟨rfl, rfl, rfl⟩).send _ _
    · exact h0

theorem TidInv_responseGetObjectPropDesc (s : MTPDevice) (hinv : TidInv s) :
    TidInv (responseGetObjectPropDesc s) := by
  have h0 : TidInv (nextStoreInfoIndex s) := hinv.transfer ⟨rfl, rfl, rfl⟩
  unfold responseGetObjectPropDesc
  split
  · exact (h0.next).send _ _
  · exact h0.transfer ⟨rfl, rfl, rfl⟩

theorem TidInv_responseGetObjectHandles (s s' : MTPDevice) (hinv : TidInv s)
    (h : responseGetObjectHandles s = .ok s') : TidInv s' := by
  unfold responseGetObjectHandles at h
  split at h
  · cases h; exact hinv.transfer ⟨rfl, rfl, rfl⟩
  · split at h
    · cases h
    · split at h
      · cases h; exact hinv.transfer ⟨rfl, rfl, rfl⟩
      · split at h
        · cases h
        · rename_i ch _ _ _ _
          cases h
          have h0 : TidInv { s with prop_node_ := some ch, prop_index_ := 0 } :=
            hinv.transfer ⟨rfl, rfl, rfl⟩
          exact (h0.next).send _ _

theorem TidInv_responseGetObjectPropValue (K : Limits) (s s' : MTPDevice)
    (hinv : TidInv s) (h : responseGetObjectPropValue K s = .ok s') : TidInv s' := by
  unfold responseGetObjectPropValue at h
  simp only at h
  split at h
  · cases h
  · rename_i s1 hadv
    have h1 : SameTid s s1 := by
      repeat' split at hadv
      all_goals (cases hadv <;> exact ⟨rfl, rfl, rfl⟩)
    have hinv1 : TidInv s1 := hinv.transfer h1
    split at h
    · split at h
      · cases h
      · cases h
        exact (hinv1.next).send _ _
    · have hinv3 : TidInv { nextTransaction s1 with enum_node_ := none } :=
        ((hinv1.next).weaken).transfer ⟨rfl, rfl, rfl⟩
      split at h
      · exact TidInv_complete_processing_event K _ s' true hinv3 h
      · cases h; exact hinv3

set_option maxHeartbeats 2000000 in
theorem TidInv_responseOK (K : Limits) (s s' : MTPDevice) (c : List Nat)
    (hinv : TidInv s) (h : responseOK K s c = .ok s') : TidInv s' := by
  unfold responseOK at h
  split at h
  · obtain rfl := Except.ok.inj h
    have h0 : TidInv { s with session_id_ := 42 } := hinv.transfer ⟨rfl, rfl, rfl⟩
    exact h0.send_reuse _ _ (by decide) (by decide)
  split at h
  · obtain rfl := Except.ok.inj h
    exact (hinv.next).send _ _
  split at h
  · obtain rfl := Except.ok.inj h
    exact (hinv.next).send _ _
  split at h
  · exact TidInv_responseGetStorageIDs s s' hinv h
  split at h
  · exact TidInv_responseGetStorageInfo s s' hinv h
  split at h
  · obtain rfl := Except.ok.inj h
    exact TidInv_responseGetObjectPropsSupported s hinv
  split at h
  · obtain rfl := Except.ok.inj h
    exact TidInv_responseGetObjectPropDesc s hinv
  split at h
  · exact TidInv_responseGetObjectHandles s s' hinv h
  split at h
  · exact TidInv_responseGetObjectPropValue K s s' hinv h
  split at h
  · exact TidInv_sendObjectMsg s s' _ hinv h
  split at h
  · exact TidInv_add_event_to_list K s s' _ _ _ hinv h
  · obtain rfl := Except.ok.inj h
    exact hinv

theorem TidInv_processMTPResponse (K : Limits) (s s' : MTPDevice) (c : List Nat)
    (hinv : TidInv s) (h : processMTPResponse K s c = .ok s') : TidInv s' := by
  unfold processMTPResponse at h
  have hinv0 : TidInv { s with last_response_ := MTPContainer.op c } :=
    hinv.transfer ⟨rfl, rfl, rfl⟩
  split at h
  · exact TidInv_responseOK K _ s' c hinv0 h
  · cases h; exact hinv0

theorem TidInv_runCallback (K : Limits) (s s' : MTPDevice) (cb : Callback)
    (hinv : TidInv s) (h : runCallback K s cb = .ok s') : TidInv s' := by
  cases cb with
  | rx_data len c =>
    simp only [runCallback, rx_data] at h
    split at h
    · split at h
      · exact hinv.transfer (processMTPData_sameTid K s s' c h)
      · split at h
        · exact TidInv_processMTPResponse K s s' c hinv h
        · cases h; exact hinv
    · cases h; exact hinv
  | tx_data => exact hinv.transfer (tx_data_sameTid s s' h)
  | event_data len c => exact TidInv_event_data K s s' len c hinv h

theorem TidInv_runTask (K : Limits) (t : List Callback) :
    ∀ (s s' : MTPDevice), TidInv s → runTask K s t = .ok s' → TidInv s' := by
  induction t with
  | nil => intro s s' hinv h; cases h; exact hinv
  | cons cb rest ih =>
    intro s s' hinv h
    unfold runTask at h
    split at h
    · cases h
    · rename_i s1 h1
      exact ih s1 s' (TidInv_runCallback K s s1 cb hinv h1) h

theorem TidInv_deleteObjectWait (K : Limits) (tasks : List (List Callback)) :
    ∀ (s s' : MTPDevice), TidInv s → deleteObjectWait K s tasks = .ok s' → TidInv s' := by
  induction tasks with
  | nil => intro s s' hinv h; cases h; exact hinv
  | cons t rest ih =>
    intro s s' hinv h
    unfold deleteObjectWait at h
    split at h
    · split at h
      · cases h
      · rename_i s1 h1
        exact ih s1 s' (TidInv_runTask K t s s1 hinv h1) h
    · cases h; exact hinv

theorem TidInv_sendFileObject (s : MTPDevice) (storage parent : Nat) (name file : List Nat)
    (hinv : TidInv s) : TidInv (sendFileObject s storage parent name file) := by
  unfold sendFileObject
  simp only
  split
  · have h1 : TidInv { s with
        send_file_count_left_ := file.length, send_file_buffer_ptr_ := none,
        send_file_buffer_ := some file,
        malloc_outcomes := (extmem_malloc_bytes s.malloc_outcomes).2 } :=
      hinv.transfer ⟨rfl, rfl, rfl⟩
    exact ((h1.next).send _ _).transfer ⟨rfl, rfl, rfl⟩
  · exact hinv.transfer ⟨rfl, rfl, rfl⟩

theorem TidInv_startEnumStorageIndex (s : MTPDevice) (index : Nat) (r : MTPDevice × Bool)
    (hinv : TidInv s) (h : startEnumStorageIndex s index = .ok r) : TidInv r.1 := by
  unfold startEnumStorageIndex at h
  split at h
  · cases h; exact hinv
  · split at h
    · cases h
    · cases h
      have h1 : TidInv { s with enum_node_ := some index } := hinv.transfer ⟨rfl, rfl, rfl⟩
      exact h1.send_reuse MTP_OPERATION_GET_OBJECT_HANDLES _ (by decide) (by decide)

theorem TidInv_startEnumStorageNode (s s' : MTPDevice) (node : Ptr)
    (hinv : TidInv s) (h : startEnumStorageNode s node = .ok s') : TidInv s' := by
  unfold startEnumStorageNode at h
  split at h
  · cases h; exact hinv
  · split at h
    · cases h
    · cases h
      exact (hinv.send_reuse MTP_OPERATION_GET_OBJECT_HANDLES _ (by decide)
        (by decide)).transfer ⟨rfl, rfl, rfl⟩

theorem TidInv_step (K : Limits) (s s' : MTPDevice) (a : Action)
    (hinv : TidInv s) (h : step K s a = .ok s') : TidInv s' := by
  cases a with
  | callback cb => exact TidInv_runCallback K s s' cb hinv h
  | claim rx tx ev =>
    cases h
    have h1 : TidInv { s with rx_size_ := rx, tx_size_ := tx, event_size_ := ev } :=
      hinv.transfer ⟨rfl, rfl, rfl⟩
    exact (h1.send_reuse MTP_OPERATION_GET_DEVICE_INFO [] (by decide) (by decide)).transfer
      ⟨rfl, rfl, rfl⟩
  | disconnect => exact hinv.transfer (disconnect_sameTid s s' h)
  | startEnumStorageIndex index =>
    simp only [step] at h
    split at h
    · cases h
    · rename_i r hr
      cases h
      exact TidInv_startEnumStorageIndex s index r hinv hr
  | startEnumStorageNode node => exact TidInv_startEnumStorageNode s s' node hinv h
  | deleteObject id format tasks =>
    simp only [step, deleteObject] at h
    split at h
    · cases h
    · rename_i r hr
      split at hr
      · cases hr
      · rename_i s3 h3
        cases hr
        cases h
        have h1 : TidFresh { nextTransaction s with last_response_ := 0xffffffff } :=
          (hinv.next).carry ⟨rfl, rfl, rfl⟩
        exact TidInv_deleteObjectWait K tasks _ s3 (h1.send _ _) h3
  | sendFileObject storage parent name file =>
    cases h
    exact TidInv_sendFileObject s storage parent name file hinv

theorem TidInv_run (K : Limits) (actions : List Action) :
    ∀ (s s' : MTPDevice), TidInv s → run K s actions = .ok s' → TidInv s' := by
  induction actions with
  | nil => intro s s' hinv h; cases h; exact hinv
  | cons a rest ih =>
    intro s s' hinv h
    unfold run at h
    split at h
    · cases h
    · rename_i s1 h1
      exact ih s1 s' (TidInv_step K s s1 a hinv h1) h

theorem TidInv_initial (K : Limits) (outcomes : List Bool) (cb : Bool) :
    TidInv (MTPDevice.initial K outcomes cb) :=
  ⟨rfl, fun _ => ⟨List.chain'_nil, fun c hc => by simp [MTPDevice.initial] at hc⟩⟩

/-- C14 (as amended): in every reachable state in which the 32-bit counter
has not wrapped (fewer than 2^32 increments so far), the transaction ids of
successive Command containers never decrease, and the later of two
successive commands carries a strictly larger id unless it is a
`GetDeviceInfo`, `OpenSession` or `GetObjectHandles` command. -/
theorem transaction_ids_ordered (K : Limits) (s : MTPDevice) (hs : Reachable K s)
    (hwrap : s.increments < 4294967296) :
    List.Chain' TidStep s.commands := by
  obtain ⟨outcomes, cb, actions, hrun⟩ := hs
  exact ((TidInv_run K actions _ s (TidInv_initial K outcomes cb) hrun).2 hwrap).1

/-- Witness for C14: after attach and three OK responses the commands
`GetDeviceInfo`, `OpenSession`, `GetDevicePropDesc` and `GetStorageIDs` carry
the ids 0, 0, 1 and 2. -/
theorem transaction_ids_ordered_witness :
    (stateAfter demoLimits demoInitial cascadeStart).commands.map MTPContainer.transaction_id
      = [0, 0, 1, 2] ∧
    List.Chain' TidStep (stateAfter demoLimits demoInitial cascadeStart).commands :=
  ⟨by decide,
   transaction_ids_ordered demoLimits (stateAfter demoLimits demoInitial cascadeStart)
     ⟨[], true, cascadeStart, rfl⟩ (by decide)⟩

/-- C14 fails as stated: after attach and one OK response two Command
containers are queued, `GetDeviceInfo` and `OpenSession`, and both carry the
transaction id 0. -/
theorem transaction_ids_ordered_counterexample :
    run demoLimits demoInitial [.claim 512 512 32, okResponse]
      = .ok (stateAfter demoLimits demoInitial [.claim 512 512 32, okResponse]) ∧
    (stateAfter demoLimits demoInitial [.claim 512 512 32, okResponse]).bulk_out.map
      (fun c => (MTPContainer.type c, MTPContainer.op c, MTPContainer.transaction_id c))
      = [(MTP_CONTAINER_TYPE_COMMAND, MTP_OPERATION_GET_DEVICE_INFO, 0),
         (MTP_CONTAINER_TYPE_COMMAND, MTP_OPERATION_OPEN_SESSION, 0)] ∧
    (stateAfter demoLimits demoInitial [.claim 512 512 32, okResponse]).commands
      = (stateAfter demoLimits demoInitial [.claim 512 512 32, okResponse]).bulk_out :=
  ⟨rfl, by decide, by decide⟩

theorem step_okResponse (K : Limits) (s : MTPDevice) :
    step K s okResponse
      = responseOK K { s with last_response_ := MTP_RESPONSE_OK }
          (responseContainer MTP_RESPONSE_OK) := by
  have htype : MTPContainer.type (responseContainer MTP_RESPONSE_OK)
      = MTP_CONTAINER_TYPE_RESPONSE := by decide
  have hop : MTPContainer.op (responseContainer MTP_RESPONSE_OK) = MTP_RESPONSE_OK := by decide
  simp only [step, okResponse, runCallback, rx_data, htype, processMTPResponse, hop]
  simp [MTP_CONTAINER_TYPE_RESPONSE, MTP_CONTAINER_TYPE_DATA]

theorem sendMsg_bulk_out (s : MTPDevice) (op : Nat) (params : List Nat) :
    (sendMsg s op params).bulk_out = s.bulk_out ++ [commandContainer op s.transaction_id_ params] :=
  sendMsg_command s op params

theorem run_append (K : Limits) : ∀ (a b : List Action) (s s1 s2 : MTPDevice),
    run K s a = .ok s1 → run K s1 b = .ok s2 → run K s (a ++ b) = .ok s2 := by
  intro a
  induction a with
  | nil => intro b s s1 s2 h1 h2; cases h1; exact h2
  | cons x a ih =>
    intro b s s1 s2 h1 h2
    cases hx : step K s x with
    | error e => simp only [run, hx] at h1; cases h1
    | ok s' =>
      simp only [run, hx] at h1
      simp only [List.cons_append, run, hx]
      exact ih b s' s1 s2 h1 h2

theorem run_one (K : Limits) (s s' : MTPDevice) (a : Action) (h : step K s a = .ok s') :
    run K s [a] = .ok s' := by
  simp only [run, h]

/-- Repeating a step that advances an indexed invariant. -/
theorem iterate_okResponse (K : Limits) (Q : Nat → MTPDevice → Prop) (bound : Nat)
    (hstep : ∀ i s, i + 1 < bound → Q i s →
      ∃ s', step K s okResponse = .ok s' ∧ Q (i + 1) s') :
    ∀ (n i : Nat) (s : MTPDevice), Q i s → i + n < bound →
      ∃ s', run K s (List.replicate n okResponse) = .ok s' ∧ Q (i + n) s' := by
  intro n
  induction n with
  | zero => intro i s hq _; exact ⟨s, rfl, hq⟩
  | succ n ih =>
    intro i s hq hb
    obtain ⟨s1, h1, hq1⟩ := hstep i s (by omega) hq
    obtain ⟨s2, h2, hq2⟩ := ih (i + 1) s1 hq1 (by omega)
    refine ⟨s2, ?_, by rw [show i + (n + 1) = i + 1 + n by omega]; exact hq2⟩
    rw [List.replicate_succ]
    exact run_append K [okResponse] _ s s1 s2 (run_one K s s1 _ h1) h2

theorem responseOK_getDeviceInfo (K : Limits) (s : MTPDevice) (c : List Nat)
    (h : s.last_mtp_op_ = MTP_OPERATION_GET_DEVICE_INFO) :
    responseOK K s c = .ok (sendMsg { s with session_id_ := 42 } MTP_OPERATION_OPEN_SESSION [42]) := by
  simp only [responseOK, h, if_true]

theorem responseOK_openSession (K : Limits) (s : MTPDevice) (c : List Nat)
    (h : s.last_mtp_op_ = MTP_OPERATION_OPEN_SESSION) :
    responseOK K s c = .ok (sendMsg (nextTransaction s) MTP_OPERATION_GET_DEVICE_PROP_DESC
      [MTP_DEVICE_PROPERTY_DEVICE_FRIENDLY_NAME]) := by
  have h1 : MTP_OPERATION_OPEN_SESSION ≠ MTP_OPERATION_GET_DEVICE_INFO := by decide
  simp only [responseOK, h, h1, if_false, if_true]

theorem responseOK_getDevicePropDesc (K : Limits) (s : MTPDevice) (c : List Nat)
    (h : s.last_mtp_op_ = MTP_OPERATION_GET_DEVICE_PROP_DESC) :
    responseOK K s c = .ok (sendMsg (nextTransaction s) MTP_OPERATION_GET_STORAGE_IDS []) := by
  have h1 : MTP_OPERATION_GET_DEVICE_PROP_DESC ≠ MTP_OPERATION_GET_DEVICE_INFO := by decide
  have h2 : MTP_OPERATION_GET_DEVICE_PROP_DESC ≠ MTP_OPERATION_OPEN_SESSION := by decide
  simp only [responseOK, h, h1, h2, if_false, if_true]

theorem responseOK_getStorageIDs (K : Limits) (s : MTPDevice) (c : List Nat)
    (h : s.last_mtp_op_ = MTP_OPERATION_GET_STORAGE_IDS) :
    responseOK K s c = responseGetStorageIDs s := by
  have h1 : MTP_OPERATION_GET_STORAGE_IDS ≠ MTP_OPERATION_GET_DEVICE_INFO := by decide
  have h2 : MTP_OPERATION_GET_STORAGE_IDS ≠ MTP_OPERATION_OPEN_SESSION := by decide
  have h3 : MTP_OPERATION_GET_STORAGE_IDS ≠ MTP_OPERATION_GET_DEVICE_PROP_DESC := by decide
  simp only [responseOK, h, h1, h2, h3, if_false, if_true]

theorem responseOK_getStorageInfo (K : Limits) (s : MTPDevice) (c : List Nat)
    (h : s.last_mtp_op_ = MTP_OPERATION_GET_STORAGE_INFO) :
    responseOK K s c = responseGetStorageInfo s := by
  have h1 : MTP_OPERATION_GET_STORAGE_INFO ≠ MTP_OPERATION_GET_DEVICE_INFO := by decide
  have h2 : MTP_OPERATION_GET_STORAGE_INFO ≠ MTP_OPERATION_OPEN_SESSION := by decide
  have h3 : MTP_OPERATION_GET_STORAGE_INFO ≠ MTP_OPERATION_GET_DEVICE_PROP_DESC := by decide
  have h4 : MTP_OPERATION_GET_STORAGE_INFO ≠ MTP_OPERATION_GET_STORAGE_IDS := by decide
  simp only [responseOK, h, h1, h2, h3, h4, if_false, if_true]

theorem responseOK_getObjectPropsSupported (K : Limits) (s : MTPDevice) (c : List Nat)
    (h : s.last_mtp_op_ = MTP_OPERATION_GET_OBJECT_PROPS_SUPPORTED) :
    responseOK K s c = .ok (responseGetObjectPropsSupported s) := by
  have h1 : MTP_OPERATION_GET_OBJECT_PROPS_SUPPORTED ≠ MTP_OPERATION_GET_DEVICE_INFO := by
    decide
  have h2 : MTP_OPERATION_GET_OBJECT_PROPS_SUPPORTED ≠ MTP_OPERATION_OPEN_SESSION := by decide
  have h3 : MTP_OPERATION_GET_OBJECT_PROPS_SUPPORTED ≠ MTP_OPERATION_GET_DEVICE_PROP_DESC := by
    decide
  have h4 : MTP_OPERATION_GET_OBJECT_PROPS_SUPPORTED ≠ MTP_OPERATION_GET_STORAGE_IDS := by
    decide
  have h5 : MTP_OPERATION_GET_OBJECT_PROPS_SUPPORTED ≠ MTP_OPERATION_GET_STORAGE_INFO := by
    decide
  simp only [responseOK, h, h1, h2, h3, h4, h5, if_false, if_true]

theorem responseOK_getObjectPropDesc (K : Limits) (s : MTPDevice) (c : List Nat)
    (h : s.last_mtp_op_ = MTP_OPERATION_GET_OBJECT_PROP_DESC) :
    responseOK K s c = .ok (responseGetObjectPropDesc s) := by
  have h1 : MTP_OPERATION_GET_OBJECT_PROP_DESC ≠ MTP_OPERATION_GET_DEVICE_INFO := by decide
  have h2 : MTP_OPERATION_GET_OBJECT_PROP_DESC ≠ MTP_OPERATION_OPEN_SESSION := by decide
  have h3 : MTP_OPERATION_GET_OBJECT_PROP_DESC ≠ MTP_OPERATION_GET_DEVICE_PROP_DESC := by
    decide
  have h4 : MTP_OPERATION_GET_OBJECT_PROP_DESC ≠ MTP_OPERATION_GET_STORAGE_IDS := by decide
  have h5 : MTP_OPERATION_GET_OBJECT_PROP_DESC ≠ MTP_OPERATION_GET_STORAGE_INFO := by decide
  have h6 : MTP_OPERATION_GET_OBJECT_PROP_DESC ≠ MTP_OPERATION_GET_OBJECT_PROPS_SUPPORTED := by
    decide
  simp only [responseOK, h, h1, h2, h3, h4, h5, h6, if_false, if_true]

theorem CascadeAt.queued {s0 s : MTPDevice} {op idx k : Nat} {cmds : List (List Nat)}
    (h : CascadeAt s0 s op idx k cmds) (op' : Nat) (params : List Nat) (hop : op' < 65536) :
    CascadeAt s0 (sendMsg s op' params) op' idx k
      (cmds ++ [commandContainer op' (s0.transaction_id_ + k) params]) := by
  obtain ⟨_, h2, h3, h4, h5, h6, h7, h8, h9, h10⟩ := h
  refine ⟨?_, h2, h3, ?_, h5, h6, h7, h8, h9, h10⟩
  · show op' % 65536 = op'
    exact Nat.mod_eq_of_lt hop
  · rw [sendMsg_bulk_out, h4, h3, List.append_assoc]

theorem CascadeAt.incremented {s0 s : MTPDevice} {op idx k : Nat} {cmds : List (List Nat)}
    (h : CascadeAt s0 s op idx k cmds) (hwrap : s0.transaction_id_ + k + 1 < 4294967296) :
    CascadeAt s0 (nextTransaction s) op idx (k + 1) cmds := by
  obtain ⟨h1, h2, h3, h4, h5, h6, h7, h8, h9, h10⟩ := h
  refine ⟨h1, h2, ?_, h4, h5, h6, h7, h8, h9, h10⟩
  show (s.transaction_id_ + 1) % 4294967296 = s0.transaction_id_ + (k + 1)
  rw [h3, Nat.mod_eq_of_lt (by omega)]
  omega

theorem CascadeAt.index {s0 s : MTPDevice} {op idx k : Nat} {cmds : List (List Nat)}
    (h : CascadeAt s0 s op idx k cmds) (j : Nat) :
    CascadeAt s0 { s with get_store_info_index_ := j } op j k cmds := by
  obtain ⟨h1, _, h3, h4, h5, h6, h7, h8, h9, h10⟩ := h
  exact ⟨h1, rfl, h3, h4, h5, h6, h7, h8, h9, h10⟩

theorem CascadeAt.nextIndex {s0 s : MTPDevice} {op idx k : Nat} {cmds : List (List Nat)}
    (h : CascadeAt s0 s op idx k cmds) (hidx : idx + 1 < 256) :
    CascadeAt s0 (nextStoreInfoIndex s) op (idx + 1) k cmds := by
  obtain ⟨h1, h2, h3, h4, h5, h6, h7, h8, h9, h10⟩ := h
  refine ⟨h1, ?_, h3, h4, h5, h6, h7, h8, h9, h10⟩
  show (s.get_store_info_index_ + 1) % 256 = idx + 1
  rw [h2, Nat.mod_eq_of_lt hidx]

theorem CascadeAt.response {s0 s : MTPDevice} {op idx k : Nat} {cmds : List (List Nat)}
    (h : CascadeAt s0 s op idx k cmds) (r : Nat) :
    CascadeAt s0 { s with last_response_ := r } op idx k cmds := h

theorem CascadeAt.session {s0 s : MTPDevice} {op idx k : Nat} {cmds : List (List Nat)}
    (h : CascadeAt s0 s op idx k cmds) (r : Nat) :
    CascadeAt s0 { s with session_id_ := r } op idx k cmds := h

theorem CascadeAt.cmds_congr {s0 s : MTPDevice} {op idx k : Nat} {cmds cmds' : List (List Nat)}
    (h : CascadeAt s0 s op idx k cmds) (e : cmds = cmds') : CascadeAt s0 s op idx k cmds' :=
  e ▸ h

/-- A step of the cascade is the `switch` of `processMTPResponse` on the
state that has recorded the OK code. -/
theorem cascade_step (K : Limits) (s0 s : MTPDevice) (op idx k : Nat) (cmds : List (List Nat))
    (Q : MTPDevice → Prop) (h : CascadeAt s0 s op idx k cmds)
    (hr : ∀ s1 c, CascadeAt s0 s1 op idx k cmds → ∃ s', responseOK K s1 c = .ok s' ∧ Q s') :
    ∃ s', step K s okResponse = .ok s' ∧ Q s' := by
  rw [step_okResponse]
  exact hr _ _ (h.response MTP_RESPONSE_OK)

/-- GetDeviceInfo answered: OpenSession follows under the same id. -/
theorem cascade_getDeviceInfo (K : Limits) (s0 s : MTPDevice) (c : List Nat) (idx k : Nat)
    (cmds : List (List Nat))
    (h : CascadeAt s0 s MTP_OPERATION_GET_DEVICE_INFO idx k cmds) :
    ∃ s', responseOK K s c = .ok s' ∧
      CascadeAt s0 s' MTP_OPERATION_OPEN_SESSION idx k
        (cmds ++ [commandContainer MTP_OPERATION_OPEN_SESSION (s0.transaction_id_ + k) [42]]) := by
  rw [responseOK_getDeviceInfo K s c h.1]
  exact ⟨_, rfl, (h.session 42).queued _ _ (by decide)⟩

theorem cascade_openSession (K : Limits) (s0 s : MTPDevice) (c : List Nat) (idx k : Nat)
    (cmds : List (List Nat))
    (h : CascadeAt s0 s MTP_OPERATION_OPEN_SESSION idx k cmds)
    (hwrap : s0.transaction_id_ + k + 1 < 4294967296) :
    ∃ s', responseOK K s c = .ok s' ∧
      CascadeAt s0 s' MTP_OPERATION_GET_DEVICE_PROP_DESC idx (k + 1)
        (cmds ++ [commandContainer MTP_OPERATION_GET_DEVICE_PROP_DESC
          (s0.transaction_id_ + (k + 1)) [MTP_DEVICE_PROPERTY_DEVICE_FRIENDLY_NAME]]) := by
  rw [responseOK_openSession K s c h.1]
  exact ⟨_, rfl, (h.incremented hwrap).queued _ _ (by decide)⟩

theorem cascade_getDevicePropDesc (K : Limits) (s0 s : MTPDevice) (c : List Nat) (idx k : Nat)
    (cmds : List (List Nat))
    (h : CascadeAt s0 s MTP_OPERATION_GET_DEVICE_PROP_DESC idx k cmds)
    (hwrap : s0.transaction_id_ + k + 1 < 4294967296) :
    ∃ s', responseOK K s c = .ok s' ∧
      CascadeAt s0 s' MTP_OPERATION_GET_STORAGE_IDS idx (k + 1)
        (cmds ++ [commandContainer MTP_OPERATION_GET_STORAGE_IDS
          (s0.transaction_id_ + (k + 1)) []]) := by
  rw [responseOK_getDevicePropDesc K s c h.1]
  exact ⟨_, rfl, (h.incremented hwrap).queued _ _ (by decide)⟩

theorem cascade_getStorageIDs (K : Limits) (s0 s : MTPDevice) (c : List Nat) (idx k : Nat)
    (cmds : List (List Nat)) (root : storage_list_t)
    (h : CascadeAt s0 s MTP_OPERATION_GET_STORAGE_IDS idx k cmds)
    (hwrap : s0.transaction_id_ + k + 1 < 4294967296)
    (hN : s0.cnt_storages_ ≠ 0) (hroot : load s0.heap 0 = .ok root) :
    ∃ s', responseOK K s c = .ok s' ∧
      CascadeAt s0 s' MTP_OPERATION_GET_STORAGE_INFO 0 (k + 1)
        (cmds ++ [commandContainer MTP_OPERATION_GET_STORAGE_INFO
          (s0.transaction_id_ + (k + 1)) [idOf s0.heap 0]]) := by
  rw [responseOK_getStorageIDs K s c h.1]
  have h5 : s.heap = s0.heap := h.2.2.2.2.1
  have h6 : s.cnt_storages_ = s0.cnt_storages_ := h.2.2.2.2.2.1
  unfold responseGetStorageIDs
  rw [if_pos (by rw [h6]; exact hN), h5, hroot, idOf_of_load hroot]
  exact ⟨_, rfl, ((h.incremented hwrap).index 0).queued MTP_OPERATION_GET_STORAGE_INFO _ (by decide)⟩

theorem cascade_getStorageInfo_next (K : Limits) (s0 s : MTPDevice) (c : List Nat) (idx k : Nat)
    (cmds : List (List Nat)) (root : storage_list_t)
    (h : CascadeAt s0 s MTP_OPERATION_GET_STORAGE_INFO idx k cmds)
    (hwrap : s0.transaction_id_ + k + 1 < 4294967296)
    (hidx : idx + 1 < s0.cnt_storages_) (hN : s0.cnt_storages_ < 256)
    (hroot : load s0.heap (idx + 1) = .ok root) :
    ∃ s', responseOK K s c = .ok s' ∧
      CascadeAt s0 s' MTP_OPERATION_GET_STORAGE_INFO (idx + 1) (k + 1)
        (cmds ++ [commandContainer MTP_OPERATION_GET_STORAGE_INFO
          (s0.transaction_id_ + (k + 1)) [idOf s0.heap (idx + 1)]]) := by
  rw [responseOK_getStorageInfo K s c h.1]
  have h5 : s.heap = s0.heap := h.2.2.2.2.1
  have h6 : s.cnt_storages_ = s0.cnt_storages_ := h.2.2.2.2.2.1
  have hn := h.nextIndex (show idx + 1 < 256 by omega)
  have hi : (nextStoreInfoIndex s).get_store_info_index_ = idx + 1 := hn.2.1
  unfold responseGetStorageInfo
  rw [if_pos (by rw [hi, h6]; exact hidx), hi, h5, hroot, idOf_of_load hroot]
  exact ⟨_, rfl, (hn.incremented hwrap).queued MTP_OPERATION_GET_STORAGE_INFO _ (by decide)⟩

theorem cascade_getStorageInfo_last (K : Limits) (s0 s : MTPDevice) (c : List Nat) (idx k : Nat)
    (cmds : List (List Nat))
    (h : CascadeAt s0 s MTP_OPERATION_GET_STORAGE_INFO idx k cmds)
    (hwrap : s0.transaction_id_ + k + 1 < 4294967296)
    (hidx : idx + 1 = s0.cnt_storages_) (hN : s0.cnt_storages_ < 256)
    (hF : s0.cnt_object_formats_ ≠ 0) :
    ∃ s', responseOK K s c = .ok s' ∧
      CascadeAt s0 s' MTP_OPERATION_GET_OBJECT_PROPS_SUPPORTED 0 (k + 1)
        (cmds ++ [commandContainer MTP_OPERATION_GET_OBJECT_PROPS_SUPPORTED
          (s0.transaction_id_ + (k + 1)) [s0.object_formats_ 0]]) := by
  rw [responseOK_getStorageInfo K s c h.1]
  have h6 : s.cnt_storages_ = s0.cnt_storages_ := h.2.2.2.2.2.1
  have h7 : s.cnt_object_formats_ = s0.cnt_object_formats_ := h.2.2.2.2.2.2.1
  have h8 : s.object_formats_ = s0.object_formats_ := h.2.2.2.2.2.2.2.1
  have hn := h.nextIndex (show idx + 1 < 256 by omega)
  have hi : (nextStoreInfoIndex s).get_store_info_index_ = idx + 1 := hn.2.1
  unfold responseGetStorageInfo
  rw [if_neg (by rw [hi, h6]; omega), if_pos (by rw [h7]; exact hF)]
  exact ⟨_, rfl, (((hn.incremented hwrap).index 0).queued MTP_OPERATION_GET_OBJECT_PROPS_SUPPORTED
    [s.object_formats_ 0] (by decide)).cmds_congr (by rw [h8])⟩

theorem cascade_getObjectPropsSupported_next (K : Limits) (s0 s : MTPDevice) (c : List Nat)
    (idx k : Nat) (cmds : List (List Nat))
    (h : CascadeAt s0 s MTP_OPERATION_GET_OBJECT_PROPS_SUPPORTED idx k cmds)
    (hwrap : s0.transaction_id_ + k + 1 < 4294967296)
    (hidx : idx + 1 < s0.cnt_object_formats_) (hF : s0.cnt_object_formats_ < 256) :
    ∃ s', responseOK K s c = .ok s' ∧
      CascadeAt s0 s' MTP_OPERATION_GET_OBJECT_PROPS_SUPPORTED (idx + 1) (k + 1)
        (cmds ++ [commandContainer MTP_OPERATION_GET_OBJECT_PROPS_SUPPORTED
          (s0.transaction_id_ + (k + 1)) [s0.object_formats_ (idx + 1)]]) := by
  rw [responseOK_getObjectPropsSupported K s c h.1]
  have h7 : s.cnt_object_formats_ = s0.cnt_object_formats_ := h.2.2.2.2.2.2.1
  have h8 : s.object_formats_ = s0.object_formats_ := h.2.2.2.2.2.2.2.1
  have hn := h.nextIndex (show idx + 1 < 256 by omega)
  have hi : (nextStoreInfoIndex s).get_store_info_index_ = idx + 1 := hn.2.1
  unfold responseGetObjectPropsSupported
  rw [if_pos (by rw [hi, h7]; exact hidx), hi]
  exact ⟨_, rfl, ((hn.incremented hwrap).queued MTP_OPERATION_GET_OBJECT_PROPS_SUPPORTED
    [s.object_formats_ (idx + 1)] (by decide)).cmds_congr (by rw [h8])⟩

theorem cascade_getObjectPropsSupported_last (K : Limits) (s0 s : MTPDevice) (c : List Nat)
    (idx k : Nat) (cmds : List (List Nat))
    (h : CascadeAt s0 s MTP_OPERATION_GET_OBJECT_PROPS_SUPPORTED idx k cmds)
    (hwrap : s0.transaction_id_ + k + 1 < 4294967296)
    (hidx : idx + 1 = s0.cnt_object_formats_) (hF : s0.cnt_object_formats_ < 256)
    (hP : s0.cnt_object_property_ids_ ≠ 0) :
    ∃ s', responseOK K s c = .ok s' ∧
      CascadeAt s0 s' MTP_OPERATION_GET_OBJECT_PROP_DESC 0 (k + 1)
        (cmds ++ [commandContainer MTP_OPERATION_GET_OBJECT_PROP_DESC
          (s0.transaction_id_ + (k + 1)) [s0.object_property_ids_ 0]]) := by
  rw [responseOK_getObjectPropsSupported K s c h.1]
  have h7 : s.cnt_object_formats_ = s0.cnt_object_formats_ := h.2.2.2.2.2.2.1
  have h9 : s.cnt_object_property_ids_ = s0.cnt_object_property_ids_ := h.2.2.2.2.2.2.2.2.1
  have h10 : s.object_property_ids_ = s0.object_property_ids_ := h.2.2.2.2.2.2.2.2.2
  have hn := h.nextIndex (show idx + 1 < 256 by omega)
  have hi : (nextStoreInfoIndex s).get_store_info_index_ = idx + 1 := hn.2.1
  unfold responseGetObjectPropsSupported
  rw [if_neg (by rw [hi, h7]; omega), if_pos (by rw [h9]; exact hP)]
  exact ⟨_, rfl, (((hn.incremented hwrap).index 0).queued MTP_OPERATION_GET_OBJECT_PROP_DESC
    [s.object_property_ids_ 0] (by decide)).cmds_congr (by rw [h10])⟩

theorem cascade_getObjectPropDesc_next (K : Limits) (s0 s : MTPDevice) (c : List Nat)
    (idx k : Nat) (cmds : List (List Nat))
    (h : CascadeAt s0 s MTP_OPERATION_GET_OBJECT_PROP_DESC idx k cmds)
    (hwrap : s0.transaction_id_ + k + 1 < 4294967296)
    (hidx : idx + 1 < s0.cnt_object_property_ids_) (hP : s0.cnt_object_property_ids_ < 256) :
    ∃ s', responseOK K s c = .ok s' ∧
      CascadeAt s0 s' MTP_OPERATION_GET_OBJECT_PROP_DESC (idx + 1) (k + 1)
        (cmds ++ [commandContainer MTP_OPERATION_GET_OBJECT_PROP_DESC
          (s0.transaction_id_ + (k + 1)) [s0.object_property_ids_ (idx + 1)]]) := by
  rw [responseOK_getObjectPropDesc K s c h.1]
  have h9 : s.cnt_object_property_ids_ = s0.cnt_object_property_ids_ := h.2.2.2.2.2.2.2.2.1
  have h10 : s.object_property_ids_ = s0.object_property_ids_ := h.2.2.2.2.2.2.2.2.2
  have hn := h.nextIndex (show idx + 1 < 256 by omega)
  have hi : (nextStoreInfoIndex s).get_store_info_index_ = idx + 1 := hn.2.1
  unfold responseGetObjectPropDesc
  rw [if_pos (by rw [hi, h9]; exact hidx), hi]
  exact ⟨_, rfl, ((hn.incremented hwrap).queued MTP_OPERATION_GET_OBJECT_PROP_DESC
    [s.object_property_ids_ (idx + 1)] (by decide)).cmds_congr (by rw [h10])⟩

theorem cascade_getObjectPropDesc_last (K : Limits) (s0 s : MTPDevice) (c : List Nat)
    (idx k : Nat) (cmds : List (List Nat))
    (h : CascadeAt s0 s MTP_OPERATION_GET_OBJECT_PROP_DESC idx k cmds)
    (hidx : idx + 1 = s0.cnt_object_property_ids_) (hP : s0.cnt_object_property_ids_ < 256) :
    ∃ s', responseOK K s c = .ok s' ∧ s'.setup_complete_ = true ∧
      s'.bulk_out = s0.bulk_out ++ cmds := by
  rw [responseOK_getObjectPropDesc K s c h.1]
  have h4 : s.bulk_out = s0.bulk_out ++ cmds := h.2.2.2.1
  have h9 : s.cnt_object_property_ids_ = s0.cnt_object_property_ids_ := h.2.2.2.2.2.2.2.2.1
  have hn := h.nextIndex (show idx + 1 < 256 by omega)
  have hi : (nextStoreInfoIndex s).get_store_info_index_ = idx + 1 := hn.2.1
  unfold responseGetObjectPropDesc
  rw [if_neg (by rw [hi, h9]; omega)]
  exact ⟨_, rfl, rfl, h4⟩

theorem claim_cascadeAt (s0 : MTPDevice) (rx tx ev : Nat) :
    CascadeAt s0 (claim s0 rx tx ev) MTP_OPERATION_GET_DEVICE_INFO s0.get_store_info_index_ 0
      [commandContainer MTP_OPERATION_GET_DEVICE_INFO s0.transaction_id_ []] := by
  refine ⟨rfl, rfl, rfl, ?_, rfl, rfl, rfl, rfl, rfl, rfl⟩
  show (sendMsg _ MTP_OPERATION_GET_DEVICE_INFO []).bulk_out = _
  rw [sendMsg_bulk_out]

theorem RespIs.kept {v : Nat} {s s' : MTPDevice} (h : RespIs v s) (hs : RespSame s s') :
    RespIs v s' := hs.trans h

theorem RespIs.afterNext {v : Nat} {s : MTPDevice} (h : RespIs v s) : RespIs v (nextTransaction s) := h

theorem RespIs.still {v : Nat} {s : MTPDevice} (h : RespIs v s) : RespIs v s := h

theorem RespIs.afterSend {v : Nat} {s : MTPDevice} (h : RespIs v s) (op : Nat) (params : List Nat) :
    RespIs v (sendMsg s op params) := h

theorem processDescriptorData_resp (K : Limits) (s : MTPDevice) (c : List Nat) :
    RespSame s (processDescriptorData K s c) := by
  unfold processDescriptorData
  exact rfl

theorem processDevicePropDesc_resp (s : MTPDevice) (c : List Nat) :
    RespSame s (processDevicePropDesc s c) := by
  unfold processDevicePropDesc
  simp only
  split <;> exact rfl

theorem processObjectPropsSupported_resp (s : MTPDevice) (c : List Nat) :
    RespSame s (processObjectPropsSupported s c) := by
  unfold processObjectPropsSupported
  exact rfl

theorem processGetStorageIDs_resp (K : Limits) (s s' : MTPDevice) (c : List Nat)
    (h : processGetStorageIDs K s c = .ok s') : RespSame s s' := by
  unfold processGetStorageIDs at h
  simp only at h
  repeat' split at h
  all_goals (cases h <;> exact rfl)

theorem processGetStoreInfo_resp (K : Limits) (s s' : MTPDevice) (c : List Nat)
    (h : processGetStoreInfo K s c = .ok s') : RespSame s s' := by
  unfold processGetStoreInfo at h
  simp only at h
  repeat' split at h
  all_goals (cases h <;> exact rfl)

theorem processGetObjectHandles_resp (s s' : MTPDevice) (c : List Nat)
    (h : processGetObjectHandles s c = .ok s') : RespSame s s' := by
  unfold processGetObjectHandles at h
  simp only at h
  repeat' split at h
  all_goals (cases h <;> exact rfl)

theorem processGetObjectPropValue_resp (s s' : MTPDevice) (c : List Nat)
    (h : processGetObjectPropValue s c = .ok s') : RespSame s s' := by
  unfold processGetObjectPropValue at h
  simp only at h
  repeat' split at h
  all_goals (cases h <;> exact rfl)

theorem processMTPData_resp (K : Limits) (s s' : MTPDevice) (c : List Nat)
    (h : processMTPData K s c = .ok s') : RespSame s s' := by
  unfold processMTPData at h
  simp only at h
  split at h
  · simp only [Except.ok.injEq] at h; subst h; exact processDescriptorData_resp K s c
  split at h
  · simp only [Except.ok.injEq] at h; subst h; exact processDevicePropDesc_resp s c
  split at h
  · exact processGetStorageIDs_resp K s s' c h
  split at h
  · exact processGetStoreInfo_resp K s s' c h
  split at h
  · simp only [Except.ok.injEq] at h; subst h; exact processObjectPropsSupported_resp s c
  split at h
  · simp only [Except.ok.injEq] at h; subst h; exact rfl
  split at h
  · exact processGetObjectHandles_resp s s' c h
  split at h
  · exact processGetObjectPropValue_resp s s' c h
  · simp only [Except.ok.injEq] at h; subst h; exact rfl

theorem tx_data_resp (s s' : MTPDevice) (h : tx_data s = .ok s') : RespSame s s' := by
  unfold tx_data at h
  simp only at h
  repeat' split at h
  all_goals (cases h <;> exact rfl)

theorem process_object_removed_event_resp (s s' : MTPDevice) (i : Nat) (b : Bool)
    (h : process_object_removed_event s i = .ok (s', b)) : RespSame s s' := by
  unfold process_object_removed_event at h
  split at h
  · cases h
  · simp only at h
    split at h
    · simp only [Except.ok.injEq, Prod.mk.injEq] at h
      obtain ⟨rfl, rfl⟩ := h
      exact rfl
    · split at h
      · cases h
      · split at h
        · cases h
        · split at h
          · cases h
          · split at h
            · cases h
            · simp only [Except.ok.injEq, Prod.mk.injEq] at h
              obtain ⟨rfl, rfl⟩ := h
              exact rfl

theorem completeActiveEvent_resp (K : Limits) (s s' : MTPDevice)
    (h : completeActiveEvent K s = .ok s') : RespSame s s' := by
  unfold completeActiveEvent at h
  simp only at h
  split at h
  · cases h
  · cases h
    show _ = _
    simp only; split <;> rfl

theorem RespIs_process_object_added_event {v : Nat} (s s' : MTPDevice) (i : Nat) (b : Bool)
    (hinv : RespIs v s) (h : process_object_added_event s i = .ok (s', b)) : RespIs v s' := by
  unfold process_object_added_event at h
  simp only at h
  split at h
  · cases h
    exact hinv.kept rfl
  · cases h
    apply RespIs.afterSend
    exact (hinv.afterNext).kept rfl

theorem RespIs_start_aux {v : Nat} (K : Limits) (fuel : Nat) :
    ∀ (s s' : MTPDevice), RespIs v s → start_process_next_eventAux K fuel s = .ok s' →
      RespIs v s' := by
  induction fuel with
  | zero => intro s s' _ h; simp [start_process_next_eventAux] at h
  | succ fuel ih =>
    intro s s' hinv h
    unfold start_process_next_eventAux at h
    split at h
    · cases h; exact hinv
    · simp only at h
      split at h
      · cases h
      · rename_i s1 event_completed hh
        have hinv1 : RespIs v s1 := by
          split at hh
          · exact RespIs_process_object_added_event _ _ _ _ hinv hh
          · split at hh
            · exact hinv.kept (process_object_removed_event_resp _ _ _ _ hh)
            · cases hh; exact hinv
        split at h
        · split at h
          · cases h
          · rename_i s2 hc
            have h2 : RespIs v s2 :=
              (hinv1.kept rfl).kept (completeActiveEvent_resp K _ s2 hc)
            exact ih s2 s' h2 h
        · cases h; exact hinv1

theorem RespIs_complete_processing_event {v : Nat} (K : Limits) (s s' : MTPDevice) (b : Bool)
    (hinv : RespIs v s) (h : complete_processing_event K s b = .ok s') : RespIs v s' := by
  unfold complete_processing_event at h
  split at h
  · split at h
    · cases h
    · rename_i s1 hc
      have hinv1 : RespIs v s1 := hinv.kept (completeActiveEvent_resp K s s1 hc)
      split at h
      · exact RespIs_start_aux K _ s1 s' hinv1 h
      · cases h; exact hinv1
  · cases h; exact hinv

theorem RespIs_add_event_to_list {v : Nat} (K : Limits) (s s' : MTPDevice) (op id prop_code : Nat)
    (hinv : RespIs v s) (h : add_event_to_list K s op id prop_code = .ok s') : RespIs v s' := by
  rw [add_event_to_list_eq] at h
  have hinv1 : RespIs v (enqueued K s op id prop_code) := hinv.kept rfl
  split at h
  · split at h
    · exact RespIs_start_aux K _ _ s' hinv1 h
    · cases h; exact hinv1
  · cases h; exact hinv

theorem RespIs_event_data {v : Nat} (K : Limits) (s s' : MTPDevice) (len : Nat) (c : List Nat)
    (hinv : RespIs v s) (h : event_data K s len c = .ok s') : RespIs v s' := by
  unfold event_data at h
  simp only at h
  repeat' split at h
  all_goals first
    | exact RespIs_add_event_to_list K s s' _ _ _ hinv h
    | (cases h; exact hinv)

theorem RespIs_sendObjectMsg {v : Nat} (s s' : MTPDevice) (object_id : Nat)
    (hinv : RespIs v s) (h : sendObjectMsg s object_id = .ok s') : RespIs v s' := by
  unfold sendObjectMsg at h
  simp only at h
  split at h
  · cases h; exact hinv
  · split at h
    · cases h
    · cases h
      have hfresh := hinv.afterNext
      split
      · exact hinv
      · exact hinv

theorem RespIs_responseGetStorageIDs {v : Nat} (s s' : MTPDevice) (hinv : RespIs v s)
    (h : responseGetStorageIDs s = .ok s') : RespIs v s' := by
  unfold responseGetStorageIDs at h
  split at h
  · split at h
    · cases h
    · cases h
      exact hinv
  · cases h; exact hinv

theorem RespIs_responseGetStorageInfo {v : Nat} (s s' : MTPDevice) (hinv : RespIs v s)
    (h : responseGetStorageInfo s = .ok s') : RespIs v s' := by
  have h0 : RespIs v (nextStoreInfoIndex s) := hinv.kept rfl
  unfold responseGetStorageInfo at h
  split at h
  · split at h
    · cases h
    · cases h
      exact (h0.afterNext).afterSend _ _
  · split at h
    · cases h
      exact h0
    · cases h; exact h0

theorem RespIs_responseGetObjectPropsSupported {v : Nat} (s : MTPDevice) (hinv : RespIs v s) :
    RespIs v (responseGetObjectPropsSupported s) := by
  have h0 : RespIs v (nextStoreInfoIndex s) := hinv.kept rfl
  unfold responseGetObjectPropsSupported
  split
  · exact (h0.afterNext).afterSend _ _
  · split
    · exact h0
    · exact h0

theorem RespIs_responseGetObjectPropDesc {v : Nat} (s : MTPDevice) (hinv : RespIs v s) :
    RespIs v (responseGetObjectPropDesc s) := by
  have h0 : RespIs v (nextStoreInfoIndex s) := hinv.kept rfl
  unfold responseGetObjectPropDesc
  split
  · exact (h0.afterNext).afterSend _ _
  · exact h0.kept rfl

theorem RespIs_responseGetObjectHandles {v : Nat} (s s' : MTPDevice) (hinv : RespIs v s)
    (h : responseGetObjectHandles s = .ok s') : RespIs v s' := by
  unfold responseGetObjectHandles at h
  split at h
  · cases h; exact hinv.kept rfl
  · split at h
    · cases h
    · split at h
      · cases h; exact hinv.kept rfl
      · split at h
        · cases h
        · rename_i ch _ _ _ _
          cases h
          have h0 : RespIs v { s with prop_node_ := some ch, prop_index_ := 0 } :=
            hinv.kept rfl
          exact (h0.afterNext).afterSend _ _

theorem RespIs_responseGetObjectPropValue {v : Nat} (K : Limits) (s s' : MTPDevice)
    (hinv : RespIs v s) (h : responseGetObjectPropValue K s = .ok s') : RespIs v s' := by
  unfold responseGetObjectPropValue at h
  simp only at h
  split at h
  · cases h
  · rename_i s1 hadv
    have h1 : RespSame s s1 := by
      repeat' split at hadv
      all_goals (cases hadv <;> exact rfl)
    have hinv1 : RespIs v s1 := hinv.kept h1
    split at h
    · split at h
      · cases h
      · cases h
        exact (hinv1.afterNext).afterSend _ _
    · have hinv3 : RespIs v { nextTransaction s1 with enum_node_ := none } :=
        ((hinv1.afterNext).still).kept rfl
      split at h
      · exact RespIs_complete_processing_event K _ s' true hinv3 h
      · cases h; exact hinv3

set_option maxHeartbeats 2000000 in
theorem RespIs_responseOK {v : Nat} (K : Limits) (s s' : MTPDevice) (c : List Nat)
    (hinv : RespIs v s) (h : responseOK K s c = .ok s') : RespIs v s' := by
  unfold responseOK at h
  split at h
  · obtain rfl := Except.ok.inj h
    have h0 : RespIs v { s with session_id_ := 42 } := hinv.kept rfl
    exact h0.afterSend _ _
  split at h
  · obtain rfl := Except.ok.inj h
    exact (hinv.afterNext).afterSend _ _
  split at h
  · obtain rfl := Except.ok.inj h
    exact (hinv.afterNext).afterSend _ _
  split at h
  · exact RespIs_responseGetStorageIDs s s' hinv h
  split at h
  · exact RespIs_responseGetStorageInfo s s' hinv h
  split at h
  · obtain rfl := Except.ok.inj h
    exact RespIs_responseGetObjectPropsSupported s hinv
  split at h
  · obtain rfl := Except.ok.inj h
    exact RespIs_responseGetObjectPropDesc s hinv
  split at h
  · exact RespIs_responseGetObjectHandles s s' hinv h
  split at h
  · exact RespIs_responseGetObjectPropValue K s s' hinv h
  split at h
  · exact RespIs_sendObjectMsg s s' _ hinv h
  split at h
  · exact RespIs_add_event_to_list K s s' _ _ _ hinv h
  · obtain rfl := Except.ok.inj h
    exact hinv

theorem read16_lt (p : List Nat) : (read16 p).1 < 65536 := by
  simp only [read16, byteAt]
  omega

theorem responseCode_lt (cb : Callback) (c : Nat) (h : responseCode cb = some c) :
    c < 65536 := by
  cases cb with
  | rx_data len d =>
    simp only [responseCode] at h
    split at h
    · cases h; exact read16_lt _
    · cases h
  | tx_data => cases h
  | event_data len d => cases h

theorem processMTPResponse_resp (K : Limits) (s s' : MTPDevice) (c : List Nat)
    (h : processMTPResponse K s c = .ok s') : s'.last_response_ = MTPContainer.op c := by
  unfold processMTPResponse at h
  have h0 : RespIs (MTPContainer.op c) { s with last_response_ := MTPContainer.op c } := rfl
  split at h
  · exact RespIs_responseOK K _ s' c h0 h
  · cases h; rfl

theorem event_data_resp (K : Limits) (s s' : MTPDevice) (len : Nat) (c : List Nat)
    (h : event_data K s len c = .ok s') : s'.last_response_ = s.last_response_ :=
  RespIs_event_data K s s' len c rfl h

/-- A callback leaves in `last_response_` the code of the Response it
brought, and the old value if it brought none. -/
theorem runCallback_resp (K : Limits) (s s' : MTPDevice) (cb : Callback)
    (h : runCallback K s cb = .ok s') :
    s'.last_response_ = (responseCode cb).getD s.last_response_ := by
  cases cb with
  | rx_data len c =>
    simp only [runCallback, rx_data] at h
    simp only [responseCode]
    split at h
    · rename_i hlen
      split at h
      · rename_i htype
        have hne : ¬ MTPContainer.type c = MTP_CONTAINER_TYPE_RESPONSE := by
          rw [htype]; decide
        rw [if_neg (fun hh => hne hh.2)]
        exact processMTPData_resp K s s' c h
      · split at h
        · rename_i htype
          rw [if_pos ⟨hlen, htype⟩]
          exact processMTPResponse_resp K s s' c h
        · rename_i htype
          rw [if_neg (fun hh => htype hh.2)]
          cases h; rfl
    · rename_i hlen
      rw [if_neg (fun hh => hlen hh.1)]
      cases h; rfl
  | tx_data => exact tx_data_resp s s' h
  | event_data len c => exact event_data_resp K s s' len c h

theorem runTask_no_response (K : Limits) (t : List Callback) :
    ∀ (s s' : MTPDevice), (∀ cb ∈ t, responseCode cb = none) → runTask K s t = .ok s' →
      s'.last_response_ = s.last_response_ := by
  induction t with
  | nil => intro s s' _ h; cases h; rfl
  | cons cb rest ih =>
    intro s s' hno h
    unfold runTask at h
    split at h
    · cases h
    · rename_i s1 h1
      have e1 := runCallback_resp K s s1 cb h1
      rw [hno cb (List.mem_cons_self _ _)] at e1
      exact (ih s1 s' (fun x hx => hno x (List.mem_cons_of_mem _ hx)) h).trans e1

theorem runTask_last_response (K : Limits) (t1 : List Callback) :
    ∀ (s s' : MTPDevice) (cb : Callback) (t2 : List Callback) (c : Nat),
      responseCode cb = some c → (∀ x ∈ t2, responseCode x = none) →
      runTask K s (t1 ++ cb :: t2) = .ok s' → s'.last_response_ = c := by
  induction t1 with
  | nil =>
    intro s s' cb t2 c hc hno h
    simp only [List.nil_append] at h
    unfold runTask at h
    split at h
    · cases h
    · rename_i s1 h1
      have e1 := runCallback_resp K s s1 cb h1
      rw [hc] at e1
      exact (runTask_no_response K t2 s1 s' hno h).trans e1
  | cons x rest ih =>
    intro s s' cb t2 c hc hno h
    simp only [List.cons_append] at h
    unfold runTask at h
    split at h
    · cases h
    · rename_i s1 h1
      exact ih s1 s' cb t2 c hc hno h

theorem deleteObjectWait_done (K : Limits) (s : MTPDevice) (tasks : List (List Callback))
    (h : s.last_response_ ≠ 0xffffffff) : deleteObjectWait K s tasks = .ok s := by
  cases tasks with
  | nil => rfl
  | cons t rest =>
    unfold deleteObjectWait
    rw [if_neg h]

theorem deleteObjectWait_no_response (K : Limits) (tasks : List (List Callback)) :
    ∀ (s s' : MTPDevice), (∀ t ∈ tasks, ∀ cb ∈ t, responseCode cb = none) →
      deleteObjectWait K s tasks = .ok s' → s'.last_response_ = s.last_response_ := by
  induction tasks with
  | nil => intro s s' _ h; cases h; rfl
  | cons t rest ih =>
    intro s s' hno h
    unfold deleteObjectWait at h
    split at h
    · split at h
      · cases h
      · rename_i s1 h1
        have e1 := runTask_no_response K t s s1 (hno t (List.mem_cons_self _ _)) h1
        exact (ih s1 s' (fun x hx => hno x (List.mem_cons_of_mem _ hx)) h).trans e1
    · cases h; rfl

theorem deleteObjectWait_response (K : Limits) (pre : List (List Callback)) :
    ∀ (s s' : MTPDevice) (t1 : List Callback) (cb : Callback) (t2 : List Callback)
      (post : List (List Callback)) (c : Nat),
      s.last_response_ = 0xffffffff →
      (∀ t ∈ pre, ∀ x ∈ t, responseCode x = none) →
      responseCode cb = some c → (∀ x ∈ t2, responseCode x = none) →
      deleteObjectWait K s (pre ++ (t1 ++ cb :: t2) :: post) = .ok s' →
      s'.last_response_ = c := by
  induction pre with
  | nil =>
    intro s s' t1 cb t2 post c hs _ hc hno h
    simp only [List.nil_append] at h
    unfold deleteObjectWait at h
    rw [if_pos hs] at h
    split at h
    · cases h
    · rename_i s1 h1
      have e1 := runTask_last_response K t1 s s1 cb t2 c hc hno h1
      have hne : s1.last_response_ ≠ 0xffffffff := by
        have := responseCode_lt cb c hc
        rw [e1]; omega
      rw [deleteObjectWait_done K s1 post hne] at h
      cases h; exact e1
  | cons t rest ih =>
    intro s s' t1 cb t2 post c hs hpre hc hno h
    simp only [List.cons_append] at h
    unfold deleteObjectWait at h
    rw [if_pos hs] at h
    split at h
    · cases h
    · rename_i s1 h1
      have e1 := runTask_no_response K t s s1 (hpre t (List.mem_cons_self _ _)) h1
      exact ih s1 s' t1 cb t2 post c (e1.trans hs)
        (fun x hx => hpre x (List.mem_cons_of_mem _ hx)) hc hno h

theorem tx_data_heap (s s' : MTPDevice) (h : tx_data s = .ok s') : s'.heap = s.heap := by
  unfold tx_data at h
  simp only at h
  repeat' split at h
  all_goals (cases h <;> rfl)

theorem runCallback_idle (K : Limits) (s s' : MTPDevice) (cb : Callback)
    (hidle : isIdle cb = true) (h : runCallback K s cb = .ok s') : s'.heap = s.heap := by
  cases cb with
  | rx_data len c =>
    simp only [isIdle, Bool.not_eq_true', Bool.and_eq_false_imp, decide_eq_true_eq,
      Bool.or_eq_false_iff, decide_eq_false_iff_not] at hidle
    simp only [runCallback, rx_data] at h
    split at h
    · rename_i hlen
      rw [if_neg (hidle hlen).1, if_neg (hidle hlen).2] at h
      cases h; rfl
    · cases h; rfl
  | tx_data => exact tx_data_heap s s' h
  | event_data len c => cases hidle

theorem runTask_idle (K : Limits) (t : List Callback) :
    ∀ (s s' : MTPDevice), (∀ cb ∈ t, isIdle cb = true) → runTask K s t = .ok s' →
      s'.heap = s.heap := by
  induction t with
  | nil => intro s s' _ h; cases h; rfl
  | cons cb rest ih =>
    intro s s' hidle h
    unfold runTask at h
    split at h
    · cases h
    · rename_i s1 h1
      exact (ih s1 s' (fun x hx => hidle x (List.mem_cons_of_mem _ hx)) h).trans
        (runCallback_idle K s s1 cb (hidle cb (List.mem_cons_self _ _)) h1)

theorem deleteObjectWait_idle (K : Limits) (tasks : List (List Callback)) :
    ∀ (s s' : MTPDevice), (∀ t ∈ tasks, ∀ cb ∈ t, isIdle cb = true) →
      deleteObjectWait K s tasks = .ok s' → s'.heap = s.heap := by
  induction tasks with
  | nil => intro s s' _ h; cases h; rfl
  | cons t rest ih =>
    intro s s' hidle h
    unfold deleteObjectWait at h
    split at h
    · split at h
      · cases h
      · rename_i s1 h1
        exact (ih s1 s' (fun x hx => hidle x (List.mem_cons_of_mem _ hx)) h).trans
          (runTask_idle K t s s1 (hidle t (List.mem_cons_self _ _)) h1)
    · cases h; rfl

theorem deleteObjectWait_nothing (K : Limits) (tasks : List (List Callback)) (s : MTPDevice)
    (h : ∀ t ∈ tasks, t = []) : deleteObjectWait K s tasks = .ok s := by
  induction tasks with
  | nil => rfl
  | cons t rest ih =>
    have ht : t = [] := h t (List.mem_cons_self _ _)
    subst ht
    unfold deleteObjectWait
    split
    · simp only [runTask]
      exact ih (fun x hx => h x (List.mem_cons_of_mem _ hx))
    · rfl

theorem responseOK_deleteObject (K : Limits) (s : MTPDevice) (c : List Nat)
    (h : s.last_mtp_op_ = MTP_OPERATION_DELETE_OBJECT) : responseOK K s c = .ok s := by
  have h1 : MTP_OPERATION_DELETE_OBJECT ≠ MTP_OPERATION_GET_DEVICE_INFO := by decide
  have h2 : MTP_OPERATION_DELETE_OBJECT ≠ MTP_OPERATION_OPEN_SESSION := by decide
  have h3 : MTP_OPERATION_DELETE_OBJECT ≠ MTP_OPERATION_GET_DEVICE_PROP_DESC := by decide
  have h4 : MTP_OPERATION_DELETE_OBJECT ≠ MTP_OPERATION_GET_STORAGE_IDS := by decide
  have h5 : MTP_OPERATION_DELETE_OBJECT ≠ MTP_OPERATION_GET_STORAGE_INFO := by decide
  have h6 : MTP_OPERATION_DELETE_OBJECT ≠ MTP_OPERATION_GET_OBJECT_PROPS_SUPPORTED := by decide
  have h7 : MTP_OPERATION_DELETE_OBJECT ≠ MTP_OPERATION_GET_OBJECT_PROP_DESC := by decide
  have h8 : MTP_OPERATION_DELETE_OBJECT ≠ MTP_OPERATION_GET_OBJECT_HANDLES := by decide
  have h9 : MTP_OPERATION_DELETE_OBJECT ≠ MTP_OPERATION_GET_OBJECT_PROP_VALUE := by decide
  have h10 : MTP_OPERATION_DELETE_OBJECT ≠ MTP_OPERATION_SEND_OBJECT_INFO := by decide
  have h11 : MTP_OPERATION_DELETE_OBJECT ≠ MTP_OPERATION_SEND_OBJECT := by decide
  simp only [responseOK, h, h1, h2, h3, h4, h5, h6, h7, h8, h9, h10, h11, if_false]

/-- A Response with the code `code` arriving while the last command is
`DeleteObject`: the code is recorded and nothing else changes. -/
theorem rx_response_deleteObject (K : Limits) (s : MTPDevice) (code : Nat)
    (hcode : code < 65536) (hop : s.last_mtp_op_ = MTP_OPERATION_DELETE_OBJECT) :
    runCallback K s (.rx_data 12 (responseContainer code))
      = .ok { s with last_response_ := code } := by
  have htype : MTPContainer.type (responseContainer code) = MTP_CONTAINER_TYPE_RESPONSE :=
    containerBytes_type _ _ _ _ _ (by decide)
  have hopc : MTPContainer.op (responseContainer code) = code :=
    containerBytes_op _ _ _ _ _ hcode
  have hnd : MTP_CONTAINER_TYPE_RESPONSE ≠ MTP_CONTAINER_TYPE_DATA := by decide
  simp only [runCallback, rx_data, htype, hnd, if_false, if_true, processMTPResponse, hopc,
    Nat.lt_irrefl, show (0 : Nat) < 12 by decide]
  split
  · exact responseOK_deleteObject K _ _ hop
  · rfl

theorem deleteObjectWait_answered (K : Limits) (code : Nat) (post : List (List Callback))
    (hcode : code < 65536) :
    ∀ (n : Nat) (s : MTPDevice), s.last_response_ = 0xffffffff →
      s.last_mtp_op_ = MTP_OPERATION_DELETE_OBJECT →
      deleteObjectWait K s
        (List.replicate n [] ++ [Callback.rx_data 12 (responseContainer code)] :: post)
        = .ok { s with last_response_ := code } := by
  intro n
  induction n with
  | zero =>
    intro s hs hop
    simp only [List.replicate_zero, List.nil_append]
    unfold deleteObjectWait
    rw [if_pos hs]
    simp only [runTask, rx_response_deleteObject K s code hcode hop]
    exact deleteObjectWait_done K _ post (by show code ≠ 0xffffffff; omega)
  | succ n ih =>
    intro s hs hop
    simp only [List.replicate_succ, List.cons_append]
    unfold deleteObjectWait
    rw [if_pos hs]
    simp only [runTask]
    exact ih s hs hop

theorem deleteObjectCommand_fields (tid id format : Nat) (hid : id < 4294967296)
    (hformat : format < 4294967296) :
    (deleteObjectCommand tid id format).length = 20 ∧
    MTPContainer.len (deleteObjectCommand tid id format) = 20 ∧
    MTPContainer.type (deleteObjectCommand tid id format) = MTP_CONTAINER_TYPE_COMMAND ∧
    MTPContainer.op (deleteObjectCommand tid id format) = MTP_OPERATION_DELETE_OBJECT ∧
    MTPContainer.params (deleteObjectCommand tid id format) 0 = id ∧
    MTPContainer.params (deleteObjectCommand tid id format) 1 = format := by
  have hbody : [id, format].flatMap write32 = write32 id ++ (write32 format ++ []) := rfl
  refine ⟨?_, ?_, ?_, ?_, ?_, ?_⟩
  · simp [deleteObjectCommand, commandContainer, containerBytes_length, write32]
  · exact containerBytes_len _ _ _ _ _ (by simp)
  · exact containerBytes_type _ _ _ _ _ (by decide)
  · exact containerBytes_op _ _ _ _ _ (by decide)
  · simp only [deleteObjectCommand, commandContainer, hbody]
    exact containerBytes_params_zero _ _ _ _ _ _ hid
  · simp only [deleteObjectCommand, commandContainer, hbody, MTPContainer.params,
      containerBytes_drop]
    have : (write32 id ++ (write32 format ++ [])).drop (4 * 1) = write32 format ++ [] := by
      simp [write32]
    simp only [Nat.mul_one] at this
    rw [show 12 + 4 * 1 = 12 + 4 from rfl, ← List.drop_drop, containerBytes_drop]
    rw [this, read32_write32 _ _ hformat]

theorem deleteObject_eq (K : Limits) (s : MTPDevice) (id format : Nat)
    (tasks : List (List Callback)) :
    deleteObject K s id format tasks
      = match deleteObjectWait K (deleteObjectSent s id format) tasks with
        | .error e => .error e
        | .ok s3 => .ok (s3, s3.last_response_) := rfl

theorem deleteObject_ok (K : Limits) (s s' : MTPDevice) (id format r : Nat)
    (tasks : List (List Callback)) (h : deleteObject K s id format tasks = .ok (s', r)) :
    deleteObjectWait K (deleteObjectSent s id format) tasks = .ok s' ∧
      r = s'.last_response_ := by
  rw [deleteObject_eq] at h
  split at h
  · cases h
  · rename_i s3 h3
    simp only [Except.ok.injEq, Prod.mk.injEq] at h
    obtain ⟨rfl, rfl⟩ := h
    exact ⟨h3, rfl⟩

/-- C18 (amended): `deleteObject(id, format, timeoutMS)` increments the
transaction counter once, stores the sentinel and queues a `DeleteObject`
command (20 bytes, parameters `id` and `format`) before it waits, and
returns `last_response_` as the wait leaves it.  If the wait ends without a
fault: with no Response among the callbacks dispatched the result is the
sentinel 0xFFFFFFFF; if the first call of `USBHost::Task()` that dispatches a
Response dispatches one with the code `c` last, the result is `c`; and if the
callbacks bring neither a Response nor a Data container nor an event, the
heap is the one before the call.  A wait in which nothing is dispatched
returns the sentinel, and a wait in which the first callback dispatched is a
Response with the code `code` returns `code`. -/
theorem deleteObject_contract (K : Limits) (s : MTPDevice) (id format : Nat)
    (tasks : List (List Callback)) (hid : id < 4294967296) (hformat : format < 4294967296) :
    ((deleteObjectSent s id format).increments = s.increments + 1 ∧
      (deleteObjectSent s id format).transaction_id_ = (s.transaction_id_ + 1) % 4294967296 ∧
      (deleteObjectSent s id format).last_response_ = 0xffffffff ∧
      (deleteObjectSent s id format).heap = s.heap ∧
      (deleteObjectSent s id format).bulk_out = s.bulk_out ++
        [deleteObjectCommand ((s.transaction_id_ + 1) % 4294967296) id format] ∧
      (deleteObjectCommand ((s.transaction_id_ + 1) % 4294967296) id format).length = 20 ∧
      MTPContainer.op (deleteObjectCommand ((s.transaction_id_ + 1) % 4294967296) id format)
        = MTP_OPERATION_DELETE_OBJECT ∧
      MTPContainer.params (deleteObjectCommand ((s.transaction_id_ + 1) % 4294967296) id format) 0
        = id ∧
      MTPContainer.params (deleteObjectCommand ((s.transaction_id_ + 1) % 4294967296) id format) 1
        = format) ∧
    (∀ s' r, deleteObject K s id format tasks = .ok (s', r) →
      deleteObjectWait K (deleteObjectSent s id format) tasks = .ok s' ∧
      r = s'.last_response_ ∧
      ((∀ t ∈ tasks, ∀ cb ∈ t, responseCode cb = none) → r = 0xffffffff) ∧
      (∀ pre t1 cb t2 post c, tasks = pre ++ (t1 ++ cb :: t2) :: post →
        (∀ t ∈ pre, ∀ x ∈ t, responseCode x = none) → responseCode cb = some c →
        (∀ x ∈ t2, responseCode x = none) → r = c) ∧
      ((∀ t ∈ tasks, ∀ cb ∈ t, isIdle cb = true) → s'.heap = s.heap)) ∧
    ((∀ t ∈ tasks, t = []) →
      deleteObject K s id format tasks = .ok (deleteObjectSent s id format, 0xffffffff)) ∧
    (∀ n code post, code < 65536 →
      tasks = List.replicate n [] ++ [Callback.rx_data 12 (responseContainer code)] :: post →
      deleteObject K s id format tasks
        = .ok ({ deleteObjectSent s id format with last_response_ := code }, code)) := by
  obtain ⟨hlen, _, _, hop, hp0, hp1⟩ :=
    deleteObjectCommand_fields ((s.transaction_id_ + 1) % 4294967296) id format hid hformat
  refine ⟨⟨rfl, rfl, rfl, rfl, ?_, hlen, hop, hp0, hp1⟩, ?_, ?_, ?_⟩
  · exact sendMsg_bulk_out _ _ _
  · intro s' r h
    obtain ⟨hw, hr⟩ := deleteObject_ok K s s' id format r tasks h
    refine ⟨hw, hr, ?_, ?_, ?_⟩
    · intro hno
      rw [hr, deleteObjectWait_no_response K tasks _ s' hno hw]
      rfl
    · intro pre t1 cb t2 post c htasks hpre hc hno
      rw [htasks] at hw
      rw [hr]
      exact deleteObjectWait_response K pre _ s' t1 cb t2 post c rfl hpre hc hno hw
    · intro hidle
      exact deleteObjectWait_idle K tasks (deleteObjectSent s id format) s' hidle hw
  · intro hnothing
    rw [deleteObject_eq, deleteObjectWait_nothing K tasks _ hnothing]
    rfl
  · intro n code post hcode htasks
    rw [deleteObject_eq, htasks,
      deleteObjectWait_answered K code post hcode n (deleteObjectSent s id format) rfl rfl]

/-- Witness for C18: the device answers the `DeleteObject(5)` command with
the Response OK at the second call of `USBHost::Task()`. -/
theorem deleteObject_contract_witness :
    deleteObject demoLimits twoChildren 5 0 answeredWait
      = .ok ({ deleteObjectSent twoChildren 5 0 with last_response_ := MTP_RESPONSE_OK },
          MTP_RESPONSE_OK) :=
  (deleteObject_contract demoLimits twoChildren 5 0 answeredWait (by decide) (by decide)).2.2.2
    1 MTP_RESPONSE_OK [] (by decide) rfl

/-- C18 fails as stated: an `ObjectRemoved(5)` event arrives during the wait
and no Response; the call returns the sentinel, and the child with the
handle 5 (address 2) is gone from the children of the storage root. -/
theorem deleteObject_contract_counterexample :
    (∀ t ∈ removalDuringWait, ∀ cb ∈ t, responseCode cb = none) ∧
    children twoChildren.heap 0 = .ok [2, 3] ∧
    ∃ s', deleteObject demoLimits twoChildren 5 0 removalDuringWait = .ok (s', 0xffffffff) ∧
      children s'.heap 0 = .ok [3] ∧ s'.heap ≠ twoChildren.heap :=
  ⟨by decide, rfl, _, rfl, rfl, by decide⟩

theorem Chain_mem_above {K : Limits} {m : Heap} (hL : LinksAbove K m) :
    ∀ (l : List Nat) (p : Ptr), Chain m p l → (∀ b, p = some b → K.MAX_STORAGES ≤ b) →
      ∀ a ∈ l, K.MAX_STORAGES ≤ a := by
  intro l
  induction l with
  | nil => intro p _ _ a ha; cases ha
  | cons x l ih =>
    intro p hc hp a ha
    obtain ⟨hpx, cell, hload, hrest⟩ := hc
    rcases List.mem_cons.mp ha with rfl | ha'
    · exact hp _ hpx
    · exact ih cell.next hrest (fun b hb => (hL x cell hload).2 b hb) a ha'

theorem PtrInv.mem_above {K : Limits} {m : Heap} (hL : LinksAbove K m) {Q : Nat}
    {cQ : storage_list_t} (hQ : load m Q = .ok cQ) {l : List Nat} (hc : Chain m cQ.child l) :
    ∀ a ∈ l, K.MAX_STORAGES ≤ a :=
  Chain_mem_above hL l cQ.child hc (fun b hb => (hL Q cQ hQ).1 b hb)

/-- A node is in the child list of at most one node. -/
theorem PtrInv.unique {m : Heap} (h : PtrInv m) {Q Q' a : Nat} {cQ cQ' : storage_list_t}
    {l l' : List Nat} (hQ : load m Q = .ok cQ) (hQ' : load m Q' = .ok cQ')
    (hl : Chain m cQ.child l) (hl' : Chain m cQ'.child l') (ha : a ∈ l) (ha' : a ∈ l') :
    Q = Q' := by
  obtain ⟨l1, hc1, hp1⟩ := h Q cQ hQ
  obtain ⟨l2, hc2, hp2⟩ := h Q' cQ' hQ'
  have e1 := Chain_functional hl hc1
  have e2 := Chain_functional hl' hc2
  subst e1; subst e2
  obtain ⟨ca, hca, hpa⟩ := hp1 a ha
  obtain ⟨ca', hca', hpa'⟩ := hp2 a ha'
  rw [hca] at hca'
  cases hca'
  rw [hpa] at hpa'
  exact Option.some.inj hpa'

/-- The parent of a node in a child list. -/
theorem PtrInv.parent {m : Heap} (h : PtrInv m) {Q a : Nat} {cQ ca : storage_list_t}
    {l : List Nat} (hQ : load m Q = .ok cQ) (hl : Chain m cQ.child l) (ha : a ∈ l)
    (hca : load m a = .ok ca) : ca.parent = some Q := by
  obtain ⟨l1, hc1, hp1⟩ := h Q cQ hQ
  have e1 := Chain_functional hl hc1
  subst e1
  obtain ⟨ca', hca', hpa⟩ := hp1 a ha
  rw [hca] at hca'
  cases hca'
  exact hpa

/-- Overwriting a live node with one that has the same links keeps the
invariant. -/
theorem PtrInv_store_sameLinks {m : Heap} {a : Nat} {c c' : storage_list_t}
    (h : PtrInv m) (hc : load m a = .ok c) (hs : SameLinks c c') : PtrInv (store m a c') := by
  have hlt := load_lt hc
  have hload : ∀ b cb, load m b = .ok cb → ∃ cb', load (store m a c') b = .ok cb' ∧
      SameLinks cb cb' := by
    intro b cb hb
    by_cases hba : b = a
    · subst hba
      rw [hc] at hb; cases hb
      exact ⟨c', load_store_same c' hlt, hs⟩
    · exact ⟨cb, by rw [load_store_ne c' (Ne.symm hba)]; exact hb, rfl, rfl, rfl⟩
  intro Q cQ' hQ'
  -- the cell of `Q` before the store
  have hQ : ∃ cQ, load m Q = .ok cQ ∧ SameLinks cQ cQ' := by
    by_cases hQa : Q = a
    · subst hQa
      rw [load_store_same c' hlt] at hQ'; cases hQ'
      exact ⟨c, hc, hs⟩
    · rw [load_store_ne c' (Ne.symm hQa)] at hQ'
      exact ⟨cQ', hQ', rfl, rfl, rfl⟩
  obtain ⟨cQ, hQm, hsQ⟩ := hQ
  obtain ⟨l, hl, hp⟩ := h Q cQ hQm
  refine ⟨l, ?_, ?_⟩
  · rw [hsQ.2.1]
    refine Chain_frame ?_ hl
    intro b _ cell hb
    obtain ⟨cb', hb', hs'⟩ := hload b cell hb
    exact ⟨cb', hb', hs'.2.2⟩
  · intro b hb
    obtain ⟨cb, hcb, hpb⟩ := hp b hb
    obtain ⟨cb', hb', hs'⟩ := hload b cb hcb
    exact ⟨cb', hb', hs'.1.trans hpb⟩

theorem LinksAbove_store {K : Limits} {m : Heap} {a : Nat} {c' : storage_list_t}
    (h : LinksAbove K m) (hlt : a < m.length)
    (hc : ∀ b, c'.child = some b → K.MAX_STORAGES ≤ b)
    (hn : ∀ b, c'.next = some b → K.MAX_STORAGES ≤ b) : LinksAbove K (store m a c') := by
  intro b cb hb
  by_cases hba : b = a
  · subst hba
    rw [load_store_same c' hlt] at hb; cases hb
    exact ⟨hc, hn⟩
  · rw [load_store_ne c' (Ne.symm hba)] at hb
    exact h b cb hb

theorem LinksAbove_store_sameLinks {K : Limits} {m : Heap} {a : Nat} {c c' : storage_list_t}
    (h : LinksAbove K m) (hc : load m a = .ok c) (hs : SameLinks c c') :
    LinksAbove K (store m a c') :=
  LinksAbove_store h (load_lt hc)
    (fun b hb => (h a c hc).1 b (by rw [← hs.2.1]; exact hb))
    (fun b hb => (h a c hc).2 b (by rw [← hs.2.2]; exact hb))

/-- A freshly allocated node without links keeps the invariant. -/
theorem PtrInv_append {m : Heap} {c : storage_list_t} (h : PtrInv m) (hchild : c.child = none) :
    PtrInv (m ++ [some c]) := by
  have hold : ∀ b cb, load m b = .ok cb → load (m ++ [some c]) b = .ok cb := by
    intro b cb hb
    rw [load_append_left _ (load_lt hb)]; exact hb
  intro Q cQ hQ
  by_cases hlt : Q < m.length
  · rw [load_append_left _ hlt] at hQ
    obtain ⟨l, hl, hp⟩ := h Q cQ hQ
    refine ⟨l, Chain_frame (fun b _ cell hb => ⟨cell, hold b cell hb, rfl⟩) hl, ?_⟩
    intro b hb
    obtain ⟨cb, hcb, hpb⟩ := hp b hb
    exact ⟨cb, hold b cb hcb, hpb⟩
  · have hlen := load_lt hQ
    simp only [List.length_append, List.length_singleton] at hlen
    have hQe : Q = m.length := by omega
    subst hQe
    rw [load_append_new] at hQ
    cases hQ
    exact ⟨[], (by rw [hchild]; rfl), fun a ha => by cases ha⟩

theorem LinksAbove_append {K : Limits} {m : Heap} {c : storage_list_t} (h : LinksAbove K m)
    (hchild : c.child = none) (hnext : c.next = none) : LinksAbove K (m ++ [some c]) := by
  intro b cb hb
  by_cases hlt : b < m.length
  · rw [load_append_left _ hlt] at hb
    exact h b cb hb
  · have hlen := load_lt hb
    simp only [List.length_append, List.length_singleton] at hlen
    have hbe : b = m.length := by omega
    subst hbe
    rw [load_append_new] at hb
    cases hb
    refine ⟨fun x hx => ?_, fun x hx => ?_⟩
    · rw [hchild] at hx; cases hx
    · rw [hnext] at hx; cases hx


theorem Freed.append {m m1 m2 : Heap} {F1 F2 : List Nat} (h1 : Freed m F1 m1)
    (h2 : Freed m1 F2 m2) : Freed m (F1 ++ F2) m2 := by
  refine ⟨h2.1.trans h1.1, fun b => ⟨fun hb => ?_, fun hb => ?_⟩⟩
  · by_cases hb2 : b ∈ F2
    · exact (h2.2 b).1 hb2
    · have hb1 : b ∈ F1 := by
        rcases List.mem_append.mp hb with h | h
        · exact h
        · exact absurd h hb2
      rw [(h2.2 b).2 hb2]
      exact (h1.2 b).1 hb1
  · have hb1 : b ∉ F1 := fun h => hb (List.mem_append.mpr (Or.inl h))
    have hb2 : b ∉ F2 := fun h => hb (List.mem_append.mpr (Or.inr h))
    rw [(h2.2 b).2 hb2]
    exact (h1.2 b).2 hb1

/-- What is live after blocks were freed was live before, with the same
content. -/
theorem Freed.load_before {m m' : Heap} {F : List Nat} (h : Freed m F m') {b : Nat}
    {cb : storage_list_t} (hb : load m' b = .ok cb) : load m b = .ok cb ∧ b ∉ F := by
  by_cases hF : b ∈ F
  · have := (h.2 b).1 hF
    rw [load_eq_ok, this] at hb
    cases hb
  · rw [h.load_of_not_mem hF] at hb
    exact ⟨hb, hF⟩

theorem freeNode_freed {m m' : Heap} {a : Nat} (h : freeNode m a = .ok m') :
    Freed m [a] m' ∧ ∃ c, load m a = .ok c := by
  unfold freeNode at h
  split at h
  · rename_i c hc
    cases h
    refine ⟨⟨by simp, fun b => ⟨fun hb => ?_, fun hb => ?_⟩⟩, c, hc⟩
    · have hba : b = a := by simpa using hb
      subst hba
      have hlt := load_lt hc
      simp [List.get?_eq_getElem?, List.getElem?_set, hlt]
    · have hba : a ≠ b := by
        intro e; apply hb; simp [e]
      simp [List.get?_eq_getElem?, List.getElem?_set, hba]
  · cases h

/-- The blocks `freeStorageListTree` frees, when it returns: each is on the
list the walk starts with, or on the child list of a block that is freed
too.  The heap `m` is the one before any block was freed, `mc` the current
one. -/
theorem freeStorageListTreeAux_freed {m : Heap}
    (hch : ∀ z cz, load m z = .ok cz → ∃ lz, Chain m cz.child lz) :
    ∀ (fuel : Nat) (mc : Heap) (p : Ptr) (l0 : List Nat) (m' : Heap),
      (∀ b cb, load mc b = .ok cb → load m b = .ok cb) → Chain m p l0 →
      freeStorageListTreeAux fuel mc p = .ok m' →
      ∃ F, Freed mc F m' ∧
        ∀ x ∈ F, x ∈ l0 ∨ ∃ z ∈ F, ∃ cz lz, load m z = .ok cz ∧ Chain m cz.child lz ∧ x ∈ lz := by
  intro fuel
  induction fuel with
  | zero => intro mc p l0 m' _ _ h; simp [freeStorageListTreeAux] at h
  | succ fuel ih =>
    intro mc p l0 m' hsub hchain h
    cases p with
    | none =>
      simp only [freeStorageListTreeAux] at h
      cases h
      exact ⟨[], Freed_nil mc, fun x hx => by cases hx⟩
    | some a =>
      cases l0 with
      | nil => cases hchain
      | cons a' l0' =>
        obtain ⟨hpa, cell, hcell, hrest⟩ := hchain
        have haa : a = a' := Option.some.inj hpa
        subst haa
        simp only [freeStorageListTreeAux] at h
        split at h
        · cases h
        · rename_i item hitem
          have hic : item = cell := by
            have := hsub a item hitem
            rw [hcell] at this
            exact (Except.ok.inj this).symm
          subst hic
          obtain ⟨lz, hlz⟩ := hch a item hcell
          split at h
          · cases h
          · rename_i m1 hm1
            -- the subtree below `a`
            have h1 : ∃ F1, Freed mc F1 m1 ∧ ∀ x ∈ F1, x ∈ lz ∨
                ∃ z ∈ F1, ∃ cz lz', load m z = .ok cz ∧ Chain m cz.child lz' ∧ x ∈ lz' := by
              split at hm1
              · exact ih mc item.child lz m1 hsub hlz hm1
              · cases hm1
                exact ⟨[], Freed_nil mc, fun x hx => by cases hx⟩
            obtain ⟨F1, hF1, hc1⟩ := h1
            split at h
            · cases h
            · rename_i m2 hm2
              obtain ⟨hF2, _⟩ := freeNode_freed hm2
              have hF12 : Freed mc (F1 ++ [a]) m2 := hF1.append hF2
              have hsub2 : ∀ b cb, load m2 b = .ok cb → load m b = .ok cb :=
                fun b cb hb => hsub b cb (hF12.load_before hb).1
              obtain ⟨F3, hF3, hc3⟩ := ih m2 item.next l0' m' hsub2 hrest h
              refine ⟨(F1 ++ [a]) ++ F3, hF12.append hF3, ?_⟩
              intro x hx
              rcases List.mem_append.mp hx with hx12 | hx3
              · rcases List.mem_append.mp hx12 with hx1 | hxa
                · right
                  rcases hc1 x hx1 with hxl | ⟨z, hz, cz, lz', hzl, hzc, hxz⟩
                  · exact ⟨a, by simp, item, lz, hcell, hlz, hxl⟩
                  · exact ⟨z, by simp [hz], cz, lz', hzl, hzc, hxz⟩
                · left
                  have : x = a := by simpa using hxa
                  simp [this]
              · rcases hc3 x hx3 with hxl | ⟨z, hz, cz, lz', hzl, hzc, hxz⟩
                · left; simp [hxl]
                · right
                  exact ⟨z, by simp [hz], cz, lz', hzl, hzc, hxz⟩

theorem LinksAbove_freed {K : Limits} {m m' : Heap} {F : List Nat} (h : LinksAbove K m)
    (hF : Freed m F m') : LinksAbove K m' :=
  fun a ca ha => h a ca (hF.load_before ha).1

/-- After `freeStorageListTree` has returned, the invariant holds for every
node whose child list shared no node with the list that was freed (the
nodes not in `ex`). -/
theorem PtrInv_free {m m' : Heap} {p : Ptr} {l0 : List Nat} (ex : Nat → Prop)
    (h : PtrInv m) (hp : Chain m p l0)
    (hdet : ∀ x ∈ l0, ∀ Q cQ lQ, load m Q = .ok cQ → Chain m cQ.child lQ → x ∈ lQ → ex Q)
    (hfree : freeStorageListTree m p = .ok m') :
    (∃ F, Freed m F m') ∧
    ∀ Q cQ, load m' Q = .ok cQ → ¬ ex Q →
      ∃ l, Chain m' cQ.child l ∧ ∀ a ∈ l, ∃ ca, load m' a = .ok ca ∧ ca.parent = some Q := by
  have hch : ∀ z cz, load m z = .ok cz → ∃ lz, Chain m cz.child lz :=
    fun z cz hz => (h z cz hz).imp fun l hl => hl.1
  obtain ⟨F, hF, hchar⟩ := freeStorageListTreeAux_freed hch (m.length + 1) m p l0 m'
    (fun _ _ hb => hb) hp hfree
  refine ⟨⟨F, hF⟩, ?_⟩
  intro Q cQ hQ' hex
  obtain ⟨hQ, hQF⟩ := hF.load_before hQ'
  obtain ⟨l, hl, hpar⟩ := h Q cQ hQ
  have hout : ∀ a ∈ l, a ∉ F := by
    intro a ha haF
    rcases hchar a haF with hal | ⟨z, hz, cz, lz, hzl, hzc, haz⟩
    · exact hex (hdet a hal Q cQ l hQ hl ha)
    · have : Q = z := h.unique hQ hzl hl hzc ha haz
      exact hQF (this ▸ hz)
  refine ⟨l, Chain_frame ?_ hl, ?_⟩
  · intro a ha cell hcell
    exact ⟨cell, by rw [hF.load_of_not_mem (hout a ha)]; exact hcell, rfl⟩
  · intro a ha
    obtain ⟨ca, hca, hpa⟩ := hpar a ha
    exact ⟨ca, by rw [hF.load_of_not_mem (hout a ha)]; exact hca, hpa⟩


/-- A store that keeps the `next` link of the node keeps every list. -/
theorem Chain_store_sameNext {m : Heap} {x : Nat} {cx cx' : storage_list_t} {l : List Nat}
    {p : Ptr} (hx : load m x = .ok cx) (hn : cx'.next = cx.next) (hc : Chain m p l) :
    Chain (store m x cx') p l := by
  refine Chain_frame ?_ hc
  intro a _ cell ha
  by_cases hax : a = x
  · subst hax
    rw [hx] at ha; cases ha
    exact ⟨cx', load_store_same cx' (load_lt hx), hn⟩
  · exact ⟨cell, by rw [load_store_ne cx' (Ne.symm hax)]; exact ha, rfl⟩

/-- The node after a member of a list is the next member. -/
theorem Chain_decomp_next {m : Heap} {b a : Nat} {cb : storage_list_t}
    (hb : load m b = .ok cb) (hn : cb.next = some a) :
    ∀ (l : List Nat) (p : Ptr), Chain m p l → b ∈ l → ∃ l1 l2, l = l1 ++ b :: a :: l2 := by
  intro l
  induction l with
  | nil => intro p _ h; cases h
  | cons x l ih =>
    intro p hc hbl
    obtain ⟨_, cell, hcell, hrest⟩ := hc
    rcases List.mem_cons.mp hbl with rfl | hbl'
    · rw [hb] at hcell; cases hcell
      rw [hn] at hrest
      cases l with
      | nil => cases hrest
      | cons y l' =>
        have : a = y := Option.some.inj hrest.1
        subst this
        exact ⟨[], l', rfl⟩
    · obtain ⟨l1, l2, e⟩ := ih cell.next hrest hbl'
      exact ⟨x :: l1, l2, by rw [e]; rfl⟩

/-- What the search loop of `process_object_removed_event` returns: null, or
a member of the list whose `next` link is the node looked for. -/
theorem findPrevSibling_result {m : Heap} {a : Nat} :
    ∀ (fuel : Nat) (l : List Nat) (q r : Ptr), Chain m q l →
      findPrevSibling fuel m q a = .ok r →
      r = none ∨ ∃ b cb, r = some b ∧ b ∈ l ∧ load m b = .ok cb ∧ cb.next = some a := by
  intro fuel
  induction fuel with
  | zero => intro l q r _ h; simp [findPrevSibling] at h
  | succ fuel ih =>
    intro l q r hc h
    cases q with
    | none =>
      simp only [findPrevSibling] at h
      cases h; exact Or.inl rfl
    | some x =>
      cases l with
      | nil => cases hc
      | cons y l' =>
        obtain ⟨hxy, cell, hcell, hrest⟩ := hc
        have : x = y := Option.some.inj hxy
        subst this
        simp only [findPrevSibling, hcell] at h
        split at h
        · rcases ih l' cell.next r hrest h with h0 | ⟨b, cb, hr, hbl, hcb, hnb⟩
          · exact Or.inl h0
          · exact Or.inr ⟨b, cb, hr, List.mem_cons_of_mem _ hbl, hcb, hnb⟩
        · rename_i hnext
          cases h
          refine Or.inr ⟨x, cell, rfl, List.mem_cons_self _ _, hcell, ?_⟩
          simpa using hnext

/-- The unlinking of `process_object_removed_event`, followed by
`node->next = nullptr`: the invariant still holds, and the node is on no
child list. -/
theorem PtrInv_unlink {K : Limits} {m m1 m2 : Heap} {R P : Nat} {n pn : storage_list_t}
    (h : PtrInv m) (hL : LinksAbove K m)
    (hR : load m R = .ok n) (hpar : n.parent = some P) (hP : load m P = .ok pn)
    (hu : unlinkFromParent m (some P) pn R n = .ok m1)
    (hm : modify m1 (some R) (fun x => { x with next := none }) = .ok m2) :
    PtrInv m2 ∧ LinksAbove K m2 ∧ m2.length = m.length ∧
    (∃ cR, load m2 R = .ok cR ∧ cR.next = none) ∧
    (∀ Q cQ lQ, load m2 Q = .ok cQ → Chain m2 cQ.child lQ → R ∉ lQ) := by
  obtain ⟨lP, hlP, hparP⟩ := h P pn hP
  have hndP := Chain_nodup hlP
  -- the heap after the unlinking: one store that takes `R` out of the list of `P`
  have key : ∃ (x : Nat) (cx cx' : storage_list_t) (lP' : List Nat),
      load m x = .ok cx ∧ m1 = store m x cx' ∧ cx'.parent = cx.parent ∧
      (∀ b, cx'.child = some b → K.MAX_STORAGES ≤ b) ∧
      (∀ b, cx'.next = some b → K.MAX_STORAGES ≤ b) ∧
      (∀ Q cQ, load m Q = .ok cQ → ∃ cQ' lQ, load m1 Q = .ok cQ' ∧ cQ'.parent = cQ.parent ∧
        Chain m1 cQ'.child lQ ∧ R ∉ lQ ∧ ∀ y ∈ lQ, ∃ cy, load m y = .ok cy ∧ cy.parent = some Q) := by
    have hnextR : ∀ b, n.next = some b → K.MAX_STORAGES ≤ b := (hL R n hR).2
    -- lists of the other nodes do not hold `R`
    have hother : ∀ Q cQ lQ, load m Q = .ok cQ → Chain m cQ.child lQ → Q ≠ P → R ∉ lQ := by
      intro Q cQ lQ hQ hlQ hQP hRl
      have := h.parent hQ hlQ hRl hR
      rw [hpar] at this
      exact hQP (Option.some.inj this).symm
    by_cases hfirst : pn.child = some R
    · -- `R` is the first child
      simp only [unlinkFromParent, if_pos hfirst] at hu
      rw [modify_some _ hP] at hu
      cases hu
      cases lP with
      | nil => rw [hfirst] at hlP; cases hlP
      | cons y l2 =>
        have hy : R = y := by
          have := hlP.1; rw [hfirst] at this; exact Option.some.inj this
        subst hy
        obtain ⟨_, cell, hcell, hrest⟩ := hlP
        rw [hR] at hcell; cases hcell
        refine ⟨P, pn, { pn with child := n.next }, l2, hP, rfl, rfl, hnextR,
          (hL P pn hP).2, ?_⟩
        intro Q cQ hQ
        by_cases hQP : Q = P
        · subst hQP
          rw [hP] at hQ; cases hQ
          refine ⟨_, l2, load_store_same _ (load_lt hP), rfl,
            Chain_store_sameNext hP rfl hrest, (List.nodup_cons.mp hndP).1, ?_⟩
          intro y hy
          exact hparP y (List.mem_cons_of_mem _ hy)
        · obtain ⟨lQ, hlQ, hpQ⟩ := h Q cQ hQ
          exact ⟨cQ, lQ, by rw [load_store_ne _ (Ne.symm hQP)]; exact hQ, rfl,
            Chain_store_sameNext hP rfl hlQ, hother Q cQ lQ hQ hlQ hQP, hpQ⟩
    · have hnotfirst := hfirst
      simp only [unlinkFromParent, if_neg hfirst] at hu
      cases hs : findPrevSibling (m.length + 1) m pn.child R with
      | error e => rw [hs] at hu; cases hu
      | ok r =>
      rw [hs] at hu
      cases r with
      | none =>
        -- the search found nothing
        simp only [Except.ok.injEq] at hu
        subst hu
        have hRl : R ∉ lP := by
          intro hRl
          · -- the search ends at null only if `R` is not after a member
            obtain ⟨l1, l2, e⟩ := List.append_of_mem hRl
            cases l1 with
            | nil =>
              subst e
              exact hnotfirst hlP.1
            | cons x l1' =>
              subst e
              obtain ⟨b, cb, hfound, _, _, _⟩ := @findPrevSibling_spec _ R l2 l1' x
                (m.length + 1) pn.child hlP (by
                  have := nodup_length_le hndP (fun a ha => by
                    obtain ⟨c, hc⟩ := Chain_live hlP a ha
                    exact load_lt hc)
                  simp only [List.length_cons, List.length_append] at this
                  omega)
              rw [hs] at hfound
              cases hfound
        refine ⟨R, n, n, lP, hR, (store_self hR).symm, rfl, (hL R n hR).1, hnextR, ?_⟩
        intro Q cQ hQ
        obtain ⟨lQ, hlQ, hpQ⟩ := h Q cQ hQ
        refine ⟨cQ, lQ, hQ, rfl, hlQ, ?_, hpQ⟩
        by_cases hQP : Q = P
        · subst hQP
          rw [hP] at hQ; cases hQ
          rw [Chain_functional hlQ hlP]
          exact hRl
        · exact hother Q cQ lQ hQ hlQ hQP
      | some b =>
        -- the search found the sibling before `R`
        simp only at hu
        rcases findPrevSibling_result (m.length + 1) lP pn.child (some b) hlP hs with h0 | h0
        · cases h0
        · obtain ⟨b', cb, hr, hbl, hcb, hnb⟩ := h0
          cases hr
          rw [modify_some _ hcb] at hu
          cases hu
          obtain ⟨l1, l2, e⟩ := Chain_decomp_next hcb hnb lP pn.child hlP hbl
          subst e
          have hnd := hndP
          obtain ⟨cR, hcR, hrestR⟩ := Chain_split (l1 ++ [b]) pn.child
            (by simpa using hlP)
          rw [hR] at hcR; cases hcR
          have hb_l1 : b ∉ l1 := by
            intro hb
            have := List.nodup_append.mp hnd
            exact this.2.2 hb (List.mem_cons_self _ _)
          have hb_l2 : b ∉ l2 := by
            have := (List.nodup_append.mp hnd).2.1
            have := (List.nodup_cons.mp this).1
            intro hb; exact this (List.mem_cons_of_mem _ hb)
          have hR_new : R ∉ l1 ++ b :: l2 := by
            intro hRn
            have h1 := List.nodup_append.mp hnd
            rcases List.mem_append.mp hRn with hR1 | hR2
            · exact h1.2.2 hR1 (List.mem_cons_of_mem _ (List.mem_cons_self _ _))
            · rcases List.mem_cons.mp hR2 with hRb | hR2'
              · have := (List.nodup_cons.mp h1.2.1).1
                exact this (hRb ▸ List.mem_cons_self _ _)
              · have := (List.nodup_cons.mp (List.nodup_cons.mp h1.2.1).2).1
                exact this hR2'
          refine ⟨b, cb, { cb with next := n.next }, l1 ++ b :: l2, hcb, rfl, rfl,
            (hL b cb hcb).1, hnextR, ?_⟩
          intro Q cQ hQ
          have hcell' : ∃ cQ', load (store m b { cb with next := n.next }) Q = .ok cQ' ∧
              cQ'.parent = cQ.parent ∧ cQ'.child = cQ.child := by
            by_cases hQb : Q = b
            · subst hQb
              rw [hcb] at hQ; cases hQ
              exact ⟨_, load_store_same _ (load_lt hcb), rfl, rfl⟩
            · exact ⟨cQ, by rw [load_store_ne _ (Ne.symm hQb)]; exact hQ, rfl, rfl⟩
          obtain ⟨cQ', hQ', hpQ', hcQ'⟩ := hcell'
          by_cases hQP : Q = P
          · subst hQP
            rw [hP] at hQ; cases hQ
            refine ⟨cQ', l1 ++ b :: l2, hQ', hpQ', ?_, hR_new, ?_⟩
            · rw [hcQ']
              exact Chain_relink hcb hrestR hb_l2 l1 pn.child hlP hb_l1
            · intro y hy
              apply hparP y
              rcases List.mem_append.mp hy with hy1 | hy2
              · exact List.mem_append.mpr (Or.inl hy1)
              · rcases List.mem_cons.mp hy2 with hyb | hy2'
                · exact List.mem_append.mpr (Or.inr (hyb ▸ List.mem_cons_self _ _))
                · exact List.mem_append.mpr (Or.inr
                    (List.mem_cons_of_mem _ (List.mem_cons_of_mem _ hy2')))
          · obtain ⟨lQ, hlQ, hpQ⟩ := h Q cQ hQ
            have hbQ : b ∉ lQ := fun hbQ => hQP (h.unique hQ hP hlQ hlP hbQ hbl)
            exact ⟨cQ', lQ, hQ', hpQ', by rw [hcQ']; exact Chain_store_other _ hlQ hbQ,
              hother Q cQ lQ hQ hlQ hQP, hpQ⟩
  obtain ⟨x, cx, cx', lP', hx, hm1, hxpar, hxc, hxn, hall⟩ := key
  -- then `R->next = nullptr`
  have hxlt := load_lt hx
  have hlive1 : ∀ Q cQ', load m1 Q = .ok cQ' → ∃ cQ, load m Q = .ok cQ := by
    intro Q cQ' hQ'
    by_cases hQx : Q = x
    · subst hQx; exact ⟨cx, hx⟩
    · rw [hm1, load_store_ne _ (Ne.symm hQx)] at hQ'
      exact ⟨cQ', hQ'⟩
  have hL1 : LinksAbove K m1 := by
    rw [hm1]
    exact LinksAbove_store hL hxlt hxc hxn
  obtain ⟨cR1, _, hR1, _, _⟩ := hall R n hR
  rw [modify_some _ hR1] at hm
  simp only [Except.ok.injEq] at hm
  subst hm
  have hR1lt := load_lt hR1
  -- every node of the new heap, with its list
  have hnode : ∀ Q cQ2, load (store m1 R { cR1 with next := none }) Q = .ok cQ2 →
      ∃ lQ, Chain (store m1 R { cR1 with next := none }) cQ2.child lQ ∧ R ∉ lQ ∧
        ∀ a ∈ lQ, ∃ ca, load (store m1 R { cR1 with next := none }) a = .ok ca ∧
          ca.parent = some Q := by
    intro Q cQ2 hQ2
    have hQ1 : ∃ cQ1, load m1 Q = .ok cQ1 ∧ cQ2.child = cQ1.child := by
      by_cases hQR : Q = R
      · subst hQR
        rw [load_store_same _ hR1lt] at hQ2
        cases hQ2
        exact ⟨cR1, hR1, rfl⟩
      · rw [load_store_ne _ (Ne.symm hQR)] at hQ2
        exact ⟨cQ2, hQ2, rfl⟩
    obtain ⟨cQ1, hQ1, hchild⟩ := hQ1
    obtain ⟨cQ, hQ⟩ := hlive1 Q cQ1 hQ1
    obtain ⟨cQ1', lQ, hQ1', _, hlQ, hRlQ, hparQ⟩ := hall Q cQ hQ
    rw [hQ1] at hQ1'
    cases hQ1'
    refine ⟨lQ, by rw [hchild]; exact Chain_store_other _ hlQ hRlQ, hRlQ, ?_⟩
    intro a ha
    obtain ⟨ca, hca, hpa⟩ := hparQ a ha
    obtain ⟨ca1, _, hca1, hpa1, _⟩ := hall a ca hca
    have haR : a ≠ R := fun e => hRlQ (e ▸ ha)
    exact ⟨ca1, by rw [load_store_ne _ (Ne.symm haR)]; exact hca1, hpa1.trans hpa⟩
  refine ⟨?_, ?_, ?_, ⟨_, load_store_same _ hR1lt, rfl⟩, ?_⟩
  · intro Q cQ2 hQ2
    obtain ⟨lQ, hlQ, _, hp⟩ := hnode Q cQ2 hQ2
    exact ⟨lQ, hlQ, hp⟩
  · exact LinksAbove_store hL1 hR1lt (hL1 R cR1 hR1).1 (fun b hb => by cases hb)
  · rw [store_length, hm1, store_length]
  · intro Q cQ2 lQ hQ2 hlQ
    obtain ⟨lQ', hlQ', hR', _⟩ := hnode Q cQ2 hQ2
    rw [Chain_functional hlQ hlQ']
    exact hR'

theorem RingClean.transport {K : Limits} {s s' : MTPDevice} (hs : SameRing s s')
    (h : RingClean K s) : RingClean K s' := by
  obtain ⟨a1, a2, a3, a4, a5, a6, a7⟩ := hs
  obtain ⟨n, done, hcore, hact, hclean⟩ := h
  refine ⟨n, done, hcore.of_frame ⟨a1, a2, a5, a6, a7, fun j => by rw [a4]⟩,
    fun ha => hact (by rw [← a3]; exact ha), ?_⟩
  intro k hk
  rw [a4, a2]
  exact hclean k hk

/-- A step that leaves the ring alone and the heap and the cursor sound. -/
theorem Sound.frameRing {K : Limits} {s s' : MTPDevice} (h : Sound K s)
    (hring : SameRing s s') (hheap : HeapOk K s'.heap) (hcur : CursorOk K s') : Sound K s' :=
  ⟨hheap, hcur, h.2.2.transport hring⟩

/-- A step that changes neither the heap, nor the cursor, nor the ring. -/
theorem Sound.of_same {K : Limits} {s s' : MTPDevice} (h : Sound K s)
    (hring : SameRing s s') (hheap : s'.heap = s.heap) (hcur : s'.prop_node_ = s.prop_node_) :
    Sound K s' :=
  h.frameRing hring (hheap ▸ h.1) (fun a ha => h.2.1 a (hcur ▸ ha))

theorem HeapOk_store_sameLinks {K : Limits} {m : Heap} {a : Nat} {c c' : storage_list_t}
    (h : HeapOk K m) (hc : load m a = .ok c) (hs : SameLinks c c') : HeapOk K (store m a c') :=
  ⟨PtrInv_store_sameLinks h.1 hc hs, LinksAbove_store_sameLinks h.2.1 hc hs,
    by rw [store_length]; exact h.2.2⟩

/-- `process_object_added_event`: the new node is on no list and has no
children; the slot keeps its deletion mark. -/
theorem process_object_added_event_sound {K : Limits} (s s' : MTPDevice) (i : Nat) (b : Bool)
    (hs : HeapOk K s.heap) (h : process_object_added_event s i = .ok (s', b)) :
    HeapOk K s'.heap ∧ CursorOk K s' ∧
    (∀ j, (s'.pending_events_ j).delete_node = (s.pending_events_ j).delete_node) ∧
    (b = true → s'.heap = s.heap) := by
  unfold process_object_added_event at h
  simp only at h
  split at h
  · rename_i hnone
    simp only [Except.ok.injEq, Prod.mk.injEq] at h
    obtain ⟨rfl, rfl⟩ := h
    have hheap : (extmem_malloc s.heap s.malloc_outcomes).2.1 = s.heap := by
      unfold extmem_malloc at hnone ⊢
      split <;> simp_all
    refine ⟨by rw [show _ = (extmem_malloc s.heap s.malloc_outcomes).2.1 from rfl, hheap]; exact hs,
      fun a ha => ?_, fun _ => rfl, fun _ => hheap⟩
    have : (extmem_malloc s.heap s.malloc_outcomes).1 = some a := ha
    rw [hnone] at this
    cases this
  · rename_i a hsome
    simp only [Except.ok.injEq, Prod.mk.injEq] at h
    obtain ⟨rfl, rfl⟩ := h
    have hres : a = s.heap.length ∧
        (extmem_malloc s.heap s.malloc_outcomes).2.1 = s.heap ++ [some zeroNode] := by
      unfold extmem_malloc at hsome ⊢
      split at hsome <;> simp_all
    obtain ⟨ha, hheap⟩ := hres
    have hok1 : HeapOk K (s.heap ++ [some zeroNode]) :=
      ⟨PtrInv_append hs.1 rfl, LinksAbove_append hs.2.1 rfl rfl,
        by simp only [List.length_append, List.length_singleton]; have := hs.2.2; omega⟩
    have hload : load (s.heap ++ [some zeroNode]) a = .ok zeroNode := by
      rw [ha]; exact load_append_new _ _
    refine ⟨?_, fun x hx => ?_, fun j => ?_, fun hb => by cases hb⟩
    · show HeapOk K (store (extmem_malloc s.heap s.malloc_outcomes).2.1 a _)
      rw [hheap]
      exact HeapOk_store_sameLinks hok1 hload ⟨rfl, rfl, rfl⟩
    · have : (extmem_malloc s.heap s.malloc_outcomes).1 = some x := hx
      rw [hsome] at this
      cases this
      rw [ha]; exact hs.2.2
    · show (setAt s.pending_events_ i _ j).delete_node = _
      unfold setAt
      split
      · subst_vars; rfl
      · rfl

/-- `process_object_removed_event`: the slot is marked for deletion; if a
node was found it has been taken off the child list of its parent and is on
no list any more. -/
theorem process_object_removed_event_sound {K : Limits} (s s1 : MTPDevice) (i : Nat) (b : Bool)
    (hs : HeapOk K s.heap) (h : process_object_removed_event s i = .ok (s1, b)) :
    s1.prop_node_ = s.prop_node_ ∧ (∀ j, j ≠ i → s1.pending_events_ j = s.pending_events_ j) ∧
    (((s1.pending_events_ i).item_node = none ∧ s1.heap = s.heap) ∨
      ∃ R, (s1.pending_events_ i).item_node = some R ∧ HeapOk K s1.heap ∧
        (∃ cR, load s1.heap R = .ok cR ∧ cR.next = none) ∧
        ∀ Q cQ lQ, load s1.heap Q = .ok cQ → Chain s1.heap cQ.child lQ → R ∉ lQ) := by
  have hslot : ∀ (node : Ptr) (j : Nat), j ≠ i → setAt s.pending_events_ i
      { s.pending_events_ i with item_node := node, delete_node := true } j
        = s.pending_events_ j := fun node j hj => by
    simp [setAt, hj]
  have hitem : ∀ (node : Ptr), (setAt s.pending_events_ i
      { s.pending_events_ i with item_node := node, delete_node := true } i).item_node
        = node := fun node => by
    simp [setAt]
  unfold process_object_removed_event at h
  split at h
  · cases h
  · rename_i node hfind
    simp only at h
    split at h
    · simp only [Except.ok.injEq, Prod.mk.injEq] at h
      obtain ⟨rfl, rfl⟩ := h
      exact ⟨rfl, hslot none, Or.inl ⟨hitem none, rfl⟩⟩
    · rename_i R
      split at h
      · cases h
      · rename_i n hn
        split at h
        · cases h
        · rename_i pn hpn
          split at h
          · cases h
          · rename_i m1 hm1
            split at h
            · cases h
            · rename_i m2 hm2
              simp only [Except.ok.injEq, Prod.mk.injEq] at h
              obtain ⟨rfl, rfl⟩ := h
              refine ⟨rfl, hslot (some R), Or.inr ⟨R, hitem (some R), ?_⟩⟩
              -- the parent pointer is not null, or `deref` would have failed
              have hn' : load s.heap R = .ok n := hn
              cases hp : n.parent with
              | none =>
                rw [hp] at hpn
                simp [deref] at hpn
              | some P =>
                rw [hp] at hpn hm1
                have hP : load s.heap P = .ok pn := hpn
                obtain ⟨g1, g2, g3, g4, g5⟩ := PtrInv_unlink hs.1 hs.2.1 hn' hp hP hm1 hm2
                exact ⟨⟨g1, g2, by rw [g3]; exact hs.2.2⟩, g4, g5⟩

theorem completeActiveEvent_heap (K : Limits) (s s' : MTPDevice)
    (h : completeActiveEvent K s = .ok s') :
    s'.prop_node_ = s.prop_node_ ∧
    (if (s.pending_events_ s.pending_events_tail_).delete_node = true ∧
        ((s.pending_events_ s.pending_events_tail_).item_node.isSome = true) then
      freeStorageListTree s.heap (s.pending_events_ s.pending_events_tail_).item_node
        = .ok s'.heap
    else s'.heap = s.heap) := by
  unfold completeActiveEvent at h
  simp only at h
  split at h
  · cases h
  · rename_i m hm
    simp only [Except.ok.injEq] at h
    subst h
    refine ⟨by split <;> rfl, ?_⟩
    split at hm
    · rename_i hc
      rw [if_pos hc]
      rw [← hm]
      congr 1
      split <;> rfl
    · rename_i hc
      rw [if_neg hc]
      simp only [Except.ok.injEq] at hm
      rw [← hm]
      split <;> rfl

theorem Chain_single {m : Heap} {R : Nat} {cR : storage_list_t} (hR : load m R = .ok cR)
    (hn : cR.next = none) : Chain m (some R) [R] :=
  ⟨rfl, cR, hR, by rw [hn]; rfl⟩

/-- Freeing a node that is on no child list keeps the heap sound. -/
theorem HeapOk_free_detached {K : Limits} {m m' : Heap} {R : Nat} {cR : storage_list_t}
    (h : HeapOk K m) (hR : load m R = .ok cR) (hn : cR.next = none)
    (hdet : ∀ Q cQ lQ, load m Q = .ok cQ → Chain m cQ.child lQ → R ∉ lQ)
    (hfree : freeStorageListTree m (some R) = .ok m') : HeapOk K m' := by
  obtain ⟨⟨F, hF⟩, hinv⟩ := PtrInv_free (fun _ => False) h.1 (Chain_single hR hn)
    (fun x hx Q cQ lQ hQ hlQ hxl => by
      have : x = R := by simpa using hx
      subst this
      exact hdet Q cQ lQ hQ hlQ hxl) hfree
  exact ⟨fun Q cQ hQ => hinv Q cQ hQ (fun hf => hf), LinksAbove_freed h.2.1 hF,
    by rw [hF.1]; exact h.2.2⟩

theorem SlotsClean_tail {K : Limits} {s : MTPDevice} {n : Nat} {done : List (Nat × Nat × Nat)}
    (hcore : RingCore K s n done) (hn : 0 < n) (hclean : SlotsClean K s n) :
    (s.pending_events_ s.pending_events_tail_).delete_node = false := by
  have := hclean 0 hn
  rw [ringIdx_zero K _ hcore.1] at this
  exact this

/-- After the completion of the event at the tail the remaining pending
slots are clean, whatever was written into the slot at the tail. -/
theorem SlotsClean_complete {K : Limits} {s s1 s2 : MTPDevice} {n : Nat}
    {done : List (Nat × Nat × Nat)}
    (hcore : RingCore K s n done) (hn : 0 < n) (hclean : SlotsClean K s n)
    (htail : s1.pending_events_tail_ = s.pending_events_tail_)
    (hslots : ∀ j, j ≠ s.pending_events_tail_ →
      (s1.pending_events_ j).delete_node = (s.pending_events_ j).delete_node)
    (hc : completeActiveEvent K s1 = .ok s2) : SlotsClean K s2 (n - 1) := by
  obtain ⟨_, c2, _, _, _, c6, _⟩ := completeActiveEvent_spec K s1 s2 hc
  obtain ⟨h1, h2, _, _, _⟩ := hcore
  intro k hk
  rw [c6, c2, htail, ringIdx_succ K _ k h1 (by omega)]
  have hne : ringIdx K s.pending_events_tail_ (k + 1) ≠ s.pending_events_tail_ := by
    intro e
    have e' : ringIdx K s.pending_events_tail_ (k + 1) = ringIdx K s.pending_events_tail_ 0 := by
      rw [ringIdx_zero K _ h1]; exact e
    have := ringIdx_inj K _ (k + 1) 0 h1 (by omega) (by omega) e'
    omega
  rw [hslots _ hne]
  exact hclean (k + 1) (by omega)

theorem Sound_start_aux (K : Limits) (fuel : Nat) :
    ∀ (s s' : MTPDevice), Sound K s → start_process_next_eventAux K fuel s = .ok s' →
      Sound K s' := by
  induction fuel with
  | zero => intro s s' _ h; simp [start_process_next_eventAux] at h
  | succ fuel ih =>
    intro s s' hinv h
    unfold start_process_next_eventAux at h
    split at h
    · simp only [Except.ok.injEq] at h; subst h; exact hinv
    · rename_i hne
      obtain ⟨hheap, hcur, n, done, hcore, _, hclean⟩ := hinv
      have hn : 0 < n := hcore.head_ne_tail hne
      have htailclean := SlotsClean_tail hcore hn hclean
      simp only at h
      split at h
      · cases h
      · rename_i s1 event_completed hh
        -- what the handler leaves behind
        have hframe : RingFrame s s1 ∧ (event_completed = false →
            s1.pending_events_active_ = true) := by
          split at hh
          · have := process_object_added_event_frame _ _ _ _ hh
            exact ⟨this.1, this.2.1⟩
          · split at hh
            · have := process_object_removed_event_frame _ _ _ _ hh
              exact ⟨this.1, fun hb => by simp [this.2.1] at hb⟩
            · simp only [Except.ok.injEq, Prod.mk.injEq] at hh
              obtain ⟨rfl, rfl⟩ := hh
              exact ⟨RingFrame.same _, fun hb => by simp at hb⟩
        have hcore1 : RingCore K s1 n done := hcore.of_frame hframe.1
        have htail1 : s1.pending_events_tail_ = s.pending_events_tail_ := hframe.1.2.1
        have hslots : ∀ j, j ≠ s.pending_events_tail_ →
            (s1.pending_events_ j).delete_node = (s.pending_events_ j).delete_node := by
          split at hh
          · exact fun j _ => (process_object_added_event_sound s s1 _ _ hheap hh).2.2.1 j
          · split at hh
            · exact fun j hj => by
                rw [(process_object_removed_event_sound s s1 _ _ hheap hh).2.1 j hj]
            · simp only [Except.ok.injEq, Prod.mk.injEq] at hh
              obtain ⟨rfl, rfl⟩ := hh
              exact fun _ _ => rfl
        split at h
        · -- the event is complete at once
          rename_i hdone
          split at h
          · cases h
          · rename_i s2 hc
            have hcore1' : RingCore K { s1 with pending_events_active_ := true } n done :=
              hcore1.of_frame ⟨rfl, rfl, rfl, rfl, rfl, fun _ => rfl⟩
            have hcomp := hcore1'.complete hn hc
            have hclean2 : SlotsClean K s2 (n - 1) :=
              @SlotsClean_complete K s { s1 with pending_events_active_ := true } s2 n done
                hcore hn hclean htail1 hslots hc
            obtain ⟨hprop2, hfree2⟩ := completeActiveEvent_heap K _ s2 hc
            have hsound2 : HeapOk K s2.heap ∧ CursorOk K s2 := by
              split at hh
              · -- `ObjectAdded` with a failed allocation
                obtain ⟨g1, g2, g3, g4⟩ := process_object_added_event_sound s s1 _ _ hheap hh
                have hcl : ¬ ((s1.pending_events_ s1.pending_events_tail_).delete_node = true ∧
                    (s1.pending_events_ s1.pending_events_tail_).item_node.isSome = true) := by
                  rw [g3, htail1, htailclean]
                  simp
                rw [if_neg hcl] at hfree2
                exact ⟨by rw [hfree2]; exact g1, fun a ha => g2 a (by rw [← hprop2]; exact ha)⟩
              · split at hh
                · -- `ObjectRemoved`
                  obtain ⟨g1, _, g3⟩ := process_object_removed_event_sound s s1 _ _ hheap hh
                  have hcur2 : CursorOk K s2 := fun a ha =>
                    hcur a (by rw [← g1, ← hprop2]; exact ha)
                  rcases g3 with ⟨hnone, hsame⟩ | ⟨R, hitem, hok1, ⟨cR, hcR, hnext⟩, hdet⟩
                  · have hcl : ¬ ((s1.pending_events_ s1.pending_events_tail_).delete_node = true ∧
                        (s1.pending_events_ s1.pending_events_tail_).item_node.isSome = true) := by
                      rw [htail1, hnone]
                      simp
                    rw [if_neg hcl] at hfree2
                    exact ⟨by rw [hfree2]; show HeapOk K s1.heap; rw [hsame]; exact hheap, hcur2⟩
                  · split at hfree2
                    · have hitem' : (s1.pending_events_ s1.pending_events_tail_).item_node
                          = some R := by rw [htail1]; exact hitem
                      have hfree3 : freeStorageListTree s1.heap (some R) = .ok s2.heap := by
                        rw [← hitem']; exact hfree2
                      exact ⟨HeapOk_free_detached hok1 hcR hnext hdet hfree3, hcur2⟩
                    · exact ⟨by rw [hfree2]; exact hok1, hcur2⟩
                · -- any other event
                  simp only [Except.ok.injEq, Prod.mk.injEq] at hh
                  obtain ⟨rfl, rfl⟩ := hh
                  have hcl : ¬ ((s.pending_events_ s.pending_events_tail_).delete_node = true ∧
                      (s.pending_events_ s.pending_events_tail_).item_node.isSome = true) := by
                    rw [htailclean]
                    simp
                  rw [if_neg hcl] at hfree2
                  exact ⟨by rw [hfree2]; exact hheap, fun a ha => hcur a (by rw [← hprop2]; exact ha)⟩
            exact ih s2 s' ⟨hsound2.1, hsound2.2, _, _, hcomp.1,
              fun ha => by simp [hcomp.2] at ha, hclean2⟩ h
        · -- the event waits for its property values
          rename_i hb
          simp only [Except.ok.injEq] at h
          subst h
          have hadded : HeapOk K s1.heap ∧ CursorOk K s1 ∧
              ∀ j, (s1.pending_events_ j).delete_node = (s.pending_events_ j).delete_node := by
            split at hh
            · obtain ⟨g1, g2, g3, _⟩ := process_object_added_event_sound s s1 _ _ hheap hh
              exact ⟨g1, g2, g3⟩
            · split at hh
              · have := (process_object_removed_event_frame _ _ _ _ hh).2.1
                exact absurd this hb
              · simp only [Except.ok.injEq, Prod.mk.injEq] at hh
                obtain ⟨rfl, rfl⟩ := hh
                exact absurd rfl hb
          refine ⟨hadded.1, hadded.2.1, n, done, hcore1, fun _ => hn, ?_⟩
          intro k hk
          rw [hadded.2.2, htail1]
          exact hclean k hk


theorem Sound_start (K : Limits) (s s' : MTPDevice) (hinv : Sound K s)
    (h : start_process_next_event K s = .ok s') : Sound K s' :=
  Sound_start_aux K _ s s' hinv h

theorem Sound_complete_processing_event (K : Limits) (s s' : MTPDevice) (b : Bool)
    (hinv : Sound K s) (h : complete_processing_event K s b = .ok s') : Sound K s' := by
  unfold complete_processing_event at h
  split at h
  · rename_i hact
    obtain ⟨hheap, hcur, n, done, hcore, hn, hclean⟩ := hinv
    split at h
    · cases h
    · rename_i s1 hc
      have hcomp := hcore.complete (hn hact) hc
      obtain ⟨hprop, hfree⟩ := completeActiveEvent_heap K s s1 hc
      have hcl : ¬ ((s.pending_events_ s.pending_events_tail_).delete_node = true ∧
          (s.pending_events_ s.pending_events_tail_).item_node.isSome = true) := by
        rw [SlotsClean_tail hcore (hn hact) hclean]
        simp
      rw [if_neg hcl] at hfree
      have hinv1 : Sound K s1 :=
        ⟨by rw [hfree]; exact hheap, fun a ha => hcur a (by rw [← hprop]; exact ha), _, _,
          hcomp.1, fun ha => by simp [hcomp.2] at ha,
          SlotsClean_complete hcore (hn hact) hclean rfl (fun _ _ => rfl) hc⟩
      split at h
      · exact Sound_start K s1 s' hinv1 h
      · simp only [Except.ok.injEq] at h; subst h; exact hinv1
  · simp only [Except.ok.injEq] at h; subst h; exact hinv

theorem Sound_add_event_to_list (K : Limits) (s s' : MTPDevice) (op id prop_code : Nat)
    (hinv : Sound K s) (h : add_event_to_list K s op id prop_code = .ok s') :
    Sound K s' := by
  rw [add_event_to_list_eq] at h
  by_cases hroom : nextHead K s ≠ s.pending_events_tail_
  · rw [if_pos hroom] at h
    obtain ⟨hheap, hcur, n, done, hcore, _, hclean⟩ := hinv
    have hn1 := hcore.room hroom
    have hclean1 : SlotsClean K (enqueued K s op id prop_code) (n + 1) := by
      intro k hk
      show (setAt s.pending_events_ s.pending_events_head_ (newSlot op id prop_code)
        (ringIdx K s.pending_events_tail_ k)).delete_node = false
      unfold setAt
      split
      · rfl
      · rename_i hne
        have hkn : k ≠ n := by
          intro e
          apply hne
          rw [e, hcore.2.2.1]
        exact hclean k (by omega)
    have hinv1 : Sound K (enqueued K s op id prop_code) :=
      ⟨hheap, hcur, n + 1, done, hcore.enqueued hroom op id prop_code,
        fun _ => Nat.succ_pos n, hclean1⟩
    by_cases hempty : s.pending_events_head_ = s.pending_events_tail_
    · rw [if_pos hempty] at h
      exact Sound_start K _ s' hinv1 h
    · rw [if_neg hempty] at h
      simp only [Except.ok.injEq] at h; subst h; exact hinv1
  · rw [if_neg hroom] at h
    simp only [Except.ok.injEq] at h; subst h; exact hinv

theorem Sound_event_data (K : Limits) (s s' : MTPDevice) (len : Nat) (c : List Nat)
    (hinv : Sound K s) (h : event_data K s len c = .ok s') : Sound K s' := by
  unfold event_data at h
  simp only at h
  repeat' split at h
  all_goals first
    | exact Sound_add_event_to_list K s s' _ _ _ hinv h
    | (cases h; exact hinv)


/-- What the loop `while (parent_item->next)` returns: the last node of the
list. -/
theorem lastSibling_last {m : Heap} :
    ∀ (fuel : Nat) (l : List Nat) (ch x : Nat), Chain m (some ch) l →
      lastSibling fuel m ch = .ok x → ∃ l', l = l' ++ [x] := by
  intro fuel
  induction fuel with
  | zero => intro l ch x _ h; simp [lastSibling] at h
  | succ fuel ih =>
    intro l ch x hc h
    cases l with
    | nil => cases hc
    | cons y l' =>
      obtain ⟨hy, cell, hcell, hrest⟩ := hc
      have : ch = y := Option.some.inj hy
      subst this
      simp only [lastSibling, hcell] at h
      split at h
      · rename_i b hb
        rw [hb] at hrest
        obtain ⟨l'', e⟩ := ih l' b x hrest h
        exact ⟨ch :: l'', by rw [e]; rfl⟩
      · rename_i hb
        cases h
        rw [hb] at hrest
        cases l' with
        | nil => exact ⟨[], rfl⟩
        | cons z l'' =>
          obtain ⟨h1, _⟩ := hrest
          cases h1

/-- Storing a node that is on no child list, with its `child` link kept or
set to null. -/
theorem PtrInv_store_off_list {m : Heap} {a : Nat} {n n' : storage_list_t}
    (h : PtrInv m) (hn : load m a = .ok n) (hchild : n'.child = n.child ∨ n'.child = none)
    (hoff : ∀ Q cQ lQ, load m Q = .ok cQ → Chain m cQ.child lQ → a ∉ lQ) :
    PtrInv (store m a n') ∧
    ∀ Q cQ lQ, load m Q = .ok cQ → Chain m cQ.child lQ → Chain (store m a n') cQ.child lQ := by
  have hlt := load_lt hn
  have hchains : ∀ Q cQ lQ, load m Q = .ok cQ → Chain m cQ.child lQ →
      Chain (store m a n') cQ.child lQ :=
    fun Q cQ lQ hQ hlQ => Chain_store_other _ hlQ (hoff Q cQ lQ hQ hlQ)
  refine ⟨?_, hchains⟩
  intro Q cQ' hQ'
  have hQ : ∃ cQ, load m Q = .ok cQ ∧ (cQ'.child = cQ.child ∨ cQ'.child = none) := by
    by_cases hQa : Q = a
    · subst hQa
      rw [load_store_same _ hlt] at hQ'; cases hQ'
      exact ⟨n, hn, hchild⟩
    · rw [load_store_ne _ (Ne.symm hQa)] at hQ'
      exact ⟨cQ', hQ', Or.inl rfl⟩
  obtain ⟨cQ, hQm, hc⟩ := hQ
  rcases hc with hc | hc
  · obtain ⟨l, hl, hp⟩ := h Q cQ hQm
    refine ⟨l, by rw [hc]; exact hchains Q cQ l hQm hl, ?_⟩
    intro b hb
    obtain ⟨cb, hcb, hpb⟩ := hp b hb
    have hba : b ≠ a := fun e => hoff Q cQ l hQm hl (e ▸ hb)
    exact ⟨cb, by rw [load_store_ne _ (Ne.symm hba)]; exact hcb, hpb⟩
  · exact ⟨[], by rw [hc]; rfl, fun b hb => by cases hb⟩

/-- A node without a parent is on no child list. -/
theorem PtrInv.off_list {m : Heap} (h : PtrInv m) {a : Nat} {n : storage_list_t}
    (hn : load m a = .ok n) (hpar : n.parent = none) :
    ∀ Q cQ lQ, load m Q = .ok cQ → Chain m cQ.child lQ → a ∉ lQ := by
  intro Q cQ lQ hQ hlQ ha
  have := h.parent hQ hlQ ha hn
  rw [hpar] at this
  cases this

/-- The linking of the `MTP_PROPERTY_PARENT_OBJECT` case: a node without a
parent is given the parent `p` and put at the end of the child list of
`p`. -/
theorem HeapOk_link_parent {K : Limits} {m m' : Heap} {a p : Nat} {n pn1 : storage_list_t}
    (sid : Nat)
    (h : HeapOk K m) (hn : load m a = .ok n) (hpar : n.parent = none)
    (ha : K.MAX_STORAGES ≤ a)
    (hp1 : load (store m a { n with parent := some p, storage_id := sid, next := none }) p
      = .ok pn1)
    (hlink : (match pn1.child with
      | some ch =>
        match lastSibling
            ((store m a { n with parent := some p, storage_id := sid, next := none }).length + 1)
            (store m a { n with parent := some p, storage_id := sid, next := none }) ch with
        | Except.error e => Except.error e
        | Except.ok l =>
          modify (store m a { n with parent := some p, storage_id := sid, next := none })
            (some l) (fun x => { x with next := some a })
      | none => modify (store m a { n with parent := some p, storage_id := sid, next := none })
          (some p) (fun x => { x with child := some a })) = Except.ok m') :
    HeapOk K m' := by
  obtain ⟨hinv, hL, hlen⟩ := h
  have halt := load_lt hn
  have hoff := hinv.off_list hn hpar
  set n1 : storage_list_t := { n with parent := some p, storage_id := sid, next := none }
    with hn1
  set m1 := store m a n1 with hm1
  obtain ⟨hinv1, hchains1⟩ := @PtrInv_store_off_list m a n n1 hinv hn (Or.inl rfl) hoff
  have hL1 : LinksAbove K m1 :=
    LinksAbove_store hL halt (hL a n hn).1 (fun b hb => by cases hb)
  have ha1 : load m1 a = .ok n1 := load_store_same _ halt
  have hoff1 : ∀ Q cQ lQ, load m1 Q = .ok cQ → Chain m1 cQ.child lQ → a ∉ lQ := by
    intro Q cQ lQ hQ hlQ hal
    -- the list is the one of the heap before
    have hQ0 : ∃ cQ0, load m Q = .ok cQ0 ∧ cQ.child = cQ0.child := by
      by_cases hQa : Q = a
      · subst hQa
        rw [ha1] at hQ; cases hQ
        exact ⟨n, hn, rfl⟩
      · rw [hm1, load_store_ne _ (Ne.symm hQa)] at hQ
        exact ⟨cQ, hQ, rfl⟩
    obtain ⟨cQ0, hQ0, hc⟩ := hQ0
    obtain ⟨l0, hl0, _⟩ := hinv Q cQ0 hQ0
    have := hchains1 Q cQ0 l0 hQ0 hl0
    rw [← hc] at this
    rw [Chain_functional hlQ this] at hal
    exact hoff Q cQ0 l0 hQ0 hl0 hal
  have hsingle : Chain m1 (some a) [a] := Chain_single ha1 rfl
  obtain ⟨lP, hlP, hparP⟩ := hinv1 p pn1 hp1
  have haP : a ∉ lP := hoff1 p pn1 lP hp1 hlP
  have hp1lt := load_lt hp1
  cases hch : pn1.child with
  | none =>
    rw [hch] at hlink hlP
    simp only at hlink
    rw [modify_some _ hp1] at hlink
    simp only [Except.ok.injEq] at hlink
    subst hlink
    have hcell : ∀ Q cQ', load (store m1 p { pn1 with child := some a }) Q = .ok cQ' →
        ∃ cQ, load m1 Q = .ok cQ ∧ cQ'.parent = cQ.parent ∧ cQ'.next = cQ.next ∧
          (Q ≠ p → cQ'.child = cQ.child) ∧ (Q = p → cQ'.child = some a) := by
      intro Q cQ' hQ'
      by_cases hQp : Q = p
      · subst hQp
        rw [load_store_same _ hp1lt] at hQ'; cases hQ'
        exact ⟨pn1, hp1, rfl, rfl, fun hne => absurd rfl hne, fun _ => rfl⟩
      · rw [load_store_ne _ (Ne.symm hQp)] at hQ'
        exact ⟨cQ', hQ', rfl, rfl, fun _ => rfl, fun e => absurd e hQp⟩
    have hfwd : ∀ b cb, load m1 b = .ok cb →
        ∃ cb', load (store m1 p { pn1 with child := some a }) b = .ok cb' ∧
          cb'.parent = cb.parent ∧ cb'.next = cb.next := by
      intro b cb hb
      by_cases hbp : b = p
      · subst hbp
        rw [hp1] at hb; cases hb
        exact ⟨_, load_store_same _ hp1lt, rfl, rfl⟩
      · exact ⟨cb, by rw [load_store_ne _ (Ne.symm hbp)]; exact hb, rfl, rfl⟩
    refine ⟨?_, ?_, by rw [store_length]; exact (store_length m a n1).symm ▸ hlen⟩
    · intro Q cQ' hQ'
      obtain ⟨cQ, hQ, _, _, hne, heq⟩ := hcell Q cQ' hQ'
      by_cases hQp : Q = p
      · subst hQp
        rw [heq rfl]
        refine ⟨[a], Chain_store_sameNext hp1 rfl hsingle, ?_⟩
        intro b hb
        have hba : b = a := by simpa using hb
        subst hba
        obtain ⟨cb', hcb', hpb', _⟩ := hfwd b n1 ha1
        exact ⟨cb', hcb', hpb'⟩
      · obtain ⟨l, hl, hpl⟩ := hinv1 Q cQ hQ
        rw [hne hQp]
        refine ⟨l, Chain_store_sameNext hp1 rfl hl, ?_⟩
        intro b hb
        obtain ⟨cb, hcb, hpb⟩ := hpl b hb
        obtain ⟨cb', hcb', hpb', _⟩ := hfwd b cb hcb
        exact ⟨cb', hcb', hpb'.trans hpb⟩
    · exact LinksAbove_store hL1 hp1lt (fun b hb => by
        have : b = a := (Option.some.inj hb).symm
        rw [this]; exact ha) (hL1 p pn1 hp1).2
  | some ch =>
    rw [hch] at hlink hlP
    simp only at hlink
    cases hls : lastSibling (m1.length + 1) m1 ch with
    | error e => rw [hls] at hlink; cases hlink
    | ok x =>
      rw [hls] at hlink
      simp only at hlink
      obtain ⟨l', e⟩ := lastSibling_last _ lP ch x hlP hls
      subst e
      have hxP : x ∈ l' ++ [x] := by simp
      obtain ⟨cx, hcx⟩ := Chain_live hlP x hxP
      rw [modify_some _ hcx] at hlink
      simp only [Except.ok.injEq] at hlink
      subst hlink
      have hxlt := load_lt hcx
      have hxa : x ≠ a := fun e => haP (e ▸ hxP)
      have hnd := Chain_nodup hlP
      have hx_l' : x ∉ l' := by
        intro hx
        exact (List.nodup_append.mp hnd).2.2 hx (List.mem_singleton_self x)
      have hfwd : ∀ b cb, load m1 b = .ok cb →
          ∃ cb', load (store m1 x { cx with next := some a }) b = .ok cb' ∧
            cb'.parent = cb.parent ∧ cb'.child = cb.child := by
        intro b cb hb
        by_cases hbx : b = x
        · subst hbx
          rw [hcx] at hb; cases hb
          exact ⟨_, load_store_same _ hxlt, rfl, rfl⟩
        · exact ⟨cb, by rw [load_store_ne _ (Ne.symm hbx)]; exact hb, rfl, rfl⟩
      have hback : ∀ Q cQ', load (store m1 x { cx with next := some a }) Q = .ok cQ' →
          ∃ cQ, load m1 Q = .ok cQ ∧ cQ'.child = cQ.child := by
        intro Q cQ' hQ'
        by_cases hQx : Q = x
        · subst hQx
          rw [load_store_same _ hxlt] at hQ'; cases hQ'
          exact ⟨cx, hcx, rfl⟩
        · rw [load_store_ne _ (Ne.symm hQx)] at hQ'
          exact ⟨cQ', hQ', rfl⟩
      refine ⟨?_, ?_, by rw [store_length]; exact (store_length m a n1).symm ▸ hlen⟩
      · intro Q cQ' hQ'
        obtain ⟨cQ, hQ, hc⟩ := hback Q cQ' hQ'
        rw [hc]
        by_cases hQp : Q = p
        · subst hQp
          rw [hp1] at hQ; cases hQ
          rw [hch]
          refine ⟨l' ++ x :: [a], ?_, ?_⟩
          · exact Chain_relink hcx hsingle (by simpa using hxa) l' (some ch)
              (by simpa using hlP) hx_l'
          · intro b hb
            have hb' : b ∈ l' ++ [x] ∨ b = a := by
              rcases List.mem_append.mp hb with h1 | h2
              · exact Or.inl (List.mem_append.mpr (Or.inl h1))
              · rcases List.mem_cons.mp h2 with h3 | h4
                · exact Or.inl (List.mem_append.mpr (Or.inr (h3 ▸ List.mem_singleton_self x)))
                · exact Or.inr (by simpa using h4)
            rcases hb' with hbP | hba
            · obtain ⟨cb, hcb, hpb⟩ := hparP b hbP
              obtain ⟨cb', hcb', hpb', _⟩ := hfwd b cb hcb
              exact ⟨cb', hcb', hpb'.trans hpb⟩
            · subst hba
              obtain ⟨cb', hcb', hpb', _⟩ := hfwd b n1 ha1
              exact ⟨cb', hcb', hpb'⟩
        · obtain ⟨l, hl, hpl⟩ := hinv1 Q cQ hQ
          have hxl : x ∉ l := fun hx => hQp (hinv1.unique hQ hp1 hl (by rw [hch]; exact hlP) hx hxP)
          refine ⟨l, Chain_store_other _ hl hxl, ?_⟩
          intro b hb
          obtain ⟨cb, hcb, hpb⟩ := hpl b hb
          obtain ⟨cb', hcb', hpb', _⟩ := hfwd b cb hcb
          exact ⟨cb', hcb', hpb'.trans hpb⟩
      · exact LinksAbove_store hL1 hxlt (hL1 x cx hcx).1 (fun b hb => by
          have : b = a := (Option.some.inj hb).symm
          rw [this]; exact ha)

theorem setParentObject_heapOk {K : Limits} (s : MTPDevice) (a : Nat) (pdata : List Nat)
    (m' : Heap) (h : HeapOk K s.heap) (ha : K.MAX_STORAGES ≤ a)
    (hr : setParentObject s a pdata = .ok m') : HeapOk K m' := by
  unfold setParentObject at hr
  simp only at hr
  split at hr
  · cases hr
  · rename_i n hn
    split at hr
    · split at hr
      · cases hr
      · cases hr; exact h
    · rename_i hpar
      split at hr
      · cases hr
      · cases hr; exact h
      · rename_i p _
        split at hr
        · cases hr
        · rename_i pn hpn
          split at hr
          · cases hr
          · rename_i pn1 hpn1
            exact HeapOk_link_parent pn.storage_id h hn hpar ha hpn1 hr

theorem modify_sameLinks_heapOk {K : Limits} {m m' : Heap} {a : Nat}
    (f : storage_list_t → storage_list_t) (hf : ∀ c, SameLinks c (f c))
    (h : HeapOk K m) (hm : modify m (some a) f = .ok m') : HeapOk K m' := by
  unfold modify at hm
  simp only at hm
  split at hm
  · rename_i n hn
    cases hm
    exact HeapOk_store_sameLinks h hn (hf n)
  · cases hm

theorem processGetObjectPropValue_sound (K : Limits) (s s' : MTPDevice) (c : List Nat)
    (h : Sound K s) (hr : processGetObjectPropValue s c = .ok s') : Sound K s' := by
  have hring := processGetObjectPropValue_sameRing s s' c hr
  have hsl : ∀ (a : Nat) (m : Heap) (g : storage_list_t → storage_list_t),
      modify s.heap (some a) g = .ok m → (∀ x, SameLinks x (g x)) → HeapOk K m :=
    fun a m g hm hg => modify_sameLinks_heapOk g hg h.1 hm
  unfold processGetObjectPropValue at hr
  simp only at hr
  split at hr
  · cases hr; exact h
  · rename_i a hprop
    have ha : K.MAX_STORAGES ≤ a := h.2.1 a hprop
    split at hr
    · split at hr
      · cases hr
      · rename_i m hm
        cases hr
        exact h.frameRing hring (hsl a m _ hm (fun _ => ⟨rfl, rfl, rfl⟩)) h.2.1
    split at hr
    · split at hr
      · cases hr
      · rename_i m hm
        cases hr
        exact h.frameRing hring (hsl a m _ hm (fun _ => ⟨rfl, rfl, rfl⟩)) h.2.1
    split at hr
    · split at hr
      · cases hr
      · rename_i m hm
        cases hr
        exact h.frameRing hring (hsl a m _ hm (fun _ => ⟨rfl, rfl, rfl⟩)) h.2.1
    split at hr
    · split at hr
      · cases hr
      · rename_i m hm
        cases hr
        exact h.frameRing hring (hsl a m _ hm (fun _ => ⟨rfl, rfl, rfl⟩)) h.2.1
    split at hr
    · split at hr
      · cases hr
      · rename_i m hm
        cases hr
        exact h.frameRing hring (hsl a m _ hm (fun _ => ⟨rfl, rfl, rfl⟩)) h.2.1
    split at hr
    · split at hr
      · cases hr
      · rename_i m hm
        cases hr
        exact h.frameRing hring (setParentObject_heapOk s a _ m h.1 ha hm) h.2.1
    · cases hr; exact h

theorem processGetStorageIDsLoop_heapOk {K : Limits} :
    ∀ (n i : Nat) (m m' : Heap) (pdata : List Nat), HeapOk K m →
      processGetStorageIDsLoop n i m pdata = .ok m' → HeapOk K m' := by
  intro n
  induction n with
  | zero => intro i m m' pdata h hr; simp only [processGetStorageIDsLoop] at hr; cases hr; exact h
  | succ n ih =>
    intro i m m' pdata h hr
    simp only [processGetStorageIDsLoop] at hr
    split at hr
    · cases hr
    · rename_i m1 hm1
      have hsl : ∀ (g : storage_list_t → storage_list_t),
          modify m (some i) g = .ok m1 → (∀ x, SameLinks x (g x)) → HeapOk K m1 :=
        fun g hm hg => modify_sameLinks_heapOk g hg h hm
      exact ih (i + 1) m1 m' _ (hsl _ hm1 (fun _ => ⟨rfl, rfl, rfl⟩)) hr

theorem processGetStorageIDs_sound (K : Limits) (s s' : MTPDevice) (c : List Nat)
    (h : Sound K s) (hr : processGetStorageIDs K s c = .ok s') : Sound K s' := by
  have hring := processGetStorageIDs_sameRing K s s' c hr
  unfold processGetStorageIDs at hr
  simp only at hr
  split at hr
  · cases hr
  · rename_i m hm
    cases hr
    exact h.frameRing hring (processGetStorageIDsLoop_heapOk _ _ _ _ _ h.1 hm) h.2.1

theorem processGetStoreInfo_sound (K : Limits) (s s' : MTPDevice) (c : List Nat)
    (h : Sound K s) (hr : processGetStoreInfo K s c = .ok s') : Sound K s' := by
  have hring := processGetStoreInfo_sameRing K s s' c hr
  unfold processGetStoreInfo at hr
  simp only at hr
  split at hr
  · cases hr
  · rename_i hidx
    split at hr
    · cases hr
    · rename_i m hm
      cases hr
      refine h.frameRing hring ?_ h.2.1
      obtain ⟨hinv, hL, hlen⟩ := h.1
      unfold modify at hm
      simp only at hm
      split at hm
      · rename_i n hn
        cases hm
        have hoff : ∀ Q cQ lQ, load s.heap Q = .ok cQ → Chain s.heap cQ.child lQ →
            s.get_store_info_index_ ∉ lQ := by
          intro Q cQ lQ hQ hlQ hmem
          have := PtrInv.mem_above hL hQ hlQ _ hmem
          omega
        refine ⟨(PtrInv_store_off_list hinv hn (Or.inr rfl) hoff).1, ?_,
          by rw [store_length]; exact hlen⟩
        exact LinksAbove_store hL (load_lt hn) (fun b hb => by cases hb) (hL _ n hn).2
      · cases hm


/-- One round of the loop of `disconnect`: the children of a node are freed
and its `child` link is cleared. -/
theorem HeapOk_free_children {K : Limits} {m m2 m3 : Heap} {i : Nat} {root : storage_list_t}
    (h : HeapOk K m) (hroot : load m i = .ok root)
    (hfree : freeStorageListTree m root.child = .ok m2)
    (hclear : modify m2 (some i) (fun x => { x with child := none }) = .ok m3) :
    HeapOk K m3 := by
  obtain ⟨hinv, hL, hlen⟩ := h
  obtain ⟨lR, hlR, _⟩ := hinv i root hroot
  obtain ⟨⟨F, hF⟩, hrest⟩ := PtrInv_free (fun Q => Q = i) hinv hlR
    (fun x hx Q cQ lQ hQ hlQ hxl => hinv.unique hQ hroot hlQ hlR hxl hx) hfree
  have hL2 : LinksAbove K m2 := LinksAbove_freed hL hF
  unfold modify at hclear
  simp only at hclear
  split at hclear
  · rename_i r2 hr2
    cases hclear
    have hlt := load_lt hr2
    refine ⟨?_, LinksAbove_store hL2 hlt (fun b hb => by cases hb) (hL2 i r2 hr2).2,
      by rw [store_length, hF.1]; exact hlen⟩
    intro Q cQ hQ
    by_cases hQi : Q = i
    · subst hQi
      rw [load_store_same _ hlt] at hQ
      cases hQ
      exact ⟨[], rfl, fun b hb => by cases hb⟩
    · rw [load_store_ne _ (Ne.symm hQi)] at hQ
      obtain ⟨l, hl, hp⟩ := hrest Q cQ hQ hQi
      refine ⟨l, Chain_store_sameNext hr2 rfl hl, ?_⟩
      intro b hb
      obtain ⟨cb, hcb, hpb⟩ := hp b hb
      by_cases hbi : b = i
      · subst hbi
        rw [hr2] at hcb; cases hcb
        exact ⟨_, load_store_same _ hlt, hpb⟩
      · exact ⟨cb, by rw [load_store_ne _ (Ne.symm hbi)]; exact hcb, hpb⟩
  · cases hclear

theorem disconnectLoop_heapOk {K : Limits} :
    ∀ (n i : Nat) (m : Heap) (info : Nat → storage_info_t) (r : Heap × (Nat → storage_info_t)),
      HeapOk K m → disconnectLoop n i m info = .ok r → HeapOk K r.1 := by
  intro n
  induction n with
  | zero =>
    intro i m info r h hr
    simp only [disconnectLoop] at hr
    cases hr; exact h
  | succ n ih =>
    intro i m info r h hr
    simp only [disconnectLoop] at hr
    split at hr
    · cases hr
    · rename_i m1 hm1
      have hsl : ∀ (g : storage_list_t → storage_list_t),
          modify m (some i) g = .ok m1 → (∀ x, SameLinks x (g x)) → HeapOk K m1 :=
        fun g hm hg => modify_sameLinks_heapOk g hg h hm
      have h1 : HeapOk K m1 := hsl _ hm1 (fun _ => ⟨rfl, rfl, rfl⟩)
      split at hr
      · cases hr
      · rename_i root hroot
        split at hr
        · cases hr
        · rename_i m2 hm2
          split at hr
          · cases hr
          · rename_i m3 hm3
            exact ih (i + 1) m3 _ r (HeapOk_free_children h1 hroot hm2 hm3) hr

theorem disconnect_sound (K : Limits) (s s' : MTPDevice) (h : Sound K s)
    (hr : disconnect s = .ok s') : Sound K s' := by
  have hring := disconnect_sameRing s s' hr
  unfold disconnect at hr
  split at hr
  · cases hr
  · rename_i m info hloop
    cases hr
    exact h.frameRing hring (disconnectLoop_heapOk _ _ _ _ (m, info) h.1 hloop)
      (fun a ha => by cases ha)

theorem lastOr_nil (prev : Ptr) : lastOr prev [] = prev := rfl

theorem lastOr_append_one (prev : Ptr) (l : List Nat) (p : Nat) :
    lastOr prev (l ++ [p]) = some p := by
  simp [lastOr]

/-- The search through the old child list always returns: nothing, or the
first node with the id looked for together with its predecessor. -/
theorem findOldChild_total {m : Heap} {h : Nat} :
    ∀ (l : List Nat) (fuel : Nat) (prev p : Ptr), Chain m p l → l.length < fuel →
      ∃ pr r, findOldChild fuel m h prev p = .ok (pr, r) ∧
        (r = none ∨ ∃ l1 a l2, l = l1 ++ a :: l2 ∧ r = some a ∧ pr = lastOr prev l1) := by
  intro l
  induction l with
  | nil =>
    intro fuel prev p hc hf
    have hp : p = none := hc
    subst hp
    obtain ⟨f, rfl⟩ : ∃ f, fuel = f + 1 := ⟨fuel - 1, by simp at hf; omega⟩
    exact ⟨prev, none, rfl, Or.inl rfl⟩
  | cons x l ih =>
    intro fuel prev p hc hf
    obtain ⟨hp, cell, hcell, hrest⟩ := hc
    subst hp
    obtain ⟨f, rfl⟩ : ∃ f, fuel = f + 1 := ⟨fuel - 1, by simp at hf; omega⟩
    simp only [findOldChild, hcell]
    by_cases hid : cell.id ≠ h
    · rw [if_pos hid]
      obtain ⟨pr, r, hres, hchar⟩ := ih f (some x) cell.next hrest
        (by simp at hf; omega)
      refine ⟨pr, r, hres, ?_⟩
      rcases hchar with h0 | ⟨l1, a, l2, e, hr, hpr⟩
      · exact Or.inl h0
      · refine Or.inr ⟨x :: l1, a, l2, by rw [e]; rfl, hr, ?_⟩
        rw [hpr, lastOr_cons]
    · rw [if_neg hid]
      exact ⟨prev, some x, rfl, Or.inr ⟨[], x, l, rfl, rfl, rfl⟩⟩

/-- A store inside the loop that respects the frame. -/
theorem FrameP.store {K : Limits} {e : Nat} {m0 : Heap} {old0 : List Nat} {m : Heap}
    (h : FrameP K e m0 old0 m) (he0 : e < m0.length) {x : Nat} {cx cx' : storage_list_t}
    (hx : load m x = .ok cx) (hpar : cx'.parent = cx.parent)
    (hchild : x ≠ e → cx'.child = cx.child)
    (hnext : x < m0.length → x ∉ old0 → cx'.next = cx.next)
    (hca : ∀ b, cx'.child = some b → K.MAX_STORAGES ≤ b)
    (hna : ∀ b, cx'.next = some b → K.MAX_STORAGES ≤ b) :
    FrameP K e m0 old0 (MTP.store m x cx') := by
  have hlt := load_lt hx
  refine ⟨by rw [store_length]; exact h.len, ?_, ?_, ?_, LinksAbove_store h.links hlt hca hna⟩
  · intro b cb hb
    obtain ⟨cb', hb', h1, h2, h3⟩ := h.keep b cb hb
    by_cases hbx : b = x
    · subst hbx
      rw [hx] at hb'; cases hb'
      refine ⟨cx', load_store_same _ hlt, hpar.trans h1, fun hne => (hchild hne).trans (h2 hne),
        fun hno => (hnext (load_lt hb) hno).trans (h3 hno)⟩
    · exact ⟨cb', by rw [load_store_ne _ (Ne.symm hbx)]; exact hb', h1, h2, h3⟩
  · intro b cb' hb hb'
    by_cases hbx : b = x
    · subst hbx
      exact h.dead b cx hb hx
    · rw [load_store_ne _ (Ne.symm hbx)] at hb'
      exact h.dead b cb' hb hb'
  · intro b cb' hb hb'
    by_cases hbx : b = x
    · subst hbx
      rw [load_store_same _ hlt] at hb'
      cases hb'
      rw [hchild (by omega)]
      exact h.fresh b cx hb hx
    · rw [load_store_ne _ (Ne.symm hbx)] at hb'
      exact h.fresh b cb' hb hb'

/-- Parents are kept by a store that keeps the parent. -/
theorem parents_store {m : Heap} {e x : Nat} {cx : storage_list_t} (cx' : storage_list_t)
    {S : List Nat} (h : ∀ y ∈ S, ∃ cy, load m y = .ok cy ∧ cy.parent = some e)
    (hx : load m x = .ok cx) (hpar : cx'.parent = cx.parent) :
    ∀ y ∈ S, ∃ cy, load (MTP.store m x cx') y = .ok cy ∧ cy.parent = some e := by
  intro y hy
  obtain ⟨cy, hcy, hp⟩ := h y hy
  by_cases hyx : y = x
  · subst hyx
    rw [hx] at hcy; cases hcy
    exact ⟨cx', load_store_same _ (load_lt hx), hpar.trans hp⟩
  · exact ⟨cy, by rw [load_store_ne _ (Ne.symm hyx)]; exact hcy, hp⟩

/-- The tail of an iteration for a child that is on neither list: the child
is appended to the new children. -/
theorem appendChild_P {K : Limits} {e : Nat} {m0 : Heap} {old0 : List Nat} {L : HandlesLoop}
    {old new : List Nat} {c : Nat} {cc : storage_list_t}
    (hinv : LoopP K e m0 old0 L old new) (he0 : e < m0.length)
    (hc : load L.heap c = .ok cc) (hco : c ∉ old) (hcn : c ∉ new)
    (hpar : cc.parent = some e) (habove : K.MAX_STORAGES ≤ c)
    (hsrc : c ∈ old0 ∨ m0.length ≤ c) :
    ∃ L', appendChild e L c = .ok L' ∧ LoopP K e m0 old0 L' old (new ++ [c]) ∧
      L'.old_child_list = L.old_child_list ∧ L'.malloc_outcomes = L.malloc_outcomes := by
  obtain ⟨⟨en, hen, hnew⟩, hold, hlast, hnd, hos, hns, hp, hab, hfr⟩ := hinv
  have hclt := load_lt hc
  -- `child->next = nullptr`
  have hc1 : load (MTP.store L.heap c { cc with next := none }) c
      = .ok { cc with next := none } := load_store_same _ hclt
  have hen1 : ∃ en1, load (MTP.store L.heap c { cc with next := none }) e = .ok en1 ∧
      en1.child = en.child := by
    by_cases hec : e = c
    · subst hec
      rw [hc] at hen; cases hen
      exact ⟨_, hc1, rfl⟩
    · exact ⟨en, by rw [load_store_ne _ (Ne.symm hec)]; exact hen, rfl⟩
  obtain ⟨en1, hen1, hen1c⟩ := hen1
  have hnew1 : Chain (MTP.store L.heap c { cc with next := none }) en.child new :=
    Chain_store_other _ hnew hcn
  have hold1 : Chain (MTP.store L.heap c { cc with next := none }) L.old_child_list old :=
    Chain_store_other _ hold hco
  have hsingle : Chain (MTP.store L.heap c { cc with next := none }) (some c) [c] :=
    Chain_single hc1 rfl
  have hfr1 : FrameP K e m0 old0 (MTP.store L.heap c { cc with next := none }) :=
    hfr.store he0 hc rfl (fun _ => rfl)
      (fun hlt hno => by rcases hsrc with h1 | h1
                         · exact absurd h1 hno
                         · omega)
      (hfr.links c cc hc).1 (fun b hb => by cases hb)
  have hp1 := parents_store { cc with next := none } hp hc rfl
  have hpc1 : ∃ cy, load (MTP.store L.heap c { cc with next := none }) c = .ok cy ∧
      cy.parent = some e := ⟨_, hc1, hpar⟩
  have hco_nd : (old ++ (new ++ [c])).Nodup := by
    rw [← List.append_assoc]
    refine List.nodup_append.mpr ⟨hnd, List.nodup_singleton c, ?_⟩
    intro x hx hxc
    have : x = c := by simpa using hxc
    subst this
    rcases List.mem_append.mp hx with h1 | h1
    · exact hco h1
    · exact hcn h1
  have hns' : ∀ x ∈ new ++ [c], x ∈ old0 ∨ m0.length ≤ x := by
    intro x hx
    rcases List.mem_append.mp hx with h1 | h1
    · exact hns x h1
    · have : x = c := by simpa using h1
      subst this; exact hsrc
  have hab' : ∀ x ∈ old ++ (new ++ [c]), K.MAX_STORAGES ≤ x := by
    intro x hx
    rw [← List.append_assoc] at hx
    rcases List.mem_append.mp hx with h1 | h1
    · exact hab x h1
    · have : x = c := by simpa using h1
      subst this; exact habove
  simp only [appendChild, modify_some _ hc]
  rcases List.eq_nil_or_concat new with hnil | ⟨new', l, hcons⟩
  · -- the first child
    subst hnil
    have hl : L.last_added_child = none := hlast
    simp only [linkAtEnd, hl, modify_some _ hen1]
    refine ⟨_, rfl, ⟨?_, ?_, ?_, hco_nd, hos, hns', ?_, hab', ?_⟩, rfl, rfl⟩
    · exact ⟨_, load_store_same _ (load_lt hen1), Chain_store_sameNext hen1 rfl hsingle⟩
    · exact Chain_store_sameNext hen1 rfl hold1
    · rfl
    · intro x hx
      rw [← List.append_assoc] at hx
      rcases List.mem_append.mp hx with h1 | h1
      · exact parents_store { en1 with child := some c } hp1 hen1 rfl x h1
      · have : x = c := by simpa using h1
        subst this
        exact parents_store { en1 with child := some x } (S := [x])
          (fun y hy => by
            have : y = x := by simpa using hy
            subst this; exact hpc1) hen1 rfl x (by simp)
    · exact hfr1.store he0 hen1 rfl (fun hne => absurd rfl hne) (fun _ _ => rfl)
        (fun b hb => by
          have : b = c := (Option.some.inj hb).symm
          rw [this]; exact habove)
        (hfr1.links e en1 hen1).2
  · -- after the last child added
    rw [List.concat_eq_append] at hcons
    subst hcons
    have hl : L.last_added_child = some l := by
      rw [hlast]; simp
    have hlnew : l ∈ new' ++ [l] := by simp
    obtain ⟨cl, hcl⟩ := Chain_live hnew1 l hlnew
    have hlc : l ≠ c := fun e' => hcn (e' ▸ hlnew)
    have hl_old : l ∉ old := by
      intro hlo
      exact (List.nodup_append.mp hnd).2.2 hlo hlnew
    have hl_new' : l ∉ new' := by
      intro hln
      have hnd2 := (List.nodup_append.mp hnd).2.1
      exact (List.nodup_append.mp hnd2).2.2 hln (List.mem_singleton_self l)
    simp only [linkAtEnd, hl, modify_some _ hcl]
    have hen2 : ∃ en2, load (MTP.store (MTP.store L.heap c { cc with next := none }) l
        { cl with next := some c }) e = .ok en2 ∧ en2.child = en.child := by
      by_cases hel : e = l
      · subst hel
        rw [hen1] at hcl; cases hcl
        exact ⟨_, load_store_same _ (load_lt hen1), hen1c⟩
      · exact ⟨en1, by rw [load_store_ne _ (Ne.symm hel)]; exact hen1, hen1c⟩
    obtain ⟨en2, hen2, hen2c⟩ := hen2
    refine ⟨_, rfl, ⟨?_, ?_, ?_, hco_nd, hos, hns', ?_, hab', ?_⟩, rfl, rfl⟩
    · refine ⟨en2, hen2, ?_⟩
      rw [hen2c]
      have := Chain_relink hcl hsingle (by simpa using hlc) new' en.child
        (by simpa using hnew1) hl_new'
      simpa using this
    · exact Chain_store_other _ hold1 hl_old
    · simp
    · intro x hx
      rw [← List.append_assoc] at hx
      rcases List.mem_append.mp hx with h1 | h1
      · exact parents_store { cl with next := some c } hp1 hcl rfl x h1
      · have : x = c := by simpa using h1
        subst this
        exact parents_store { cl with next := some x } (S := [x])
          (fun y hy => by
            have : y = x := by simpa using hy
            subst this; exact hpc1) hcl rfl x (by simp)
    · exact hfr1.store he0 hcl rfl (fun _ => rfl)
        (fun hlt hno => by
          rcases hns l hlnew with h1 | h1
          · exact absurd h1 hno
          · omega)
        (hfr1.links l cl hcl).1
        (fun b hb => by
          have : b = c := (Option.some.inj hb).symm
          rw [this]; exact habove)

/-- The branch that re-uses the old child `c`: it is taken off the old list
and appended to the new children. -/
theorem reuseChild_P {K : Limits} {e : Nat} {m0 : Heap} {old0 : List Nat} {L : HandlesLoop}
    {o1 o2 new : List Nat} {c : Nat}
    (hinv : LoopP K e m0 old0 L (o1 ++ c :: o2) new) (he0 : e < m0.length) :
    ∃ L', reuseChild e L (lastOr none o1) c = .ok L' ∧
      LoopP K e m0 old0 L' (o1 ++ o2) (new ++ [c]) ∧
      L'.malloc_outcomes = L.malloc_outcomes := by
  obtain ⟨⟨en, hen, hnew⟩, hold, hlast, hnd, hos, hns, hp, hab, hfr⟩ := hinv
  obtain ⟨cc, hc, hrest⟩ := Chain_split o1 _ hold
  have hcmem : c ∈ o1 ++ c :: o2 := by simp
  obtain ⟨cc', hc', hpar⟩ := hp c (List.mem_append.mpr (Or.inl hcmem))
  rw [hc] at hc'; cases hc'
  have hnd' : (c :: (o1 ++ (o2 ++ new))).Nodup := by
    have : (o1 ++ c :: (o2 ++ new)).Nodup := by simpa using hnd
    exact List.nodup_middle.mp this
  have hcnot : c ∉ o1 ++ (o2 ++ new) := (List.nodup_cons.mp hnd').1
  have hnd2 : ((o1 ++ o2) ++ new).Nodup := by
    rw [List.append_assoc]; exact (List.nodup_cons.mp hnd').2
  have hco : c ∉ o1 ++ o2 := fun h => hcnot (by
    rcases List.mem_append.mp h with h1 | h1
    · exact List.mem_append.mpr (Or.inl h1)
    · exact List.mem_append.mpr (Or.inr (List.mem_append.mpr (Or.inl h1))))
  have hcn : c ∉ new := fun h => hcnot
    (List.mem_append.mpr (Or.inr (List.mem_append.mpr (Or.inr h))))
  have hsub : ∀ x, x ∈ o1 ++ o2 → x ∈ o1 ++ c :: o2 := by
    intro x hx
    rcases List.mem_append.mp hx with h1 | h1
    · exact List.mem_append.mpr (Or.inl h1)
    · exact List.mem_append.mpr (Or.inr (List.mem_cons_of_mem _ h1))
  have hsub2 : ∀ x, x ∈ (o1 ++ o2) ++ new → x ∈ (o1 ++ c :: o2) ++ new := by
    intro x hx
    rcases List.mem_append.mp hx with h1 | h1
    · exact List.mem_append.mpr (Or.inl (hsub x h1))
    · exact List.mem_append.mpr (Or.inr h1)
  have habove : K.MAX_STORAGES ≤ c := hab c (List.mem_append.mpr (Or.inl hcmem))
  have hsrc : c ∈ old0 ∨ m0.length ≤ c := Or.inl (hos c hcmem)
  simp only [reuseChild, hc]
  rcases List.eq_nil_or_concat o1 with hnil | ⟨o1', p, hcons⟩
  · -- the head of the old list
    subst hnil
    have hinv1 : LoopP K e m0 old0
        { L with old_child_list := cc.next, prev_child := (none : Ptr) } ([] ++ o2) new :=
      ⟨⟨en, hen, hnew⟩, hrest, hlast, hnd2, fun x hx => hos x (hsub x hx), hns,
        fun x hx => hp x (hsub2 x hx), fun x hx => hab x (hsub2 x hx), hfr⟩
    obtain ⟨L', hL', hP, _, hmo⟩ := appendChild_P hinv1 he0 hc hco hcn hpar habove hsrc
    exact ⟨L', hL', hP, hmo⟩
  · -- after the old child `p`
    rw [List.concat_eq_append] at hcons
    subst hcons
    have hpmem : p ∈ (o1' ++ [p]) ++ c :: o2 := by simp
    obtain ⟨cp, hcp⟩ := Chain_live hold p hpmem
    have hnd0 : ((o1' ++ [p]) ++ c :: o2).Nodup := (List.nodup_append.mp hnd).1
    have hnd1 : (o1' ++ p :: (c :: o2)).Nodup := by simpa using hnd0
    have hnd1' := List.nodup_middle.mp hnd1
    have hp_not : p ∉ o1' ++ (c :: o2) := (List.nodup_cons.mp hnd1').1
    have hp_o1 : p ∉ o1' := fun h => hp_not (List.mem_append.mpr (Or.inl h))
    have hp_o2 : p ∉ o2 := fun h =>
      hp_not (List.mem_append.mpr (Or.inr (List.mem_cons_of_mem _ h)))
    have hpc : p ≠ c := fun h =>
      hp_not (List.mem_append.mpr (Or.inr (h ▸ List.mem_cons_self _ _)))
    have hp_new : p ∉ new := fun h => (List.nodup_append.mp hnd).2.2 hpmem h
    rw [lastOr_append_one]
    simp only [modify_some _ hcp]
    have hold1 : Chain (MTP.store L.heap p { cp with next := cc.next }) L.old_child_list
        ((o1' ++ [p]) ++ o2) := by
      have := Chain_relink hcp hrest hp_o2 o1' L.old_child_list (by simpa using hold) hp_o1
      simpa using this
    have hen1 : ∃ en1, load (MTP.store L.heap p { cp with next := cc.next }) e = .ok en1 ∧
        en1.child = en.child := by
      by_cases hep : e = p
      · subst hep
        rw [hcp] at hen; cases hen
        exact ⟨_, load_store_same _ (load_lt hcp), rfl⟩
      · exact ⟨en, by rw [load_store_ne _ (Ne.symm hep)]; exact hen, rfl⟩
    obtain ⟨en1, hen1, hen1c⟩ := hen1
    have hfr1 : FrameP K e m0 old0 (MTP.store L.heap p { cp with next := cc.next }) :=
      hfr.store he0 hcp rfl (fun _ => rfl)
        (fun _ hno => absurd (hos p hpmem) hno)
        (hfr.links p cp hcp).1 (hfr.links c cc hc).2
    have hinv1 : LoopP K e m0 old0
        { L with heap := MTP.store L.heap p { cp with next := cc.next },
                 prev_child := some p } ((o1' ++ [p]) ++ o2) new :=
      ⟨⟨en1, hen1, by rw [hen1c]; exact Chain_store_other _ hnew hp_new⟩, hold1, hlast, hnd2,
        fun x hx => hos x (hsub x hx), hns,
        fun x hx => parents_store { cp with next := cc.next } hp hcp rfl x (hsub2 x hx),
        fun x hx => hab x (hsub2 x hx), hfr1⟩
    have hc1 : load (MTP.store L.heap p { cp with next := cc.next }) c = .ok cc := by
      rw [load_store_ne _ hpc]; exact hc
    obtain ⟨L', hL', hP, _, hmo⟩ := appendChild_P hinv1 he0 hc1 hco hcn hpar habove hsrc
    exact ⟨L', hL', hP, hmo⟩

theorem load_fresh_old {m : Heap} (z : Option storage_list_t) (n : storage_list_t) {a : Nat}
    (h : a < m.length) : load (MTP.store (m ++ [z]) m.length n) a = load m a := by
  rw [load_store_ne _ (by omega), load_append_left _ h]

theorem load_fresh_new (m : Heap) (z : Option storage_list_t) (n : storage_list_t) :
    load (MTP.store (m ++ [z]) m.length n) m.length = .ok n :=
  load_store_same _ (by simp)

theorem load_fresh_inv {m : Heap} {z : Option storage_list_t} {n cb : storage_list_t} {b : Nat}
    (h : load (MTP.store (m ++ [z]) m.length n) b = .ok cb) :
    (b = m.length ∧ cb = n) ∨ (b < m.length ∧ load m b = .ok cb) := by
  by_cases hb : b = m.length
  · subst hb
    rw [load_fresh_new] at h
    cases h
    exact Or.inl ⟨rfl, rfl⟩
  · have hlt := load_lt h
    rw [store_length, List.length_append] at hlt
    have hlt' : b < m.length := by simp at hlt; omega
    rw [load_fresh_old _ _ hlt'] at h
    exact Or.inr ⟨hlt', h⟩

/-- Allocating a block with no links keeps the invariant of the loop. -/
theorem LoopP.fresh {K : Limits} {e : Nat} {m0 : Heap} {old0 : List Nat} {L : HandlesLoop}
    {old new : List Nat} (hinv : LoopP K e m0 old0 L old new) (n : storage_list_t)
    (hchild : n.child = none) (hnext : n.next = none) (rest : List Bool) (pv : Ptr) :
    LoopP K e m0 old0
      { L with heap := MTP.store (L.heap ++ [some zeroNode]) L.heap.length n,
               malloc_outcomes := rest, prev_child := pv } old new := by
  obtain ⟨⟨en, hen, hnew⟩, hold, hlast, hnd, hos, hns, hp, hab, hfr⟩ := hinv
  have hsame : ∀ a ca, load L.heap a = .ok ca →
      load (MTP.store (L.heap ++ [some zeroNode]) L.heap.length n) a = .ok ca :=
    fun a ca ha => by rw [load_fresh_old _ _ (load_lt ha)]; exact ha
  have hchain : ∀ {l : List Nat} {p : Ptr}, Chain L.heap p l →
      Chain (MTP.store (L.heap ++ [some zeroNode]) L.heap.length n) p l := by
    intro l p hc
    exact Chain_frame (fun a _ cell hl => ⟨cell, hsame a cell hl, rfl⟩) hc
  refine ⟨⟨en, hsame e en hen, hchain hnew⟩, hchain hold, hlast, hnd, hos, hns, ?_, hab, ?_⟩
  · intro x hx
    obtain ⟨cx, hcx, hpx⟩ := hp x hx
    exact ⟨cx, hsame x cx hcx, hpx⟩
  · refine ⟨?_, ?_, ?_, ?_, ?_⟩
    · rw [store_length, List.length_append]
      have := hfr.len
      omega
    · intro b cb hb
      obtain ⟨cb', hb', h1, h2, h3⟩ := hfr.keep b cb hb
      exact ⟨cb', hsame b cb' hb', h1, h2, h3⟩
    · intro b cb' hb hb'
      rcases load_fresh_inv hb' with ⟨h1, _⟩ | ⟨_, h2⟩
      · have := hfr.len
        omega
      · exact hfr.dead b cb' hb h2
    · intro b cb' hb hb'
      rcases load_fresh_inv hb' with ⟨_, h1⟩ | ⟨_, h2⟩
      · rw [h1]; exact hchild
      · exact hfr.fresh b cb' hb h2
    · intro a ca ha
      rcases load_fresh_inv ha with ⟨_, h1⟩ | ⟨_, h2⟩
      · rw [h1, hchild, hnext]
        exact ⟨fun b hb => (by cases hb), fun b hb => (by cases hb)⟩
      · exact hfr.links a ca h2

/-- The branch that creates a child: either `extmem_malloc` fails and the
lists stay, or the fresh block is appended to the new children. -/
theorem createChild_P {K : Limits} {e : Nat} {m0 : Heap} {old0 : List Nat} {L : HandlesLoop}
    {old new : List Nat} (hinv : LoopP K e m0 old0 L old new) (he0 : e < m0.length)
    (hmax : K.MAX_STORAGES ≤ m0.length) (pv : Ptr) (id : Nat) :
    ∃ L' b new', createChild e L pv id = .ok (L', b) ∧ LoopP K e m0 old0 L' old new' := by
  have hfail : ∀ rest, LoopP K e m0 old0
      { L with heap := L.heap, malloc_outcomes := rest, prev_child := pv } old new := by
    intro rest
    obtain ⟨h1, h2, h3, h4, h5, h6, h7, h8, h9⟩ := hinv
    exact ⟨h1, h2, h3, h4, h5, h6, h7, h8, h9⟩
  have hgood : ∀ rest, ∃ L' b new',
      (match load (L.heap ++ [some zeroNode]) e with
        | Except.error err => Except.error err
        | Except.ok en =>
          match appendChild e
              { L with
                heap := MTP.store (L.heap ++ [some zeroNode]) L.heap.length
                  { zeroNode with id := id, parent := some e, name := none,
                                  size := 0, storage_id := en.storage_id }
                malloc_outcomes := rest
                prev_child := pv } L.heap.length with
          | Except.error err => Except.error err
          | Except.ok L1 => Except.ok (L1, true)) = Except.ok (L', b) ∧
      LoopP K e m0 old0 L' old new' := by
    intro rest
    obtain ⟨en, hen, _⟩ := hinv.enum
    have hlen := hinv.frame.len
    rw [load_append_left _ (load_lt hen), hen]
    have hinv1 := hinv.fresh
      { zeroNode with id := id, parent := some e, name := none,
                      size := 0, storage_id := en.storage_id } rfl rfl rest pv
    have hlive : ∀ x ∈ old ++ new, x < L.heap.length := by
      intro x hx
      obtain ⟨cx, hcx, _⟩ := hinv.par x hx
      exact load_lt hcx
    obtain ⟨L', hL', hP, _, _⟩ := appendChild_P hinv1 he0
      (load_fresh_new L.heap (some zeroNode) _)
      (fun h => absurd (hlive _ (List.mem_append.mpr (Or.inl h))) (lt_irrefl _))
      (fun h => absurd (hlive _ (List.mem_append.mpr (Or.inr h))) (lt_irrefl _))
      rfl (by omega) (Or.inr hlen)
    refine ⟨L', true, new ++ [L.heap.length], ?_, hP⟩
    simp only [hL']
  unfold createChild
  cases hmo : L.malloc_outcomes with
  | nil => exact hgood []
  | cons b rest =>
    cases b with
    | false => exact ⟨_, false, new, rfl, hfail rest⟩
    | true => exact hgood rest

/-- The search at the head of an iteration always returns. -/
theorem searchOldChild_total {K : Limits} {e : Nat} {m0 : Heap} {old0 : List Nat}
    {L : HandlesLoop} {old new : List Nat} (hinv : LoopP K e m0 old0 L old new) (id : Nat) :
    ∃ pr r, searchOldChild L id = .ok (pr, r) ∧
      (r = none ∨ ∃ l1 a l2, old = l1 ++ a :: l2 ∧ r = some a ∧ pr = lastOr none l1) := by
  unfold searchOldChild
  by_cases hsome : L.old_child_list.isSome = true
  · rw [if_pos hsome]
    have hlen : old.length ≤ L.heap.length := by
      apply nodup_length_le (List.nodup_append.mp hinv.nodup).1
      intro a ha
      obtain ⟨ca, hca, _⟩ := hinv.par a (List.mem_append.mpr (Or.inl ha))
      exact load_lt hca
    exact findOldChild_total old (L.heap.length + 1) none L.old_child_list hinv.oldc (by omega)
  · rw [if_neg hsome]
    exact ⟨_, none, rfl, Or.inl rfl⟩

/-- The loop of `processGetObjectHandles` always returns, and keeps its
invariant. -/
theorem processGetObjectHandlesLoop_P {K : Limits} {e : Nat} {m0 : Heap} {old0 : List Nat}
    (he0 : e < m0.length) (hmax : K.MAX_STORAGES ≤ m0.length) :
    ∀ (count : Nat) (L : HandlesLoop) (pdata : List Nat) (old new : List Nat),
      LoopP K e m0 old0 L old new →
      ∃ L' old' new', processGetObjectHandlesLoop e count L pdata = .ok L' ∧
        LoopP K e m0 old0 L' old' new' := by
  intro count
  induction count with
  | zero => intro L pdata old new hinv; exact ⟨L, old, new, rfl, hinv⟩
  | succ count ih =>
    intro L pdata old new hinv
    obtain ⟨pr, r, hs, hchar⟩ := searchOldChild_total hinv (read32 pdata).1
    rcases hchar with hnone | ⟨l1, a, l2, hold, hr, hpr⟩
    · subst hnone
      obtain ⟨L1, b, new1, hc, hP⟩ := createChild_P hinv he0 hmax pr (read32 pdata).1
      cases b with
      | false =>
        refine ⟨L1, old, new1, ?_, hP⟩
        simp only [processGetObjectHandlesLoop, hs, hc]
      | true =>
        obtain ⟨L2, old2, new2, hl, hP2⟩ := ih L1 (read32 pdata).2 old new1 hP
        refine ⟨L2, old2, new2, ?_, hP2⟩
        simp only [processGetObjectHandlesLoop, hs, hc, hl]
    · subst hold hr hpr
      obtain ⟨L1, hc, hP, _⟩ := reuseChild_P hinv he0
      obtain ⟨L2, old2, new2, hl, hP2⟩ := ih L1 (read32 pdata).2 _ _ hP
      refine ⟨L2, old2, new2, ?_, hP2⟩
      simp only [processGetObjectHandlesLoop, hs, hc, hl]

/-- Freeing a list none of whose nodes is on a child list keeps the heap
sound. -/
theorem HeapOk_free_list {K : Limits} {m m' : Heap} {p : Ptr} {l0 : List Nat}
    (h : HeapOk K m) (hp : Chain m p l0)
    (hdet : ∀ x ∈ l0, ∀ Q cQ lQ, load m Q = .ok cQ → Chain m cQ.child lQ → x ∉ lQ)
    (hfree : freeStorageListTree m p = .ok m') : HeapOk K m' := by
  obtain ⟨⟨F, hF⟩, hinv⟩ := PtrInv_free (fun _ => False) h.1 hp
    (fun x hx Q cQ lQ hQ hlQ hxl => hdet x hx Q cQ lQ hQ hlQ hxl) hfree
  exact ⟨fun Q cQ hQ => hinv Q cQ hQ (fun hf => hf), LinksAbove_freed h.2.1 hF,
    by rw [hF.1]; exact h.2.2⟩

/-- The heap inside the loop of `processGetObjectHandles` satisfies the
pointer invariant: the enumerated node has the new children, the nodes
allocated by the loop have none, and every other node has the children it
had. -/
theorem LoopP.ptrInv {K : Limits} {e : Nat} {m : Heap} {en : storage_list_t}
    {old0 : List Nat} {L : HandlesLoop} {old new : List Nat}
    (hm : PtrInv m) (he : load m e = .ok en) (hold0 : Chain m en.child old0)
    (hinv : LoopP K e (MTP.store m e { en with child := none }) old0 L old new) :
    PtrInv L.heap := by
  have helt := load_lt he
  have hcarry : ∀ a cell, load m a = .ok cell → a ∉ old0 →
      ∃ cell', load L.heap a = .ok cell' ∧ cell'.next = cell.next ∧
        cell'.parent = cell.parent := by
    intro a cell ha hno
    have h0 : ∃ c0, load (MTP.store m e { en with child := none }) a = .ok c0 ∧
        c0.next = cell.next ∧ c0.parent = cell.parent := by
      by_cases hae : a = e
      · subst hae
        rw [he] at ha; cases ha
        exact ⟨_, load_store_same _ helt, rfl, rfl⟩
      · exact ⟨cell, by rw [load_store_ne _ (Ne.symm hae)]; exact ha, rfl, rfl⟩
    obtain ⟨c0, hc0, hn0, hp0⟩ := h0
    obtain ⟨cb', hb', h1, _, h3⟩ := hinv.frame.keep a c0 hc0
    exact ⟨cb', hb', (h3 hno).trans hn0, h1.trans hp0⟩
  intro Q cQ hQ
  by_cases hQe : Q = e
  · subst hQe
    obtain ⟨en', hen', hnew⟩ := hinv.enum
    rw [hQ] at hen'; cases hen'
    exact ⟨new, hnew, fun a ha => hinv.par a (List.mem_append.mpr (Or.inr ha))⟩
  · by_cases hlt : Q < (MTP.store m e { en with child := none }).length
    · obtain ⟨cb, hcb⟩ := hinv.frame.dead Q cQ hlt hQ
      obtain ⟨cb', hb', _, h2, _⟩ := hinv.frame.keep Q cb hcb
      rw [hQ] at hb'; cases hb'
      rw [load_store_ne _ (Ne.symm hQe)] at hcb
      obtain ⟨l, hl, hp⟩ := hm Q cb hcb
      have hnot : ∀ a ∈ l, a ∉ old0 :=
        fun a ha hao => hQe (hm.unique hcb he hl hold0 ha hao)
      refine ⟨l, ?_, ?_⟩
      · rw [h2 hQe]
        refine Chain_frame ?_ hl
        intro a ha cell hcell
        obtain ⟨cell', h1, h2', _⟩ := hcarry a cell hcell (hnot a ha)
        exact ⟨cell', h1, h2'⟩
      · intro a ha
        obtain ⟨ca, hca, hpa⟩ := hp a ha
        obtain ⟨cell', h1, _, h3⟩ := hcarry a ca hca (hnot a ha)
        exact ⟨cell', h1, h3.trans hpa⟩
    · have hch := hinv.frame.fresh Q cQ (by omega) hQ
      exact ⟨[], by rw [hch]; rfl, fun a ha => (by cases ha)⟩

/-- `processGetObjectHandles` keeps the state sound. -/
theorem processGetObjectHandles_sound (K : Limits) (s s' : MTPDevice) (c : List Nat)
    (h : Sound K s) (hp : processGetObjectHandles s c = .ok s') : Sound K s' := by
  have hring := processGetObjectHandles_sameRing s s' c hp
  unfold processGetObjectHandles at hp
  simp only at hp
  cases hen : s.enum_node_ with
  | none =>
    rw [hen] at hp
    cases hp
    exact h
  | some e =>
    rw [hen] at hp
    simp only at hp
    cases hl : load s.heap e with
    | error err => rw [hl] at hp; cases hp
    | ok en =>
      rw [hl] at hp
      simp only at hp
      obtain ⟨hinv, hL, hlen⟩ := h.1
      obtain ⟨old0, hold0, hpar0⟩ := hinv e en hl
      have helt := load_lt hl
      have hinit : LoopP K e (MTP.store s.heap e { en with child := none }) old0
          { heap := MTP.store s.heap e { en with child := none },
            malloc_outcomes := s.malloc_outcomes,
            old_child_list := en.child, last_added_child := none, prev_child := none }
          old0 [] := by
        refine ⟨⟨_, load_store_same _ helt, rfl⟩, Chain_store_sameNext hl rfl hold0, rfl,
          by rw [List.append_nil]; exact Chain_nodup hold0, fun x hx => hx,
          fun x hx => (by cases hx), ?_, ?_, ?_⟩
        · intro x hx
          rw [List.append_nil] at hx
          exact parents_store { en with child := none } hpar0 hl rfl x hx
        · intro x hx
          rw [List.append_nil] at hx
          exact PtrInv.mem_above hL hl hold0 x hx
        · refine ⟨le_refl _, fun b cb hb => ⟨cb, hb, rfl, fun _ => rfl, fun _ => rfl⟩,
            fun b cb' _ hb' => ⟨cb', hb'⟩, fun b cb' hb hb' => ?_,
            LinksAbove_store hL helt (fun b hb => (by cases hb)) (hL e en hl).2⟩
          have : b < (MTP.store s.heap e { en with child := none }).length := load_lt hb'
          omega
      obtain ⟨L', old', new', hloop, hP⟩ := processGetObjectHandlesLoop_P
        (by rw [store_length]; exact helt) (by rw [store_length]; exact hlen)
        (read32 (c.drop 12)).1 _ (read32 (c.drop 12)).2 old0 [] hinit
      rw [hloop] at hp
      simp only at hp
      cases hf : freeStorageListTree L'.heap L'.old_child_list with
      | error err => rw [hf] at hp; cases hp
      | ok m =>
        rw [hf] at hp
        cases hp
        have hinv' : PtrInv L'.heap := hP.ptrInv hinv hl hold0
        have hok' : HeapOk K L'.heap :=
          ⟨hinv', hP.frame.links, by
            have := hP.frame.len
            rw [store_length] at this
            omega⟩
        have hok : HeapOk K m := by
          refine HeapOk_free_list hok' hP.oldc ?_ hf
          intro x hx Q cQ lQ hQ hlQ hxl
          obtain ⟨cx, hcx, hpx⟩ := hP.par x (List.mem_append.mpr (Or.inl hx))
          have hpQ := hinv'.parent hQ hlQ hxl hcx
          rw [hpx] at hpQ
          have hQe : e = Q := Option.some.inj hpQ
          subst hQe
          obtain ⟨en', hen', hnew⟩ := hP.enum
          rw [hQ] at hen'; cases hen'
          rw [Chain_functional hlQ hnew] at hxl
          exact (List.nodup_append.mp hP.nodup).2.2 hx hxl
        exact h.frameRing hring hok (fun a ha => h.2.1 a ha)


theorem processDescriptorData_frame (K : Limits) (s : MTPDevice) (c : List Nat) :
    (processDescriptorData K s c).heap = s.heap ∧
      (processDescriptorData K s c).prop_node_ = s.prop_node_ := by
  unfold processDescriptorData
  exact ⟨rfl, rfl⟩

theorem processDevicePropDesc_frame (s : MTPDevice) (c : List Nat) :
    (processDevicePropDesc s c).heap = s.heap ∧
      (processDevicePropDesc s c).prop_node_ = s.prop_node_ := by
  unfold processDevicePropDesc
  simp only
  split
  · exact ⟨rfl, rfl⟩
  · exact ⟨rfl, rfl⟩

theorem processObjectPropsSupported_frame (s : MTPDevice) (c : List Nat) :
    (processObjectPropsSupported s c).heap = s.heap ∧
      (processObjectPropsSupported s c).prop_node_ = s.prop_node_ := by
  unfold processObjectPropsSupported
  exact ⟨rfl, rfl⟩

theorem responseGetObjectPropsSupported_frame (s : MTPDevice) :
    (responseGetObjectPropsSupported s).heap = s.heap ∧
      (responseGetObjectPropsSupported s).prop_node_ = s.prop_node_ := by
  unfold responseGetObjectPropsSupported
  split
  · exact ⟨rfl, rfl⟩
  · split
    · exact ⟨rfl, rfl⟩
    · exact ⟨rfl, rfl⟩

theorem responseGetObjectPropDesc_frame (s : MTPDevice) :
    (responseGetObjectPropDesc s).heap = s.heap ∧
      (responseGetObjectPropDesc s).prop_node_ = s.prop_node_ := by
  unfold responseGetObjectPropDesc
  split
  · exact ⟨rfl, rfl⟩
  · exact ⟨rfl, rfl⟩

theorem sendFileObject_frame (s : MTPDevice) (storage parent : Nat) (name file : List Nat) :
    (sendFileObject s storage parent name file).heap = s.heap ∧
      (sendFileObject s storage parent name file).prop_node_ = s.prop_node_ := by
  unfold sendFileObject
  simp only
  split
  · exact ⟨rfl, rfl⟩
  · exact ⟨rfl, rfl⟩

/-- `processMTPData` keeps the state sound. -/
theorem processMTPData_sound (K : Limits) (s s' : MTPDevice) (c : List Nat)
    (hinv : Sound K s) (h : processMTPData K s c = .ok s') : Sound K s' := by
  unfold processMTPData at h
  simp only at h
  split at h
  · simp only [Except.ok.injEq] at h; subst h
    exact hinv.of_same (processDescriptorData_sameRing K s c)
      (processDescriptorData_frame K s c).1 (processDescriptorData_frame K s c).2
  split at h
  · simp only [Except.ok.injEq] at h; subst h
    exact hinv.of_same (processDevicePropDesc_sameRing s c)
      (processDevicePropDesc_frame s c).1 (processDevicePropDesc_frame s c).2
  split at h
  · exact processGetStorageIDs_sound K s s' c hinv h
  split at h
  · exact processGetStoreInfo_sound K s s' c hinv h
  split at h
  · simp only [Except.ok.injEq] at h; subst h
    exact hinv.of_same (processObjectPropsSupported_sameRing s c)
      (processObjectPropsSupported_frame s c).1 (processObjectPropsSupported_frame s c).2
  split at h
  · simp only [Except.ok.injEq] at h; subst h; exact hinv
  split at h
  · exact processGetObjectHandles_sound K s s' c hinv h
  split at h
  · exact processGetObjectPropValue_sound K s s' c hinv h
  · simp only [Except.ok.injEq] at h; subst h; exact hinv

theorem Sound.sendMsg {K : Limits} {s : MTPDevice} (h : Sound K s) (op : Nat)
    (params : List Nat) : Sound K (MTP.sendMsg s op params) :=
  h.of_same ⟨rfl, rfl, rfl, rfl, rfl, rfl, rfl⟩ rfl rfl

theorem Sound.nextTransaction {K : Limits} {s : MTPDevice} (h : Sound K s) :
    Sound K (MTP.nextTransaction s) :=
  h.of_same ⟨rfl, rfl, rfl, rfl, rfl, rfl, rfl⟩ rfl rfl

theorem sendObjectMsg_sound (K : Limits) (s s' : MTPDevice) (object_id : Nat)
    (hinv : Sound K s) (h : sendObjectMsg s object_id = .ok s') : Sound K s' := by
  have hring := sendObjectMsg_sameRing s s' object_id h
  unfold sendObjectMsg at h
  simp only at h
  refine hinv.of_same hring ?_ ?_
  · repeat' split at h
    all_goals (cases h <;> rfl)
  · repeat' split at h
    all_goals (cases h <;> rfl)

theorem tx_data_sound (K : Limits) (s s' : MTPDevice)
    (hinv : Sound K s) (h : tx_data s = .ok s') : Sound K s' := by
  refine hinv.of_same (tx_data_sameRing s s' h) (tx_data_heap s s' h) ?_
  unfold tx_data at h
  simp only at h
  repeat' split at h
  all_goals (cases h <;> rfl)

/-- The response to `GetObjectHandles`: the cursor is set on the first child
of the enumerated node. -/
theorem responseGetObjectHandles_sound (K : Limits) (s s' : MTPDevice)
    (hinv : Sound K s) (h : responseGetObjectHandles s = .ok s') : Sound K s' := by
  unfold responseGetObjectHandles at h
  split at h
  · cases h
    exact hinv.of_same ⟨rfl, rfl, rfl, rfl, rfl, rfl, rfl⟩ rfl rfl
  · rename_i e he
    split at h
    · cases h
    · rename_i en hen
      split at h
      · cases h
        exact hinv.of_same ⟨rfl, rfl, rfl, rfl, rfl, rfl, rfl⟩ rfl rfl
      · rename_i ch hch
        split at h
        · cases h
        · cases h
          refine hinv.frameRing ⟨rfl, rfl, rfl, rfl, rfl, rfl, rfl⟩ hinv.1 ?_
          intro a ha
          have : a = ch := (Option.some.inj ha).symm
          rw [this]
          exact (hinv.1.2.1 e en hen).1 ch hch

/-- The response to `GetObjectPropValue`: the cursor moves along `next`. -/
theorem responseGetObjectPropValue_sound (K : Limits) (s s' : MTPDevice)
    (hinv : Sound K s) (h : responseGetObjectPropValue K s = .ok s') : Sound K s' := by
  have hadv : ∀ s1, (match s.prop_node_ with
      | none => Except.ok s
      | some a =>
        if s.prop_index_ + 1 ≥ s.cnt_object_property_ids_ then
          match load s.heap a with
          | Except.error e => Except.error e
          | Except.ok n => Except.ok { s with prop_node_ := n.next, prop_index_ := 0 }
        else Except.ok { s with prop_index_ := s.prop_index_ + 1 }) = Except.ok s1 →
      Sound K s1 := by
    intro s1 h1
    split at h1
    · cases h1; exact hinv
    · rename_i a ha
      split at h1
      · split at h1
        · cases h1
        · rename_i n hn
          cases h1
          exact hinv.frameRing ⟨rfl, rfl, rfl, rfl, rfl, rfl, rfl⟩ hinv.1
            (fun b hb => (hinv.1.2.1 a n hn).2 b hb)
      · cases h1
        exact hinv.of_same ⟨rfl, rfl, rfl, rfl, rfl, rfl, rfl⟩ rfl rfl
  unfold responseGetObjectPropValue at h
  simp only at h
  split at h
  · cases h
  · rename_i s1 h1
    have hs1 := hadv s1 h1
    split at h
    · split at h
      · cases h
      · cases h
        exact (hs1.nextTransaction).sendMsg _ _
    · have hs3 : Sound K { MTP.nextTransaction s1 with enum_node_ := none } :=
        hs1.of_same ⟨rfl, rfl, rfl, rfl, rfl, rfl, rfl⟩ rfl rfl
      split at h
      · exact Sound_complete_processing_event K _ s' true hs3 h
      · cases h; exact hs3

theorem responseGetStorageIDs_sound (K : Limits) (s s' : MTPDevice)
    (hinv : Sound K s) (h : responseGetStorageIDs s = .ok s') : Sound K s' := by
  have hring := responseGetStorageIDs_sameRing s s' h
  unfold responseGetStorageIDs at h
  refine hinv.of_same hring ?_ ?_
  · repeat' split at h
    all_goals (cases h <;> rfl)
  · repeat' split at h
    all_goals (cases h <;> rfl)

theorem responseGetStorageInfo_sound (K : Limits) (s s' : MTPDevice)
    (hinv : Sound K s) (h : responseGetStorageInfo s = .ok s') : Sound K s' := by
  have hring := responseGetStorageInfo_sameRing s s' h
  unfold responseGetStorageInfo at h
  refine hinv.of_same hring ?_ ?_
  · repeat' split at h
    all_goals (cases h <;> rfl)
  · repeat' split at h
    all_goals (cases h <;> rfl)

set_option maxHeartbeats 2000000 in
theorem responseOK_sound (K : Limits) (s s' : MTPDevice) (c : List Nat)
    (hinv : Sound K s) (h : responseOK K s c = .ok s') : Sound K s' := by
  unfold responseOK at h
  split at h
  · obtain rfl := Except.ok.inj h
    have hs1 : Sound K { s with session_id_ := 42 } :=
      hinv.of_same ⟨rfl, rfl, rfl, rfl, rfl, rfl, rfl⟩ rfl rfl
    exact hs1.sendMsg _ _
  split at h
  · obtain rfl := Except.ok.inj h
    exact hinv.nextTransaction.sendMsg _ _
  split at h
  · obtain rfl := Except.ok.inj h
    exact hinv.nextTransaction.sendMsg MTP_OPERATION_GET_STORAGE_IDS []
  split at h
  · exact responseGetStorageIDs_sound K s s' hinv h
  split at h
  · exact responseGetStorageInfo_sound K s s' hinv h
  split at h
  · obtain rfl := Except.ok.inj h
    exact hinv.of_same (responseGetObjectPropsSupported_sameRing s)
      (responseGetObjectPropsSupported_frame s).1 (responseGetObjectPropsSupported_frame s).2
  split at h
  · obtain rfl := Except.ok.inj h
    exact hinv.of_same (responseGetObjectPropDesc_sameRing s)
      (responseGetObjectPropDesc_frame s).1 (responseGetObjectPropDesc_frame s).2
  split at h
  · exact responseGetObjectHandles_sound K s s' hinv h
  split at h
  · exact responseGetObjectPropValue_sound K s s' hinv h
  split at h
  · exact sendObjectMsg_sound K s s' _ hinv h
  split at h
  · exact Sound_add_event_to_list K s s' _ _ _ hinv h
  · obtain rfl := Except.ok.inj h
    exact hinv

theorem processMTPResponse_sound (K : Limits) (s s' : MTPDevice) (c : List Nat)
    (hinv : Sound K s) (h : processMTPResponse K s c = .ok s') : Sound K s' := by
  have hs1 : Sound K { s with last_response_ := MTPContainer.op c } :=
    hinv.of_same ⟨rfl, rfl, rfl, rfl, rfl, rfl, rfl⟩ rfl rfl
  unfold processMTPResponse at h
  split at h
  · exact responseOK_sound K _ s' c hs1 h
  · cases h; exact hs1

theorem rx_data_sound (K : Limits) (s s' : MTPDevice) (len : Nat) (c : List Nat)
    (hinv : Sound K s) (h : rx_data K s len c = .ok s') : Sound K s' := by
  unfold rx_data at h
  simp only at h
  split at h
  · split at h
    · exact processMTPData_sound K s s' c hinv h
    · split at h
      · exact processMTPResponse_sound K s s' c hinv h
      · cases h; exact hinv
  · cases h; exact hinv

theorem runCallback_sound (K : Limits) (s s' : MTPDevice) (cb : Callback)
    (hinv : Sound K s) (h : runCallback K s cb = .ok s') : Sound K s' := by
  cases cb with
  | rx_data len c => exact rx_data_sound K s s' len c hinv h
  | tx_data => exact tx_data_sound K s s' hinv h
  | event_data len c => exact Sound_event_data K s s' len c hinv h

theorem runTask_sound (K : Limits) (t : List Callback) :
    ∀ (s s' : MTPDevice), Sound K s → runTask K s t = .ok s' → Sound K s' := by
  induction t with
  | nil => intro s s' hinv h; cases h; exact hinv
  | cons cb rest ih =>
    intro s s' hinv h
    unfold runTask at h
    split at h
    · cases h
    · rename_i s1 h1
      exact ih s1 s' (runCallback_sound K s s1 cb hinv h1) h

theorem deleteObjectWait_sound (K : Limits) (tasks : List (List Callback)) :
    ∀ (s s' : MTPDevice), Sound K s → deleteObjectWait K s tasks = .ok s' → Sound K s' := by
  induction tasks with
  | nil => intro s s' hinv h; cases h; exact hinv
  | cons t rest ih =>
    intro s s' hinv h
    unfold deleteObjectWait at h
    split at h
    · split at h
      · cases h
      · rename_i s1 h1
        exact ih s1 s' (runTask_sound K t s s1 hinv h1) h
    · cases h; exact hinv

/-- Every action of the driver keeps the state sound. -/
theorem Sound_step (K : Limits) (s s' : MTPDevice) (a : Action)
    (hinv : Sound K s) (h : step K s a = .ok s') : Sound K s' := by
  cases a with
  | callback cb => exact runCallback_sound K s s' cb hinv h
  | claim rx tx ev =>
    cases h
    exact hinv.of_same ⟨rfl, rfl, rfl, rfl, rfl, rfl, rfl⟩ rfl rfl
  | disconnect => exact disconnect_sound K s s' hinv h
  | startEnumStorageIndex index =>
    simp only [step] at h
    split at h
    · cases h
    · rename_i r hr
      cases h
      refine hinv.of_same (startEnumStorageIndex_sameRing s index r hr) ?_ ?_
      · unfold startEnumStorageIndex at hr
        repeat' split at hr
        all_goals (cases hr <;> rfl)
      · unfold startEnumStorageIndex at hr
        repeat' split at hr
        all_goals (cases hr <;> rfl)
  | startEnumStorageNode node =>
    simp only [step] at h
    refine hinv.of_same (startEnumStorageNode_sameRing s s' node h) ?_ ?_
    · unfold startEnumStorageNode at h
      repeat' split at h
      all_goals (cases h <;> rfl)
    · unfold startEnumStorageNode at h
      repeat' split at h
      all_goals (cases h <;> rfl)
  | deleteObject id format tasks =>
    simp only [step, deleteObject] at h
    split at h
    · cases h
    · rename_i r hr
      split at hr
      · cases hr
      · rename_i s3 h3
        cases hr
        cases h
        have hs1 : Sound K { MTP.nextTransaction s with last_response_ := 0xffffffff } :=
          hinv.nextTransaction.of_same ⟨rfl, rfl, rfl, rfl, rfl, rfl, rfl⟩ rfl rfl
        exact deleteObjectWait_sound K tasks _ s3 (hs1.sendMsg _ _) h3
  | sendFileObject storage parent name file =>
    cases h
    exact hinv.of_same (sendFileObject_sameRing s storage parent name file)
      (sendFileObject_frame s storage parent name file).1
      (sendFileObject_frame s storage parent name file).2

theorem Sound_run (K : Limits) (actions : List Action) :
    ∀ (s s' : MTPDevice), Sound K s → run K s actions = .ok s' → Sound K s' := by
  induction actions with
  | nil => intro s s' hinv h; cases h; exact hinv
  | cons a rest ih =>
    intro s s' hinv h
    unfold run at h
    split at h
    · cases h
    · rename_i s1 h1
      exact ih s1 s' (Sound_step K s s1 a hinv h1) h

theorem load_replicate_zero {n a : Nat} {c : storage_list_t}
    (h : load (List.replicate n (some zeroNode)) a = .ok c) : c = zeroNode := by
  rw [load_eq_ok] at h
  rw [List.get?_eq_getElem?, List.getElem?_replicate] at h
  split at h
  · cases h; rfl
  · cases h

/-- The driver starts sound. -/
theorem Sound_initial (K : Limits) (hK : 0 < K.MAX_PENDING_EVENTS) (outcomes : List Bool)
    (cb : Bool) : Sound K (MTPDevice.initial K outcomes cb) := by
  refine ⟨⟨?_, ?_, ?_⟩, ?_, ?_⟩
  · intro Q cQ hQ
    have : cQ = zeroNode := load_replicate_zero hQ
    subst this
    exact ⟨[], rfl, fun a ha => (by cases ha)⟩
  · intro a ca ha
    have : ca = zeroNode := load_replicate_zero ha
    subst this
    exact ⟨fun b hb => (by cases hb), fun b hb => (by cases hb)⟩
  · simp [MTPDevice.initial]
  · intro a ha
    cases ha
  · refine ⟨0, [], ⟨hK, hK, ?_, ?_, ?_⟩, fun h => by simp [MTPDevice.initial] at h,
      fun k hk => (by omega)⟩
    · simp [MTPDevice.initial, ringIdx]
    · simp [MTPDevice.initial, pendingKeys]
    · simp [MTPDevice.initial]

/-- Every reachable state is sound. -/
theorem Sound_reachable (K : Limits) (hK : 0 < K.MAX_PENDING_EVENTS) (s : MTPDevice)
    (hs : Reachable K s) : Sound K s := by
  obtain ⟨outcomes, cb, actions, hrun⟩ := hs
  exact Sound_run K actions _ s (Sound_initial K hK outcomes cb) hrun

/-- A walk along the `next` links that returns has followed a chain. -/
theorem childrenAux_chain {m : Heap} : ∀ (fuel : Nat) (p : Ptr) (l : List Nat),
    childrenAux fuel m p = .ok l → Chain m p l := by
  intro fuel
  induction fuel with
  | zero => intro p l h; cases h
  | succ fuel ih =>
    intro p l h
    cases p with
    | none =>
      cases h
      rfl
    | some a =>
      simp only [childrenAux] at h
      split at h
      · cases h
      · rename_i cell hcell
        split at h
        · cases h
        · rename_i l1 hl1
          cases h
          exact ⟨rfl, cell, hcell, ih cell.next l1 hl1⟩

theorem children_chain {m : Heap} {e : Nat} {l : List Nat} (h : children m e = .ok l) :
    ∃ en, load m e = .ok en ∧ Chain m en.child l := by
  unfold children at h
  split at h
  · cases h
  · rename_i en hen
    exact ⟨en, hen, childrenAux_chain _ _ _ h⟩

/-- The target of the `child` link of a live node is on its child list. -/
theorem PtrInv.child_mem {m : Heap} (h : PtrInv m) {Q a : Nat} {cQ : storage_list_t}
    (hQ : load m Q = .ok cQ) (hc : cQ.child = some a) :
    ∃ lQ, Chain m cQ.child lQ ∧ a ∈ lQ := by
  obtain ⟨l, hl, _⟩ := h Q cQ hQ
  refine ⟨l, hl, ?_⟩
  cases l with
  | nil =>
    have : cQ.child = none := hl
    rw [hc] at this
    cases this
  | cons x l =>
    obtain ⟨hx, _⟩ := hl
    rw [hc] at hx
    cases hx
    exact List.mem_cons_self _ _

/-- Every node below a node is on the child list of a live node. -/
theorem Below.on_list {m : Heap} {i N : Nat} (hinv : PtrInv m) (h : Below m i N) :
    ∃ Q cQ lQ, load m Q = .ok cQ ∧ Chain m cQ.child lQ ∧ N ∈ lQ := by
  induction h with
  | first hr hc =>
    obtain ⟨lQ, hl, ha⟩ := hinv.child_mem hr hc
    exact ⟨i, _, lQ, hr, hl, ha⟩
  | child _ hb hc _ =>
    obtain ⟨lQ, hl, ha⟩ := hinv.child_mem hb hc
    exact ⟨_, _, lQ, hb, hl, ha⟩
  | next _ hb hn ih =>
    obtain ⟨Q, cQ, lQ, hQ, hl, hbl⟩ := ih
    obtain ⟨l1, l2, e⟩ := Chain_decomp_next hb hn lQ cQ.child hl hbl
    exact ⟨Q, cQ, lQ, hQ, hl, by rw [e]; simp⟩

/-- C20 parent back-link consistency: in every state the driver can reach,
every node `N` below a node `i` (in particular below a storage root, the
nodes at the addresses under `MAX_STORAGES`) has a parent `P`, and `N` is
exactly once in the child sequence of `P` and in the child sequence of no
other node.  The ring of pending events is assumed to have at least one
slot. -/
theorem parent_backlinks (K : Limits) (hK : 0 < K.MAX_PENDING_EVENTS) (s : MTPDevice)
    (hs : Reachable K s) (i N : Nat) (hN : Below s.heap i N) :
    ∃ cN P l, load s.heap N = .ok cN ∧ cN.parent = some P ∧
      children s.heap P = .ok l ∧ l.count N = 1 ∧
      ∀ Q lQ, children s.heap Q = .ok lQ → N ∈ lQ → Q = P := by
  have hinv : PtrInv s.heap := (Sound_reachable K hK s hs).1.1
  obtain ⟨P, cP, l, hP, hl, hNl⟩ := hN.on_list hinv
  obtain ⟨cN, hcN⟩ := Chain_live hl N hNl
  have hnd := Chain_nodup hl
  refine ⟨cN, P, l, hcN, hinv.parent hP hl hNl hcN, children_of_chain hP hl hnd,
    List.count_eq_one_of_mem hnd hNl, ?_⟩
  intro Q lQ hQ hNQ
  obtain ⟨cQ, hcQ, hlQ⟩ := children_chain hQ
  exact hinv.unique hcQ hP hlQ hl hNQ hNl

/-- Witness for C20: in the state with the children 5 and 6 of storage 7 the
node at address 3, reached from the root through its first child, is once
among the children `[2, 3]` of the root. -/
theorem parent_backlinks_witness :
    0 < demoLimits.MAX_PENDING_EVENTS ∧ Reachable demoLimits twoChildren ∧
    Below twoChildren.heap 0 3 ∧ children twoChildren.heap 0 = .ok [2, 3] ∧
    ∃ cN P l, load twoChildren.heap 3 = .ok cN ∧ cN.parent = some P ∧
      children twoChildren.heap P = .ok l ∧ l.count 3 = 1 ∧
      ∀ Q lQ, children twoChildren.heap Q = .ok lQ → 3 ∈ lQ → Q = P :=
  ⟨by decide, ⟨[], true, twoHandlesArrive, rfl⟩,
   Below.next (b := 2) (Below.first (i := 0) (a := 2) (by rfl) (by rfl)) (by rfl) (by rfl),
   rfl,
   parent_backlinks demoLimits (by decide) twoChildren ⟨[], true, twoHandlesArrive, rfl⟩ 0 3
     (Below.next (b := 2) (Below.first (i := 0) (a := 2) (by rfl) (by rfl)) (by rfl) (by rfl))⟩

/-- C27 (as amended): every overload of `sendMsg` records the opcode sent in
`last_mtp_op_` (the parameter is a `uint16_t`) and leaves `last_response_` as
it is.  Only `deleteObject` stores the sentinel `0xFFFFFFFF`, before it sends
its command: the state in which it starts to wait holds the sentinel and the
opcode `DeleteObject`. -/
theorem sendMsg_records_op (s : MTPDevice) (op : Nat) (params : List Nat) (id format : Nat)
    (hop : op < 65536) :
    (sendMsg s op params).last_mtp_op_ = op ∧
    (sendMsg s op params).last_response_ = s.last_response_ ∧
    (deleteObjectSent s id format).last_mtp_op_ = MTP_OPERATION_DELETE_OBJECT ∧
    (deleteObjectSent s id format).last_response_ = 0xffffffff :=
  ⟨Nat.mod_eq_of_lt hop, rfl, rfl, rfl⟩

/-- Witness for C27: `GetStorageIDs` sent in the state after the first OK
response. -/
theorem sendMsg_records_op_witness :
    (sendMsg openSessionSent MTP_OPERATION_GET_STORAGE_IDS []).last_mtp_op_
      = MTP_OPERATION_GET_STORAGE_IDS ∧
    (sendMsg openSessionSent MTP_OPERATION_GET_STORAGE_IDS []).last_response_
      = openSessionSent.last_response_ ∧
    (deleteObjectSent openSessionSent 5 0).last_mtp_op_ = MTP_OPERATION_DELETE_OBJECT ∧
    (deleteObjectSent openSessionSent 5 0).last_response_ = 0xffffffff :=
  sendMsg_records_op openSessionSent MTP_OPERATION_GET_STORAGE_IDS [] 5 0 (by decide)

/-- C27 fails as stated: after attach and the OK response to `GetDeviceInfo`
the command `OpenSession` has been queued (two commands sent, the last
opcode is `OpenSession`) and `last_response_` is the code of the earlier
response, not the sentinel. -/
theorem sendMsg_records_op_counterexample :
    run demoLimits demoInitial [.claim 512 512 32, okResponse] = .ok openSessionSent ∧
    openSessionSent.commands.length = 2 ∧
    openSessionSent.last_mtp_op_ = MTP_OPERATION_OPEN_SESSION ∧
    openSessionSent.last_response_ = MTP_RESPONSE_OK ∧
    openSessionSent.last_response_ ≠ 0xffffffff := by
  refine ⟨rfl, ?_, ?_, ?_, ?_⟩ <;> decide

theorem take_min_length (file : List Nat) (k : Nat) :
    file.take (min file.length k) = file.take k := by
  rcases Nat.le_total file.length k with h | h
  · rw [Nat.min_eq_left h, List.take_of_length_le (le_refl _), List.take_of_length_le h]
  · rw [Nat.min_eq_right h]

theorem sendObjectMsg_upload (s : MTPDevice) (file : List Nat) (object_id : Nat)
    (hbuf : s.send_file_buffer_ = some file) (hleft : s.send_file_count_left_ = file.length)
    (hM : 12 ≤ s.tx_size_) (hM16 : s.tx_size_ < 65536) :
    sendObjectMsg s object_id =
      .ok (uploadState (sendObjectBase s object_id) file (s.tx_size_ - 12)
        (s.bulk_out ++
          [commandContainer MTP_OPERATION_SEND_OBJECT ((s.transaction_id_ + 1) % 4294967296) [],
           sendObjectData ((s.transaction_id_ + 1) % 4294967296) file.length
             (file.take (s.tx_size_ - 12))])) := by
  have hwrap : (s.tx_size_ + 4294967296 - 12) % 4294967296 = s.tx_size_ - 12 := by omega
  have hcb : min file.length (s.tx_size_ - 12) % 65536 = min file.length (s.tx_size_ - 12) := by
    apply Nat.mod_eq_of_lt
    have := Nat.min_le_right file.length (s.tx_size_ - 12)
    omega
  unfold sendObjectMsg
  simp only [hbuf, uploadChunk, nextTransaction, hleft, hwrap, hcb, List.drop_zero,
    take_min_length]
  by_cases hall : file.length ≤ s.tx_size_ - 12
  · have h0 : file.length - min file.length (s.tx_size_ - 12) = 0 := by
      rw [Nat.min_eq_left hall]; omega
    simp only [h0, if_true, uploadState, if_neg (by omega : ¬ s.tx_size_ - 12 < file.length)]
    simp [sendMsg, sendObjectBase, nextTransaction, sendObjectData, commandContainer,
      containerBytes, write32, write16, MTP_OPERATION_SEND_OBJECT]
  · have h0 : file.length - min file.length (s.tx_size_ - 12) ≠ 0 := by
      rw [Nat.min_eq_right (by omega)]; omega
    simp only [if_neg h0, uploadState, if_pos (by omega : s.tx_size_ - 12 < file.length)]
    simp [sendMsg, sendObjectBase, nextTransaction, sendObjectData, commandContainer,
      containerBytes, write32, write16, MTP_OPERATION_SEND_OBJECT, hbuf]
    omega

theorem take_drop_min (file : List Nat) (off M : Nat) :
    (file.drop off).take (min (file.length - off) M) = (file.drop off).take M := by
  have := take_min_length (file.drop off) M
  rwa [List.length_drop] at this

/-- One bulk-out completion during the data phase: the next chunk is queued
and the read position moves on by the packet size. -/
theorem tx_data_upload (s : MTPDevice) (file : List Nat) (off : Nat) (out : List (List Nat))
    (hM : 0 < s.tx_size_) (hM16 : s.tx_size_ < 65536) :
    tx_data (uploadState s file off out) =
      .ok (uploadState s file (off + s.tx_size_)
        (out ++ if off < file.length then [(file.drop off).take s.tx_size_] else [])) := by
  by_cases hoff : off < file.length
  · have hcb : min (file.length - off) s.tx_size_ % 65536 = min (file.length - off) s.tx_size_ := by
      apply Nat.mod_eq_of_lt
      have := Nat.min_le_right (file.length - off) s.tx_size_
      omega
    have hne : file.length - off ≠ 0 := by omega
    simp only [uploadState, if_pos hoff, tx_data, uploadChunk, hcb, take_drop_min, ne_eq, hne,
      not_false_eq_true, if_true]
    by_cases hlast : file.length - off ≤ s.tx_size_
    · have h0 : file.length - off - min (file.length - off) s.tx_size_ = 0 := by
        rw [Nat.min_eq_left hlast]; omega
      simp only [h0, if_true, if_neg (by omega : ¬ off + s.tx_size_ < file.length)]
    · have h0 : file.length - off - min (file.length - off) s.tx_size_ ≠ 0 := by
        rw [Nat.min_eq_right (by omega)]; omega
      simp only [if_neg h0, if_pos (by omega : off + s.tx_size_ < file.length)]
      rw [Nat.min_eq_right (by omega)]
      have : file.length - off - s.tx_size_ = file.length - (off + s.tx_size_) := by omega
      rw [this]
  · simp only [uploadState, if_neg hoff, tx_data, List.append_nil,
      if_neg (by omega : ¬ off + s.tx_size_ < file.length)]

theorem uploadState_tx_size (s : MTPDevice) (file : List Nat) (off : Nat)
    (out : List (List Nat)) : (uploadState s file off out).tx_size_ = s.tx_size_ := by
  unfold uploadState; split <;> rfl

/-- The data phase after `n` bulk-out completions. -/
theorem run_txCompletions (K : Limits) (s : MTPDevice) (file : List Nat)
    (hM : 0 < s.tx_size_) (hM16 : s.tx_size_ < 65536) :
    ∀ (n off : Nat) (out : List (List Nat)),
      run K (uploadState s file off out) (txCompletions n) =
        .ok (uploadState s file (off + n * s.tx_size_)
          (out ++ laterChunks file s.tx_size_ n off)) := by
  intro n
  induction n with
  | zero =>
    intro off out
    simp [txCompletions, run, laterChunks]
  | succ n ih =>
    intro off out
    have hstep : step K (uploadState s file off out) (.callback .tx_data)
        = tx_data (uploadState s file off out) := rfl
    simp only [txCompletions, List.replicate_succ, run, hstep, tx_data_upload s file off out hM hM16]
    have := ih (off + s.tx_size_)
      (out ++ if off < file.length then [(file.drop off).take s.tx_size_] else [])
    unfold txCompletions at this
    rw [this]
    have harith : off + s.tx_size_ + n * s.tx_size_ = off + (n + 1) * s.tx_size_ := by
      rw [Nat.add_mul]; omega
    rw [harith]
    by_cases hoff : off < file.length
    · simp only [if_pos hoff, laterChunks, List.append_assoc, List.singleton_append]
    · have hnone : laterChunks file s.tx_size_ n (off + s.tx_size_) = [] := by
        cases n with
        | zero => rfl
        | succ k => simp only [laterChunks, if_neg (by omega : ¬ off + s.tx_size_ < file.length)]
      simp only [if_neg hoff, laterChunks, List.append_nil, hnone]

/-- The chunks queued from the read position `off` on continue the bytes
before `off`. -/
theorem laterChunks_flatten (file : List Nat) (M : Nat) (hM : 0 < M) :
    ∀ (n off : Nat),
      file.take off ++ (laterChunks file M n off).flatten = file.take (off + n * M) := by
  intro n
  induction n with
  | zero => intro off; simp [laterChunks]
  | succ n ih =>
    intro off
    have harith : off + M + n * M = off + (n + 1) * M := by rw [Nat.add_mul]; omega
    by_cases hoff : off < file.length
    · simp only [laterChunks, if_pos hoff, List.flatten_cons]
      rw [← List.append_assoc, ← List.take_add, ih (off + M), harith]
    · simp only [laterChunks, if_neg hoff, List.flatten_nil, List.append_nil]
      rw [List.take_of_length_le (by omega), List.take_of_length_le]
      have : off ≤ off + (n + 1) * M := Nat.le_add_right _ _
      omega

/-- A Response container with the code OK reaches the `switch` on the last
operation. -/
theorem rx_data_okResponse (K : Limits) (s : MTPDevice) (len : Nat) (c : List Nat)
    (hlen : 0 < len) (htype : MTPContainer.type c = MTP_CONTAINER_TYPE_RESPONSE)
    (hop : MTPContainer.op c = MTP_RESPONSE_OK) :
    rx_data K s len c = responseOK K { s with last_response_ := MTP_RESPONSE_OK } c := by
  have hnd : MTP_CONTAINER_TYPE_RESPONSE ≠ MTP_CONTAINER_TYPE_DATA := by decide
  simp only [rx_data, hlen, htype, hnd, if_false, if_true, processMTPResponse, hop]

theorem responseOK_sendObjectInfo (K : Limits) (s : MTPDevice) (c : List Nat)
    (h : s.last_mtp_op_ = MTP_OPERATION_SEND_OBJECT_INFO) :
    responseOK K s c = sendObjectMsg s (MTPContainer.params c 2) := by
  have h1 : MTP_OPERATION_SEND_OBJECT_INFO ≠ MTP_OPERATION_GET_DEVICE_INFO := by decide
  have h2 : MTP_OPERATION_SEND_OBJECT_INFO ≠ MTP_OPERATION_OPEN_SESSION := by decide
  have h3 : MTP_OPERATION_SEND_OBJECT_INFO ≠ MTP_OPERATION_GET_DEVICE_PROP_DESC := by decide
  have h4 : MTP_OPERATION_SEND_OBJECT_INFO ≠ MTP_OPERATION_GET_STORAGE_IDS := by decide
  have h5 : MTP_OPERATION_SEND_OBJECT_INFO ≠ MTP_OPERATION_GET_STORAGE_INFO := by decide
  have h6 : MTP_OPERATION_SEND_OBJECT_INFO ≠ MTP_OPERATION_GET_OBJECT_PROPS_SUPPORTED := by
    decide
  have h7 : MTP_OPERATION_SEND_OBJECT_INFO ≠ MTP_OPERATION_GET_OBJECT_PROP_DESC := by decide
  have h8 : MTP_OPERATION_SEND_OBJECT_INFO ≠ MTP_OPERATION_GET_OBJECT_HANDLES := by decide
  have h9 : MTP_OPERATION_SEND_OBJECT_INFO ≠ MTP_OPERATION_GET_OBJECT_PROP_VALUE := by decide
  simp only [responseOK, h, h1, h2, h3, h4, h5, h6, h7, h8, h9, if_false, if_true]

theorem responseOK_sendObject (K : Limits) (s : MTPDevice) (c : List Nat)
    (h : s.last_mtp_op_ = MTP_OPERATION_SEND_OBJECT) :
    responseOK K s c = add_event_to_list K s MTP_EVENT_OBJECT_ADDED s.send_file_object_id_ 0 := by
  have h1 : MTP_OPERATION_SEND_OBJECT ≠ MTP_OPERATION_GET_DEVICE_INFO := by decide
  have h2 : MTP_OPERATION_SEND_OBJECT ≠ MTP_OPERATION_OPEN_SESSION := by decide
  have h3 : MTP_OPERATION_SEND_OBJECT ≠ MTP_OPERATION_GET_DEVICE_PROP_DESC := by decide
  have h4 : MTP_OPERATION_SEND_OBJECT ≠ MTP_OPERATION_GET_STORAGE_IDS := by decide
  have h5 : MTP_OPERATION_SEND_OBJECT ≠ MTP_OPERATION_GET_STORAGE_INFO := by decide
  have h6 : MTP_OPERATION_SEND_OBJECT ≠ MTP_OPERATION_GET_OBJECT_PROPS_SUPPORTED := by decide
  have h7 : MTP_OPERATION_SEND_OBJECT ≠ MTP_OPERATION_GET_OBJECT_PROP_DESC := by decide
  have h8 : MTP_OPERATION_SEND_OBJECT ≠ MTP_OPERATION_GET_OBJECT_HANDLES := by decide
  have h9 : MTP_OPERATION_SEND_OBJECT ≠ MTP_OPERATION_GET_OBJECT_PROP_VALUE := by decide
  have h10 : MTP_OPERATION_SEND_OBJECT ≠ MTP_OPERATION_SEND_OBJECT_INFO := by decide
  simp only [responseOK, h, h1, h2, h3, h4, h5, h6, h7, h8, h9, h10, if_false, if_true]

/-- An `ObjectAdded` event offered to a ring with room is always taken: it is
stored, and when the ring was empty its processing is started and returns,
whether or not the allocation of its node succeeds. -/
theorem add_event_objectAdded_total (K : Limits) (hK : 0 < K.MAX_PENDING_EVENTS)
    (s : MTPDevice) (id : Nat) (hroom : nextHead K s ≠ s.pending_events_tail_) :
    ∃ s', add_event_to_list K s MTP_EVENT_OBJECT_ADDED id 0 = .ok s' := by
  rw [add_event_to_list_eq, if_pos hroom]
  by_cases hempty : s.pending_events_head_ = s.pending_events_tail_
  · rw [if_pos hempty]
    have hne : (enqueued K s MTP_EVENT_OBJECT_ADDED id 0).pending_events_head_
        ≠ (enqueued K s MTP_EVENT_OBJECT_ADDED id 0).pending_events_tail_ := hroom
    have hev : ((enqueued K s MTP_EVENT_OBJECT_ADDED id 0).pending_events_
        (enqueued K s MTP_EVENT_OBJECT_ADDED id 0).pending_events_tail_)
        = newSlot MTP_EVENT_OBJECT_ADDED id 0 := by
      simp [enqueued, setAt, hempty]
    have hcode : (newSlot MTP_EVENT_OBJECT_ADDED id 0).event = MTP_EVENT_OBJECT_ADDED := rfl
    obtain ⟨f, hf⟩ : ∃ f, K.MAX_PENDING_EVENTS = f + 1 := ⟨K.MAX_PENDING_EVENTS - 1, by omega⟩
    unfold start_process_next_event
    rw [hf]
    unfold start_process_next_eventAux
    rw [if_neg hne]
    simp only [hev, hcode, if_true]
    unfold process_object_added_event
    cases hm : s.malloc_outcomes with
    | nil =>
      simp only [enqueued, extmem_malloc, hm]
      exact ⟨_, rfl⟩
    | cons b rest =>
      cases b with
      | true =>
        simp only [enqueued, extmem_malloc, hm]
        exact ⟨_, rfl⟩
      | false =>
        simp only [enqueued, extmem_malloc, hm, completeActiveEvent, setAt, hempty, if_true,
          newSlot, Bool.false_eq_true, false_and, if_false]
        unfold start_process_next_eventAux
        simp only [nextHead, hempty]
        split <;> simp
  · rw [if_neg hempty]
    exact ⟨_, rfl⟩

theorem UploadFrame.refl (s : MTPDevice) : UploadFrame s s := rfl

theorem UploadFrame.step {a b c : MTPDevice} (h1 : UploadFrame a b) (h2 : UploadFrame b c) :
    UploadFrame a c := by
  unfold UploadFrame at h1 h2 ⊢
  rw [h2, h1]

/-- A bulk-out completion touches the upload members only, and returns. -/
theorem tx_data_frame (s : MTPDevice) (hsafe : UploadSafe s) :
    ∃ s', tx_data s = .ok s' ∧ UploadFrame s s' ∧ UploadSafe s' := by
  unfold tx_data
  cases hp : s.send_file_buffer_ptr_ with
  | none => exact ⟨s, rfl, UploadFrame.refl s, hsafe⟩
  | some off =>
    simp only
    by_cases hleft : s.send_file_count_left_ ≠ 0
    · rw [if_pos hleft]
      cases hb : s.send_file_buffer_ with
      | none => exact absurd hb (hsafe (by rw [hp]; exact Option.some_ne_none off))
      | some buf =>
        simp only [uploadChunk, hb]
        split
        · exact ⟨_, rfl, rfl, fun h => absurd rfl h⟩
        · exact ⟨_, rfl, rfl, fun _ => by simp [hb]⟩
    · rw [if_neg hleft]
      exact ⟨s, rfl, UploadFrame.refl s, hsafe⟩

theorem run_txCompletions_frame (K : Limits) : ∀ (n : Nat) (s : MTPDevice), UploadSafe s →
    ∃ s', run K s (txCompletions n) = .ok s' ∧ UploadFrame s s' ∧ UploadSafe s' := by
  intro n
  induction n with
  | zero => intro s hs; exact ⟨s, rfl, UploadFrame.refl s, hs⟩
  | succ n ih =>
    intro s hs
    obtain ⟨s1, h1, hf1, hs1⟩ := tx_data_frame s hs
    obtain ⟨s2, h2, hf2, hs2⟩ := ih s1 hs1
    have hstep : step K s (.callback .tx_data) = tx_data s := rfl
    refine ⟨s2, ?_, hf1.step hf2, hs2⟩
    unfold txCompletions at h2
    simp only [txCompletions, List.replicate_succ, run, hstep, h1, h2]

/-- `sendObjectMsg` with the buffer held: it returns, and beside the upload
members it changes what `sendObjectBase` says. -/
theorem sendObjectMsg_frame (s : MTPDevice) (file : List Nat) (object_id : Nat)
    (hbuf : s.send_file_buffer_ = some file) :
    ∃ s', sendObjectMsg s object_id = .ok s' ∧ UploadFrame (sendObjectBase s object_id) s' ∧
      UploadSafe s' := by
  unfold sendObjectMsg
  simp only [hbuf, uploadChunk, nextTransaction]
  split
  · refine ⟨_, rfl, ?_, fun h => absurd rfl h⟩
    simp [UploadFrame, sendMsg, sendObjectBase, nextTransaction, commandContainer,
      containerBytes, write32, write16, MTP_OPERATION_SEND_OBJECT]
  · refine ⟨_, rfl, ?_, fun _ => by simp [sendMsg, hbuf]⟩
    simp [UploadFrame, sendMsg, sendObjectBase, nextTransaction, commandContainer,
      containerBytes, write32, write16, MTP_OPERATION_SEND_OBJECT]

theorem UploadFrame.fields {a b : MTPDevice} (h : UploadFrame a b) :
    b.increments = a.increments ∧ b.transaction_id_ = a.transaction_id_ ∧
    b.last_mtp_op_ = a.last_mtp_op_ ∧ b.send_file_object_id_ = a.send_file_object_id_ ∧
    b.commands = a.commands ∧ b.accepted = a.accepted ∧
    b.pending_events_head_ = a.pending_events_head_ ∧
    b.pending_events_tail_ = a.pending_events_tail_ ∧
    b.pending_events_ = a.pending_events_ := by
  unfold UploadFrame at h
  rw [h]
  exact ⟨rfl, rfl, rfl, rfl, rfl, rfl, rfl, rfl, rfl⟩

/-- Bulk-out completions while no data phase is running change nothing. -/
theorem run_txCompletions_idle (K : Limits) (s : MTPDevice)
    (hp : s.send_file_buffer_ptr_ = none) : ∀ n, run K s (txCompletions n) = .ok s := by
  have htx : tx_data s = .ok s := by simp only [tx_data, hp]
  intro n
  induction n with
  | zero => rfl
  | succ n ih =>
    have hstep : step K s (.callback .tx_data) = tx_data s := rfl
    unfold txCompletions at ih
    simp only [txCompletions, List.replicate_succ, run, hstep, htx, ih]

/-- `sendFileObject` when the buffer can be allocated. -/
theorem sendFileObject_ok (s : MTPDevice) (storage parent : Nat) (name file : List Nat)
    (halloc : s.malloc_outcomes.head? ≠ some false) :
    (sendFileObject s storage parent name file).increments = s.increments + 1 ∧
    (sendFileObject s storage parent name file).transaction_id_
      = (s.transaction_id_ + 1) % 4294967296 ∧
    (sendFileObject s storage parent name file).last_mtp_op_ = MTP_OPERATION_SEND_OBJECT_INFO ∧
    (sendFileObject s storage parent name file).send_file_buffer_ = some file ∧
    (sendFileObject s storage parent name file).send_file_buffer_ptr_ = none ∧
    (sendFileObject s storage parent name file).send_file_count_left_ = file.length ∧
    (sendFileObject s storage parent name file).tx_size_ = s.tx_size_ := by
  have hr : (extmem_malloc_bytes s.malloc_outcomes).1 = true := by
    cases hm : s.malloc_outcomes with
    | nil => rfl
    | cons b rest =>
      cases b with
      | false => rw [hm] at halloc; simp at halloc
      | true => rfl
  unfold sendFileObject
  simp only [hr, if_true]
  exact ⟨rfl, rfl, rfl, rfl, rfl, rfl, rfl⟩

/-- The part of a `send_file` from the Response to `SendObjectInfo` on, from
a state in which that command is the last one sent and the buffer is held. -/
theorem run_sendObject (K : Limits) (s : MTPDevice) (file : List Nat) (len : Nat)
    (c : List Nat) (n : Nat)
    (hop : s.last_mtp_op_ = MTP_OPERATION_SEND_OBJECT_INFO)
    (hbuf : s.send_file_buffer_ = some file)
    (hlen : 0 < len) (htype : MTPContainer.type c = MTP_CONTAINER_TYPE_RESPONSE)
    (hcode : MTPContainer.op c = MTP_RESPONSE_OK) :
    ∃ s', run K s (.callback (.rx_data len c) :: txCompletions n) = .ok s' ∧
      UploadFrame
        (sendObjectBase { s with last_response_ := MTP_RESPONSE_OK } (MTPContainer.params c 2))
        s' := by
  have hstep : step K s (.callback (.rx_data len c))
      = sendObjectMsg { s with last_response_ := MTP_RESPONSE_OK } (MTPContainer.params c 2) := by
    show rx_data K s len c = _
    rw [rx_data_okResponse K s len c hlen htype hcode]
    exact responseOK_sendObjectInfo K _ c hop
  obtain ⟨s1, h1, hf1, hs1⟩ := sendObjectMsg_frame
    { s with last_response_ := MTP_RESPONSE_OK } file (MTPContainer.params c 2) hbuf
  obtain ⟨s2, h2, hf2, _⟩ := run_txCompletions_frame K n s1 hs1
  refine ⟨s2, ?_, hf1.step hf2⟩
  simp only [run, hstep, h1, h2]

/-- C24 (as amended): across one `send_file` (the call of `sendFileObject`
with its buffer allocated, the OK Response to `SendObjectInfo` that makes
`sendObjectMsg` run, and any number of bulk-out completions before and after
it) `transaction_id_` is incremented exactly twice: once by `sendFileObject`
and once by `sendObjectMsg`; the data chunks increment nothing. -/
theorem send_file_increments (K : Limits) (s : MTPDevice) (storage parent : Nat)
    (name file : List Nat) (m len : Nat) (c : List Nat) (n : Nat)
    (halloc : s.malloc_outcomes.head? ≠ some false)
    (hlen : 0 < len) (htype : MTPContainer.type c = MTP_CONTAINER_TYPE_RESPONSE)
    (hcode : MTPContainer.op c = MTP_RESPONSE_OK) :
    (sendFileObject s storage parent name file).increments = s.increments + 1 ∧
    ∃ s', run K s (uploadRun storage parent name file m len c n) = .ok s' ∧
      s'.increments = s.increments + 2 ∧
      s'.transaction_id_ = (s.transaction_id_ + 2) % 4294967296 := by
  obtain ⟨a1, a2, a3, a4, a5, _, _⟩ := sendFileObject_ok s storage parent name file halloc
  refine ⟨a1, ?_⟩
  have hidle := run_txCompletions_idle K _ a5 m
  obtain ⟨s', hrun, hframe⟩ := run_sendObject K _ file len c n a3 a4 hlen htype hcode
  obtain ⟨b1, b2, _⟩ := hframe.fields
  refine ⟨s', ?_, ?_, ?_⟩
  · have hfirst : run K s [.sendFileObject storage parent name file]
        = .ok (sendFileObject s storage parent name file) := rfl
    have := run_append K _ _ _ _ _ hfirst (run_append K _ _ _ _ _ hidle hrun)
    simpa [uploadRun] using this
  · rw [b1]
    show (sendFileObject s storage parent name file).increments + 1 = _
    rw [a1]
  · rw [b2]
    show ((sendFileObject s storage parent name file).transaction_id_ + 1) % 4294967296 = _
    rw [a2]
    omega

/-- Witness for C24: the upload of a file of 20 bytes named `"T.TXT"` after
attach, one completion before the Response and two after it. -/
theorem send_file_increments_witness :
    (sendFileObject attached14 7 0 fileName (List.range 20)).increments
      = attached14.increments + 1 ∧
    ∃ s', run demoLimits attached14
        (uploadRun 7 0 fileName (List.range 20) 1 24 (responseWith MTP_RESPONSE_OK [7, 0, 9]) 2)
        = .ok s' ∧
      s'.increments = attached14.increments + 2 ∧
      s'.transaction_id_ = (attached14.transaction_id_ + 2) % 4294967296 :=
  send_file_increments demoLimits attached14 7 0 fileName (List.range 20) 1 24
    (responseWith MTP_RESPONSE_OK [7, 0, 9]) 2 (by decide) (by decide) (by decide) (by decide)

/-- C24 fails as stated: after the upload of a file of 20 bytes (the call,
the Response to `SendObjectInfo`, two bulk-out completions that queue all of
the file) the counter has been incremented twice. -/
theorem send_file_increments_counterexample :
    (stateAfter demoLimits attached14
      (uploadRun 7 0 fileName (List.range 20) 0 24
        (responseWith MTP_RESPONSE_OK [7, 0, 9]) 2)).send_file_buffer_ = none ∧
    (stateAfter demoLimits attached14
      (uploadRun 7 0 fileName (List.range 20) 0 24
        (responseWith MTP_RESPONSE_OK [7, 0, 9]) 2)).increments = attached14.increments + 2 ∧
    attached14.transaction_id_ = 0 ∧
    (stateAfter demoLimits attached14
      (uploadRun 7 0 fileName (List.range 20) 0 24
        (responseWith MTP_RESPONSE_OK [7, 0, 9]) 2)).transaction_id_ = 2 := by
  decide

/-- C25: from a state in which `SendObjectInfo` is the last command and the
upload buffer is held, let the OK Response to `SendObjectInfo` arrive (buffer
`c1`), then `n` bulk-out completions, then the OK Response to `SendObject`
(buffer `c2`).  If the ring has room, an `ObjectAdded` event with the handle
`params[2]` of the first Response is appended to the ring: it is the last
event accepted, it is stored in the slot at the old head, and the head has
advanced by one. -/
theorem sendObject_ok_enqueues (K : Limits) (hK : 0 < K.MAX_PENDING_EVENTS) (s : MTPDevice)
    (file : List Nat) (len1 : Nat) (c1 : List Nat) (n len2 : Nat) (c2 : List Nat)
    (hop : s.last_mtp_op_ = MTP_OPERATION_SEND_OBJECT_INFO)
    (hbuf : s.send_file_buffer_ = some file)
    (hlen1 : 0 < len1) (htype1 : MTPContainer.type c1 = MTP_CONTAINER_TYPE_RESPONSE)
    (hcode1 : MTPContainer.op c1 = MTP_RESPONSE_OK)
    (hlen2 : 0 < len2) (htype2 : MTPContainer.type c2 = MTP_CONTAINER_TYPE_RESPONSE)
    (hcode2 : MTPContainer.op c2 = MTP_RESPONSE_OK)
    (hroom : nextHead K s ≠ s.pending_events_tail_) :
    ∃ s1 s2, run K s (.callback (.rx_data len1 c1) :: txCompletions n) = .ok s1 ∧
      s1.last_mtp_op_ = MTP_OPERATION_SEND_OBJECT ∧
      s1.send_file_object_id_ = MTPContainer.params c1 2 ∧
      step K s1 (.callback (.rx_data len2 c2)) = .ok s2 ∧
      s2.accepted = s.accepted ++ [newSlot MTP_EVENT_OBJECT_ADDED (MTPContainer.params c1 2) 0] ∧
      s2.pending_events_head_ = nextHead K s ∧
      slotKey (s2.pending_events_ s.pending_events_head_)
        = (MTP_EVENT_OBJECT_ADDED, MTPContainer.params c1 2, 0) := by
  obtain ⟨s1, hrun, hframe⟩ := run_sendObject K s file len1 c1 n hop hbuf hlen1 htype1 hcode1
  obtain ⟨_, _, f3, f4, _, f6, f7, f8, f9⟩ := hframe.fields
  have hop1 : s1.last_mtp_op_ = MTP_OPERATION_SEND_OBJECT := f3
  have hid1 : s1.send_file_object_id_ = MTPContainer.params c1 2 := f4
  have hacc : s1.accepted = s.accepted := f6
  have hhead : s1.pending_events_head_ = s.pending_events_head_ := f7
  have htail : s1.pending_events_tail_ = s.pending_events_tail_ := f8
  have hstep : step K s1 (.callback (.rx_data len2 c2))
      = add_event_to_list K { s1 with last_response_ := MTP_RESPONSE_OK }
          MTP_EVENT_OBJECT_ADDED (MTPContainer.params c1 2) 0 := by
    show rx_data K s1 len2 c2 = _
    rw [rx_data_okResponse K s1 len2 c2 hlen2 htype2 hcode2,
      responseOK_sendObject K { s1 with last_response_ := MTP_RESPONSE_OK } c2 hop1]
    show add_event_to_list K _ _ s1.send_file_object_id_ 0 = _
    rw [hid1]
  have hroom1 : nextHead K { s1 with last_response_ := MTP_RESPONSE_OK }
      ≠ ({ s1 with last_response_ := MTP_RESPONSE_OK } : MTPDevice).pending_events_tail_ := by
    show (if s1.pending_events_head_ + 1 = K.MAX_PENDING_EVENTS then 0
      else s1.pending_events_head_ + 1) ≠ s1.pending_events_tail_
    rw [hhead, htail]
    exact hroom
  obtain ⟨s2, h2⟩ := add_event_objectAdded_total K hK _ (MTPContainer.params c1 2) hroom1
  have hq : QueueFrame (enqueued K { s1 with last_response_ := MTP_RESPONSE_OK }
      MTP_EVENT_OBJECT_ADDED (MTPContainer.params c1 2) 0) s2 := by
    have h2' := h2
    rw [add_event_to_list_eq, if_pos hroom1] at h2'
    split at h2'
    · exact start_process_next_eventAux_queueFrame K _ _ _ h2'
    · obtain rfl := Except.ok.inj h2'
      exact ⟨rfl, rfl, fun _ => rfl⟩
  obtain ⟨q1, q2, q3⟩ := hq
  refine ⟨s1, s2, hrun, hop1, hid1, hstep.trans h2, ?_, ?_, ?_⟩
  · rw [q2]
    show s1.accepted ++ _ = _
    rw [hacc]
  · rw [q1]
    show (if s1.pending_events_head_ + 1 = K.MAX_PENDING_EVENTS then 0
      else s1.pending_events_head_ + 1) = nextHead K s
    rw [hhead]
    rfl
  · rw [q3]
    show slotKey (setAt s1.pending_events_ s1.pending_events_head_
      (newSlot MTP_EVENT_OBJECT_ADDED (MTPContainer.params c1 2) 0) s.pending_events_head_) = _
    rw [hhead]
    simp [setAt, slotKey, newSlot, MTP_EVENT_OBJECT_ADDED]

/-- Witness for C25: the upload of the 20-byte file; the device reports the
handle 9 for the new object. -/
theorem sendObject_ok_enqueues_witness :
    uploadReady.last_mtp_op_ = MTP_OPERATION_SEND_OBJECT_INFO ∧
    uploadReady.send_file_buffer_ = some (List.range 20) ∧
    nextHead demoLimits uploadReady ≠ uploadReady.pending_events_tail_ ∧
    ∃ s1 s2, run demoLimits uploadReady
        (.callback (.rx_data 24 (responseWith MTP_RESPONSE_OK [7, 0, 9])) :: txCompletions 2)
        = .ok s1 ∧
      s1.last_mtp_op_ = MTP_OPERATION_SEND_OBJECT ∧
      s1.send_file_object_id_ = MTPContainer.params (responseWith MTP_RESPONSE_OK [7, 0, 9]) 2 ∧
      step demoLimits s1 (.callback (.rx_data 12 (responseContainer MTP_RESPONSE_OK))) = .ok s2 ∧
      s2.accepted = uploadReady.accepted ++ [newSlot MTP_EVENT_OBJECT_ADDED
        (MTPContainer.params (responseWith MTP_RESPONSE_OK [7, 0, 9]) 2) 0] ∧
      s2.pending_events_head_ = nextHead demoLimits uploadReady ∧
      slotKey (s2.pending_events_ uploadReady.pending_events_head_)
        = (MTP_EVENT_OBJECT_ADDED,
           MTPContainer.params (responseWith MTP_RESPONSE_OK [7, 0, 9]) 2, 0) :=
  ⟨by decide, by decide, by decide,
   sendObject_ok_enqueues demoLimits (by decide) uploadReady (List.range 20) 24
     (responseWith MTP_RESPONSE_OK [7, 0, 9]) 2 12 (responseContainer MTP_RESPONSE_OK)
     (by decide) (by decide) (by decide) (by decide) (by decide) (by decide) (by decide)
     (by decide) (by decide)⟩

/-- C23 upload data phase: for a file buffer of `S` bytes and a bulk-out
packet size `M` with `12 ≤ M` (a 16-bit field of the endpoint descriptor),
`sendObjectMsg` queues the `SendObject` command and a Data container whose
length field is `S + 12` and whose payload is the first `min(S, M - 12)` bytes
of the file.  Each of `n` later bulk-out completions queues the next
`min(remaining, M)` bytes from the cursor while bytes remain (`laterChunks`).
The payloads queued so far are, in order, the first `M - 12 + n * M` bytes of
the file, so all of the file once that number reaches `S`; the count of bytes
left is `S` less that number; the buffer is held while bytes are left and
released exactly when none is left.  For `S ≤ M - 12` the one Data container
carries the whole file and the buffer is released by `sendObjectMsg`. -/
theorem upload_data_phase (K : Limits) (s : MTPDevice) (file : List Nat) (object_id n : Nat)
    (hbuf : s.send_file_buffer_ = some file) (hleft : s.send_file_count_left_ = file.length)
    (hM : 12 ≤ s.tx_size_) (hM16 : s.tx_size_ < 65536)
    (hS : file.length + 12 < 4294967296) :
    ∃ s1 sn, sendObjectMsg s object_id = .ok s1 ∧ run K s1 (txCompletions n) = .ok sn ∧
      s1.bulk_out = s.bulk_out ++
        [commandContainer MTP_OPERATION_SEND_OBJECT ((s.transaction_id_ + 1) % 4294967296) [],
         sendObjectData ((s.transaction_id_ + 1) % 4294967296) file.length
           (file.take (s.tx_size_ - 12))] ∧
      MTPContainer.len (sendObjectData ((s.transaction_id_ + 1) % 4294967296) file.length
        (file.take (s.tx_size_ - 12))) = file.length + 12 ∧
      (file.take (s.tx_size_ - 12)).length = min file.length (s.tx_size_ - 12) ∧
      sn.bulk_out = s1.bulk_out ++ laterChunks file s.tx_size_ n (s.tx_size_ - 12) ∧
      file.take (s.tx_size_ - 12) ++ (laterChunks file s.tx_size_ n (s.tx_size_ - 12)).flatten
        = file.take (s.tx_size_ - 12 + n * s.tx_size_) ∧
      (file.length ≤ s.tx_size_ - 12 + n * s.tx_size_ →
        file.take (s.tx_size_ - 12) ++
          (laterChunks file s.tx_size_ n (s.tx_size_ - 12)).flatten = file) ∧
      sn.send_file_count_left_ = file.length - (s.tx_size_ - 12 + n * s.tx_size_) ∧
      (sn.send_file_count_left_ ≠ 0 → sn.send_file_buffer_ = some file) ∧
      (sn.send_file_count_left_ = 0 → sn.send_file_buffer_ = none) ∧
      (file.length ≤ s.tx_size_ - 12 →
        file.take (s.tx_size_ - 12) = file ∧ s1.send_file_buffer_ = none) := by
  have h1 := sendObjectMsg_upload s file object_id hbuf hleft hM hM16
  have hbase : (sendObjectBase s object_id).tx_size_ = s.tx_size_ := rfl
  have h2 := run_txCompletions K (sendObjectBase s object_id) file
    (by rw [hbase]; omega) (by rw [hbase]; exact hM16) n (s.tx_size_ - 12)
    (s.bulk_out ++
      [commandContainer MTP_OPERATION_SEND_OBJECT ((s.transaction_id_ + 1) % 4294967296) [],
       sendObjectData ((s.transaction_id_ + 1) % 4294967296) file.length
         (file.take (s.tx_size_ - 12))])
  rw [hbase] at h2
  have hflat := laterChunks_flatten file s.tx_size_ (by omega) n (s.tx_size_ - 12)
  refine ⟨_, _, h1, h2, ?_, containerBytes_len _ _ _ _ _ hS, ?_, ?_, hflat, ?_, ?_, ?_, ?_, ?_⟩
  · unfold uploadState; split <;> rfl
  · rw [List.length_take, Nat.min_comm]
  · unfold uploadState; split <;> (split <;> rfl)
  · intro hall
    rw [hflat, List.take_of_length_le hall]
  · unfold uploadState
    split
    · rfl
    · show 0 = _
      omega
  · unfold uploadState
    split
    · intro _; rfl
    · intro h; exact absurd rfl h
  · unfold uploadState
    split
    · intro h
      have h' : file.length - (s.tx_size_ - 12 + n * s.tx_size_) = 0 := h
      omega
    · intro _; rfl
  · intro hall
    refine ⟨List.take_of_length_le hall, ?_⟩
    unfold uploadState
    rw [if_neg (by omega)]

/-- Witness for C23: a file of 20 bytes and a packet size of 14 bytes: first
2 bytes, then 14, then 4. -/
theorem upload_data_phase_witness :
    uploadReady.send_file_buffer_ = some (List.range 20) ∧
    uploadReady.tx_size_ = 14 ∧
    laterChunks (List.range 20) 14 2 2
      = [[2, 3, 4, 5, 6, 7, 8, 9, 10, 11, 12, 13, 14, 15], [16, 17, 18, 19]] ∧
    ∃ s1 sn, sendObjectMsg uploadReady 9 = .ok s1 ∧
      run demoLimits s1 (txCompletions 2) = .ok sn ∧
      sn.bulk_out = s1.bulk_out ++ laterChunks (List.range 20) uploadReady.tx_size_ 2
        (uploadReady.tx_size_ - 12) ∧
      sn.send_file_count_left_ = 0 ∧ sn.send_file_buffer_ = none :=
  ⟨by decide, by decide, by decide,
   match upload_data_phase demoLimits uploadReady (List.range 20) 9 2 (by decide) (by decide)
      (by decide) (by decide) (by decide) with
   | ⟨s1, sn, a1, a2, _, _, _, a6, _, _, a9, _, a11, _⟩ =>
     ⟨s1, sn, a1, a2, a6, a9, a11 a9⟩⟩

theorem wide_append_nul (s : List Nat) (hs : ∀ c ∈ s, c < 256) :
    wide (s ++ [0]) = s.flatMap (fun c => [c, 0]) ++ [0, 0] := by
  induction s with
  | nil => rfl
  | cons c cs ih =>
    have hc : c % 256 = c := Nat.mod_eq_of_lt (hs c (by simp))
    have ih' := ih (fun x hx => hs x (by simp [hx]))
    simp only [wide, List.cons_append, List.flatMap_cons, hc] at ih' ⊢
    rw [ih']
    rfl

theorem length_flatMap_pair (s : List Nat) :
    (s.flatMap (fun c => [c, 0])).length = 2 * s.length := by
  induction s with
  | nil => rfl
  | cons c cs ih => simp only [List.flatMap_cons, List.length_append, ih, List.length_cons,
      List.length_nil]; omega

/-- C29 (as amended): for every NUL-free byte string `s` of `L` characters with
`1 ≤ L ≤ 254`, held in memory as `s`, a NUL and anything after it, `writeStr`
emits the count byte `L + 1`, each byte of `s` followed by a zero high byte
and a 16-bit NUL, and the write cursor advances by `1 + 2 (L + 1)` bytes.  For
the empty string it emits the single byte `0` and the cursor advances by
one. -/
theorem writeStr_layout (s junk : List Nat) (w : WriteCursor)
    (hs : ∀ c ∈ s, 0 < c ∧ c < 256) (hne : 1 ≤ s.length) (hlen : s.length ≤ 254) :
    writeStr (s ++ 0 :: junk) = (s.length + 1) :: (s.flatMap (fun c => [c, 0]) ++ [0, 0]) ∧
    (w.emit (writeStr (s ++ 0 :: junk))).pos = w.pos + (1 + 2 * (s.length + 1)) ∧
    writeStr (0 :: junk) = [0] ∧
    (w.emit (writeStr (0 :: junk))).pos = w.pos + 1 := by
  have hs' : ∀ c ∈ s, c % 256 ≠ 0 := fun c hc => by
    have := hs c hc; rw [Nat.mod_eq_of_lt this.2]; omega
  have hnil : s ≠ [] := fun h => by rw [h] at hne; simp at hne
  have hw : writeStr (s ++ 0 :: junk)
      = (s.length + 1) :: (s.flatMap (fun c => [c, 0]) ++ [0, 0]) := by
    rw [writeStr_of_short s junk hs' hnil hlen, wide_append_nul s (fun c hc => (hs c hc).2)]
  refine ⟨hw, ?_, writeStr_empty junk, ?_⟩
  · rw [hw]
    simp only [WriteCursor.emit, List.length_cons, List.length_append, length_flatMap_pair,
      List.length_nil]
    omega
  · rw [writeStr_empty]
    rfl

/-- Witness for C29: the file name `"T.TXT"` is encoded with the count 6. -/
theorem writeStr_layout_witness :
    writeStr ([84, 46, 84, 88, 84] ++ 0 :: [])
      = [6, 84, 0, 46, 0, 84, 0, 88, 0, 84, 0, 0, 0] ∧
    (WriteCursor.emit ⟨List.replicate 64 0, 12⟩ (writeStr ([84, 46, 84, 88, 84] ++ 0 :: []))).pos
      = 12 + (1 + 2 * (5 + 1)) ∧
    writeStr (0 :: []) = [0] ∧
    (WriteCursor.emit ⟨List.replicate 64 0, 12⟩ (writeStr (0 :: []))).pos = 12 + 1 :=
  writeStr_layout [84, 46, 84, 88, 84] [] ⟨List.replicate 64 0, 12⟩ (by decide) (by decide)
    (by decide)

set_option maxRecDepth 100000 in
/-- C29 fails as stated: for a string of 257 characters `'A'` the 8-bit length
is 1, so `writeStr` emits the count 2 and two characters without a NUL, five
bytes in all, and not the count 258 and `1 + 2 * 258` bytes. -/
theorem writeStr_layout_counterexample :
    writeStr (List.replicate 257 65 ++ [0]) = [2, 65, 0, 65, 0] ∧
    (WriteCursor.emit ⟨List.replicate 600 0, 0⟩
      (writeStr (List.replicate 257 65 ++ [0]))).pos = 5 := by
  decide

theorem readStrLoop_units (us rest : List Nat) :
    readStrLoop us.length (units16 us ++ rest) = (us.map (· % 256), rest) := by
  induction us with
  | nil => rfl
  | cons u us ih =>
    have ih' := ih
    simp only [units16] at ih'
    simp only [List.length_cons, readStrLoop, units16, List.flatMap_cons, write16,
      List.cons_append, List.nil_append, byteAt_cons_zero, List.drop_succ_cons, List.drop_zero,
      List.map_cons, ih', Nat.mod_mod]

theorem length_units16 (us : List Nat) : (units16 us).length = 2 * us.length := by
  induction us with
  | nil => rfl
  | cons u us ih =>
    simp only [units16, List.flatMap_cons, List.length_append, write16, List.length_cons,
      List.length_nil] at ih ⊢
    omega

/-- C30: for a payload that starts with the count byte `n` followed by `n`
16-bit units `us` (and anything after them), `readStr` stores the low bytes
of the units in order followed by a NUL, and so does `readAndAllocStr` when
its allocation succeeds; both leave the cursor `1 + 2 n` bytes further.  With
`n = 0` the result is the empty string and the cursor is one byte further. -/
theorem readStr_layout (us rest : List Nat) (outcomes : List Bool) (hn : us.length < 256)
    (halloc : (extmem_malloc_bytes outcomes).1 = true) :
    readStr (us.length :: units16 us ++ rest) = (us.map (· % 256) ++ [0], rest) ∧
    (readAndAllocStr (us.length :: units16 us ++ rest) outcomes).1
      = some (us.map (· % 256) ++ [0]) ∧
    (readAndAllocStr (us.length :: units16 us ++ rest) outcomes).2.1 = rest ∧
    rest = (us.length :: units16 us ++ rest).drop (1 + 2 * us.length) ∧
    readStr (0 :: rest) = ([0], rest) ∧
    (readAndAllocStr (0 :: rest) outcomes).1 = some [0] ∧
    (readAndAllocStr (0 :: rest) outcomes).2.1 = rest := by
  have hb : byteAt (us.length :: units16 us ++ rest) 0 = us.length := by
    simp only [List.cons_append, byteAt_cons_zero]
    exact Nat.mod_eq_of_lt hn
  have hd : (us.length :: units16 us ++ rest).drop 1 = units16 us ++ rest := rfl
  have hloop := readStrLoop_units us rest
  refine ⟨?_, ?_, ?_, ?_, rfl, ?_, ?_⟩
  · simp only [readStr, hb, hd, hloop]
  · simp only [readAndAllocStr, halloc, if_true, hb, hd, hloop]
  · simp only [readAndAllocStr, halloc, if_true, hb, hd, hloop]
  · have : 1 + 2 * us.length = (us.length :: units16 us).length := by
      rw [List.length_cons, length_units16]; omega
    rw [this, List.drop_left]
  · simp only [readAndAllocStr, halloc, if_true]
    rfl
  · simp only [readAndAllocStr, halloc, if_true]
    rfl

/-- Witness for C30: the payload of the string `"Dir0"` from the example in
the source: count 5, the four characters and a NUL as 16-bit units. -/
theorem readStr_layout_witness :
    readStr ([0x44, 0x69, 0x72, 0x30, 0].length :: units16 [0x44, 0x69, 0x72, 0x30, 0] ++ [7])
      = ([0x44, 0x69, 0x72, 0x30, 0, 0], [7]) ∧
    (readAndAllocStr
      ([0x44, 0x69, 0x72, 0x30, 0].length :: units16 [0x44, 0x69, 0x72, 0x30, 0] ++ [7]) []).1
      = some [0x44, 0x69, 0x72, 0x30, 0, 0] ∧
    readStr (0 :: [7]) = ([0], [7]) :=
  match readStr_layout [0x44, 0x69, 0x72, 0x30, 0] [7] [] (by decide) (by decide) with
  | ⟨a1, a2, _, _, a5, _, _⟩ => ⟨a1, a2, a5⟩

/-- The loop of `processGetStorageIDs` over `k` roots from index `i` on, fed
with the ids `vs`: it returns, each root takes its id, and nothing else
changes. -/
theorem processGetStorageIDsLoop_spec (rest : List Nat) :
    ∀ (k i : Nat) (m : Heap) (vs : List Nat),
      (∀ j, j < k → ∃ r, load m (i + j) = .ok r) → k ≤ vs.length →
      (∀ v ∈ vs, v < 4294967296) →
      ∃ m', processGetStorageIDsLoop k i m (vs.flatMap write32 ++ rest) = .ok m' ∧
        m'.length = m.length ∧
        (∀ j, j < k → ∃ r0, load m (i + j) = .ok r0 ∧
          load m' (i + j) = .ok (asStorage r0 (vs.getD j 0))) ∧
        (∀ a, (a < i ∨ i + k ≤ a) → load m' a = load m a) := by
  intro k
  induction k with
  | zero =>
    intro i m vs _ _ _
    exact ⟨m, rfl, rfl, fun j hj => absurd hj (Nat.not_lt_zero j), fun _ _ => rfl⟩
  | succ k ih =>
    intro i m vs hlive hlen hvs
    cases vs with
    | nil => simp at hlen
    | cons v vs =>
      obtain ⟨r, hr⟩ := hlive 0 (Nat.succ_pos k)
      rw [Nat.add_zero] at hr
      have hread : read32 (write32 v ++ (vs.flatMap write32 ++ rest))
          = (v, vs.flatMap write32 ++ rest) := read32_write32 v _ (hvs v (by simp))
      have hlive1 : ∀ j, j < k → ∃ r1, load (store m i (asStorage r v)) (i + 1 + j) = .ok r1 := by
        intro j hj
        obtain ⟨r1, hr1⟩ := hlive (j + 1) (by omega)
        exact ⟨r1, by rw [load_store_ne _ (by omega)]; rw [← hr1]; congr 1; omega⟩
      obtain ⟨m', hloop, hlen', hroots, hother⟩ := ih (i + 1) (store m i (asStorage r v)) vs hlive1
        (by simpa using hlen) (fun x hx => hvs x (by simp [hx]))
      refine ⟨m', ?_, by rw [hlen', store_length], ?_, ?_⟩
      · simp only [List.flatMap_cons, List.append_assoc, processGetStorageIDsLoop, hread,
          modify_some _ hr]
        exact hloop
      · intro j hj
        cases j with
        | zero =>
          refine ⟨r, by rw [Nat.add_zero]; exact hr, ?_⟩
          rw [Nat.add_zero, hother i (Or.inl (by omega)), load_store_same _ (load_lt hr)]
          rfl
        | succ j =>
          obtain ⟨r0, h0, h1⟩ := hroots j (by omega)
          rw [load_store_ne _ (by omega)] at h0
          have e : i + (j + 1) = i + 1 + j := by omega
          refine ⟨r0, by rw [e]; exact h0, ?_⟩
          rw [e, h1]
          rfl
      · intro a ha
        rw [hother a (by omega), load_store_ne _ (by omega)]

/-- C26: for a `GetStorageIDs` data container (12-byte header, the count `n`
and the ids `s_1 .. s_n`), `processGetStorageIDs` returns with
`cnt_storages_ = min(n, MAX_STORAGES)`, and every root `i` below that number
has `id = s_i`, `storage_id = s_i` and `format = 0x3001`, its other members
(the `child` link among them: no children in a fresh session) being as
before; the roots from that number on are unchanged. -/
theorem processGetStorageIDs_roots (K : Limits) (s : MTPDevice) (header ids rest : List Nat)
    (hheader : header.length = 12) (hcount : ids.length < 4294967296)
    (hids : ∀ v ∈ ids, v < 4294967296)
    (hroots : ∀ i, i < K.MAX_STORAGES → ∃ r, load s.heap i = .ok r) :
    ∃ s', processGetStorageIDs K s (header ++ handlesPayload ids ++ rest) = .ok s' ∧
      s'.cnt_storages_ = min ids.length K.MAX_STORAGES ∧
      (∀ i, i < min ids.length K.MAX_STORAGES → ∃ r0,
        load s.heap i = .ok r0 ∧
        load s'.heap i = .ok { r0 with id := ids.getD i 0, storage_id := ids.getD i 0,
                                       format := 0x3001 }) ∧
      (∀ a, min ids.length K.MAX_STORAGES ≤ a → load s'.heap a = load s.heap a) := by
  have hdrop : (header ++ handlesPayload ids ++ rest).drop 12
      = write32 ids.length ++ (ids.flatMap write32 ++ rest) := by
    rw [List.append_assoc, List.drop_left' hheader]
    simp only [handlesPayload, List.append_assoc]
  have hread : read32 (write32 ids.length ++ (ids.flatMap write32 ++ rest))
      = (ids.length, ids.flatMap write32 ++ rest) := read32_write32 _ _ hcount
  have hcnt : (if ids.length > K.MAX_STORAGES then K.MAX_STORAGES else ids.length)
      = min ids.length K.MAX_STORAGES := by
    split <;> omega
  obtain ⟨m', hloop, _, hset, hother⟩ := processGetStorageIDsLoop_spec rest
    (min ids.length K.MAX_STORAGES) 0 s.heap ids
    (fun j hj => by rw [Nat.zero_add]; exact hroots j (by omega)) (Nat.min_le_left _ _) hids
  refine ⟨{ s with cnt_storages_ := min ids.length K.MAX_STORAGES, heap := m' }, ?_, rfl, ?_, ?_⟩
  · simp only [processGetStorageIDs, hdrop, hread, hcnt, hloop]
  · intro i hi
    obtain ⟨r0, h0, h1⟩ := hset i hi
    rw [Nat.zero_add] at h0 h1
    exact ⟨r0, h0, h1⟩
  · intro a ha
    exact hother a (Or.inr (by omega))

theorem demoInitial_roots :
    ∀ i, i < demoLimits.MAX_STORAGES → ∃ r, load demoInitial.heap i = .ok r := by
  intro i hi
  have h2 : i < 2 := hi
  interval_cases i
  · exact ⟨zeroNode, rfl⟩
  · exact ⟨zeroNode, rfl⟩

/-- Witness for C26: seven storages with the ids 1 to 7 announced to a driver
with room for two: two storages are recorded, with the ids 1 and 2. -/
theorem processGetStorageIDs_roots_witness :
    (∀ i, i < demoLimits.MAX_STORAGES → ∃ r, load demoInitial.heap i = .ok r) ∧
    ∃ s', processGetStorageIDs demoLimits demoInitial
        (List.replicate 12 0 ++ handlesPayload [1, 2, 3, 4, 5, 6, 7] ++ []) = .ok s' ∧
      s'.cnt_storages_ = 2 ∧
      load s'.heap 0 = .ok { zeroNode with id := 1, storage_id := 1, format := 0x3001 } ∧
      load s'.heap 1 = .ok { zeroNode with id := 2, storage_id := 2, format := 0x3001 } :=
  ⟨demoInitial_roots,
   match processGetStorageIDs_roots demoLimits demoInitial (List.replicate 12 0)
      [1, 2, 3, 4, 5, 6, 7] [] (by decide) (by decide) (by decide) demoInitial_roots with
   | ⟨s', h1, h2, h3, _⟩ =>
     ⟨s', h1, h2,
      match h3 0 (by decide) with
      | ⟨r0, a, b⟩ => by
        have e : r0 = zeroNode := Except.ok.inj (a.symm.trans (by rfl))
        rw [b, e]; rfl,
      match h3 1 (by decide) with
      | ⟨r0, a, b⟩ => by
        have e : r0 = zeroNode := Except.ok.inj (a.symm.trans (by rfl))
        rw [b, e]; rfl⟩⟩


/-- The siblings after a node of a shape stay in the shape when the node is
taken out. -/
theorem next_chain_in_remove {m : Heap} {a : Nat} {ca : storage_list_t}
    (hca : load m a = .ok ca) {l : List Nat} (hl : Chain m ca.next l) :
    ∀ {sh : Shape} {p : Ptr}, Rep m p sh → a ∈ sh.addrs → ∀ y ∈ l, y ∈ (sh.remove a).addrs := by
  intro sh
  induction sh with
  | nil => intro p _ h; simp [Shape.addrs] at h
  | node b c n ihc ihn =>
    intro p h ha y hy
    obtain ⟨_, cell, hcell, hc, hn⟩ := h
    by_cases hb : b = a
    · subst hb
      rw [hca] at hcell
      cases hcell
      simp only [Shape.remove, if_true]
      have := Chain_functional hl (Rep_tops hn)
      rw [this] at hy
      exact Shape.tops_subset n y hy
    · simp only [Shape.remove, if_neg hb, Shape.addrs, List.mem_cons, List.mem_append]
      simp only [Shape.addrs, List.mem_cons, List.mem_append] at ha
      rcases ha with h1 | h1 | h1
      · exact absurd h1.symm hb
      · exact Or.inr (Or.inl (ihc hc h1 y hy))
      · exact Or.inr (Or.inr (ihn hn h1 y hy))

/-- A list splits at an element in one way if the element does not occur
before the split. -/
theorem split_at_unique {a : Nat} : ∀ {l1 k1 l2 k2 : List Nat},
    l1 ++ a :: l2 = k1 ++ a :: k2 → a ∉ l1 → a ∉ k1 → l1 = k1 ∧ l2 = k2 := by
  intro l1
  induction l1 with
  | nil =>
    intro k1 l2 k2 h _ hk
    cases k1 with
    | nil => exact ⟨rfl, (List.cons.inj h).2⟩
    | cons z k1 => exact absurd (by rw [(List.cons.inj h).1]; simp) hk
  | cons y l1 ih =>
    intro k1 l2 k2 h hl hk
    cases k1 with
    | nil => exact absurd (by rw [← (List.cons.inj h).1]; simp) hl
    | cons z k1 =>
      obtain ⟨e1, e2⟩ := List.cons.inj h
      obtain ⟨r1, r2⟩ := ih e2 (fun h' => hl (List.mem_cons_of_mem _ h'))
        (fun h' => hk (List.mem_cons_of_mem _ h'))
      exact ⟨by rw [e1, r1], r2⟩

/-- The removal of a node of the forest, cell by cell: the node is taken out
of the child list of its parent, whose other members keep their order; the
node and what is below it are freed; every other node is as before, but for
the one link that led to the node, which now leads to its successor. -/
theorem forest_removal_cells {m : Heap} {cnt : Nat} {sh : Nat → Shape} {i a : Nat}
    (hf : Forest m cnt sh) (hi : i < cnt) (ha : a ∈ (sh i).addrs) :
    ∃ ca P cP l1 l2 m1 m2 m3,
      load m a = .ok ca ∧ ca.parent = some P ∧ load m P = .ok cP ∧
      Chain m cP.child (l1 ++ a :: l2) ∧
      unlinkFromParent m (some P) cP a ca = .ok m1 ∧
      modify m1 (some a) (fun x => { x with next := none }) = .ok m2 ∧
      freeStorageListTree m2 (some a) = .ok m3 ∧
      Freed m2 (a :: ((sh i).sub a).addrs) m3 ∧
      (∃ cP', load m3 P = .ok cP' ∧ Chain m3 cP'.child (l1 ++ l2)) ∧
      (∀ y cy, load m y = .ok cy → y ≠ a → y ∉ ((sh i).sub a).addrs →
        load m3 y = .ok cy ∨
        (cy.child = some a ∧ load m3 y = .ok { cy with child := ca.next }) ∨
        (cy.next = some a ∧ load m3 y = .ok { cy with next := ca.next })) := by
  obtain ⟨rooti, hrooti, hrepi⟩ := hf.roots i hi
  have hndi := hf.nodup i hi
  have htops : ∀ t ∈ (sh i).tops, ChildOf m i t := by
    intro t ht
    obtain ⟨l1, l2, hsplit⟩ := List.append_of_mem ht
    exact ⟨rooti, l1, l2, hrooti, hsplit ▸ Rep_tops hrepi⟩
  obtain ⟨ca, P, hca, hpar, ⟨cP, l1, l2, hP, hchain⟩, hPmem⟩ :=
    parent_of_mem hrepi (hf.parents i hi) htops ha
  obtain ⟨x, cx, m1, hun, hcx, hlink⟩ :=
    @unlinkFromParent_spec m P a cP ca hP ⟨l1, l2, hchain⟩
  have hchain_nd := Chain_nodup hchain
  -- the parts of the tree
  have hperm := Shape.addrs_perm a (sh i) ha hndi
  have hnd' : (a :: (((sh i).sub a).addrs ++ ((sh i).remove a).addrs)).Nodup :=
    hperm.nodup_iff.mp hndi
  simp only [List.nodup_cons, List.mem_append, not_or, List.nodup_append] at hnd'
  obtain ⟨⟨ha_sub, ha_rem⟩, hsub_nd, hrem_nd, hdisj⟩ := hnd'
  obtain ⟨ca', hca', hrep_sub⟩ := Rep_sub hrepi ha
  rw [hca] at hca'
  cases hca'
  obtain ⟨ca', hca', hl2⟩ := Chain_split l1 cP.child hchain
  rw [hca] at hca'
  cases hca'
  -- the members of the list of `P`, and `P` itself, are outside the subtree
  have hin_sub : ∀ (l : List Nat) (q : Ptr), Chain m q l → (∀ y, q = some y → y ∈ ((sh i).sub a).addrs) →
      a ∉ l := fun l q hl hq hal => ha_sub (Chain_closed hrep_sub l q hl hq a hal)
  have hP_sub : P ∉ ((sh i).sub a).addrs := by
    intro hPs
    refine hin_sub _ _ hchain ?_ (by simp)
    intro y hy
    exact Rep_closed hrep_sub P hPs cP hP y (Or.inl hy)
  have hl1_sub : ∀ y ∈ l1, y ∉ ((sh i).sub a).addrs := by
    intro y hy hys
    obtain ⟨k1, k2, hk⟩ := List.append_of_mem hy
    have hch : Chain m cP.child (k1 ++ y :: (k2 ++ a :: l2)) := by
      rw [hk] at hchain
      simpa using hchain
    obtain ⟨cy, hcy, hrest⟩ := Chain_split k1 cP.child hch
    refine hin_sub _ _ hrest ?_ (by simp)
    intro z hz
    exact Rep_closed hrep_sub y hys cy hcy z (Or.inr hz)
  have hl2_sub : ∀ y ∈ l2, y ∉ ((sh i).sub a).addrs := fun y hy hys =>
    hdisj hys (next_chain_in_remove hca hl2 hrepi ha y hy)
  have hsplit_nd : (l1 ++ a :: l2).Nodup := hchain_nd
  have ha_l1 : a ∉ l1 := fun h => by
    have := List.nodup_middle.mp hsplit_nd
    exact (List.nodup_cons.mp this).1 (List.mem_append.mpr (Or.inl h))
  have ha_l2 : a ∉ l2 := fun h => by
    have := List.nodup_middle.mp hsplit_nd
    exact (List.nodup_cons.mp this).1 (List.mem_append.mpr (Or.inr h))
  have hl12_nd : (l1 ++ l2).Nodup := (List.nodup_cons.mp (List.nodup_middle.mp hsplit_nd)).2
  have hPa : P ≠ a := by
    intro hPa
    rw [hPa, hca] at hP
    cases hP
    have := Chain_functional hchain (Rep_tops hrep_sub)
    exact ha_sub (Shape.tops_subset _ a (by rw [← this]; simp))
  -- the link that is redirected
  have hy : cx.child = some a ∨ cx.next = some a := by
    rcases hlink with ⟨_, h, _⟩ | ⟨_, h, _⟩
    · exact Or.inl h
    · exact Or.inr h
  have hxa : x ≠ a := by
    intro hxa
    rw [hxa] at hcx
    exact Rep_no_self_link hrepi hndi a ha cx hcx hy
  have hx_sub : x ∉ ((sh i).sub a).addrs := fun hx =>
    ha_sub (Rep_closed hrep_sub x hx cx (hcx) a hy)
  have hm1 : m1 = store m x { cx with child := ca.next } ∨
      m1 = store m x { cx with next := ca.next } := by
    rcases hlink with ⟨_, _, h⟩ | ⟨_, _, h⟩
    · exact Or.inl h
    · exact Or.inr h
  have hother1 : ∀ y, y ≠ x → load m1 y = load m y := by
    intro y hyx
    rcases hm1 with h | h <;> rw [h] <;> exact load_store_ne _ (Ne.symm hyx)
  have hca1 : load m1 a = .ok ca := by rw [hother1 a (Ne.symm hxa)]; exact hca
  -- the list of `P` after the unlinking
  have hlist1 : ∃ cP1, load m1 P = .ok cP1 ∧ Chain m1 cP1.child (l1 ++ l2) := by
    rcases hlink with ⟨hxP, hch, hm⟩ | ⟨⟨l, hl, hxl⟩, hnx, hm⟩
    · subst hxP
      rw [hP] at hcx
      cases hcx
      have hhead := hchain
      cases l1 with
      | nil =>
        refine ⟨_, by rw [hm]; exact load_store_same _ (load_lt hP), ?_⟩
        rw [hm]
        exact Chain_store_sameNext hP rfl hl2
      | cons z l1 =>
        exfalso
        have hz : cP.child = some z := hhead.1
        rw [hch] at hz
        have : a = z := Option.some.inj hz
        exact ha_l1 (by rw [this]; simp)
    · have hl' := Chain_functional hl hchain
      subst hl'
      obtain ⟨k1, k2, hk⟩ := Chain_decomp_next hcx hnx _ cP.child hchain hxl
      -- `x` is the member right before `a`
      have hx_k1 : x ∉ k1 := by
        intro hin
        have hnd2 : (k1 ++ x :: a :: k2).Nodup := hk ▸ hsplit_nd
        exact (List.nodup_cons.mp (List.nodup_middle.mp hnd2)).1
          (List.mem_append.mpr (Or.inl hin))
      have hax : a ≠ x := Ne.symm hxa
      have hk1 : l1 = k1 ++ [x] ∧ l2 = k2 := by
        have e : l1 ++ a :: l2 = (k1 ++ [x]) ++ a :: k2 := by rw [hk]; simp
        refine split_at_unique e ha_l1 ?_
        intro hin
        rcases List.mem_append.mp hin with h1 | h1
        · have hnd2 : (k1 ++ x :: a :: k2).Nodup := hk ▸ hsplit_nd
          have hnd3 := (List.nodup_append.mp hnd2).2.2
          exact hnd3 h1 (by simp) 
        · exact hax (by simpa using h1)
      obtain ⟨e1, e2⟩ := hk1
      subst e1 e2
      have hx_l2 : x ∉ l2 := by
        intro hin
        have hnd2 : (k1 ++ x :: a :: l2).Nodup := hk ▸ hsplit_nd
        have := (List.nodup_cons.mp (List.nodup_append.mp hnd2).2.1).1
        exact this (List.mem_cons_of_mem _ hin)
      have hrel := Chain_relink hcx hl2 hx_l2 k1 cP.child (by rw [← hk]; exact hchain) hx_k1
      have hcP1 : ∃ cP1, load m1 P = .ok cP1 ∧ cP1.child = cP.child := by
        by_cases hPx : P = x
        · rw [hPx] at hP ⊢
          rw [hcx] at hP
          cases hP
          exact ⟨{ cP with next := ca.next },
            by rw [hm]; exact load_store_same _ (load_lt hcx), rfl⟩
        · exact ⟨cP, by rw [hother1 P hPx]; exact hP, rfl⟩
      obtain ⟨cP1, hcP1, hch1⟩ := hcP1
      refine ⟨cP1, hcP1, ?_⟩
      rw [hch1, hm]
      simpa using hrel
  obtain ⟨cP1, hcP1, hlist1⟩ := hlist1
  -- the node is cut off and freed
  have ha_lt : a < m1.length := load_lt hca1
  have hother2 : ∀ y, y ≠ a →
      load (store m1 a { ca with next := none }) y = load m1 y := fun y hya =>
    load_store_ne _ (Ne.symm hya)
  have hrep2 : Rep (store m1 a { ca with next := none }) (some a)
      (.node a ((sh i).sub a) .nil) := by
    refine ⟨rfl, { ca with next := none }, load_store_same _ ha_lt, ?_, rfl⟩
    apply Rep_frame _ hrep_sub
    intro y hy'
    rw [hother2 y (fun h => ha_sub (h ▸ hy')), hother1 y (fun h => hx_sub (h ▸ hy'))]
  have hnd2 : (Shape.node a ((sh i).sub a) .nil).addrs.Nodup := by
    simp only [Shape.addrs, List.append_nil, List.nodup_cons]
    exact ⟨ha_sub, hsub_nd⟩
  obtain ⟨m3, hfree, hfreed⟩ := freeStorageListTree_spec hrep2 hnd2
  have hfreed' : Freed (store m1 a { ca with next := none }) (a :: ((sh i).sub a).addrs) m3 := by
    simpa [Shape.addrs] using hfreed
  have hkeep3 : ∀ y, y ≠ a → y ∉ ((sh i).sub a).addrs → load m3 y = load m1 y := by
    intro y hya hys
    rw [hfreed'.load_of_not_mem (by simp [hya, hys]), hother2 y hya]
  refine ⟨ca, P, cP, l1, l2, m1, _, m3, hca, hpar, hP, hchain, hun, modify_some _ hca1, hfree,
    hfreed', ⟨cP1, by rw [hkeep3 P hPa hP_sub]; exact hcP1, ?_⟩, ?_⟩
  · refine Chain_frame ?_ hlist1
    intro y hy cell hcell
    have hys : y ≠ a ∧ y ∉ ((sh i).sub a).addrs := by
      rcases List.mem_append.mp hy with h1 | h1
      · exact ⟨fun e => ha_l1 (e ▸ h1), hl1_sub y h1⟩
      · exact ⟨fun e => ha_l2 (e ▸ h1), hl2_sub y h1⟩
    exact ⟨cell, by rw [hkeep3 y hys.1 hys.2]; exact hcell, rfl⟩
  · intro y cy hcy hya hys
    rw [hkeep3 y hya hys]
    by_cases hyx : y = x
    · rw [hyx] at hcy ⊢
      rw [hcx] at hcy
      cases hcy
      rcases hlink with ⟨_, hch, hm⟩ | ⟨_, hnx, hm⟩
      · exact Or.inr (Or.inl ⟨hch, by rw [hm]; exact load_store_same _ (load_lt hcx)⟩)
      · exact Or.inr (Or.inr ⟨hnx, by rw [hm]; exact load_store_same _ (load_lt hcx)⟩)
    · exact Or.inl (by rw [hother1 y hyx]; exact hcy)

/-- C28: let the storage forest be well formed and let the handle `h` be the
id of one node `X` below the roots and of no other node or root.  When
`ObjectRemoved(h)` is the one pending event, `start_process_next_event`
returns, and afterwards: `X` is gone from the child sequence of its parent
`P`, whose other children keep their order; every node outside the subtree of
`X` is as before, but for the one link that led to `X`, which leads to the
successor of `X`; `X` and the nodes below it are freed; the slot of the event
holds `item_node = X` and `delete_node = true`; the callback (when one is
installed) has been called once more, with that slot; the tail has advanced by
one, to the head, and no event is active. -/
theorem objectRemoved_unlinks (K : Limits) (s : MTPDevice) (sh : Nat → Shape) (h i X : Nat)
    (hK : 0 < K.MAX_PENDING_EVENTS)
    (hforest : Forest s.heap s.cnt_storages_ sh)
    (hcode : (s.pending_events_ s.pending_events_tail_).event = MTP_EVENT_OBJECT_REMOVED)
    (hev : (s.pending_events_ s.pending_events_tail_).id = h)
    (hne : s.pending_events_head_ ≠ s.pending_events_tail_)
    (hone : s.pending_events_head_ =
      if s.pending_events_tail_ + 1 = K.MAX_PENDING_EVENTS then 0
      else s.pending_events_tail_ + 1)
    (hroot : ∀ j, j < s.cnt_storages_ → idOf s.heap j ≠ h)
    (hi : i < s.cnt_storages_) (hX : X ∈ (sh i).addrs) (hid : idOf s.heap X = h)
    (huniq : ∀ j, j < s.cnt_storages_ → ∀ b ∈ (sh j).addrs, idOf s.heap b = h → b = X) :
    ∃ s' cX P l1 l2,
      start_process_next_event K s = .ok s' ∧
      load s.heap X = .ok cX ∧ cX.parent = some P ∧
      children s.heap P = .ok (l1 ++ X :: l2) ∧ children s'.heap P = .ok (l1 ++ l2) ∧
      (∀ y cy, load s.heap y = .ok cy → y ≠ X → y ∉ ((sh i).sub X).addrs →
        load s'.heap y = .ok cy ∨
        (cy.child = some X ∧ load s'.heap y = .ok { cy with child := cX.next }) ∨
        (cy.next = some X ∧ load s'.heap y = .ok { cy with next := cX.next })) ∧
      (∀ y ∈ X :: ((sh i).sub X).addrs, s'.heap.get? y = some none) ∧
      s'.pending_events_ s.pending_events_tail_ = removedSlot s X ∧
      s'.delivered = (if s.peventCompeteCB_ then s.delivered ++ [removedSlot s X]
        else s.delivered) ∧
      s'.pending_events_tail_ = (if s.pending_events_tail_ + 1 = K.MAX_PENDING_EVENTS then 0
        else s.pending_events_tail_ + 1) ∧
      s'.pending_events_tail_ = s.pending_events_head_ ∧
      s'.pending_events_active_ = false := by
  -- the scan finds `X`
  have hfind : findStorageItemByID s h = .ok (some X) := by
    rcases findStorageItemByIDLoop_spec (h := h) hforest.roots hforest.nodup hroot
        s.cnt_storages_ 0 (by omega) with ⟨a, j, hfa, hj, ha, hida⟩ | ⟨_, hnone⟩
    · rw [huniq j hj a ha hida] at hfa
      exact hfa
    · exact absurd hid (hnone i (Nat.zero_le i) (by omega) X hX)
  obtain ⟨cX, P, cP, l1, l2, m1, m2, m3, hcX, hpar, hP, hchain, hun, hmod, hfree, hfreed,
    ⟨cP3, hP3, hchain3⟩, hcells⟩ := forest_removal_cells hforest hi hX
  have hderef : deref s.heap cX.parent = .ok cP := by rw [hpar]; exact hP
  have hproc : process_object_removed_event s s.pending_events_tail_
      = .ok ({ s with
          pending_events_ := setAt s.pending_events_ s.pending_events_tail_ (removedSlot s X),
          heap := m2 }, true) := by
    have hun' : unlinkFromParent s.heap cX.parent cP X cX = .ok m1 := by rw [hpar]; exact hun
    simp only [process_object_removed_event, hev, hfind, hcX, hderef, hun', hmod, removedSlot]
  obtain ⟨s2, hcomp, hheap2, _⟩ := completeActiveEvent_of_free K
    { ({ s with
        pending_events_ := setAt s.pending_events_ s.pending_events_tail_ (removedSlot s X),
        heap := m2 } : MTPDevice) with pending_events_active_ := true } X m3
    (by simp [setAt, removedSlot]) (by simp [setAt, removedSlot]) hfree
  obtain ⟨c1, c2, _, c4, _, c6, c7⟩ := completeActiveEvent_spec K _ s2 hcomp
  have hheap : s2.heap = m3 := hheap2
  have htail : s2.pending_events_tail_ = (if s.pending_events_tail_ + 1 = K.MAX_PENDING_EVENTS
      then 0 else s.pending_events_tail_ + 1) := c2
  have hhead : s2.pending_events_head_ = s.pending_events_head_ := c1
  have hslots : s2.pending_events_
      = setAt s.pending_events_ s.pending_events_tail_ (removedSlot s X) := c6
  have hslot : s2.pending_events_ s.pending_events_tail_ = removedSlot s X := by
    rw [hslots]; simp [setAt]
  have hnd := Chain_nodup hchain
  refine ⟨s2, cX, P, l1, l2, ?_, hcX, hpar, children_of_chain hP hchain hnd, ?_, ?_, ?_, hslot,
    ?_, htail, by rw [htail, hone], c7⟩
  · obtain ⟨n, hn⟩ : ∃ n, K.MAX_PENDING_EVENTS = n + 1 := ⟨K.MAX_PENDING_EVENTS - 1, by omega⟩
    have hna : (s.pending_events_ s.pending_events_tail_).event ≠ MTP_EVENT_OBJECT_ADDED := by
      rw [hcode]; decide
    have hdone : start_process_next_eventAux K (n + 1) s2 = .ok s2 := by
      simp only [start_process_next_eventAux, hhead, htail, hone, if_true]
    simp only [start_process_next_event, hn, start_process_next_eventAux, if_neg hne, if_neg hna,
      if_pos hcode, hproc, if_true, hcomp]
    exact hdone
  · rw [hheap]
    exact children_of_chain hP3 hchain3 (List.nodup_cons.mp (List.nodup_middle.mp hnd)).2
  · rw [hheap]
    exact hcells
  · intro y hy
    rw [hheap]
    exact (hfreed.2 y).1 hy
  · rw [c4]
    show (if s.peventCompeteCB_ = true then
        s.delivered ++ [setAt s.pending_events_ s.pending_events_tail_ (removedSlot s X)
          s.pending_events_tail_]
      else s.delivered) = _
    simp [setAt]

/-- The state `removalPending` holds a well-formed forest: one storage root
with the two children at the addresses 2 and 3. -/
theorem removalPending_forest :
    Forest removalPending.heap removalPending.cnt_storages_ twoChildrenShape where
  roots := fun i hi => by
    have h0 : i = 0 := Nat.lt_one_iff.mp hi
    subst h0
    exact ⟨_, rfl, rfl, _, rfl, rfl, rfl, _, rfl, rfl, rfl⟩
  parents := fun i hi => by
    have h0 : i = 0 := Nat.lt_one_iff.mp hi
    subst h0
    exact ⟨⟨_, rfl, rfl⟩, trivial, ⟨_, rfl, rfl⟩, trivial, trivial⟩
  nodup := fun i hi => by
    have h0 : i = 0 := Nat.lt_one_iff.mp hi
    subst h0
    decide
  above := fun i hi => by
    have h0 : i = 0 := Nat.lt_one_iff.mp hi
    subst h0
    decide
  apart := fun i j hi hj hij => by
    have h0 : i = 0 := Nat.lt_one_iff.mp hi
    have h1 : j = 0 := Nat.lt_one_iff.mp hj
    exact absurd (h0.trans h1.symm) hij

/-- Witness for C28: the storage root has the children with the handles 5 and
6 (addresses 2 and 3) and the ring holds the one event `ObjectRemoved(5)`. -/
theorem objectRemoved_unlinks_witness :
    idOf removalPending.heap 2 = 5 ∧
    ∃ s' cX P l1 l2,
      start_process_next_event demoLimits removalPending = .ok s' ∧
      load removalPending.heap 2 = .ok cX ∧ cX.parent = some P ∧
      children removalPending.heap P = .ok (l1 ++ 2 :: l2) ∧
      children s'.heap P = .ok (l1 ++ l2) ∧
      s'.pending_events_ removalPending.pending_events_tail_ = removedSlot removalPending 2 ∧
      s'.pending_events_tail_ = removalPending.pending_events_head_ :=
  ⟨rfl,
   match objectRemoved_unlinks demoLimits removalPending twoChildrenShape 5 0 2 (by decide)
     removalPending_forest (by decide) (by decide) (by decide) (by decide)
     (fun j hj => by
       have h0 : j = 0 := Nat.lt_one_iff.mp hj
       subst h0
       decide)
     (by decide) (by decide) (by decide)
     (fun j hj b hb hid => by
       have h0 : j = 0 := Nat.lt_one_iff.mp hj
       subst h0
       have hb' : b = 2 ∨ b = 3 := by simpa [twoChildrenShape, Shape.addrs] using hb
       rcases hb' with rfl | rfl
       · rfl
       · exact absurd hid (by decide)) with
   | ⟨s', cX, P, l1, l2, h1, h2, h3, h4, h5, _, _, h8, _, _, h11, _⟩ =>
     ⟨s', cX, P, l1, l2, h1, h2, h3, h4, h5, h8, h11⟩⟩

/-- C22 fails on the code.  After the run `removedUnderCursor` the state is
reachable, the event has been completed (tail at the head, no event active,
the callback called), the node of handle 5 at address 2 has been freed, and
the cursor `prop_node_` still refers to it.  The response that ends the
pending `GetObjectPropValue` then reads `prop_node_->next` from the freed
node. -/
theorem cursor_freed_by_removal :
    Reachable demoLimits (stateAfter demoLimits demoInitial removedUnderCursor) ∧
    (stateAfter demoLimits demoInitial (twoHandlesArrive ++ [okResponse])).prop_node_ = some 2 ∧
    idOf (stateAfter demoLimits demoInitial (twoHandlesArrive ++ [okResponse])).heap 2 = 5 ∧
    (stateAfter demoLimits demoInitial removedUnderCursor).prop_node_ = some 2 ∧
    (stateAfter demoLimits demoInitial removedUnderCursor).heap.get? 2 = some none ∧
    (stateAfter demoLimits demoInitial removedUnderCursor).pending_events_active_ = false ∧
    (stateAfter demoLimits demoInitial removedUnderCursor).pending_events_tail_
      = (stateAfter demoLimits demoInitial removedUnderCursor).pending_events_head_ ∧
    (stateAfter demoLimits demoInitial removedUnderCursor).delivered.map slotKey
      = [(MTP_EVENT_OBJECT_REMOVED, 5, 0)] ∧
    step demoLimits (stateAfter demoLimits demoInitial removedUnderCursor) okResponse
      = .error .deadPointer :=
  ⟨⟨[], true, removedUnderCursor, rfl⟩, rfl, rfl, rfl, rfl, rfl, by decide, by decide, rfl⟩

theorem SidKeep.unchanged_heap (m : Heap) : SidKeep m m :=
  ⟨Nat.le_refl _, fun _ cb' h => ⟨cb', h, rfl, Or.inl rfl, rfl⟩⟩

theorem SidKeep.trans {m m1 m2 : Heap} (h1 : SidKeep m m1) (h2 : SidKeep m1 m2) :
    SidKeep m m2 := by
  refine ⟨Nat.le_trans h1.1 h2.1, fun b cb2 hb => ?_⟩
  obtain ⟨cb1, hb1, e1, e2, e3⟩ := h2.2 b cb2 hb
  obtain ⟨cb, hb0, f1, f2, f3⟩ := h1.2 b cb1 hb1
  refine ⟨cb, hb0, e1.trans f1, ?_, e3.trans f3⟩
  rcases e2 with e2 | e2
  · rcases f2 with f2 | f2
    · exact Or.inl (e2.trans f2)
    · exact Or.inr (e2.trans f2)
  · exact Or.inr e2

theorem SidInv.keep {K : Limits} {m m' : Heap} (h : SidInv K m) (hk : SidKeep m m') :
    SidInv K m' where
  len := Nat.le_trans h.len hk.1
  roots := fun i r hi hr => by
    obtain ⟨r0, hr0, e1, e2, e3⟩ := hk.2 i r hr
    rw [e1, e3]
    refine ⟨(h.roots i r0 hi hr0).1, ?_⟩
    rcases e2 with e2 | e2
    · rw [e2]; exact (h.roots i r0 hi hr0).2
    · exact e2
  range := fun a ca p ha hp => by
    obtain ⟨c0, hc0, _, e2, _⟩ := hk.2 a ca ha
    rcases e2 with e2 | e2
    · exact Nat.lt_of_lt_of_le (h.range a c0 p hc0 (e2 ▸ hp)) hk.1
    · rw [e2] at hp; cases hp
  pairs := fun a ca p cp ha hp hcp => by
    obtain ⟨c0, hc0, e1, e2, _⟩ := hk.2 a ca ha
    obtain ⟨p0, hp0, f1, _, _⟩ := hk.2 p cp hcp
    rw [e1, f1]
    rcases e2 with e2 | e2
    · exact h.pairs a c0 p p0 hc0 (e2 ▸ hp) hp0
    · rw [e2] at hp; cases hp

theorem SidKeep_store {m : Heap} {a : Nat} {n n' : storage_list_t} (hn : load m a = .ok n)
    (hs : SameSid n n') : SidKeep m (store m a n') := by
  refine ⟨by rw [store_length], fun b cb' hb => ?_⟩
  by_cases hab : a = b
  · subst hab
    rw [load_store_same _ (load_lt hn)] at hb
    obtain rfl := Except.ok.inj hb
    exact ⟨n, hn, hs.1, hs.2.1, hs.2.2⟩
  · rw [load_store_ne _ hab] at hb
    exact ⟨cb', hb, rfl, Or.inl rfl, rfl⟩

theorem SidKeep_modify {m m' : Heap} {p : Ptr} {f : storage_list_t → storage_list_t}
    (hm : modify m p f = .ok m') (hf : ∀ c, SameSid c (f c)) : SidKeep m m' := by
  unfold modify at hm
  split at hm
  · cases hm
  · split at hm
    · rename_i a n hn
      obtain rfl := Except.ok.inj hm
      exact SidKeep_store hn (hf n)
    · cases hm

theorem SidKeep_freeNode {m m' : Heap} {a : Nat} (h : freeNode m a = .ok m') :
    SidKeep m m' := by
  unfold freeNode at h
  split at h
  · obtain rfl := Except.ok.inj h
    refine ⟨by simp, fun b cb' hb => ?_⟩
    by_cases hab : a = b
    · subst hab
      rw [load_eq_ok] at hb
      simp [List.getElem?_set] at hb
    · refine ⟨cb', ?_, rfl, Or.inl rfl, rfl⟩
      rw [← hb]
      exact (load_congr (by simp [List.getElem?_set, hab])).symm
  · cases h

theorem SidKeep_freeAux : ∀ (fuel : Nat) (m : Heap) (p : Ptr) (m' : Heap),
    freeStorageListTreeAux fuel m p = .ok m' → SidKeep m m' := by
  intro fuel
  induction fuel with
  | zero => intro m p m' h; cases h
  | succ fuel ih =>
    intro m p m' h
    cases p with
    | none =>
      obtain rfl := Except.ok.inj h
      exact SidKeep.unchanged_heap _
    | some a =>
      simp only [freeStorageListTreeAux] at h
      split at h
      · cases h
      · rename_i item hitem
        split at h
        · cases h
        · rename_i m1 h1
          split at h
          · cases h
          · rename_i m2 h2
            have k1 : SidKeep m m1 := by
              split at h1
              · exact ih _ _ _ h1
              · obtain rfl := Except.ok.inj h1
                exact SidKeep.unchanged_heap _
            exact (k1.trans (SidKeep_freeNode h2)).trans (ih _ _ _ h)

theorem SidKeep_free {m m' : Heap} {p : Ptr} (h : freeStorageListTree m p = .ok m') :
    SidKeep m m' :=
  SidKeep_freeAux _ _ _ _ h

theorem SidKeep_unlink {m m' : Heap} {parent : Ptr} {pn n : storage_list_t} {a : Nat}
    (h : unlinkFromParent m parent pn a n = .ok m') : SidKeep m m' := by
  unfold unlinkFromParent at h
  split at h
  · exact SidKeep_modify h (fun _ => ⟨rfl, Or.inl rfl, rfl⟩)
  · split at h
    · cases h
    · obtain rfl := Except.ok.inj h
      exact SidKeep.unchanged_heap _
    · exact SidKeep_modify h (fun _ => ⟨rfl, Or.inl rfl, rfl⟩)

/-- A node allocated at the end of the heap keeps the invariant when it has
no parent, or carries the `storage_id` of a live parent. -/
theorem SidInv.alloc {K : Limits} {m : Heap} (h : SidInv K m) (z : Option storage_list_t)
    (n : storage_list_t)
    (hn : n.parent = none ∨
      ∃ e ce, n.parent = some e ∧ load m e = .ok ce ∧ n.storage_id = ce.storage_id) :
    SidInv K (store (m ++ [z]) m.length n) where
  len := by
    rw [store_length, List.length_append]
    exact Nat.le_trans h.len (Nat.le_add_right _ _)
  roots := fun i r hi hr => by
    rcases load_fresh_inv hr with ⟨hb, _⟩ | ⟨_, hr0⟩
    · have := h.len
      omega
    · exact h.roots i r hi hr0
  range := fun a ca p ha hp => by
    rw [store_length, List.length_append, List.length_singleton]
    rcases load_fresh_inv ha with ⟨_, rfl⟩ | ⟨_, ha0⟩
    · rcases hn with hnone | ⟨e, ce, he, hce, _⟩
      · rw [hnone] at hp; cases hp
      · rw [he] at hp
        obtain rfl := Option.some.inj hp
        exact Nat.lt_succ_of_lt (load_lt hce)
    · exact Nat.lt_succ_of_lt (h.range a ca p ha0 hp)
  pairs := fun a ca p cp ha hp hcp => by
    rcases load_fresh_inv ha with ⟨_, rfl⟩ | ⟨_, ha0⟩
    · rcases hn with hnone | ⟨e, ce, he, hce, hsid⟩
      · rw [hnone] at hp; cases hp
      · rw [he] at hp
        obtain rfl := Option.some.inj hp
        rw [load_fresh_old _ _ (load_lt hce), hce] at hcp
        obtain rfl := Except.ok.inj hcp
        exact hsid
    · have hplt := h.range a ca p ha0 hp
      rw [load_fresh_old _ _ hplt] at hcp
      exact h.pairs a ca p cp ha0 hp hcp

theorem process_object_added_event_sid {K : Limits} (s s' : MTPDevice) (i : Nat) (b : Bool)
    (hs : SidInv K s.heap) (h : process_object_added_event s i = .ok (s', b)) :
    SidInv K s'.heap := by
  unfold process_object_added_event at h
  simp only at h
  split at h
  · rename_i hnone
    simp only [Except.ok.injEq, Prod.mk.injEq] at h
    obtain ⟨rfl, rfl⟩ := h
    have hheap : (extmem_malloc s.heap s.malloc_outcomes).2.1 = s.heap := by
      unfold extmem_malloc at hnone ⊢
      split <;> simp_all
    show SidInv K (extmem_malloc s.heap s.malloc_outcomes).2.1
    rw [hheap]
    exact hs
  · rename_i a hsome
    simp only [Except.ok.injEq, Prod.mk.injEq] at h
    obtain ⟨rfl, rfl⟩ := h
    have hres : a = s.heap.length ∧
        (extmem_malloc s.heap s.malloc_outcomes).2.1 = s.heap ++ [some zeroNode] := by
      unfold extmem_malloc at hsome ⊢
      split at hsome <;> simp_all
    obtain ⟨ha, hheap⟩ := hres
    show SidInv K (store (extmem_malloc s.heap s.malloc_outcomes).2.1 a _)
    rw [hheap, ha]
    exact hs.alloc _ _ (Or.inl rfl)

theorem process_object_removed_event_sid (s s' : MTPDevice) (i : Nat) (b : Bool)
    (h : process_object_removed_event s i = .ok (s', b)) : SidKeep s.heap s'.heap := by
  unfold process_object_removed_event at h
  split at h
  · cases h
  · simp only at h
    split at h
    · simp only [Except.ok.injEq, Prod.mk.injEq] at h
      obtain ⟨rfl, rfl⟩ := h
      exact SidKeep.unchanged_heap _
    · split at h
      · cases h
      · split at h
        · cases h
        · split at h
          · cases h
          · rename_i m1 hm1
            split at h
            · cases h
            · rename_i m2 hm2
              simp only [Except.ok.injEq, Prod.mk.injEq] at h
              obtain ⟨rfl, rfl⟩ := h
              exact (SidKeep_unlink hm1).trans (SidKeep_modify hm2 (fun _ => ⟨rfl, Or.inl rfl, rfl⟩))

theorem completeActiveEvent_sid (K : Limits) (s s' : MTPDevice)
    (h : completeActiveEvent K s = .ok s') : SidKeep s.heap s'.heap := by
  have hfree := (completeActiveEvent_heap K s s' h).2
  split at hfree
  · exact SidKeep_free hfree
  · rw [hfree]
    exact SidKeep.unchanged_heap _

theorem start_aux_sid (K : Limits) (fuel : Nat) :
    ∀ (s s' : MTPDevice), SidInv K s.heap → start_process_next_eventAux K fuel s = .ok s' →
      SidInv K s'.heap := by
  induction fuel with
  | zero => intro s s' _ h; simp [start_process_next_eventAux] at h
  | succ fuel ih =>
    intro s s' hinv h
    unfold start_process_next_eventAux at h
    split at h
    · simp only [Except.ok.injEq] at h; subst h; exact hinv
    · simp only at h
      split at h
      · cases h
      · rename_i s1 event_completed hh
        have h1 : SidInv K s1.heap := by
          split at hh
          · exact process_object_added_event_sid _ _ _ _ hinv hh
          · split at hh
            · exact hinv.keep (process_object_removed_event_sid _ _ _ _ hh)
            · simp only [Except.ok.injEq, Prod.mk.injEq] at hh
              obtain ⟨rfl, rfl⟩ := hh
              exact hinv
        split at h
        · split at h
          · cases h
          · rename_i s2 hc
            exact ih s2 s' (h1.keep (completeActiveEvent_sid K _ s2 hc)) h
        · simp only [Except.ok.injEq] at h
          subst h
          exact h1

theorem complete_processing_event_sid (K : Limits) (s s' : MTPDevice) (b : Bool)
    (hinv : SidInv K s.heap) (h : complete_processing_event K s b = .ok s') :
    SidInv K s'.heap := by
  unfold complete_processing_event at h
  split at h
  · split at h
    · cases h
    · rename_i s1 hc
      have h1 := hinv.keep (completeActiveEvent_sid K s s1 hc)
      split at h
      · exact start_aux_sid K _ s1 s' h1 h
      · simp only [Except.ok.injEq] at h; subst h; exact h1
  · simp only [Except.ok.injEq] at h; subst h; exact hinv

theorem add_event_to_list_sid (K : Limits) (s s' : MTPDevice) (op id prop_code : Nat)
    (hinv : SidInv K s.heap) (h : add_event_to_list K s op id prop_code = .ok s') :
    SidInv K s'.heap := by
  rw [add_event_to_list_eq] at h
  split at h
  · split at h
    · exact start_aux_sid K _ (enqueued K s op id prop_code) s' hinv h
    · simp only [Except.ok.injEq] at h; subst h; exact hinv
  · simp only [Except.ok.injEq] at h; subst h; exact hinv

theorem event_data_sid (K : Limits) (s s' : MTPDevice) (len : Nat) (c : List Nat)
    (hinv : SidInv K s.heap) (h : event_data K s len c = .ok s') : SidInv K s'.heap := by
  unfold event_data at h
  simp only at h
  repeat' split at h
  all_goals first
    | exact add_event_to_list_sid K s s' _ _ _ hinv h
    | (cases h; exact hinv)

theorem childless_spec {m : Heap} {a : Nat} (h : childless m a = true) :
    ∀ x cx, load m x = .ok cx → cx.parent ≠ some a := by
  intro x cx hx
  unfold childless at h
  rw [List.all_eq_true] at h
  have := h x (List.mem_range.mpr (load_lt hx))
  rw [hx] at this
  simpa using this

/-- Overwriting a node that is no storage root and has no children, with a
cell that has no parent or carries the `storage_id` of its parent. -/
theorem SidInv.store_childless {K : Limits} {m : Heap} (h : SidInv K m) {a : Nat}
    {n : storage_list_t} (n' : storage_list_t) (hn : load m a = .ok n)
    (ha : K.MAX_STORAGES ≤ a) (hch : ∀ x cx, load m x = .ok cx → cx.parent ≠ some a)
    (hp : n'.parent = none ∨
      ∃ p pn, n'.parent = some p ∧ load m p = .ok pn ∧ n'.storage_id = pn.storage_id) :
    SidInv K (store m a n') where
  len := by rw [store_length]; exact h.len
  roots := fun i r hi hr => by
    rw [load_store_ne _ (by omega)] at hr
    exact h.roots i r hi hr
  range := fun x cx p hx hxp => by
    rw [store_length]
    by_cases hax : a = x
    · subst hax
      rw [load_store_same _ (load_lt hn)] at hx
      obtain rfl := Except.ok.inj hx
      rcases hp with hnone | ⟨q, pn, hq, hpn, _⟩
      · rw [hnone] at hxp; cases hxp
      · rw [hq] at hxp
        obtain rfl := Option.some.inj hxp
        exact load_lt hpn
    · rw [load_store_ne _ hax] at hx
      exact h.range x cx p hx hxp
  pairs := fun x cx p cp hx hxp hcp => by
    by_cases hax : a = x
    · subst hax
      rw [load_store_same _ (load_lt hn)] at hx
      obtain rfl := Except.ok.inj hx
      rcases hp with hnone | ⟨q, pn, hq, hpn, hsid⟩
      · rw [hnone] at hxp; cases hxp
      · rw [hq] at hxp
        obtain rfl := Option.some.inj hxp
        by_cases haq : a = q
        · subst haq
          rw [load_store_same _ (load_lt hn)] at hcp
          obtain rfl := Except.ok.inj hcp
          rfl
        · rw [load_store_ne _ haq, hpn] at hcp
          obtain rfl := Except.ok.inj hcp
          exact hsid
    · rw [load_store_ne _ hax] at hx
      by_cases hap : a = p
      · subst hap
        exact absurd hxp (hch x cx hx)
      · rw [load_store_ne _ hap] at hcp
        exact h.pairs x cx p cp hx hxp hcp

theorem processGetStorageIDsLoop_sid {K : Limits} {m : Heap} :
    ∀ (n i : Nat) (mc m' : Heap) (pdata : List Nat), SidInv K mc → i + n ≤ K.MAX_STORAGES →
      storageIdsFit m n i pdata = true →
      (∀ x cx, load mc x = .ok cx → ∃ c0, load m x = .ok c0 ∧ cx.parent = c0.parent) →
      (∀ b, i ≤ b → load mc b = load m b) →
      processGetStorageIDsLoop n i mc pdata = .ok m' → SidInv K m' := by
  intro n
  induction n with
  | zero =>
    intro i mc m' pdata h _ _ _ _ hr
    simp only [processGetStorageIDsLoop] at hr
    cases hr
    exact h
  | succ n ih =>
    intro i mc m' pdata h hi hfit hpar hsame hr
    simp only [processGetStorageIDsLoop] at hr
    split at hr
    · cases hr
    · rename_i m1 hm1
      unfold modify at hm1
      simp only at hm1
      split at hm1
      · rename_i r hr0
        obtain rfl := Except.ok.inj hm1
        simp only [storageIdsFit, Bool.and_eq_true, Bool.or_eq_true] at hfit
        obtain ⟨hfit1, hfit2⟩ := hfit
        have hroot := h.roots i r (by omega) hr0
        have hkids : ∀ x cx, load mc x = .ok cx → cx.parent = some i →
            cx.storage_id = (read32 pdata).1 := by
          intro x cx hx hxp
          rcases hfit1 with hcl | hid
          · obtain ⟨c0, hc0, e⟩ := hpar x cx hx
            exact absurd (e ▸ hxp) (childless_spec hcl x c0 hc0)
          · rw [← hsame i (Nat.le_refl i), hr0] at hid
            simp only [decide_eq_true_eq] at hid
            rw [← hid]
            exact h.pairs x cx i r hx hxp hr0
        refine ih (i + 1) _ m' _ ?_ (by omega) hfit2 ?_ ?_ hr
        · refine ⟨by rw [store_length]; exact h.len, fun j rj hj hrj => ?_,
            fun x cx p hx hxp => ?_, fun x cx p cp hx hxp hcp => ?_⟩
          · by_cases hij : i = j
            · subst hij
              rw [load_store_same _ (load_lt hr0)] at hrj
              obtain rfl := Except.ok.inj hrj
              exact ⟨rfl, hroot.2⟩
            · rw [load_store_ne _ hij] at hrj
              exact h.roots j rj hj hrj
          · rw [store_length]
            by_cases hix : i = x
            · subst hix
              rw [load_store_same _ (load_lt hr0)] at hx
              obtain rfl := Except.ok.inj hx
              exact h.range i r p hr0 hxp
            · rw [load_store_ne _ hix] at hx
              exact h.range x cx p hx hxp
          · by_cases hix : i = x
            · subst hix
              rw [load_store_same _ (load_lt hr0)] at hx
              obtain rfl := Except.ok.inj hx
              have : r.parent = some p := hxp
              rw [hroot.2] at this
              cases this
            · rw [load_store_ne _ hix] at hx
              by_cases hip : i = p
              · subst hip
                rw [load_store_same _ (load_lt hr0)] at hcp
                obtain rfl := Except.ok.inj hcp
                exact hkids x cx hx hxp
              · rw [load_store_ne _ hip] at hcp
                exact h.pairs x cx p cp hx hxp hcp
        · intro x cx hx
          by_cases hix : i = x
          · subst hix
            rw [load_store_same _ (load_lt hr0)] at hx
            obtain rfl := Except.ok.inj hx
            exact hpar i r hr0
          · rw [load_store_ne _ hix] at hx
            exact hpar x cx hx
        · intro b hb
          rw [load_store_ne _ (by omega)]
          exact hsame b (by omega)
      · cases hm1

theorem processGetStorageIDs_sid (K : Limits) (s s' : MTPDevice) (c : List Nat)
    (h : SidInv K s.heap)
    (hfit : storageIdsFit s.heap
      (if (read32 (c.drop 12)).1 > K.MAX_STORAGES then K.MAX_STORAGES else (read32 (c.drop 12)).1)
      0 (read32 (c.drop 12)).2 = true)
    (hr : processGetStorageIDs K s c = .ok s') : SidInv K s'.heap := by
  unfold processGetStorageIDs at hr
  simp only at hr
  split at hr
  · cases hr
  · rename_i m hm
    cases hr
    refine processGetStorageIDsLoop_sid _ 0 s.heap m _ h ?_ hfit
      (fun x cx hx => ⟨cx, hx, rfl⟩) (fun _ _ => rfl) hm
    split <;> omega

theorem processGetStoreInfo_sid (K : Limits) (s s' : MTPDevice) (c : List Nat)
    (h : SidInv K s.heap) (hr : processGetStoreInfo K s c = .ok s') : SidInv K s'.heap := by
  unfold processGetStoreInfo at hr
  simp only at hr
  split at hr
  · cases hr
  · split at hr
    · cases hr
    · rename_i m hm
      cases hr
      exact h.keep (SidKeep_modify hm (fun _ => ⟨rfl, Or.inr rfl, rfl⟩))

theorem linkAtEnd_sid {e : Nat} {m m' : Heap} {last : Ptr} {child : Nat}
    (h : linkAtEnd e m last child = .ok m') : SidKeep m m' := by
  unfold linkAtEnd at h
  split at h
  · exact SidKeep_modify h (fun _ => ⟨rfl, Or.inl rfl, rfl⟩)
  · exact SidKeep_modify h (fun _ => ⟨rfl, Or.inl rfl, rfl⟩)

theorem appendChild_sid {e : Nat} {L L' : HandlesLoop} {child : Nat}
    (h : appendChild e L child = .ok L') : SidKeep L.heap L'.heap := by
  unfold appendChild at h
  split at h
  · cases h
  · rename_i m1 hm1
    split at h
    · cases h
    · rename_i m2 hm2
      obtain rfl := Except.ok.inj h
      exact (SidKeep_modify hm1 (fun _ => ⟨rfl, Or.inl rfl, rfl⟩)).trans (linkAtEnd_sid hm2)

theorem reuseChild_sid {e : Nat} {L L' : HandlesLoop} {prev : Ptr} {child : Nat}
    (h : reuseChild e L prev child = .ok L') : SidKeep L.heap L'.heap := by
  unfold reuseChild at h
  split at h
  · cases h
  · split at h
    · split at h
      · cases h
      · rename_i m hm
        exact (SidKeep_modify hm (fun _ => ⟨rfl, Or.inl rfl, rfl⟩)).trans (appendChild_sid h)
    · have := appendChild_sid h
      exact this

theorem createChild_sid {K : Limits} {e : Nat} {L L' : HandlesLoop} {prev : Ptr} {id : Nat}
    {b : Bool} (hinv : SidInv K L.heap) (he : e < L.heap.length)
    (h : createChild e L prev id = .ok (L', b)) :
    SidInv K L'.heap ∧ L.heap.length ≤ L'.heap.length := by
  unfold createChild at h
  split at h
  · rename_i m rest hmal
    simp only [Except.ok.injEq, Prod.mk.injEq] at h
    obtain ⟨rfl, _⟩ := h
    have hm : m = L.heap := by
      unfold extmem_malloc at hmal
      split at hmal <;> simp_all
    subst hm
    exact ⟨hinv, Nat.le_refl _⟩
  · rename_i child m rest hmal
    have hres : child = L.heap.length ∧ m = L.heap ++ [some zeroNode] := by
      unfold extmem_malloc at hmal
      split at hmal <;> simp_all
    obtain ⟨rfl, rfl⟩ := hres
    split at h
    · cases h
    · rename_i en hen
      split at h
      · cases h
      · rename_i L1 hL1
        simp only [Except.ok.injEq, Prod.mk.injEq] at h
        obtain ⟨rfl, _⟩ := h
        rw [load_append_left _ he] at hen
        have hk := appendChild_sid hL1
        have hfresh : SidInv K (store (L.heap ++ [some zeroNode]) L.heap.length
            { zeroNode with id := id, parent := some e, name := none, size := 0,
                            storage_id := en.storage_id }) :=
          hinv.alloc _ _ (Or.inr ⟨e, en, rfl, hen, rfl⟩)
        refine ⟨hfresh.keep hk, ?_⟩
        have := hk.1
        simp only [store_length, List.length_append, List.length_singleton] at this
        omega

theorem processGetObjectHandlesLoop_sid {K : Limits} {e : Nat} :
    ∀ (count : Nat) (L L' : HandlesLoop) (pdata : List Nat), SidInv K L.heap →
      e < L.heap.length → processGetObjectHandlesLoop e count L pdata = .ok L' →
      SidInv K L'.heap := by
  intro count
  induction count with
  | zero =>
    intro L L' pdata h _ hr
    simp only [processGetObjectHandlesLoop] at hr
    cases hr
    exact h
  | succ count ih =>
    intro L L' pdata h he hr
    simp only [processGetObjectHandlesLoop] at hr
    split at hr
    · cases hr
    · rename_i prev child hs
      split at hr
      · cases hr
      · rename_i L1 hL1
        have hk := reuseChild_sid hL1
        exact ih L1 L' _ (h.keep hk) (Nat.lt_of_lt_of_le he hk.1) hr
    · rename_i prev hs
      split at hr
      · cases hr
      · rename_i L1 hL1
        cases hr
        exact (createChild_sid h he hL1).1
      · rename_i L1 hL1
        have hc := createChild_sid h he hL1
        exact ih L1 L' _ hc.1 (Nat.lt_of_lt_of_le he hc.2) hr

theorem processGetObjectHandles_sid (K : Limits) (s s' : MTPDevice) (c : List Nat)
    (h : SidInv K s.heap) (hp : processGetObjectHandles s c = .ok s') :
    SidInv K s'.heap := by
  unfold processGetObjectHandles at hp
  simp only at hp
  split at hp
  · cases hp; exact h
  · rename_i e he
    split at hp
    · cases hp
    · rename_i en hen
      split at hp
      · cases hp
      · rename_i L hL
        split at hp
        · cases hp
        · rename_i m hm
          cases hp
          have h0 : SidInv K (store s.heap e { en with child := none }) :=
            h.keep (SidKeep_store hen ⟨rfl, Or.inl rfl, rfl⟩)
          have h1 := processGetObjectHandlesLoop_sid _ _ L _ h0
            (by rw [store_length]; exact load_lt hen) hL
          exact h1.keep (SidKeep_free hm)

theorem setParentObject_sid {K : Limits} (s : MTPDevice) (a : Nat) (pdata : List Nat)
    (m : Heap) (h : SidInv K s.heap) (ha : K.MAX_STORAGES ≤ a)
    (hfit : ∀ n, load s.heap a = .ok n → n.parent = none →
      ∀ x cx, load s.heap x = .ok cx → cx.parent ≠ some a)
    (hr : setParentObject s a pdata = .ok m) : SidInv K m := by
  unfold setParentObject at hr
  simp only at hr
  split at hr
  · cases hr
  · rename_i n hn
    split at hr
    · split at hr
      · cases hr
      · cases hr; exact h
    · rename_i hpar
      split at hr
      · cases hr
      · cases hr; exact h
      · rename_i p hfind
        split at hr
        · cases hr
        · rename_i pn hpn
          have h1 : SidInv K (store s.heap a
              { n with parent := some p, storage_id := pn.storage_id, next := none }) :=
            h.store_childless _ hn ha (hfit n hn hpar) (Or.inr ⟨p, pn, rfl, hpn, rfl⟩)
          split at hr
          · cases hr
          · split at hr
            · split at hr
              · cases hr
              · exact h1.keep (SidKeep_modify hr (fun _ => ⟨rfl, Or.inl rfl, rfl⟩))
            · exact h1.keep (SidKeep_modify hr (fun _ => ⟨rfl, Or.inl rfl, rfl⟩))

theorem processGetObjectPropValue_sid (K : Limits) (s s' : MTPDevice) (c : List Nat)
    (h : SidInv K s.heap) (hcur : CursorOk K s) (hfit : propValueFits s c = true)
    (hr : processGetObjectPropValue s c = .ok s') : SidInv K s'.heap := by
  have hkeep : ∀ (a : Nat) (m : Heap) (g : storage_list_t → storage_list_t),
      modify s.heap (some a) g = .ok m → (∀ x, SameSid x (g x)) → SidInv K m :=
    fun a m g hm hg => h.keep (SidKeep_modify hm hg)
  unfold processGetObjectPropValue at hr
  simp only at hr
  split at hr
  · cases hr; exact h
  · rename_i a hprop
    have ha : K.MAX_STORAGES ≤ a := hcur a hprop
    unfold propValueFits at hfit
    rw [hprop] at hfit
    simp only at hfit
    split at hr
    · rename_i hsid
      split at hr
      · cases hr
      · rename_i m hm
        cases hr
        unfold modify at hm
        simp only at hm
        split at hm
        · rename_i n hn
          obtain rfl := Except.ok.inj hm
          rw [hn] at hfit
          simp only [if_pos hsid, Bool.or_eq_true, Bool.and_eq_true, decide_eq_true_eq] at hfit
          rcases hfit with hv | ⟨hnone, hcl⟩
          · exact h.keep (SidKeep_store hn ⟨hv, Or.inl rfl, rfl⟩)
          · refine h.store_childless _ hn ha (childless_spec hcl) (Or.inl ?_)
            show n.parent = none
            cases hp : n.parent with
            | none => rfl
            | some p => rw [hp] at hnone; cases hnone
        · cases hm
    rename_i hnsid
    split at hr
    · split at hr
      · cases hr
      · rename_i m hm
        cases hr
        exact hkeep a m _ hm (fun _ => ⟨rfl, Or.inl rfl, rfl⟩)
    split at hr
    · split at hr
      · cases hr
      · rename_i m hm
        cases hr
        exact hkeep a m _ hm (fun _ => ⟨rfl, Or.inl rfl, rfl⟩)
    split at hr
    · split at hr
      · cases hr
      · rename_i m hm
        cases hr
        exact hkeep a m _ hm (fun _ => ⟨rfl, Or.inl rfl, rfl⟩)
    split at hr
    · split at hr
      · cases hr
      · rename_i m hm
        cases hr
        exact hkeep a m _ hm (fun _ => ⟨rfl, Or.inl rfl, rfl⟩)
    split at hr
    · rename_i hpo
      split at hr
      · cases hr
      · rename_i m hm
        cases hr
        refine setParentObject_sid s a _ m h ha ?_ hm
        intro n hn hnone
        rw [hn] at hfit
        simp only [if_neg hnsid, if_pos hpo, Bool.or_eq_true] at hfit
        rcases hfit with hsome | hcl
        · rw [hnone] at hsome; cases hsome
        · exact childless_spec hcl
    · cases hr; exact h

theorem processMTPData_sid (K : Limits) (s s' : MTPDevice) (c : List Nat)
    (h : SidInv K s.heap) (hcur : CursorOk K s) (hfit : dataFits K s c = true)
    (hr : processMTPData K s c = .ok s') : SidInv K s'.heap := by
  unfold processMTPData at hr
  simp only at hr
  unfold dataFits at hfit
  split at hr
  · cases hr
    rw [(processDescriptorData_frame K s c).1]
    exact h
  split at hr
  · cases hr
    rw [(processDevicePropDesc_frame s c).1]
    exact h
  split at hr
  · rename_i hop
    rw [if_pos hop] at hfit
    exact processGetStorageIDs_sid K s s' c h hfit hr
  rename_i hnids
  split at hr
  · exact processGetStoreInfo_sid K s s' c h hr
  split at hr
  · cases hr
    rw [(processObjectPropsSupported_frame s c).1]
    exact h
  split at hr
  · cases hr; exact h
  split at hr
  · exact processGetObjectHandles_sid K s s' c h hr
  split at hr
  · rename_i hop
    rw [if_neg hnids, if_pos hop] at hfit
    exact processGetObjectPropValue_sid K s s' c h hcur hfit hr
  · cases hr; exact h

theorem sendObjectMsg_heap (s s' : MTPDevice) (object_id : Nat)
    (h : sendObjectMsg s object_id = .ok s') : s'.heap = s.heap := by
  unfold sendObjectMsg at h
  simp only at h
  repeat' split at h
  all_goals (cases h <;> rfl)

theorem responseGetObjectHandles_heap (s s' : MTPDevice)
    (h : responseGetObjectHandles s = .ok s') : s'.heap = s.heap := by
  unfold responseGetObjectHandles at h
  repeat' split at h
  all_goals (cases h <;> rfl)

theorem responseGetStorageIDs_heap (s s' : MTPDevice)
    (h : responseGetStorageIDs s = .ok s') : s'.heap = s.heap := by
  unfold responseGetStorageIDs at h
  repeat' split at h
  all_goals (cases h <;> rfl)

theorem responseGetStorageInfo_heap (s s' : MTPDevice)
    (h : responseGetStorageInfo s = .ok s') : s'.heap = s.heap := by
  unfold responseGetStorageInfo at h
  repeat' split at h
  all_goals (cases h <;> rfl)

theorem responseGetObjectPropValue_sid (K : Limits) (s s' : MTPDevice)
    (hinv : SidInv K s.heap) (h : responseGetObjectPropValue K s = .ok s') :
    SidInv K s'.heap := by
  have hadv : ∀ s1, (match s.prop_node_ with
      | none => Except.ok s
      | some a =>
        if s.prop_index_ + 1 ≥ s.cnt_object_property_ids_ then
          match load s.heap a with
          | Except.error e => Except.error e
          | Except.ok n => Except.ok { s with prop_node_ := n.next, prop_index_ := 0 }
        else Except.ok { s with prop_index_ := s.prop_index_ + 1 }) = Except.ok s1 →
      s1.heap = s.heap := by
    intro s1 h1
    repeat' split at h1
    all_goals (cases h1 <;> rfl)
  unfold responseGetObjectPropValue at h
  simp only at h
  split at h
  · cases h
  · rename_i s1 h1
    have hs1 := hadv s1 h1
    split at h
    · split at h
      · cases h
      · cases h
        show SidInv K s1.heap
        rw [hs1]; exact hinv
    · have hs3 : SidInv K ({ MTP.nextTransaction s1 with enum_node_ := none } : MTPDevice).heap := by
        show SidInv K s1.heap
        rw [hs1]; exact hinv
      split at h
      · exact complete_processing_event_sid K _ s' true hs3 h
      · cases h; exact hs3

set_option maxHeartbeats 2000000 in
theorem responseOK_sid (K : Limits) (s s' : MTPDevice) (c : List Nat)
    (hinv : SidInv K s.heap) (h : responseOK K s c = .ok s') : SidInv K s'.heap := by
  unfold responseOK at h
  split at h
  · obtain rfl := Except.ok.inj h
    exact hinv
  split at h
  · obtain rfl := Except.ok.inj h
    exact hinv
  split at h
  · obtain rfl := Except.ok.inj h
    exact hinv
  split at h
  · rw [responseGetStorageIDs_heap s s' h]; exact hinv
  split at h
  · rw [responseGetStorageInfo_heap s s' h]; exact hinv
  split at h
  · obtain rfl := Except.ok.inj h
    rw [(responseGetObjectPropsSupported_frame s).1]; exact hinv
  split at h
  · obtain rfl := Except.ok.inj h
    rw [(responseGetObjectPropDesc_frame s).1]; exact hinv
  split at h
  · rw [responseGetObjectHandles_heap s s' h]; exact hinv
  split at h
  · exact responseGetObjectPropValue_sid K s s' hinv h
  split at h
  · rw [sendObjectMsg_heap s s' _ h]; exact hinv
  split at h
  · exact add_event_to_list_sid K s s' _ _ _ hinv h
  · obtain rfl := Except.ok.inj h
    exact hinv

theorem processMTPResponse_sid (K : Limits) (s s' : MTPDevice) (c : List Nat)
    (hinv : SidInv K s.heap) (h : processMTPResponse K s c = .ok s') :
    SidInv K s'.heap := by
  unfold processMTPResponse at h
  split at h
  · exact responseOK_sid K { s with last_response_ := MTPContainer.op c } s' c hinv h
  · cases h; exact hinv

theorem runCallback_sid (K : Limits) (s s' : MTPDevice) (cb : Callback)
    (hs : Sound K s) (hinv : SidInv K s.heap) (hfit : callbackFits K s cb = true)
    (h : runCallback K s cb = .ok s') : SidInv K s'.heap := by
  cases cb with
  | rx_data len c =>
    simp only [runCallback, rx_data] at h
    simp only [callbackFits] at hfit
    split at h
    · rename_i hlen
      split at h
      · rename_i htype
        rw [if_pos ⟨hlen, htype⟩] at hfit
        exact processMTPData_sid K s s' c hinv hs.2.1 hfit h
      · split at h
        · exact processMTPResponse_sid K s s' c hinv h
        · cases h; exact hinv
    · cases h; exact hinv
  | tx_data =>
    rw [tx_data_heap s s' h]; exact hinv
  | event_data len c => exact event_data_sid K s s' len c hinv h

theorem runTask_sid (K : Limits) (t : List Callback) :
    ∀ (s s' : MTPDevice), Sound K s → SidInv K s.heap → taskFits K s t = true →
      runTask K s t = .ok s' → SidInv K s'.heap := by
  induction t with
  | nil => intro s s' _ hinv _ h; cases h; exact hinv
  | cons cb rest ih =>
    intro s s' hs hinv hfit h
    unfold runTask at h
    simp only [taskFits, Bool.and_eq_true] at hfit
    split at h
    · cases h
    · rename_i s1 h1
      rw [h1] at hfit
      exact ih s1 s' (runCallback_sound K s s1 cb hs h1)
        (runCallback_sid K s s1 cb hs hinv hfit.1 h1) hfit.2 h

theorem deleteObjectWait_sid (K : Limits) (tasks : List (List Callback)) :
    ∀ (s s' : MTPDevice), Sound K s → SidInv K s.heap → waitFits K s tasks = true →
      deleteObjectWait K s tasks = .ok s' → SidInv K s'.heap := by
  induction tasks with
  | nil => intro s s' _ hinv _ h; cases h; exact hinv
  | cons t rest ih =>
    intro s s' hs hinv hfit h
    unfold deleteObjectWait at h
    simp only [waitFits] at hfit
    split at h
    · rename_i hwait
      rw [if_pos hwait] at hfit
      simp only [Bool.and_eq_true] at hfit
      split at h
      · cases h
      · rename_i s1 h1
        rw [h1] at hfit
        exact ih s1 s' (runTask_sound K t s s1 hs h1)
          (runTask_sid K t s s1 hs hinv hfit.1 h1) hfit.2 h
    · cases h; exact hinv

theorem disconnectLoop_sid :
    ∀ (n i : Nat) (m : Heap) (info : Nat → storage_info_t) (r : Heap × (Nat → storage_info_t)),
      disconnectLoop n i m info = .ok r → SidKeep m r.1 := by
  intro n
  induction n with
  | zero =>
    intro i m info r hr
    simp only [disconnectLoop] at hr
    cases hr
    exact SidKeep.unchanged_heap _
  | succ n ih =>
    intro i m info r hr
    simp only [disconnectLoop] at hr
    split at hr
    · cases hr
    · rename_i m1 hm1
      split at hr
      · cases hr
      · split at hr
        · cases hr
        · rename_i m2 hm2
          split at hr
          · cases hr
          · rename_i m3 hm3
            exact (((SidKeep_modify hm1 (fun _ => ⟨rfl, Or.inl rfl, rfl⟩)).trans
              (SidKeep_free hm2)).trans
              (SidKeep_modify hm3 (fun _ => ⟨rfl, Or.inl rfl, rfl⟩))).trans (ih _ _ _ _ hr)

/-- Every action that fits the state keeps storage-id consistency. -/
theorem SidInv_step (K : Limits) (s s' : MTPDevice) (a : Action)
    (hs : Sound K s) (hinv : SidInv K s.heap) (hfit : stepFits K s a = true)
    (h : step K s a = .ok s') : SidInv K s'.heap := by
  cases a with
  | callback cb => exact runCallback_sid K s s' cb hs hinv hfit h
  | claim rx tx ev =>
    cases h
    exact hinv
  | disconnect =>
    simp only [step, disconnect] at h
    split at h
    · cases h
    · rename_i m info hl
      cases h
      exact hinv.keep (disconnectLoop_sid _ _ _ _ _ hl)
  | startEnumStorageIndex index =>
    simp only [step] at h
    split at h
    · cases h
    · rename_i r hr
      cases h
      have : r.1.heap = s.heap := by
        unfold startEnumStorageIndex at hr
        repeat' split at hr
        all_goals (cases hr <;> rfl)
      rw [this]; exact hinv
  | startEnumStorageNode node =>
    simp only [step] at h
    have : s'.heap = s.heap := by
      unfold startEnumStorageNode at h
      repeat' split at h
      all_goals (cases h <;> rfl)
    rw [this]; exact hinv
  | deleteObject id format tasks =>
    simp only [step, deleteObject] at h
    split at h
    · cases h
    · rename_i r hr
      split at hr
      · cases hr
      · rename_i s3 h3
        cases hr
        cases h
        have hs1 : Sound K { MTP.nextTransaction s with last_response_ := 0xffffffff } :=
          hs.nextTransaction.of_same ⟨rfl, rfl, rfl, rfl, rfl, rfl, rfl⟩ rfl rfl
        exact deleteObjectWait_sid K tasks _ s3 (hs1.sendMsg _ _) hinv hfit h3
  | sendFileObject storage parent name file =>
    cases h
    rw [(sendFileObject_frame s storage parent name file).1]
    exact hinv

theorem SidInv_run (K : Limits) (actions : List Action) :
    ∀ (s s' : MTPDevice), Sound K s → SidInv K s.heap → runFits K s actions = true →
      run K s actions = .ok s' → SidInv K s'.heap := by
  induction actions with
  | nil => intro s s' _ hinv _ h; cases h; exact hinv
  | cons a rest ih =>
    intro s s' hs hinv hfit h
    unfold run at h
    simp only [runFits, Bool.and_eq_true] at hfit
    split at h
    · cases h
    · rename_i s1 h1
      rw [h1] at hfit
      exact ih s1 s' (Sound_step K s s1 a hs h1) (SidInv_step K s s1 a hs hinv hfit.1 h1)
        hfit.2 h

theorem SidInv_initial (K : Limits) (outcomes : List Bool) (cb : Bool) :
    SidInv K (MTPDevice.initial K outcomes cb).heap where
  len := by simp [MTPDevice.initial]
  roots := fun i r _ hr => by
    have : r = zeroNode := load_replicate_zero hr
    subst this
    exact ⟨rfl, rfl⟩
  range := fun a ca p ha hp => by
    have : ca = zeroNode := load_replicate_zero ha
    subst this
    cases hp
  pairs := fun a ca p cp ha hp _ => by
    have : ca = zeroNode := load_replicate_zero ha
    subst this
    cases hp

/-- Every node below a node `i` is on the child list of a live node that
carries the `storage_id` of `i`. -/
theorem Below.sid_list {K : Limits} {m : Heap} {i N : Nat} {r : storage_list_t}
    (hinv : PtrInv m) (hsid : SidInv K m) (hr : load m i = .ok r) (h : Below m i N) :
    ∃ Q cQ lQ, load m Q = .ok cQ ∧ Chain m cQ.child lQ ∧ N ∈ lQ ∧
      cQ.storage_id = r.storage_id := by
  induction h with
  | first hr' hc =>
    rw [hr] at hr'
    obtain rfl := Except.ok.inj hr'
    obtain ⟨lQ, hl, ha⟩ := hinv.child_mem hr hc
    exact ⟨i, _, lQ, hr, hl, ha, rfl⟩
  | child _ hb hc ih =>
    obtain ⟨Q, cQ, lQ, hQ, hl, hbl, hsame⟩ := ih
    obtain ⟨lb, hlb, ha⟩ := hinv.child_mem hb hc
    exact ⟨_, _, lb, hb, hlb, ha,
      (hsid.pairs _ _ Q cQ hb (hinv.parent hQ hl hbl hb) hQ).trans hsame⟩
  | next _ hb hn ih =>
    obtain ⟨Q, cQ, lQ, hQ, hl, hbl, hsame⟩ := ih
    obtain ⟨l1, l2, e⟩ := Chain_decomp_next hb hn lQ cQ.child hl hbl
    exact ⟨Q, cQ, lQ, hQ, hl, by rw [e]; simp, hsame⟩

theorem Below.root_live {m : Heap} {i N : Nat} (h : Below m i N) :
    ∃ r, load m i = .ok r := by
  induction h with
  | first hr _ => exact ⟨_, hr⟩
  | child _ _ _ ih => exact ih
  | next _ _ _ ih => exact ih

/-- C21 storage-id consistency, for the runs in which the device sends no
storage id that contradicts the nodes the driver holds.  Take a run from the
initial state in which every data container fits the state it meets
(`runFits`): `GetStorageIDs` data change the id of a storage only while no
node names that storage as its parent; a `STORAGE_ID` value received for a
node is the `storage_id` the node carries, unless the node has neither parent
nor children; a `PARENT_OBJECT` value arrives for a node that has a parent or
has no children.  Then in the state the run ends in every node `N` below a
storage root `i` carries the id of that root as its `storage_id`.  The ring
of pending events is assumed to have at least one slot. -/
theorem storage_ids_consistent (K : Limits) (hK : 0 < K.MAX_PENDING_EVENTS)
    (outcomes : List Bool) (cb : Bool) (actions : List Action) (s : MTPDevice)
    (hrun : run K (MTPDevice.initial K outcomes cb) actions = .ok s)
    (hfit : runFits K (MTPDevice.initial K outcomes cb) actions = true)
    (i N : Nat) (hi : i < K.MAX_STORAGES) (hN : Below s.heap i N) :
    ∃ r cN, load s.heap i = .ok r ∧ load s.heap N = .ok cN ∧ cN.storage_id = r.id := by
  have h0 := Sound_initial K hK outcomes cb
  have hsound : Sound K s := Sound_run K actions _ s h0 hrun
  have hsid : SidInv K s.heap :=
    SidInv_run K actions _ s h0 (SidInv_initial K outcomes cb) hfit hrun
  obtain ⟨r, hr⟩ := hN.root_live
  obtain ⟨Q, cQ, lQ, hQ, hl, hNl, hsame⟩ := hN.sid_list hsound.1.1 hsid hr
  obtain ⟨cN, hcN⟩ := Chain_live hl N hNl
  refine ⟨r, cN, hr, hcN, ?_⟩
  rw [hsid.pairs N cN Q cQ hcN (hsound.1.1.parent hQ hl hNl hcN) hQ, hsame]
  exact (hsid.roots i r hi hr).1

/-- Witness for C21: the device reports the storage id 7 for the object 5
below storage 7; the node at address 2 carries the id of its root. -/
theorem storage_ids_consistent_witness :
    runFits demoLimits demoInitial (storageIdSession 7) = true ∧
    Below (stateAfter demoLimits demoInitial (storageIdSession 7)).heap 0 2 ∧
    ∃ r cN, load (stateAfter demoLimits demoInitial (storageIdSession 7)).heap 0 = .ok r ∧
      load (stateAfter demoLimits demoInitial (storageIdSession 7)).heap 2 = .ok cN ∧
      cN.storage_id = r.id :=
  ⟨rfl, Below.first (i := 0) (a := 2) (by rfl) (by rfl),
   storage_ids_consistent demoLimits (by decide) [] true (storageIdSession 7)
     (stateAfter demoLimits demoInitial (storageIdSession 7)) rfl rfl 0 2 (by decide)
     (Below.first (i := 0) (a := 2) (by rfl) (by rfl))⟩

/-- C21 fails as stated.  In the session `storageIdSession 9` the device
answers `GetObjectPropValue(5, STORAGE_ID)` with the value 9 for an object
below storage 7.  The state is reachable, the node at address 2 is the first
child of the root at address 0, whose id is 7, and the node carries the
`storage_id` 9; its sibling at address 3 carries 7.  The OK response that
completes the operation leaves the node as it is. -/
theorem storage_ids_consistent_counterexample :
    Reachable demoLimits (stateAfter demoLimits demoInitial (storageIdSession 9)) ∧
    Below (stateAfter demoLimits demoInitial (storageIdSession 9)).heap 0 2 ∧
    idOf (stateAfter demoLimits demoInitial (storageIdSession 9)).heap 0 = 7 ∧
    (keyOf (stateAfter demoLimits demoInitial (storageIdSession 9)).heap 2).1 = 9 ∧
    (keyOf (stateAfter demoLimits demoInitial (storageIdSession 9)).heap 3).1 = 7 ∧
    (keyOf (stateAfter demoLimits demoInitial (storageIdSession 9 ++ [okResponse])).heap 2).1
      = 9 ∧
    runFits demoLimits demoInitial (storageIdSession 9) = false :=
  ⟨⟨[], true, storageIdSession 9, rfl⟩, Below.first (i := 0) (a := 2) (by rfl) (by rfl),
   rfl, rfl, rfl, rfl, rfl⟩

theorem getD_add_drop (l : List Nat) (a j : Nat) :
    l.getD (a + j) 0 = (l.drop a).getD j 0 := by
  simp [List.getD_eq_getElem?_getD, List.getElem?_drop]

theorem write32_getD (v j : Nat) (hj : j < 4) : (write32 v).getD j 0 = leByte v j := by
  interval_cases j <;> simp [write32, leByte]

theorem write16_getD (v j : Nat) (hj : j < 2) : (write16 v).getD j 0 = leByte v j := by
  interval_cases j <;> simp [write16, leByte]

theorem length_flatMap_write32 (ps : List Nat) : (ps.flatMap write32).length = 4 * ps.length := by
  induction ps with
  | nil => rfl
  | cons p ps ih => simp [List.flatMap_cons, write32, ih]; omega

theorem flatMap_write32_getD : ∀ (ps : List Nat) (i j : Nat), i < ps.length → j < 4 →
    (ps.flatMap write32).getD (4 * i + j) 0 = leByte (ps.getD i 0) j := by
  intro ps
  induction ps with
  | nil => intro i j hi; cases hi
  | cons p ps ih =>
    intro i j hi hj
    rw [List.flatMap_cons]
    cases i with
    | zero =>
      have hlt : 4 * 0 + j < (write32 p).length := by simp [write32]; omega
      rw [List.getD_append _ _ _ _ hlt]
      simpa using write32_getD p j hj
    | succ i =>
      have hge : (write32 p).length ≤ 4 * (i + 1) + j := by simp [write32]; omega
      rw [List.getD_append_right _ _ _ _ hge]
      have : 4 * (i + 1) + j - (write32 p).length = 4 * i + j := by simp [write32]; omega
      rw [this, ih i j (by simpa using hi) hj]
      rfl

theorem flatMap_write32_drop : ∀ (ps : List Nat) (i : Nat), i ≤ ps.length →
    (ps.flatMap write32).drop (4 * i) = (ps.drop i).flatMap write32 := by
  intro ps
  induction ps with
  | nil => intro i hi; simp
  | cons p ps ih =>
    intro i hi
    cases i with
    | zero => rfl
    | succ i =>
      rw [List.flatMap_cons, List.drop_succ_cons]
      have : 4 * (i + 1) = (write32 p).length + 4 * i := by simp [write32]; omega
      rw [this, ← List.drop_drop, List.drop_left]
      exact ih i (by simpa using hi)

/-- C31 command framing.  For an opcode (a `uint16_t`), up to three
parameters (each a `uint32_t`) and the current `transaction_id_`, `sendMsg`
queues exactly one container `c` on bulk-out.  It has `12 + 4k` bytes; read
back, its length field is `12 + 4k`, its type 1 (Command), its code the
opcode, its transaction id the current one and its parameters the arguments in
order; and the fields lie little-endian at the offsets 0 (length), 4 (type),
6 (code), 8 (transaction id) and `12 + 4i` (parameter `i`). -/
theorem sendMsg_framing (s : MTPDevice) (op : Nat) (params : List Nat)
    (hop : op < 65536) (hk : params.length ≤ 3) (hp : ∀ p ∈ params, p < 4294967296)
    (htid : s.transaction_id_ < 4294967296) :
    ∃ c, (sendMsg s op params).bulk_out = s.bulk_out ++ [c] ∧
      c.length = 12 + 4 * params.length ∧
      MTPContainer.len c = 12 + 4 * params.length ∧
      MTPContainer.type c = 1 ∧ MTPContainer.op c = op ∧
      MTPContainer.transaction_id c = s.transaction_id_ ∧
      (∀ i, i < params.length → MTPContainer.params c i = params.getD i 0) ∧
      (∀ j, j < 4 → c.getD j 0 = leByte (12 + 4 * params.length) j) ∧
      (∀ j, j < 2 → c.getD (4 + j) 0 = leByte 1 j) ∧
      (∀ j, j < 2 → c.getD (6 + j) 0 = leByte op j) ∧
      (∀ j, j < 4 → c.getD (8 + j) 0 = leByte s.transaction_id_ j) ∧
      (∀ i j, i < params.length → j < 4 →
        c.getD (12 + 4 * i + j) 0 = leByte (params.getD i 0) j) := by
  refine ⟨_, sendMsg_command s op params, ?_, ?_, ?_, ?_, ?_, ?_, ?_, ?_, ?_, ?_, ?_⟩
  · rw [containerBytes_length, length_flatMap_write32]
  · exact containerBytes_len _ _ _ _ _ (by omega)
  · exact containerBytes_type _ _ _ _ _ (by decide)
  · exact containerBytes_op _ _ _ _ _ hop
  · exact containerBytes_transaction_id _ _ _ _ _ htid
  · intro i hi
    have hdrop : (containerBytes (12 + 4 * params.length) MTP_CONTAINER_TYPE_COMMAND op
        s.transaction_id_ (params.flatMap write32)).drop (12 + 4 * i)
        = (params.drop i).flatMap write32 := by
      rw [← List.drop_drop, containerBytes_drop, flatMap_write32_drop _ _ (by omega)]
    simp only [MTPContainer.params, hdrop]
    obtain ⟨p, rest, hpr⟩ : ∃ p rest, params.drop i = p :: rest := by
      cases h : params.drop i with
      | nil =>
        have := congrArg List.length h
        simp at this
        omega
      | cons p rest => exact ⟨p, rest, rfl⟩
    have hpi : params.getD i 0 = p := by
      have := congrArg (fun l => l.getD 0 0) hpr
      simpa [List.getD_eq_getElem?_getD, List.getElem?_drop] using this
    have hmem : p ∈ params := List.mem_of_mem_drop (hpr ▸ List.mem_cons_self p rest)
    rw [hpr, List.flatMap_cons, read32_write32 _ _ (hp p hmem), hpi]
  · intro j hj
    have := getD_add_drop (containerBytes (12 + 4 * params.length) MTP_CONTAINER_TYPE_COMMAND op
      s.transaction_id_ (params.flatMap write32)) 0 j
    rw [Nat.zero_add, List.drop_zero] at this
    rw [this]
    simp only [containerBytes, List.append_assoc]
    rw [List.getD_append _ _ _ _ (by simp [write32]; omega), write32_getD _ _ hj]
  · intro j hj
    have hdrop : (containerBytes (12 + 4 * params.length) MTP_CONTAINER_TYPE_COMMAND op
        s.transaction_id_ (params.flatMap write32)).drop 4
        = write16 MTP_CONTAINER_TYPE_COMMAND ++ (write16 op ++ write32 s.transaction_id_
          ++ params.flatMap write32) := by
      simp [containerBytes, write32, write16]
    rw [getD_add_drop, hdrop, List.getD_append _ _ _ _ (by simp [write16]; omega),
      write16_getD _ _ hj]
    rfl
  · intro j hj
    have hdrop : (containerBytes (12 + 4 * params.length) MTP_CONTAINER_TYPE_COMMAND op
        s.transaction_id_ (params.flatMap write32)).drop 6
        = write16 op ++ (write32 s.transaction_id_ ++ params.flatMap write32) := by
      simp [containerBytes, write32, write16]
    rw [getD_add_drop, hdrop, List.getD_append _ _ _ _ (by simp [write16]; omega),
      write16_getD _ _ hj]
  · intro j hj
    have hdrop : (containerBytes (12 + 4 * params.length) MTP_CONTAINER_TYPE_COMMAND op
        s.transaction_id_ (params.flatMap write32)).drop 8
        = write32 s.transaction_id_ ++ params.flatMap write32 := by
      simp [containerBytes, write32, write16]
    rw [getD_add_drop, hdrop, List.getD_append _ _ _ _ (by simp [write32]; omega),
      write32_getD _ _ hj]
  · intro i j hi hj
    rw [Nat.add_assoc, getD_add_drop, containerBytes_drop, flatMap_write32_getD _ _ _ hi hj]

/-- Witness for C31: `sendMsg(GetObjectHandles, 7, 0, 0xffffffff)` in the
initial state queues one container of 24 bytes. -/
theorem sendMsg_framing_witness :
    ∃ c, (sendMsg demoInitial MTP_OPERATION_GET_OBJECT_HANDLES [7, 0, 0xffffffff]).bulk_out
        = demoInitial.bulk_out ++ [c] ∧
      c.length = 24 ∧ MTPContainer.len c = 24 ∧ MTPContainer.type c = 1 ∧
      MTPContainer.op c = MTP_OPERATION_GET_OBJECT_HANDLES ∧
      MTPContainer.params c 2 = 0xffffffff :=
  match sendMsg_framing demoInitial MTP_OPERATION_GET_OBJECT_HANDLES [7, 0, 0xffffffff]
    (by decide) (by decide) (by decide) (by decide) with
  | ⟨c, h1, h2, h3, h4, h5, _, h7, _⟩ => ⟨c, h1, h2, h3, h4, h5, h7 2 (by decide)⟩


theorem wide_length (s : List Nat) : (wide s).length = 2 * s.length := by
  induction s with
  | nil => rfl
  | cons c cs ih =>
    simp only [wide, List.flatMap_cons, List.length_append, List.length_cons, List.length_nil]
    simp only [wide] at ih
    omega

/-- C38: for every NUL-free byte string `s` of at most 254 characters (in
memory: `s`, a NUL, and anything after it), `readStr` applied to what
`writeStr` wrote yields the C string `s`, and it leaves the read cursor right
behind the bytes written, whatever follows them: 1 byte for the empty string
and `2 * len + 3` bytes otherwise. -/
theorem writeStr_readStr_cursor (s junk rest : List Nat)
    (hs : ∀ c ∈ s, 0 < c ∧ c < 256) (hlen : s.length ≤ 254) :
    cstr (readStr (writeStr (s ++ 0 :: junk) ++ rest)).1 = s ∧
    (readStr (writeStr (s ++ 0 :: junk) ++ rest)).2 = rest ∧
    (writeStr (s ++ 0 :: junk) ++ rest).length
      = (if s = [] then 1 else 2 * s.length + 3) + rest.length ∧
    (writeStr (s ++ 0 :: junk)).length = if s = [] then 1 else 2 * s.length + 3 := by
  obtain ⟨body, hbody, hc⟩ := readStrLoop_writeStr s junk rest hs hlen
  have hs' : ∀ c ∈ s, c % 256 ≠ 0 := fun c hc => by
    have := hs c hc; rw [Nat.mod_eq_of_lt this.2]; omega
  have hl : (writeStr (s ++ 0 :: junk)).length = if s = [] then 1 else 2 * s.length + 3 := by
    by_cases hne : s = []
    · subst hne
      simp [writeStr_empty]
    · rw [if_neg hne, writeStr_of_short s junk hs' hne hlen]
      simp only [List.length_cons, wide_length, List.length_append, List.length_singleton,
        List.length_nil]
      omega
  refine ⟨?_, ?_, ?_, hl⟩
  · simp only [readStr, hbody, hc]
  · simp only [readStr, hbody]
  · rw [List.length_append, hl]

/-- Witness for C38: the five characters of `"T.TXT"` take 13 bytes. -/
theorem writeStr_readStr_cursor_witness :
    cstr (readStr (writeStr ([84, 46, 84, 88, 84] ++ 0 :: [9]) ++ [1, 2])).1
      = [84, 46, 84, 88, 84] ∧
    (readStr (writeStr ([84, 46, 84, 88, 84] ++ 0 :: [9]) ++ [1, 2])).2 = [1, 2] ∧
    (writeStr ([84, 46, 84, 88, 84] ++ 0 :: [9])).length = 13 :=
  match writeStr_readStr_cursor [84, 46, 84, 88, 84] [9] [1, 2] (by decide) (by decide) with
  | ⟨h1, h2, _, h4⟩ => ⟨h1, h2, h4⟩


/-- C39 fails on the code.  When the id of the event is the id of the first
storage root, `findStorageItemByID` returns that root, whose `parent` is null,
and `process_object_removed_event` reads `pnode->child` through the null
pointer. -/
theorem removed_root_derefs_null (s : MTPDevice) (i : Nat) (r : storage_list_t)
    (hcnt : 0 < s.cnt_storages_) (hr : load s.heap 0 = .ok r)
    (hid : r.id = (s.pending_events_ i).id) (hp : r.parent = none) :
    findStorageItemByID s (s.pending_events_ i).id = .ok (some 0) ∧
    process_object_removed_event s i = .error .nullDeref := by
  obtain ⟨n, hn⟩ : ∃ n, s.cnt_storages_ = n + 1 := ⟨s.cnt_storages_ - 1, by omega⟩
  have hfind : findStorageItemByID s (s.pending_events_ i).id = .ok (some 0) := by
    simp only [findStorageItemByID, hn, findStorageItemByIDLoop, hr, hid, if_true]
  refine ⟨hfind, ?_⟩
  simp only [process_object_removed_event, hfind, hr, hp, deref]

/-- The failing input of C39 in a run: the device reports the storage 7 and
its children, then signals `ObjectRemoved(7)`.  The root is found, its parent
is null, and the run faults. -/
theorem removed_root_derefs_null_witness :
    0 < twoChildren.cnt_storages_ ∧ idOf twoChildren.heap 0 = 7 ∧
    findStorageItemByID (enqueued demoLimits twoChildren MTP_EVENT_OBJECT_REMOVED 7 0) 7
      = .ok (some 0) ∧
    process_object_removed_event
      (enqueued demoLimits twoChildren MTP_EVENT_OBJECT_REMOVED 7 0) 0 = .error .nullDeref ∧
    run demoLimits demoInitial rootRemoved = .error .nullDeref :=
  ⟨by decide, rfl,
   (removed_root_derefs_null (enqueued demoLimits twoChildren MTP_EVENT_OBJECT_REMOVED 7 0) 0
     _ (by decide) rfl rfl rfl).1,
   (removed_root_derefs_null (enqueued demoLimits twoChildren MTP_EVENT_OBJECT_REMOVED 7 0) 0
     _ (by decide) rfl rfl rfl).2, rfl⟩

theorem findStorageItemAux_first {m : Heap} {h : Nat} : ∀ (sh : Shape) (fuel : Nat) (p : Ptr),
    Rep m p sh → sh.height < fuel →
    findStorageItemAux fuel m p h = .ok (sh.addrs.find? (fun a => decide (idOf m a = h))) := by
  intro sh
  induction sh with
  | nil =>
    intro fuel p hrep hf
    obtain ⟨f, rfl⟩ : ∃ f, fuel = f + 1 := ⟨fuel - 1, by omega⟩
    have hp : p = none := hrep
    subst hp
    rfl
  | node b c n ihc ihn =>
    intro fuel p hrep hf
    obtain ⟨f, rfl⟩ : ∃ f, fuel = f + 1 := ⟨fuel - 1, by omega⟩
    obtain ⟨hp, cell, hl, hc, hn⟩ := hrep
    subst hp
    simp only [Shape.height] at hf
    have hfc : c.height < f := by omega
    have hfn : n.height < f := by omega
    by_cases hid : cell.id = h
    · have hb : decide (idOf m b = h) = true := by rw [idOf_of_load hl]; exact decide_eq_true hid
      simp only [findStorageItemAux, hl, hid, if_true, Shape.addrs, List.find?_cons, hb]
    · have hb : decide (idOf m b = h) = false := by
        rw [idOf_of_load hl]; exact decide_eq_false hid
      have hchild : (if cell.child.isSome then findStorageItemAux f m cell.child h
            else .ok none) = .ok (c.addrs.find? (fun a => decide (idOf m a = h))) := by
        by_cases hsome : cell.child.isSome
        · simp only [hsome, if_true]
          exact ihc f cell.child hc hfc
        · simp only [hsome]
          have hnone : cell.child = none := by
            cases hcc : cell.child with
            | none => rfl
            | some v => rw [hcc] at hsome; simp at hsome
          rw [hnone] at hc
          rw [Rep_none hc]
          rfl
      simp only [findStorageItemAux, hl, hid, if_false, hchild, Shape.addrs, List.find?_cons, hb,
        List.find?_append]
      cases hfc' : c.addrs.find? (fun a => decide (idOf m a = h)) with
      | some r => rfl
      | none =>
        simp only [Option.none_or]
        exact ihn f cell.next hn hfn

theorem findStorageItemByIDLoop_first {m : Heap} {h cnt : Nat} {sh : Nat → Shape}
    (hroots : ∀ i, i < cnt → ∃ root, load m i = .ok root ∧ Rep m root.child (sh i))
    (hnd : ∀ i, i < cnt → (sh i).addrs.Nodup) :
    ∀ (n i : Nat), i + n ≤ cnt →
      findStorageItemByIDLoop m h n i
        = .ok ((visitOrder sh n i).find? (fun a => decide (idOf m a = h))) := by
  intro n
  induction n with
  | zero => intro i _; rfl
  | succ n ih =>
    intro i hi
    obtain ⟨root, hroot, hrep⟩ := hroots i (by omega)
    have haux := findStorageItemAux_first (h := h) (sh i) (m.length + 1) root.child hrep
      (Rep_height_lt hrep (hnd i (by omega)))
    by_cases hid : root.id = h
    · have hb : decide (idOf m i = h) = true := by
        rw [idOf_of_load hroot]; exact decide_eq_true hid
      simp only [findStorageItemByIDLoop, hroot, hid, if_true, visitOrder, List.find?_cons, hb]
    · have hb : decide (idOf m i = h) = false := by
        rw [idOf_of_load hroot]; exact decide_eq_false hid
      simp only [findStorageItemByIDLoop, hroot, hid, if_false, findStorageItem, haux, visitOrder,
        List.find?_cons, hb, List.find?_append]
      cases hfc : (sh i).addrs.find? (fun a => decide (idOf m a = h)) with
      | some r => rfl
      | none =>
        simp only [Option.none_or]
        exact ih (i + 1) (by omega)

theorem mem_visitOrder {sh : Nat → Shape} : ∀ (n i a : Nat),
    a ∈ visitOrder sh n i ↔ ∃ j, i ≤ j ∧ j < i + n ∧ (a = j ∨ a ∈ (sh j).addrs) := by
  intro n
  induction n with
  | zero =>
    intro i a
    simp only [visitOrder, List.not_mem_nil, false_iff]
    rintro ⟨j, h1, h2, _⟩
    omega
  | succ n ih =>
    intro i a
    simp only [visitOrder, List.mem_cons, List.mem_append, ih]
    constructor
    · rintro (rfl | h | ⟨j, h1, h2, h3⟩)
      · exact ⟨a, Nat.le_refl _, by omega, Or.inl rfl⟩
      · exact ⟨i, Nat.le_refl _, by omega, Or.inr h⟩
      · exact ⟨j, by omega, by omega, h3⟩
    · rintro ⟨j, h1, h2, h3⟩
      by_cases hji : j = i
      · subst hji
        rcases h3 with h3 | h3
        · exact Or.inl h3
        · exact Or.inr (Or.inl h3)
      · exact Or.inr (Or.inr ⟨j, by omega, by omega, h3⟩)

/-- C40: on a forest of well-formed trees (every storage root live, the nodes
below it linked in a finite shape without repetition) `findStorageItemByID`
returns, and what it returns is the first node carrying the id in the order
`visitOrder`: storages in array order, each root before the nodes below it,
these in depth-first pre-order.  So the result is null exactly when neither a
root nor a node below a root carries the id, and otherwise a node with the
id, every node visited before it having another id. -/
theorem findStorageItemByID_first (s : MTPDevice) (sh : Nat → Shape) (id : Nat)
    (hroots : ∀ i, i < s.cnt_storages_ →
      ∃ root, load s.heap i = .ok root ∧ Rep s.heap root.child (sh i))
    (hnd : ∀ i, i < s.cnt_storages_ → (sh i).addrs.Nodup) :
    findStorageItemByID s id
      = .ok ((visitOrder sh s.cnt_storages_ 0).find? (fun a => decide (idOf s.heap a = id))) ∧
    (findStorageItemByID s id = .ok none ↔
      ∀ j, j < s.cnt_storages_ →
        idOf s.heap j ≠ id ∧ ∀ b ∈ (sh j).addrs, idOf s.heap b ≠ id) ∧
    (∀ a, findStorageItemByID s id = .ok (some a) →
      idOf s.heap a = id ∧
      ∃ before after, visitOrder sh s.cnt_storages_ 0 = before ++ a :: after ∧
        ∀ b ∈ before, idOf s.heap b ≠ id) := by
  have hfind := findStorageItemByIDLoop_first (h := id) hroots hnd s.cnt_storages_ 0 (by omega)
  have heq : findStorageItemByID s id
      = .ok ((visitOrder sh s.cnt_storages_ 0).find? (fun a => decide (idOf s.heap a = id))) :=
    hfind
  refine ⟨heq, ?_, ?_⟩
  · rw [heq]
    constructor
    · intro h j hj
      have hnone := Except.ok.inj h
      rw [List.find?_eq_none] at hnone
      refine ⟨?_, fun b hb => ?_⟩
      · have := hnone j ((mem_visitOrder _ _ _).mpr ⟨j, Nat.zero_le _, by omega, Or.inl rfl⟩)
        simpa using this
      · have := hnone b ((mem_visitOrder _ _ _).mpr ⟨j, Nat.zero_le _, by omega, Or.inr hb⟩)
        simpa using this
    · intro h
      congr 1
      rw [List.find?_eq_none]
      intro a ha
      obtain ⟨j, _, hj, hor⟩ := (mem_visitOrder _ _ _).mp ha
      rcases hor with rfl | hb
      · simpa using (h a (by omega)).1
      · simpa using (h j (by omega)).2 a hb
  · intro a ha
    rw [heq] at ha
    have hsome := Except.ok.inj ha
    rw [List.find?_eq_some] at hsome
    obtain ⟨hp, before, after, hsplit, hbefore⟩ := hsome
    refine ⟨by simpa using hp, before, after, hsplit, fun b hb => ?_⟩
    simpa using hbefore b hb

/-- Witness for C40: in the forest with the root 7 at address 0 and its
children 5 and 6 at the addresses 2 and 3 the visiting order is `[0, 2, 3]`,
and the search for the id 6 returns the node at address 3. -/
theorem findStorageItemByID_first_witness :
    visitOrder twoChildrenShape removalPending.cnt_storages_ 0 = [0, 2, 3] ∧
    findStorageItemByID removalPending 6 = .ok (some 3) ∧
    findStorageItemByID removalPending 6
      = .ok ((visitOrder twoChildrenShape removalPending.cnt_storages_ 0).find?
          (fun a => decide (idOf removalPending.heap a = 6))) :=
  ⟨rfl, rfl,
   (findStorageItemByID_first removalPending twoChildrenShape 6 removalPending_forest.roots
     removalPending_forest.nodup).1⟩

theorem propIdKnown_iff (ids : Nat → Nat) (c : Nat) :
    ∀ cnt, propIdKnown ids c cnt = true ↔ c ∈ (List.range cnt).map ids := by
  intro cnt
  induction cnt with
  | zero => simp [propIdKnown]
  | succ n ih =>
    simp only [propIdKnown, Bool.or_eq_true, ih, decide_eq_true_eq, List.range_succ,
      List.map_append, List.map_cons, List.map_nil, List.mem_append, List.mem_singleton]
    constructor
    · rintro (h | h)
      · exact Or.inl h
      · exact Or.inr h.symm
    · rintro (h | h)
      · exact Or.inl h
      · exact Or.inr h.symm

theorem map_setAt_range (ids : Nat → Nat) (cnt v : Nat) :
    (List.range (cnt + 1)).map (setAt ids cnt v) = (List.range cnt).map ids ++ [v] := by
  rw [List.range_succ, List.map_append]
  congr 1
  · apply List.map_congr_left
    intro i hi
    have : i ≠ cnt := by
      have := List.mem_range.mp hi
      omega
    simp [setAt, this]
  · simp [setAt]

theorem processObjectPropsSupportedLoop_spec : ∀ (codes : List Nat) (ids : Nat → Nat)
    (cnt : Nat) (rest : List Nat), (∀ c ∈ codes, c < 65536) →
    (List.range (processObjectPropsSupportedLoop codes.length ids cnt
        (codes.flatMap write16 ++ rest)).2).map
      (processObjectPropsSupportedLoop codes.length ids cnt (codes.flatMap write16 ++ rest)).1
      = (List.range cnt).map ids ++ unseenCodes ((List.range cnt).map ids) codes := by
  intro codes
  induction codes with
  | nil => intro ids cnt rest _; simp [processObjectPropsSupportedLoop, unseenCodes]
  | cons c cs ih =>
    intro ids cnt rest hc
    have hr : read16 ((c :: cs).flatMap write16 ++ rest) = (c, cs.flatMap write16 ++ rest) := by
      rw [List.flatMap_cons, List.append_assoc]
      exact read16_write16 c _ (hc c (List.mem_cons_self _ _))
    have hcs : ∀ x ∈ cs, x < 65536 := fun x hx => hc x (List.mem_cons_of_mem _ hx)
    simp only [List.length_cons, processObjectPropsSupportedLoop, hr]
    by_cases hk : propIdKnown ids c cnt = true
    · rw [if_pos hk]
      have hmem := (propIdKnown_iff ids c cnt).mp hk
      rw [ih ids cnt rest hcs]
      simp only [unseenCodes, if_pos hmem]
    · rw [if_neg hk]
      have hmem : c ∉ (List.range cnt).map ids := fun h => hk ((propIdKnown_iff ids c cnt).mpr h)
      rw [ih (setAt ids cnt c) (cnt + 1) rest hcs, map_setAt_range]
      simp only [unseenCodes, if_neg hmem, List.append_assoc, List.singleton_append]

theorem unseenCodes_mem : ∀ (codes t : List Nat) (c : Nat),
    c ∈ unseenCodes t codes ↔ c ∈ codes ∧ c ∉ t := by
  intro codes
  induction codes with
  | nil => intro t c; simp [unseenCodes]
  | cons x xs ih =>
    intro t c
    simp only [unseenCodes]
    split
    · rename_i hx
      rw [ih t c]
      constructor
      · rintro ⟨h1, h2⟩
        exact ⟨List.mem_cons_of_mem _ h1, h2⟩
      · rintro ⟨h1, h2⟩
        rcases List.mem_cons.mp h1 with rfl | h1
        · exact absurd hx h2
        · exact ⟨h1, h2⟩
    · rename_i hx
      rw [List.mem_cons, ih (t ++ [x]) c, List.mem_cons]
      constructor
      · rintro (rfl | ⟨h1, h2⟩)
        · exact ⟨Or.inl rfl, hx⟩
        · exact ⟨Or.inr h1, fun h => h2 (List.mem_append_left _ h)⟩
      · rintro ⟨h1 | h1, h2⟩
        · exact Or.inl h1
        · by_cases hcx : c = x
          · exact Or.inl hcx
          · refine Or.inr ⟨h1, fun h => ?_⟩
            rcases List.mem_append.mp h with h | h
            · exact h2 h
            · exact hcx (List.mem_singleton.mp h)

theorem unseenCodes_nodup : ∀ (codes t : List Nat), (unseenCodes t codes).Nodup := by
  intro codes
  induction codes with
  | nil => intro t; simp [unseenCodes]
  | cons x xs ih =>
    intro t
    simp only [unseenCodes]
    split
    · exact ih t
    · refine List.nodup_cons.mpr ⟨?_, ih _⟩
      intro h
      have := ((unseenCodes_mem xs (t ++ [x]) x).mp h).2
      simp at this

theorem unseenCodes_order : ∀ (codes t : List Nat),
    (unseenCodes t codes).Pairwise (fun c d => codes.indexOf c < codes.indexOf d) := by
  intro codes
  induction codes with
  | nil => intro t; simp [unseenCodes]
  | cons x xs ih =>
    intro t
    simp only [unseenCodes]
    split
    · rename_i hx
      refine (List.Pairwise.and_mem.mp (ih t)).imp ?_
      rintro c d ⟨hc, hd, hlt⟩
      have hcx : c ≠ x := fun e => ((unseenCodes_mem xs t c).mp hc).2 (e ▸ hx)
      have hdx : d ≠ x := fun e => ((unseenCodes_mem xs t d).mp hd).2 (e ▸ hx)
      rw [List.indexOf_cons_ne _ hcx.symm, List.indexOf_cons_ne _ hdx.symm]
      omega
    · refine List.pairwise_cons.mpr ⟨?_, ?_⟩
      · intro d hd
        have hdx : d ≠ x := fun e => by
          have := ((unseenCodes_mem xs (t ++ [x]) d).mp hd).2
          simp [e] at this
        rw [List.indexOf_cons_self, List.indexOf_cons_ne _ hdx.symm]
        omega
      · refine (List.Pairwise.and_mem.mp (ih (t ++ [x]))).imp ?_
        rintro c d ⟨hc, hd, hlt⟩
        have hcx : c ≠ x := fun e => by
          have := ((unseenCodes_mem xs (t ++ [x]) c).mp hc).2
          simp [e] at this
        have hdx : d ≠ x := fun e => by
          have := ((unseenCodes_mem xs (t ++ [x]) d).mp hd).2
          simp [e] at this
        rw [List.indexOf_cons_ne _ hcx.symm, List.indexOf_cons_ne _ hdx.symm]
        omega

/-- C32: let the payload of a `GetObjectPropsSupported` data phase be a count
followed by that many 16-bit codes, and let the table stay within the range of
the 8-bit index of the search loop.  Then `processObjectPropsSupported` keeps
the entries the table held as a prefix and appends exactly the codes of the
payload that the table did not hold, each once, in the order of their first
occurrence in the payload; a table without duplicates stays without
duplicates. -/
theorem props_table_union (s : MTPDevice) (header codes rest : List Nat)
    (hheader : header.length = 12) (hcodes : ∀ c ∈ codes, c < 65536)
    (hcap : s.cnt_object_property_ids_ + codes.length < 256) :
    propTable (processObjectPropsSupported s (header ++ propsPayload codes ++ rest))
      = propTable s ++ unseenCodes (propTable s) codes ∧
    (∀ c, c ∈ unseenCodes (propTable s) codes ↔ c ∈ codes ∧ c ∉ propTable s) ∧
    (unseenCodes (propTable s) codes).Nodup ∧
    (unseenCodes (propTable s) codes).Pairwise
      (fun c d => codes.indexOf c < codes.indexOf d) ∧
    ((propTable s).Nodup →
      (propTable (processObjectPropsSupported s (header ++ propsPayload codes ++ rest))).Nodup) := by
  have hdrop : (header ++ propsPayload codes ++ rest).drop 12
      = write32 codes.length ++ (codes.flatMap write16 ++ rest) := by
    rw [List.append_assoc, List.drop_left' hheader]
    simp [propsPayload]
  have hcount : read32 ((header ++ propsPayload codes ++ rest).drop 12)
      = (codes.length, codes.flatMap write16 ++ rest) := by
    rw [hdrop]
    exact read32_write32 _ _ (by omega)
  have htable : propTable (processObjectPropsSupported s (header ++ propsPayload codes ++ rest))
      = propTable s ++ unseenCodes (propTable s) codes := by
    simp only [propTable, processObjectPropsSupported, hcount]
    exact processObjectPropsSupportedLoop_spec codes _ _ rest hcodes
  refine ⟨htable, unseenCodes_mem codes _, unseenCodes_nodup codes _, unseenCodes_order codes _,
    fun hnd => ?_⟩
  rw [htable]
  refine List.nodup_append.mpr ⟨hnd, unseenCodes_nodup codes _, ?_⟩
  intro c hc hu
  exact ((unseenCodes_mem codes _ c).mp hu).2 hc

/-- Witness for C32: the table holds 0xDC07; the payload 0xDC01, 0xDC07,
0xDC01, 0xDC02 appends 0xDC01 and 0xDC02. -/
theorem props_table_union_witness :
    propTable tablesLearned = [0xDC07] ∧
    propTable (processObjectPropsSupported tablesLearned
      (List.replicate 12 0 ++ propsPayload [0xDC01, 0xDC07, 0xDC01, 0xDC02] ++ []))
      = propTable tablesLearned
        ++ unseenCodes (propTable tablesLearned) [0xDC01, 0xDC07, 0xDC01, 0xDC02] ∧
    unseenCodes (propTable tablesLearned) [0xDC01, 0xDC07, 0xDC01, 0xDC02] = [0xDC01, 0xDC02] :=
  ⟨rfl,
   (props_table_union tablesLearned (List.replicate 12 0) [0xDC01, 0xDC07, 0xDC01, 0xDC02] []
     rfl (by decide) (by decide)).1, by decide⟩

theorem readStr_layout_aux (us rest : List Nat) (outcomes : List Bool) (hn : us.length < 256)
    (halloc : (extmem_malloc_bytes outcomes).1 = true) :
    (readAndAllocStr (us.length :: units16 us ++ rest) outcomes).1
      = some (us.map (· % 256) ++ [0]) := by
  have hb : byteAt (us.length :: units16 us ++ rest) 0 = us.length := by
    simp only [List.cons_append, byteAt_cons_zero]
    exact Nat.mod_eq_of_lt hn
  have hd : (us.length :: units16 us ++ rest).drop 1 = units16 us ++ rest := rfl
  simp only [readAndAllocStr, halloc, if_true, hb, hd, readStrLoop_units us rest]

set_option maxHeartbeats 2000000 in
/-- C34 property dispatch of `processGetObjectPropValue`.  With a null cursor
nothing changes.  With the cursor at a live node `n` the property id
`object_property_ids_[prop_index_]` selects: `STORAGE_ID` stores the 32-bit
value received as `storage_id`, whatever was there; `OBJECT_FORMAT` stores the
16-bit value as `format`; `OBJECT_SIZE` stores the 64-bit little-endian value
as `size`; `OBJECT_FILE_NAME` and `NAME` both replace `name` by what
`readAndAllocStr` returns (when the allocation succeeds and the payload is a
count byte with that many 16-bit units: their low bytes and a NUL);
`PROTECTION_STATUS`, `DATE_CREATED`, `PERSISTENT_UID` and every code that is
none of the seven handled ones leave the state as it is.  Only the cursor node
changes. -/
theorem prop_value_dispatch (s : MTPDevice) (c : List Nat) :
    (s.prop_node_ = none → processGetObjectPropValue s c = .ok s) ∧
    ∀ a n, s.prop_node_ = some a → load s.heap a = .ok n →
      (s.object_property_ids_ s.prop_index_ = MTP_PROPERTY_STORAGE_ID →
        processGetObjectPropValue s c = .ok { s with
          heap := store s.heap a { n with storage_id := (read32 (c.drop 12)).1 } }) ∧
      (s.object_property_ids_ s.prop_index_ = MTP_PROPERTY_OBJECT_FORMAT →
        processGetObjectPropValue s c = .ok { s with
          heap := store s.heap a { n with format := (read16 (c.drop 12)).1 } }) ∧
      (s.object_property_ids_ s.prop_index_ = MTP_PROPERTY_OBJECT_SIZE →
        processGetObjectPropValue s c = .ok { s with
          heap := store s.heap a { n with size := readBytesLE 8 (c.drop 12) } } ∧
        ∀ v rest, v < 18446744073709551616 → c.drop 12 = write64 v ++ rest →
          readBytesLE 8 (c.drop 12) = v) ∧
      (s.object_property_ids_ s.prop_index_ = MTP_PROPERTY_OBJECT_FILE_NAME ∨
          s.object_property_ids_ s.prop_index_ = MTP_PROPERTY_NAME →
        processGetObjectPropValue s c = .ok { s with
          heap := store s.heap a
            { n with name := (readAndAllocStr (c.drop 12) s.malloc_outcomes).1 },
          malloc_outcomes := (readAndAllocStr (c.drop 12) s.malloc_outcomes).2.2 } ∧
        ∀ us rest, us.length < 256 → (extmem_malloc_bytes s.malloc_outcomes).1 = true →
          c.drop 12 = us.length :: units16 us ++ rest →
          (readAndAllocStr (c.drop 12) s.malloc_outcomes).1 = some (us.map (· % 256) ++ [0])) ∧
      (s.object_property_ids_ s.prop_index_ = MTP_PROPERTY_PROTECTION_STATUS ∨
          s.object_property_ids_ s.prop_index_ = MTP_PROPERTY_DATE_CREATED ∨
          s.object_property_ids_ s.prop_index_ = MTP_PROPERTY_PERSISTENT_UID ∨
          s.object_property_ids_ s.prop_index_ ∉
            [MTP_PROPERTY_STORAGE_ID, MTP_PROPERTY_OBJECT_FORMAT, MTP_PROPERTY_OBJECT_SIZE,
             MTP_PROPERTY_OBJECT_FILE_NAME, MTP_PROPERTY_NAME, MTP_PROPERTY_DATE_MODIFIED,
             MTP_PROPERTY_PARENT_OBJECT] →
        processGetObjectPropValue s c = .ok s) := by
  refine ⟨fun hnone => by simp only [processGetObjectPropValue, hnone], ?_⟩
  intro a n hcur hn
  refine ⟨?_, ?_, ?_, ?_, ?_⟩
  · intro hp
    simp only [processGetObjectPropValue, hcur, hp, if_true, modify_some _ hn]
  · intro hp
    have h1 : MTP_PROPERTY_OBJECT_FORMAT ≠ MTP_PROPERTY_STORAGE_ID := by decide
    simp only [processGetObjectPropValue, hcur, hp, if_neg h1, if_true, modify_some _ hn]
  · intro hp
    have h1 : MTP_PROPERTY_OBJECT_SIZE ≠ MTP_PROPERTY_STORAGE_ID := by decide
    have h2 : MTP_PROPERTY_OBJECT_SIZE ≠ MTP_PROPERTY_OBJECT_FORMAT := by decide
    refine ⟨?_, fun v rest hv hc => ?_⟩
    · simp only [processGetObjectPropValue, hcur, hp, if_neg h1, if_neg h2, if_true,
        modify_some _ hn, read64]
    · rw [hc]
      exact congrArg Prod.fst (read64_write64 v rest hv)
  · intro hp
    refine ⟨?_, fun us rest hlen halloc hc => ?_⟩
    · have h1 : s.object_property_ids_ s.prop_index_ ≠ MTP_PROPERTY_STORAGE_ID := by
        rcases hp with hp | hp <;> rw [hp] <;> decide
      have h2 : s.object_property_ids_ s.prop_index_ ≠ MTP_PROPERTY_OBJECT_FORMAT := by
        rcases hp with hp | hp <;> rw [hp] <;> decide
      have h3 : s.object_property_ids_ s.prop_index_ ≠ MTP_PROPERTY_OBJECT_SIZE := by
        rcases hp with hp | hp <;> rw [hp] <;> decide
      simp only [processGetObjectPropValue, hcur, if_neg h1, if_neg h2, if_neg h3, if_pos hp,
        modify_some _ hn]
    · rw [hc]
      exact (readStr_layout_aux us rest s.malloc_outcomes hlen halloc)
  · intro hp
    have hall : s.object_property_ids_ s.prop_index_ ∉
        [MTP_PROPERTY_STORAGE_ID, MTP_PROPERTY_OBJECT_FORMAT, MTP_PROPERTY_OBJECT_SIZE,
         MTP_PROPERTY_OBJECT_FILE_NAME, MTP_PROPERTY_NAME, MTP_PROPERTY_DATE_MODIFIED,
         MTP_PROPERTY_PARENT_OBJECT] := by
      rcases hp with hp | hp | hp | hp
      · rw [hp]; decide
      · rw [hp]; decide
      · rw [hp]; decide
      · exact hp
    simp only [List.mem_cons, List.mem_singleton, List.not_mem_nil, or_false, not_or] at hall
    obtain ⟨h1, h2, h3, h4, h5, h6, h7⟩ := hall
    have h45 : ¬ (s.object_property_ids_ s.prop_index_ = MTP_PROPERTY_OBJECT_FILE_NAME ∨
        s.object_property_ids_ s.prop_index_ = MTP_PROPERTY_NAME) := fun h => h.elim h4 h5
    simp only [processGetObjectPropValue, hcur, if_neg h1, if_neg h2, if_neg h3, if_neg h45,
      if_neg h6, if_neg h7]

/-- Witness for C34: the cursor is at the node of object 5 (address 2, created
with `storage_id` 7), the property awaited is `STORAGE_ID`, and the value 9
arrives. -/
theorem prop_value_dispatch_witness :
    storageIdAwaited.prop_node_ = some 2 ∧
    storageIdAwaited.object_property_ids_ storageIdAwaited.prop_index_
      = MTP_PROPERTY_STORAGE_ID ∧
    (keyOf storageIdAwaited.heap 2).1 = 7 ∧
    ∃ n, load storageIdAwaited.heap 2 = .ok n ∧
      processGetObjectPropValue storageIdAwaited
          (dataContainer MTP_OPERATION_GET_OBJECT_PROP_VALUE (write32 9))
        = .ok { storageIdAwaited with
            heap := store storageIdAwaited.heap 2
              { n with storage_id :=
                (read32 ((dataContainer MTP_OPERATION_GET_OBJECT_PROP_VALUE
                  (write32 9)).drop 12)).1 } } ∧
      (read32 ((dataContainer MTP_OPERATION_GET_OBJECT_PROP_VALUE (write32 9)).drop 12)).1
        = 9 :=
  ⟨rfl, rfl, rfl, _, rfl,
   ((prop_value_dispatch storageIdAwaited
      (dataContainer MTP_OPERATION_GET_OBJECT_PROP_VALUE (write32 9))).2 2 _ rfl rfl).1 rfl,
   rfl⟩

theorem objectInfoDataset_length (storage parent size : Nat) (filename : List Nat) :
    (objectInfoDataset storage parent size filename).length = 52 + filename.length + 3 := by
  simp [objectInfoDataset, write32, write16]
  omega

theorem writeStr_nil : writeStr [] = [0] := rfl

theorem writeStr_mtpString (str junk : List Nat) (hs : ∀ c ∈ str, 0 < c ∧ c < 256)
    (hlen : str.length ≤ 254) : writeStr (str ++ 0 :: junk) = mtpString str := by
  have hs' : ∀ c ∈ str, c % 256 ≠ 0 := fun c hc => by
    have := hs c hc; rw [Nat.mod_eq_of_lt this.2]; omega
  by_cases hne : str = []
  · subst hne
    simp [mtpString, writeStr_empty]
  · rw [mtpString, if_neg hne, writeStr_of_short str junk hs' hne hlen,
      wide_append_nul str (fun c hc => (hs c hc).2)]

theorem mtpString_length_le (str : List Nat) (hlen : str.length ≤ 254) :
    (mtpString str).length ≤ 511 := by
  unfold mtpString
  split
  · simp
  · simp only [List.length_cons, List.length_append, length_flatMap_pair, List.length_nil]
    omega

/-- What `sendFileObject` queues, whatever the name: the command and a Data
container around the dataset with the bytes of `writeStr`. -/
theorem sendFileObject_bulk_out (s : MTPDevice) (storage parent : Nat) (name file : List Nat)
    (halloc : s.malloc_outcomes.head? ≠ some false) :
    (sendFileObject s storage parent name file).bulk_out = s.bulk_out ++
      [commandContainer MTP_OPERATION_SEND_OBJECT_INFO ((s.transaction_id_ + 1) % 4294967296)
        [storage, parent],
       containerBytes (12 + (52 + (writeStr name).length + 3)) MTP_CONTAINER_TYPE_DATA
        MTP_OPERATION_SEND_OBJECT_INFO ((s.transaction_id_ + 1) % 4294967296)
        (objectInfoDataset storage parent file.length (writeStr name))] := by
  have hr : (extmem_malloc_bytes s.malloc_outcomes).1 = true := by
    cases hm : s.malloc_outcomes with
    | nil => rfl
    | cons b rest =>
      cases b with
      | false => rw [hm] at halloc; simp at halloc
      | true => rfl
  have hbody : write32 storage ++ write16 0x3000 ++ write16 0 ++ write32 file.length
      ++ write16 0 ++ write32 0 ++ write32 0 ++ write32 0 ++ write32 0 ++ write32 0
      ++ write32 0 ++ write32 parent ++ write16 0 ++ write32 0 ++ write32 0
      ++ writeStr name ++ writeStr [] ++ writeStr [] ++ writeStr []
      = objectInfoDataset storage parent file.length (writeStr name) := by
    simp [objectInfoDataset, writeStr_nil, List.replicate]
  unfold sendFileObject
  simp only [hr, if_true, hbody, objectInfoDataset_length]
  show (sendMsg _ MTP_OPERATION_SEND_OBJECT_INFO [storage, parent]).bulk_out ++ _ = _
  rw [sendMsg_bulk_out]
  simp only [List.append_assoc, List.singleton_append]
  rfl

/-- C36 (as amended): when the buffer for the file can be allocated and the
name is a NUL-free string of at most 254 characters, `sendFileObject` queues
the `SendObjectInfo` command and then one Data container with type 2, code
`SendObjectInfo` and the transaction id of the command, whose payload is the
ObjectInfo dataset with the file size, the MTP string of the name and three
zero bytes, and whose length field is `12 + 52 +` the size of the encoded name
`+ 3`, the number of bytes queued. -/
theorem sendFileObject_dataset (s : MTPDevice) (storage parent : Nat)
    (str junk file : List Nat) (halloc : s.malloc_outcomes.head? ≠ some false)
    (hs : ∀ c ∈ str, 0 < c ∧ c < 256) (hlen : str.length ≤ 254) :
    ∃ cmd data,
      (sendFileObject s storage parent (str ++ 0 :: junk) file).bulk_out
        = s.bulk_out ++ [cmd, data] ∧
      cmd = commandContainer MTP_OPERATION_SEND_OBJECT_INFO
        ((s.transaction_id_ + 1) % 4294967296) [storage, parent] ∧
      MTPContainer.type data = 2 ∧ MTPContainer.op data = MTP_OPERATION_SEND_OBJECT_INFO ∧
      MTPContainer.transaction_id data = (s.transaction_id_ + 1) % 4294967296 ∧
      MTPContainer.transaction_id cmd = MTPContainer.transaction_id data ∧
      data.drop 12 = objectInfoDataset storage parent file.length (mtpString str) ∧
      MTPContainer.len data = 12 + 52 + (mtpString str).length + 3 ∧
      data.length = 12 + 52 + (mtpString str).length + 3 := by
  have hbulk := sendFileObject_bulk_out s storage parent (str ++ 0 :: junk) file halloc
  rw [writeStr_mtpString str junk hs hlen] at hbulk
  have hb := mtpString_length_le str hlen
  have htid : (s.transaction_id_ + 1) % 4294967296 < 4294967296 := Nat.mod_lt _ (by decide)
  refine ⟨_, _, hbulk, rfl, ?_, ?_, ?_, ?_, ?_, ?_, ?_⟩
  · exact containerBytes_type _ _ _ _ _ (by decide)
  · exact containerBytes_op _ _ _ _ _ (by decide)
  · exact containerBytes_transaction_id _ _ _ _ _ htid
  · rw [commandContainer, containerBytes_transaction_id _ _ _ _ _ htid,
      containerBytes_transaction_id _ _ _ _ _ htid]
  · exact containerBytes_drop _ _ _ _ _
  · rw [containerBytes_len _ _ _ _ _ (by omega)]
    omega
  · rw [containerBytes_length, objectInfoDataset_length]
    omega

/-- Witness for C36: the upload of 20 bytes under the name `"T.TXT"` to
storage 7. -/
theorem sendFileObject_dataset_witness :
    ∃ cmd data,
      (sendFileObject attached14 7 0 ([84, 46, 84, 88, 84] ++ 0 :: []) (List.range 20)).bulk_out
        = attached14.bulk_out ++ [cmd, data] ∧
      data.drop 12 = objectInfoDataset 7 0 20 (mtpString [84, 46, 84, 88, 84]) ∧
      MTPContainer.len data = 12 + 52 + 13 + 3 :=
  match sendFileObject_dataset attached14 7 0 [84, 46, 84, 88, 84] [] (List.range 20)
    (by decide) (by decide) (by decide) with
  | ⟨cmd, data, h1, _, _, _, _, _, h7, h8, _⟩ => ⟨cmd, data, h1, h7, h8⟩

set_option maxRecDepth 100000 in
/-- C36 fails as stated.  When the buffer for the file cannot be allocated,
`sendFileObject` queues nothing.  And for a name of 255 characters the string
field of the dataset is the single byte 0, not the MTP string of the name: the
payload has 56 bytes. -/
theorem sendFileObject_dataset_counterexample :
    (sendFileObject { attached14 with malloc_outcomes := [false] } 7 0
      ([84, 46, 84, 88, 84] ++ 0 :: []) (List.range 20)).bulk_out = attached14.bulk_out ∧
    writeStr (List.replicate 255 65 ++ [0]) = [0] ∧
    mtpString (List.replicate 255 65) ≠ [0] ∧
    ((sendFileObject attached14 7 0 (List.replicate 255 65 ++ [0]) (List.range 20)).bulk_out.map
      (fun c => (c.drop 12).length)) = attached14.bulk_out.map (fun c => (c.drop 12).length)
        ++ [8, 56] := by
  refine ⟨rfl, by decide, by decide, ?_⟩
  rw [sendFileObject_bulk_out _ _ _ _ _ (by decide)]
  have hw : writeStr (List.replicate 255 65 ++ [0]) = [0] := by decide
  rw [hw]
  simp only [List.map_append, List.map_cons, List.map_nil, containerBytes_drop, commandContainer,
    objectInfoDataset_length]
  rfl

theorem findParentInStorage_at (m : Heap) (sid pid i : Nat) (root : storage_list_t)
    (hroot : load m i = .ok root) (hid : root.id = sid) :
    ∀ (k j : Nat), j ≤ i → i < j + k →
      (∀ j', j ≤ j' → j' < i → ∃ r, load m j' = .ok r ∧ r.id ≠ sid) →
      findParentInStorage m sid pid k j = findStorageItem m root.child pid := by
  intro k
  induction k with
  | zero => intro j h1 h2; omega
  | succ k ih =>
    intro j h1 h2 hbefore
    by_cases hj : j = i
    · subst hj
      simp only [findParentInStorage, hroot, hid, if_true]
    · obtain ⟨r, hr, hne⟩ := hbefore j (Nat.le_refl j) (by omega)
      simp only [findParentInStorage, hr, hne, if_false]
      exact ih (j + 1) (by omega) (by omega) (fun j' h3 h4 => hbefore j' (by omega) h4)

/-- C35 (divergence): the cursor node has no parent and knows its storage,
the `PARENT_OBJECT` value received is the id of the root of that storage (the
first storage with the node's `storage_id`), and no node below the root
carries that id.  A node with the received parent id then exists in the
node's storage, namely the root, yet `processGetObjectPropValue` leaves the
state as it is: the node is not linked and its parent stays null. -/
theorem parent_object_skips_root (s : MTPDevice) (c : List Nat) (a i : Nat)
    (n root : storage_list_t)
    (hnode : s.prop_node_ = some a)
    (hprop : s.object_property_ids_ s.prop_index_ = MTP_PROPERTY_PARENT_OBJECT)
    (ha : load s.heap a = .ok n) (hp : n.parent = none) (hsid : n.storage_id ≠ 0)
    (hi : i < s.cnt_storages_) (hroot : load s.heap i = .ok root)
    (hid : root.id = n.storage_id)
    (hbefore : ∀ j, j < i → ∃ r, load s.heap j = .ok r ∧ r.id ≠ n.storage_id)
    (hpid : (read32 (c.drop 12)).1 = root.id)
    (hbelow : findStorageItem s.heap root.child root.id = .ok none) :
    processGetObjectPropValue s c = .ok s := by
  have h1 : MTP_PROPERTY_PARENT_OBJECT ≠ MTP_PROPERTY_STORAGE_ID := by decide
  have h2 : MTP_PROPERTY_PARENT_OBJECT ≠ MTP_PROPERTY_OBJECT_FORMAT := by decide
  have h3 : MTP_PROPERTY_PARENT_OBJECT ≠ MTP_PROPERTY_OBJECT_SIZE := by decide
  have h4 : ¬ (MTP_PROPERTY_PARENT_OBJECT = MTP_PROPERTY_OBJECT_FILE_NAME ∨
      MTP_PROPERTY_PARENT_OBJECT = MTP_PROPERTY_NAME) := by decide
  have h5 : MTP_PROPERTY_PARENT_OBJECT ≠ MTP_PROPERTY_DATE_MODIFIED := by decide
  have hfind : findParentInStorage s.heap n.storage_id root.id s.cnt_storages_ 0
      = .ok none := by
    rw [findParentInStorage_at s.heap n.storage_id root.id i root hroot hid s.cnt_storages_ 0
      (Nat.zero_le i) (by omega) (fun j _ hj => hbefore j hj)]
    exact hbelow
  have hset : setParentObject s a (c.drop 12) = .ok s.heap := by
    simp only [setParentObject, ha, hp, hpid, hsid, ne_eq, not_false_eq_true, if_true, hfind]
  simp only [processGetObjectPropValue, hnode, hprop, h1, h2, h3, h4, h5, if_false, if_true,
    hset]
  rw [← hnode]

/-- C35 witness: storage 7 is reported, the object 9 is added and receives
the storage id 7, then the parent id 7 (the id of the storage root).  The
node stays unlinked.  With the two properties in the other order the same
values link the node below the root. -/
theorem parent_object_skips_root_witness :
    idOf parentAwaited.heap 0 = 7 ∧ parentAwaited.prop_node_ = some 2 ∧
    processGetObjectPropValue parentAwaited
        (dataContainer MTP_OPERATION_GET_OBJECT_PROP_VALUE (write32 7)) = .ok parentAwaited ∧
    (stateAfter demoLimits parentAwaited [propValueData (write32 7)]).heap.getD 2 none
      = some { zeroNode with id := 9, storage_id := 7 } ∧
    (stateAfter demoLimits parentAwaitedFirst [propValueData (write32 7)]).heap.getD 2 none
      = some { zeroNode with id := 9, storage_id := 7, parent := some 0 } ∧
    ((stateAfter demoLimits parentAwaitedFirst [propValueData (write32 7)]).heap.getD 0 none).map
      (fun r => r.child) = some (some 2) :=
  ⟨rfl, rfl,
   parent_object_skips_root parentAwaited
     (dataContainer MTP_OPERATION_GET_OBJECT_PROP_VALUE (write32 7)) 2 0 _ _ rfl rfl rfl rfl
     (by decide) (by decide) rfl rfl (fun j hj => absurd hj (Nat.not_lt_zero j)) rfl rfl,
   rfl, rfl, rfl⟩

theorem step_rxData (K : Limits) (s : MTPDevice) (op : Nat) (d : List Nat) :
    step K s (rxData op d) = processMTPData K s (dataContainer op d) := by
  show rx_data K s (12 + d.length) (dataContainer op d) = _
  have htype : MTPContainer.type (dataContainer op d) = MTP_CONTAINER_TYPE_DATA :=
    containerBytes_type _ _ _ _ _ (by decide)
  have hlen : 0 < 12 + d.length := by omega
  simp only [rx_data, hlen, htype, if_true]

theorem dataContainer_op (op : Nat) (d : List Nat) (hop : op < 65536) :
    MTPContainer.op (dataContainer op d) = op :=
  containerBytes_op _ _ _ _ _ hop

theorem processMTPData_deviceInfo (K : Limits) (s : MTPDevice) (c : List Nat)
    (hop : MTPContainer.op c = MTP_OPERATION_GET_DEVICE_INFO) :
    processMTPData K s c = .ok (processDescriptorData K s c) := by
  simp [processMTPData, hop, MTP_OPERATION_GET_DEVICE_PROP_DESC, MTP_OPERATION_GET_DEVICE_INFO,
    MTP_OPERATION_GET_STORAGE_IDS, MTP_OPERATION_GET_STORAGE_INFO,
    MTP_OPERATION_GET_OBJECT_PROPS_SUPPORTED, MTP_OPERATION_GET_OBJECT_PROP_DESC]

theorem step_deviceInfo (K : Limits) (s : MTPDevice) (d : List Nat) :
    step K s (rxData MTP_OPERATION_GET_DEVICE_INFO d)
      = .ok (processDescriptorData K s (dataContainer MTP_OPERATION_GET_DEVICE_INFO d)) := by
  rw [step_rxData K s _ d]
  exact processMTPData_deviceInfo K s _ (dataContainer_op _ d (by decide))

theorem processMTPData_devicePropDesc (K : Limits) (s : MTPDevice) (c : List Nat)
    (hop : MTPContainer.op c = MTP_OPERATION_GET_DEVICE_PROP_DESC) :
    processMTPData K s c = .ok (processDevicePropDesc s c) := by
  simp [processMTPData, hop, MTP_OPERATION_GET_DEVICE_PROP_DESC, MTP_OPERATION_GET_DEVICE_INFO,
    MTP_OPERATION_GET_STORAGE_IDS, MTP_OPERATION_GET_STORAGE_INFO,
    MTP_OPERATION_GET_OBJECT_PROPS_SUPPORTED, MTP_OPERATION_GET_OBJECT_PROP_DESC]

theorem step_devicePropDesc (K : Limits) (s : MTPDevice) (d : List Nat) :
    step K s (rxData MTP_OPERATION_GET_DEVICE_PROP_DESC d)
      = .ok (processDevicePropDesc s (dataContainer MTP_OPERATION_GET_DEVICE_PROP_DESC d)) := by
  rw [step_rxData K s _ d]
  exact processMTPData_devicePropDesc K s _ (dataContainer_op _ d (by decide))

theorem processMTPData_storageIDs (K : Limits) (s : MTPDevice) (c : List Nat)
    (hop : MTPContainer.op c = MTP_OPERATION_GET_STORAGE_IDS) :
    processMTPData K s c = processGetStorageIDs K s c := by
  simp [processMTPData, hop, MTP_OPERATION_GET_DEVICE_PROP_DESC, MTP_OPERATION_GET_DEVICE_INFO,
    MTP_OPERATION_GET_STORAGE_IDS, MTP_OPERATION_GET_STORAGE_INFO,
    MTP_OPERATION_GET_OBJECT_PROPS_SUPPORTED, MTP_OPERATION_GET_OBJECT_PROP_DESC]

theorem step_storageIDs (K : Limits) (s : MTPDevice) (d : List Nat) :
    step K s (rxData MTP_OPERATION_GET_STORAGE_IDS d)
      = processGetStorageIDs K s (dataContainer MTP_OPERATION_GET_STORAGE_IDS d) := by
  rw [step_rxData K s _ d]
  exact processMTPData_storageIDs K s _ (dataContainer_op _ d (by decide))

theorem processMTPData_storeInfo (K : Limits) (s : MTPDevice) (c : List Nat)
    (hop : MTPContainer.op c = MTP_OPERATION_GET_STORAGE_INFO) :
    processMTPData K s c = processGetStoreInfo K s c := by
  simp [processMTPData, hop, MTP_OPERATION_GET_DEVICE_PROP_DESC, MTP_OPERATION_GET_DEVICE_INFO,
    MTP_OPERATION_GET_STORAGE_IDS, MTP_OPERATION_GET_STORAGE_INFO,
    MTP_OPERATION_GET_OBJECT_PROPS_SUPPORTED, MTP_OPERATION_GET_OBJECT_PROP_DESC]

theorem step_storeInfo (K : Limits) (s : MTPDevice) (d : List Nat) :
    step K s (rxData MTP_OPERATION_GET_STORAGE_INFO d)
      = processGetStoreInfo K s (dataContainer MTP_OPERATION_GET_STORAGE_INFO d) := by
  rw [step_rxData K s _ d]
  exact processMTPData_storeInfo K s _ (dataContainer_op _ d (by decide))

theorem processMTPData_propsSupported (K : Limits) (s : MTPDevice) (c : List Nat)
    (hop : MTPContainer.op c = MTP_OPERATION_GET_OBJECT_PROPS_SUPPORTED) :
    processMTPData K s c = .ok (processObjectPropsSupported s c) := by
  simp [processMTPData, hop, MTP_OPERATION_GET_DEVICE_PROP_DESC, MTP_OPERATION_GET_DEVICE_INFO,
    MTP_OPERATION_GET_STORAGE_IDS, MTP_OPERATION_GET_STORAGE_INFO,
    MTP_OPERATION_GET_OBJECT_PROPS_SUPPORTED, MTP_OPERATION_GET_OBJECT_PROP_DESC]

theorem step_propsSupported (K : Limits) (s : MTPDevice) (d : List Nat) :
    step K s (rxData MTP_OPERATION_GET_OBJECT_PROPS_SUPPORTED d)
      = .ok (processObjectPropsSupported s (dataContainer MTP_OPERATION_GET_OBJECT_PROPS_SUPPORTED d)) := by
  rw [step_rxData K s _ d]
  exact processMTPData_propsSupported K s _ (dataContainer_op _ d (by decide))

theorem processMTPData_propDesc (K : Limits) (s : MTPDevice) (c : List Nat)
    (hop : MTPContainer.op c = MTP_OPERATION_GET_OBJECT_PROP_DESC) :
    processMTPData K s c = .ok s := by
  simp [processMTPData, hop, MTP_OPERATION_GET_DEVICE_PROP_DESC, MTP_OPERATION_GET_DEVICE_INFO,
    MTP_OPERATION_GET_STORAGE_IDS, MTP_OPERATION_GET_STORAGE_INFO,
    MTP_OPERATION_GET_OBJECT_PROPS_SUPPORTED, MTP_OPERATION_GET_OBJECT_PROP_DESC]

theorem step_propDesc (K : Limits) (s : MTPDevice) (d : List Nat) :
    step K s (rxData MTP_OPERATION_GET_OBJECT_PROP_DESC d)
      = .ok s := by
  rw [step_rxData K s _ d]
  exact processMTPData_propDesc K s _ (dataContainer_op _ d (by decide))

theorem AttachAt.cascade {K : Limits} {s0 s : MTPDevice} {op idx k : Nat}
    {cmds : List (List Nat)} {N : Nat} {ids : Nat → Nat} {F : Nat} {fs : Nat → Nat} {P : Nat}
    {ps : Nat → Nat} (h : AttachAt K s0 s op idx k cmds N ids F fs P ps) :
    CascadeAt (rebase s0 s) s op idx k cmds :=
  ⟨h.hop, h.hidx, h.htid, h.hout, rfl, rfl, rfl, rfl, rfl, rfl⟩

theorem AttachAt.of_cascade {K : Limits} {s0 s s' : MTPDevice} {op idx k op' idx' k' : Nat}
    {cmds cmds' : List (List Nat)} {N : Nat} {ids : Nat → Nat} {F : Nat} {fs : Nat → Nat}
    {P : Nat} {ps : Nat → Nat} (h : AttachAt K s0 s op idx k cmds N ids F fs P ps)
    (hc : CascadeAt (rebase s0 s) s' op' idx' k' cmds') :
    AttachAt K s0 s' op' idx' k' cmds' N ids F fs P ps := by
  obtain ⟨c1, c2, c3, c4, c5, c6, c7, c8, c9, c10⟩ := hc
  have c5' : s'.heap = s.heap := c5
  exact ⟨c1, c2, c3, c4, c6.trans h.hN, by rw [c5']; exact h.hids,
    by rw [c5']; exact h.hroots, c7.trans h.hF, c8.trans h.hfs, c9.trans h.hP, c10.trans h.hps⟩

/-- A Response OK in the cascade, by the lemma for the operation awaited. -/
theorem AttachAt.respond {K : Limits} {s0 s : MTPDevice} {op idx k : Nat}
    {cmds : List (List Nat)} {N : Nat} {ids : Nat → Nat} {F : Nat} {fs : Nat → Nat} {P : Nat}
    {ps : Nat → Nat} (h : AttachAt K s0 s op idx k cmds N ids F fs P ps)
    (op' idx' k' : Nat) (cmds' : List (List Nat))
    (hr : ∀ s1 c, CascadeAt (rebase s0 s) s1 op idx k cmds →
      ∃ s', responseOK K s1 c = .ok s' ∧ CascadeAt (rebase s0 s) s' op' idx' k' cmds') :
    ∃ s', step K s okResponse = .ok s' ∧ AttachAt K s0 s' op' idx' k' cmds' N ids F fs P ps := by
  obtain ⟨s', hs, hc⟩ := cascade_step K (rebase s0 s) s op idx k cmds
    (fun t => CascadeAt (rebase s0 s) t op' idx' k' cmds') h.cascade hr
  exact ⟨s', hs, h.of_cascade hc⟩

theorem AttachAt.cmds_eq {K : Limits} {s0 s : MTPDevice} {op idx k : Nat}
    {cmds cmds' : List (List Nat)} {N : Nat} {ids : Nat → Nat} {F : Nat} {fs : Nat → Nat}
    {P : Nat} {ps : Nat → Nat} (h : AttachAt K s0 s op idx k cmds N ids F fs P ps)
    (e : cmds = cmds') : AttachAt K s0 s op idx k cmds' N ids F fs P ps :=
  e ▸ h

theorem AttachAt.k_eq {K : Limits} {s0 s : MTPDevice} {op idx k k' : Nat}
    {cmds : List (List Nat)} {N : Nat} {ids : Nat → Nat} {F : Nat} {fs : Nat → Nat}
    {P : Nat} {ps : Nat → Nat} (h : AttachAt K s0 s op idx k cmds N ids F fs P ps)
    (e : k = k') : AttachAt K s0 s op idx k' cmds N ids F fs P ps :=
  e ▸ h

theorem processGetStorageIDsLoop_live {K : Limits} : ∀ (n i : Nat) (m : Heap) (pdata : List Nat),
    i + n ≤ K.MAX_STORAGES → (∀ j, j < K.MAX_STORAGES → ∃ r, load m j = .ok r) →
    ∃ m', processGetStorageIDsLoop n i m pdata = .ok m' ∧
      ∀ j, j < K.MAX_STORAGES → ∃ r, load m' j = .ok r := by
  intro n
  induction n with
  | zero => intro i m pdata _ hl; exact ⟨m, rfl, hl⟩
  | succ n ih =>
    intro i m pdata hi hl
    obtain ⟨r, hr⟩ := hl i (by omega)
    simp only [processGetStorageIDsLoop, modify_some _ hr]
    apply ih (i + 1) _ _ (by omega)
    intro j hj
    by_cases hji : j = i
    · subst hji
      exact ⟨_, load_store_same _ (load_lt hr)⟩
    · rw [load_store_ne _ (Ne.symm hji)]
      exact hl j hj

theorem processGetStorageIDs_attach (K : Limits) (s : MTPDevice) (d : List Nat)
    (hl : ∀ j, j < K.MAX_STORAGES → ∃ r, load s.heap j = .ok r) :
    ∃ s', processGetStorageIDs K s (dataContainer MTP_OPERATION_GET_STORAGE_IDS d) = .ok s' ∧
      s'.last_mtp_op_ = s.last_mtp_op_ ∧
      s'.get_store_info_index_ = s.get_store_info_index_ ∧
      s'.transaction_id_ = s.transaction_id_ ∧ s'.bulk_out = s.bulk_out ∧
      (∀ j, j < K.MAX_STORAGES → ∃ r, load s'.heap j = .ok r) ∧
      s'.cnt_storages_ = storageCount K d ∧
      s'.cnt_object_formats_ = s.cnt_object_formats_ ∧
      s'.object_formats_ = s.object_formats_ ∧
      s'.cnt_object_property_ids_ = s.cnt_object_property_ids_ ∧
      s'.object_property_ids_ = s.object_property_ids_ := by
  have hdrop : (dataContainer MTP_OPERATION_GET_STORAGE_IDS d).drop 12 = d :=
    containerBytes_drop _ _ _ _ _
  have hle : storageCount K d ≤ K.MAX_STORAGES := by
    unfold storageCount
    split <;> omega
  obtain ⟨m', hm', hl'⟩ := processGetStorageIDsLoop_live (K := K) (storageCount K d) 0 s.heap
    (read32 d).2 (by omega) hl
  refine ⟨{ s with cnt_storages_ := storageCount K d, heap := m' }, ?_, rfl, rfl, rfl, rfl, hl',
    rfl, rfl, rfl, rfl, rfl⟩
  unfold storageCount at hm'
  simp only [processGetStorageIDs, hdrop, hm']
  rfl

theorem processGetStoreInfo_attach (K : Limits) (s : MTPDevice) (c : List Nat)
    (hidx : s.get_store_info_index_ < K.MAX_STORAGES)
    (hl : ∀ j, j < K.MAX_STORAGES → ∃ r, load s.heap j = .ok r) :
    ∃ s', processGetStoreInfo K s c = .ok s' ∧
      s'.last_mtp_op_ = s.last_mtp_op_ ∧
      s'.get_store_info_index_ = s.get_store_info_index_ ∧
      s'.transaction_id_ = s.transaction_id_ ∧ s'.bulk_out = s.bulk_out ∧
      (∀ j, j < K.MAX_STORAGES → ∃ r, load s'.heap j = .ok r) ∧
      s'.cnt_storages_ = s.cnt_storages_ ∧ (∀ j, idOf s'.heap j = idOf s.heap j) ∧
      s'.cnt_object_formats_ = s.cnt_object_formats_ ∧
      s'.object_formats_ = s.object_formats_ ∧
      s'.cnt_object_property_ids_ = s.cnt_object_property_ids_ ∧
      s'.object_property_ids_ = s.object_property_ids_ := by
  obtain ⟨r, hr⟩ := hl _ hidx
  unfold processGetStoreInfo
  simp only []
  rw [if_neg (by omega), modify_some _ hr]
  refine ⟨_, rfl, rfl, rfl, rfl, rfl, ?_, rfl, ?_, rfl, rfl, rfl, rfl⟩
  · intro j hj
    by_cases hji : j = s.get_store_info_index_
    · subst hji
      exact ⟨_, load_store_same _ (load_lt hr)⟩
    · rw [load_store_ne _ (Ne.symm hji)]
      exact hl j hj
  · intro j
    exact idOf_store_link hr { r with parent := none, child := none, name := _ } rfl j

theorem processObjectPropsSupported_congr (s t : MTPDevice) (c : List Nat)
    (h1 : s.cnt_object_property_ids_ = t.cnt_object_property_ids_)
    (h2 : s.object_property_ids_ = t.object_property_ids_) :
    (processObjectPropsSupported s c).cnt_object_property_ids_
        = (processObjectPropsSupported t c).cnt_object_property_ids_ ∧
      (processObjectPropsSupported s c).object_property_ids_
        = (processObjectPropsSupported t c).object_property_ids_ := by
  simp only [processObjectPropsSupported, h1, h2, and_self]

theorem learnProps_snoc (s : MTPDevice) (ds : List (List Nat)) (d : List Nat) :
    learnProps s (ds ++ [d]) = processObjectPropsSupported (learnProps s ds)
      (dataContainer MTP_OPERATION_GET_OBJECT_PROPS_SUPPORTED d) := by
  simp [learnProps, List.foldl_append]

/-- Replies to the commands of one table, one after the other. -/
theorem iterate_replies (K : Limits) (op : Nat) (ds : List (List Nat))
    (Q : Nat → MTPDevice → Prop)
    (hstep : ∀ (i : Nat) (d : List Nat) (s : MTPDevice), ds.get? i = some d → Q i s →
      ∃ s', run K s (reply op d) = .ok s' ∧ Q (i + 1) s') :
    ∀ (s : MTPDevice), Q 0 s →
      ∃ s', run K s (ds.flatMap (reply op)) = .ok s' ∧ Q ds.length s' := by
  have key : ∀ (l2 l1 : List (List Nat)), ds = l1 ++ l2 → ∀ s, Q l1.length s →
      ∃ s', run K s (l2.flatMap (reply op)) = .ok s' ∧ Q ds.length s' := by
    intro l2
    induction l2 with
    | nil =>
      intro l1 h s hq
      refine ⟨s, rfl, ?_⟩
      rw [h, List.append_nil]
      exact hq
    | cons d r ih =>
      intro l1 h s hq
      have hd : ds.get? l1.length = some d := by
        rw [h, List.get?_eq_getElem?, List.getElem?_append_right (Nat.le_refl _)]
        simp
      obtain ⟨s1, h1, hq1⟩ := hstep l1.length d s hd hq
      obtain ⟨s2, h2, hq2⟩ := ih (l1 ++ [d]) (by rw [h]; simp) s1 (by simpa using hq1)
      refine ⟨s2, ?_, hq2⟩
      rw [List.flatMap_cons]
      exact run_append K _ _ s s1 s2 h1 h2
  intro s hq
  exact key ds [] rfl s hq

theorem get_some_lt {α : Type} {l : List α} {i : Nat} {d : α} (h : l.get? i = some d) :
    i < l.length := by
  by_contra hc
  rw [List.get?_eq_none.mpr (by omega)] at h
  cases h

theorem take_succ_of_get {α : Type} {l : List α} {i : Nat} {d : α} (h : l.get? i = some d) :
    l.take (i + 1) = l.take i ++ [d] := by
  rw [List.take_succ, ← List.get?_eq_getElem?, h]
  rfl

/-- The replies to the `GetStorageInfo` commands. -/
theorem attach_storages (K : Limits) (s0 : MTPDevice) (dStore : List (List Nat))
    (N : Nat) (ids : Nat → Nat) (F : Nat) (fs : Nat → Nat) (P : Nat) (ps : Nat → Nat)
    (hN : 0 < N) (hNle : N ≤ K.MAX_STORAGES) (hN8 : N < 256) (hF : 0 < F)
    (hlen : dStore.length = N) (hwrap : s0.transaction_id_ + 3 + N < 4294967296)
    (s : MTPDevice)
    (h : AttachAt K s0 s MTP_OPERATION_GET_STORAGE_INFO 0 3
      (cascadeHead s0 ++ (List.range 1).map (storageInfoCmd s0.transaction_id_ ids))
      N ids F fs P ps) :
    ∃ s', run K s (dStore.flatMap (reply MTP_OPERATION_GET_STORAGE_INFO)) = .ok s' ∧
      AttachAt K s0 s' MTP_OPERATION_GET_OBJECT_PROPS_SUPPORTED 0 (3 + N)
        (cascadeHead s0 ++ (List.range N).map (storageInfoCmd s0.transaction_id_ ids)
          ++ (List.range 1).map (propsSupportedCmd s0.transaction_id_ N fs))
        N ids F fs P ps := by
  obtain ⟨s', hrun, hq⟩ := iterate_replies K MTP_OPERATION_GET_STORAGE_INFO dStore
    (fun i t =>
      (i < N → AttachAt K s0 t MTP_OPERATION_GET_STORAGE_INFO i (3 + i)
        (cascadeHead s0 ++ (List.range (i + 1)).map (storageInfoCmd s0.transaction_id_ ids))
        N ids F fs P ps) ∧
      (i = N → AttachAt K s0 t MTP_OPERATION_GET_OBJECT_PROPS_SUPPORTED 0 (3 + N)
        (cascadeHead s0 ++ (List.range N).map (storageInfoCmd s0.transaction_id_ ids)
          ++ (List.range 1).map (propsSupportedCmd s0.transaction_id_ N fs))
        N ids F fs P ps))
    (fun i d t hd hq => by
      have hi : i < N := by rw [← hlen]; exact get_some_lt hd
      have ht := hq.1 hi
      obtain ⟨t1, hdata, a1, a2, a3, a4, a5, a6, a7, a8, a9, a10, a11⟩ :=
        processGetStoreInfo_attach K t (dataContainer MTP_OPERATION_GET_STORAGE_INFO d)
          (by rw [ht.hidx]; omega) ht.hroots
      have ht1 : AttachAt K s0 t1 MTP_OPERATION_GET_STORAGE_INFO i (3 + i)
          (cascadeHead s0 ++ (List.range (i + 1)).map (storageInfoCmd s0.transaction_id_ ids))
          N ids F fs P ps :=
        ⟨a1.trans ht.hop, a2.trans ht.hidx, a3.trans ht.htid, a4.trans ht.hout,
          a6.trans ht.hN, fun j => (a7 j).trans (ht.hids j), a5, a8.trans ht.hF,
          a9.trans ht.hfs, a10.trans ht.hP, a11.trans ht.hps⟩
      have hd1 : run K t [rxData MTP_OPERATION_GET_STORAGE_INFO d] = .ok t1 :=
        run_one K t t1 _ ((step_storeInfo K t d).trans hdata)
      by_cases hnext : i + 1 < N
      · obtain ⟨root, hroot⟩ := ht1.hroots (i + 1) (by omega)
        obtain ⟨t2, hresp, ht2⟩ := ht1.respond MTP_OPERATION_GET_STORAGE_INFO (i + 1)
          (3 + i + 1) _
          (fun s1 c hc => cascade_getStorageInfo_next K (rebase s0 t1) s1 c _ _ _ root hc
            (by show s0.transaction_id_ + (3 + i) + 1 < 4294967296; omega)
            (by show i + 1 < t1.cnt_storages_; rw [ht1.hN]; exact hnext)
            (by show t1.cnt_storages_ < 256; rw [ht1.hN]; exact hN8) hroot)
        refine ⟨t2, run_append K _ _ t t1 t2 hd1 (run_one K t1 t2 _ hresp), ?_, ?_⟩
        · intro _
          refine (ht2.k_eq (by omega)).cmds_eq ?_
          rw [List.range_succ (i + 1), List.map_append, List.append_assoc]
          simp only [List.map_cons, List.map_nil, storageInfoCmd]
          rw [← ht1.hids (i + 1)]
          show _ ++ (_ ++ [commandContainer _ (s0.transaction_id_ + (3 + i + 1)) _]) = _
          rw [show s0.transaction_id_ + (3 + i + 1) = s0.transaction_id_ + 3 + (i + 1) by omega]
          rfl
        · intro h; omega
      · have hlast : i + 1 = N := by omega
        obtain ⟨t2, hresp, ht2⟩ := ht1.respond MTP_OPERATION_GET_OBJECT_PROPS_SUPPORTED 0
          (3 + i + 1) _
          (fun s1 c hc => cascade_getStorageInfo_last K (rebase s0 t1) s1 c _ _ _ hc
            (by show s0.transaction_id_ + (3 + i) + 1 < 4294967296; omega)
            (by show i + 1 = t1.cnt_storages_; rw [ht1.hN]; exact hlast)
            (by show t1.cnt_storages_ < 256; rw [ht1.hN]; exact hN8)
            (by show t1.cnt_object_formats_ ≠ 0; rw [ht1.hF]; omega))
        refine ⟨t2, run_append K _ _ t t1 t2 hd1 (run_one K t1 t2 _ hresp), ?_, ?_⟩
        · intro h; omega
        · intro _
          refine (ht2.k_eq (by omega)).cmds_eq ?_
          rw [hlast]
          simp only [show List.range 1 = [0] from rfl, List.map_cons, List.map_nil,
            propsSupportedCmd]
          rw [← ht1.hfs]
          show _ ++ [commandContainer _ (s0.transaction_id_ + (3 + i + 1)) _] = _
          rw [show s0.transaction_id_ + (3 + i + 1) = s0.transaction_id_ + 3 + N + 0 by omega]
          rfl)
    s ⟨fun _ => h, fun h0 => by omega⟩
  exact ⟨s', hrun, hq.2 hlen⟩

/-- The replies to the `GetObjectPropsSupported` commands: each data phase
adds to the property table, which is complete when the last Response OK hands
over. -/
theorem attach_formats (K : Limits) (s0 b : MTPDevice) (dProps : List (List Nat))
    (N : Nat) (ids : Nat → Nat) (F : Nat) (fs : Nat → Nat) (cN : List (List Nat))
    (hF : 0 < F) (hF8 : F < 256)
    (hP : 0 < (learnProps b dProps).cnt_object_property_ids_)
    (hlen : dProps.length = F) (hwrap : s0.transaction_id_ + 3 + N + F < 4294967296)
    (s : MTPDevice)
    (h : AttachAt K s0 s MTP_OPERATION_GET_OBJECT_PROPS_SUPPORTED 0 (3 + N)
      (cN ++ (List.range 1).map (propsSupportedCmd s0.transaction_id_ N fs))
      N ids F fs b.cnt_object_property_ids_ b.object_property_ids_) :
    ∃ s', run K s (dProps.flatMap (reply MTP_OPERATION_GET_OBJECT_PROPS_SUPPORTED)) = .ok s' ∧
      AttachAt K s0 s' MTP_OPERATION_GET_OBJECT_PROP_DESC 0 (3 + N + F)
        (cN ++ (List.range F).map (propsSupportedCmd s0.transaction_id_ N fs)
          ++ (List.range 1).map (propDescCmd s0.transaction_id_ N F
            (learnProps b dProps).object_property_ids_))
        N ids F fs (learnProps b dProps).cnt_object_property_ids_
        (learnProps b dProps).object_property_ids_ := by
  obtain ⟨s', hrun, hq⟩ := iterate_replies K MTP_OPERATION_GET_OBJECT_PROPS_SUPPORTED dProps
    (fun i t =>
      (i < F → AttachAt K s0 t MTP_OPERATION_GET_OBJECT_PROPS_SUPPORTED i (3 + N + i)
        (cN ++ (List.range (i + 1)).map (propsSupportedCmd s0.transaction_id_ N fs))
        N ids F fs (learnProps b (dProps.take i)).cnt_object_property_ids_
        (learnProps b (dProps.take i)).object_property_ids_) ∧
      (i = F → AttachAt K s0 t MTP_OPERATION_GET_OBJECT_PROP_DESC 0 (3 + N + F)
        (cN ++ (List.range F).map (propsSupportedCmd s0.transaction_id_ N fs)
          ++ (List.range 1).map (propDescCmd s0.transaction_id_ N F
            (learnProps b dProps).object_property_ids_))
        N ids F fs (learnProps b dProps).cnt_object_property_ids_
        (learnProps b dProps).object_property_ids_))
    (fun i d t hd hq => by
      have hi : i < F := by rw [← hlen]; exact get_some_lt hd
      have ht := hq.1 hi
      have htab := processObjectPropsSupported_congr t (learnProps b (dProps.take i))
        (dataContainer MTP_OPERATION_GET_OBJECT_PROPS_SUPPORTED d) ht.hP ht.hps
      rw [← learnProps_snoc, ← take_succ_of_get hd] at htab
      have hd1 := run_one K t _ _ (step_propsSupported K t d)
      obtain ⟨t1, e1⟩ : ∃ t1, processObjectPropsSupported t
          (dataContainer MTP_OPERATION_GET_OBJECT_PROPS_SUPPORTED d) = t1 := ⟨_, rfl⟩
      rw [e1] at htab hd1
      have ht1 : AttachAt K s0 t1
          MTP_OPERATION_GET_OBJECT_PROPS_SUPPORTED i (3 + N + i)
          (cN ++ (List.range (i + 1)).map (propsSupportedCmd s0.transaction_id_ N fs))
          N ids F fs (learnProps b (dProps.take (i + 1))).cnt_object_property_ids_
          (learnProps b (dProps.take (i + 1))).object_property_ids_ :=
        ⟨by rw [← e1]; exact ht.hop, by rw [← e1]; exact ht.hidx, by rw [← e1]; exact ht.htid,
          by rw [← e1]; exact ht.hout, by rw [← e1]; exact ht.hN,
          by rw [← e1]; exact ht.hids, by rw [← e1]; exact ht.hroots,
          by rw [← e1]; exact ht.hF, by rw [← e1]; exact ht.hfs, htab.1, htab.2⟩
      by_cases hnext : i + 1 < F
      · obtain ⟨t2, hresp, ht2⟩ := ht1.respond MTP_OPERATION_GET_OBJECT_PROPS_SUPPORTED (i + 1)
          (3 + N + i + 1) _
          (fun s1 c hc => cascade_getObjectPropsSupported_next K (rebase s0 t1) s1 c _ _ _ hc
            (by show s0.transaction_id_ + (3 + N + i) + 1 < 4294967296; omega)
            (by show i + 1 < t1.cnt_object_formats_
                rw [ht1.hF]; exact hnext)
            (by show t1.cnt_object_formats_ < 256
                rw [ht1.hF]; exact hF8))
        refine ⟨t2, run_append K _ _ t _ t2 hd1 (run_one K _ t2 _ hresp), ?_, ?_⟩
        · intro _
          refine (ht2.k_eq (by omega)).cmds_eq ?_
          rw [List.range_succ (i + 1), List.map_append, List.append_assoc]
          simp only [List.map_cons, List.map_nil, propsSupportedCmd]
          rw [← ht1.hfs]
          show _ ++ (_ ++ [commandContainer _ (s0.transaction_id_ + (3 + N + i + 1)) _]) = _
          rw [show s0.transaction_id_ + (3 + N + i + 1)
            = s0.transaction_id_ + 3 + N + (i + 1) by omega]
          rfl
        · intro h; omega
      · have hlast : i + 1 = F := by omega
        have hall : dProps.take (i + 1) = dProps := by
          rw [hlast, ← hlen]; exact List.take_length _
        rw [hall] at ht1
        obtain ⟨t2, hresp, ht2⟩ := ht1.respond MTP_OPERATION_GET_OBJECT_PROP_DESC 0
          (3 + N + i + 1) _
          (fun s1 c hc => cascade_getObjectPropsSupported_last K (rebase s0 t1) s1 c _ _ _ hc
            (by show s0.transaction_id_ + (3 + N + i) + 1 < 4294967296; omega)
            (by show i + 1 = t1.cnt_object_formats_
                rw [ht1.hF]; exact hlast)
            (by show t1.cnt_object_formats_ < 256
                rw [ht1.hF]; exact hF8)
            (by show t1.cnt_object_property_ids_ ≠ 0
                rw [ht1.hP]; omega))
        refine ⟨t2, run_append K _ _ t _ t2 hd1 (run_one K _ t2 _ hresp), ?_, ?_⟩
        · intro h; omega
        · intro _
          refine (ht2.k_eq (by omega)).cmds_eq ?_
          rw [hlast]
          simp only [show List.range 1 = [0] from rfl, List.map_cons, List.map_nil,
            propDescCmd]
          rw [← ht1.hps]
          show _ ++ [commandContainer _ (s0.transaction_id_ + (3 + N + i + 1)) _] = _
          rw [show s0.transaction_id_ + (3 + N + i + 1)
            = s0.transaction_id_ + 3 + N + F + 0 by omega]
          rfl)
    s ⟨fun _ => h, fun h0 => by omega⟩
  exact ⟨s', hrun, hq.2 hlen⟩

/-- The replies to the `GetObjectPropDesc` commands; the last Response OK
ends the cascade. -/
theorem attach_propDescs (K : Limits) (s0 : MTPDevice) (dPropDesc : List (List Nat))
    (N : Nat) (ids : Nat → Nat) (F : Nat) (fs : Nat → Nat) (P : Nat) (ps : Nat → Nat)
    (cF : List (List Nat)) (hP : 0 < P) (hP8 : P < 256)
    (hlen : dPropDesc.length = P)
    (hwrap : s0.transaction_id_ + 3 + N + F + P ≤ 4294967296)
    (s : MTPDevice)
    (h : AttachAt K s0 s MTP_OPERATION_GET_OBJECT_PROP_DESC 0 (3 + N + F)
      (cF ++ (List.range 1).map (propDescCmd s0.transaction_id_ N F ps)) N ids F fs P ps) :
    ∃ s', run K s (dPropDesc.flatMap (reply MTP_OPERATION_GET_OBJECT_PROP_DESC)) = .ok s' ∧
      s'.setup_complete_ = true ∧
      s'.bulk_out = s0.bulk_out ++ (cF ++ (List.range P).map (propDescCmd s0.transaction_id_ N F ps)) ∧
      s'.cnt_storages_ = N ∧ (∀ j, idOf s'.heap j = ids j) ∧
      s'.cnt_object_formats_ = F ∧ s'.object_formats_ = fs ∧
      s'.cnt_object_property_ids_ = P ∧ s'.object_property_ids_ = ps := by
  obtain ⟨s', hrun, hq⟩ := iterate_replies K MTP_OPERATION_GET_OBJECT_PROP_DESC dPropDesc
    (fun i t =>
      (i < P → AttachAt K s0 t MTP_OPERATION_GET_OBJECT_PROP_DESC i (3 + N + F + i)
        (cF ++ (List.range (i + 1)).map (propDescCmd s0.transaction_id_ N F ps))
        N ids F fs P ps) ∧
      (i = P → t.setup_complete_ = true ∧
        t.bulk_out = s0.bulk_out
          ++ (cF ++ (List.range P).map (propDescCmd s0.transaction_id_ N F ps)) ∧
        t.cnt_storages_ = N ∧ (∀ j, idOf t.heap j = ids j) ∧
        t.cnt_object_formats_ = F ∧ t.object_formats_ = fs ∧
        t.cnt_object_property_ids_ = P ∧ t.object_property_ids_ = ps))
    (fun i d t hd hq => by
      have hi : i < P := by rw [← hlen]; exact get_some_lt hd
      have ht := hq.1 hi
      have hd1 := run_one K t _ _ (step_propDesc K t d)
      by_cases hnext : i + 1 < P
      · obtain ⟨t2, hresp, ht2⟩ := ht.respond MTP_OPERATION_GET_OBJECT_PROP_DESC (i + 1)
          (3 + N + F + i + 1) _
          (fun s1 c hc => cascade_getObjectPropDesc_next K (rebase s0 t) s1 c _ _ _ hc
            (by show s0.transaction_id_ + (3 + N + F + i) + 1 < 4294967296; omega)
            (by show i + 1 < t.cnt_object_property_ids_; rw [ht.hP]; exact hnext)
            (by show t.cnt_object_property_ids_ < 256; rw [ht.hP]; exact hP8))
        refine ⟨t2, run_append K _ _ t _ t2 hd1 (run_one K _ t2 _ hresp), ?_, ?_⟩
        · intro _
          refine (ht2.k_eq (by omega)).cmds_eq ?_
          rw [List.range_succ (i + 1), List.map_append, List.append_assoc]
          simp only [List.map_cons, List.map_nil, propDescCmd]
          rw [← ht.hps]
          show _ ++ (_ ++ [commandContainer _ (s0.transaction_id_ + (3 + N + F + i + 1)) _]) = _
          rw [show s0.transaction_id_ + (3 + N + F + i + 1)
            = s0.transaction_id_ + 3 + N + F + (i + 1) by omega]
          rfl
        · intro h; omega
      · have hlast : i + 1 = P := by omega
        have hidx1 : ¬ MTPDevice.get_store_info_index_
            (nextStoreInfoIndex { t with last_response_ := MTP_RESPONSE_OK })
            < t.cnt_object_property_ids_ := by
          show ¬ (t.get_store_info_index_ + 1) % 256 < t.cnt_object_property_ids_
          rw [ht.hidx, ht.hP, Nat.mod_eq_of_lt (by omega)]
          omega
        have hresp : step K t okResponse = .ok
            { nextStoreInfoIndex { t with last_response_ := MTP_RESPONSE_OK } with
              setup_complete_ := true } := by
          rw [step_okResponse,
            responseOK_getObjectPropDesc K { t with last_response_ := MTP_RESPONSE_OK } _ ht.hop]
          unfold responseGetObjectPropDesc
          rw [if_neg hidx1]
        refine ⟨_, run_append K _ _ t _ _ hd1 (run_one K _ _ _ hresp), ?_, ?_⟩
        · intro h; omega
        · intro _
          refine ⟨rfl, ?_, ht.hN, ht.hids, ht.hF, ht.hfs, ht.hP, ht.hps⟩
          show t.bulk_out = _
          rw [ht.hout, hlast])
    s ⟨fun _ => h, fun h0 => by omega⟩
  exact ⟨s', hrun, hq.2 hlen⟩

theorem processDescriptorData_congr (K : Limits) (s t : MTPDevice) (c : List Nat)
    (h : s.object_formats_ = t.object_formats_) :
    (processDescriptorData K s c).cnt_object_formats_
        = (processDescriptorData K t c).cnt_object_formats_ ∧
      (processDescriptorData K s c).object_formats_
        = (processDescriptorData K t c).object_formats_ := by
  simp only [processDescriptorData, h, and_self]

theorem processDevicePropDesc_same (s : MTPDevice) (c : List Nat) :
    (processDevicePropDesc s c).last_mtp_op_ = s.last_mtp_op_ ∧
    (processDevicePropDesc s c).get_store_info_index_ = s.get_store_info_index_ ∧
    (processDevicePropDesc s c).transaction_id_ = s.transaction_id_ ∧
    (processDevicePropDesc s c).bulk_out = s.bulk_out ∧
    (processDevicePropDesc s c).heap = s.heap ∧
    (processDevicePropDesc s c).cnt_storages_ = s.cnt_storages_ ∧
    (processDevicePropDesc s c).cnt_object_formats_ = s.cnt_object_formats_ ∧
    (processDevicePropDesc s c).object_formats_ = s.object_formats_ ∧
    (processDevicePropDesc s c).cnt_object_property_ids_ = s.cnt_object_property_ids_ ∧
    (processDevicePropDesc s c).object_property_ids_ = s.object_property_ids_ := by
  unfold processDevicePropDesc
  simp only []
  split <;> exact ⟨rfl, rfl, rfl, rfl, rfl, rfl, rfl, rfl, rfl, rfl⟩

theorem cascadeCommands_of_tables (ref : MTPDevice) (t0 N : Nat) (ids : Nat → Nat) (F : Nat)
    (fs : Nat → Nat) (P : Nat) (ps : Nat → Nat)
    (h1 : ref.transaction_id_ = t0) (h2 : ref.cnt_storages_ = N)
    (h3 : ∀ j, idOf ref.heap j = ids j) (h4 : ref.cnt_object_formats_ = F)
    (h5 : ref.object_formats_ = fs) (h6 : ref.cnt_object_property_ids_ = P)
    (h7 : ref.object_property_ids_ = ps) (head : List (List Nat))
    (hhead : cascadeHead ref = head) :
    head ++ (List.range N).map (storageInfoCmd t0 ids)
        ++ (List.range F).map (propsSupportedCmd t0 N fs)
        ++ (List.range P).map (propDescCmd t0 N F ps)
      = cascadeCommands ref := by
  have e1 : (List.range N).map (storageInfoCmd t0 ids)
      = (List.range ref.cnt_storages_).map (storageInfoCommand ref) := by
    rw [h2]
    apply List.map_congr_left
    intro j _
    simp only [storageInfoCmd, storageInfoCommand, h1, h3 j]
  have e2 : (List.range F).map (propsSupportedCmd t0 N fs)
      = (List.range ref.cnt_object_formats_).map (propsSupportedCommand ref) := by
    rw [h4]
    apply List.map_congr_left
    intro j _
    simp only [propsSupportedCmd, propsSupportedCommand, h1, h2, h5]
  have e3 : (List.range P).map (propDescCmd t0 N F ps)
      = (List.range ref.cnt_object_property_ids_).map (propDescCommand ref) := by
    rw [h6]
    apply List.map_congr_left
    intro j _
    simp only [propDescCmd, propDescCommand, h1, h2, h4, h7]
  rw [e1, e2, e3, ← hhead]
  rfl

/-- C16 (amended): an attach (`claim`) in any state whose storage roots are
live, for instance the initial state or a state after `disconnect`, in which
the device answers every command: the data phase of the command, then
Response OK.  `N`, `F` and `P` are the tables as learnt during the run: `N`
the number of storages recorded from the `GetStorageIDs` data, `F` the number
of playback formats recorded from the `GetDeviceInfo` data, `P` the number of
property ids accumulated over the `GetObjectPropsSupported` data phases.  If
each of them is at least 1 (and below 256, the range of the 8-bit index, the
32-bit transaction counter not wrapping), the run succeeds, the commands
queued since attach are exactly GetDeviceInfo, OpenSession(42),
GetDevicePropDesc(0xD402), GetStorageIDs, GetStorageInfo for every storage,
GetObjectPropsSupported for every format and GetObjectPropDesc for every
property id, in this order and with the table entries of the final state, and
`setup_complete_` is true. -/
theorem bootstrap_cascade (K : Limits) (s0 : MTPDevice) (rx tx ev : Nat)
    (dInfo dDesc dIds : List Nat) (dStore dProps dPropDesc : List (List Nat))
    (hroots : ∀ j, j < K.MAX_STORAGES → ∃ r, load s0.heap j = .ok r)
    (hN : 0 < storageCount K dIds)
    (hF : 0 < (learnFormats K s0 dInfo).cnt_object_formats_)
    (hP : 0 < (learnProps s0 dProps).cnt_object_property_ids_)
    (hN8 : storageCount K dIds < 256)
    (hF8 : (learnFormats K s0 dInfo).cnt_object_formats_ < 256)
    (hP8 : (learnProps s0 dProps).cnt_object_property_ids_ < 256)
    (hlenN : dStore.length = storageCount K dIds)
    (hlenF : dProps.length = (learnFormats K s0 dInfo).cnt_object_formats_)
    (hlenP : dPropDesc.length = (learnProps s0 dProps).cnt_object_property_ids_)
    (hwrap : s0.transaction_id_ + 3 + storageCount K dIds
      + (learnFormats K s0 dInfo).cnt_object_formats_
      + (learnProps s0 dProps).cnt_object_property_ids_ ≤ 4294967296) :
    ∃ s', run K s0 (attachRun rx tx ev dInfo dDesc dIds dStore dProps dPropDesc) = .ok s' ∧
      s'.cnt_storages_ = storageCount K dIds ∧
      s'.cnt_object_formats_ = (learnFormats K s0 dInfo).cnt_object_formats_ ∧
      s'.object_formats_ = (learnFormats K s0 dInfo).object_formats_ ∧
      s'.cnt_object_property_ids_ = (learnProps s0 dProps).cnt_object_property_ids_ ∧
      s'.object_property_ids_ = (learnProps s0 dProps).object_property_ids_ ∧
      s'.bulk_out = s0.bulk_out
        ++ cascadeCommands { s' with transaction_id_ := s0.transaction_id_ } ∧
      s'.setup_complete_ = true := by
  have hNle : storageCount K dIds ≤ K.MAX_STORAGES := by
    unfold storageCount
    split <;> omega
  -- attach
  obtain ⟨c1, c2, c3, c4, c5, c6, c7, c8, c9, c10⟩ := claim_cascadeAt s0 rx tx ev
  have h0 : AttachAt K s0 (claim s0 rx tx ev) MTP_OPERATION_GET_DEVICE_INFO
      s0.get_store_info_index_ 0
      [commandContainer MTP_OPERATION_GET_DEVICE_INFO s0.transaction_id_ []]
      s0.cnt_storages_ (idOf s0.heap) s0.cnt_object_formats_ s0.object_formats_
      s0.cnt_object_property_ids_ s0.object_property_ids_ :=
    ⟨c1, c2, c3, c4, c6, fun j => by rw [c5], by rw [c5]; exact hroots, c7, c8, c9, c10⟩
  have r0 : run K s0 [.claim rx tx ev] = .ok (claim s0 rx tx ev) := rfl
  -- GetDeviceInfo
  obtain ⟨a1, e1⟩ : ∃ a1, processDescriptorData K (claim s0 rx tx ev)
      (dataContainer MTP_OPERATION_GET_DEVICE_INFO dInfo) = a1 := ⟨_, rfl⟩
  have d1 := run_one K _ _ _ (step_deviceInfo K (claim s0 rx tx ev) dInfo)
  have hfmt := processDescriptorData_congr K (claim s0 rx tx ev) s0
    (dataContainer MTP_OPERATION_GET_DEVICE_INFO dInfo) c8
  rw [e1] at d1 hfmt
  have h1 : AttachAt K s0 a1 MTP_OPERATION_GET_DEVICE_INFO s0.get_store_info_index_ 0
      [commandContainer MTP_OPERATION_GET_DEVICE_INFO s0.transaction_id_ []]
      s0.cnt_storages_ (idOf s0.heap) (learnFormats K s0 dInfo).cnt_object_formats_
      (learnFormats K s0 dInfo).object_formats_
      s0.cnt_object_property_ids_ s0.object_property_ids_ :=
    ⟨by rw [← e1]; exact h0.hop, by rw [← e1]; exact h0.hidx, by rw [← e1]; exact h0.htid,
      by rw [← e1]; exact h0.hout, by rw [← e1]; exact h0.hN, by rw [← e1]; exact h0.hids,
      by rw [← e1]; exact h0.hroots, hfmt.1, hfmt.2, by rw [← e1]; exact h0.hP,
      by rw [← e1]; exact h0.hps⟩
  obtain ⟨a2, r2, h2⟩ := h1.respond MTP_OPERATION_OPEN_SESSION _ 0 _
    (fun s1 c hc => cascade_getDeviceInfo K (rebase s0 a1) s1 c _ _ _ hc)
  -- OpenSession
  obtain ⟨a3, r3, h3⟩ := h2.respond MTP_OPERATION_GET_DEVICE_PROP_DESC _ (0 + 1) _
    (fun s1 c hc => cascade_openSession K (rebase s0 a2) s1 c _ _ _ hc
      (by show s0.transaction_id_ + 0 + 1 < 4294967296; omega))
  -- GetDevicePropDesc
  obtain ⟨p1, p2, p3, p4, p5, p6, p7, p8, p9, p10⟩ := processDevicePropDesc_same a3
    (dataContainer MTP_OPERATION_GET_DEVICE_PROP_DESC dDesc)
  obtain ⟨a4, e4⟩ : ∃ a4, processDevicePropDesc a3
      (dataContainer MTP_OPERATION_GET_DEVICE_PROP_DESC dDesc) = a4 := ⟨_, rfl⟩
  have d4 := run_one K _ _ _ (step_devicePropDesc K a3 dDesc)
  rw [e4] at d4 p1 p2 p3 p4 p5 p6 p7 p8 p9 p10
  have h4 : AttachAt K s0 a4 MTP_OPERATION_GET_DEVICE_PROP_DESC s0.get_store_info_index_
      (0 + 1) _ s0.cnt_storages_ (idOf s0.heap) (learnFormats K s0 dInfo).cnt_object_formats_
      (learnFormats K s0 dInfo).object_formats_
      s0.cnt_object_property_ids_ s0.object_property_ids_ :=
    ⟨p1.trans h3.hop, p2.trans h3.hidx, p3.trans h3.htid, p4.trans h3.hout, p6.trans h3.hN,
      by rw [p5]; exact h3.hids, by rw [p5]; exact h3.hroots, p7.trans h3.hF,
      p8.trans h3.hfs, p9.trans h3.hP, p10.trans h3.hps⟩
  obtain ⟨a5, r5, h5⟩ := h4.respond MTP_OPERATION_GET_STORAGE_IDS _ (0 + 1 + 1) _
    (fun s1 c hc => cascade_getDevicePropDesc K (rebase s0 a4) s1 c _ _ _ hc
      (by show s0.transaction_id_ + (0 + 1) + 1 < 4294967296; omega))
  -- GetStorageIDs
  obtain ⟨a6, e6, q1, q2, q3, q4, q5, q6, q7, q8, q9, q10⟩ :=
    processGetStorageIDs_attach K a5 dIds h5.hroots
  have d6 := run_one K _ _ _ ((step_storageIDs K a5 dIds).trans e6)
  have h6 : AttachAt K s0 a6 MTP_OPERATION_GET_STORAGE_IDS s0.get_store_info_index_
      (0 + 1 + 1) _ (storageCount K dIds) (idOf a6.heap)
      (learnFormats K s0 dInfo).cnt_object_formats_ (learnFormats K s0 dInfo).object_formats_
      s0.cnt_object_property_ids_ s0.object_property_ids_ :=
    ⟨q1.trans h5.hop, q2.trans h5.hidx, q3.trans h5.htid, q4.trans h5.hout, q6,
      fun _ => rfl, q5, q7.trans h5.hF, q8.trans h5.hfs, q9.trans h5.hP, q10.trans h5.hps⟩
  obtain ⟨root0, hroot0⟩ := h6.hroots 0 (by omega)
  obtain ⟨a7, r7, h7⟩ := h6.respond MTP_OPERATION_GET_STORAGE_INFO 0 (0 + 1 + 1 + 1) _
    (fun s1 c hc => cascade_getStorageIDs K (rebase s0 a6) s1 c _ _ _ root0 hc
      (by show s0.transaction_id_ + (0 + 1 + 1) + 1 < 4294967296; omega)
      (by show a6.cnt_storages_ ≠ 0; rw [h6.hN]; omega) hroot0)
  have h7' : AttachAt K s0 a7 MTP_OPERATION_GET_STORAGE_INFO 0 3
      (cascadeHead s0 ++ (List.range 1).map (storageInfoCmd s0.transaction_id_ (idOf a6.heap)))
      (storageCount K dIds) (idOf a6.heap)
      (learnFormats K s0 dInfo).cnt_object_formats_ (learnFormats K s0 dInfo).object_formats_
      s0.cnt_object_property_ids_ s0.object_property_ids_ :=
    h7.cmds_eq rfl
  -- the three tables
  obtain ⟨a8, r8, h8⟩ := attach_storages K s0 dStore _ _ _ _ _ _ hN hNle hN8 hF hlenN
    (by omega) a7 h7'
  obtain ⟨a9, r9, h9⟩ := attach_formats K s0 s0 dProps _ _ _ _ _ hF hF8 hP hlenF (by omega)
    a8 h8
  obtain ⟨s', r10, hdone, hout, t1, t2, t3, t4, t5, t6⟩ := attach_propDescs K s0 dPropDesc
    _ _ _ _ _ _ _ hP hP8 hlenP hwrap a9 h9
  refine ⟨s', ?_, t1, t3, t4, t5, t6, ?_, hdone⟩
  · have rr1 : run K (claim s0 rx tx ev) (reply MTP_OPERATION_GET_DEVICE_INFO dInfo) = .ok a2 :=
      run_append K [_] [_] _ _ _ d1 (run_one K _ _ _ r2)
    have rr4 : run K a3 (reply MTP_OPERATION_GET_DEVICE_PROP_DESC dDesc) = .ok a5 :=
      run_append K [_] [_] _ _ _ d4 (run_one K _ _ _ r5)
    have rr6 : run K a5 (reply MTP_OPERATION_GET_STORAGE_IDS dIds) = .ok a7 :=
      run_append K [_] [_] _ _ _ d6 (run_one K _ _ _ r7)
    unfold attachRun
    simp only [List.append_assoc]
    refine run_append K _ _ _ _ _ r0 ?_
    refine run_append K _ _ _ _ _ rr1 ?_
    refine run_append K _ _ _ _ _ (run_one K _ _ _ r3) ?_
    refine run_append K _ _ _ _ _ rr4 ?_
    refine run_append K _ _ _ _ _ rr6 ?_
    refine run_append K _ _ _ _ _ r8 ?_
    exact run_append K _ _ _ _ _ r9 r10
  · rw [hout]
    congr 1
    exact cascadeCommands_of_tables { s' with transaction_id_ := s0.transaction_id_ }
      s0.transaction_id_ _ _ _ _ _ _ rfl t1 t2 t3 t4 t5 t6 (cascadeHead s0) rfl

/-- C16 witness: the first attach of the driver.  The device reports the
playback format 0x3009, the storage 7 and the object property 0xDC07; the
cascade runs through its seven commands and the setup is complete. -/
theorem bootstrap_cascade_witness :
    storageCount demoLimits (handlesPayload [7]) = 1 ∧
    (learnFormats demoLimits demoInitial (deviceInfoPayload [0x3009])).cnt_object_formats_ = 1 ∧
    (learnProps demoInitial [propsPayload [0xDC07]]).cnt_object_property_ids_ = 1 ∧
    ∃ s', run demoLimits demoInitial
        (attachRun 512 512 32 (deviceInfoPayload [0x3009]) [] (handlesPayload [7]) [[]]
          [propsPayload [0xDC07]] [[]]) = .ok s' ∧
      s'.cnt_storages_ = storageCount demoLimits (handlesPayload [7]) ∧
      s'.cnt_object_formats_
        = (learnFormats demoLimits demoInitial (deviceInfoPayload [0x3009])).cnt_object_formats_ ∧
      s'.object_formats_
        = (learnFormats demoLimits demoInitial (deviceInfoPayload [0x3009])).object_formats_ ∧
      s'.cnt_object_property_ids_
        = (learnProps demoInitial [propsPayload [0xDC07]]).cnt_object_property_ids_ ∧
      s'.object_property_ids_
        = (learnProps demoInitial [propsPayload [0xDC07]]).object_property_ids_ ∧
      s'.bulk_out = demoInitial.bulk_out
        ++ cascadeCommands { s' with transaction_id_ := demoInitial.transaction_id_ } ∧
      s'.setup_complete_ = true :=
  ⟨by decide, by decide, by decide,
   bootstrap_cascade demoLimits demoInitial 512 512 32 (deviceInfoPayload [0x3009]) []
     (handlesPayload [7]) [[]] [propsPayload [0xDC07]] [[]] demoInitial_roots
     (by decide) (by decide) (by decide) (by decide) (by decide) (by decide)
     (by decide) (by decide) (by decide) (by decide)⟩

/-- C16 counterexample: three first attaches in which the device answers
every command.  With no storage reported the cascade ends after
`GetStorageIDs`, with a storage but no playback format after
`GetStorageInfo`, with a storage and a format but no object property after
`GetObjectPropsSupported`; each time `setup_complete_` stays false. -/
theorem bootstrap_cascade_counterexample :
    (storageCount demoLimits (handlesPayload []) = 0 ∧
      ∃ s', run demoLimits demoInitial
          (attachRun 512 512 32 (deviceInfoPayload [0x3009]) [] (handlesPayload []) [] [] [])
          = .ok s' ∧ s'.bulk_out.length = 4 ∧ s'.setup_complete_ = false) ∧
    (storageCount demoLimits (handlesPayload [7]) = 1 ∧
      (learnFormats demoLimits demoInitial (deviceInfoPayload [])).cnt_object_formats_ = 0 ∧
      ∃ s', run demoLimits demoInitial
          (attachRun 512 512 32 (deviceInfoPayload []) [] (handlesPayload [7]) [[]] [] [])
          = .ok s' ∧ s'.bulk_out.length = 5 ∧ s'.setup_complete_ = false) ∧
    (storageCount demoLimits (handlesPayload [7]) = 1 ∧
      (learnFormats demoLimits demoInitial (deviceInfoPayload [0x3009])).cnt_object_formats_
        = 1 ∧
      (learnProps demoInitial [propsPayload []]).cnt_object_property_ids_ = 0 ∧
      ∃ s', run demoLimits demoInitial
          (attachRun 512 512 32 (deviceInfoPayload [0x3009]) [] (handlesPayload [7]) [[]]
            [propsPayload []] [])
          = .ok s' ∧ s'.bulk_out.length = 6 ∧ s'.setup_complete_ = false) :=
  ⟨⟨by decide, _, rfl, rfl, rfl⟩, ⟨by decide, by decide, _, rfl, rfl, rfl⟩,
   ⟨by decide, by decide, by decide, _, rfl, rfl, rfl⟩⟩

end MTP
